import Mathlib

/-!
Verification of bpm_display: buffer pool, LRU replacer, extendible hash table
and B+ tree.

A shallow embedding of the storage-engine sources
(`src/buffer/*.cpp`, `src/container/hash/extendible_hash_table.cpp`,
`src/storage/page/*.cpp`, `src/storage/index/b_plus_tree.cpp`).

Conventions of the embedding

* `page_id_t` (a C++ `int32_t`) is an `Int`; `frame_id_t` values are indices
  into the frame array and are kept as `Nat`.
* The bytes of a page are a function from byte offset to byte value; the
  zeroed page is `zeroData`.
* `std::unordered_map` is a finite partial function, here `key → Option value`;
  the sources never iterate over a map, so no iteration order is modelled.
* The mutexes and latches are not modelled: every operation is one atomic
  state transition, as it is under the single coarse latch of the source.
* `assert` (in `ValidatePageId`) is modelled by the Boolean `ValidatePageId`;
  the transition functions describe the execution that continues past it.
-/

namespace bustub

/-! ## Common types -/

abbrev page_id_t := Int

abbrev frame_id_t := Nat

/-- The sentinel page id `INVALID_PAGE_ID` (`-1`). -/
def INVALID_PAGE_ID : page_id_t := -1

/-- Page contents: the byte stored at every offset of the page buffer. -/
abbrev PageData := Nat → Nat

/-- Result of `Page::ResetMemory`: every byte is zero. -/
def zeroData : PageData := fun _ => 0

/-- Two's-complement wrap of an integer into the `int32_t` range. -/
def toInt32 (z : Int) : Int := (z + 2147483648) % 4294967296 - 2147483648

/-- A frame of the buffer pool (`class Page`): buffer plus metadata. -/
structure Page where
  data : PageData
  page_id : page_id_t
  pin_count : Int
  is_dirty : Bool

/-- A freshly constructed `Page`: zeroed, no page, unpinned, clean. -/
def Page.fresh : Page :=
  { data := zeroData, page_id := INVALID_PAGE_ID, pin_count := 0, is_dirty := false }

/-! ## LRU replacer (`src/buffer/lru_replacer.cpp`) -/

/-- State of `LRUReplacer`: `dll` is the `std::list` (front of the list is the
head), `hashmap` holds the keys of the `unordered_map` from frame id to list
iterator; the iterator stored for `f` designates the list node holding `f`. -/
structure LRUReplacer where
  dll : List frame_id_t
  hashmap : List frame_id_t

/-- A replacer right after construction. -/
def LRUReplacer.empty : LRUReplacer := { dll := [], hashmap := [] }

/-- Model of `LRUReplacer::Victim`: pop the back of the list; `none` when it is empty. -/
def LRUReplacer.Victim (r : LRUReplacer) : Option frame_id_t × LRUReplacer :=
  match r.dll.getLast? with
  | some f => (some f, { dll := r.dll.dropLast, hashmap := r.hashmap.erase f })
  | none => (none, r)

/-- Model of `LRUReplacer::Pin`: drop the frame from list and map when it is tracked. -/
def LRUReplacer.Pin (r : LRUReplacer) (frame_id : frame_id_t) : LRUReplacer :=
  if frame_id ∈ r.hashmap then
    { dll := r.dll.erase frame_id, hashmap := r.hashmap.erase frame_id }
  else r

/-- Model of `LRUReplacer::Unpin`: push the frame at the front when it is not tracked. -/
def LRUReplacer.Unpin (r : LRUReplacer) (frame_id : frame_id_t) : LRUReplacer :=
  if frame_id ∈ r.hashmap then r
  else { dll := frame_id :: r.dll, hashmap := frame_id :: r.hashmap }

/-- Model of `LRUReplacer::Size`: number of keys of the map. -/
def LRUReplacer.Size (r : LRUReplacer) : Nat := r.hashmap.length

/-- Up to `n` successive `Victim` calls: the frames returned by the successful
calls, in call order, and the replacer left behind. It stops at the first
failing call. -/
def LRUReplacer.victims : Nat → LRUReplacer → List frame_id_t × LRUReplacer
  | 0, r => ([], r)
  | n + 1, r =>
    match r.Victim with
    | (some f, r') => (f :: (LRUReplacer.victims n r').1, (LRUReplacer.victims n r').2)
    | (none, r') => ([], r')

/-! ## Buffer pool manager instance (`src/buffer/buffer_pool_manager_instance.cpp`) -/

/-- State of a `BufferPoolManagerInstance` together with the disk it talks to.
`disk` is the content the disk manager returns for every page id. -/
structure BufferPoolManagerInstance where
  pool_size : Nat
  num_instances : Nat
  instance_index : Nat
  next_page_id : page_id_t
  pages : frame_id_t → Page
  page_table : page_id_t → Option frame_id_t
  free_list : List frame_id_t
  replacer : LRUReplacer
  disk : page_id_t → PageData

/-- Assignment to `pages_[f]`. -/
def setPage (pages : frame_id_t → Page) (f : frame_id_t) (p : Page) : frame_id_t → Page :=
  fun g => if g = f then p else pages g

/-- Model of `page_table_.erase(k)`. -/
def mapErase (t : page_id_t → Option frame_id_t) (k : page_id_t) : page_id_t → Option frame_id_t :=
  fun q => if q = k then none else t q

/-- Model of `page_table_.insert({k, v})`: `std::unordered_map::insert` keeps an existing entry. -/
def mapInsert (t : page_id_t → Option frame_id_t) (k : page_id_t) (v : frame_id_t) :
    page_id_t → Option frame_id_t :=
  fun q => if q = k then (match t k with | some w => some w | none => some v) else t q

/-- Model of `page_table_[k]` used as an rvalue: `operator[]` value-initialises a missing
entry to frame `0` and returns the stored frame id. -/
def mapIndex (t : page_id_t → Option frame_id_t) (k : page_id_t) :
    frame_id_t × (page_id_t → Option frame_id_t) :=
  match t k with
  | some v => (v, t)
  | none => (0, fun q => if q = k then some 0 else t q)

/-- Model of `DiskManager::WritePage(page_id, data)`. -/
def WritePage (disk : page_id_t → PageData) (page_id : page_id_t) (data : PageData) :
    page_id_t → PageData :=
  fun q => if q = page_id then data else disk q

namespace BufferPoolManagerInstance

/-- The constructor: every frame is fresh and on the free list, in index order. -/
def construct (pool_size num_instances instance_index : Nat) (disk : page_id_t → PageData) :
    BufferPoolManagerInstance :=
  { pool_size := pool_size
    num_instances := num_instances
    instance_index := instance_index
    next_page_id := (instance_index : Int)
    pages := fun _ => Page.fresh
    page_table := fun _ => none
    free_list := List.range pool_size
    replacer := LRUReplacer.empty
    disk := disk }

/-- The condition asserted by `ValidatePageId`; the `int32_t` page id is
converted to `uint32_t` before the remainder is taken. -/
def ValidatePageId (s : BufferPoolManagerInstance) (page_id : page_id_t) : Bool :=
  (page_id % 4294967296).toNat % s.num_instances == s.instance_index

/-- Model of `AllocatePage`: returns the current counter and advances it by
`num_instances_`; the counter is a 32-bit page id and the addition wraps. -/
def AllocatePage (s : BufferPoolManagerInstance) : page_id_t × BufferPoolManagerInstance :=
  (s.next_page_id, { s with next_page_id := toInt32 (s.next_page_id + (s.num_instances : Int)) })

/-- Model of `FlushPgImp`. -/
def FlushPgImp (s : BufferPoolManagerInstance) (page_id : page_id_t) :
    Bool × BufferPoolManagerInstance :=
  match s.page_table page_id with
  | some index =>
    if (s.pages index).is_dirty then
      (true, { s with
        disk := WritePage s.disk page_id (s.pages index).data
        pages := setPage s.pages index { s.pages index with is_dirty := false } })
    else (true, s)
  | none => (false, s)

/-- One iteration of the loop of `FlushAllPgsImp`: `FlushPgImp(page_table_[i])`. -/
def FlushAllStep (s : BufferPoolManagerInstance) (i : Nat) : BufferPoolManagerInstance :=
  (FlushPgImp { s with page_table := (mapIndex s.page_table (i : Int)).2 }
    ((mapIndex s.page_table (i : Int)).1 : Int)).2

/-- Model of `FlushAllPgsImp`: the loop `for i in 0 .. pool_size_ - 1`. -/
def FlushAllPgsImp (s : BufferPoolManagerInstance) : BufferPoolManagerInstance :=
  (List.range s.pool_size).foldl FlushAllStep s

/-- Body of `NewPgImp` once the frame `index` has been picked. -/
def installNew (s : BufferPoolManagerInstance) (index : frame_id_t) :
    Option (frame_id_t × page_id_t) × BufferPoolManagerInstance :=
  let pid := (AllocatePage s).1
  let s1 := (AllocatePage s).2
  let old := s1.pages index
  let s2 : BufferPoolManagerInstance :=
    if old.is_dirty then { s1 with disk := WritePage s1.disk old.page_id old.data } else s1
  (some (index, pid),
    { s2 with
      page_table := mapInsert (mapErase s2.page_table old.page_id) pid index
      replacer := s2.replacer.Pin index
      pages := setPage s2.pages index
        { data := zeroData, page_id := pid, pin_count := 1, is_dirty := false } })

/-- Model of `NewPgImp`: the result is the picked frame and the allocated page id, or
`none` for `nullptr`. -/
def NewPgImp (s : BufferPoolManagerInstance) :
    Option (frame_id_t × page_id_t) × BufferPoolManagerInstance :=
  match s.free_list with
  | index :: rest => installNew { s with free_list := rest } index
  | [] =>
    match s.replacer.Victim with
    | (some index, r) => installNew { s with replacer := r } index
    | (none, _) => (none, s)

/-- Body of the miss branch of `FetchPgImp` once the frame `index` has been picked. -/
def installFetch (s : BufferPoolManagerInstance) (page_id : page_id_t) (index : frame_id_t) :
    Option frame_id_t × BufferPoolManagerInstance :=
  let old := s.pages index
  let s2 : BufferPoolManagerInstance :=
    if old.is_dirty then { s with disk := WritePage s.disk old.page_id old.data } else s
  (some index,
    { s2 with
      page_table := mapInsert (mapErase s2.page_table old.page_id) page_id index
      replacer := s2.replacer.Pin index
      pages := setPage s2.pages index
        { data := s2.disk page_id, page_id := page_id, pin_count := 1, is_dirty := false } })

/-- Model of `FetchPgImp`: the result is the frame holding the page, or `none` for `nullptr`. -/
def FetchPgImp (s : BufferPoolManagerInstance) (page_id : page_id_t) :
    Option frame_id_t × BufferPoolManagerInstance :=
  match s.page_table page_id with
  | some index =>
    (some index,
      { s with
        replacer := s.replacer.Pin index
        pages := setPage s.pages index
          { s.pages index with pin_count := (s.pages index).pin_count + 1 } })
  | none =>
    match s.free_list with
    | index :: rest => installFetch { s with free_list := rest } page_id index
    | [] =>
      match s.replacer.Victim with
      | (some index, r) => installFetch { s with replacer := r } page_id index
      | (none, _) => (none, s)

/-- Model of `DeletePgImp`. `DeallocatePage` has no effect on the state modelled here. -/
def DeletePgImp (s : BufferPoolManagerInstance) (page_id : page_id_t) :
    Bool × BufferPoolManagerInstance :=
  match s.page_table page_id with
  | none => (true, s)
  | some index =>
    if (s.pages index).pin_count ≠ 0 then (false, s)
    else
      let old := s.pages index
      let s2 : BufferPoolManagerInstance :=
        if old.is_dirty then { s with disk := WritePage s.disk old.page_id old.data } else s
      (true,
        { s2 with
          page_table := mapErase s2.page_table old.page_id
          pages := setPage s2.pages index
            { data := zeroData, page_id := INVALID_PAGE_ID, pin_count := 0, is_dirty := false }
          free_list := s2.free_list ++ [index] })

/-- Model of `UnpinPgImp`. -/
def UnpinPgImp (s : BufferPoolManagerInstance) (page_id : page_id_t) (is_dirty : Bool) :
    Bool × BufferPoolManagerInstance :=
  match s.page_table page_id with
  | some index =>
    let pin := (s.pages index).pin_count - 1
    (true,
      { s with
        replacer := if pin = 0 then s.replacer.Unpin index else s.replacer
        pages := setPage s.pages index
          { s.pages index with
            pin_count := pin
            is_dirty := if !(s.pages index).is_dirty then is_dirty else (s.pages index).is_dirty } })
  | none => (false, s)

/-- A client of the pool writing bytes through `Page::GetData()` into frame `f`. -/
def WriteData (s : BufferPoolManagerInstance) (f : frame_id_t) (d : PageData) :
    BufferPoolManagerInstance :=
  { s with pages := setPage s.pages f { s.pages f with data := d } }

end BufferPoolManagerInstance

/-- Well-formedness of a replacer: list and map track the same frames, each once. -/
def LRUReplacer.WF (r : LRUReplacer) : Prop :=
  (∀ f, f ∈ r.dll ↔ f ∈ r.hashmap) ∧ r.dll.Nodup ∧ r.hashmap.Nodup

namespace BufferPoolManagerInstance

/-- The states a pool instance reaches from construction through its public
operations and client writes to frame bytes, where `UnpinPgImp` is only called
on a page whose frame has a positive pin count (calls on a page that is not
resident are allowed: they change nothing). -/
inductive Reachable : BufferPoolManagerInstance → Prop
  | construct (pool_size num_instances instance_index : Nat) (disk : page_id_t → PageData) :
      Reachable (construct pool_size num_instances instance_index disk)
  | NewPg {s : BufferPoolManagerInstance} (h : Reachable s) : Reachable (NewPgImp s).2
  | FetchPg {s : BufferPoolManagerInstance} (h : Reachable s) (pid : page_id_t) :
      Reachable (FetchPgImp s pid).2
  | UnpinPg {s : BufferPoolManagerInstance} (h : Reachable s) (pid : page_id_t)
      (is_dirty : Bool)
      (hpin : ∀ f, s.page_table pid = some f → 0 < (s.pages f).pin_count) :
      Reachable (UnpinPgImp s pid is_dirty).2
  | FlushPg {s : BufferPoolManagerInstance} (h : Reachable s) (pid : page_id_t) :
      Reachable (FlushPgImp s pid).2
  | FlushAllPgs {s : BufferPoolManagerInstance} (h : Reachable s) :
      Reachable (FlushAllPgsImp s)
  | DeletePg {s : BufferPoolManagerInstance} (h : Reachable s) (pid : page_id_t) :
      Reachable (DeletePgImp s pid).2
  | WriteData {s : BufferPoolManagerInstance} (h : Reachable s) (f : frame_id_t)
      (d : PageData) : Reachable (WriteData s f d)

/-- Pin-count bookkeeping that every reachable state satisfies. The frames for
which `skip` holds are exempt from the last clause (a frame just taken from the
free list or the replacer, before it is installed). -/
structure PinInv (s : BufferPoolManagerInstance) (skip : frame_id_t → Prop) : Prop where
  replacer_wf : s.replacer.WF
  pin_nonneg : ∀ f, 0 ≤ (s.pages f).pin_count
  free_lt : ∀ f, f ∈ s.free_list → f < s.pool_size
  dll_lt : ∀ f, f ∈ s.replacer.dll → f < s.pool_size
  table_lt : ∀ q f, s.page_table q = some f → f < s.pool_size
  dll_pin : ∀ f, f ∈ s.replacer.dll → (s.pages f).pin_count = 0
  zero_tracked : ∀ f, f < s.pool_size → ¬ skip f → (s.pages f).pin_count = 0 →
    f ∈ s.free_list ∨ f ∈ s.replacer.dll

end BufferPoolManagerInstance

namespace BufferPoolManagerInstance

/-- The relation `QuietFor p s t`: `t` is reached from `s` by pool operations and client
writes that neither write the bytes of a frame holding page `p` nor allocate
the page id `p` again. -/
inductive QuietFor (p : page_id_t) : BufferPoolManagerInstance → BufferPoolManagerInstance → Prop
  | refl (s : BufferPoolManagerInstance) : QuietFor p s s
  | FetchPg {s t : BufferPoolManagerInstance} (h : QuietFor p s t) (q : page_id_t) :
      QuietFor p s (FetchPgImp t q).2
  | NewPg {s t : BufferPoolManagerInstance} (h : QuietFor p s t) (hne : t.next_page_id ≠ p) :
      QuietFor p s (NewPgImp t).2
  | UnpinPg {s t : BufferPoolManagerInstance} (h : QuietFor p s t) (q : page_id_t)
      (is_dirty : Bool) : QuietFor p s (UnpinPgImp t q is_dirty).2
  | FlushPg {s t : BufferPoolManagerInstance} (h : QuietFor p s t) (q : page_id_t) :
      QuietFor p s (FlushPgImp t q).2
  | DeletePg {s t : BufferPoolManagerInstance} (h : QuietFor p s t) (q : page_id_t) :
      QuietFor p s (DeletePgImp t q).2
  | WriteData {s t : BufferPoolManagerInstance} (h : QuietFor p s t) (f : frame_id_t)
      (d : PageData) (hne : (t.pages f).page_id ≠ p) : QuietFor p s (WriteData t f d)

/-- What the flush / refetch round trip maintains for page `p` with bytes `d`:
the disk holds `d` for `p`, every frame recording page id `p` holds `d`, and
the frame the page table gives for `p` records page id `p`. -/
structure CopyInv (p : page_id_t) (d : PageData) (s : BufferPoolManagerInstance) : Prop where
  disk_eq : s.disk p = d
  frame_eq : ∀ f, (s.pages f).page_id = p → (s.pages f).data = d
  table_id : ∀ f, s.page_table p = some f → (s.pages f).page_id = p

/-- The page table is consistent with the frames: the frame it gives for a page
id records that page id. -/
def TableConsistent (s : BufferPoolManagerInstance) : Prop :=
  ∀ q f, s.page_table q = some f → (s.pages f).page_id = q

/-- Scenario for `FlushAllPgsImp`: a pool of two frames over a zeroed disk;
pages 0 and 1 are created, page 0 is unpinned, page 2 is created (it takes
frame 0 from the replacer), a client fills its frame with the byte 7 and
unpins it as dirty. Page 2 is now resident in frame 0 and dirty. -/
def flushAllScenario : BufferPoolManagerInstance :=
  (UnpinPgImp
    (WriteData
      (NewPgImp
        (UnpinPgImp
          (NewPgImp (NewPgImp (construct 2 1 0 (fun _ => zeroData))).2).2 0 false).2).2
      0 (fun _ => 7)) 2 true).2

/-- Scenario for the flush round trip: a pool of one frame over a disk whose
every page holds the byte 9; page 0 is created with `NewPgImp` (its frame is
zeroed and clean). -/
def staleDiskScenario : BufferPoolManagerInstance :=
  (NewPgImp (construct 1 1 0 (fun _ => fun _ => 9))).2

/-- The flush round trip on `staleDiskScenario`: page 0 is flushed and
unpinned, page 1 is fetched (evicting page 0) and unpinned. -/
def staleDiskEvicted : BufferPoolManagerInstance :=
  (UnpinPgImp
    (FetchPgImp
      (UnpinPgImp (FlushPgImp staleDiskScenario 0).2 0 false).2 1).2 1 false).2

/-- A pool of one frame holding page 0, dirty, filled with the byte 7 and
pinned once, over a zeroed disk. -/
def dirtyPageScenario : BufferPoolManagerInstance :=
  { pool_size := 1
    num_instances := 1
    instance_index := 0
    next_page_id := 1
    pages := fun f =>
      if f = 0 then { data := fun _ => 7, page_id := 0, pin_count := 1, is_dirty := true }
      else Page.fresh
    page_table := fun q => if q = 0 then some 0 else none
    free_list := []
    replacer := LRUReplacer.empty
    disk := fun _ => zeroData }

/-- The state `dirtyPageScenario` after `UnpinPgImp` of page 0: frame 0 holds the
dirty page 0 with pin count 0 and is tracked by the replacer. -/
def dirtyPageUnpinned : BufferPoolManagerInstance :=
  (UnpinPgImp dirtyPageScenario 0 false).2

/-- The flush round trip on `dirtyPageScenario`: page 0 is flushed and unpinned,
page 1 is fetched (evicting page 0) and unpinned. -/
def dirtyPageEvicted : BufferPoolManagerInstance :=
  (UnpinPgImp
    (FetchPgImp
      (UnpinPgImp (FlushPgImp dirtyPageScenario 0).2 0 false).2 1).2 1 false).2

end BufferPoolManagerInstance

/-! ## B+ tree pages (`src/storage/page/b_plus_tree_leaf_page.cpp`,
`src/storage/page/b_plus_tree_internal_page.cpp`)

Keys are the integers that `GenericKey::SetFromInteger` stores, compared as
integers; values are integers (a record id in a leaf, a child page id in an
internal page). A page is the page header plus the slot array `array_`, which
keeps whatever was last written to a slot, also beyond `size`. The array is the
list of the slots up to the last one written; a slot behind it was never
written and holds the zero bytes left by `ResetMemory`, which decode to key 0
and value 0. A slot at a negative index stands for the bytes in front of
`array_` (the page header), which the source reads as `array_[-1]` when a leaf
is empty; the key those bytes decode to is the field `oob` of the page. -/

abbrev KeyType := Int

abbrev ValueType := Int

abbrev MappingType := KeyType × ValueType

/-- The key comparator: negative, zero or positive. -/
def comparator (a b : KeyType) : Int := if a < b then -1 else if b < a then 1 else 0

/-- The enumeration `IndexPageType`. -/
inductive IndexPageType
  | INVALID_INDEX_PAGE
  | LEAF_PAGE
  | INTERNAL_PAGE
  deriving DecidableEq

/-- A B+ tree page: the header fields, the `next_page_id_` of a leaf, the slot
array, and the key read at negative slot indices. -/
structure BPlusTreePage where
  page_type : IndexPageType
  size : Int
  max_size : Int
  parent_page_id : page_id_t
  page_id : page_id_t
  next_page_id : page_id_t
  array : List MappingType
  oob : KeyType
  deriving DecidableEq

/-- A page as `NewPage` hands it out: every byte zero. -/
def zeroPage (oob : KeyType) : BPlusTreePage :=
  { page_type := IndexPageType.INVALID_INDEX_PAGE
    size := 0
    max_size := 0
    parent_page_id := 0
    page_id := 0
    next_page_id := 0
    array := []
    oob := oob }

/-- Padding of a slot list with never-written (zero) slots up to length `n`. -/
def padSlots (a : List MappingType) (n : Nat) : List MappingType :=
  a ++ List.replicate (n - a.length) (0, 0)

namespace BPlusTreePage

/-- Read of `array_[i]`. -/
def slot (p : BPlusTreePage) (i : Int) : MappingType :=
  if i < 0 then (p.oob, 0) else p.array.getD i.toNat (0, 0)

/-- Assignment `array_[i] = item` (for `i ≥ 0`). -/
def setSlot (p : BPlusTreePage) (i : Int) (item : MappingType) : BPlusTreePage :=
  if i < 0 then p
  else { p with array := (padSlots p.array (i.toNat + 1)).set i.toNat item }

/-- The loop `for (i = start; i > stop; i--) array_[i] = array_[i-1]`, with `n`
iterations left and `i` the current index. -/
def shiftUp : Nat → Int → BPlusTreePage → BPlusTreePage
  | 0, _, p => p
  | n + 1, i, p => shiftUp n (i - 1) (p.setSlot i (p.slot (i - 1)))

/-- Modelled from the spec: `b_plus_tree_page.cpp` is not among the sources;
`IsLeafPage` tests the page type of the header. -/
def IsLeafPage (p : BPlusTreePage) : Bool := p.page_type == IndexPageType.LEAF_PAGE

/-- Modelled from the spec: `b_plus_tree_page.cpp` is not among the sources;
a page is the root when its parent page id is the INVALID sentinel. -/
def IsRootPage (p : BPlusTreePage) : Bool := p.parent_page_id == INVALID_PAGE_ID

/-- Modelled from the spec: `b_plus_tree_page.cpp` is not among the sources;
`IncreaseSize` adds to the size field of the header. -/
def IncreaseSize (p : BPlusTreePage) (amount : Int) : BPlusTreePage :=
  { p with size := p.size + amount }

/-- Modelled from the spec: `b_plus_tree_page.cpp` is not among the sources;
`DecreaseSize` subtracts from the size field of the header. -/
def DecreaseSize (p : BPlusTreePage) (amount : Int) : BPlusTreePage :=
  { p with size := p.size - amount }

end BPlusTreePage

namespace BPlusTreeLeafPage

/-- Model of `BPlusTreeLeafPage::Init`. -/
def Init (p : BPlusTreePage) (page_id parent_id : page_id_t) (max_size : Int) : BPlusTreePage :=
  { p with
    page_id := page_id
    parent_page_id := parent_id
    max_size := max_size
    size := 0
    page_type := IndexPageType.LEAF_PAGE
    next_page_id := INVALID_PAGE_ID }

/-- The `for` loop of `KeyIndex`, with `n` iterations left and `i` the current index. -/
def KeyIndexLoop (p : BPlusTreePage) (key : KeyType) : Nat → Int → Int
  | 0, _ => -1
  | n + 1, i => if comparator (p.slot i).1 key ≥ 0 then i else KeyIndexLoop p key n (i + 1)

/-- Model of `BPlusTreeLeafPage::KeyIndex`. -/
def KeyIndex (p : BPlusTreePage) (key : KeyType) : Int :=
  if comparator (p.slot (p.size - 1)).1 key < 0 then p.size
  else KeyIndexLoop p key p.size.toNat 0

/-- Model of `BPlusTreeLeafPage::KeyAt`. -/
def KeyAt (p : BPlusTreePage) (index : Int) : KeyType := (p.slot index).1

/-- Model of `BPlusTreeLeafPage::GetItem`. -/
def GetItem (p : BPlusTreePage) (index : Int) : MappingType := p.slot index

/-- Model of `BPlusTreeLeafPage::Insert`: the returned size and the page afterwards. -/
def Insert (p : BPlusTreePage) (key : KeyType) (value : ValueType) : Int × BPlusTreePage :=
  if KeyIndex p key = -1 then
    (1, (p.setSlot 0 (key, value)).IncreaseSize 1)
  else if comparator key (KeyAt p (KeyIndex p key)) = 0 then (p.size, p)
  else
    (p.size + 1,
      ((BPlusTreePage.shiftUp (p.size - KeyIndex p key).toNat p.size p).setSlot
        (KeyIndex p key) (key, value)).IncreaseSize 1)

/-- Model of `BPlusTreeLeafPage::CopyLastFrom`. -/
def CopyLastFrom (p : BPlusTreePage) (item : MappingType) : BPlusTreePage :=
  (p.setSlot p.size item).IncreaseSize 1

/-- The loop of `MoveHalfTo` over the source slots, `n` iterations left. -/
def MoveHalfToLoop (src : BPlusTreePage) : Nat → Int → BPlusTreePage → BPlusTreePage
  | 0, _, recipient => recipient
  | n + 1, i, recipient => MoveHalfToLoop src n (i + 1) (CopyLastFrom recipient (src.slot i))

/-- Model of `BPlusTreeLeafPage::MoveHalfTo`: the page and the recipient afterwards. -/
def MoveHalfTo (p recipient : BPlusTreePage) : BPlusTreePage × BPlusTreePage :=
  (p.DecreaseSize (p.size.tdiv 2),
    MoveHalfToLoop p (p.size - (p.size - p.size.tdiv 2)).toNat (p.size - p.size.tdiv 2) recipient)

/-- Model of `BPlusTreeLeafPage::Lookup`: the value stored for the key, if it reports one. -/
def Lookup (p : BPlusTreePage) (key : KeyType) : Option ValueType :=
  if KeyIndex p key = -1 ∨ KeyIndex p key ≥ p.size then none
  else if comparator key (p.slot (KeyIndex p key)).1 = 0 then some (p.slot (KeyIndex p key)).2
  else none

end BPlusTreeLeafPage

namespace BPlusTreeInternalPage

/-- Model of `BPlusTreeInternalPage::Init`. -/
def Init (p : BPlusTreePage) (page_id parent_id : page_id_t) (max_size : Int) : BPlusTreePage :=
  { p with
    page_id := page_id
    parent_page_id := parent_id
    size := 0
    max_size := max_size
    page_type := IndexPageType.INTERNAL_PAGE }

/-- Model of `BPlusTreeInternalPage::KeyAt`. -/
def KeyAt (p : BPlusTreePage) (index : Int) : KeyType := (p.slot index).1

/-- Model of `BPlusTreeInternalPage::ValueAt`. -/
def ValueAt (p : BPlusTreePage) (index : Int) : ValueType := (p.slot index).2

/-- The loop of `ValueIndex`, with `n` iterations left and `i` the current index. -/
def ValueIndexLoop (p : BPlusTreePage) (value : ValueType) : Nat → Int → Int
  | 0, _ => -1
  | n + 1, i => if (p.slot i).2 = value then i else ValueIndexLoop p value n (i + 1)

/-- Model of `BPlusTreeInternalPage::ValueIndex`: the loop runs for `i = 0 .. size` inclusive. -/
def ValueIndex (p : BPlusTreePage) (value : ValueType) : Int :=
  ValueIndexLoop p value (p.size + 1).toNat 0

/-- The loop of `Lookup`, with `n` iterations left and `i` the current index. -/
def LookupLoop (p : BPlusTreePage) (key : KeyType) : Nat → Int → ValueType
  | 0, _ => INVALID_PAGE_ID
  | n + 1, i =>
    if comparator (p.slot i).1 key > 0 then (p.slot (i - 1)).2
    else if i < p.size - 1 then
      (if comparator (p.slot (i + 1)).1 key > 0 then (p.slot i).2
       else LookupLoop p key n (i + 1))
    else (p.slot i).2

/-- Model of `BPlusTreeInternalPage::Lookup`. -/
def Lookup (p : BPlusTreePage) (key : KeyType) : ValueType :=
  if p.size = 1 then (p.slot 0).2
  else LookupLoop p key (p.size - 1).toNat 1

/-- Model of `BPlusTreeInternalPage::PopulateNewRoot`. -/
def PopulateNewRoot (p : BPlusTreePage) (old_value : ValueType) (new_key : KeyType)
    (new_value : ValueType) : BPlusTreePage :=
  let p1 := p.setSlot 1 (new_key, (p.slot 1).2)
  let p2 := p1.setSlot 0 ((p1.slot 0).1, old_value)
  let p3 := p2.setSlot 1 ((p2.slot 1).1, new_value)
  { p3 with size := 2 }

/-- Model of `BPlusTreeInternalPage::InsertAtIndex`. -/
def InsertAtIndex (p : BPlusTreePage) (index : Int) (key : KeyType) (value : ValueType) :
    BPlusTreePage :=
  ((BPlusTreePage.shiftUp (p.size - index).toNat p.size p).setSlot index
    (key, value)).IncreaseSize 1

/-- Model of `BPlusTreeInternalPage::InsertNodeAfter`: the returned size and the page afterwards. -/
def InsertNodeAfter (p : BPlusTreePage) (old_value : ValueType) (new_key : KeyType)
    (new_value : ValueType) : Int × BPlusTreePage :=
  (p.size + 1,
    ((BPlusTreePage.shiftUp (p.size - (ValueIndex p old_value + 1)).toNat p.size p).setSlot
      (ValueIndex p old_value + 1) (new_key, new_value)).IncreaseSize 1)

end BPlusTreeInternalPage

/-! ## B+ tree (`src/storage/index/b_plus_tree.cpp`)

The tree runs over a buffer pool that never runs out of frames: `NewPage`
always hands out a zeroed page under the next page id, `FetchPage` returns the
page stored under an id, and `UnpinPage` has no effect on page contents. The
state therefore keeps the page contents per page id, as an association list;
a page id without an entry reads as a zeroed page. A pointer to a page is the
page id it was obtained under. `UpdateRootPageId` only touches the header page
(page 0), which is not a tree page, and is left out. The `while` loop of
`FindLeafPage` and the recursion of `InsertIntoParent` take a fuel argument;
`none` is returned when the fuel runs out. -/

/-- State of a `BPlusTree` together with the pages it reaches through the pool. -/
structure BPlusTree where
  root_page_id : page_id_t
  leaf_max_size : Int
  internal_max_size : Int
  pages : List (page_id_t × BPlusTreePage)
  next_page_id : page_id_t
  oob : KeyType
  deriving DecidableEq

/-- Replacement of the entry of `pid` in the page list, or a new entry at the end. -/
def storePage : List (page_id_t × BPlusTreePage) → page_id_t → BPlusTreePage →
    List (page_id_t × BPlusTreePage)
  | [], pid, p => [(pid, p)]
  | (q, x) :: rest, pid, p =>
    if q = pid then (q, p) :: rest else (q, x) :: storePage rest pid p

namespace BPlusTree

/-- The constructor: an empty tree; the pool hands out page ids from 1 on (page
0 is the header page). -/
def construct (leaf_max_size internal_max_size : Int) (oob : KeyType) : BPlusTree :=
  { root_page_id := INVALID_PAGE_ID
    leaf_max_size := leaf_max_size
    internal_max_size := internal_max_size
    pages := []
    next_page_id := 1
    oob := oob }

/-- Reading through a page pointer: the page stored under `pid`. -/
def page (t : BPlusTree) (pid : page_id_t) : BPlusTreePage :=
  match t.pages.lookup pid with
  | some p => p
  | none => zeroPage t.oob

/-- Writing through a page pointer: the page stored under `pid` becomes `p`. -/
def setTreePage (t : BPlusTree) (pid : page_id_t) (p : BPlusTreePage) : BPlusTree :=
  { t with pages := storePage t.pages pid p }

/-- Model of `buffer_pool_manager_->NewPage(&pid)` on a pool with free frames. -/
def NewPage (t : BPlusTree) : page_id_t × BPlusTree :=
  (t.next_page_id,
    { setTreePage t t.next_page_id (zeroPage t.oob) with next_page_id := t.next_page_id + 1 })

/-- The `while` loop of `FindLeafPage`, entered with the page `pid` fetched. -/
def FindLeafPageLoop (t : BPlusTree) (key : KeyType) (leftMost : Bool) :
    Nat → page_id_t → Option page_id_t
  | 0, _ => none
  | n + 1, pid =>
    if (t.page pid).IsLeafPage then some pid
    else
      FindLeafPageLoop t key leftMost n
        (if leftMost then BPlusTreeInternalPage.ValueAt (t.page pid) 0
         else BPlusTreeInternalPage.Lookup (t.page pid) key)

/-- Model of `BPlusTree::FindLeafPage`: `some none` is `nullptr`, `some (some pid)` the
leaf page. -/
def FindLeafPage (fuel : Nat) (t : BPlusTree) (key : KeyType) (leftMost : Bool) :
    Option (Option page_id_t) :=
  if t.root_page_id = INVALID_PAGE_ID then some none
  else (FindLeafPageLoop t key leftMost fuel t.root_page_id).map some

/-- Model of `BPlusTree::GetValue`: the return value and the values pushed to `result`. -/
def GetValue (fuel : Nat) (t : BPlusTree) (key : KeyType) : Option (Bool × List ValueType) :=
  match FindLeafPage fuel t key false with
  | none => none
  | some none => some (false, [])
  | some (some leaf) =>
    match BPlusTreeLeafPage.Lookup (t.page leaf) key with
    | some value => some (true, [value])
    | none => some (false, [])

/-- Model of `BPlusTree::StartNewTree`. -/
def StartNewTree (t : BPlusTree) (key : KeyType) (value : ValueType) : BPlusTree :=
  let pid := (NewPage t).1
  let t1 := { (NewPage t).2 with root_page_id := pid }
  let leaf := BPlusTreeLeafPage.Init (t1.page pid) pid INVALID_PAGE_ID t1.leaf_max_size
  setTreePage t1 pid (BPlusTreeLeafPage.Insert leaf key value).2

/-- Model of `BPlusTree::Split<N>`: `leafTemplate` tells whether `N` is the leaf page
class (it selects the `Init` that runs); the new page pointer and the state. -/
def Split (leafTemplate : Bool) (t : BPlusTree) (node : page_id_t) : page_id_t × BPlusTree :=
  let pid := (NewPage t).1
  let t1 := (NewPage t).2
  let max_size :=
    if (t1.page node).IsLeafPage then t1.leaf_max_size else t1.internal_max_size
  let fresh :=
    if leafTemplate then
      BPlusTreeLeafPage.Init (t1.page pid) pid (t1.page node).parent_page_id max_size
    else
      BPlusTreeInternalPage.Init (t1.page pid) pid (t1.page node).parent_page_id max_size
  (pid, setTreePage t1 pid fresh)

/-- Model of `BPlusTreeInternalPage::CopyLastFrom` on the page `recipient`: the child is
fetched and re-parented, then the pair is appended. -/
def InternalCopyLastFrom (t : BPlusTree) (recipient : page_id_t) (pair : MappingType) :
    BPlusTree :=
  let t1 := setTreePage t pair.2
    { t.page pair.2 with parent_page_id := (t.page recipient).page_id }
  setTreePage t1 recipient
    (BPlusTreeInternalPage.InsertAtIndex (t1.page recipient) (t1.page recipient).size
      pair.1 pair.2)

/-- The loop of `BPlusTreeInternalPage::MoveHalfTo`, `n` iterations left. -/
def InternalMoveHalfToLoop (node recipient : page_id_t) : Nat → Int → BPlusTree → BPlusTree
  | 0, _, t => t
  | n + 1, i, t =>
    InternalMoveHalfToLoop node recipient n (i + 1)
      (InternalCopyLastFrom t recipient ((t.page node).slot i))

/-- Model of `BPlusTreeInternalPage::MoveHalfTo` on the page `node`. -/
def InternalMoveHalfTo (t : BPlusTree) (node recipient : page_id_t) : BPlusTree :=
  let size := (t.page node).size
  let index := size - size.tdiv 2
  let t1 := InternalMoveHalfToLoop node recipient (size - index).toNat index t
  setTreePage t1 node ((t1.page node).DecreaseSize (size.tdiv 2))

/-- Model of `BPlusTree::InsertIntoParent`. -/
def InsertIntoParent : Nat → BPlusTree → page_id_t → KeyType → page_id_t → Option BPlusTree
  | 0, _, _, _, _ => none
  | fuel + 1, t, old_node, key, new_node =>
    if (t.page old_node).IsRootPage then
      let pid := (NewPage t).1
      let t1 := { (NewPage t).2 with root_page_id := pid }
      let t2 := setTreePage t1 pid
        (BPlusTreeInternalPage.Init (t1.page pid) pid INVALID_PAGE_ID t1.internal_max_size)
      let t3 := setTreePage t2 old_node { t2.page old_node with parent_page_id := pid }
      let t4 := setTreePage t3 new_node { t3.page new_node with parent_page_id := pid }
      some (setTreePage t4 pid
        (BPlusTreeInternalPage.PopulateNewRoot (t4.page pid) (t4.page old_node).page_id key
          (t4.page new_node).page_id))
    else
      let ppid := (t.page old_node).parent_page_id
      let inserted := BPlusTreeInternalPage.InsertNodeAfter (t.page ppid)
        (t.page old_node).page_id key (t.page new_node).page_id
      let t1 := setTreePage t ppid inserted.2
      if inserted.1 = t1.internal_max_size then
        let new_internal := (Split false t1 ppid).1
        let t2 := (Split false t1 ppid).2
        let t3 := InternalMoveHalfTo t2 ppid new_internal
        InsertIntoParent fuel t3 ppid (BPlusTreeInternalPage.KeyAt (t3.page new_internal) 0)
          new_internal
      else some t1

/-- Model of `BPlusTree::InsertIntoLeaf`: the return value and the state. -/
def InsertIntoLeaf (fuel : Nat) (t : BPlusTree) (key : KeyType) (value : ValueType) :
    Option (Bool × BPlusTree) :=
  match FindLeafPage fuel t key false with
  | none => none
  | some none => none
  | some (some leaf) =>
    let key_index := BPlusTreeLeafPage.KeyIndex (t.page leaf) key
    let pair := BPlusTreeLeafPage.GetItem (t.page leaf) key_index
    if comparator key pair.1 = 0 then some (false, t)
    else
      let inserted := BPlusTreeLeafPage.Insert (t.page leaf) key value
      let t1 := setTreePage t leaf inserted.2
      if inserted.1 = t1.leaf_max_size then
        let new_leaf := (Split true t1 leaf).1
        let t2 := (Split true t1 leaf).2
        let moved := BPlusTreeLeafPage.MoveHalfTo (t2.page leaf) (t2.page new_leaf)
        let t3 := setTreePage (setTreePage t2 leaf moved.1) new_leaf moved.2
        let t4 := setTreePage t3 new_leaf
          { t3.page new_leaf with next_page_id := (t3.page leaf).next_page_id }
        let t5 := setTreePage t4 leaf
          { t4.page leaf with next_page_id := (t4.page new_leaf).page_id }
        (InsertIntoParent fuel t5 leaf (BPlusTreeLeafPage.KeyAt (t5.page new_leaf) 0)
          new_leaf).map (fun t6 => (true, t6))
      else some (true, t1)

/-- Model of `BPlusTree::Insert`: the return value and the state. -/
def Insert (fuel : Nat) (t : BPlusTree) (key : KeyType) (value : ValueType) :
    Option (Bool × BPlusTree) :=
  if t.root_page_id = INVALID_PAGE_ID then some (true, StartNewTree t key value)
  else InsertIntoLeaf fuel t key value

/-- A sequence of `Insert` calls, in order: the return values and the final state. -/
def InsertAll (fuel : Nat) : BPlusTree → List (KeyType × ValueType) → Option (List Bool × BPlusTree)
  | t, [] => some ([], t)
  | t, (key, value) :: rest =>
    match Insert fuel t key value with
    | none => none
    | some (b, t1) =>
      match InsertAll fuel t1 rest with
      | none => none
      | some (bs, t2) => some (b :: bs, t2)

end BPlusTree

/-! ## Extendible hash table (`src/container/hash/extendible_hash_table.cpp`,
`src/storage/page/hash_table_bucket_page.cpp`)

Keys and values are integers; the hash function is a parameter `hash` giving
the 32-bit hash of a key, and the bucket capacity `BUCKET_ARRAY_SIZE` is a
parameter `cap`. The two bitmaps of a bucket page are lists of bits, index `i`
standing for bit `i % 8` of byte `i / 8`; like the slot arrays they are kept up
to the last position written, and a position behind that reads as zero. The
table runs over a buffer pool that never runs out of frames, so the state
keeps the contents of the directory page and of the bucket pages per page id.
The latches are not modelled. -/

/-- Read of a bit list at position `i`. -/
def bitAt (bits : List Bool) (i : Nat) : Bool := bits.getD i false

/-- Write of a bit list at position `i`. -/
def setBit (bits : List Bool) (i : Nat) (b : Bool) : List Bool :=
  (bits ++ List.replicate (i + 1 - bits.length) false).set i b

/-- A hash bucket page: the `occupied_` and `readable_` bitmaps and `array_`. -/
structure HashTableBucketPage where
  occupied : List Bool
  readable : List Bool
  array : List MappingType
  deriving DecidableEq

namespace HashTableBucketPage

/-- A zeroed bucket page. -/
def zero : HashTableBucketPage := { occupied := [], readable := [], array := [] }

/-- Model of `HashTableBucketPage::KeyAt`. -/
def KeyAt (b : HashTableBucketPage) (bucket_idx : Nat) : KeyType :=
  (b.array.getD bucket_idx (0, 0)).1

/-- Model of `HashTableBucketPage::ValueAt`. -/
def ValueAt (b : HashTableBucketPage) (bucket_idx : Nat) : ValueType :=
  (b.array.getD bucket_idx (0, 0)).2

/-- Model of `HashTableBucketPage::IsOccupied`. -/
def IsOccupied (b : HashTableBucketPage) (bucket_idx : Nat) : Bool := bitAt b.occupied bucket_idx

/-- Model of `HashTableBucketPage::IsReadable`. -/
def IsReadable (b : HashTableBucketPage) (bucket_idx : Nat) : Bool := bitAt b.readable bucket_idx

/-- Model of `HashTableBucketPage::SetOccupied`. -/
def SetOccupied (b : HashTableBucketPage) (bucket_idx : Nat) : HashTableBucketPage :=
  { b with occupied := setBit b.occupied bucket_idx true }

/-- Model of `HashTableBucketPage::SetReadable`. -/
def SetReadable (b : HashTableBucketPage) (bucket_idx : Nat) : HashTableBucketPage :=
  { b with readable := setBit b.readable bucket_idx true }

/-- Model of `HashTableBucketPage::RemoveAt`: clears the readable bit. -/
def RemoveAt (b : HashTableBucketPage) (bucket_idx : Nat) : HashTableBucketPage :=
  { b with readable := setBit b.readable bucket_idx false }

/-- Model of `HashTableBucketPage::NumReadable`: the set bits of the first
`(cap - 1) / 8 + 1` bytes of `readable_`. -/
def NumReadable (cap : Nat) (b : HashTableBucketPage) : Nat :=
  ((List.range (8 * ((cap - 1) / 8 + 1))).filter (fun i => bitAt b.readable i)).length

/-- Model of `HashTableBucketPage::IsFull`. -/
def IsFull (cap : Nat) (b : HashTableBucketPage) : Bool := NumReadable cap b == cap

/-- Model of `HashTableBucketPage::IsEmpty`. -/
def IsEmpty (cap : Nat) (b : HashTableBucketPage) : Bool := NumReadable cap b == 0

/-- The loop of `GetValue`, with `n` iterations left and `i` the current index;
`result` collects the values pushed so far. -/
def GetValueLoop (b : HashTableBucketPage) (key : KeyType) :
    Nat → Nat → List ValueType → List ValueType
  | 0, _, result => result
  | n + 1, i, result =>
    if !b.IsOccupied i then result
    else if !b.IsReadable i then GetValueLoop b key n (i + 1) result
    else if comparator key (b.KeyAt i) = 0 then
      GetValueLoop b key n (i + 1) (result ++ [b.ValueAt i])
    else GetValueLoop b key n (i + 1) result

/-- Model of `HashTableBucketPage::GetValue`: the return value and the vector `result`
afterwards. -/
def GetValue (cap : Nat) (b : HashTableBucketPage) (key : KeyType) (result : List ValueType) :
    Bool × List ValueType :=
  (!(GetValueLoop b key cap 0 result).isEmpty, GetValueLoop b key cap 0 result)

/-- The insertion loop of `Insert`, with `n` iterations left and `i` the current index. -/
def InsertLoop (b : HashTableBucketPage) (key : KeyType) (value : ValueType) :
    Nat → Nat → Bool × HashTableBucketPage
  | 0, _ => (false, b)
  | n + 1, i =>
    if !b.IsReadable i then
      (true,
        (({ b with
          array := (padSlots b.array (i + 1)).set i (key, value) }).SetReadable i).SetOccupied i)
    else InsertLoop b key value n (i + 1)

/-- Model of `HashTableBucketPage::Insert`: the return value and the page afterwards. -/
def Insert (cap : Nat) (b : HashTableBucketPage) (key : KeyType) (value : ValueType) :
    Bool × HashTableBucketPage :=
  if IsFull cap b then (false, b)
  else if value ∈ (GetValue cap b key []).2 then (false, b)
  else InsertLoop b key value cap 0

end HashTableBucketPage

/-- The hash directory page: global depth, and per slot the local depth and the
bucket page id. The two arrays are kept up to the last slot written; a slot
behind that reads as zero. The lists have no bound, and the depths are natural
numbers: the model is the directory page of the spec (512 slots, global depth
at most `MAX_DEPTH = 9`, local depths stored in a `u8`) as long as the global depth
is at most 9; a state with a larger global depth is a state of the model only. -/
structure HashTableDirectoryPage where
  page_id : page_id_t
  global_depth : Nat
  local_depths : List Nat
  bucket_page_ids : List page_id_t
  deriving DecidableEq

namespace HashTableDirectoryPage

/-- A zeroed directory page. -/
def zero : HashTableDirectoryPage :=
  { page_id := 0, global_depth := 0, local_depths := [], bucket_page_ids := [] }

/-- Modelled from the spec: `hash_table_directory_page.cpp` is not among the
sources; the bucket page id stored in a slot. -/
def GetBucketPageId (d : HashTableDirectoryPage) (bucket_idx : Nat) : page_id_t :=
  d.bucket_page_ids.getD bucket_idx 0

/-- Modelled from the spec: `hash_table_directory_page.cpp` is not among the
sources; stores a bucket page id in a slot. -/
def SetBucketPageId (d : HashTableDirectoryPage) (bucket_idx : Nat) (pid : page_id_t) :
    HashTableDirectoryPage :=
  { d with
    bucket_page_ids :=
      (d.bucket_page_ids ++ List.replicate (bucket_idx + 1 - d.bucket_page_ids.length) 0).set
        bucket_idx pid }

/-- Modelled from the spec: `hash_table_directory_page.cpp` is not among the
sources; the local depth stored in a slot. -/
def GetLocalDepth (d : HashTableDirectoryPage) (bucket_idx : Nat) : Nat :=
  d.local_depths.getD bucket_idx 0

/-- Modelled from the spec: `hash_table_directory_page.cpp` is not among the
sources; stores a local depth in a slot. -/
def SetLocalDepth (d : HashTableDirectoryPage) (bucket_idx : Nat) (depth : Nat) :
    HashTableDirectoryPage :=
  { d with
    local_depths :=
      (d.local_depths ++ List.replicate (bucket_idx + 1 - d.local_depths.length) 0).set
        bucket_idx depth }

/-- Modelled from the spec: `hash_table_directory_page.cpp` is not among the
sources; increments the local depth of a slot. -/
def IncrLocalDepth (d : HashTableDirectoryPage) (bucket_idx : Nat) : HashTableDirectoryPage :=
  d.SetLocalDepth bucket_idx (d.GetLocalDepth bucket_idx + 1)

/-- Modelled from the spec: `hash_table_directory_page.cpp` is not among the
sources; the mask `(1 << global_depth) - 1`. -/
def GetGlobalDepthMask (d : HashTableDirectoryPage) : Nat := (1 <<< d.global_depth) - 1

/-- Modelled from the spec: `hash_table_directory_page.cpp` is not among the
sources; the number of directory slots, `1 << global_depth`. -/
def Size (d : HashTableDirectoryPage) : Nat := 1 <<< d.global_depth

/-- The copy loop of directory doubling: slot `s + old_size` inherits from slot
`s`, for the `n` slots from `s` on. -/
def doubleLoop (old_size : Nat) : Nat → Nat → HashTableDirectoryPage → HashTableDirectoryPage
  | 0, _, d => d
  | n + 1, s, d =>
    doubleLoop old_size n (s + 1)
      ((d.SetBucketPageId (s + old_size) (d.GetBucketPageId s)).SetLocalDepth
        (s + old_size) (d.GetLocalDepth s))

/-- Modelled from the spec: `hash_table_directory_page.cpp` is not among the
sources; directory doubling increments the global depth and duplicates the
slot table so that the new slot `s + 2^old_global` inherits from `s`. -/
def IncrGlobalDepth (d : HashTableDirectoryPage) : HashTableDirectoryPage :=
  { doubleLoop d.Size d.Size 0 d with global_depth := d.global_depth + 1 }

/-- Modelled from the spec: `hash_table_directory_page.cpp` is not among the
sources; the split image of slot `s` at local depth `d` is `s XOR (1 << (d - 1))`. -/
def GetSplitImageIndex (d : HashTableDirectoryPage) (bucket_idx : Nat) : Nat :=
  bucket_idx ^^^ (1 <<< (d.GetLocalDepth bucket_idx - 1))

end HashTableDirectoryPage

/-- State of an `ExtendibleHashTable` with the pages it reaches through the
pool: the directory page and the bucket pages by page id. -/
structure ExtendibleHashTable where
  directory_page_id : page_id_t
  directory : HashTableDirectoryPage
  buckets : List (page_id_t × HashTableBucketPage)
  next_page_id : page_id_t
  deriving DecidableEq

/-- Replacement of the entry of `pid` in the bucket list, or a new entry at the end. -/
def storeBucket : List (page_id_t × HashTableBucketPage) → page_id_t → HashTableBucketPage →
    List (page_id_t × HashTableBucketPage)
  | [], pid, b => [(pid, b)]
  | (q, x) :: rest, pid, b =>
    if q = pid then (q, b) :: rest else (q, x) :: storeBucket rest pid b

namespace ExtendibleHashTable

/-- Reading through a bucket page pointer. -/
def bucket (t : ExtendibleHashTable) (pid : page_id_t) : HashTableBucketPage :=
  match t.buckets.lookup pid with
  | some b => b
  | none => HashTableBucketPage.zero

/-- Writing through a bucket page pointer. -/
def setBucket (t : ExtendibleHashTable) (pid : page_id_t) (b : HashTableBucketPage) :
    ExtendibleHashTable :=
  { t with buckets := storeBucket t.buckets pid b }

/-- The constructor, on a fresh pool: the directory page gets page id 0, the
first bucket page id 1; slot 0 of the directory points to that bucket with
local depth 0. -/
def construct : ExtendibleHashTable :=
  { directory_page_id := 0
    directory :=
      { ((HashTableDirectoryPage.zero.SetBucketPageId 0 1).SetLocalDepth 0 0) with page_id := 0 }
    buckets := [(1, HashTableBucketPage.zero)]
    next_page_id := 2 }

/-- Model of `ExtendibleHashTable::KeyToDirectoryIndex`. -/
def KeyToDirectoryIndex (hash : KeyType → Nat) (key : KeyType) (dir_page : HashTableDirectoryPage) :
    Nat :=
  hash key &&& dir_page.GetGlobalDepthMask

/-- Model of `ExtendibleHashTable::KeyToPageId`. -/
def KeyToPageId (hash : KeyType → Nat) (key : KeyType) (dir_page : HashTableDirectoryPage) :
    page_id_t :=
  dir_page.GetBucketPageId (KeyToDirectoryIndex hash key dir_page)

/-- Model of `ExtendibleHashTable::GetValue`: the return value and the vector `result`
afterwards (it is empty before the call). -/
def GetValue (hash : KeyType → Nat) (cap : Nat) (t : ExtendibleHashTable) (key : KeyType) :
    Bool × List ValueType :=
  HashTableBucketPage.GetValue cap (t.bucket (KeyToPageId hash key t.directory)) key []

/-- The directory loop of `SplitInsert`, with `n` iterations left and `i` the
current slot. -/
def splitDirLoop (bucket_pid new_bucket_pid : page_id_t) (bucket_index new_bucket_index : Nat) :
    Nat → Nat → HashTableDirectoryPage → HashTableDirectoryPage
  | 0, _, d => d
  | n + 1, i, d =>
    splitDirLoop bucket_pid new_bucket_pid bucket_index new_bucket_index n (i + 1)
      (if d.GetBucketPageId i = bucket_pid then
        (if i >>> (d.GetLocalDepth bucket_index - 1)
              = bucket_index >>> (d.GetLocalDepth bucket_index - 1) then
          (d.SetLocalDepth i (d.GetLocalDepth bucket_index)).SetBucketPageId i bucket_pid
        else
          (d.SetLocalDepth i (d.GetLocalDepth new_bucket_index)).SetBucketPageId i
            new_bucket_pid)
      else d)

/-- The rehash loop of `SplitInsert`, with `n` iterations left and `i` the
current slot of the old bucket; the pair is the old and the new bucket page. -/
def rehashLoop (hash : KeyType → Nat) (cap : Nat) (dir_page : HashTableDirectoryPage)
    (bucket_pid : page_id_t) :
    Nat → Nat → HashTableBucketPage × HashTableBucketPage →
      HashTableBucketPage × HashTableBucketPage
  | 0, _, pages => pages
  | n + 1, i, pages =>
    rehashLoop hash cap dir_page bucket_pid n (i + 1)
      (if KeyToPageId hash (pages.1.KeyAt i) dir_page ≠ bucket_pid then
        (pages.1.RemoveAt i,
          (HashTableBucketPage.Insert cap pages.2 (pages.1.KeyAt i) (pages.1.ValueAt i)).2)
      else pages)

/-- The part of `SplitInsert` in front of its final call of `Insert`: either
the call returns early (`some` of the return value), or the bucket has been
split and the insertion is to be retried (`none`). -/
def SplitInsertBody (hash : KeyType → Nat) (cap : Nat) (t : ExtendibleHashTable)
    (key : KeyType) (value : ValueType) : Option Bool × ExtendibleHashTable :=
  let bucket_pid := KeyToPageId hash key t.directory
  if !HashTableBucketPage.IsFull cap (t.bucket bucket_pid) then
    (some (HashTableBucketPage.Insert cap (t.bucket bucket_pid) key value).1,
      t.setBucket bucket_pid (HashTableBucketPage.Insert cap (t.bucket bucket_pid) key value).2)
  else
    let bucket_index := KeyToDirectoryIndex hash key t.directory
    let d1 :=
      if t.directory.global_depth = t.directory.GetLocalDepth bucket_index then
        t.directory.IncrGlobalDepth
      else t.directory
    let d2 := d1.IncrLocalDepth bucket_index
    let new_bucket_index := d2.GetSplitImageIndex bucket_index
    let new_bucket_pid := t.next_page_id
    let d3 := d2.SetLocalDepth new_bucket_index (d2.GetLocalDepth bucket_index)
    let d4 := d3.SetBucketPageId new_bucket_index new_bucket_pid
    let d5 := splitDirLoop bucket_pid new_bucket_pid bucket_index new_bucket_index d4.Size 0 d4
    let moved := rehashLoop hash cap d5 bucket_pid cap 0
      (t.bucket bucket_pid, HashTableBucketPage.zero)
    (none,
      { t with
        directory := d5
        buckets := storeBucket (storeBucket t.buckets new_bucket_pid moved.2) bucket_pid moved.1
        next_page_id := t.next_page_id + 1 })

/-- Model of `ExtendibleHashTable::Insert`, with the recursion through `SplitInsert`
bounded by `fuel`: the return value and the state. -/
def Insert (hash : KeyType → Nat) (cap : Nat) :
    Nat → ExtendibleHashTable → KeyType → ValueType → Option (Bool × ExtendibleHashTable)
  | 0, _, _, _ => none
  | fuel + 1, t, key, value =>
    let bucket_pid := KeyToPageId hash key t.directory
    let inserted := HashTableBucketPage.Insert cap (t.bucket bucket_pid) key value
    if !inserted.1 && HashTableBucketPage.IsFull cap inserted.2 then
      match SplitInsertBody hash cap t key value with
      | (some b, t1) => some (b, t1)
      | (none, t1) => Insert hash cap fuel t1 key value
    else some (inserted.1, t.setBucket bucket_pid inserted.2)

/-- Model of `ExtendibleHashTable::SplitInsert`: its body, then the call of `Insert`. -/
def SplitInsert (hash : KeyType → Nat) (cap : Nat) (fuel : Nat) (t : ExtendibleHashTable)
    (key : KeyType) (value : ValueType) : Option (Bool × ExtendibleHashTable) :=
  match SplitInsertBody hash cap t key value with
  | (some b, t1) => some (b, t1)
  | (none, t1) => Insert hash cap fuel t1 key value

/-- A sequence of `Insert` calls, in order: the return values and the final state. -/
def InsertAll (hash : KeyType → Nat) (cap : Nat) (fuel : Nat) :
    ExtendibleHashTable → List (KeyType × ValueType) → Option (List Bool × ExtendibleHashTable)
  | t, [] => some ([], t)
  | t, (key, value) :: rest =>
    match Insert hash cap fuel t key value with
    | none => none
    | some (b, t1) =>
      match InsertAll hash cap fuel t1 rest with
      | none => none
      | some (bs, t2) => some (b :: bs, t2)

end ExtendibleHashTable

/-- The hash function of the scenarios: the hash of a key is the key itself. -/
def idHash (k : KeyType) : Nat := k.toNat

/-- Scenario for `SplitInsert` with bucket capacity 4: keys whose hashes are the
keys themselves, inserted in this order with value `100 + key`. -/
def splitScenarioPairs : List (KeyType × ValueType) :=
  [(0, 100), (16, 116), (32, 132), (48, 148), (1, 101), (17, 117), (33, 133), (49, 149),
   (2, 102), (4, 104), (5, 105), (21, 121), (37, 137), (53, 153), (13, 113)]

/-! ## Page-id allocator along a run -/

namespace BufferPoolManagerInstance

/-- The relation `AllocatedAfter k s`: the instance state `s` is reached from the
constructor (whose assertions `num_instances > 0` and
`instance_index < num_instances` hold) through the public operations and client
writes, and exactly `k` of the `NewPgImp` calls on the way returned a page. -/
inductive AllocatedAfter : Nat → BufferPoolManagerInstance → Prop
  | construct (pool_size num_instances instance_index : Nat) (disk : page_id_t → PageData)
      (hpos : 0 < num_instances) (hlt : instance_index < num_instances) :
      AllocatedAfter 0 (construct pool_size num_instances instance_index disk)
  | NewPg_some {k : Nat} {s : BufferPoolManagerInstance} (h : AllocatedAfter k s)
      (hsome : (NewPgImp s).1 ≠ none) : AllocatedAfter (k + 1) (NewPgImp s).2
  | NewPg_none {k : Nat} {s : BufferPoolManagerInstance} (h : AllocatedAfter k s)
      (hnone : (NewPgImp s).1 = none) : AllocatedAfter k (NewPgImp s).2
  | FetchPg {k : Nat} {s : BufferPoolManagerInstance} (h : AllocatedAfter k s)
      (pid : page_id_t) : AllocatedAfter k (FetchPgImp s pid).2
  | UnpinPg {k : Nat} {s : BufferPoolManagerInstance} (h : AllocatedAfter k s)
      (pid : page_id_t) (is_dirty : Bool) : AllocatedAfter k (UnpinPgImp s pid is_dirty).2
  | FlushPg {k : Nat} {s : BufferPoolManagerInstance} (h : AllocatedAfter k s)
      (pid : page_id_t) : AllocatedAfter k (FlushPgImp s pid).2
  | FlushAllPgs {k : Nat} {s : BufferPoolManagerInstance} (h : AllocatedAfter k s) :
      AllocatedAfter k (FlushAllPgsImp s)
  | DeletePg {k : Nat} {s : BufferPoolManagerInstance} (h : AllocatedAfter k s)
      (pid : page_id_t) : AllocatedAfter k (DeletePgImp s pid).2
  | WriteData {k : Nat} {s : BufferPoolManagerInstance} (h : AllocatedAfter k s)
      (f : frame_id_t) (d : PageData) : AllocatedAfter k (WriteData s f d)

/-- Scenario for the allocator: a single instance (`num_instances = 1`, index 0)
with one frame on which `k` times a page is created with `NewPgImp`, unpinned
and deleted again. -/
def allocLoop : Nat → BufferPoolManagerInstance
  | 0 => construct 1 1 0 (fun _ => zeroData)
  | k + 1 =>
    (DeletePgImp
      (UnpinPgImp (NewPgImp (allocLoop k)).2 (allocLoop k).next_page_id false).2
      (allocLoop k).next_page_id).2

end BufferPoolManagerInstance

/-! ## Parallel buffer pool manager (`src/buffer/parallel_buffer_pool_manager.cpp`)

The vector of instances is a function from the index to the instance; only the
entries below `num_of_bpm` exist in the source. All instances are constructed
with the same disk manager: the content of that disk is the field `disk` of the
pool. An instance runs on the disk of the pool (`bpm`) and what it leaves on
the disk is stored back (`setBpm`); the `disk` field of an instance kept in the
vector is a placeholder that is never read. -/

/-- State of a `ParallelBufferPoolManager`. -/
structure ParallelBufferPoolManager where
  parallel_buffer_pool_manager : Nat → BufferPoolManagerInstance
  last_bpm_index : Nat
  num_of_bpm : Nat
  disk : page_id_t → PageData

namespace ParallelBufferPoolManager

/-- The constructor: instance `i` is built with `num_instances` and index `i`;
the cursor starts at 0. -/
def construct (num_instances pool_size : Nat) (disk : page_id_t → PageData) :
    ParallelBufferPoolManager :=
  { parallel_buffer_pool_manager := fun i =>
      BufferPoolManagerInstance.construct pool_size num_instances i disk
    last_bpm_index := 0
    num_of_bpm := num_instances
    disk := disk }

/-- The instance `parallel_buffer_pool_manager[i]` as it runs, on the shared disk. -/
def bpm (P : ParallelBufferPoolManager) (i : Nat) : BufferPoolManagerInstance :=
  { P.parallel_buffer_pool_manager i with disk := P.disk }

/-- The pool after `parallel_buffer_pool_manager[i]` has run into the state `s`. -/
def setBpm (P : ParallelBufferPoolManager) (i : Nat) (s : BufferPoolManagerInstance) :
    ParallelBufferPoolManager :=
  { P with
    parallel_buffer_pool_manager := fun j =>
      if j = i then { s with disk := (P.parallel_buffer_pool_manager i).disk }
      else P.parallel_buffer_pool_manager j
    disk := s.disk }

/-- Model of `GetBufferPoolManager`: the index `page_id % num_of_bpm`, where the
`int32_t` page id is converted to the 64-bit `size_t` of `num_of_bpm` before
the remainder is taken. -/
def GetBufferPoolManager (P : ParallelBufferPoolManager) (page_id : page_id_t) : Nat :=
  (page_id % 18446744073709551616).toNat % P.num_of_bpm

/-- Model of `ParallelBufferPoolManager::FetchPgImp`: the instance and frame of the
returned page, or `none` for `nullptr`. -/
def FetchPgImp (P : ParallelBufferPoolManager) (page_id : page_id_t) :
    Option (Nat × frame_id_t) × ParallelBufferPoolManager :=
  let index := P.GetBufferPoolManager page_id
  let r := BufferPoolManagerInstance.FetchPgImp (P.bpm index) page_id
  (r.1.map (fun f => (index, f)), P.setBpm index r.2)

/-- Model of `ParallelBufferPoolManager::UnpinPgImp`. -/
def UnpinPgImp (P : ParallelBufferPoolManager) (page_id : page_id_t) (is_dirty : Bool) :
    Bool × ParallelBufferPoolManager :=
  let index := P.GetBufferPoolManager page_id
  let r := BufferPoolManagerInstance.UnpinPgImp (P.bpm index) page_id is_dirty
  (r.1, P.setBpm index r.2)

/-- Model of `ParallelBufferPoolManager::FlushPgImp`. -/
def FlushPgImp (P : ParallelBufferPoolManager) (page_id : page_id_t) :
    Bool × ParallelBufferPoolManager :=
  let index := P.GetBufferPoolManager page_id
  let r := BufferPoolManagerInstance.FlushPgImp (P.bpm index) page_id
  (r.1, P.setBpm index r.2)

/-- Model of `ParallelBufferPoolManager::DeletePgImp`. -/
def DeletePgImp (P : ParallelBufferPoolManager) (page_id : page_id_t) :
    Bool × ParallelBufferPoolManager :=
  let index := P.GetBufferPoolManager page_id
  let r := BufferPoolManagerInstance.DeletePgImp (P.bpm index) page_id
  (r.1, P.setBpm index r.2)

/-- Model of `ParallelBufferPoolManager::FlushAllPgsImp`: every instance in index order. -/
def FlushAllPgsImp (P : ParallelBufferPoolManager) : ParallelBufferPoolManager :=
  (List.range P.num_of_bpm).foldl
    (fun Q i => Q.setBpm i (BufferPoolManagerInstance.FlushAllPgsImp (Q.bpm i))) P

/-- The call `parallel_buffer_pool_manager[i]->NewPage(page_id)`: frame and page id of the
returned page (or `none`), and the pool afterwards. -/
def NewPageAt (P : ParallelBufferPoolManager) (i : Nat) :
    Option (frame_id_t × page_id_t) × ParallelBufferPoolManager :=
  ((BufferPoolManagerInstance.NewPgImp (P.bpm i)).1,
    P.setBpm i (BufferPoolManagerInstance.NewPgImp (P.bpm i)).2)

/-- The `while (return_page == nullptr)` loop of `NewPgImp`, entered with
`return_page == nullptr` and `fuel` iterations left; `tried` lists the
instances whose `NewPage` has been called so far in this call. The result is
the instance, frame and page id of `return_page` (or `none`), the pool, and
the instances tried; `none` is returned when the fuel runs out. -/
def NewPgLoop (temp : Nat) :
    Nat → ParallelBufferPoolManager → List Nat →
      Option (Option (Nat × frame_id_t × page_id_t) × ParallelBufferPoolManager × List Nat)
  | 0, _, _ => none
  | fuel + 1, P, tried =>
    if (P.last_bpm_index + 1) % P.num_of_bpm = temp then
      some (none, { P with last_bpm_index := (P.last_bpm_index + 1) % P.num_of_bpm }, tried)
    else
      match NewPageAt { P with last_bpm_index := (P.last_bpm_index + 1) % P.num_of_bpm }
          ((P.last_bpm_index + 1) % P.num_of_bpm) with
      | (some r, P2) =>
        some (some ((P.last_bpm_index + 1) % P.num_of_bpm, r.1, r.2), P2,
          tried ++ [(P.last_bpm_index + 1) % P.num_of_bpm])
      | (none, P2) =>
        NewPgLoop temp fuel P2 (tried ++ [(P.last_bpm_index + 1) % P.num_of_bpm])

/-- Model of `ParallelBufferPoolManager::NewPgImp`, the `while` loop bounded by `fuel`:
the instance, frame and page id of the returned page (`none` for `nullptr`),
the pool afterwards, and the instances whose `NewPage` was called, in call
order. -/
def NewPgImp (fuel : Nat) (P : ParallelBufferPoolManager) :
    Option (Option (Nat × frame_id_t × page_id_t) × ParallelBufferPoolManager × List Nat) :=
  match NewPageAt P P.last_bpm_index with
  | (some r, P1) =>
    some (some (P.last_bpm_index, r.1, r.2),
      { P1 with last_bpm_index := (P1.last_bpm_index + 1) % P1.num_of_bpm },
      [P.last_bpm_index])
  | (none, P1) =>
    match NewPgLoop P.last_bpm_index fuel P1 [P.last_bpm_index] with
    | none => none
    | some (some r, P2, tried) =>
      some (some r, { P2 with last_bpm_index := (P2.last_bpm_index + 1) % P2.num_of_bpm }, tried)
    | some (none, P2, tried) => some (none, P2, tried)


/-- The pool after a `NewPgImp` call (the pool itself when the fuel ran out). -/
def afterNewPg (P : ParallelBufferPoolManager) : ParallelBufferPoolManager :=
  match NewPgImp P.num_of_bpm P with
  | some out => out.2.1
  | none => P

/-- The sharding invariant of a pool: there is at least one instance, the
cursor is in range, instance `i` was constructed with `num_of_bpm` and index
`i`, and its allocator counter is a non-negative 32-bit value congruent to `i`
modulo `num_of_bpm`. -/
def ShardInv (P : ParallelBufferPoolManager) : Prop :=
  0 < P.num_of_bpm ∧ P.last_bpm_index < P.num_of_bpm
  ∧ ∀ i, i < P.num_of_bpm →
      (P.parallel_buffer_pool_manager i).num_instances = P.num_of_bpm
      ∧ (P.parallel_buffer_pool_manager i).instance_index = i
      ∧ 0 ≤ (P.parallel_buffer_pool_manager i).next_page_id
      ∧ (P.parallel_buffer_pool_manager i).next_page_id < 2147483648
      ∧ (P.parallel_buffer_pool_manager i).next_page_id % (P.num_of_bpm : Int) = (i : Int)


/-- One round of the scenario `parLoop`: a page is created with `NewPgImp`, then
unpinned and deleted under the page id that was returned. -/
def parLoopRound (P : ParallelBufferPoolManager) : ParallelBufferPoolManager :=
  match NewPgImp P.num_of_bpm P with
  | some (some r, P', _) => (DeletePgImp (UnpinPgImp P' r.2.2 false).2 r.2.2).2
  | _ => P

/-- Scenario for the routing: a pool of seven instances with one frame each, on
which `r` times a page is created, unpinned and deleted again. -/
def parLoop : Nat → ParallelBufferPoolManager
  | 0 => construct 7 1 (fun _ => zeroData)
  | r + 1 => parLoopRound (parLoop r)

/-- Scenario for the routing: a fresh pool of three instances with two frames each. -/
def shardScenario : ParallelBufferPoolManager := construct 3 2 (fun _ => zeroData)

/-- The pool `shardScenario` after its first `NewPgImp`: instance 0 has created
page 0 and the cursor is at 1. -/
def shardScenarioAfter : ParallelBufferPoolManager :=
  { shardScenario.setBpm 0 (BufferPoolManagerInstance.NewPgImp (shardScenario.bpm 0)).2 with
    last_bpm_index := 1 }

end ParallelBufferPoolManager

/-! ## Hash bucket page: removal, pages built from a zeroed page -/

namespace HashTableBucketPage

/-- The loop of `Remove`, with `n` iterations left and `i` the current index. -/
def RemoveLoop (b : HashTableBucketPage) (key : KeyType) (value : ValueType) :
    Nat → Nat → Bool × HashTableBucketPage
  | 0, _ => (false, b)
  | n + 1, i =>
    if !b.IsOccupied i then (false, b)
    else if !b.IsReadable i then RemoveLoop b key value n (i + 1)
    else if comparator key (b.KeyAt i) = 0 ∧ value = b.ValueAt i then (true, b.RemoveAt i)
    else RemoveLoop b key value n (i + 1)

/-- Model of `HashTableBucketPage::Remove`: the return value and the page afterwards. -/
def Remove (cap : Nat) (b : HashTableBucketPage) (key : KeyType) (value : ValueType) :
    Bool × HashTableBucketPage :=
  RemoveLoop b key value cap 0

/-- The bucket pages obtained from an all-zero page by `Insert`, `Remove` and
`RemoveAt` on a slot of the page. -/
inductive Built (cap : Nat) : HashTableBucketPage → Prop
  | zero : Built cap zero
  | Insert {b : HashTableBucketPage} (h : Built cap b) (key : KeyType) (value : ValueType) :
      Built cap (Insert cap b key value).2
  | Remove {b : HashTableBucketPage} (h : Built cap b) (key : KeyType) (value : ValueType) :
      Built cap (Remove cap b key value).2
  | RemoveAt {b : HashTableBucketPage} (h : Built cap b) (bucket_idx : Nat)
      (hidx : bucket_idx < cap) : Built cap (RemoveAt b bucket_idx)

/-- The bitmap invariant of a bucket page: a readable slot is occupied, the
occupied slots lie below the capacity, and they form an initial segment. -/
structure BitmapInv (cap : Nat) (b : HashTableBucketPage) : Prop where
  readable_occupied : ∀ i, b.IsReadable i = true → b.IsOccupied i = true
  occupied_lt : ∀ i, b.IsOccupied i = true → i < cap
  occupied_prefix : ∀ i j, j < i → b.IsOccupied i = true → b.IsOccupied j = true

/-- The values `GetValue` is to report for `key`: those of the readable slots
whose key compares equal to `key`, in slot order. -/
def liveValues (cap : Nat) (b : HashTableBucketPage) (key : KeyType) : List ValueType :=
  ((List.range cap).filter
    (fun i => b.IsReadable i && decide (comparator key (b.KeyAt i) = 0))).map b.ValueAt


/-- Scenario for the bucket scan, capacity 4: the pairs (1, 10), (2, 20) and
(2, 21) are inserted into a zeroed page and slot 0 is removed, which leaves a
tombstone in front of the two pairs of key 2. -/
def tombstoneBucket : HashTableBucketPage :=
  RemoveAt (Insert 4 (Insert 4 (Insert 4 zero 1 10).2 2 20).2 2 21).2 0

end HashTableBucketPage

/-! ## B+ tree: page headers, split scenario -/

namespace BPlusTreePage

/-- The relation `sameHeader p q`: the page `q` has the header fields of `p`, the size apart
(page type, maximal size, parent page id, page id, next page id, and the bytes
in front of the slot array). -/
def sameHeader (p q : BPlusTreePage) : Prop :=
  q.page_type = p.page_type ∧ q.max_size = p.max_size ∧ q.parent_page_id = p.parent_page_id
  ∧ q.page_id = p.page_id ∧ q.next_page_id = p.next_page_id ∧ q.oob = p.oob

end BPlusTreePage
namespace BPlusTree

/-- Scenario for the leaf split: the tree with `leaf_max_size = 4` and
`internal_max_size = 4` after the keys 1, 2, 3 have been inserted; its root is
the leaf page 1. -/
def leafSplitScenario : BPlusTree :=
  { root_page_id := 1
    leaf_max_size := 4
    internal_max_size := 4
    pages :=
      [(1, { page_type := IndexPageType.LEAF_PAGE, size := 3, max_size := 4,
             parent_page_id := -1, page_id := 1, next_page_id := -1,
             array := [(1, 10), (2, 20), (3, 30)], oob := -5 })]
    next_page_id := 2
    oob := -5 }

/-- The first `size` slots of the page stored under `pid`. -/
def entries (t : BPlusTree) (pid : page_id_t) : List MappingType :=
  (t.page pid).array.take (t.page pid).size.toNat

end BPlusTree

/-! ## Extendible hash table: removal and merge -/

namespace HashTableDirectoryPage

/-- Modelled from the spec: `hash_table_directory_page.cpp` is not among the
sources; decrements the local depth of a slot, which is stored in a `u8`. -/
def DecrLocalDepth (d : HashTableDirectoryPage) (bucket_idx : Nat) : HashTableDirectoryPage :=
  d.SetLocalDepth bucket_idx ((d.GetLocalDepth bucket_idx + 255) % 256)

/-- Modelled from the spec: `hash_table_directory_page.cpp` is not among the
sources; `CanShrink` holds when every slot's local depth is below the global
depth. -/
def CanShrink (d : HashTableDirectoryPage) : Bool :=
  (List.range d.Size).all (fun i => decide (d.GetLocalDepth i < d.global_depth))

/-- Modelled from the spec: `hash_table_directory_page.cpp` is not among the
sources; decrements the global depth, which halves the directory. -/
def DecrGlobalDepth (d : HashTableDirectoryPage) : HashTableDirectoryPage :=
  { d with global_depth := d.global_depth - 1 }

end HashTableDirectoryPage

namespace ExtendibleHashTable

/-- The directory loop of `Merge`, with `n` iterations left and `i` the current slot. -/
def mergeDirLoop (bucket_pid : page_id_t) (new_bucket_index : Nat) :
    Nat → Nat → HashTableDirectoryPage → HashTableDirectoryPage
  | 0, _, d => d
  | n + 1, i, d =>
    mergeDirLoop bucket_pid new_bucket_index n (i + 1)
      (if (if d.GetBucketPageId i = d.GetBucketPageId new_bucket_index ∧ i ≠ new_bucket_index
            then d.DecrLocalDepth i else d).GetBucketPageId i = bucket_pid then
        ((if d.GetBucketPageId i = d.GetBucketPageId new_bucket_index ∧ i ≠ new_bucket_index
            then d.DecrLocalDepth i else d).SetLocalDepth i
          ((if d.GetBucketPageId i = d.GetBucketPageId new_bucket_index ∧ i ≠ new_bucket_index
            then d.DecrLocalDepth i else d).GetLocalDepth new_bucket_index)).SetBucketPageId i
          ((if d.GetBucketPageId i = d.GetBucketPageId new_bucket_index ∧ i ≠ new_bucket_index
            then d.DecrLocalDepth i else d).GetBucketPageId new_bucket_index)
      else
        (if d.GetBucketPageId i = d.GetBucketPageId new_bucket_index ∧ i ≠ new_bucket_index
          then d.DecrLocalDepth i else d))

/-- Model of `ExtendibleHashTable::Merge`, the recursion bounded by `fuel`; `none` when
the fuel runs out. -/
def Merge (hash : KeyType → Nat) (cap : Nat) :
    Nat → ExtendibleHashTable → KeyType → Option ExtendibleHashTable
  | 0, _, _ => none
  | fuel + 1, t, key =>
    let bucket_pid := KeyToPageId hash key t.directory
    let bucket_index := KeyToDirectoryIndex hash key t.directory
    if !HashTableBucketPage.IsEmpty cap (t.bucket bucket_pid) || t.directory.global_depth == 0 then
      some t
    else if HashTableBucketPage.IsEmpty cap (t.bucket bucket_pid)
        && decide (t.directory.GetLocalDepth bucket_index > 0) then
      let new_bucket_index := t.directory.GetSplitImageIndex bucket_index
      if t.directory.GetLocalDepth bucket_index = t.directory.GetLocalDepth new_bucket_index
          ∧ t.directory.GetBucketPageId bucket_index
            ≠ t.directory.GetBucketPageId new_bucket_index then
        let d1 := (t.directory.DecrLocalDepth bucket_index).DecrLocalDepth new_bucket_index
        let d2 := mergeDirLoop bucket_pid new_bucket_index d1.Size 0 d1
        let d3 := if d2.CanShrink then d2.DecrGlobalDepth else d2
        Merge hash cap fuel { t with directory := d3 } key
      else some t
    else some t

/-- Model of `ExtendibleHashTable::Remove`: the return value and the state; `none` when
the fuel of `Merge` runs out. -/
def Remove (hash : KeyType → Nat) (cap : Nat) (fuel : Nat) (t : ExtendibleHashTable)
    (key : KeyType) (value : ValueType) : Option (Bool × ExtendibleHashTable) :=
  let bucket_pid := KeyToPageId hash key t.directory
  let removed := HashTableBucketPage.Remove cap (t.bucket bucket_pid) key value
  if removed.1 && HashTableBucketPage.IsEmpty cap removed.2 then
    (Merge hash cap fuel (t.setBucket bucket_pid removed.2) key).map (fun t1 => (true, t1))
  else some (removed.1, t.setBucket bucket_pid removed.2)


/-- A sequence of `Remove` calls, in order: the return values and the final state. -/
def RemoveAll (hash : KeyType → Nat) (cap : Nat) (fuel : Nat) :
    ExtendibleHashTable → List (KeyType × ValueType) → Option (List Bool × ExtendibleHashTable)
  | t, [] => some ([], t)
  | t, (key, value) :: rest =>
    match Remove hash cap fuel t key value with
    | none => none
    | some (b, t1) =>
      match RemoveAll hash cap fuel t1 rest with
      | none => none
      | some (bs, t2) => some (b :: bs, t2)

end ExtendibleHashTable

/-- Scenario for `Remove` with bucket capacity 4: keys whose hashes are the keys
themselves, inserted in this order with value `100 + key`. -/
def mergeScenarioPairs : List (KeyType × ValueType) :=
  [(1, 101), (9, 109), (17, 117), (25, 125), (0, 100), (8, 108), (16, 116), (24, 124),
   (2, 102), (4, 104), (7, 107)]

/-! ## B+ tree over a pool that can run out of frames

The insertion path of `src/storage/index/b_plus_tree.cpp` once more, now with
its calls to the buffer pool kept: `NewPage` and `FetchPage` pin the page they
return, `UnpinPage` releases a pin. The state is the tree state of the model
above together with the pin count of every page of the pool (pages of other
clients included) and the number of frames of the pool.

The pool is the one of `buffer_pool_manager_instance.cpp`, seen from its
client: `NewPgImp` and the miss branch of `FetchPgImp` take a frame from the
free list or from the replacer and return `nullptr` when both are empty, which
is when every frame holds a pinned page; the hit branch of `FetchPgImp` only
adds a pin; a pinned page is resident; and the bytes of an unpinned page
survive eviction (the tree unpins every page it has written with
`is_dirty = true`), so page contents stay indexed by page id.

An operation ends normally, with the `OutOfMemory` exception that the tree
throws after `NewPage` returned `nullptr`, or by dereferencing the `nullptr`
that a failed `FetchPage` returned (the tree does not test that result). -/

/-- How an operation on the tree ends: normally with a result, with the exception
`Exception(ExceptionType::OUT_OF_MEMORY, ...)`, by dereferencing `nullptr`, or
with the fuel of the model used up. -/
inductive Outcome (α : Type)
  | ok (a : α)
  | outOfMemory
  | nullDeref
  | outOfFuel
  deriving DecidableEq

/-- The page id of the header page, `HEADER_PAGE_ID`: page 0, by the comment of
`UpdateRootPageId` in the source. -/
def HEADER_PAGE_ID : page_id_t := 0

/-- A B+ tree together with the pool it runs on. -/
structure BPlusTreeOnPool where
  tree : BPlusTree
  pins : List (page_id_t × Nat)
  pool_size : Nat
  deriving DecidableEq

/-- Replacement of the pin count of `pid` in the list, or a new entry at the end. -/
def storePin : List (page_id_t × Nat) → page_id_t → Nat → List (page_id_t × Nat)
  | [], pid, n => [(pid, n)]
  | (q, m) :: rest, pid, n =>
    if q = pid then (q, n) :: rest else (q, m) :: storePin rest pid n

namespace BPlusTreeOnPool

/-- The pin count of a page. -/
def pinCount (s : BPlusTreeOnPool) (pid : page_id_t) : Nat :=
  match s.pins.lookup pid with
  | some n => n
  | none => 0

/-- Every frame of the pool holds a pinned page: the pages with a pin are as many
as the frames. -/
def allPinned (s : BPlusTreeOnPool) : Bool :=
  decide (s.pool_size ≤ (s.pins.filter (fun e => decide (0 < e.2))).length)

/-- Model of `buffer_pool_manager_->NewPage(&pid)`: `nullptr` (`none`) when every
frame is pinned; otherwise the next page id, zeroed and pinned once. -/
def NewPage (s : BPlusTreeOnPool) : Option page_id_t × BPlusTreeOnPool :=
  if s.allPinned then (none, s)
  else
    (some s.tree.next_page_id,
      { s with
        tree := (BPlusTree.NewPage s.tree).2
        pins := storePin s.pins s.tree.next_page_id 1 })

/-- Model of `buffer_pool_manager_->FetchPage(pid)`: one more pin on a page that is
pinned already; otherwise a frame is needed, and the result is `nullptr`
(`false`) when every frame is pinned. -/
def FetchPage (s : BPlusTreeOnPool) (pid : page_id_t) : Bool × BPlusTreeOnPool :=
  if s.pinCount pid = 0 ∧ s.allPinned = true then (false, s)
  else (true, { s with pins := storePin s.pins pid (s.pinCount pid + 1) })

/-- Model of `buffer_pool_manager_->UnpinPage(pid, is_dirty)`: one pin less. -/
def UnpinPage (s : BPlusTreeOnPool) (pid : page_id_t) : BPlusTreeOnPool :=
  { s with pins := storePin s.pins pid (s.pinCount pid - 1) }

/-- Writing through a page pointer. -/
def setTreePage (s : BPlusTreeOnPool) (pid : page_id_t) (p : BPlusTreePage) : BPlusTreeOnPool :=
  { s with tree := s.tree.setTreePage pid p }

/-- Model of `BPlusTree::UpdateRootPageId`: the header page is fetched, written and
unpinned; `false` when `FetchPage` returned `nullptr`. -/
def UpdateRootPageId (s : BPlusTreeOnPool) : Bool × BPlusTreeOnPool :=
  match s.FetchPage HEADER_PAGE_ID with
  | (true, s1) => (true, s1.UnpinPage HEADER_PAGE_ID)
  | (false, s1) => (false, s1)

/-- The `while` loop of `FindLeafPage`, entered with the page `pid` fetched. -/
def FindLeafPageLoop (key : KeyType) (leftMost : Bool) :
    Nat → BPlusTreeOnPool → page_id_t → Outcome page_id_t × BPlusTreeOnPool
  | 0, s, _ => (Outcome.outOfFuel, s)
  | n + 1, s, pid =>
    if (s.tree.page pid).IsLeafPage then (Outcome.ok pid, s)
    else
      match (s.UnpinPage pid).FetchPage
          (if leftMost then BPlusTreeInternalPage.ValueAt (s.tree.page pid) 0
           else BPlusTreeInternalPage.Lookup (s.tree.page pid) key) with
      | (true, s1) =>
        FindLeafPageLoop key leftMost n s1
          (if leftMost then BPlusTreeInternalPage.ValueAt (s.tree.page pid) 0
           else BPlusTreeInternalPage.Lookup (s.tree.page pid) key)
      | (false, s1) => (Outcome.nullDeref, s1)

/-- Model of `BPlusTree::FindLeafPage` on a non-empty tree: the leaf page, pinned. -/
def FindLeafPage (fuel : Nat) (s : BPlusTreeOnPool) (key : KeyType) (leftMost : Bool) :
    Outcome page_id_t × BPlusTreeOnPool :=
  match s.FetchPage s.tree.root_page_id with
  | (true, s1) => FindLeafPageLoop key leftMost fuel s1 s.tree.root_page_id
  | (false, s1) => (Outcome.nullDeref, s1)

/-- Model of `BPlusTree::StartNewTree`. -/
def StartNewTree (s : BPlusTreeOnPool) (key : KeyType) (value : ValueType) :
    Outcome Unit × BPlusTreeOnPool :=
  match s.NewPage with
  | (none, s1) => (Outcome.outOfMemory, s1)
  | (some pid, s1) =>
    match ({ s1 with tree := { s1.tree with root_page_id := pid } }
        : BPlusTreeOnPool).UpdateRootPageId with
    | (false, s2) => (Outcome.nullDeref, s2)
    | (true, s2) =>
      (Outcome.ok (),
        (s2.setTreePage pid
          (BPlusTreeLeafPage.Insert
            (BPlusTreeLeafPage.Init (s2.tree.page pid) pid INVALID_PAGE_ID
              s2.tree.leaf_max_size) key value).2).UnpinPage pid)

/-- Model of `BPlusTree::Split<N>`: the new page, pinned, or `none` when the exception
is thrown. -/
def Split (leafTemplate : Bool) (s : BPlusTreeOnPool) (node : page_id_t) :
    Option page_id_t × BPlusTreeOnPool :=
  match s.NewPage with
  | (none, s1) => (none, s1)
  | (some pid, s1) =>
    (some pid,
      s1.setTreePage pid
        (if leafTemplate then
          BPlusTreeLeafPage.Init (s1.tree.page pid) pid (s1.tree.page node).parent_page_id
            (if (s1.tree.page node).IsLeafPage then s1.tree.leaf_max_size
             else s1.tree.internal_max_size)
        else
          BPlusTreeInternalPage.Init (s1.tree.page pid) pid (s1.tree.page node).parent_page_id
            (if (s1.tree.page node).IsLeafPage then s1.tree.leaf_max_size
             else s1.tree.internal_max_size)))

/-- Model of `BPlusTreeInternalPage::CopyLastFrom` on the page `recipient`; `false` when
`FetchPage` of the child returned `nullptr`. -/
def InternalCopyLastFrom (s : BPlusTreeOnPool) (recipient : page_id_t) (pair : MappingType) :
    Bool × BPlusTreeOnPool :=
  match s.FetchPage pair.2 with
  | (false, s1) => (false, s1)
  | (true, s1) =>
    (true,
      ({ s1 with tree := BPlusTree.InternalCopyLastFrom s1.tree recipient pair }
        : BPlusTreeOnPool).UnpinPage pair.2)

/-- The loop of `BPlusTreeInternalPage::MoveHalfTo`, `n` iterations left. -/
def InternalMoveHalfToLoop (node recipient : page_id_t) :
    Nat → Int → BPlusTreeOnPool → Bool × BPlusTreeOnPool
  | 0, _, s => (true, s)
  | n + 1, i, s =>
    match InternalCopyLastFrom s recipient ((s.tree.page node).slot i) with
    | (false, s1) => (false, s1)
    | (true, s1) => InternalMoveHalfToLoop node recipient n (i + 1) s1

/-- Model of `BPlusTreeInternalPage::MoveHalfTo` on the page `node`. -/
def InternalMoveHalfTo (s : BPlusTreeOnPool) (node recipient : page_id_t) :
    Bool × BPlusTreeOnPool :=
  match InternalMoveHalfToLoop node recipient
      ((s.tree.page node).size - ((s.tree.page node).size - (s.tree.page node).size.tdiv 2)).toNat
      ((s.tree.page node).size - (s.tree.page node).size.tdiv 2) s with
  | (false, s1) => (false, s1)
  | (true, s1) =>
    (true,
      s1.setTreePage node
        ((s1.tree.page node).DecreaseSize ((s.tree.page node).size.tdiv 2)))

/-- Model of `BPlusTree::InsertIntoParent`. -/
def InsertIntoParent :
    Nat → BPlusTreeOnPool → page_id_t → KeyType → page_id_t → Outcome Unit × BPlusTreeOnPool
  | 0, s, _, _, _ => (Outcome.outOfFuel, s)
  | fuel + 1, s, old_node, key, new_node =>
    if (s.tree.page old_node).IsRootPage then
      match s.NewPage with
      | (none, s1) => (Outcome.outOfMemory, s1)
      | (some pid, s1) =>
        let s2 : BPlusTreeOnPool := { s1 with tree := { s1.tree with root_page_id := pid } }
        let s3 := s2.setTreePage pid
          (BPlusTreeInternalPage.Init (s2.tree.page pid) pid INVALID_PAGE_ID
            s2.tree.internal_max_size)
        let s4 := s3.setTreePage old_node { s3.tree.page old_node with parent_page_id := pid }
        let s5 := s4.setTreePage new_node { s4.tree.page new_node with parent_page_id := pid }
        let s6 := s5.setTreePage pid
          (BPlusTreeInternalPage.PopulateNewRoot (s5.tree.page pid)
            (s5.tree.page old_node).page_id key (s5.tree.page new_node).page_id)
        match s6.UpdateRootPageId with
        | (false, s7) => (Outcome.nullDeref, s7)
        | (true, s7) => (Outcome.ok (), s7.UnpinPage pid)
    else
      let ppid := (s.tree.page old_node).parent_page_id
      match s.FetchPage ppid with
      | (false, s1) => (Outcome.nullDeref, s1)
      | (true, s1) =>
        let inserted := BPlusTreeInternalPage.InsertNodeAfter (s1.tree.page ppid)
          (s1.tree.page old_node).page_id key (s1.tree.page new_node).page_id
        let s2 := s1.setTreePage ppid inserted.2
        if inserted.1 = s2.tree.internal_max_size then
          match Split false s2 ppid with
          | (none, s3) => (Outcome.outOfMemory, s3)
          | (some new_internal, s3) =>
            match InternalMoveHalfTo s3 ppid new_internal with
            | (false, s4) => (Outcome.nullDeref, s4)
            | (true, s4) =>
              match InsertIntoParent fuel s4 ppid
                  (BPlusTreeInternalPage.KeyAt (s4.tree.page new_internal) 0) new_internal with
              | (Outcome.ok _, s5) =>
                (Outcome.ok (), (s5.UnpinPage new_internal).UnpinPage ppid)
              | (o, s5) => (o, s5)
        else (Outcome.ok (), s2.UnpinPage ppid)

/-- Model of `BPlusTree::InsertIntoLeaf`. -/
def InsertIntoLeaf (fuel : Nat) (s : BPlusTreeOnPool) (key : KeyType) (value : ValueType) :
    Outcome Bool × BPlusTreeOnPool :=
  match FindLeafPage fuel s key false with
  | (Outcome.ok leaf, s1) =>
    if comparator key
        (BPlusTreeLeafPage.GetItem (s1.tree.page leaf)
          (BPlusTreeLeafPage.KeyIndex (s1.tree.page leaf) key)).1 = 0 then
      (Outcome.ok false, s1.UnpinPage leaf)
    else
      let inserted := BPlusTreeLeafPage.Insert (s1.tree.page leaf) key value
      let s2 := s1.setTreePage leaf inserted.2
      if inserted.1 = s2.tree.leaf_max_size then
        match Split true s2 leaf with
        | (none, s3) => (Outcome.outOfMemory, s3)
        | (some new_leaf, s3) =>
          let moved := BPlusTreeLeafPage.MoveHalfTo (s3.tree.page leaf) (s3.tree.page new_leaf)
          let s4 := (s3.setTreePage leaf moved.1).setTreePage new_leaf moved.2
          let s5 := s4.setTreePage new_leaf
            { s4.tree.page new_leaf with next_page_id := (s4.tree.page leaf).next_page_id }
          let s6 := s5.setTreePage leaf
            { s5.tree.page leaf with next_page_id := (s5.tree.page new_leaf).page_id }
          match InsertIntoParent fuel s6 leaf
              (BPlusTreeLeafPage.KeyAt (s6.tree.page new_leaf) 0) new_leaf with
          | (Outcome.ok _, s7) => (Outcome.ok true, (s7.UnpinPage new_leaf).UnpinPage leaf)
          | (Outcome.outOfMemory, s7) => (Outcome.outOfMemory, s7)
          | (Outcome.nullDeref, s7) => (Outcome.nullDeref, s7)
          | (Outcome.outOfFuel, s7) => (Outcome.outOfFuel, s7)
      else (Outcome.ok true, s2.UnpinPage leaf)
  | (Outcome.outOfMemory, s1) => (Outcome.outOfMemory, s1)
  | (Outcome.nullDeref, s1) => (Outcome.nullDeref, s1)
  | (Outcome.outOfFuel, s1) => (Outcome.outOfFuel, s1)

/-- Model of `BPlusTree::Insert`. -/
def Insert (fuel : Nat) (s : BPlusTreeOnPool) (key : KeyType) (value : ValueType) :
    Outcome Bool × BPlusTreeOnPool :=
  if s.tree.root_page_id = INVALID_PAGE_ID then
    match StartNewTree s key value with
    | (Outcome.ok _, s1) => (Outcome.ok true, s1)
    | (Outcome.outOfMemory, s1) => (Outcome.outOfMemory, s1)
    | (Outcome.nullDeref, s1) => (Outcome.nullDeref, s1)
    | (Outcome.outOfFuel, s1) => (Outcome.outOfFuel, s1)
  else InsertIntoLeaf fuel s key value

/-- An empty tree on a pool of `pool_size` frames none of which is pinned. -/
def construct (leaf_max_size internal_max_size : Int) (oob : KeyType) (pool_size : Nat) :
    BPlusTreeOnPool :=
  { tree := BPlusTree.construct leaf_max_size internal_max_size oob
    pins := []
    pool_size := pool_size }

/-- A sequence of `Insert` calls, in order, up to the first one that does not end
normally: how the calls ended, and the state then. -/
def insertAll (fuel : Nat) :
    BPlusTreeOnPool → List (KeyType × ValueType) → List (Outcome Bool) × BPlusTreeOnPool
  | s, [] => ([], s)
  | s, (key, value) :: rest =>
    match Insert fuel s key value with
    | (Outcome.ok b, s1) =>
      match insertAll fuel s1 rest with
      | (outcomes, s2) => (Outcome.ok b :: outcomes, s2)
    | (Outcome.outOfMemory, s1) => ([Outcome.outOfMemory], s1)
    | (Outcome.nullDeref, s1) => ([Outcome.nullDeref], s1)
    | (Outcome.outOfFuel, s1) => ([Outcome.outOfFuel], s1)

/-- Scenario: a pool of one frame, which holds the header page, pinned by the caller;
the tree is empty. -/
def oomEmptyScenario : BPlusTreeOnPool :=
  ((construct 3 3 0 1).FetchPage HEADER_PAGE_ID).2

/-- Scenario: a pool of two frames, the header page pinned by the caller (as the
callers of the tree that create the header page do); `leaf_max_size = 3`, and
the keys 1 and 2 have been inserted. -/
def oomLeafScenario : BPlusTreeOnPool :=
  (insertAll 10 ((construct 3 3 0 2).FetchPage HEADER_PAGE_ID).2 [(1, 10), (2, 20)]).2

/-- Scenario: a pool of two frames, none pinned; `leaf_max_size = 3`, and the keys 1
and 2 have been inserted. -/
def oomRootScenario : BPlusTreeOnPool :=
  (insertAll 10 (construct 3 3 0 2) [(1, 10), (2, 20)]).2

/-- Scenario: a pool of four frames, the header page pinned by the caller;
`leaf_max_size = 3`, `internal_max_size = 3`, and the keys 1 to 4 have been
inserted: the root is the internal page 3 above the leaf pages 1 and 2. -/
def oomInternalScenario : BPlusTreeOnPool :=
  (insertAll 10 ((construct 3 3 0 4).FetchPage HEADER_PAGE_ID).2
    [(1, 10), (2, 20), (3, 30), (4, 40)]).2

end BPlusTreeOnPool

/-! ## Parallel pool: the cursor of `NewPgImp` -/

namespace ParallelBufferPoolManager

/-- Scenario for the cursor: a pool of two instances with one frame each; page 0
is created by instance 0 and page 1 by instance 1 (the cursor is back at 0),
then page 1 is unpinned, so that instance 0 is exhausted and instance 1 has a
frame to evict. -/
def cursorScenario : ParallelBufferPoolManager :=
  (UnpinPgImp (afterNewPg (afterNewPg (construct 2 1 (fun _ => zeroData)))) 1 false).2

end ParallelBufferPoolManager

/-! ## B+ tree: `IsEmpty` -/

namespace BPlusTree

/-- Model of `BPlusTree::IsEmpty`, whose body in the source is `return true;`. -/
def IsEmpty (_t : BPlusTree) : Bool := true

end BPlusTree
/-! ## B+ tree pages: the array positions that the searches read -/

namespace BPlusTreeLeafPage

/-- The positions of `array_` that the `for` loop of `KeyIndex` reads, in order, with
`n` iterations left and `i` the current index. -/
def KeyIndexLoopReads (p : BPlusTreePage) (key : KeyType) : Nat → Int → List Int
  | 0, _ => []
  | n + 1, i =>
    i :: (if comparator (p.slot i).1 key ≥ 0 then [] else KeyIndexLoopReads p key n (i + 1))

/-- The positions of `array_` that `BPlusTreeLeafPage::KeyIndex` reads, in order: first
`array_[GetSize() - 1]`, then, unless the call returns at once, the positions
of the loop. -/
def KeyIndexReads (p : BPlusTreePage) (key : KeyType) : List Int :=
  (p.size - 1) ::
    (if comparator (p.slot (p.size - 1)).1 key < 0 then []
     else KeyIndexLoopReads p key p.size.toNat 0)

end BPlusTreeLeafPage

namespace BPlusTreeInternalPage

/-- The positions of `array_` whose key the loop of `Lookup` reads, in order, with
`n` iterations left and `i` the current index. -/
def LookupLoopReads (p : BPlusTreePage) (key : KeyType) : Nat → Int → List Int
  | 0, _ => []
  | n + 1, i =>
    i :: (if comparator (p.slot i).1 key > 0 then []
      else if i < p.size - 1 then
        (i + 1) :: (if comparator (p.slot (i + 1)).1 key > 0 then []
          else LookupLoopReads p key n (i + 1))
      else [])

/-- The positions of `array_` whose key `BPlusTreeInternalPage::Lookup` reads, in
order. -/
def LookupReads (p : BPlusTreePage) (key : KeyType) : List Int :=
  if p.size = 1 then [] else LookupLoopReads p key (p.size - 1).toNat 1

/-- Scenario for `Lookup`: an internal page with three children, the pages 11, 12 and
13, separated by the keys 5 and 9 (the key of slot 0 is unused). -/
def routingPage : BPlusTreePage :=
  { zeroPage 0 with
    page_type := IndexPageType.INTERNAL_PAGE
    size := 3
    max_size := 4
    array := [(0, 11), (5, 12), (9, 13)] }

end BPlusTreeInternalPage

/-! ## Buffer pool manager instance: runs of calls, and the invariants of its bookkeeping -/

namespace BufferPoolManagerInstance

/-- A call of the interface of a pool instance: one of the five page operations,
or a client writing bytes into a frame. -/
inductive Op
  | NewPg
  | FetchPg (page_id : page_id_t)
  | UnpinPg (page_id : page_id_t) (is_dirty : Bool)
  | FlushPg (page_id : page_id_t)
  | DeletePg (page_id : page_id_t)
  | Write (f : frame_id_t) (d : PageData)

/-- The state after a call. -/
def Op.apply : Op → BufferPoolManagerInstance → BufferPoolManagerInstance
  | Op.NewPg, s => (NewPgImp s).2
  | Op.FetchPg page_id, s => (FetchPgImp s page_id).2
  | Op.UnpinPg page_id is_dirty, s => (UnpinPgImp s page_id is_dirty).2
  | Op.FlushPg page_id, s => (FlushPgImp s page_id).2
  | Op.DeletePg page_id, s => (DeletePgImp s page_id).2
  | Op.Write f d, s => WriteData s f d

/-- The states an instance reaches from its constructor (whose two assertions hold)
through calls each of which satisfies the condition `ok` in the state it is
made in. -/
inductive Run (ok : BufferPoolManagerInstance → Op → Prop) : BufferPoolManagerInstance → Prop
  | construct (pool_size num_instances instance_index : Nat) (disk : page_id_t → PageData)
      (hpos : 0 < num_instances) (hlt : instance_index < num_instances) :
      Run ok (construct pool_size num_instances instance_index disk)
  | step {s : BufferPoolManagerInstance} (h : Run ok s) (op : Op) (hok : ok s op) :
      Run ok (op.apply s)

/-- No condition on the calls. -/
def anyCall : BufferPoolManagerInstance → Op → Prop := fun _ _ => True

/-- The calls of a client that unpins only what is pinned: `UnpinPgImp` is called on a
page only when the frame that holds it has a positive pin count. -/
def unpinsPinned (s : BufferPoolManagerInstance) : Op → Prop
  | Op.UnpinPg page_id _ => ∀ f, s.page_table page_id = some f → 0 < (s.pages f).pin_count
  | _ => True

/-- The calls that bring in proper page ids only: `FetchPgImp` is not called with the
INVALID sentinel, and `NewPgImp` is not called when the page id it would
allocate is the sentinel or is resident already. -/
def properIds (s : BufferPoolManagerInstance) : Op → Prop
  | Op.NewPg => s.next_page_id ≠ INVALID_PAGE_ID ∧ s.page_table s.next_page_id = none
  | Op.FetchPg page_id => page_id ≠ INVALID_PAGE_ID
  | _ => True

/-- Bookkeeping of frames that every run maintains: the replacer is well-formed,
the free list has no duplicates, frame indices are below the pool size, the
page table is consistent with the frames, and a frame on the free list holds
no page (no page-table entry leads to it, its page id is the sentinel and its
pin count is 0). -/
structure FrameInv (s : BufferPoolManagerInstance) : Prop where
  replacer_wf : s.replacer.WF
  free_nodup : s.free_list.Nodup
  free_lt : ∀ f, f ∈ s.free_list → f < s.pool_size
  dll_lt : ∀ f, f ∈ s.replacer.dll → f < s.pool_size
  table_lt : ∀ q f, s.page_table q = some f → f < s.pool_size
  consistent : TableConsistent s
  free_not_resident : ∀ f, f ∈ s.free_list → ∀ q, s.page_table q ≠ some f
  free_fresh : ∀ f, f ∈ s.free_list →
    (s.pages f).page_id = INVALID_PAGE_ID ∧ (s.pages f).pin_count = 0

/-- What runs of proper page ids maintain in addition: every frame of the pool that
is not on the free list is reached from the page table, and the sentinel is
not a key of the page table. -/
structure CoverInv (s : BufferPoolManagerInstance) : Prop where
  covered : ∀ f, f < s.pool_size → f ∉ s.free_list → ∃ q, s.page_table q = some f
  no_invalid : ∀ f, s.page_table INVALID_PAGE_ID ≠ some f

/-- Scenario: a pool of two frames (one instance); page 0 is fetched, then `NewPgImp`
allocates the page id 0 once more. -/
def twiceResidentScenario : BufferPoolManagerInstance :=
  (NewPgImp (FetchPgImp (construct 2 1 0 (fun _ => zeroData)) 0).2).2

/-- Scenario: a pool of one frame; page 0 is created and unpinned. -/
def unpinnedScenario : BufferPoolManagerInstance :=
  (UnpinPgImp (NewPgImp (construct 1 1 0 (fun _ => zeroData))).2 0 false).2

/-- Scenario: a pool of three frames, instance 1 of 2; pages 1 and 3 are created, page
5 is fetched, page 1 is unpinned and page 3 is unpinned and deleted. -/
def shardRunScenario : BufferPoolManagerInstance :=
  (DeletePgImp
    (UnpinPgImp
      (UnpinPgImp
        (FetchPgImp (NewPgImp (NewPgImp (construct 3 2 1 (fun _ => zeroData))).2).2 5).2
        1 true).2 3 false).2 3).2

end BufferPoolManagerInstance

namespace BufferPoolManagerInstance

/-- The calls in which `DeletePgImp` frees no frame: it is not called on a resident
page whose pin count is 0. -/
def deletesPinnedOnly (s : BufferPoolManagerInstance) : Op → Prop
  | Op.DeletePg page_id => ∀ f, s.page_table page_id = some f → (s.pages f).pin_count ≠ 0
  | _ => True

/-- Scenario: the page of `unpinnedScenario` is unpinned a second time. -/
def doubleUnpinScenario : BufferPoolManagerInstance :=
  (UnpinPgImp unpinnedScenario 0 false).2

/-- Scenario: the page of `unpinnedScenario` is deleted. -/
def deletedScenario : BufferPoolManagerInstance :=
  (DeletePgImp unpinnedScenario 0).2

end BufferPoolManagerInstance

/-! ## Extendible hash table: reachable states and the shape of the directory -/

namespace HashTableDirectoryPage

/-- The shape every reachable directory has, for the slots below `Size` and with the
page id `next` that the pool hands out next: a local depth is at most the
global depth, slots that point to the same bucket page have the same local
depth, and every bucket page id is below `next`. -/
structure DirInv (d : HashTableDirectoryPage) (next : page_id_t) : Prop where
  depth_le : ∀ s, s < d.Size → d.GetLocalDepth s ≤ d.global_depth
  same_depth : ∀ s u, s < d.Size → u < d.Size → d.GetBucketPageId s = d.GetBucketPageId u →
    d.GetLocalDepth s = d.GetLocalDepth u
  pid_lt : ∀ s, s < d.Size → d.GetBucketPageId s < next

end HashTableDirectoryPage

namespace ExtendibleHashTable

/-- The states of a hash table with hash function `hash` and bucket capacity `cap` that
are reached from a freshly constructed table by calls of `Insert`, `Remove`,
`SplitInsert` and `Merge` that return. -/
inductive Reached (hash : KeyType → Nat) (cap : Nat) : ExtendibleHashTable → Prop
  | construct : Reached hash cap construct
  | Insert {t : ExtendibleHashTable} (h : Reached hash cap t) (fuel : Nat) (key : KeyType)
      (value : ValueType) (r : Bool × ExtendibleHashTable)
      (he : ExtendibleHashTable.Insert hash cap fuel t key value = some r) : Reached hash cap r.2
  | Remove {t : ExtendibleHashTable} (h : Reached hash cap t) (fuel : Nat) (key : KeyType)
      (value : ValueType) (r : Bool × ExtendibleHashTable)
      (he : ExtendibleHashTable.Remove hash cap fuel t key value = some r) : Reached hash cap r.2
  | SplitInsert {t : ExtendibleHashTable} (h : Reached hash cap t) (fuel : Nat) (key : KeyType)
      (value : ValueType) (r : Bool × ExtendibleHashTable)
      (he : ExtendibleHashTable.SplitInsert hash cap fuel t key value = some r) :
      Reached hash cap r.2
  | Merge {t : ExtendibleHashTable} (h : Reached hash cap t) (fuel : Nat) (key : KeyType)
      (r : ExtendibleHashTable)
      (he : ExtendibleHashTable.Merge hash cap fuel t key = some r) : Reached hash cap r

/-- Scenario: bucket capacity 4; the pairs of `mergeScenarioPairs` are inserted, then
the pairs of the keys 0, 8, 16 and 24 are removed. -/
def depthScenario : ExtendibleHashTable :=
  match InsertAll idHash 4 3 construct mergeScenarioPairs with
  | none => construct
  | some r =>
    match RemoveAll idHash 4 4 r.2 [(0, 100), (8, 108), (16, 116), (24, 124)] with
    | none => r.2
    | some r2 => r2.2

end ExtendibleHashTable

/-! ## B+ tree pages: redistribution moves -/

namespace BPlusTreeLeafPage

/-- Model of `BPlusTreeLeafPage::CopyFirstFrom`: the loop
`for (i = GetSize(); i > 0; i--) array_[i] = array_[i-1]`, then `array_[0] = item`. -/
def CopyFirstFrom (p : BPlusTreePage) (item : MappingType) : BPlusTreePage :=
  (BPlusTreePage.shiftUp p.size.toNat p.size p).setSlot 0 item

/-- Model of `BPlusTreeLeafPage::MoveLastToFrontOf`: the page and the recipient afterwards. -/
def MoveLastToFrontOf (p recipient : BPlusTreePage) : BPlusTreePage × BPlusTreePage :=
  (p.DecreaseSize 1, CopyFirstFrom recipient (p.slot (p.size - 1)))

/-- The first `size` slots of a page. -/
def entries (p : BPlusTreePage) : List MappingType := p.array.take p.size.toNat

/-- Scenario: a leaf with the entries of the keys 1, 2, 3. -/
def donorLeaf : BPlusTreePage :=
  { Init (zeroPage (-5)) 2 1 4 with size := 3, array := [(1, 10), (2, 20), (3, 30)] }

/-- Scenario: a leaf with the entries of the keys 5, 6. -/
def recipientLeaf : BPlusTreePage :=
  { Init (zeroPage (-5)) 3 1 4 with size := 2, array := [(5, 50), (6, 60)] }

end BPlusTreeLeafPage

namespace BPlusTree

/-- Model of `BPlusTreeInternalPage::MoveFirstToEndOf` on the page `node`: the pair of the
middle key and the first child is appended to the recipient by `CopyLastFrom`,
then the size of the page is decreased by one. -/
def InternalMoveFirstToEndOf (t : BPlusTree) (node recipient : page_id_t)
    (middle_key : KeyType) : BPlusTree :=
  let t1 := InternalCopyLastFrom t recipient
    (middle_key, BPlusTreeInternalPage.ValueAt (t.page node) 0)
  setTreePage t1 node ((t1.page node).DecreaseSize 1)

/-- Scenario: two internal pages under the root page 1: page 2 with the children 21, 22
and page 3 with the children 11, 12, 13 (routing keys 5 and 9); the children
are leaves. -/
def moveFirstScenario : BPlusTree :=
  { root_page_id := 1
    leaf_max_size := 4
    internal_max_size := 4
    pages :=
      [(1, { BPlusTreeInternalPage.Init (zeroPage (-5)) 1 (-1) 4 with
              size := 2, array := [(0, 2), (4, 3)] }),
       (2, { BPlusTreeInternalPage.Init (zeroPage (-5)) 2 1 4 with
              size := 2, array := [(0, 21), (3, 22)] }),
       (3, { BPlusTreeInternalPage.Init (zeroPage (-5)) 3 1 4 with
              size := 3, array := [(0, 11), (5, 12), (9, 13)] }),
       (21, BPlusTreeLeafPage.Init (zeroPage (-5)) 21 2 4),
       (22, BPlusTreeLeafPage.Init (zeroPage (-5)) 22 2 4),
       (11, BPlusTreeLeafPage.Init (zeroPage (-5)) 11 3 4),
       (12, BPlusTreeLeafPage.Init (zeroPage (-5)) 12 3 4),
       (13, BPlusTreeLeafPage.Init (zeroPage (-5)) 13 3 4)]
    next_page_id := 30
    oob := -5 }

end BPlusTree

/-! ## Extendible hash table: slot sharing, repeated splits, unpin arguments -/

namespace HashTableDirectoryPage

/-- The directory slots that reference the bucket page `pid`. -/
def slotsOf (d : HashTableDirectoryPage) (pid : page_id_t) : List Nat :=
  (List.range d.Size).filter (fun i => decide (d.GetBucketPageId i = pid))

/-- The directory slots that agree with slot `s` on the low `local_depth[s]` bits. -/
def slotsSharing (d : HashTableDirectoryPage) (s : Nat) : List Nat :=
  (List.range d.Size).filter
    (fun i => decide (i % 2 ^ d.GetLocalDepth s = s % 2 ^ d.GetLocalDepth s))

end HashTableDirectoryPage

namespace ExtendibleHashTable

/-- Scenario: bucket capacity 4, the hash of a key is the key; the table after the
pairs of `mergeScenarioPairs` have been inserted. -/
def sharingScenario : ExtendibleHashTable :=
  match InsertAll idHash 4 3 construct mergeScenarioPairs with
  | some (_, t) => t
  | none => construct

/-- The state in which `Insert` is called for the `n`-th time by `SplitInsert`, when
every call of `SplitInsert` on the way has split a bucket. -/
def splitSteps (hash : KeyType → Nat) (cap : Nat) (key : KeyType) (value : ValueType) :
    Nat → ExtendibleHashTable → ExtendibleHashTable
  | 0, t => t
  | n + 1, t => splitSteps hash cap key value n (SplitInsertBody hash cap t key value).2

/-- Scenario: four pairs of the key 0 with distinct values. -/
def sameKeyPairs : List (KeyType × ValueType) := [(0, 1), (0, 2), (0, 3), (0, 4)]

/-- Scenario: bucket capacity 4; the table after the pairs of `sameKeyPairs` have
been inserted: its only bucket is full. -/
def sameKeyScenario : ExtendibleHashTable :=
  match InsertAll idHash 4 1 construct sameKeyPairs with
  | some (_, t) => t
  | none => construct

/-- The situation in which a split cannot help `Insert` of the key 0 under `idHash`: the
bucket of directory slot 0 is full, all its keys are 0, and the local depth of
slot 0 is at most the global depth. -/
structure Stuck (cap : Nat) (t : ExtendibleHashTable) : Prop where
  full : HashTableBucketPage.IsFull cap (t.bucket (t.directory.GetBucketPageId 0)) = true
  keys : ∀ i, i < cap → (t.bucket (t.directory.GetBucketPageId 0)).KeyAt i = 0
  depth_le : t.directory.GetLocalDepth 0 ≤ t.directory.global_depth

/-- The `UnpinPage` calls of `ExtendibleHashTable::GetValue`, in order: the page id and
the `is_dirty` argument of each. -/
def GetValueUnpins (hash : KeyType → Nat) (cap : Nat) (t : ExtendibleHashTable) (key : KeyType) :
    List (page_id_t × Bool) :=
  let bucket_pid := KeyToPageId hash key t.directory
  let isFound := (HashTableBucketPage.GetValue cap (t.bucket bucket_pid) key []).1
  [(t.directory_page_id, false), (bucket_pid, isFound)]

/-- The `UnpinPage` calls of `ExtendibleHashTable::Merge`, in order, those of its
recursive calls included: the page id and the `is_dirty` argument of each;
`none` when the fuel runs out. The branches are those of `Merge`. -/
def MergeUnpins (hash : KeyType → Nat) (cap : Nat) :
    Nat → ExtendibleHashTable → KeyType → Option (List (page_id_t × Bool))
  | 0, _, _ => none
  | fuel + 1, t, key =>
    let bucket_pid := KeyToPageId hash key t.directory
    let bucket_index := KeyToDirectoryIndex hash key t.directory
    if !HashTableBucketPage.IsEmpty cap (t.bucket bucket_pid) || t.directory.global_depth == 0 then
      some [(bucket_pid, false), (t.directory_page_id, true)]
    else if HashTableBucketPage.IsEmpty cap (t.bucket bucket_pid)
        && decide (t.directory.GetLocalDepth bucket_index > 0) then
      let new_bucket_index := t.directory.GetSplitImageIndex bucket_index
      if t.directory.GetLocalDepth bucket_index = t.directory.GetLocalDepth new_bucket_index
          ∧ t.directory.GetBucketPageId bucket_index
            ≠ t.directory.GetBucketPageId new_bucket_index then
        let d1 := (t.directory.DecrLocalDepth bucket_index).DecrLocalDepth new_bucket_index
        let d2 := mergeDirLoop bucket_pid new_bucket_index d1.Size 0 d1
        let d3 := if d2.CanShrink then d2.DecrGlobalDepth else d2
        (MergeUnpins hash cap fuel { t with directory := d3 } key).map
          (fun rest => [(bucket_pid, false), (t.directory_page_id, true)] ++ rest)
      else some [(bucket_pid, false), (t.directory_page_id, true)]
    else some [(bucket_pid, false), (t.directory_page_id, true)]

/-- Scenario: bucket capacity 4; the pair (1, 101) is inserted into a fresh table. -/
def onePairScenario : ExtendibleHashTable :=
  match Insert idHash 4 1 construct 1 101 with
  | some (_, t) => t
  | none => construct

/-- Scenario: the state in which `Remove(1, 101)` calls `Merge` on `onePairScenario`: the
pair has been removed from the bucket page. -/
def emptiedScenario : ExtendibleHashTable :=
  onePairScenario.setBucket (KeyToPageId idHash 1 onePairScenario.directory)
    (HashTableBucketPage.Remove 4
      (onePairScenario.bucket (KeyToPageId idHash 1 onePairScenario.directory)) 1 101).2

end ExtendibleHashTable

/-! ## B+ tree: the leaf chain -/

namespace BPlusTree

/-- The walk along `next_page_id` from the leaf `pid`: the keys of the entries of the
leaves visited, in order; `none` when the chain has more than `n` leaves. -/
def chainKeys (t : BPlusTree) : Nat → page_id_t → Option (List KeyType)
  | 0, pid => if pid = INVALID_PAGE_ID then some [] else none
  | n + 1, pid =>
    if pid = INVALID_PAGE_ID then some []
    else
      (chainKeys t n (t.page pid).next_page_id).map
        (fun rest => (entries t pid).map Prod.fst ++ rest)

/-- The keys met along the leaf chain, from the leaf that `FindLeafPage` returns with
`leftMost = true`; `none` when the fuel runs out. -/
def leafChainKeys (fuel : Nat) (t : BPlusTree) : Option (List KeyType) :=
  match FindLeafPage fuel t 0 true with
  | none => none
  | some none => some []
  | some (some leaf) => chainKeys t fuel leaf

end BPlusTree

/-! ## B+ tree over a pool: point lookup -/

namespace BPlusTreeOnPool

/-- Model of `BPlusTree::GetValue` with its calls to the pool: the return value with the
values pushed to `result`. `FindLeafPage` returns `nullptr` on an empty tree, and
`GetValue` then returns false; otherwise the leaf is looked up and unpinned. -/
def GetValue (fuel : Nat) (s : BPlusTreeOnPool) (key : KeyType) :
    Outcome (Bool × List ValueType) × BPlusTreeOnPool :=
  if s.tree.root_page_id = INVALID_PAGE_ID then (Outcome.ok (false, []), s)
  else
    match FindLeafPage fuel s key false with
    | (Outcome.ok leaf, s1) =>
      match BPlusTreeLeafPage.Lookup (s1.tree.page leaf) key with
      | some value => (Outcome.ok (true, [value]), s1.UnpinPage leaf)
      | none => (Outcome.ok (false, []), s1.UnpinPage leaf)
    | (Outcome.outOfMemory, s1) => (Outcome.outOfMemory, s1)
    | (Outcome.nullDeref, s1) => (Outcome.nullDeref, s1)
    | (Outcome.outOfFuel, s1) => (Outcome.outOfFuel, s1)

/-- Scenario: a pool of ten frames in which the header page is pinned twice and page
3, still to be created, has no pin; `leaf_max_size = 3`, `internal_max_size = 3`,
and the keys 1 to 4 have been inserted: the root is the internal page 3 above
the leaf pages 1 and 2, and the leaf page 2 is full but for one entry. -/
def bracketScenario : BPlusTreeOnPool :=
  (insertAll 10
    (((construct 3 3 0 10).FetchPage HEADER_PAGE_ID).2.FetchPage HEADER_PAGE_ID).2
    [(1, 10), (2, 20), (3, 30), (4, 40)]).2

end BPlusTreeOnPool

/-! ## Extendible hash table: one step of `Merge` -/

namespace ExtendibleHashTable

/-- The directory with which `Merge` calls itself after it has merged: the local depths
of the key's slot and of its split image decremented, the slots repointed by
the loop, and the global depth decremented when `CanShrink` holds. -/
def mergeStepDirectory (hash : KeyType → Nat) (t : ExtendibleHashTable) (key : KeyType) :
    HashTableDirectoryPage :=
  let bucket_pid := KeyToPageId hash key t.directory
  let bucket_index := KeyToDirectoryIndex hash key t.directory
  let new_bucket_index := t.directory.GetSplitImageIndex bucket_index
  let d1 := (t.directory.DecrLocalDepth bucket_index).DecrLocalDepth new_bucket_index
  let d2 := mergeDirLoop bucket_pid new_bucket_index d1.Size 0 d1
  if d2.CanShrink then d2.DecrGlobalDepth else d2

/-- Scenario with bucket capacity 1, first part: four pairs to insert. -/
def repeatPairsA : List (KeyType × ValueType) := [(13, 130), (29, 290), (24, 240), (56, 560)]

/-- Scenario with bucket capacity 1, second part: the four pairs, to remove in this
order. -/
def repeatPairsB : List (KeyType × ValueType) := [(13, 130), (24, 240), (56, 560), (29, 290)]

/-- Scenario with bucket capacity 1, third part: five pairs to insert. -/
def repeatPairsC : List (KeyType × ValueType) :=
  [(47, 470), (26, 260), (60, 600), (51, 510), (27, 270)]

/-- The three parts of the scenario run on a fresh table (bucket capacity 1, the hash
of a key is the key): the return values of the thirteen calls and the state. -/
def repeatRun : Option (List Bool × ExtendibleHashTable) :=
  match ExtendibleHashTable.InsertAll idHash 1 8 construct repeatPairsA with
  | none => none
  | some (r1, t1) =>
    match RemoveAll idHash 1 8 t1 repeatPairsB with
    | none => none
    | some (r2, t2) =>
      match ExtendibleHashTable.InsertAll idHash 1 8 t2 repeatPairsC with
      | none => none
      | some (r3, t3) => some (r1 ++ r2 ++ r3, t3)

/-- Scenario: the state after the thirteen calls of `repeatRun`. -/
def repeatScenario : ExtendibleHashTable :=
  match repeatRun with
  | some (_, t) => t
  | none => construct

/-- Scenario: the state in which `Remove(27, 270)` on `repeatScenario` calls `Merge`: the pair
has been removed from its bucket page. -/
def repeatEmptied : ExtendibleHashTable :=
  repeatScenario.setBucket (KeyToPageId idHash 27 repeatScenario.directory)
    (HashTableBucketPage.Remove 1
      (repeatScenario.bucket (KeyToPageId idHash 27 repeatScenario.directory)) 27 270).2

end ExtendibleHashTable

/-! ## B+ tree: shape of the tree after insertions -/

namespace BPlusTree

/-- The page id `pid` has been handed out by the pool: the pages of the tree are those
with the ids `1 .. next_page_id - 1`. -/
def IsTreePage (t : BPlusTree) (pid : page_id_t) : Prop := 1 ≤ pid ∧ pid < t.next_page_id

/-- The page `c` is the value of one of the slots `0 .. size - 1` of the page `pid`. -/
def IsChild (t : BPlusTree) (pid c : page_id_t) : Prop :=
  ∃ i, 0 ≤ i ∧ i < (t.page pid).size ∧ ((t.page pid).slot i).2 = c

/-- The maximal size that applies to the page `pid`: `leaf_max_size` for a leaf page,
`internal_max_size` otherwise. -/
def pageMax (t : BPlusTree) (pid : page_id_t) : Int :=
  if (t.page pid).IsLeafPage then t.leaf_max_size else t.internal_max_size

/-- The shape of the pages of a tree; `pending` is a page that a split has created
and that is not yet entered in a parent page. Every page carries its own page
id, is a leaf or an internal page and is not its own parent; a page whose
parent is INVALID is the root, any other page is a child of the internal page
its parent pointer names; the children of an internal page are pages of the
tree whose parent pointer names that page, and they are pairwise different;
a leaf has a size of at least 0 and an internal page of at least 1. -/
structure Core (t : BPlusTree) (pending : Option page_id_t) : Prop where
  page_id_eq : ∀ pid, IsTreePage t pid → (t.page pid).page_id = pid
  typed : ∀ pid, IsTreePage t pid →
    (t.page pid).page_type = IndexPageType.LEAF_PAGE
    ∨ (t.page pid).page_type = IndexPageType.INTERNAL_PAGE
  no_self : ∀ pid, IsTreePage t pid → (t.page pid).parent_page_id ≠ pid
  root_unique : ∀ pid, IsTreePage t pid → pending ≠ some pid →
    (t.page pid).parent_page_id = INVALID_PAGE_ID → pid = t.root_page_id
  parent_of : ∀ pid, IsTreePage t pid → pending ≠ some pid →
    (t.page pid).parent_page_id ≠ INVALID_PAGE_ID →
    IsTreePage t (t.page pid).parent_page_id
    ∧ (t.page (t.page pid).parent_page_id).page_type = IndexPageType.INTERNAL_PAGE
    ∧ IsChild t (t.page pid).parent_page_id pid
  child_of : ∀ pid, IsTreePage t pid →
    (t.page pid).page_type = IndexPageType.INTERNAL_PAGE →
    ∀ i, 0 ≤ i → i < (t.page pid).size →
      IsTreePage t ((t.page pid).slot i).2
      ∧ (t.page ((t.page pid).slot i).2).parent_page_id = pid
      ∧ pending ≠ some ((t.page pid).slot i).2
  child_inj : ∀ pid, IsTreePage t pid →
    (t.page pid).page_type = IndexPageType.INTERNAL_PAGE →
    ∀ i j, 0 ≤ i → i < (t.page pid).size → 0 ≤ j → j < (t.page pid).size →
      ((t.page pid).slot i).2 = ((t.page pid).slot j).2 → i = j
  leaf_size : ∀ pid, IsTreePage t pid →
    (t.page pid).page_type = IndexPageType.LEAF_PAGE → 0 ≤ (t.page pid).size
  internal_size : ∀ pid, IsTreePage t pid →
    (t.page pid).page_type = IndexPageType.INTERNAL_PAGE → 1 ≤ (t.page pid).size

/-- The shape of a tree between two calls of `Insert`: the tree is empty and no page
has been handed out, or the root is a page of the tree whose parent is INVALID;
and the pages have the shape `Core` with no page pending. -/
structure WF (t : BPlusTree) : Prop where
  root_cases : (t.root_page_id = INVALID_PAGE_ID ∧ t.next_page_id = 1)
    ∨ (IsTreePage t t.root_page_id
      ∧ (t.page t.root_page_id).parent_page_id = INVALID_PAGE_ID)
  core : Core t none

/-- The shape of a tree when `InsertIntoParent` is called for the page `old_node` and the
page `new_node` that a split of `old_node` has created: `new_node` has the parent
pointer of `old_node` and is pending. -/
structure Pending (t : BPlusTree) (old_node new_node : page_id_t) : Prop where
  root_tree : IsTreePage t t.root_page_id
  root_parent : (t.page t.root_page_id).parent_page_id = INVALID_PAGE_ID
  old_tree : IsTreePage t old_node
  new_tree : IsTreePage t new_node
  ne : old_node ≠ new_node
  new_parent : (t.page new_node).parent_page_id = (t.page old_node).parent_page_id
  core : Core t (some new_node)

/-- The size bounds of the pages: every page is below the maximal size of its kind,
and every page other than the root, and the page `old_node` if there is one, has
at least half of it, rounded down. -/
def SizeBounds (t : BPlusTree) (old_node : Option page_id_t) : Prop :=
  ∀ pid, IsTreePage t pid →
    (t.page pid).size ≤ pageMax t pid - 1
    ∧ ((pid ≠ t.root_page_id ∨ old_node = some pid) → pageMax t pid / 2 ≤ (t.page pid).size)

end BPlusTree

namespace BPlusTree

/-- The page `c` is the value of one of the slots `lo ≤ i < size` of the page `pid`. -/
def IsChildFrom (t : BPlusTree) (pid : page_id_t) (lo : Int) (c : page_id_t) : Prop :=
  ∃ i, lo ≤ i ∧ i < (t.page pid).size ∧ ((t.page pid).slot i).2 = c

end BPlusTree
namespace BPlusTree

/-- The state in which `InsertIntoLeaf` calls `InsertIntoParent`: the pair has been inserted
in the leaf, the leaf has been split, its upper half moved to the new leaf, and
the new leaf linked in behind it. -/
def leafSplitState (t : BPlusTree) (leaf : page_id_t) (key : KeyType) (value : ValueType) :
    BPlusTree :=
  let inserted := BPlusTreeLeafPage.Insert (t.page leaf) key value
  let t1 := setTreePage t leaf inserted.2
  let new_leaf := (Split true t1 leaf).1
  let t2 := (Split true t1 leaf).2
  let moved := BPlusTreeLeafPage.MoveHalfTo (t2.page leaf) (t2.page new_leaf)
  let t3 := setTreePage (setTreePage t2 leaf moved.1) new_leaf moved.2
  let t4 := setTreePage t3 new_leaf
    { t3.page new_leaf with next_page_id := (t3.page leaf).next_page_id }
  setTreePage t4 leaf { t4.page leaf with next_page_id := (t4.page new_leaf).page_id }

end BPlusTree
namespace BPlusTree

/-- Scenario for the shape of the tree: the pairs of the keys 1 to 5. -/
def shapePairs : List (KeyType × ValueType) := [(1, 10), (2, 20), (3, 30), (4, 40), (5, 50)]

/-- Scenario for the shape of the tree: the return values and the tree after the keys 1
to 5 have been inserted with `leaf_max_size = 3` and `internal_max_size = 3`; the third
insertion splits a leaf and makes a new root, the fifth splits a leaf and the
root. -/
def shapeScenario : List Bool × BPlusTree :=
  match InsertAll 2 (construct 3 3 (-5)) shapePairs with
  | some r => r
  | none => ([], construct 3 3 (-5))

end BPlusTree

namespace BPlusTree

/-- A ranking of the pages of a tree: every page has a level of at most `B`, and a
page with a parent lies below the level of its parent. -/
def Ranked (t : BPlusTree) (lvl : page_id_t → Nat) (B : Nat) : Prop :=
  ∀ q, IsTreePage t q →
    lvl q ≤ B
    ∧ ((t.page q).parent_page_id ≠ INVALID_PAGE_ID → lvl q < lvl (t.page q).parent_page_id)

end BPlusTree

/-! ## Buffer pool manager instance: a page-table entry left behind by `FlushAllPgsImp` -/

namespace BufferPoolManagerInstance

/-- Scenario: `flushAllScenario` after `FlushAllPgsImp`. The page table holds the entries
`0 -> 0`, `1 -> 1` and `2 -> 0`: frame 0 holds page 2 with pin count 0, and the loop
of `FlushAllPgsImp` has added the entry for page id 0. -/
def flushedScenario : BufferPoolManagerInstance := FlushAllPgsImp flushAllScenario

/-- Scenario: `flushedScenario` after `DeletePgImp` for page id 0 and `FetchPgImp` for page
id 0. -/
def refetchedScenario : BufferPoolManagerInstance :=
  (FetchPgImp (DeletePgImp flushedScenario 0).2 0).2

end BufferPoolManagerInstance
/-! ## Buffer pool manager instance: the page table after the allocator has wrapped -/

namespace BufferPoolManagerInstance

end BufferPoolManagerInstance
/-! ## Extendible hash table: runs within the directory page -/

namespace HashTableDirectoryPage

/-- Modelled from the spec: `hash_table_directory_page.cpp` and its header are not among the
sources; the directory page holds `DIR_ARRAY_SIZE = 1 << MAX_DEPTH = 512` slots, so
its global depth lies in `[0, MAX_DEPTH]` with `MAX_DEPTH = 9`. -/
def MAX_DEPTH : Nat := 9

end HashTableDirectoryPage

namespace ExtendibleHashTable

/-- The states of a hash table with hash function `hash` and bucket capacity `cap` that
are reached from a freshly constructed table by calls of `Insert`, `Remove`,
`SplitInsert` and `Merge` that return and leave a directory of global depth at most
`MAX_DEPTH`, that is, a directory that fits the 512 slots of the directory page.
On these runs the directory of the model, whose slot lists are not bounded, is
the directory of the page: within an `Insert` or `SplitInsert` call the global depth
only grows and within a `Remove` or `Merge` call it only shrinks, so every directory
a call passes through has a global depth of at most `MAX_DEPTH` as well, and all
local depths stay below the range of the `u8` they are stored in. A call that
would take the global depth beyond `MAX_DEPTH` writes behind the arrays of the
page; the source has no state for what follows. -/
inductive ReachedInPage (hash : KeyType → Nat) (cap : Nat) : ExtendibleHashTable → Prop
  | construct : ReachedInPage hash cap construct
  | Insert {t : ExtendibleHashTable} (h : ReachedInPage hash cap t) (fuel : Nat)
      (key : KeyType) (value : ValueType) (r : Bool × ExtendibleHashTable)
      (he : ExtendibleHashTable.Insert hash cap fuel t key value = some r)
      (hd : r.2.directory.global_depth ≤ HashTableDirectoryPage.MAX_DEPTH) :
      ReachedInPage hash cap r.2
  | Remove {t : ExtendibleHashTable} (h : ReachedInPage hash cap t) (fuel : Nat)
      (key : KeyType) (value : ValueType) (r : Bool × ExtendibleHashTable)
      (he : ExtendibleHashTable.Remove hash cap fuel t key value = some r)
      (hd : r.2.directory.global_depth ≤ HashTableDirectoryPage.MAX_DEPTH) :
      ReachedInPage hash cap r.2
  | SplitInsert {t : ExtendibleHashTable} (h : ReachedInPage hash cap t) (fuel : Nat)
      (key : KeyType) (value : ValueType) (r : Bool × ExtendibleHashTable)
      (he : ExtendibleHashTable.SplitInsert hash cap fuel t key value = some r)
      (hd : r.2.directory.global_depth ≤ HashTableDirectoryPage.MAX_DEPTH) :
      ReachedInPage hash cap r.2
  | Merge {t : ExtendibleHashTable} (h : ReachedInPage hash cap t) (fuel : Nat)
      (key : KeyType) (r : ExtendibleHashTable)
      (he : ExtendibleHashTable.Merge hash cap fuel t key = some r)
      (hd : r.directory.global_depth ≤ HashTableDirectoryPage.MAX_DEPTH) :
      ReachedInPage hash cap r

end ExtendibleHashTable

/-! # Theorems -/

/-! ## LRU replacer -/

theorem LRUReplacer.Unpin_same (l : List frame_id_t) (f : frame_id_t) (hf : f ∉ l) :
    LRUReplacer.Unpin ⟨l, l⟩ f = ⟨f :: l, f :: l⟩ := by
  simp [LRUReplacer.Unpin, hf]

theorem LRUReplacer.Pin_same (l : List frame_id_t) (f : frame_id_t) :
    LRUReplacer.Pin ⟨l, l⟩ f = ⟨l.erase f, l.erase f⟩ := by
  by_cases hf : f ∈ l
  · simp [LRUReplacer.Pin, hf]
  · simp [LRUReplacer.Pin, hf, List.erase_of_not_mem hf]

theorem LRUReplacer.foldl_Unpin_same (fs : List frame_id_t) :
    ∀ l : List frame_id_t, (fs ++ l.reverse).Nodup →
      fs.foldl LRUReplacer.Unpin ⟨l, l⟩ = ⟨fs.reverse ++ l, fs.reverse ++ l⟩ := by
  induction fs with
  | nil => intro l _; simp
  | cons a fs ih =>
    intro l h
    have ha : a ∉ l := by
      intro hmem
      have := (List.nodup_cons.mp h).1
      exact this (by simp [hmem])
    have h2 : (fs ++ (a :: l).reverse).Nodup := by
      have h3 : (fs ++ (a :: l).reverse).Perm (a :: fs ++ l.reverse) := by
        simp only [List.reverse_cons, List.cons_append]
        rw [← List.append_assoc]
        exact (List.perm_append_comm).trans (by simp)
      exact h3.nodup_iff.mpr h
    rw [List.foldl_cons, LRUReplacer.Unpin_same l a ha, ih (a :: l) h2]
    simp

theorem LRUReplacer.foldl_Pin_same (ps : List frame_id_t) :
    ∀ l : List frame_id_t,
      ps.foldl LRUReplacer.Pin ⟨l, l⟩ = ⟨l.diff ps, l.diff ps⟩ := by
  induction ps with
  | nil => intro l; simp
  | cons a ps ih =>
    intro l
    rw [List.foldl_cons, LRUReplacer.Pin_same, ih]
    simp [List.diff_cons]

theorem LRUReplacer.Victim_concat (l : List frame_id_t) (a : frame_id_t) (ha : a ∉ l) :
    LRUReplacer.Victim ⟨l ++ [a], l ++ [a]⟩ = (some a, ⟨l, l⟩) := by
  have h : (l ++ [a]).erase a = l := by
    rw [List.erase_append_right _ ha]
    simp
  simp [LRUReplacer.Victim, h]

theorem LRUReplacer.victims_same (n : Nat) :
    ∀ l : List frame_id_t, l.Nodup → l.length = n →
      LRUReplacer.victims n ⟨l, l⟩ = (l.reverse, ⟨[], []⟩) := by
  induction n with
  | zero =>
    intro l _ hl
    have : l = [] := List.length_eq_zero.mp hl
    subst this
    simp [LRUReplacer.victims]
  | succ n ih =>
    intro l hnd hl
    rcases List.eq_nil_or_concat l with h | ⟨l', a, h⟩
    · subst h; simp at hl
    · subst h
      have hnd2 : (l' ++ [a]).Nodup := by simpa using hnd
      have hnd3 := List.nodup_append.mp hnd2
      have ha : a ∉ l' := by
        intro hmem
        exact hnd3.2.2 hmem (by simp)
      have hlen : l'.length = n := by simpa using hl
      have e : l'.concat a = l' ++ [a] := by simp
      rw [e]
      simp only [LRUReplacer.victims, LRUReplacer.Victim_concat l' a ha, ih l' hnd3.1 hlen]
      simp

/-- C10 (LRU victim order): when pairwise distinct frames `fs` are passed to
`Unpin` in that order on an empty replacer and the frames `ps` are then passed
to `Pin`, the next successive `Victim` calls all succeed and return exactly the
frames of `fs` that are not in `ps`, in their original `Unpin` order (earliest
unpinned first); the `Victim` call after those fails. -/
theorem LRUReplacer.victim_order (fs ps : List frame_id_t) (hfs : fs.Nodup) :
    ((ps.foldl LRUReplacer.Pin (fs.foldl LRUReplacer.Unpin LRUReplacer.empty)).victims
        (fs.filter (fun f => decide (f ∉ ps))).length).1
      = fs.filter (fun f => decide (f ∉ ps))
    ∧ (((ps.foldl LRUReplacer.Pin (fs.foldl LRUReplacer.Unpin LRUReplacer.empty)).victims
        (fs.filter (fun f => decide (f ∉ ps))).length).2.Victim).1 = none := by
  have h1 : fs.foldl LRUReplacer.Unpin LRUReplacer.empty = ⟨fs.reverse, fs.reverse⟩ := by
    have := LRUReplacer.foldl_Unpin_same fs [] (by simpa using hfs)
    simpa [LRUReplacer.empty] using this
  have hnd : (fs.reverse.diff ps).Nodup := (List.nodup_reverse.mpr hfs).diff
  have h2 : (fs.reverse.diff ps).reverse = fs.filter (fun f => decide (f ∉ ps)) := by
    rw [(List.nodup_reverse.mpr hfs).diff_eq_filter, ← List.filter_reverse, List.reverse_reverse]
  have hlen : (fs.reverse.diff ps).length = (fs.filter (fun f => decide (f ∉ ps))).length := by
    rw [← h2, List.length_reverse]
  rw [h1, LRUReplacer.foldl_Pin_same, LRUReplacer.victims_same _ _ hnd hlen, h2]
  simp [LRUReplacer.Victim]

/-- C10 witness: `Unpin` 0, 1, 2 then `Pin` 1; `Victim` yields 0, then 2, then fails. -/
theorem LRUReplacer.victim_order_witness :
    [0, 1, 2].Nodup
    ∧ ((([1].foldl LRUReplacer.Pin ([0, 1, 2].foldl LRUReplacer.Unpin LRUReplacer.empty)).victims
        ([0, 1, 2].filter (fun f => decide (f ∉ [1]))).length).1
      = [0, 1, 2].filter (fun f => decide (f ∉ [1]))
    ∧ ((([1].foldl LRUReplacer.Pin ([0, 1, 2].foldl LRUReplacer.Unpin LRUReplacer.empty)).victims
        ([0, 1, 2].filter (fun f => decide (f ∉ [1]))).length).2.Victim).1 = none) :=
  ⟨by decide, LRUReplacer.victim_order [0, 1, 2] [1] (by decide)⟩

/-! ## Buffer pool manager instance: single operations -/

namespace BufferPoolManagerInstance

@[simp] theorem setPage_same (pages : frame_id_t → Page) (f : frame_id_t) (p : Page) :
    setPage pages f p f = p := by
  simp [setPage]

@[simp] theorem setPage_other (pages : frame_id_t → Page) (f g : frame_id_t) (p : Page)
    (h : g ≠ f) : setPage pages f p g = pages g := by
  simp [setPage, h]

/-- What `UnpinPgImp` does, case by case. -/
theorem UnpinPgImp_facts (s : BufferPoolManagerInstance) (pid : page_id_t) (is_dirty : Bool) :
    ((UnpinPgImp s pid is_dirty).1 = true ↔ ∃ f, s.page_table pid = some f)
    ∧ (∀ f, s.page_table pid = some f →
        (((UnpinPgImp s pid is_dirty).2.pages f).pin_count = (s.pages f).pin_count - 1
        ∧ ((UnpinPgImp s pid is_dirty).2.pages f).is_dirty = ((s.pages f).is_dirty || is_dirty)
        ∧ ((UnpinPgImp s pid is_dirty).2.pages f).page_id = (s.pages f).page_id
        ∧ ((UnpinPgImp s pid is_dirty).2.pages f).data = (s.pages f).data
        ∧ ((s.pages f).pin_count - 1 = 0 →
            (UnpinPgImp s pid is_dirty).2.replacer = s.replacer.Unpin f)
        ∧ ((s.pages f).pin_count - 1 ≠ 0 →
            (UnpinPgImp s pid is_dirty).2.replacer = s.replacer)
        ∧ (∀ g, g ≠ f → (UnpinPgImp s pid is_dirty).2.pages g = s.pages g)
        ∧ (UnpinPgImp s pid is_dirty).2.page_table = s.page_table
        ∧ (UnpinPgImp s pid is_dirty).2.free_list = s.free_list
        ∧ (UnpinPgImp s pid is_dirty).2.disk = s.disk))
    ∧ (s.page_table pid = none → UnpinPgImp s pid is_dirty = (false, s)) := by
  refine ⟨?_, ?_, ?_⟩
  · cases h : s.page_table pid <;> simp [UnpinPgImp, h]
  · intro f hf
    have e : UnpinPgImp s pid is_dirty = (true,
        { s with
          replacer := if (s.pages f).pin_count - 1 = 0 then s.replacer.Unpin f else s.replacer
          pages := setPage s.pages f
            { s.pages f with
              pin_count := (s.pages f).pin_count - 1
              is_dirty := if !(s.pages f).is_dirty then is_dirty else (s.pages f).is_dirty } }) := by
      simp only [UnpinPgImp, hf]
    rw [e]
    refine ⟨by simp, ?_, by simp, by simp, ?_, ?_, ?_, rfl, rfl, rfl⟩
    · cases (s.pages f).is_dirty <;> simp
    · intro h0; simp [h0]
    · intro h0; simp [h0]
    · intro g hg; simp [hg]
  · intro h
    simp [UnpinPgImp, h]

/-- C6 (UnpinPage): the call returns true exactly when `pid` is resident. When
`pid` is resident in frame `f`, the pin count of `f` drops by one, its dirty
flag becomes `old dirty OR is_dirty`, its page id and bytes are kept, the frame
is passed to `Unpin` of the replacer exactly when the new pin count is 0 (the
replacer is untouched otherwise), and every other frame, the page table, the
free list and the disk are unchanged. When `pid` is not resident the call
returns false and the whole state is unchanged. -/
theorem UnpinPgImp_spec (s : BufferPoolManagerInstance) (pid : page_id_t) (is_dirty : Bool) :
    ((UnpinPgImp s pid is_dirty).1 = true ↔ ∃ f, s.page_table pid = some f)
    ∧ (∀ f, s.page_table pid = some f →
        (((UnpinPgImp s pid is_dirty).2.pages f).pin_count = (s.pages f).pin_count - 1
        ∧ ((UnpinPgImp s pid is_dirty).2.pages f).is_dirty = ((s.pages f).is_dirty || is_dirty)
        ∧ ((UnpinPgImp s pid is_dirty).2.pages f).page_id = (s.pages f).page_id
        ∧ ((UnpinPgImp s pid is_dirty).2.pages f).data = (s.pages f).data
        ∧ ((s.pages f).pin_count - 1 = 0 →
            (UnpinPgImp s pid is_dirty).2.replacer = s.replacer.Unpin f)
        ∧ ((s.pages f).pin_count - 1 ≠ 0 →
            (UnpinPgImp s pid is_dirty).2.replacer = s.replacer)
        ∧ (∀ g, g ≠ f → (UnpinPgImp s pid is_dirty).2.pages g = s.pages g)
        ∧ (UnpinPgImp s pid is_dirty).2.page_table = s.page_table
        ∧ (UnpinPgImp s pid is_dirty).2.free_list = s.free_list
        ∧ (UnpinPgImp s pid is_dirty).2.disk = s.disk))
    ∧ (s.page_table pid = none → UnpinPgImp s pid is_dirty = (false, s)) :=
  UnpinPgImp_facts s pid is_dirty

/-- The miss branch of `FetchPgImp` either fails with an unchanged state (empty
free list, empty replacer) or runs `installFetch` on a state that differs from
the input only in the free list or the replacer the frame was taken from. -/
theorem FetchPgImp_miss_cases (s : BufferPoolManagerInstance) (pid : page_id_t)
    (hmiss : s.page_table pid = none) :
    (s.free_list = [] ∧ s.replacer.Victim.1 = none ∧ FetchPgImp s pid = (none, s))
    ∨ (∃ f rest, s.free_list = f :: rest
        ∧ FetchPgImp s pid = installFetch { s with free_list := rest } pid f)
    ∨ (∃ f r, s.free_list = [] ∧ s.replacer.Victim = (some f, r)
        ∧ FetchPgImp s pid = installFetch { s with replacer := r } pid f) := by
  cases hfl : s.free_list with
  | cons f rest =>
    right; left
    exact ⟨f, rest, rfl, by simp [FetchPgImp, hmiss, hfl]⟩
  | nil =>
    rcases hv : s.replacer.Victim with ⟨o, r⟩
    cases o with
    | none => left; simp [FetchPgImp, hmiss, hfl, hv]
    | some f => right; right; exact ⟨f, r, rfl, rfl, by simp [FetchPgImp, hmiss, hfl, hv]⟩

/-- The call `NewPgImp` either fails with an unchanged state (empty free list, empty
replacer) or runs `installNew` on a state that differs from the input only in
the free list or the replacer the frame was taken from. -/
theorem NewPgImp_cases (s : BufferPoolManagerInstance) :
    (s.free_list = [] ∧ s.replacer.Victim.1 = none ∧ NewPgImp s = (none, s))
    ∨ (∃ f rest, s.free_list = f :: rest
        ∧ NewPgImp s = installNew { s with free_list := rest } f)
    ∨ (∃ f r, s.free_list = [] ∧ s.replacer.Victim = (some f, r)
        ∧ NewPgImp s = installNew { s with replacer := r } f) := by
  cases hfl : s.free_list with
  | cons f rest =>
    right; left
    exact ⟨f, rest, rfl, by simp [NewPgImp, hfl]⟩
  | nil =>
    rcases hv : s.replacer.Victim with ⟨o, r⟩
    cases o with
    | none => left; simp [NewPgImp, hfl, hv]
    | some f => right; right; exact ⟨f, r, rfl, rfl, by simp [NewPgImp, hfl, hv]⟩

theorem installFetch_fst (s : BufferPoolManagerInstance) (pid : page_id_t) (f : frame_id_t) :
    (installFetch s pid f).1 = some f := rfl

theorem installNew_fst (s : BufferPoolManagerInstance) (f : frame_id_t) :
    (installNew s f).1 = some (f, s.next_page_id) := rfl

theorem installFetch_disk (s : BufferPoolManagerInstance) (pid : page_id_t) (f : frame_id_t) :
    (installFetch s pid f).2.disk
      = if (s.pages f).is_dirty then WritePage s.disk (s.pages f).page_id (s.pages f).data
        else s.disk := by
  unfold installFetch
  by_cases h : (s.pages f).is_dirty = true <;> simp [h]

theorem installNew_disk (s : BufferPoolManagerInstance) (f : frame_id_t) :
    (installNew s f).2.disk
      = if (s.pages f).is_dirty then WritePage s.disk (s.pages f).page_id (s.pages f).data
        else s.disk := by
  unfold installNew AllocatePage
  by_cases h : (s.pages f).is_dirty = true <;> simp [h]

theorem installFetch_page (s : BufferPoolManagerInstance) (pid : page_id_t) (f : frame_id_t) :
    (installFetch s pid f).2.pages f
      = { data := (installFetch s pid f).2.disk pid, page_id := pid, pin_count := 1,
          is_dirty := false } := by
  unfold installFetch
  by_cases h : (s.pages f).is_dirty = true <;> simp [h]

theorem installFetch_page_table (s : BufferPoolManagerInstance) (pid : page_id_t)
    (f : frame_id_t) :
    (installFetch s pid f).2.page_table
      = mapInsert (mapErase s.page_table (s.pages f).page_id) pid f := by
  unfold installFetch
  by_cases h : (s.pages f).is_dirty = true <;> simp [h]

theorem mapInsert_mapErase_apply (t : page_id_t → Option frame_id_t) (old pid q : page_id_t)
    (f : frame_id_t) (hmiss : t pid = none) :
    mapInsert (mapErase t old) pid f q
      = if q = pid then some f else if q = old then none else t q := by
  unfold mapInsert mapErase
  by_cases h1 : q = pid
  · subst h1
    by_cases h2 : q = old <;> simp [h2, hmiss]
  · simp [h1]

/-- What `FetchPgImp` does for a page that is not resident. -/
theorem FetchPgImp_miss_facts (s : BufferPoolManagerInstance) (pid : page_id_t)
    (hmiss : s.page_table pid = none) :
    (FetchPgImp s pid).1
        = (match s.free_list with
           | f :: _ => some f
           | [] => s.replacer.Victim.1)
    ∧ ((FetchPgImp s pid).1 = none → (FetchPgImp s pid).2 = s)
    ∧ (∀ f, (FetchPgImp s pid).1 = some f →
        ((FetchPgImp s pid).2.pages f).page_id = pid
        ∧ ((FetchPgImp s pid).2.pages f).pin_count = 1
        ∧ ((FetchPgImp s pid).2.pages f).is_dirty = false
        ∧ ((FetchPgImp s pid).2.pages f).data = (FetchPgImp s pid).2.disk pid
        ∧ (FetchPgImp s pid).2.page_table pid = some f
        ∧ ((s.pages f).page_id ≠ pid →
            (FetchPgImp s pid).2.page_table (s.pages f).page_id = none)
        ∧ (∀ q, q ≠ pid → q ≠ (s.pages f).page_id →
            (FetchPgImp s pid).2.page_table q = s.page_table q)) := by
  have key : ∀ (s0 : BufferPoolManagerInstance) (f : frame_id_t),
      s0.pages = s.pages → s0.page_table = s.page_table →
      FetchPgImp s pid = installFetch s0 pid f →
      ∀ g, (FetchPgImp s pid).1 = some g →
        ((FetchPgImp s pid).2.pages g).page_id = pid
        ∧ ((FetchPgImp s pid).2.pages g).pin_count = 1
        ∧ ((FetchPgImp s pid).2.pages g).is_dirty = false
        ∧ ((FetchPgImp s pid).2.pages g).data = (FetchPgImp s pid).2.disk pid
        ∧ (FetchPgImp s pid).2.page_table pid = some g
        ∧ ((s.pages g).page_id ≠ pid →
            (FetchPgImp s pid).2.page_table (s.pages g).page_id = none)
        ∧ (∀ q, q ≠ pid → q ≠ (s.pages g).page_id →
            (FetchPgImp s pid).2.page_table q = s.page_table q) := by
    intro s0 f hp ht he g hg
    rw [he, installFetch_fst] at hg
    have hfg : f = g := Option.some.inj hg
    subst hfg
    have hm0 : s0.page_table pid = none := by rw [ht]; exact hmiss
    rw [he, installFetch_page, installFetch_page_table, hp]
    refine ⟨rfl, rfl, rfl, rfl, ?_, ?_, ?_⟩
    · rw [mapInsert_mapErase_apply _ _ _ _ _ hm0]; simp
    · intro hne
      rw [mapInsert_mapErase_apply _ _ _ _ _ hm0]; simp [hne]
    · intro q h1 h2
      rw [mapInsert_mapErase_apply _ _ _ _ _ hm0]; simp [h1, h2, ht]
  rcases FetchPgImp_miss_cases s pid hmiss with ⟨hfl, hv, he⟩ | ⟨f, rest, hfl, he⟩ | ⟨f, r, hfl, hv, he⟩
  · refine ⟨by rw [he, hfl]; exact hv.symm, fun _ => by rw [he], ?_⟩
    intro f hf
    rw [he] at hf
    exact absurd hf (by simp)
  · refine ⟨by rw [he, hfl]; rfl, fun h => ?_, key { s with free_list := rest } f rfl rfl he⟩
    rw [he, installFetch_fst] at h
    exact absurd h (by simp)
  · refine ⟨by rw [he, hfl, hv]; rfl, fun h => ?_, key { s with replacer := r } f rfl rfl he⟩
    rw [he, installFetch_fst] at h
    exact absurd h (by simp)

/-- C4 (FetchPage of a non-resident page): the frame used is the front of the
free list when the free list is non-empty, otherwise the frame `Victim` of the
replacer returns, and the call returns `nullptr` (with the state unchanged)
when neither exists. On success with frame `f`: the frame has page id `pid`,
pin count 1, a clear dirty flag and the bytes the disk holds for `pid`; the
page table maps `pid` to `f`, no longer maps the page id the frame held before
(when that id is not `pid` itself) and is unchanged for every other page id. -/
theorem FetchPgImp_miss (s : BufferPoolManagerInstance) (pid : page_id_t)
    (hmiss : s.page_table pid = none) :
    (FetchPgImp s pid).1
        = (match s.free_list with
           | f :: _ => some f
           | [] => s.replacer.Victim.1)
    ∧ ((FetchPgImp s pid).1 = none → (FetchPgImp s pid).2 = s)
    ∧ (∀ f, (FetchPgImp s pid).1 = some f →
        ((FetchPgImp s pid).2.pages f).page_id = pid
        ∧ ((FetchPgImp s pid).2.pages f).pin_count = 1
        ∧ ((FetchPgImp s pid).2.pages f).is_dirty = false
        ∧ ((FetchPgImp s pid).2.pages f).data = (FetchPgImp s pid).2.disk pid
        ∧ (FetchPgImp s pid).2.page_table pid = some f
        ∧ ((s.pages f).page_id ≠ pid →
            (FetchPgImp s pid).2.page_table (s.pages f).page_id = none)
        ∧ (∀ q, q ≠ pid → q ≠ (s.pages f).page_id →
            (FetchPgImp s pid).2.page_table q = s.page_table q)) :=
  FetchPgImp_miss_facts s pid hmiss

/-- C5 (write-back before reuse): when `FetchPgImp` on a miss, or `NewPgImp`,
takes a frame `f` whose dirty flag is set, then after the call the disk holds,
under the page id that `f` held, the bytes that `f` held. -/
theorem dirty_victim_written_back (s : BufferPoolManagerInstance) (pid : page_id_t) :
    (∀ f, s.page_table pid = none → (FetchPgImp s pid).1 = some f →
        (s.pages f).is_dirty = true →
        (FetchPgImp s pid).2.disk (s.pages f).page_id = (s.pages f).data)
    ∧ (∀ f p, (NewPgImp s).1 = some (f, p) → (s.pages f).is_dirty = true →
        (NewPgImp s).2.disk (s.pages f).page_id = (s.pages f).data) := by
  constructor
  · intro f hmiss hf hd
    rcases FetchPgImp_miss_cases s pid hmiss with ⟨_, _, he⟩ | ⟨g, rest, _, he⟩ | ⟨g, r, _, _, he⟩
    · rw [he] at hf; exact absurd hf (by simp)
    · rw [he, installFetch_fst] at hf
      have hfg : g = f := Option.some.inj hf
      subst hfg
      rw [he, installFetch_disk]
      simp only at hd ⊢
      simp [hd, WritePage]
    · rw [he, installFetch_fst] at hf
      have hfg : g = f := Option.some.inj hf
      subst hfg
      rw [he, installFetch_disk]
      simp only at hd ⊢
      simp [hd, WritePage]
  · intro f p hf hd
    rcases NewPgImp_cases s with ⟨_, _, he⟩ | ⟨g, rest, _, he⟩ | ⟨g, r, _, _, he⟩
    · rw [he] at hf; exact absurd hf (by simp)
    · rw [he, installNew_fst] at hf
      have hfg : g = f := (Prod.mk.inj (Option.some.inj hf)).1
      subst hfg
      rw [he, installNew_disk]
      simp only at hd ⊢
      simp [hd, WritePage]
    · rw [he, installNew_fst] at hf
      have hfg : g = f := (Prod.mk.inj (Option.some.inj hf)).1
      subst hfg
      rw [he, installNew_disk]
      simp only at hd ⊢
      simp [hd, WritePage]

/-- C4 witness: a fresh pool of two frames, page 5 is not resident. -/
theorem FetchPgImp_miss_witness :
    (construct 2 1 0 (fun _ => zeroData)).page_table 5 = none
    ∧ ((FetchPgImp (construct 2 1 0 (fun _ => zeroData)) 5).1
        = (match (construct 2 1 0 (fun _ => zeroData)).free_list with
           | f :: _ => some f
           | [] => (construct 2 1 0 (fun _ => zeroData)).replacer.Victim.1)
    ∧ ((FetchPgImp (construct 2 1 0 (fun _ => zeroData)) 5).1 = none →
        (FetchPgImp (construct 2 1 0 (fun _ => zeroData)) 5).2
          = construct 2 1 0 (fun _ => zeroData))
    ∧ (∀ f, (FetchPgImp (construct 2 1 0 (fun _ => zeroData)) 5).1 = some f →
        ((FetchPgImp (construct 2 1 0 (fun _ => zeroData)) 5).2.pages f).page_id = 5
        ∧ ((FetchPgImp (construct 2 1 0 (fun _ => zeroData)) 5).2.pages f).pin_count = 1
        ∧ ((FetchPgImp (construct 2 1 0 (fun _ => zeroData)) 5).2.pages f).is_dirty = false
        ∧ ((FetchPgImp (construct 2 1 0 (fun _ => zeroData)) 5).2.pages f).data
            = (FetchPgImp (construct 2 1 0 (fun _ => zeroData)) 5).2.disk 5
        ∧ (FetchPgImp (construct 2 1 0 (fun _ => zeroData)) 5).2.page_table 5 = some f
        ∧ (((construct 2 1 0 (fun _ => zeroData)).pages f).page_id ≠ 5 →
            (FetchPgImp (construct 2 1 0 (fun _ => zeroData)) 5).2.page_table
              ((construct 2 1 0 (fun _ => zeroData)).pages f).page_id = none)
        ∧ (∀ q, q ≠ 5 → q ≠ ((construct 2 1 0 (fun _ => zeroData)).pages f).page_id →
            (FetchPgImp (construct 2 1 0 (fun _ => zeroData)) 5).2.page_table q
              = (construct 2 1 0 (fun _ => zeroData)).page_table q))) :=
  ⟨rfl, FetchPgImp_miss (construct 2 1 0 (fun _ => zeroData)) 5 rfl⟩

/-- What `DeletePgImp` does, case by case. -/
theorem DeletePgImp_facts (s : BufferPoolManagerInstance) (pid : page_id_t) :
    (s.page_table pid = none → DeletePgImp s pid = (true, s))
    ∧ (∀ f, s.page_table pid = some f → (s.pages f).pin_count ≠ 0 →
        DeletePgImp s pid = (false, s))
    ∧ (∀ f, s.page_table pid = some f → (s.pages f).pin_count = 0 →
        (DeletePgImp s pid).1 = true
        ∧ (DeletePgImp s pid).2.disk
            = (if (s.pages f).is_dirty then
                WritePage s.disk (s.pages f).page_id (s.pages f).data
               else s.disk)
        ∧ (DeletePgImp s pid).2.page_table (s.pages f).page_id = none
        ∧ ((s.pages f).page_id = pid → (DeletePgImp s pid).2.page_table pid = none)
        ∧ (∀ q, q ≠ (s.pages f).page_id →
            (DeletePgImp s pid).2.page_table q = s.page_table q)
        ∧ (DeletePgImp s pid).2.pages f
            = { data := zeroData, page_id := INVALID_PAGE_ID, pin_count := 0, is_dirty := false }
        ∧ (∀ g, g ≠ f → (DeletePgImp s pid).2.pages g = s.pages g)
        ∧ (DeletePgImp s pid).2.free_list = s.free_list ++ [f]) := by
  refine ⟨?_, ?_, ?_⟩
  · intro h; simp [DeletePgImp, h]
  · intro f hf hp; simp [DeletePgImp, hf, hp]
  · intro f hf hp
    have e : DeletePgImp s pid = (true,
        { (if (s.pages f).is_dirty then
            { s with disk := WritePage s.disk (s.pages f).page_id (s.pages f).data } else s) with
          page_table := mapErase s.page_table (s.pages f).page_id
          pages := setPage s.pages f
            { data := zeroData, page_id := INVALID_PAGE_ID, pin_count := 0, is_dirty := false }
          free_list := s.free_list ++ [f] }) := by
      simp only [DeletePgImp, hf, hp]
      by_cases hd : (s.pages f).is_dirty = true <;> simp [hd]
    rw [e]
    refine ⟨rfl, ?_, by simp [mapErase], ?_, ?_, by simp, ?_, rfl⟩
    · by_cases hd : (s.pages f).is_dirty = true <;> simp [hd]
    · intro h; simp [mapErase, h]
    · intro q hq; simp [mapErase, hq]
    · intro g hg; simp [hg]

/-- The three cases of `DeletePgImp`: when `pid` is not resident the call returns true and the
state is unchanged. When `pid` is resident in a frame with a non-zero pin count
the call returns false and the state is unchanged. When it is resident in frame
`f` with pin count 0 the call returns true; the disk is first written with the
bytes of `f`, under the page id recorded in `f`, exactly when `f` was dirty;
that page id is erased from the page table and no other entry changes; `f`
becomes page id INVALID, pin count 0, clean, zeroed; `f` is appended to the
free list; the other frames are unchanged. In a state whose page table is
consistent with the frames, the page id recorded in `f` is `pid`: the write
goes under `pid` and `pid` is no longer resident. In other states the entry of
`pid` stays (see `DeletePgImp_leaves_page_mapped`). -/
theorem DeletePgImp_spec (s : BufferPoolManagerInstance) (pid : page_id_t) :
    (s.page_table pid = none → DeletePgImp s pid = (true, s))
    ∧ (∀ f, s.page_table pid = some f → (s.pages f).pin_count ≠ 0 →
        DeletePgImp s pid = (false, s))
    ∧ (∀ f, s.page_table pid = some f → (s.pages f).pin_count = 0 →
        (DeletePgImp s pid).1 = true
        ∧ (DeletePgImp s pid).2.disk
            = (if (s.pages f).is_dirty then
                WritePage s.disk (s.pages f).page_id (s.pages f).data
               else s.disk)
        ∧ (DeletePgImp s pid).2.page_table (s.pages f).page_id = none
        ∧ (∀ q, q ≠ (s.pages f).page_id →
            (DeletePgImp s pid).2.page_table q = s.page_table q)
        ∧ (DeletePgImp s pid).2.pages f
            = { data := zeroData, page_id := INVALID_PAGE_ID, pin_count := 0, is_dirty := false }
        ∧ (∀ g, g ≠ f → (DeletePgImp s pid).2.pages g = s.pages g)
        ∧ (DeletePgImp s pid).2.free_list = s.free_list ++ [f])
    ∧ (TableConsistent s → ∀ f, s.page_table pid = some f → (s.pages f).pin_count = 0 →
        (DeletePgImp s pid).2.disk
            = (if (s.pages f).is_dirty then WritePage s.disk pid (s.pages f).data else s.disk)
        ∧ (DeletePgImp s pid).2.page_table pid = none
        ∧ (∀ q, q ≠ pid → (DeletePgImp s pid).2.page_table q = s.page_table q)) := by
  obtain ⟨h1, h2, h3⟩ := DeletePgImp_facts s pid
  refine ⟨h1, h2, ?_, ?_⟩
  · intro f hf hp
    obtain ⟨a1, a2, a3, _, a5, a6, a7, a8⟩ := h3 f hf hp
    exact ⟨a1, a2, a3, a5, a6, a7, a8⟩
  · intro hc f hf hp
    obtain ⟨_, a2, a3, _, a5, _, _, _⟩ := h3 f hf hp
    have hid := hc pid f hf
    rw [hid] at a2 a3 a5
    exact ⟨a2, a3, a5⟩

end BufferPoolManagerInstance

/-! ## Replacer well-formedness -/

theorem LRUReplacer.WF_empty : LRUReplacer.empty.WF := by
  simp [LRUReplacer.WF, LRUReplacer.empty]

theorem LRUReplacer.Pin_WF (r : LRUReplacer) (f : frame_id_t) (h : r.WF) :
    (r.Pin f).WF ∧ ∀ g, g ∈ (r.Pin f).dll ↔ g ∈ r.dll ∧ g ≠ f := by
  obtain ⟨h1, h2, h3⟩ := h
  unfold LRUReplacer.Pin
  by_cases hf : f ∈ r.hashmap
  · simp only [hf, if_true]
    refine ⟨⟨?_, h2.erase f, h3.erase f⟩, ?_⟩
    · intro g
      rw [h2.mem_erase_iff, h3.mem_erase_iff, h1]
    · intro g
      rw [h2.mem_erase_iff]
      tauto
  · simp only [hf, if_false]
    refine ⟨⟨h1, h2, h3⟩, ?_⟩
    intro g
    constructor
    · intro hg
      refine ⟨hg, ?_⟩
      rintro rfl
      exact hf ((h1 g).mp hg)
    · exact fun hg => hg.1

theorem LRUReplacer.Unpin_WF (r : LRUReplacer) (f : frame_id_t) (h : r.WF) :
    (r.Unpin f).WF ∧ ∀ g, g ∈ (r.Unpin f).dll ↔ g ∈ r.dll ∨ g = f := by
  obtain ⟨h1, h2, h3⟩ := h
  unfold LRUReplacer.Unpin
  by_cases hf : f ∈ r.hashmap
  · simp only [hf, if_true]
    refine ⟨⟨h1, h2, h3⟩, ?_⟩
    intro g
    constructor
    · exact fun hg => Or.inl hg
    · rintro (hg | rfl)
      · exact hg
      · exact (h1 g).mpr hf
  · simp only [hf, if_false]
    have hf2 : f ∉ r.dll := fun hm => hf ((h1 f).mp hm)
    refine ⟨⟨?_, List.nodup_cons.mpr ⟨hf2, h2⟩, List.nodup_cons.mpr ⟨hf, h3⟩⟩, ?_⟩
    · intro g
      simp [h1]
    · intro g
      simp only [List.mem_cons]
      tauto

theorem LRUReplacer.Victim_none_iff (r : LRUReplacer) :
    r.Victim.1 = none ↔ r.dll = [] := by
  unfold LRUReplacer.Victim
  cases h : r.dll.getLast? with
  | none => simpa using List.getLast?_eq_none_iff.mp h
  | some f =>
    simp only
    constructor
    · intro h2; exact absurd h2 (by simp)
    · intro h2; rw [h2] at h; simp at h

theorem LRUReplacer.Victim_some (r r' : LRUReplacer) (f : frame_id_t) (h : r.WF)
    (hv : r.Victim = (some f, r')) :
    f ∈ r.dll ∧ r'.WF ∧ ∀ g, g ∈ r'.dll ↔ g ∈ r.dll ∧ g ≠ f := by
  obtain ⟨h1, h2, h3⟩ := h
  unfold LRUReplacer.Victim at hv
  cases hl : r.dll.getLast? with
  | none => rw [hl] at hv; simp at hv
  | some a =>
    rw [hl] at hv
    simp only [Prod.mk.injEq, Option.some.injEq] at hv
    obtain ⟨rfl, rfl⟩ := hv
    obtain ⟨l, hl2⟩ : ∃ l, r.dll = l ++ [a] := by
      rcases List.eq_nil_or_concat r.dll with hn | ⟨l, b, hb⟩
      · rw [hn] at hl; simp at hl
      · refine ⟨l, ?_⟩
        rw [hb] at hl
        simp at hl
        rw [hb, hl]
        simp
    have hnd : (l ++ [a]).Nodup := hl2 ▸ h2
    have hal : a ∉ l := fun hm => (List.nodup_append.mp hnd).2.2 hm (by simp)
    have hdrop : r.dll.dropLast = l := by rw [hl2]; simp
    have hmem : ∀ g, g ∈ l ↔ g ∈ r.dll ∧ g ≠ a := by
      intro g
      rw [hl2]
      simp only [List.mem_append, List.mem_singleton]
      constructor
      · intro hg
        exact ⟨Or.inl hg, fun e => hal (e ▸ hg)⟩
      · rintro ⟨hg | hg, hne⟩
        · exact hg
        · exact absurd hg hne
    refine ⟨by rw [hl2]; simp, ⟨?_, ?_, h3.erase a⟩, ?_⟩
    · intro g
      simp only [hdrop]
      rw [h3.mem_erase_iff, hmem, h1]
      tauto
    · simp only [hdrop]
      exact (List.nodup_append.mp hnd).1
    · intro g
      simp only [hdrop]
      exact hmem g

/-! ## Buffer pool manager instance: pin-count invariant -/

namespace BufferPoolManagerInstance

theorem installNew_fields (s : BufferPoolManagerInstance) (f : frame_id_t) :
    (installNew s f).2.replacer = s.replacer.Pin f
    ∧ (installNew s f).2.pages = setPage s.pages f
        { data := zeroData, page_id := s.next_page_id, pin_count := 1, is_dirty := false }
    ∧ (installNew s f).2.free_list = s.free_list
    ∧ (installNew s f).2.pool_size = s.pool_size
    ∧ (installNew s f).2.page_table
        = mapInsert (mapErase s.page_table (s.pages f).page_id) s.next_page_id f := by
  unfold installNew AllocatePage
  by_cases h : (s.pages f).is_dirty = true <;> simp [h]

theorem installFetch_fields (s : BufferPoolManagerInstance) (pid : page_id_t)
    (f : frame_id_t) :
    (installFetch s pid f).2.replacer = s.replacer.Pin f
    ∧ (installFetch s pid f).2.pages = setPage s.pages f
        { data := (installFetch s pid f).2.disk pid, page_id := pid, pin_count := 1,
          is_dirty := false }
    ∧ (installFetch s pid f).2.free_list = s.free_list
    ∧ (installFetch s pid f).2.pool_size = s.pool_size
    ∧ (installFetch s pid f).2.page_table
        = mapInsert (mapErase s.page_table (s.pages f).page_id) pid f := by
  unfold installFetch
  by_cases h : (s.pages f).is_dirty = true <;> simp [h]

theorem mapInsert_mapErase_lt (t : page_id_t → Option frame_id_t) (old pid : page_id_t)
    (f n : Nat) (ht : ∀ q g, t q = some g → g < n) (hf : f < n) :
    ∀ q g, mapInsert (mapErase t old) pid f q = some g → g < n := by
  intro q g
  unfold mapInsert mapErase
  by_cases h1 : q = pid
  · subst h1
    by_cases h2 : q = old
    · simp only [h2, if_true]
      intro h
      have : f = g := Option.some.inj h
      exact this ▸ hf
    · simp only [h2, if_true, if_false]
      cases h3 : t q with
      | none =>
        intro h
        have : f = g := Option.some.inj h
        exact this ▸ hf
      | some w =>
        intro h
        have : w = g := Option.some.inj h
        exact this ▸ ht q w h3
  · simp only [h1, if_false]
    by_cases h2 : q = old
    · simp [h2]
    · simp only [h2, if_false]
      exact ht q g

/-- Installing a page in a picked frame re-establishes the invariant. -/
theorem PinInv_install (s s' : BufferPoolManagerInstance) (f : frame_id_t) (p : Page)
    (old pid : page_id_t)
    (h : PinInv s (fun g => g = f)) (hf : f < s.pool_size)
    (hr : s'.replacer = s.replacer.Pin f) (hp : s'.pages = setPage s.pages f p)
    (hpin : p.pin_count = 1) (hfl : s'.free_list = s.free_list)
    (hps : s'.pool_size = s.pool_size)
    (ht : s'.page_table = mapInsert (mapErase s.page_table old) pid f) :
    PinInv s' (fun _ => False) := by
  obtain ⟨hwf, hmem⟩ := LRUReplacer.Pin_WF s.replacer f h.replacer_wf
  refine ⟨by rw [hr]; exact hwf, ?_, ?_, ?_, ?_, ?_, ?_⟩
  · intro g
    rw [hp]
    by_cases hg : g = f
    · subst hg; simp [hpin]
    · simp [hg, h.pin_nonneg g]
  · intro g hg
    rw [hfl] at hg; rw [hps]
    exact h.free_lt g hg
  · intro g hg
    rw [hr, hmem] at hg; rw [hps]
    exact h.dll_lt g hg.1
  · rw [ht, hps]
    exact mapInsert_mapErase_lt _ _ _ _ _ h.table_lt hf
  · intro g hg
    rw [hr, hmem] at hg
    rw [hp]
    simp [hg.2, h.dll_pin g hg.1]
  · intro g hg _ hz
    rw [hps] at hg
    rw [hp] at hz
    by_cases hgf : g = f
    · subst hgf
      simp [hpin] at hz
    · simp only [setPage_other _ _ _ _ hgf] at hz
      rw [hfl, hr, hmem]
      rcases h.zero_tracked g hg hgf hz with h1 | h1
      · exact Or.inl h1
      · exact Or.inr ⟨h1, hgf⟩

/-- Taking the front of the free list leaves the invariant with that frame exempt. -/
theorem PinInv_pop_free (s : BufferPoolManagerInstance) (f : frame_id_t)
    (rest : List frame_id_t) (h : PinInv s (fun _ => False)) (hfl : s.free_list = f :: rest) :
    PinInv { s with free_list := rest } (fun g => g = f) ∧ f < s.pool_size := by
  refine ⟨⟨h.replacer_wf, h.pin_nonneg, ?_, h.dll_lt, h.table_lt, h.dll_pin, ?_⟩, ?_⟩
  · intro g hg
    exact h.free_lt g (by rw [hfl]; exact List.mem_cons_of_mem _ hg)
  · intro g hg hgf hz
    rcases h.zero_tracked g hg (fun x => x) hz with h1 | h1
    · rw [hfl] at h1
      rcases List.mem_cons.mp h1 with h2 | h2
      · exact absurd h2 hgf
      · exact Or.inl h2
    · exact Or.inr h1
  · exact h.free_lt f (by rw [hfl]; exact List.mem_cons_self _ _)

/-- Taking the victim of the replacer leaves the invariant with that frame exempt. -/
theorem PinInv_pop_victim (s : BufferPoolManagerInstance) (f : frame_id_t)
    (r : LRUReplacer) (h : PinInv s (fun _ => False)) (hv : s.replacer.Victim = (some f, r)) :
    PinInv { s with replacer := r } (fun g => g = f) ∧ f < s.pool_size := by
  obtain ⟨hf, hwf, hmem⟩ := LRUReplacer.Victim_some s.replacer r f h.replacer_wf hv
  refine ⟨⟨hwf, h.pin_nonneg, h.free_lt, ?_, h.table_lt, ?_, ?_⟩, h.dll_lt f hf⟩
  · intro g hg
    exact h.dll_lt g ((hmem g).mp hg).1
  · intro g hg
    exact h.dll_pin g ((hmem g).mp hg).1
  · intro g hg hgf hz
    rcases h.zero_tracked g hg (fun x => x) hz with h1 | h1
    · exact Or.inl h1
    · exact Or.inr ((hmem g).mpr ⟨h1, hgf⟩)

theorem PinInv_construct (pool_size num_instances instance_index : Nat)
    (disk : page_id_t → PageData) :
    PinInv (construct pool_size num_instances instance_index disk) (fun _ => False) := by
  refine ⟨LRUReplacer.WF_empty, ?_, ?_, ?_, ?_, ?_, ?_⟩
  · intro f; simp [construct, Page.fresh]
  · intro f hf; simpa [construct] using hf
  · intro f hf; simp [construct, LRUReplacer.empty] at hf
  · intro q f hf; simp [construct] at hf
  · intro f hf; simp [construct, LRUReplacer.empty] at hf
  · intro f hf _ _
    left
    simpa [construct] using hf

theorem PinInv_NewPgImp (s : BufferPoolManagerInstance) (h : PinInv s (fun _ => False)) :
    PinInv (NewPgImp s).2 (fun _ => False) := by
  rcases NewPgImp_cases s with ⟨_, _, he⟩ | ⟨f, rest, hfl, he⟩ | ⟨f, r, _, hv, he⟩
  · rw [he]; exact h
  · rw [he]
    obtain ⟨h1, h2⟩ := PinInv_pop_free s f rest h hfl
    obtain ⟨e1, e2, e3, e4, e5⟩ := installNew_fields { s with free_list := rest } f
    exact PinInv_install _ _ f _ _ _ h1 h2 e1 e2 rfl e3 e4 e5
  · rw [he]
    obtain ⟨h1, h2⟩ := PinInv_pop_victim s f r h hv
    obtain ⟨e1, e2, e3, e4, e5⟩ := installNew_fields { s with replacer := r } f
    exact PinInv_install _ _ f _ _ _ h1 h2 e1 e2 rfl e3 e4 e5

theorem PinInv_FetchPgImp (s : BufferPoolManagerInstance) (pid : page_id_t)
    (h : PinInv s (fun _ => False)) : PinInv (FetchPgImp s pid).2 (fun _ => False) := by
  cases hres : s.page_table pid with
  | some f =>
    have e : FetchPgImp s pid = (some f,
        { s with
          replacer := s.replacer.Pin f
          pages := setPage s.pages f
            { s.pages f with pin_count := (s.pages f).pin_count + 1 } }) := by
      simp only [FetchPgImp, hres]
    rw [e]
    obtain ⟨hwf, hmem⟩ := LRUReplacer.Pin_WF s.replacer f h.replacer_wf
    have hnn := h.pin_nonneg f
    refine ⟨hwf, ?_, h.free_lt, ?_, h.table_lt, ?_, ?_⟩
    · intro g
      by_cases hg : g = f
      · subst hg; simp; omega
      · simp [hg, h.pin_nonneg g]
    · intro g hg
      exact h.dll_lt g ((hmem g).mp hg).1
    · intro g hg
      have hg2 := (hmem g).mp hg
      simp [hg2.2, h.dll_pin g hg2.1]
    · intro g hg _ hz
      by_cases hgf : g = f
      · subst hgf
        simp at hz
        omega
      · simp only [setPage_other _ _ _ _ hgf] at hz
        rcases h.zero_tracked g hg (fun x => x) hz with h1 | h1
        · exact Or.inl h1
        · exact Or.inr ((hmem g).mpr ⟨h1, hgf⟩)
  | none =>
    rcases FetchPgImp_miss_cases s pid hres with ⟨_, _, he⟩ | ⟨f, rest, hfl, he⟩ | ⟨f, r, _, hv, he⟩
    · rw [he]; exact h
    · rw [he]
      obtain ⟨h1, h2⟩ := PinInv_pop_free s f rest h hfl
      obtain ⟨e1, e2, e3, e4, e5⟩ := installFetch_fields { s with free_list := rest } pid f
      exact PinInv_install _ _ f _ _ _ h1 h2 e1 e2 rfl e3 e4 e5
    · rw [he]
      obtain ⟨h1, h2⟩ := PinInv_pop_victim s f r h hv
      obtain ⟨e1, e2, e3, e4, e5⟩ := installFetch_fields { s with replacer := r } pid f
      exact PinInv_install _ _ f _ _ _ h1 h2 e1 e2 rfl e3 e4 e5

theorem PinInv_UnpinPgImp (s : BufferPoolManagerInstance) (pid : page_id_t) (is_dirty : Bool)
    (h : PinInv s (fun _ => False))
    (hpin : ∀ f, s.page_table pid = some f → 0 < (s.pages f).pin_count) :
    PinInv (UnpinPgImp s pid is_dirty).2 (fun _ => False) := by
  cases hres : s.page_table pid with
  | none => simp only [UnpinPgImp, hres]; exact h
  | some f =>
    have hpos := hpin f hres
    have hflt := h.table_lt pid f hres
    have e : UnpinPgImp s pid is_dirty = (true,
        { s with
          replacer := if (s.pages f).pin_count - 1 = 0 then s.replacer.Unpin f else s.replacer
          pages := setPage s.pages f
            { s.pages f with
              pin_count := (s.pages f).pin_count - 1
              is_dirty := if !(s.pages f).is_dirty then is_dirty else (s.pages f).is_dirty } }) := by
      simp only [UnpinPgImp, hres]
    rw [e]
    obtain ⟨hwf, hmem⟩ := LRUReplacer.Unpin_WF s.replacer f h.replacer_wf
    have hnotin : f ∉ s.replacer.dll := by
      intro hm
      have := h.dll_pin f hm
      omega
    by_cases h0 : (s.pages f).pin_count - 1 = 0
    · simp only [h0, if_true]
      refine ⟨hwf, ?_, h.free_lt, ?_, h.table_lt, ?_, ?_⟩
      · intro g
        by_cases hg : g = f
        · subst hg; simp
        · simp [hg, h.pin_nonneg g]
      · intro g hg
        rcases (hmem g).mp hg with h1 | h1
        · exact h.dll_lt g h1
        · exact h1 ▸ hflt
      · intro g hg
        by_cases hgf : g = f
        · subst hgf; simp
        · rcases (hmem g).mp hg with h1 | h1
          · simp [hgf, h.dll_pin g h1]
          · exact absurd h1 hgf
      · intro g hg _ hz
        by_cases hgf : g = f
        · exact Or.inr ((hmem g).mpr (Or.inr hgf))
        · simp only [setPage_other _ _ _ _ hgf] at hz
          rcases h.zero_tracked g hg (fun x => x) hz with h1 | h1
          · exact Or.inl h1
          · exact Or.inr ((hmem g).mpr (Or.inl h1))
    · simp only [h0, if_false]
      refine ⟨h.replacer_wf, ?_, h.free_lt, h.dll_lt, h.table_lt, ?_, ?_⟩
      · intro g
        by_cases hg : g = f
        · subst hg; simp; omega
        · simp [hg, h.pin_nonneg g]
      · intro g hg
        have hgf : g ≠ f := fun e => hnotin (e ▸ hg)
        simp [hgf, h.dll_pin g hg]
      · intro g hg _ hz
        by_cases hgf : g = f
        · subst hgf
          simp at hz
          exact absurd hz h0
        · simp only [setPage_other _ _ _ _ hgf] at hz
          exact h.zero_tracked g hg (fun x => x) hz

theorem PinInv_FlushPgImp (s : BufferPoolManagerInstance) (pid : page_id_t)
    (h : PinInv s (fun _ => False)) : PinInv (FlushPgImp s pid).2 (fun _ => False) := by
  cases hres : s.page_table pid with
  | none => simp only [FlushPgImp, hres]; exact h
  | some f =>
    by_cases hd : (s.pages f).is_dirty = true
    · simp only [FlushPgImp, hres, hd, if_true]
      have hpc : ∀ g, ((setPage s.pages f { s.pages f with is_dirty := false }) g).pin_count
          = (s.pages g).pin_count := by
        intro g
        by_cases hg : g = f
        · subst hg; simp
        · simp [hg]
      refine ⟨h.replacer_wf, ?_, h.free_lt, h.dll_lt, h.table_lt, ?_, ?_⟩
      · intro g; simp only [hpc]; exact h.pin_nonneg g
      · intro g hg; simp only [hpc]; exact h.dll_pin g hg
      · intro g hg hs hz; simp only [hpc] at hz; exact h.zero_tracked g hg hs hz
    · simp only [FlushPgImp, hres, hd]
      exact h

theorem FlushPgImp_pool_size (s : BufferPoolManagerInstance) (pid : page_id_t) :
    (FlushPgImp s pid).2.pool_size = s.pool_size := by
  unfold FlushPgImp
  cases s.page_table pid with
  | none => rfl
  | some f => by_cases hd : (s.pages f).is_dirty = true <;> simp [hd]

theorem PinInv_FlushAllStep (s : BufferPoolManagerInstance) (i : Nat)
    (h : PinInv s (fun _ => False)) (hi : i < s.pool_size) :
    PinInv (FlushAllStep s i) (fun _ => False)
    ∧ (FlushAllStep s i).pool_size = s.pool_size := by
  unfold FlushAllStep
  refine ⟨PinInv_FlushPgImp _ _ ?_, by rw [FlushPgImp_pool_size]⟩
  refine ⟨h.replacer_wf, h.pin_nonneg, h.free_lt, h.dll_lt, ?_, h.dll_pin, h.zero_tracked⟩
  intro q f
  simp only [mapIndex]
  cases hq : s.page_table (i : Int) with
  | some v => exact h.table_lt q f
  | none =>
    simp only
    by_cases hqi : q = (i : Int)
    · simp only [hqi, if_true]
      intro hf
      have h0 : 0 = f := Option.some.inj hf
      rw [← h0]
      exact Nat.lt_of_le_of_lt (Nat.zero_le _) hi
    · simp only [hqi, if_false]
      exact h.table_lt q f

theorem PinInv_FlushAllPgsImp (s : BufferPoolManagerInstance)
    (h : PinInv s (fun _ => False)) : PinInv (FlushAllPgsImp s) (fun _ => False) := by
  have key : ∀ (l : List Nat) (t : BufferPoolManagerInstance), PinInv t (fun _ => False) →
      (∀ i, i ∈ l → i < t.pool_size) → PinInv (l.foldl FlushAllStep t) (fun _ => False) := by
    intro l
    induction l with
    | nil => intro t ht _; exact ht
    | cons a l ih =>
      intro t ht hl
      obtain ⟨h1, h2⟩ := PinInv_FlushAllStep t a ht (hl a (List.mem_cons_self _ _))
      rw [List.foldl_cons]
      refine ih _ h1 ?_
      intro i hi
      rw [h2]
      exact hl i (List.mem_cons_of_mem _ hi)
  exact key _ s h (fun i hi => List.mem_range.mp hi)

theorem PinInv_DeletePgImp (s : BufferPoolManagerInstance) (pid : page_id_t)
    (h : PinInv s (fun _ => False)) : PinInv (DeletePgImp s pid).2 (fun _ => False) := by
  cases hres : s.page_table pid with
  | none => simp only [DeletePgImp, hres]; exact h
  | some f =>
    by_cases hp : (s.pages f).pin_count = 0
    · obtain ⟨_, _, h3⟩ := DeletePgImp_facts s pid
      obtain ⟨_, _, _, _, ht, hpf, hpg, hfl⟩ := h3 f hres hp
      have hps : (DeletePgImp s pid).2.pool_size = s.pool_size := by
        simp only [DeletePgImp, hres, hp]
        by_cases hd : (s.pages f).is_dirty = true <;> simp [hd]
      have hr : (DeletePgImp s pid).2.replacer = s.replacer := by
        simp only [DeletePgImp, hres, hp]
        by_cases hd : (s.pages f).is_dirty = true <;> simp [hd]
      have hpc : ∀ g, ((DeletePgImp s pid).2.pages g).pin_count = (s.pages g).pin_count := by
        intro g
        by_cases hg : g = f
        · subst hg; rw [hpf, hp]
        · rw [hpg g hg]
      refine ⟨by rw [hr]; exact h.replacer_wf, ?_, ?_, ?_, ?_, ?_, ?_⟩
      · intro g; rw [hpc]; exact h.pin_nonneg g
      · intro g hg
        rw [hfl] at hg; rw [hps]
        rcases List.mem_append.mp hg with h1 | h1
        · exact h.free_lt g h1
        · rw [List.mem_singleton.mp h1]
          exact h.table_lt pid f hres
      · intro g hg
        rw [hr] at hg; rw [hps]
        exact h.dll_lt g hg
      · intro q g hq
        rw [hps]
        by_cases hq2 : q = (s.pages f).page_id
        · subst hq2
          obtain ⟨_, _, h3⟩ := DeletePgImp_facts s pid
          rw [(h3 f hres hp).2.2.1] at hq
          exact absurd hq (by simp)
        · rw [ht q hq2] at hq
          exact h.table_lt q g hq
      · intro g hg
        rw [hr] at hg
        rw [hpc]
        exact h.dll_pin g hg
      · intro g hg _ hz
        rw [hps] at hg
        rw [hpc] at hz
        rw [hfl, hr]
        rcases h.zero_tracked g hg (fun x => x) hz with h1 | h1
        · exact Or.inl (List.mem_append_left _ h1)
        · exact Or.inr h1
    · rw [(DeletePgImp_facts s pid).2.1 f hres hp]
      exact h

theorem PinInv_WriteData (s : BufferPoolManagerInstance) (f : frame_id_t) (d : PageData)
    (h : PinInv s (fun _ => False)) : PinInv (WriteData s f d) (fun _ => False) := by
  have hpc : ∀ g, ((WriteData s f d).pages g).pin_count = (s.pages g).pin_count := by
    intro g
    unfold WriteData
    by_cases hg : g = f
    · subst hg; simp
    · simp [hg]
  refine ⟨h.replacer_wf, ?_, h.free_lt, h.dll_lt, h.table_lt, ?_, ?_⟩
  · intro g; rw [hpc]; exact h.pin_nonneg g
  · intro g hg; rw [hpc]; exact h.dll_pin g hg
  · intro g hg hs hz; rw [hpc] at hz; exact h.zero_tracked g hg hs hz

/-- Every reachable state satisfies the pin-count invariant. -/
theorem Reachable.pinInv {s : BufferPoolManagerInstance} (h : Reachable s) :
    PinInv s (fun _ => False) := by
  induction h with
  | construct a b c d => exact PinInv_construct a b c d
  | NewPg _ ih => exact PinInv_NewPgImp _ ih
  | FetchPg _ pid ih => exact PinInv_FetchPgImp _ pid ih
  | UnpinPg _ pid d hpin ih => exact PinInv_UnpinPgImp _ pid d ih hpin
  | FlushPg _ pid ih => exact PinInv_FlushPgImp _ pid ih
  | FlushAllPgs _ ih => exact PinInv_FlushAllPgsImp _ ih
  | DeletePg _ pid ih => exact PinInv_DeletePgImp _ pid ih
  | WriteData _ f d ih => exact PinInv_WriteData _ f d ih

/-- Pool exhaustion in terms of the free list: in every state reachable when
`UnpinPgImp` is only called on pages with a positive pin count, `NewPgImp` returns
`nullptr` exactly when every frame of the pool is off the free list and has a
positive pin count. A frame that is off the free list need not hold a resident
page, and a frame that the page table leads to can be on the free list (see
`NewPgImp_returns_pinned_frame`). -/
theorem NewPgImp_null_iff_all_pinned (s : BufferPoolManagerInstance) (h : Reachable s) :
    (NewPgImp s).1 = none
      ↔ ∀ f, f < s.pool_size → f ∉ s.free_list ∧ 0 < (s.pages f).pin_count := by
  have inv := h.pinInv
  constructor
  · intro hn
    rcases NewPgImp_cases s with ⟨hfl, hv, _⟩ | ⟨f, rest, _, he⟩ | ⟨f, r, _, _, he⟩
    · have hdll := (LRUReplacer.Victim_none_iff s.replacer).mp hv
      intro f hf
      refine ⟨by rw [hfl]; simp, ?_⟩
      rcases lt_or_eq_of_le (inv.pin_nonneg f) with hpos | hz
      · exact hpos
      · rcases inv.zero_tracked f hf (fun x => x) hz.symm with h1 | h1
        · rw [hfl] at h1; simp at h1
        · rw [hdll] at h1; simp at h1
    · rw [he, installNew_fst] at hn
      exact absurd hn (by simp)
    · rw [he, installNew_fst] at hn
      exact absurd hn (by simp)
  · intro hall
    have hfl : s.free_list = [] := by
      cases hl : s.free_list with
      | nil => rfl
      | cons f rest =>
        have hm : f ∈ s.free_list := by rw [hl]; exact List.mem_cons_self _ _
        exact absurd hm (hall f (inv.free_lt f hm)).1
    have hdll : s.replacer.dll = [] := by
      cases hl : s.replacer.dll with
      | nil => rfl
      | cons f rest =>
        have hm : f ∈ s.replacer.dll := by rw [hl]; exact List.mem_cons_self _ _
        have h1 := (hall f (inv.dll_lt f hm)).2
        have h2 := inv.dll_pin f hm
        omega
    have hv := (LRUReplacer.Victim_none_iff s.replacer).mpr hdll
    rcases NewPgImp_cases s with ⟨_, _, he⟩ | ⟨f, rest, hfl2, _⟩ | ⟨f, r, _, hv2, _⟩
    · rw [he]
    · rw [hfl] at hfl2; exact absurd hfl2 (by simp)
    · rw [hv2] at hv; exact absurd hv (by simp)

/-- The state of boundary scenario 1: a pool of three frames in which pages 1,
2 and 3 have been fetched and not unpinned. -/
theorem Reachable_three_fetched :
    Reachable (FetchPgImp (FetchPgImp (FetchPgImp
      (construct 3 1 0 (fun _ => zeroData)) 1).2 2).2 3).2 :=
  ((Reachable.construct 3 1 0 (fun _ => zeroData)).FetchPg 1 |>.FetchPg 2).FetchPg 3

/-- The theorem `NewPgImp_null_iff_all_pinned` at the state of boundary scenario 1. -/
theorem NewPgImp_null_iff_all_pinned_witness :
    Reachable (FetchPgImp (FetchPgImp (FetchPgImp
      (construct 3 1 0 (fun _ => zeroData)) 1).2 2).2 3).2
    ∧ ((NewPgImp (FetchPgImp (FetchPgImp (FetchPgImp
          (construct 3 1 0 (fun _ => zeroData)) 1).2 2).2 3).2).1 = none
      ↔ ∀ f, f < (FetchPgImp (FetchPgImp (FetchPgImp
            (construct 3 1 0 (fun _ => zeroData)) 1).2 2).2 3).2.pool_size →
          f ∉ (FetchPgImp (FetchPgImp (FetchPgImp
            (construct 3 1 0 (fun _ => zeroData)) 1).2 2).2 3).2.free_list
          ∧ 0 < ((FetchPgImp (FetchPgImp (FetchPgImp
            (construct 3 1 0 (fun _ => zeroData)) 1).2 2).2 3).2.pages f).pin_count) :=
  ⟨Reachable_three_fetched, NewPgImp_null_iff_all_pinned _ Reachable_three_fetched⟩

/-- Boundary scenario 1 evaluated: with pages 1, 2, 3 fetched into a pool of
three frames and not unpinned, `NewPgImp` returns `nullptr`; after unpinning
page 2 it returns frame 1 with the fresh page id 0. -/
theorem pool_exhaustion_scenario :
    (NewPgImp (FetchPgImp (FetchPgImp (FetchPgImp
      (construct 3 1 0 (fun _ => zeroData)) 1).2 2).2 3).2).1 = none
    ∧ (NewPgImp (UnpinPgImp (FetchPgImp (FetchPgImp (FetchPgImp
      (construct 3 1 0 (fun _ => zeroData)) 1).2 2).2 3).2 2 false).2).1 = some (1, 0) := by
  constructor <;> decide

/-! ## Buffer pool manager instance: page table consistency -/

theorem TableConsistent_construct (pool_size num_instances instance_index : Nat)
    (disk : page_id_t → PageData) :
    TableConsistent (construct pool_size num_instances instance_index disk) := by
  intro q f h
  simp [construct] at h

/-- Installing page `pid` in frame `f` keeps the page table consistent. -/
theorem TableConsistent_install (s s' : BufferPoolManagerInstance) (f : frame_id_t)
    (pg : Page) (pid : page_id_t) (h : TableConsistent s)
    (hp : s'.pages = setPage s.pages f pg) (hid : pg.page_id = pid)
    (ht : s'.page_table = mapInsert (mapErase s.page_table (s.pages f).page_id) pid f) :
    TableConsistent s' := by
  intro q g hq
  rw [ht] at hq
  rw [hp]
  unfold mapInsert mapErase at hq
  by_cases hqp : q = pid
  · subst hqp
    simp only [if_true] at hq
    by_cases hgf : g = f
    · subst hgf; simp [hid]
    · simp only [setPage_other _ _ _ _ hgf]
      by_cases ho : q = (s.pages f).page_id
      · simp only [ho, if_true] at hq
        exact absurd (Option.some.inj hq).symm hgf
      · simp only [ho, if_false] at hq
        cases ht2 : s.page_table q with
        | none =>
          rw [ht2] at hq
          exact absurd (Option.some.inj hq).symm hgf
        | some w =>
          rw [ht2] at hq
          have hw : w = g := Option.some.inj hq
          exact h q g (hw ▸ ht2)
  · simp only [hqp, if_false] at hq
    by_cases ho : q = (s.pages f).page_id
    · simp [ho] at hq
    · simp only [ho, if_false] at hq
      have hgid := h q g hq
      have hgf : g ≠ f := by
        rintro rfl
        exact ho hgid.symm
      simp only [setPage_other _ _ _ _ hgf]
      exact hgid

theorem TableConsistent_NewPgImp (s : BufferPoolManagerInstance) (h : TableConsistent s) :
    TableConsistent (NewPgImp s).2 := by
  rcases NewPgImp_cases s with ⟨_, _, he⟩ | ⟨f, rest, _, he⟩ | ⟨f, r, _, _, he⟩
  · rw [he]; exact h
  · rw [he]
    obtain ⟨_, e2, _, _, e5⟩ := installNew_fields { s with free_list := rest } f
    exact TableConsistent_install { s with free_list := rest } _ f _ s.next_page_id h e2 rfl e5
  · rw [he]
    obtain ⟨_, e2, _, _, e5⟩ := installNew_fields { s with replacer := r } f
    exact TableConsistent_install { s with replacer := r } _ f _ s.next_page_id h e2 rfl e5

theorem TableConsistent_FetchPgImp (s : BufferPoolManagerInstance) (pid : page_id_t)
    (h : TableConsistent s) : TableConsistent (FetchPgImp s pid).2 := by
  cases hres : s.page_table pid with
  | some f =>
    have e : FetchPgImp s pid = (some f,
        { s with
          replacer := s.replacer.Pin f
          pages := setPage s.pages f
            { s.pages f with pin_count := (s.pages f).pin_count + 1 } }) := by
      simp only [FetchPgImp, hres]
    rw [e]
    intro q g hq
    by_cases hg : g = f
    · subst hg; simpa using h q g hq
    · simpa [hg] using h q g hq
  | none =>
    rcases FetchPgImp_miss_cases s pid hres with ⟨_, _, he⟩ | ⟨f, rest, _, he⟩ | ⟨f, r, _, _, he⟩
    · rw [he]; exact h
    · rw [he]
      obtain ⟨_, e2, _, _, e5⟩ := installFetch_fields { s with free_list := rest } pid f
      exact TableConsistent_install { s with free_list := rest } _ f _ pid h e2 rfl e5
    · rw [he]
      obtain ⟨_, e2, _, _, e5⟩ := installFetch_fields { s with replacer := r } pid f
      exact TableConsistent_install { s with replacer := r } _ f _ pid h e2 rfl e5

theorem TableConsistent_UnpinPgImp (s : BufferPoolManagerInstance) (pid : page_id_t)
    (is_dirty : Bool) (h : TableConsistent s) :
    TableConsistent (UnpinPgImp s pid is_dirty).2 := by
  cases hres : s.page_table pid with
  | none => rw [(UnpinPgImp_facts s pid is_dirty).2.2 hres]; exact h
  | some f =>
    obtain ⟨_, _, h3, _, _, _, h7, h8, _, _⟩ := (UnpinPgImp_facts s pid is_dirty).2.1 f hres
    intro q g hq
    rw [h8] at hq
    by_cases hg : g = f
    · subst hg; rw [h3]; exact h q g hq
    · rw [h7 g hg]; exact h q g hq

theorem TableConsistent_FlushPgImp (s : BufferPoolManagerInstance) (pid : page_id_t)
    (h : TableConsistent s) : TableConsistent (FlushPgImp s pid).2 := by
  cases hres : s.page_table pid with
  | none => simp only [FlushPgImp, hres]; exact h
  | some f =>
    by_cases hd : (s.pages f).is_dirty = true
    · simp only [FlushPgImp, hres, hd, if_true]
      intro q g hq
      by_cases hg : g = f
      · subst hg; simpa using h q g hq
      · simpa [hg] using h q g hq
    · have e : FlushPgImp s pid = (true, s) := by simp [FlushPgImp, hres, hd]
      rw [e]; exact h

theorem TableConsistent_DeletePgImp (s : BufferPoolManagerInstance) (pid : page_id_t)
    (h : TableConsistent s) : TableConsistent (DeletePgImp s pid).2 := by
  cases hres : s.page_table pid with
  | none => rw [(DeletePgImp_facts s pid).1 hres]; exact h
  | some f =>
    by_cases hp : (s.pages f).pin_count = 0
    · obtain ⟨_, _, hterase, _, ht, _, hpg, _⟩ := (DeletePgImp_facts s pid).2.2 f hres hp
      intro q g hq
      by_cases hqo : q = (s.pages f).page_id
      · rw [hqo, hterase] at hq
        exact absurd hq (by simp)
      · rw [ht q hqo] at hq
        have hgid := h q g hq
        have hgf : g ≠ f := by
          rintro rfl
          exact hqo hgid.symm
        rw [hpg g hgf]
        exact hgid
    · rw [(DeletePgImp_facts s pid).2.1 f hres hp]
      exact h

theorem TableConsistent_WriteData (s : BufferPoolManagerInstance) (f : frame_id_t)
    (d : PageData) (h : TableConsistent s) : TableConsistent (WriteData s f d) := by
  intro q g hq
  unfold WriteData at hq ⊢
  by_cases hg : g = f
  · subst hg; simpa using h q g hq
  · simpa [hg] using h q g hq

/-- The loop of `FlushAllPgsImp` breaks the consistency of the page table: on
a fresh pool of two frames it leaves page id 1 mapped to frame 0, which holds
no page. -/
theorem FlushAllPgsImp_not_consistent :
    ¬ TableConsistent (FlushAllPgsImp (construct 2 1 0 (fun _ => zeroData))) := by
  intro h
  have h1 := h 1 0 (by decide)
  revert h1
  decide

/-! ## Buffer pool manager instance: flushing -/

/-- C8 (FlushAllPages), the code evaluated on `flushAllScenario`: before the
call page 2 is resident in frame 0, dirty, with first byte 7, the disk holds 0
for page 2 and page id 0 is not in the page table. After `FlushAllPgsImp` the
disk still holds 0 for page 2, the bytes of frame 0 have been written under
page id 0, the dirty flag of frame 0 is cleared, and the page table has gained
an entry for page id 0. -/
theorem FlushAllPgsImp_misindexed :
    flushAllScenario.page_table 2 = some 0
    ∧ (flushAllScenario.pages 0).page_id = 2
    ∧ (flushAllScenario.pages 0).is_dirty = true
    ∧ (flushAllScenario.pages 0).data 0 = 7
    ∧ flushAllScenario.disk 2 0 = 0
    ∧ flushAllScenario.page_table 0 = none
    ∧ (FlushAllPgsImp flushAllScenario).disk 2 0 = 0
    ∧ (FlushAllPgsImp flushAllScenario).disk 0 0 = 7
    ∧ ((FlushAllPgsImp flushAllScenario).pages 0).is_dirty = false
    ∧ (FlushAllPgsImp flushAllScenario).page_table 0 = some 0 := by
  decide

/-- C9 as stated fails on `staleDiskScenario`: `FlushPgImp` returns true for
the resident page 0 whose frame holds zero bytes; after the unpin and the
eviction by the fetch of page 1, page 0 is no longer resident, and fetching it
again returns frame 0 with first byte 9, not the bytes held at the flush. -/
theorem flush_round_trip_counterexample :
    staleDiskScenario.page_table 0 = some 0
    ∧ (staleDiskScenario.pages 0).data = zeroData
    ∧ (FlushPgImp staleDiskScenario 0).1 = true
    ∧ staleDiskEvicted.page_table 0 = none
    ∧ (FetchPgImp staleDiskEvicted 0).1 = some 0
    ∧ ((FetchPgImp staleDiskEvicted 0).2.pages 0).data 0 = 9
    ∧ ((FetchPgImp staleDiskEvicted 0).2.pages 0).data ≠ (staleDiskScenario.pages 0).data := by
  refine ⟨by decide, rfl, by decide, by decide, by decide, by decide, ?_⟩
  intro h
  have h2 := congrFun h 0
  revert h2
  decide

theorem WritePage_apply_of_frame {p : page_id_t} {d : PageData}
    {s : BufferPoolManagerInstance} (h : CopyInv p d s) (f : frame_id_t) :
    (if (s.pages f).is_dirty then WritePage s.disk (s.pages f).page_id (s.pages f).data
      else s.disk) p = d := by
  by_cases hd : (s.pages f).is_dirty = true
  · simp only [hd, if_true, WritePage]
    by_cases hp : p = (s.pages f).page_id
    · simp only [hp, if_true]
      exact h.frame_eq f hp.symm
    · simp only [hp, if_false]
      exact h.disk_eq
  · simp only [hd]
    exact h.disk_eq

/-- Installing page `pid` in frame `f` keeps `CopyInv`, when the installed bytes
are `d` in case `pid = p`. -/
theorem CopyInv_install (p : page_id_t) (d : PageData) (s s' : BufferPoolManagerInstance)
    (f : frame_id_t) (pg : Page) (pid : page_id_t) (h : CopyInv p d s)
    (hdisk : s'.disk = if (s.pages f).is_dirty then
        WritePage s.disk (s.pages f).page_id (s.pages f).data else s.disk)
    (hp : s'.pages = setPage s.pages f pg) (hid : pg.page_id = pid)
    (hdata : pid = p → pg.data = d)
    (ht : s'.page_table = mapInsert (mapErase s.page_table (s.pages f).page_id) pid f)
    (hmiss : pid = p → s.page_table p = none) : CopyInv p d s' := by
  refine ⟨?_, ?_, ?_⟩
  · rw [hdisk]; exact WritePage_apply_of_frame h f
  · intro g hg
    rw [hp] at hg ⊢
    by_cases hgf : g = f
    · subst hgf
      simp only [setPage_same] at hg ⊢
      exact hdata (hid ▸ hg)
    · simp only [setPage_other _ _ _ _ hgf] at hg ⊢
      exact h.frame_eq g hg
  · intro g hg
    rw [ht] at hg
    rw [hp]
    by_cases hpp : pid = p
    · have hm := hmiss hpp
      subst hpp
      have hg2 : g = f := by
        simp only [mapInsert, mapErase, if_true] at hg
        by_cases ho : pid = (s.pages f).page_id
        · simp only [ho, if_true] at hg
          exact (Option.some.inj hg).symm
        · simp only [ho, if_false, hm] at hg
          exact (Option.some.inj hg).symm
      subst hg2
      simp [hid]
    · have hpp2 : p ≠ pid := fun e => hpp e.symm
      simp only [mapInsert, mapErase, hpp2, if_false] at hg
      by_cases ho : p = (s.pages f).page_id
      · simp [ho] at hg
      · simp only [ho, if_false] at hg
        have hgid := h.table_id g hg
        have hgf : g ≠ f := by
          rintro rfl
          exact ho hgid.symm
        simp only [setPage_other _ _ _ _ hgf]
        exact hgid

/-- A step that changes neither disk, page table, page ids nor bytes keeps `CopyInv`. -/
theorem CopyInv_of_same (p : page_id_t) (d : PageData) (s s' : BufferPoolManagerInstance)
    (h : CopyInv p d s) (hdisk : s'.disk = s.disk) (ht : s'.page_table = s.page_table)
    (hid : ∀ g, (s'.pages g).page_id = (s.pages g).page_id)
    (hda : ∀ g, (s'.pages g).data = (s.pages g).data) : CopyInv p d s' := by
  refine ⟨by rw [hdisk]; exact h.disk_eq, ?_, ?_⟩
  · intro g hg
    rw [hid] at hg; rw [hda]
    exact h.frame_eq g hg
  · intro g hg
    rw [ht] at hg; rw [hid]
    exact h.table_id g hg

theorem CopyInv_FetchPgImp (p : page_id_t) (d : PageData) (s : BufferPoolManagerInstance)
    (q : page_id_t) (h : CopyInv p d s) : CopyInv p d (FetchPgImp s q).2 := by
  cases hres : s.page_table q with
  | some f =>
    have e : FetchPgImp s q = (some f,
        { s with
          replacer := s.replacer.Pin f
          pages := setPage s.pages f
            { s.pages f with pin_count := (s.pages f).pin_count + 1 } }) := by
      simp only [FetchPgImp, hres]
    rw [e]
    refine CopyInv_of_same p d s _ h rfl rfl ?_ ?_
    · intro g
      by_cases hg : g = f
      · subst hg; simp
      · simp [hg]
    · intro g
      by_cases hg : g = f
      · subst hg; simp
      · simp [hg]
  | none =>
    rcases FetchPgImp_miss_cases s q hres with ⟨_, _, he⟩ | ⟨f, rest, _, he⟩ | ⟨f, r, _, _, he⟩
    · rw [he]; exact h
    · rw [he]
      have h0 : CopyInv p d { s with free_list := rest } := ⟨h.disk_eq, h.frame_eq, h.table_id⟩
      obtain ⟨_, e2, _, _, e5⟩ := installFetch_fields { s with free_list := rest } q f
      refine CopyInv_install p d _ _ f _ q h0 (installFetch_disk _ q f) e2 rfl ?_ e5
        (fun e => e ▸ hres)
      intro hq
      simp only
      rw [installFetch_disk, hq]
      exact WritePage_apply_of_frame h0 f
    · rw [he]
      have h0 : CopyInv p d { s with replacer := r } := ⟨h.disk_eq, h.frame_eq, h.table_id⟩
      obtain ⟨_, e2, _, _, e5⟩ := installFetch_fields { s with replacer := r } q f
      refine CopyInv_install p d _ _ f _ q h0 (installFetch_disk _ q f) e2 rfl ?_ e5
        (fun e => e ▸ hres)
      intro hq
      simp only
      rw [installFetch_disk, hq]
      exact WritePage_apply_of_frame h0 f

theorem CopyInv_NewPgImp (p : page_id_t) (d : PageData) (s : BufferPoolManagerInstance)
    (h : CopyInv p d s) (hne : s.next_page_id ≠ p) : CopyInv p d (NewPgImp s).2 := by
  rcases NewPgImp_cases s with ⟨_, _, he⟩ | ⟨f, rest, _, he⟩ | ⟨f, r, _, _, he⟩
  · rw [he]; exact h
  · rw [he]
    have h0 : CopyInv p d { s with free_list := rest } := ⟨h.disk_eq, h.frame_eq, h.table_id⟩
    obtain ⟨_, e2, _, _, e5⟩ := installNew_fields { s with free_list := rest } f
    exact CopyInv_install p d _ _ f _ s.next_page_id h0 (installNew_disk _ f) e2 rfl
      (fun e => absurd e hne) e5 (fun e => absurd e hne)
  · rw [he]
    have h0 : CopyInv p d { s with replacer := r } := ⟨h.disk_eq, h.frame_eq, h.table_id⟩
    obtain ⟨_, e2, _, _, e5⟩ := installNew_fields { s with replacer := r } f
    exact CopyInv_install p d _ _ f _ s.next_page_id h0 (installNew_disk _ f) e2 rfl
      (fun e => absurd e hne) e5 (fun e => absurd e hne)

theorem CopyInv_UnpinPgImp (p : page_id_t) (d : PageData) (s : BufferPoolManagerInstance)
    (q : page_id_t) (b : Bool) (h : CopyInv p d s) : CopyInv p d (UnpinPgImp s q b).2 := by
  cases hres : s.page_table q with
  | none => rw [(UnpinPgImp_facts s q b).2.2 hres]; exact h
  | some f =>
    obtain ⟨_, _, h3, h4, _, _, h7, h8, _, h10⟩ := (UnpinPgImp_facts s q b).2.1 f hres
    refine CopyInv_of_same p d s _ h h10 h8 ?_ ?_
    · intro g
      by_cases hg : g = f
      · subst hg; exact h3
      · rw [h7 g hg]
    · intro g
      by_cases hg : g = f
      · subst hg; exact h4
      · rw [h7 g hg]

theorem CopyInv_FlushPgImp (p : page_id_t) (d : PageData) (s : BufferPoolManagerInstance)
    (q : page_id_t) (h : CopyInv p d s) : CopyInv p d (FlushPgImp s q).2 := by
  cases hres : s.page_table q with
  | none => simp only [FlushPgImp, hres]; exact h
  | some f =>
    by_cases hd : (s.pages f).is_dirty = true
    · simp only [FlushPgImp, hres, hd, if_true]
      refine ⟨?_, ?_, ?_⟩
      · simp only [WritePage]
        by_cases hpq : p = q
        · subst hpq
          simp only [if_true]
          exact h.frame_eq f (h.table_id f hres)
        · simp only [hpq, if_false]
          exact h.disk_eq
      · intro g hg
        by_cases hgf : g = f
        · subst hgf
          simp only [setPage_same] at hg ⊢
          exact h.frame_eq g hg
        · simp only [setPage_other _ _ _ _ hgf] at hg ⊢
          exact h.frame_eq g hg
      · intro g hg
        by_cases hgf : g = f
        · subst hgf
          simp only [setPage_same]
          exact h.table_id g hg
        · simp only [setPage_other _ _ _ _ hgf]
          exact h.table_id g hg
    · simp only [FlushPgImp, hres, hd]
      exact h

theorem CopyInv_DeletePgImp (p : page_id_t) (d : PageData) (s : BufferPoolManagerInstance)
    (q : page_id_t) (h : CopyInv p d s) (hvalid : p ≠ INVALID_PAGE_ID) :
    CopyInv p d (DeletePgImp s q).2 := by
  cases hres : s.page_table q with
  | none => rw [(DeletePgImp_facts s q).1 hres]; exact h
  | some f =>
    by_cases hp : (s.pages f).pin_count = 0
    · obtain ⟨_, hdisk, hterase, _, ht, hpf, hpg, _⟩ := (DeletePgImp_facts s q).2.2 f hres hp
      refine ⟨?_, ?_, ?_⟩
      · rw [hdisk]; exact WritePage_apply_of_frame h f
      · intro g hg
        by_cases hgf : g = f
        · subst hgf
          rw [hpf] at hg
          exact absurd hg.symm hvalid
        · rw [hpg g hgf] at hg ⊢
          exact h.frame_eq g hg
      · intro g hg
        by_cases hpo : p = (s.pages f).page_id
        · rw [hpo, hterase] at hg
          exact absurd hg (by simp)
        · rw [ht p hpo] at hg
          have hgid := h.table_id g hg
          have hgf : g ≠ f := by
            rintro rfl
            exact hpo hgid.symm
          rw [hpg g hgf]
          exact hgid
    · rw [(DeletePgImp_facts s q).2.1 f hres hp]
      exact h

theorem CopyInv_WriteData (p : page_id_t) (d : PageData) (s : BufferPoolManagerInstance)
    (f : frame_id_t) (d' : PageData) (h : CopyInv p d s) (hne : (s.pages f).page_id ≠ p) :
    CopyInv p d (WriteData s f d') := by
  unfold WriteData
  refine ⟨h.disk_eq, ?_, ?_⟩
  · intro g hg
    by_cases hgf : g = f
    · subst hgf
      simp only [setPage_same] at hg
      exact absurd hg hne
    · simp only [setPage_other _ _ _ _ hgf] at hg ⊢
      exact h.frame_eq g hg
  · intro g hg
    by_cases hgf : g = f
    · subst hgf
      simp only [setPage_same]
      exact h.table_id g hg
    · simp only [setPage_other _ _ _ _ hgf]
      exact h.table_id g hg

theorem QuietFor.copyInv {p : page_id_t} {d : PageData} {s t : BufferPoolManagerInstance}
    (hq : QuietFor p s t) (h : CopyInv p d s) (hvalid : p ≠ INVALID_PAGE_ID) :
    CopyInv p d t := by
  induction hq with
  | refl => exact h
  | FetchPg _ q ih => exact CopyInv_FetchPgImp p d _ q ih
  | NewPg _ hne ih => exact CopyInv_NewPgImp p d _ ih hne
  | UnpinPg _ q b ih => exact CopyInv_UnpinPgImp p d _ q b ih
  | FlushPg _ q ih => exact CopyInv_FlushPgImp p d _ q ih
  | DeletePg _ q ih => exact CopyInv_DeletePgImp p d _ q ih hvalid
  | WriteData _ f d' hne ih => exact CopyInv_WriteData p d _ f d' ih hne

theorem FlushPgImp_dirty (s : BufferPoolManagerInstance) (p : page_id_t) (f : frame_id_t)
    (hres : s.page_table p = some f) (hd : (s.pages f).is_dirty = true) :
    FlushPgImp s p = (true, { s with
      disk := WritePage s.disk p (s.pages f).data
      pages := setPage s.pages f { s.pages f with is_dirty := false } }) := by
  simp only [FlushPgImp, hres, hd, if_true]

theorem FlushPgImp_clean (s : BufferPoolManagerInstance) (p : page_id_t) (f : frame_id_t)
    (hres : s.page_table p = some f) (hd : ¬ (s.pages f).is_dirty = true) :
    FlushPgImp s p = (true, s) := by
  simp [FlushPgImp, hres, hd]

/-- C9, amended (flush / evict / refetch round trip): let `p` be a valid page
id, resident in frame `f0`, the only frame recording `p`, whose bytes `d` are
either marked dirty or already equal to the disk copy of `p`. Then `FlushPgImp`
on `p` returns true, and after any further sequence of pool operations and
client writes that neither write a frame holding `p` nor allocate `p` again
(unpinning `p` and evicting it by fetches and allocations of other pages
included), a `FetchPgImp` of `p` that returns a frame returns one whose bytes
are `d`. -/
theorem flush_evict_refetch (s t : BufferPoolManagerInstance) (p : page_id_t)
    (f0 f : frame_id_t) (hvalid : p ≠ INVALID_PAGE_ID)
    (hres : s.page_table p = some f0) (hid : (s.pages f0).page_id = p)
    (huniq : ∀ g, (s.pages g).page_id = p → g = f0)
    (hcoh : (s.pages f0).is_dirty = true ∨ (s.pages f0).data = s.disk p)
    (hq : QuietFor p (FlushPgImp s p).2 t)
    (hfetch : (FetchPgImp t p).1 = some f) :
    (FlushPgImp s p).1 = true
    ∧ ((FetchPgImp t p).2.pages f).data = (s.pages f0).data := by
  have h1 : CopyInv p (s.pages f0).data (FlushPgImp s p).2 := by
    by_cases hd : (s.pages f0).is_dirty = true
    · rw [FlushPgImp_dirty s p f0 hres hd]
      refine ⟨by simp [WritePage], ?_, ?_⟩
      · intro g hg
        by_cases hgf : g = f0
        · subst hgf; simp
        · simp only [setPage_other _ _ _ _ hgf] at hg
          exact absurd (huniq g hg) hgf
      · intro g hg
        have hgf : f0 = g := Option.some.inj (hres.symm.trans hg)
        subst hgf
        simpa using hid
    · rw [FlushPgImp_clean s p f0 hres hd]
      refine ⟨?_, ?_, ?_⟩
      · rcases hcoh with h | h
        · exact absurd h hd
        · exact h.symm
      · intro g hg
        rw [huniq g hg]
      · intro g hg
        have hgf : f0 = g := Option.some.inj (hres.symm.trans hg)
        subst hgf
        exact hid
  have h2 : CopyInv p (s.pages f0).data t := hq.copyInv h1 hvalid
  have h3 : CopyInv p (s.pages f0).data (FetchPgImp t p).2 := CopyInv_FetchPgImp p _ t p h2
  refine ⟨?_, ?_⟩
  · by_cases hd : (s.pages f0).is_dirty = true
    · rw [FlushPgImp_dirty s p f0 hres hd]
    · rw [FlushPgImp_clean s p f0 hres hd]
  · apply h3.frame_eq f
    cases ht : t.page_table p with
    | some g =>
      have e : FetchPgImp t p = (some g,
          { t with
            replacer := t.replacer.Pin g
            pages := setPage t.pages g
              { t.pages g with pin_count := (t.pages g).pin_count + 1 } }) := by
        simp only [FetchPgImp, ht]
      rw [e] at hfetch ⊢
      have hgf : g = f := Option.some.inj hfetch
      subst hgf
      simpa using h2.table_id g ht
    | none => exact ((FetchPgImp_miss_facts t p ht).2.2 f hfetch).1

theorem dirtyPageScenario_unique :
    ∀ g, (dirtyPageScenario.pages g).page_id = 0 → g = 0 := by
  intro g
  by_cases hg : g = 0
  · intro _; exact hg
  · simp [dirtyPageScenario, hg, Page.fresh, INVALID_PAGE_ID]

theorem dirtyPageScenario_quiet :
    QuietFor 0 (FlushPgImp dirtyPageScenario 0).2 dirtyPageEvicted :=
  (((QuietFor.refl (FlushPgImp dirtyPageScenario 0).2).UnpinPg 0 false).FetchPg 1).UnpinPg 1 false

/-- C9 witness: the dirty page 0 of `dirtyPageScenario` is flushed, unpinned,
evicted by the fetch of page 1 and fetched again. -/
theorem flush_evict_refetch_witness :
    ((0 : page_id_t) ≠ INVALID_PAGE_ID
      ∧ dirtyPageScenario.page_table 0 = some 0
      ∧ (dirtyPageScenario.pages 0).page_id = 0
      ∧ (∀ g, (dirtyPageScenario.pages g).page_id = 0 → g = 0)
      ∧ ((dirtyPageScenario.pages 0).is_dirty = true
          ∨ (dirtyPageScenario.pages 0).data = dirtyPageScenario.disk 0)
      ∧ QuietFor 0 (FlushPgImp dirtyPageScenario 0).2 dirtyPageEvicted
      ∧ dirtyPageEvicted.page_table 0 = none
      ∧ (FetchPgImp dirtyPageEvicted 0).1 = some 0)
    ∧ ((FlushPgImp dirtyPageScenario 0).1 = true
      ∧ ((FetchPgImp dirtyPageEvicted 0).2.pages 0).data = (dirtyPageScenario.pages 0).data) :=
  ⟨⟨by decide, by decide, by decide, dirtyPageScenario_unique, Or.inl (by decide),
      dirtyPageScenario_quiet, by decide, by decide⟩,
    flush_evict_refetch dirtyPageScenario dirtyPageEvicted 0 0 0 (by decide) (by decide)
      (by decide) dirtyPageScenario_unique (Or.inl (by decide)) dirtyPageScenario_quiet
      (by decide)⟩

end BufferPoolManagerInstance

/-! ## B+ tree -/

/-- The call `Insert` on an empty, never-written leaf stores a key other than 0 in slot
0, whatever `array_[-1]` decodes to. -/
theorem BPlusTreeLeafPage.Insert_empty (p : BPlusTreePage) (key : KeyType) (value : ValueType)
    (hsize : p.size = 0) (harr : p.array = []) (hkey : key ≠ 0) :
    (BPlusTreeLeafPage.Insert p key value).2
      = { p with array := [(key, value)], size := 1 } := by
  have hslot0 : p.slot 0 = (0, 0) := by simp [BPlusTreePage.slot, harr]
  have hset : p.setSlot 0 (key, value) = { p with array := [(key, value)] } := by
    simp [BPlusTreePage.setSlot, padSlots, harr]
  have hcmp : comparator key 0 ≠ 0 := by
    unfold comparator
    rcases lt_trichotomy key 0 with h | h | h
    · simp [h]
    · exact absurd h hkey
    · simp [h, not_lt.mpr (le_of_lt h)]
  have hk : BPlusTreeLeafPage.KeyIndex p key = -1 ∨ BPlusTreeLeafPage.KeyIndex p key = 0 := by
    unfold BPlusTreeLeafPage.KeyIndex
    rw [hsize]
    by_cases h3 : comparator (p.slot (0 - 1)).1 key < 0
    · right; simp only [h3, if_true]
    · left; simp only [h3, if_false]; rfl
  unfold BPlusTreeLeafPage.Insert
  rcases hk with h1 | h2
  · simp only [h1, if_true, hset, BPlusTreePage.IncreaseSize, hsize]
    rfl
  · simp only [h2, BPlusTreeLeafPage.KeyAt, hslot0, hcmp, if_false, hsize]
    simp [BPlusTreePage.shiftUp, hset, BPlusTreePage.IncreaseSize, hsize]

/-- The call `Insert` of key 0 on an empty, never-written leaf stores nothing when
`array_[-1]` decodes to a negative key: `KeyIndex` returns 0 and the key found
in the never-written slot 0 compares equal. -/
theorem BPlusTreeLeafPage.Insert_empty_zero (p : BPlusTreePage) (value : ValueType)
    (hsize : p.size = 0) (harr : p.array = []) (hoob : p.oob < 0) :
    (BPlusTreeLeafPage.Insert p 0 value).2 = p := by
  have hslot0 : p.slot 0 = (0, 0) := by simp [BPlusTreePage.slot, harr]
  have hk : BPlusTreeLeafPage.KeyIndex p 0 = 0 := by
    unfold BPlusTreeLeafPage.KeyIndex
    rw [hsize]
    have : comparator (p.slot (0 - 1)).1 0 < 0 := by
      simp [BPlusTreePage.slot, comparator, hoob]
    simp only [this, if_true]
  unfold BPlusTreeLeafPage.Insert
  simp [hk, BPlusTreeLeafPage.KeyAt, hslot0, comparator]

/-- The tree after the first `Insert`, for a key other than 0. -/
theorem BPlusTree.StartNewTree_eq (oob : KeyType) (key : KeyType) (value : ValueType)
    (hkey : key ≠ 0) :
    BPlusTree.StartNewTree (BPlusTree.construct 3 3 oob) key value
      = { root_page_id := 1, leaf_max_size := 3, internal_max_size := 3,
          pages := [(1, { page_type := IndexPageType.LEAF_PAGE, size := 1, max_size := 3,
                          parent_page_id := -1, page_id := 1, next_page_id := -1,
                          array := [(key, value)], oob := oob })],
          next_page_id := 2, oob := oob } := by
  unfold BPlusTree.StartNewTree
  simp only [BPlusTree.NewPage, BPlusTree.construct, BPlusTree.setTreePage, storePage,
    BPlusTree.page, List.lookup, zeroPage, BPlusTreeLeafPage.Init, INVALID_PAGE_ID]
  rw [BPlusTreeLeafPage.Insert_empty _ key value rfl rfl hkey]
  simp [storePage]

/-- The tree after a first `Insert` of key 0, when `array_[-1]` of the new root
leaf decodes to a negative key: the root leaf is empty. -/
theorem BPlusTree.StartNewTree_zero (oob : KeyType) (value : ValueType) (hoob : oob < 0) :
    BPlusTree.StartNewTree (BPlusTree.construct 3 3 oob) 0 value
      = { root_page_id := 1, leaf_max_size := 3, internal_max_size := 3,
          pages := [(1, { page_type := IndexPageType.LEAF_PAGE, size := 0, max_size := 3,
                          parent_page_id := -1, page_id := 1, next_page_id := -1,
                          array := [], oob := oob })],
          next_page_id := 2, oob := oob } := by
  unfold BPlusTree.StartNewTree
  simp only [BPlusTree.NewPage, BPlusTree.construct, BPlusTree.setTreePage, storePage,
    BPlusTree.page, List.lookup, zeroPage, BPlusTreeLeafPage.Init, INVALID_PAGE_ID]
  rw [BPlusTreeLeafPage.Insert_empty_zero _ value rfl rfl hoob]
  simp [storePage]

/-- C1 (B+ tree round trip), the code evaluated with `leaf_max_size = 3` and
`internal_max_size = 3` on an empty tree. (a) `Insert(-1, 10)` then
`Insert(0, 20)`, whatever `array_[-1]` decodes to: the first call returns true,
the second returns false, `GetValue(-1)` reports 10 and `GetValue(0)` returns
false with no value. (b) `Insert(0, 20)` alone, when `array_[-1]` of the new
root leaf decodes to a negative key: the call returns true and `GetValue(0)`
returns false with no value. -/
theorem BPlusTree.zero_key_lost (oob : KeyType) :
    ((BPlusTree.InsertAll 1 (BPlusTree.construct 3 3 oob) [(-1, 10), (0, 20)]).map Prod.fst
        = some [true, false]
      ∧ (BPlusTree.InsertAll 1 (BPlusTree.construct 3 3 oob) [(-1, 10), (0, 20)]).bind
          (fun r => BPlusTree.GetValue 1 r.2 (-1)) = some (true, [10])
      ∧ (BPlusTree.InsertAll 1 (BPlusTree.construct 3 3 oob) [(-1, 10), (0, 20)]).bind
          (fun r => BPlusTree.GetValue 1 r.2 0) = some (false, []))
    ∧ (oob < 0 →
      (BPlusTree.InsertAll 1 (BPlusTree.construct 3 3 oob) [(0, 20)]).map Prod.fst = some [true]
      ∧ (BPlusTree.InsertAll 1 (BPlusTree.construct 3 3 oob) [(0, 20)]).bind
          (fun r => BPlusTree.GetValue 1 r.2 0) = some (false, [])) := by
  constructor
  · have h1 : BPlusTree.Insert 1 (BPlusTree.construct 3 3 oob) (-1) 10
        = some (true, BPlusTree.StartNewTree (BPlusTree.construct 3 3 oob) (-1) 10) := rfl
    rw [BPlusTree.StartNewTree_eq oob (-1) 10 (by decide)] at h1
    simp only [BPlusTree.InsertAll, h1]
    refine ⟨rfl, rfl, rfl⟩
  · intro hoob
    have h1 : BPlusTree.Insert 1 (BPlusTree.construct 3 3 oob) 0 20
        = some (true, BPlusTree.StartNewTree (BPlusTree.construct 3 3 oob) 0 20) := rfl
    rw [BPlusTree.StartNewTree_zero oob 20 hoob] at h1
    simp only [BPlusTree.InsertAll, h1]
    refine ⟨rfl, ?_⟩
    simp [BPlusTree.GetValue, BPlusTree.FindLeafPage, BPlusTree.FindLeafPageLoop,
      BPlusTree.page, List.lookup, BPlusTreePage.IsLeafPage, BPlusTreeLeafPage.Lookup,
      BPlusTreeLeafPage.KeyIndex, BPlusTreePage.slot, comparator, hoob, INVALID_PAGE_ID]

/-- Boundary scenario 6 evaluated: `leaf_max_size = 3`, `internal_max_size = 3`,
keys 1 to 7 inserted in order. Every `Insert` returns true, the root is an
internal page whose two children are internal pages (two levels of splits),
and `GetValue` reports the inserted value for every key. -/
theorem BPlusTree.cascading_split_scenario :
    (BPlusTree.InsertAll 3 (BPlusTree.construct 3 3 (-5))
        [(1, 10), (2, 20), (3, 30), (4, 40), (5, 50), (6, 60), (7, 70)]).map Prod.fst
      = some [true, true, true, true, true, true, true]
    ∧ (BPlusTree.InsertAll 3 (BPlusTree.construct 3 3 (-5))
        [(1, 10), (2, 20), (3, 30), (4, 40), (5, 50), (6, 60), (7, 70)]).map
        (fun r => (r.2.root_page_id, (r.2.page 6).array))
      = some (6, [(0, 3), (5, 5)])
    ∧ (BPlusTree.InsertAll 3 (BPlusTree.construct 3 3 (-5))
        [(1, 10), (2, 20), (3, 30), (4, 40), (5, 50), (6, 60), (7, 70)]).map
        (fun r => ((r.2.page 3).page_type, (r.2.page 5).page_type))
      = some (IndexPageType.INTERNAL_PAGE, IndexPageType.INTERNAL_PAGE)
    ∧ (BPlusTree.InsertAll 3 (BPlusTree.construct 3 3 (-5))
        [(1, 10), (2, 20), (3, 30), (4, 40), (5, 50), (6, 60), (7, 70)]).map
        (fun r => [1, 2, 3, 4, 5, 6, 7].map (fun k => BPlusTree.GetValue 3 r.2 k))
      = some [some (true, [10]), some (true, [20]), some (true, [30]), some (true, [40]),
         some (true, [50]), some (true, [60]), some (true, [70])] := by
  refine ⟨by decide, by decide, by decide, by decide⟩

/-! ## Extendible hash table -/

/-- C2 (extendible hash round trip), the code evaluated on a fresh table with
bucket capacity 4 and the 15 pairs of `splitScenarioPairs`: every `Insert`
returns true; afterwards `GetValue` of key 1 returns false with no value,
although bucket page 5 still holds the pair (1, 101) in a readable slot:
directory slot 1 points to the empty bucket page 6. The same happens with
bucket capacity 1 and the keys 0, 1, 2, 4, 5, 13. -/
theorem ExtendibleHashTable.split_loses_key :
    (ExtendibleHashTable.InsertAll idHash 4 3 ExtendibleHashTable.construct
        splitScenarioPairs).map Prod.fst
      = some [true, true, true, true, true, true, true, true, true, true, true, true, true,
          true, true]
    ∧ (ExtendibleHashTable.InsertAll idHash 4 3 ExtendibleHashTable.construct
        splitScenarioPairs).map (fun r => ExtendibleHashTable.GetValue idHash 4 r.2 1)
      = some (false, [])
    ∧ (ExtendibleHashTable.InsertAll idHash 4 3 ExtendibleHashTable.construct
        splitScenarioPairs).map
        (fun r => (ExtendibleHashTable.KeyToPageId idHash 1 r.2.directory,
          (r.2.bucket 6).array, (r.2.bucket 5).array.head?, (r.2.bucket 5).IsReadable 0))
      = some (6, [], some (1, 101), true)
    ∧ (ExtendibleHashTable.InsertAll idHash 1 3 ExtendibleHashTable.construct
        [(0, 100), (1, 101), (2, 102), (4, 104), (5, 105), (13, 113)]).map
        (fun r => (r.1, ExtendibleHashTable.GetValue idHash 1 r.2 1))
      = some ([true, true, true, true, true, true], (false, [])) := by
  refine ⟨by decide, by decide, by decide, by decide⟩

/-- Boundary scenario 3 evaluated: bucket capacity 4, five keys whose hashes
share the low bit. Every `Insert` returns true, the directory grows to global
depth 2, and `GetValue` reports the inserted value for every key. -/
theorem ExtendibleHashTable.split_chain_scenario :
    (ExtendibleHashTable.InsertAll idHash 4 3 ExtendibleHashTable.construct
        [(0, 100), (2, 102), (4, 104), (6, 106), (8, 108)]).map
        (fun r => (r.1, r.2.directory.global_depth,
          [0, 2, 4, 6, 8].map (fun k => ExtendibleHashTable.GetValue idHash 4 r.2 k)))
      = some ([true, true, true, true, true], 2,
          [(true, [100]), (true, [102]), (true, [104]), (true, [106]), (true, [108])]) := by
  decide

/-! ## Buffer pool manager instance: the single-operation theorems at concrete states -/

namespace BufferPoolManagerInstance

theorem dirtyPageUnpinned_consistent : TableConsistent dirtyPageUnpinned := by
  intro q f h
  have hq : q = 0 := by
    by_contra hne
    simp [dirtyPageUnpinned, dirtyPageScenario, UnpinPgImp, hne] at h
  subst hq
  have hf : f = 0 := by
    have h0 : dirtyPageUnpinned.page_table 0 = some 0 := by decide
    exact (Option.some.inj (h0.symm.trans h)).symm
  subst hf
  decide

/-- C5 witness: fetching page 1 into `dirtyPageUnpinned` takes frame 0, which
holds the dirty page 0; afterwards the disk holds the bytes of the frame under
page id 0. -/
theorem dirty_victim_written_back_witness :
    dirtyPageUnpinned.page_table 1 = none
    ∧ (FetchPgImp dirtyPageUnpinned 1).1 = some 0
    ∧ (dirtyPageUnpinned.pages 0).is_dirty = true
    ∧ (dirtyPageUnpinned.pages 0).page_id = 0
    ∧ (FetchPgImp dirtyPageUnpinned 1).2.disk (dirtyPageUnpinned.pages 0).page_id
        = (dirtyPageUnpinned.pages 0).data :=
  ⟨by decide, by decide, by decide, by decide,
    (dirty_victim_written_back dirtyPageUnpinned 1).1 0 (by decide) (by decide) (by decide)⟩

/-- C6 witness: unpinning the resident dirty page 0 of `dirtyPageScenario` with
`is_dirty = false` returns true, takes the pin count from 1 to 0, keeps the
dirty flag set and hands frame 0 to the replacer. -/
theorem UnpinPgImp_spec_witness :
    dirtyPageScenario.page_table 0 = some 0
    ∧ (UnpinPgImp dirtyPageScenario 0 false).1 = true
    ∧ ((UnpinPgImp dirtyPageScenario 0 false).2.pages 0).pin_count
        = (dirtyPageScenario.pages 0).pin_count - 1
    ∧ ((UnpinPgImp dirtyPageScenario 0 false).2.pages 0).is_dirty
        = ((dirtyPageScenario.pages 0).is_dirty || false)
    ∧ (UnpinPgImp dirtyPageScenario 0 false).2.replacer
        = dirtyPageScenario.replacer.Unpin 0 :=
  ⟨by decide,
    (UnpinPgImp_spec dirtyPageScenario 0 false).1.mpr ⟨0, by decide⟩,
    ((UnpinPgImp_spec dirtyPageScenario 0 false).2.1 0 (by decide)).1,
    ((UnpinPgImp_spec dirtyPageScenario 0 false).2.1 0 (by decide)).2.1,
    ((UnpinPgImp_spec dirtyPageScenario 0 false).2.1 0 (by decide)).2.2.2.2.1 (by decide)⟩

/-- The theorem `DeletePgImp_spec` at a state with a consistent page table: deleting the
unpinned dirty page 0 of `dirtyPageUnpinned` returns true, writes the bytes of frame 0 under page id 0, removes page 0 from
the page table, resets frame 0 and appends it to the free list. -/
theorem DeletePgImp_spec_witness :
    dirtyPageUnpinned.page_table 0 = some 0
    ∧ (dirtyPageUnpinned.pages 0).pin_count = 0
    ∧ (DeletePgImp dirtyPageUnpinned 0).1 = true
    ∧ (DeletePgImp dirtyPageUnpinned 0).2.disk
        = (if (dirtyPageUnpinned.pages 0).is_dirty then
            WritePage dirtyPageUnpinned.disk 0 (dirtyPageUnpinned.pages 0).data
           else dirtyPageUnpinned.disk)
    ∧ (DeletePgImp dirtyPageUnpinned 0).2.page_table 0 = none
    ∧ (DeletePgImp dirtyPageUnpinned 0).2.pages 0
        = { data := zeroData, page_id := INVALID_PAGE_ID, pin_count := 0, is_dirty := false }
    ∧ (DeletePgImp dirtyPageUnpinned 0).2.free_list = dirtyPageUnpinned.free_list ++ [0] :=
  ⟨by decide, by decide,
    ((DeletePgImp_spec dirtyPageUnpinned 0).2.2.1 0 (by decide) (by decide)).1,
    ((DeletePgImp_spec dirtyPageUnpinned 0).2.2.2 dirtyPageUnpinned_consistent 0
      (by decide) (by decide)).1,
    ((DeletePgImp_spec dirtyPageUnpinned 0).2.2.2 dirtyPageUnpinned_consistent 0
      (by decide) (by decide)).2.1,
    ((DeletePgImp_spec dirtyPageUnpinned 0).2.2.1 0 (by decide) (by decide)).2.2.2.2.1,
    ((DeletePgImp_spec dirtyPageUnpinned 0).2.2.1 0 (by decide) (by decide)).2.2.2.2.2.2⟩

end BufferPoolManagerInstance

/-! ## LRU replacer: `Unpin` -/

theorem LRUReplacer.victims_fst (n : Nat) :
    ∀ r : LRUReplacer, (LRUReplacer.victims n r).1 = r.dll.reverse.take n := by
  induction n with
  | zero => intro r; simp [LRUReplacer.victims]
  | succ n ih =>
    intro r
    rcases List.eq_nil_or_concat r.dll with h | ⟨l, a, h⟩
    · simp [LRUReplacer.victims, LRUReplacer.Victim, h]
    · have e : r.dll = l ++ [a] := by simpa using h
      simp [LRUReplacer.victims, LRUReplacer.Victim, e, ih]

/-- C11 (replacer `Unpin`): on a frame that is already tracked `Unpin` changes
nothing (so the eviction order and `Size` stay as they are), and `Unpin` is
idempotent; on a frame that is not tracked it raises `Size` by one, leaves the
first `Victim` results as they were, and the frame comes out of `Victim`
directly after all the frames that were in the replacer before the call. -/
theorem LRUReplacer.Unpin_tracked (r : LRUReplacer) (f : frame_id_t) :
    (f ∈ r.hashmap → r.Unpin f = r)
    ∧ (r.Unpin f).Unpin f = r.Unpin f
    ∧ (f ∉ r.hashmap →
        (r.Unpin f).Size = r.Size + 1
        ∧ (∀ n, n ≤ r.dll.length → ((r.Unpin f).victims n).1 = (r.victims n).1)
        ∧ ((r.Unpin f).victims (r.dll.length + 1)).1 = (r.victims r.dll.length).1 ++ [f]
        ∧ (r.victims r.dll.length).1 = r.dll.reverse
        ∧ (r.WF → ∀ g, g ∈ r.hashmap ↔ g ∈ (r.victims r.dll.length).1)) := by
  refine ⟨?_, ?_, ?_⟩
  · intro h; simp [LRUReplacer.Unpin, h]
  · by_cases h : f ∈ r.hashmap
    · simp [LRUReplacer.Unpin, h]
    · simp [LRUReplacer.Unpin, h]
  · intro h
    have e : r.Unpin f = { dll := f :: r.dll, hashmap := f :: r.hashmap } := by
      simp [LRUReplacer.Unpin, h]
    have hrev : (r.victims r.dll.length).1 = r.dll.reverse := by
      rw [LRUReplacer.victims_fst]
      exact List.take_of_length_le (by simp)
    refine ⟨?_, ?_, ?_, hrev, ?_⟩
    · rw [e]; simp [LRUReplacer.Size]
    · intro n hn
      rw [LRUReplacer.victims_fst, LRUReplacer.victims_fst, e]
      simp only [List.reverse_cons]
      exact List.take_append_of_le_length (by simpa using hn)
    · rw [LRUReplacer.victims_fst, LRUReplacer.victims_fst, e]
      simp only [List.reverse_cons]
      rw [List.take_of_length_le (by simp), List.take_of_length_le (by simp)]
    · intro hwf g
      rw [hrev, List.mem_reverse]
      exact (hwf.1 g).symm

/-! ## Page-id allocator -/

namespace BufferPoolManagerInstance

theorem toInt32_of_range (z : Int) (h0 : -2147483648 ≤ z) (h1 : z < 2147483648) :
    toInt32 z = z := by
  unfold toInt32
  omega

theorem installNew_alloc (s : BufferPoolManagerInstance) (index : frame_id_t) :
    (installNew s index).1 = some (index, s.next_page_id)
    ∧ (installNew s index).2.next_page_id = toInt32 (s.next_page_id + (s.num_instances : Int))
    ∧ (installNew s index).2.num_instances = s.num_instances
    ∧ (installNew s index).2.instance_index = s.instance_index := by
  unfold installNew AllocatePage
  by_cases hd : (s.pages index).is_dirty = true <;> simp [hd]

/-- What `NewPgImp` does to the allocator: a failing call changes nothing at
all; a successful call returns the counter and advances it by `num_instances`. -/
theorem NewPgImp_alloc (s : BufferPoolManagerInstance) :
    ((NewPgImp s).1 = none ∧ (NewPgImp s).2 = s)
    ∨ (∃ f, (NewPgImp s).1 = some (f, s.next_page_id)
        ∧ (NewPgImp s).2.next_page_id = toInt32 (s.next_page_id + (s.num_instances : Int))
        ∧ (NewPgImp s).2.num_instances = s.num_instances
        ∧ (NewPgImp s).2.instance_index = s.instance_index) := by
  rcases NewPgImp_cases s with ⟨_, _, he⟩ | ⟨f, rest, _, he⟩ | ⟨f, r, _, _, he⟩
  · left
    rw [he]
    exact ⟨rfl, rfl⟩
  · right
    refine ⟨f, ?_⟩
    rw [he]
    exact installNew_alloc _ f
  · right
    refine ⟨f, ?_⟩
    rw [he]
    exact installNew_alloc _ f

theorem FlushPgImp_alloc (s : BufferPoolManagerInstance) (pid : page_id_t) :
    (FlushPgImp s pid).2.next_page_id = s.next_page_id
    ∧ (FlushPgImp s pid).2.num_instances = s.num_instances
    ∧ (FlushPgImp s pid).2.instance_index = s.instance_index := by
  unfold FlushPgImp
  cases s.page_table pid with
  | none => exact ⟨rfl, rfl, rfl⟩
  | some f => by_cases hd : (s.pages f).is_dirty = true <;> simp [hd]

theorem FlushAllPgsImp_alloc (s : BufferPoolManagerInstance) :
    (FlushAllPgsImp s).next_page_id = s.next_page_id
    ∧ (FlushAllPgsImp s).num_instances = s.num_instances
    ∧ (FlushAllPgsImp s).instance_index = s.instance_index := by
  unfold FlushAllPgsImp
  generalize List.range s.pool_size = l
  induction l generalizing s with
  | nil => exact ⟨rfl, rfl, rfl⟩
  | cons i l ih =>
    rw [List.foldl_cons]
    have h1 := ih (FlushAllStep s i)
    have h2 := FlushPgImp_alloc { s with page_table := (mapIndex s.page_table (i : Int)).2 }
      ((mapIndex s.page_table (i : Int)).1 : Int)
    unfold FlushAllStep at h1 ⊢
    exact ⟨h1.1.trans h2.1, h1.2.1.trans h2.2.1, h1.2.2.trans h2.2.2⟩

theorem FetchPgImp_alloc (s : BufferPoolManagerInstance) (pid : page_id_t) :
    (FetchPgImp s pid).2.next_page_id = s.next_page_id
    ∧ (FetchPgImp s pid).2.num_instances = s.num_instances
    ∧ (FetchPgImp s pid).2.instance_index = s.instance_index := by
  unfold FetchPgImp
  cases s.page_table pid with
  | some f => exact ⟨rfl, rfl, rfl⟩
  | none =>
    cases s.free_list with
    | cons f rest =>
      simp only [installFetch]
      by_cases hd : (s.pages f).is_dirty = true <;> simp [hd]
    | nil =>
      rcases hv : s.replacer.Victim with ⟨o, r⟩
      cases o with
      | none => exact ⟨rfl, rfl, rfl⟩
      | some f =>
        simp only [installFetch]
        by_cases hd : (s.pages f).is_dirty = true <;> simp [hd]

theorem UnpinPgImp_alloc (s : BufferPoolManagerInstance) (pid : page_id_t) (is_dirty : Bool) :
    (UnpinPgImp s pid is_dirty).2.next_page_id = s.next_page_id
    ∧ (UnpinPgImp s pid is_dirty).2.num_instances = s.num_instances
    ∧ (UnpinPgImp s pid is_dirty).2.instance_index = s.instance_index := by
  unfold UnpinPgImp
  cases s.page_table pid with
  | some f => exact ⟨rfl, rfl, rfl⟩
  | none => exact ⟨rfl, rfl, rfl⟩

theorem DeletePgImp_alloc (s : BufferPoolManagerInstance) (pid : page_id_t) :
    (DeletePgImp s pid).2.next_page_id = s.next_page_id
    ∧ (DeletePgImp s pid).2.num_instances = s.num_instances
    ∧ (DeletePgImp s pid).2.instance_index = s.instance_index := by
  unfold DeletePgImp
  cases s.page_table pid with
  | none => exact ⟨rfl, rfl, rfl⟩
  | some f =>
    by_cases hp : (s.pages f).pin_count = 0
    · by_cases hd : (s.pages f).is_dirty = true <;> simp [hp, hd]
    · simp [hp]

/-- The allocator along a run: the shard parameters are those of the
constructor, and as long as `instance_index + k * num_instances` fits the
32-bit page id the counter holds exactly that value after `k` successful
`NewPgImp` calls. -/
theorem AllocatedAfter.counter {k : Nat} {s : BufferPoolManagerInstance}
    (h : AllocatedAfter k s) :
    0 < s.num_instances ∧ s.instance_index < s.num_instances
    ∧ ((s.instance_index : Int) + (k : Int) * (s.num_instances : Int) < 2147483648 →
        s.next_page_id = (s.instance_index : Int) + (k : Int) * (s.num_instances : Int)) := by
  induction h with
  | construct pool_size num_instances instance_index disk hpos hlt =>
    exact ⟨hpos, hlt, fun _ => by simp [BufferPoolManagerInstance.construct]⟩
  | @NewPg_some k s h hsome ih =>
    rcases NewPgImp_alloc s with ⟨hn, _⟩ | ⟨f, _, h2, h3, h4⟩
    · exact absurd hn hsome
    · rw [h3, h4]
      refine ⟨ih.1, ih.2.1, fun hb => ?_⟩
      have hN : (0 : Int) < (s.num_instances : Int) := by exact_mod_cast ih.1
      have hk : ((k + 1 : Nat) : Int) = (k : Int) + 1 := by push_cast; ring
      rw [hk] at hb ⊢
      have hb2 : (s.instance_index : Int) + (k : Int) * (s.num_instances : Int) < 2147483648 := by
        nlinarith
      rw [h2, ih.2.2 hb2]
      have hnn : (0 : Int) ≤ (s.instance_index : Int) + (k : Int) * (s.num_instances : Int) := by
        positivity
      rw [toInt32_of_range _ (by linarith) (by linarith)]
      ring
  | @NewPg_none k s h hnone ih =>
    rcases NewPgImp_alloc s with ⟨_, he⟩ | ⟨f, hs, _⟩
    · rw [he]; exact ih
    · rw [hs] at hnone; exact absurd hnone (by simp)
  | FetchPg h pid ih =>
    obtain ⟨e1, e2, e3⟩ := FetchPgImp_alloc _ pid
    rw [e1, e2, e3]; exact ih
  | UnpinPg h pid is_dirty ih =>
    obtain ⟨e1, e2, e3⟩ := UnpinPgImp_alloc _ pid is_dirty
    rw [e1, e2, e3]; exact ih
  | FlushPg h pid ih =>
    obtain ⟨e1, e2, e3⟩ := FlushPgImp_alloc _ pid
    rw [e1, e2, e3]; exact ih
  | FlushAllPgs h ih =>
    obtain ⟨e1, e2, e3⟩ := FlushAllPgsImp_alloc _
    rw [e1, e2, e3]; exact ih
  | DeletePg h pid ih =>
    obtain ⟨e1, e2, e3⟩ := DeletePgImp_alloc _ pid
    rw [e1, e2, e3]; exact ih
  | WriteData h f d ih => exact ih

end BufferPoolManagerInstance
namespace BufferPoolManagerInstance

/-- One round of `allocLoop` on an instance whose only frame is free and whose
page table is empty: the page is created, unpinned and deleted, which leaves
the frame free and the page table empty again. -/
theorem allocLoop_round (s : BufferPoolManagerInstance) (hfl : s.free_list = [0])
    (hpt : s.page_table = fun _ => none) :
    (NewPgImp s).1 = some (0, s.next_page_id)
    ∧ (DeletePgImp (UnpinPgImp (NewPgImp s).2 s.next_page_id false).2
        s.next_page_id).2.free_list = [0]
    ∧ (DeletePgImp (UnpinPgImp (NewPgImp s).2 s.next_page_id false).2
        s.next_page_id).2.page_table = fun _ => none := by
  have e : NewPgImp s = installNew { s with free_list := [] } 0 := by
    simp [NewPgImp, hfl]
  rw [e]
  by_cases hd : (s.pages 0).is_dirty = true
  · refine ⟨by simp [installNew, AllocatePage], ?_, ?_⟩
    · simp [installNew, AllocatePage, hd, hpt, UnpinPgImp, DeletePgImp, mapInsert, mapErase,
        setPage]
    · funext q
      simp [installNew, AllocatePage, hd, hpt, UnpinPgImp, DeletePgImp, mapInsert, mapErase,
        setPage]
  · refine ⟨by simp [installNew, AllocatePage], ?_, ?_⟩
    · simp [installNew, AllocatePage, hd, hpt, UnpinPgImp, DeletePgImp, mapInsert, mapErase,
        setPage]
    · funext q
      simp [installNew, AllocatePage, hd, hpt, UnpinPgImp, DeletePgImp, mapInsert, mapErase,
        setPage]

theorem toInt32_add (a b : Int) : toInt32 (toInt32 a + b) = toInt32 (a + b) := by
  unfold toInt32
  omega

/-- The scenario `allocLoop k`: it is a run with `k` successful `NewPgImp` calls,
the frame is free again, and the counter is `k` wrapped to 32 bits. -/
theorem allocLoop_spec (k : Nat) :
    AllocatedAfter k (allocLoop k)
    ∧ (allocLoop k).free_list = [0]
    ∧ ((allocLoop k).page_table = fun _ => none)
    ∧ (allocLoop k).num_instances = 1
    ∧ (allocLoop k).next_page_id = toInt32 (k : Int) := by
  induction k with
  | zero =>
    refine ⟨AllocatedAfter.construct 1 1 0 _ (by decide) (by decide), ?_, ?_, ?_, ?_⟩ <;>
      simp [allocLoop, BufferPoolManagerInstance.construct, toInt32, List.range_succ]
  | succ k ih =>
    obtain ⟨hk, hfl, hpt, hN, hnext⟩ := ih
    obtain ⟨h1, h2, h3⟩ := allocLoop_round (allocLoop k) hfl hpt
    have hsome : (NewPgImp (allocLoop k)).1 ≠ none := by rw [h1]; simp
    have hn : (NewPgImp (allocLoop k)).2.next_page_id = toInt32 ((k : Int) + 1)
        ∧ (NewPgImp (allocLoop k)).2.num_instances = 1 := by
      rcases NewPgImp_alloc (allocLoop k) with ⟨hnone, _⟩ | ⟨f, _, e2, e3, _⟩
      · exact absurd hnone hsome
      · rw [e2, e3, hN, hnext]
        exact ⟨by simpa using toInt32_add (k : Int) 1, rfl⟩
    refine ⟨?_, h2, h3, ?_, ?_⟩
    · exact AllocatedAfter.DeletePg
        (AllocatedAfter.UnpinPg (AllocatedAfter.NewPg_some hk hsome) _ false) _
    · show (DeletePgImp (UnpinPgImp (NewPgImp (allocLoop k)).2 (allocLoop k).next_page_id
        false).2 (allocLoop k).next_page_id).2.num_instances = 1
      rw [(DeletePgImp_alloc _ _).2.1, (UnpinPgImp_alloc _ _ _).2.1]
      exact hn.2
    · show (DeletePgImp (UnpinPgImp (NewPgImp (allocLoop k)).2 (allocLoop k).next_page_id
        false).2 (allocLoop k).next_page_id).2.next_page_id = _
      rw [(DeletePgImp_alloc _ _).1, (UnpinPgImp_alloc _ _ _).1, hn.1]
      push_cast
      rfl

/-- C20 (page-id allocator), as amended: on a run from the constructor with `k`
successful `NewPgImp` calls so far, as long as `instance_index + k * num_instances`
does not exceed the largest 32-bit page id, a successful `NewPgImp` returns
exactly that page id (so the ids are distinct, increase by `num_instances > 0`
and are congruent to `instance_index`), the condition asserted by
`ValidatePageId` holds for it, and the call counts as success number `k`; a
`NewPgImp` call that returns `nullptr` leaves the whole state, the counter
included, as it was. -/
theorem NewPgImp_kth_page_id (k : Nat) (s : BufferPoolManagerInstance)
    (h : AllocatedAfter k s)
    (hk : (s.instance_index : Int) + (k : Int) * (s.num_instances : Int) < 2147483648) :
    (∀ f pid, (NewPgImp s).1 = some (f, pid) →
        pid = (s.instance_index : Int) + (k : Int) * (s.num_instances : Int)
        ∧ pid % (s.num_instances : Int) = (s.instance_index : Int)
        ∧ ValidatePageId s pid = true
        ∧ AllocatedAfter (k + 1) (NewPgImp s).2)
    ∧ ((NewPgImp s).1 = none → (NewPgImp s).2 = s)
    ∧ 0 < s.num_instances := by
  obtain ⟨hN, hidx, hc⟩ := h.counter
  have hnext := hc hk
  refine ⟨?_, ?_, hN⟩
  · intro f pid hres
    have hsome : (NewPgImp s).1 ≠ none := by rw [hres]; simp
    rcases NewPgImp_alloc s with ⟨hnone, _⟩ | ⟨g, e1, _⟩
    · exact absurd hnone hsome
    · rw [e1] at hres
      have hpid : pid = s.next_page_id := by
        have := Option.some.inj hres
        exact (Prod.mk.inj this).2.symm
      have hmod : ((s.instance_index : Int) + (k : Int) * (s.num_instances : Int))
          % (s.num_instances : Int) = (s.instance_index : Int) := by
        rw [Int.add_mul_emod_self]
        exact Int.emod_eq_of_lt (by positivity) (by exact_mod_cast hidx)
      refine ⟨by rw [hpid, hnext], by rw [hpid, hnext]; exact hmod, ?_,
        AllocatedAfter.NewPg_some h hsome⟩
      rw [hpid, hnext]
      unfold ValidatePageId
      have hnn : (0 : Int) ≤ (s.instance_index : Int) + (k : Int) * (s.num_instances : Int) := by
        positivity
      have e : (((s.instance_index : Int) + (k : Int) * (s.num_instances : Int)) % 4294967296).toNat
          = s.instance_index + k * s.num_instances := by
        rw [Int.emod_eq_of_lt hnn (by linarith)]
        have : (s.instance_index : Int) + (k : Int) * (s.num_instances : Int)
            = ((s.instance_index + k * s.num_instances : Nat) : Int) := by push_cast; ring
        rw [this, Int.toNat_natCast]
      rw [e, Nat.add_mul_mod_self_right, Nat.mod_eq_of_lt hidx]
      simp
  · intro hnone
    rcases NewPgImp_alloc s with ⟨_, he⟩ | ⟨g, e1, _⟩
    · exact he
    · rw [e1] at hnone; exact absurd hnone (by simp)

/-- C20 witness: a fresh instance with index 1 of 3 shards and two frames, no
page created yet (`k = 0`); its first `NewPgImp` returns page id 1. -/
theorem NewPgImp_kth_page_id_witness :
    AllocatedAfter 0 (construct 2 3 1 (fun _ => zeroData))
    ∧ (((construct 2 3 1 (fun _ => zeroData)).instance_index : Int)
        + ((0 : Nat) : Int) * ((construct 2 3 1 (fun _ => zeroData)).num_instances : Int)
          < 2147483648)
    ∧ (NewPgImp (construct 2 3 1 (fun _ => zeroData))).1 = some (0, 1)
    ∧ ((∀ f pid, (NewPgImp (construct 2 3 1 (fun _ => zeroData))).1 = some (f, pid) →
          pid = ((construct 2 3 1 (fun _ => zeroData)).instance_index : Int)
            + ((0 : Nat) : Int) * ((construct 2 3 1 (fun _ => zeroData)).num_instances : Int)
          ∧ pid % ((construct 2 3 1 (fun _ => zeroData)).num_instances : Int)
            = ((construct 2 3 1 (fun _ => zeroData)).instance_index : Int)
          ∧ ValidatePageId (construct 2 3 1 (fun _ => zeroData)) pid = true
          ∧ AllocatedAfter (0 + 1) (NewPgImp (construct 2 3 1 (fun _ => zeroData))).2)
      ∧ ((NewPgImp (construct 2 3 1 (fun _ => zeroData))).1 = none →
          (NewPgImp (construct 2 3 1 (fun _ => zeroData))).2
            = construct 2 3 1 (fun _ => zeroData))
      ∧ 0 < (construct 2 3 1 (fun _ => zeroData)).num_instances) :=
  ⟨AllocatedAfter.construct 2 3 1 _ (by decide) (by decide),
    by simp [BufferPoolManagerInstance.construct],
    by decide,
    NewPgImp_kth_page_id 0 (construct 2 3 1 (fun _ => zeroData))
      (AllocatedAfter.construct 2 3 1 _ (by decide) (by decide))
      (by simp [BufferPoolManagerInstance.construct])⟩

/-- C20 counterexample: on a single instance (index 0 of 1, one frame) that has
created, unpinned and deleted a page 2147483648 times, the `NewPgImp` call with
`k = 2147483648` successes before it returns the page id `-2147483648`, not
`0 + k * 1`; the call before it returned `2147483647`, so the ids do not keep
increasing. -/
theorem allocator_wraps :
    AllocatedAfter 2147483648 (allocLoop 2147483648)
    ∧ (NewPgImp (allocLoop 2147483648)).1 = some (0, -2147483648)
    ∧ AllocatedAfter 2147483647 (allocLoop 2147483647)
    ∧ (NewPgImp (allocLoop 2147483647)).1 = some (0, 2147483647) := by
  obtain ⟨a1, a2, a3, _, a5⟩ := allocLoop_spec 2147483648
  obtain ⟨b1, b2, b3, _, b5⟩ := allocLoop_spec 2147483647
  have e1 : toInt32 ((2147483648 : Nat) : Int) = -2147483648 := by
    unfold toInt32; norm_num
  have e2 : toInt32 ((2147483647 : Nat) : Int) = 2147483647 := by
    unfold toInt32; norm_num
  refine ⟨a1, ?_, b1, ?_⟩
  · rw [(allocLoop_round _ a2 a3).1, a5, e1]
  · rw [(allocLoop_round _ b2 b3).1, b5, e2]

end BufferPoolManagerInstance

/-! ## Parallel buffer pool manager -/

namespace ParallelBufferPoolManager

theorem setBpm_bpm (P : ParallelBufferPoolManager) (i : Nat) : P.setBpm i (P.bpm i) = P := by
  cases P with
  | mk insts last n disk =>
    simp only [setBpm, bpm]
    congr 1
    funext j
    by_cases h : j = i
    · subst h; simp
    · simp [h]

/-- An instance call of `NewPage` that returns `nullptr` leaves the pool as it was. -/
theorem NewPageAt_none (P : ParallelBufferPoolManager) (i : Nat)
    (h : (BufferPoolManagerInstance.NewPgImp (P.bpm i)).1 = none) :
    NewPageAt P i = (none, P) := by
  unfold NewPageAt
  rcases BufferPoolManagerInstance.NewPgImp_alloc (P.bpm i) with ⟨_, he⟩ | ⟨f, hs, _⟩
  · rw [h, he, setBpm_bpm]
  · rw [hs] at h; exact absurd h (by simp)


theorem cyc_ne (c N k : Nat) (hc : c < N) (hk0 : 0 < k) (hk : k < N) : (c + k) % N ≠ c := by
  by_cases h : c + k < N
  · rw [Nat.mod_eq_of_lt h]; omega
  · rw [Nat.mod_eq_sub_mod (by omega), Nat.mod_eq_of_lt (by omega)]; omega

theorem cyc_inj (c N i j : Nat) (hi : i < N) (hj : j < N)
    (h : (c + i) % N = (c + j) % N) : i = j := by
  have h1 : i % N = j % N := Nat.ModEq.add_left_cancel' c h
  rwa [Nat.mod_eq_of_lt hi, Nat.mod_eq_of_lt hj] at h1

theorem cyc_surj (c N i : Nat) (hc : c < N) (hi : i < N) :
    (i + N - c) % N < N ∧ (c + (i + N - c) % N) % N = i := by
  have hN : 0 < N := by omega
  refine ⟨Nat.mod_lt _ hN, ?_⟩
  rw [Nat.add_mod_mod]
  have : c + (i + N - c) = i + N := by omega
  rw [this, Nat.add_mod_right, Nat.mod_eq_of_lt hi]

theorem cyc_nodup (c N k : Nat) (hk : k ≤ N) :
    ((List.range k).map (fun i => (c + i) % N)).Nodup := by
  refine (List.nodup_map_iff_inj_on (List.nodup_range k)).mpr ?_
  intro i hi j hj h
  exact cyc_inj c N i j (by have := List.mem_range.mp hi; omega)
    (by have := List.mem_range.mp hj; omega) h

/-- The loop of `NewPgImp` entered at offset `m` from the cursor, the instances at
the offsets up to `m` having failed: if all remaining instances fail, the loop
ends when the index comes back to the cursor, with the pool as it was before
the call; otherwise it ends at the first remaining instance whose `NewPage`
succeeds. The fuel `d + 1` is the number of offsets left plus one. -/
theorem NewPgLoop_spec (P : ParallelBufferPoolManager) (hc : P.last_bpm_index < P.num_of_bpm) :
    ∀ (d m : Nat) (tried : List Nat), m + d + 1 = P.num_of_bpm →
      ((∀ i, m < i → i < P.num_of_bpm →
          (BufferPoolManagerInstance.NewPgImp
            (P.bpm ((P.last_bpm_index + i) % P.num_of_bpm))).1 = none) →
        NewPgLoop P.last_bpm_index (d + 1)
            { P with last_bpm_index := (P.last_bpm_index + m) % P.num_of_bpm } tried
          = some (none, P,
              tried ++ (List.range' (m + 1) d).map
                (fun i => (P.last_bpm_index + i) % P.num_of_bpm)))
      ∧ (∀ j f pid, m < j → j < P.num_of_bpm →
          (∀ i, m < i → i < j →
            (BufferPoolManagerInstance.NewPgImp
              (P.bpm ((P.last_bpm_index + i) % P.num_of_bpm))).1 = none) →
          (BufferPoolManagerInstance.NewPgImp
            (P.bpm ((P.last_bpm_index + j) % P.num_of_bpm))).1 = some (f, pid) →
          NewPgLoop P.last_bpm_index (d + 1)
              { P with last_bpm_index := (P.last_bpm_index + m) % P.num_of_bpm } tried
            = some (some ((P.last_bpm_index + j) % P.num_of_bpm, f, pid),
                ({ P with last_bpm_index := (P.last_bpm_index + j) % P.num_of_bpm }).setBpm
                  ((P.last_bpm_index + j) % P.num_of_bpm)
                  (BufferPoolManagerInstance.NewPgImp
                    (P.bpm ((P.last_bpm_index + j) % P.num_of_bpm))).2,
                tried ++ (List.range' (m + 1) (j - m)).map
                  (fun i => (P.last_bpm_index + i) % P.num_of_bpm))) := by
  intro d
  induction d with
  | zero =>
    intro m tried hm
    have hnext : ((P.last_bpm_index + m) % P.num_of_bpm + 1) % P.num_of_bpm
        = P.last_bpm_index := by
      rw [Nat.mod_add_mod, Nat.add_assoc, ← hm, Nat.add_mod_right, Nat.mod_eq_of_lt]
      omega
    refine ⟨fun _ => ?_, fun j f pid hj1 hj2 => ?_⟩
    · simp only [NewPgLoop, hnext, if_true, List.range'_zero, List.map_nil, List.append_nil]
    · omega
  | succ d ih =>
    intro m tried hm
    have hnext : ((P.last_bpm_index + m) % P.num_of_bpm + 1) % P.num_of_bpm
        = (P.last_bpm_index + (m + 1)) % P.num_of_bpm := by
      rw [Nat.mod_add_mod, Nat.add_assoc]
    have hne : (P.last_bpm_index + (m + 1)) % P.num_of_bpm ≠ P.last_bpm_index :=
      cyc_ne _ _ _ hc (by omega) (by omega)
    obtain ⟨ihA, ihB⟩ := ih (m + 1) (tried ++ [(P.last_bpm_index + (m + 1)) % P.num_of_bpm])
      (by omega)
    have step_none :
        (BufferPoolManagerInstance.NewPgImp
          (P.bpm ((P.last_bpm_index + (m + 1)) % P.num_of_bpm))).1 = none →
        NewPgLoop P.last_bpm_index (d + 1 + 1)
            { P with last_bpm_index := (P.last_bpm_index + m) % P.num_of_bpm } tried
          = NewPgLoop P.last_bpm_index (d + 1)
              { P with last_bpm_index := (P.last_bpm_index + (m + 1)) % P.num_of_bpm }
              (tried ++ [(P.last_bpm_index + (m + 1)) % P.num_of_bpm]) := by
      intro hf
      have e := NewPageAt_none
        { P with last_bpm_index := (P.last_bpm_index + (m + 1)) % P.num_of_bpm }
        ((P.last_bpm_index + (m + 1)) % P.num_of_bpm) hf
      rw [NewPgLoop]
      simp only [hnext, hne, if_false, e]
    refine ⟨fun hall => ?_, fun j f pid hj1 hj2 hbefore hsucc => ?_⟩
    · rw [step_none (hall (m + 1) (by omega) (by omega)),
        ihA (fun i hi1 hi2 => hall i (by omega) hi2)]
      simp [List.range'_succ]
    · by_cases hj : j = m + 1
      · subst hj
        rw [NewPgLoop]
        simp only [hnext, hne, if_false, NewPageAt]
        have hb : ({ P with last_bpm_index := (P.last_bpm_index + (m + 1)) % P.num_of_bpm }
            : ParallelBufferPoolManager).bpm ((P.last_bpm_index + (m + 1)) % P.num_of_bpm)
            = P.bpm ((P.last_bpm_index + (m + 1)) % P.num_of_bpm) := rfl
        rw [hb, hsucc]
        simp [List.range'_succ]
      · rw [step_none (hbefore (m + 1) (by omega) (by omega)),
          ihB j f pid (by omega) hj2 (fun i hi1 hi2 => hbefore i (by omega) hi2) hsucc]
        have e : j - m = (j - (m + 1)) + 1 := by omega
        rw [e]
        simp [List.range'_succ]


theorem range_map_cyc (c N k : Nat) (hc : c < N) :
    (List.range (k + 1)).map (fun i => (c + i) % N)
      = [c] ++ (List.range' 1 k).map (fun i => (c + i) % N) := by
  rw [List.range_eq_range', List.range'_succ]
  simp [Nat.mod_eq_of_lt hc]

/-- The two outcomes of `NewPgImp` on a pool with `num_of_bpm > 0` whose cursor
is in range, with fuel `num_of_bpm`: when `NewPage` fails on every instance
reached from the cursor, the result is `nullptr`, the pool is unchanged and
every instance was tried once, in cyclic order; when the instance at offset
`j` from the cursor is the first whose `NewPage` succeeds, the result is its
page, only that instance has changed, the cursor is one past it, and the
instances tried are those at the offsets `0 .. j`. -/
theorem NewPgImp_outcomes (P : ParallelBufferPoolManager) (hN : 0 < P.num_of_bpm)
    (hc : P.last_bpm_index < P.num_of_bpm) :
    ((∀ i, i < P.num_of_bpm →
        (BufferPoolManagerInstance.NewPgImp
          (P.bpm ((P.last_bpm_index + i) % P.num_of_bpm))).1 = none) →
      NewPgImp P.num_of_bpm P
        = some (none, P,
            (List.range P.num_of_bpm).map (fun i => (P.last_bpm_index + i) % P.num_of_bpm)))
    ∧ (∀ j f pid, j < P.num_of_bpm →
        (∀ i, i < j →
          (BufferPoolManagerInstance.NewPgImp
            (P.bpm ((P.last_bpm_index + i) % P.num_of_bpm))).1 = none) →
        (BufferPoolManagerInstance.NewPgImp
          (P.bpm ((P.last_bpm_index + j) % P.num_of_bpm))).1 = some (f, pid) →
        NewPgImp P.num_of_bpm P
          = some (some ((P.last_bpm_index + j) % P.num_of_bpm, f, pid),
              { P.setBpm ((P.last_bpm_index + j) % P.num_of_bpm)
                  (BufferPoolManagerInstance.NewPgImp
                    (P.bpm ((P.last_bpm_index + j) % P.num_of_bpm))).2 with
                last_bpm_index :=
                  ((P.last_bpm_index + j) % P.num_of_bpm + 1) % P.num_of_bpm },
              (List.range (j + 1)).map (fun i => (P.last_bpm_index + i) % P.num_of_bpm))) := by
  have hc0 : (P.last_bpm_index + 0) % P.num_of_bpm = P.last_bpm_index := by
    rw [Nat.add_zero, Nat.mod_eq_of_lt hc]
  have hfuel : P.num_of_bpm - 1 + 1 = P.num_of_bpm := by omega
  have hP : ({ P with last_bpm_index := (P.last_bpm_index + 0) % P.num_of_bpm }
      : ParallelBufferPoolManager) = P := by
    rw [hc0]
  obtain ⟨hA, hB⟩ := NewPgLoop_spec P hc (P.num_of_bpm - 1) 0 [P.last_bpm_index] (by omega)
  rw [hfuel, hP] at hA hB
  refine ⟨fun hall => ?_, fun j f pid hj hbefore hsucc => ?_⟩
  · have h0 := hall 0 hN
    rw [hc0] at h0
    have e := NewPageAt_none P P.last_bpm_index h0
    have hr : (List.range P.num_of_bpm).map (fun i => (P.last_bpm_index + i) % P.num_of_bpm)
        = [P.last_bpm_index] ++ (List.range' 1 (P.num_of_bpm - 1)).map
            (fun i => (P.last_bpm_index + i) % P.num_of_bpm) := by
      have := range_map_cyc P.last_bpm_index P.num_of_bpm (P.num_of_bpm - 1) hc
      rwa [hfuel] at this
    rw [NewPgImp]
    simp only [e]
    rw [hA (fun i _ hi => hall i hi), hr]
  · by_cases hj0 : j = 0
    · subst hj0
      rw [hc0] at hsucc ⊢
      rw [NewPgImp]
      simp only [NewPageAt, hsucc]
      simp [setBpm, Nat.mod_eq_of_lt hc, List.range_succ]
    · have h0 := hbefore 0 (by omega)
      rw [hc0] at h0
      have e := NewPageAt_none P P.last_bpm_index h0
      rw [NewPgImp]
      simp only [e]
      rw [hB j f pid (by omega) hj (fun i _ hi => hbefore i hi) hsucc,
        range_map_cyc _ _ _ hc]
      simp [setBpm]


/-- C13 (parallel `NewPage`): on a pool with `num_of_bpm > 0` instances whose
cursor is in range, `NewPgImp` returns (the fuel `num_of_bpm` is enough); it
returns `nullptr` if and only if `NewPage` fails on every instance, and then
the pool is left as it was; otherwise it returns the page produced by the
first instance, in cyclic order from the cursor, whose `NewPage` succeeds, only
that instance has changed and the cursor is one past it; the instances whose
`NewPage` was called are those at the offsets `0 .. j` from the cursor, each
one once. -/
theorem NewPgImp_round_robin (P : ParallelBufferPoolManager) (hN : 0 < P.num_of_bpm)
    (hc : P.last_bpm_index < P.num_of_bpm) :
    ∃ res P' tried, NewPgImp P.num_of_bpm P = some (res, P', tried)
      ∧ (res = none ↔
          ∀ i, i < P.num_of_bpm → (BufferPoolManagerInstance.NewPgImp (P.bpm i)).1 = none)
      ∧ (res = none → P' = P)
      ∧ (∀ s f pid, res = some (s, f, pid) →
          ∃ j, j < P.num_of_bpm ∧ s = (P.last_bpm_index + j) % P.num_of_bpm
            ∧ (∀ i, i < j →
                (BufferPoolManagerInstance.NewPgImp
                  (P.bpm ((P.last_bpm_index + i) % P.num_of_bpm))).1 = none)
            ∧ (BufferPoolManagerInstance.NewPgImp (P.bpm s)).1 = some (f, pid)
            ∧ P' = { P.setBpm s (BufferPoolManagerInstance.NewPgImp (P.bpm s)).2 with
                      last_bpm_index := (s + 1) % P.num_of_bpm }
            ∧ tried = (List.range (j + 1)).map (fun i => (P.last_bpm_index + i) % P.num_of_bpm))
      ∧ tried.Nodup ∧ (∀ i, i ∈ tried → i < P.num_of_bpm) := by
  classical
  obtain ⟨hA, hB⟩ := NewPgImp_outcomes P hN hc
  have hmem : ∀ k, ∀ i, i ∈ (List.range k).map (fun i => (P.last_bpm_index + i) % P.num_of_bpm) →
      i < P.num_of_bpm := by
    intro k i hi
    obtain ⟨j, _, rfl⟩ := List.mem_map.mp hi
    exact Nat.mod_lt _ hN
  by_cases hall : ∀ j, j < P.num_of_bpm →
      (BufferPoolManagerInstance.NewPgImp
        (P.bpm ((P.last_bpm_index + j) % P.num_of_bpm))).1 = none
  · refine ⟨none, P, _, hA hall, ?_, fun _ => rfl, ?_, cyc_nodup _ _ _ (Nat.le_refl _), hmem _⟩
    · refine ⟨fun _ i hi => ?_, fun _ => rfl⟩
      obtain ⟨h1, h2⟩ := cyc_surj P.last_bpm_index P.num_of_bpm i hc hi
      have := hall _ h1
      rwa [h2] at this
    · intro s f pid h
      exact absurd h (by simp)
  · have hex : ∃ j, j < P.num_of_bpm ∧
        (BufferPoolManagerInstance.NewPgImp
          (P.bpm ((P.last_bpm_index + j) % P.num_of_bpm))).1 ≠ none := by
      by_contra hcon
      exact hall (fun j hj => by_contra fun hne => hcon ⟨j, hj, hne⟩)
    have hj := Nat.find_spec hex
    have hmin : ∀ i, i < Nat.find hex →
        (BufferPoolManagerInstance.NewPgImp
          (P.bpm ((P.last_bpm_index + i) % P.num_of_bpm))).1 = none := by
      intro i hi
      by_contra hne
      exact Nat.find_min hex hi ⟨by omega, hne⟩
    obtain ⟨⟨f, pid⟩, hsucc⟩ := Option.ne_none_iff_exists'.mp hj.2
    refine ⟨_, _, _, hB (Nat.find hex) f pid hj.1 hmin hsucc, ?_, fun h => absurd h (by simp), ?_,
      cyc_nodup _ _ _ (by omega), hmem _⟩
    · refine ⟨fun h => absurd h (by simp), fun h => ?_⟩
      have := h _ (Nat.mod_lt (P.last_bpm_index + Nat.find hex) hN)
      rw [hsucc] at this
      exact absurd this (by simp)
    · intro s f' pid' h
      have h1 := Option.some.inj h
      have hs : (P.last_bpm_index + Nat.find hex) % P.num_of_bpm = s := (Prod.mk.inj h1).1
      have hf : f = f' := (Prod.mk.inj (Prod.mk.inj h1).2).1
      have hp : pid = pid' := (Prod.mk.inj (Prod.mk.inj h1).2).2
      subst hf hp
      refine ⟨Nat.find hex, hj.1, hs.symm, hmin, ?_, ?_, rfl⟩
      · rw [← hs]; exact hsucc
      · rw [← hs]

/-- C13 witness: two instances of one frame each, cursor at 0; after the first
`NewPgImp` the page of instance 0 stays pinned, so in the second call instance
1 is the first to succeed. -/
theorem NewPgImp_round_robin_witness :
    0 < (construct 2 1 (fun _ => zeroData)).num_of_bpm
    ∧ (construct 2 1 (fun _ => zeroData)).last_bpm_index
        < (construct 2 1 (fun _ => zeroData)).num_of_bpm
    ∧ ∃ res P' tried,
        NewPgImp (construct 2 1 (fun _ => zeroData)).num_of_bpm
            (construct 2 1 (fun _ => zeroData)) = some (res, P', tried)
        ∧ (res = none ↔
            ∀ i, i < (construct 2 1 (fun _ => zeroData)).num_of_bpm →
              (BufferPoolManagerInstance.NewPgImp
                ((construct 2 1 (fun _ => zeroData)).bpm i)).1 = none)
        ∧ tried.Nodup :=
  ⟨by decide, by decide,
    (NewPgImp_round_robin (construct 2 1 (fun _ => zeroData)) (by decide) (by decide)).imp
      fun _ h => h.imp fun _ h => h.imp fun _ h => ⟨h.1, h.2.1, h.2.2.2.2.1⟩⟩


theorem setBpm_bpm_same (P : ParallelBufferPoolManager) (i : Nat)
    (s : BufferPoolManagerInstance) : (P.setBpm i s).bpm i = s := by
  cases s; simp [setBpm, bpm]

/-- Routing of a page id that is a non-negative 32-bit value congruent to `s`. -/
theorem GetBufferPoolManager_of_mod (P : ParallelBufferPoolManager) (pid : page_id_t) (s : Nat)
    (h0 : 0 ≤ pid) (h1 : pid < 2147483648) (hm : pid % (P.num_of_bpm : Int) = (s : Int)) :
    P.GetBufferPoolManager pid = s := by
  unfold GetBufferPoolManager
  rw [Int.emod_eq_of_lt h0 (by linarith)]
  obtain ⟨n, rfl⟩ := Int.eq_ofNat_of_zero_le h0
  rw [Int.toNat_natCast]
  exact_mod_cast hm

/-- What a pool operation that runs one instance operation keeping the shard
parameters and the counter does to the sharding invariant. -/
theorem ShardInv_setBpm (P : ParallelBufferPoolManager) (h : P.ShardInv) (i : Nat)
    (s : BufferPoolManagerInstance)
    (h1 : s.next_page_id = (P.bpm i).next_page_id)
    (h2 : s.num_instances = (P.bpm i).num_instances)
    (h3 : s.instance_index = (P.bpm i).instance_index) : (P.setBpm i s).ShardInv := by
  refine ⟨h.1, h.2.1, fun j hj => ?_⟩
  by_cases hji : j = i
  · subst hji
    have := h.2.2 j hj
    simp only [setBpm, if_true]
    exact ⟨h2.trans this.1, h3.trans this.2.1, h1 ▸ this.2.2.1, h1 ▸ this.2.2.2.1,
      h1 ▸ this.2.2.2.2⟩
  · simpa [setBpm, hji] using h.2.2 j hj

theorem ShardInv_construct (num_instances pool_size : Nat) (disk : page_id_t → PageData)
    (h0 : 0 < num_instances) (h1 : num_instances ≤ 2147483648) :
    (construct num_instances pool_size disk).ShardInv := by
  refine ⟨h0, h0, fun i hi => ⟨rfl, rfl, ?_, ?_, ?_⟩⟩
  · simp [construct, BufferPoolManagerInstance.construct]
  · simp only [construct, BufferPoolManagerInstance.construct]
    have : i < 2147483648 := by simp only [construct] at hi; omega
    exact_mod_cast this
  · simp only [construct, BufferPoolManagerInstance.construct]
    exact Int.emod_eq_of_lt (by positivity) (by exact_mod_cast hi)

theorem ShardInv_FetchPgImp (P : ParallelBufferPoolManager) (h : P.ShardInv) (pid : page_id_t) :
    (FetchPgImp P pid).2.ShardInv := by
  obtain ⟨e1, e2, e3⟩ := BufferPoolManagerInstance.FetchPgImp_alloc
    (P.bpm (P.GetBufferPoolManager pid)) pid
  exact ShardInv_setBpm P h _ _ e1 e2 e3

theorem ShardInv_UnpinPgImp (P : ParallelBufferPoolManager) (h : P.ShardInv) (pid : page_id_t)
    (is_dirty : Bool) : (UnpinPgImp P pid is_dirty).2.ShardInv := by
  obtain ⟨e1, e2, e3⟩ := BufferPoolManagerInstance.UnpinPgImp_alloc
    (P.bpm (P.GetBufferPoolManager pid)) pid is_dirty
  exact ShardInv_setBpm P h _ _ e1 e2 e3

theorem ShardInv_FlushPgImp (P : ParallelBufferPoolManager) (h : P.ShardInv) (pid : page_id_t) :
    (FlushPgImp P pid).2.ShardInv := by
  obtain ⟨e1, e2, e3⟩ := BufferPoolManagerInstance.FlushPgImp_alloc
    (P.bpm (P.GetBufferPoolManager pid)) pid
  exact ShardInv_setBpm P h _ _ e1 e2 e3

theorem ShardInv_DeletePgImp (P : ParallelBufferPoolManager) (h : P.ShardInv) (pid : page_id_t) :
    (DeletePgImp P pid).2.ShardInv := by
  obtain ⟨e1, e2, e3⟩ := BufferPoolManagerInstance.DeletePgImp_alloc
    (P.bpm (P.GetBufferPoolManager pid)) pid
  exact ShardInv_setBpm P h _ _ e1 e2 e3

theorem ShardInv_FlushAllPgsImp (P : ParallelBufferPoolManager) (h : P.ShardInv) :
    (FlushAllPgsImp P).ShardInv := by
  unfold FlushAllPgsImp
  generalize List.range P.num_of_bpm = l
  induction l generalizing P with
  | nil => exact h
  | cons i l ih =>
    rw [List.foldl_cons]
    apply ih
    obtain ⟨e1, e2, e3⟩ := BufferPoolManagerInstance.FlushAllPgsImp_alloc (P.bpm i)
    exact ShardInv_setBpm P h _ _ e1 e2 e3


/-- The sharding invariant after `NewPgImp`, as long as the page id after the
returned one still fits the 32-bit page id. -/
theorem ShardInv_NewPgImp (P : ParallelBufferPoolManager) (h : P.ShardInv)
    (res : Option (Nat × frame_id_t × page_id_t)) (P' : ParallelBufferPoolManager)
    (tried : List Nat) (hres : NewPgImp P.num_of_bpm P = some (res, P', tried))
    (hfit : ∀ s f pid, res = some (s, f, pid) → pid + (P.num_of_bpm : Int) < 2147483648) :
    P'.ShardInv := by
  obtain ⟨res2, P2, tried2, e, _, hnone, hsome, _, _⟩ := NewPgImp_round_robin P h.1 h.2.1
  rw [e] at hres
  have e1 := Option.some.inj hres
  have hr : res2 = res := (Prod.mk.inj e1).1
  have hP : P2 = P' := (Prod.mk.inj (Prod.mk.inj e1).2).1
  subst hr hP
  cases hres2 : res2 with
  | none => rw [hnone hres2]; exact h
  | some r =>
    obtain ⟨s, f, pid⟩ := r
    obtain ⟨j, hj, hs, _, hsucc, hP2, _⟩ := hsome s f pid hres2
    have hsN : s < P.num_of_bpm := by rw [hs]; exact Nat.mod_lt _ h.1
    have hinv := h.2.2 s hsN
    rw [hP2]
    rcases BufferPoolManagerInstance.NewPgImp_alloc (P.bpm s) with ⟨hn, _⟩ | ⟨g, a1, a2, a3, a4⟩
    · rw [hn] at hsucc; exact absurd hsucc (by simp)
    · have hpid : pid = (P.parallel_buffer_pool_manager s).next_page_id := by
        rw [a1] at hsucc
        exact ((Prod.mk.inj (Option.some.inj hsucc)).2).symm
      have hfit2 := hfit s f pid hres2
      have hb1 : (P.bpm s).next_page_id = pid := hpid.symm
      have hb2 : (P.bpm s).num_instances = P.num_of_bpm := hinv.1
      have hN : (0 : Int) < (P.num_of_bpm : Int) := by exact_mod_cast h.1
      have hnew : (BufferPoolManagerInstance.NewPgImp (P.bpm s)).2.next_page_id
          = pid + (P.num_of_bpm : Int) := by
        rw [a2, hb1, hb2]
        exact BufferPoolManagerInstance.toInt32_of_range _
          (by have := hinv.2.2.1; rw [← hpid] at this; linarith) hfit2
      refine ⟨h.1, Nat.mod_lt _ h.1, fun i hi => ?_⟩
      by_cases his : i = s
      · subst his
        simp only [setBpm, if_true]
        refine ⟨a3.trans hb2, a4.trans hinv.2.1, ?_, ?_, ?_⟩
        · rw [hnew]; have := hinv.2.2.1; rw [← hpid] at this; linarith
        · rw [hnew]; exact hfit2
        · rw [hnew, Int.add_emod_self, hpid]; exact hinv.2.2.2.2
      · simpa [setBpm, his] using h.2.2 i hi


/-- C12 (sharded routing), as amended: in a pool that satisfies the sharding
invariant (it holds after construction and is kept by every operation as long
as the page ids stay within the 32-bit range, `ShardInv_*`), a page that
`NewPgImp` returns was created by an instance `s` of the pool, its id `pid` is
non-negative with `pid mod num_of_bpm = s`, and on every pool state with the
same number of instances `GetBufferPoolManager` sends `pid` to `s`:
`FetchPgImp`, `UnpinPgImp`, `FlushPgImp` and `DeletePgImp` on `pid` run that
operation on instance `s` and on no other. -/
theorem NewPgImp_routing (P : ParallelBufferPoolManager) (h : P.ShardInv)
    (s : Nat) (f : frame_id_t) (pid : page_id_t) (P' : ParallelBufferPoolManager)
    (tried : List Nat)
    (hres : NewPgImp P.num_of_bpm P = some (some (s, f, pid), P', tried)) :
    s < P.num_of_bpm
    ∧ (BufferPoolManagerInstance.NewPgImp (P.bpm s)).1 = some (f, pid)
    ∧ 0 ≤ pid ∧ pid % (P.num_of_bpm : Int) = (s : Int)
    ∧ P'.num_of_bpm = P.num_of_bpm
    ∧ ∀ Q : ParallelBufferPoolManager, Q.num_of_bpm = P.num_of_bpm →
        Q.GetBufferPoolManager pid = s
        ∧ FetchPgImp Q pid
            = ((BufferPoolManagerInstance.FetchPgImp (Q.bpm s) pid).1.map (fun g => (s, g)),
                Q.setBpm s (BufferPoolManagerInstance.FetchPgImp (Q.bpm s) pid).2)
        ∧ (∀ is_dirty, UnpinPgImp Q pid is_dirty
            = ((BufferPoolManagerInstance.UnpinPgImp (Q.bpm s) pid is_dirty).1,
                Q.setBpm s (BufferPoolManagerInstance.UnpinPgImp (Q.bpm s) pid is_dirty).2))
        ∧ FlushPgImp Q pid
            = ((BufferPoolManagerInstance.FlushPgImp (Q.bpm s) pid).1,
                Q.setBpm s (BufferPoolManagerInstance.FlushPgImp (Q.bpm s) pid).2)
        ∧ DeletePgImp Q pid
            = ((BufferPoolManagerInstance.DeletePgImp (Q.bpm s) pid).1,
                Q.setBpm s (BufferPoolManagerInstance.DeletePgImp (Q.bpm s) pid).2) := by
  obtain ⟨res2, P2, tried2, e, _, _, hsome, _, _⟩ := NewPgImp_round_robin P h.1 h.2.1
  rw [e] at hres
  have e1 := Option.some.inj hres
  have hr : res2 = some (s, f, pid) := (Prod.mk.inj e1).1
  have hP : P2 = P' := (Prod.mk.inj (Prod.mk.inj e1).2).1
  obtain ⟨j, hj, hs, _, hsucc, hP2, _⟩ := hsome s f pid hr
  have hsN : s < P.num_of_bpm := by rw [hs]; exact Nat.mod_lt _ h.1
  have hinv := h.2.2 s hsN
  have hpid : pid = (P.parallel_buffer_pool_manager s).next_page_id := by
    rcases BufferPoolManagerInstance.NewPgImp_alloc (P.bpm s) with ⟨hn, _⟩ | ⟨g, a1, _⟩
    · rw [hn] at hsucc; exact absurd hsucc (by simp)
    · rw [a1] at hsucc
      exact ((Prod.mk.inj (Option.some.inj hsucc)).2).symm
  refine ⟨hsN, hsucc, by rw [hpid]; exact hinv.2.2.1, by rw [hpid]; exact hinv.2.2.2.2,
    by rw [← hP, hP2]; rfl, fun Q hQ => ?_⟩
  have hroute : Q.GetBufferPoolManager pid = s :=
    GetBufferPoolManager_of_mod Q pid s (by rw [hpid]; exact hinv.2.2.1)
      (by rw [hpid]; exact hinv.2.2.2.1) (by rw [hQ, hpid]; exact hinv.2.2.2.2)
  refine ⟨hroute, ?_, fun is_dirty => ?_, ?_, ?_⟩
  · simp only [FetchPgImp, hroute]
  · simp only [UnpinPgImp, hroute]
  · simp only [FlushPgImp, hroute]
  · simp only [DeletePgImp, hroute]


/-- C12 witness: in a fresh pool of three instances the first `NewPgImp` returns
page 0 from instance 0, and page id 0 is routed to instance 0. -/
theorem NewPgImp_routing_witness :
    shardScenario.ShardInv
    ∧ NewPgImp shardScenario.num_of_bpm shardScenario
        = some (some (0, 0, 0), shardScenarioAfter, [0])
    ∧ (0 < shardScenario.num_of_bpm
      ∧ (BufferPoolManagerInstance.NewPgImp (shardScenario.bpm 0)).1 = some (0, 0)
      ∧ shardScenarioAfter.GetBufferPoolManager 0 = 0) :=
  have hinv : shardScenario.ShardInv := ShardInv_construct 3 2 _ (by decide) (by decide)
  have hres : NewPgImp shardScenario.num_of_bpm shardScenario
      = some (some (0, 0, 0), shardScenarioAfter, [0]) :=
    (NewPgImp_outcomes shardScenario (by decide) (by decide)).2 0 0 0 (by decide)
      (fun i hi => absurd hi (Nat.not_lt_zero i)) (by decide)
  have hthm := NewPgImp_routing shardScenario hinv 0 0 0 shardScenarioAfter [0] hres
  ⟨hinv, hres, hthm.1, hthm.2.1, (hthm.2.2.2.2.2 shardScenarioAfter rfl).1⟩

theorem UnpinPgImp_of_route (Q : ParallelBufferPoolManager) (pid : page_id_t) (is_dirty : Bool)
    (s : Nat) (h : Q.GetBufferPoolManager pid = s) :
    (UnpinPgImp Q pid is_dirty).2
      = Q.setBpm s (BufferPoolManagerInstance.UnpinPgImp (Q.bpm s) pid is_dirty).2 := by
  simp only [UnpinPgImp, h]

theorem DeletePgImp_of_route (Q : ParallelBufferPoolManager) (pid : page_id_t)
    (s : Nat) (h : Q.GetBufferPoolManager pid = s) :
    (DeletePgImp Q pid).2
      = Q.setBpm s (BufferPoolManagerInstance.DeletePgImp (Q.bpm s) pid).2 := by
  simp only [DeletePgImp, h]

/-- One round of `parLoop` on a pool of seven instances whose instance at the
cursor `c` has its frame free, an empty page table and the counter `pid`, a
non-negative 32-bit value congruent to `c`: `NewPgImp` returns page `pid` from
instance `c`; after the round the cursor is one further, instance `c` is as
before except for its counter, and the other instances are unchanged. -/
theorem parLoopRound_spec (P : ParallelBufferPoolManager) (pid : page_id_t)
    (hN : P.num_of_bpm = 7) (hc : P.last_bpm_index < 7)
    (hfl : (P.parallel_buffer_pool_manager P.last_bpm_index).free_list = [0])
    (hpt : (P.parallel_buffer_pool_manager P.last_bpm_index).page_table = fun _ => none)
    (hnum : (P.parallel_buffer_pool_manager P.last_bpm_index).num_instances = 7)
    (hnext : (P.parallel_buffer_pool_manager P.last_bpm_index).next_page_id = pid)
    (h0 : 0 ≤ pid) (h1 : pid < 2147483648) (hmod : pid % 7 = (P.last_bpm_index : Int)) :
    (∃ P' tried, NewPgImp 7 P = some (some (P.last_bpm_index, 0, pid), P', tried)
        ∧ P'.num_of_bpm = 7)
    ∧ (parLoopRound P).num_of_bpm = 7
    ∧ (parLoopRound P).last_bpm_index = (P.last_bpm_index + 1) % 7
    ∧ (∀ i, i ≠ P.last_bpm_index →
        (parLoopRound P).parallel_buffer_pool_manager i = P.parallel_buffer_pool_manager i)
    ∧ ((parLoopRound P).parallel_buffer_pool_manager P.last_bpm_index).free_list = [0]
    ∧ (((parLoopRound P).parallel_buffer_pool_manager P.last_bpm_index).page_table
        = fun _ => none)
    ∧ ((parLoopRound P).parallel_buffer_pool_manager P.last_bpm_index).num_instances = 7
    ∧ ((parLoopRound P).parallel_buffer_pool_manager P.last_bpm_index).next_page_id
        = toInt32 (pid + 7) := by
  have hcN : P.last_bpm_index < P.num_of_bpm := by rw [hN]; exact hc
  have hc0 : (P.last_bpm_index + 0) % P.num_of_bpm = P.last_bpm_index := by
    rw [Nat.add_zero, Nat.mod_eq_of_lt hcN]
  obtain ⟨r1, r2, r3⟩ := BufferPoolManagerInstance.allocLoop_round (P.bpm P.last_bpm_index)
    hfl hpt
  have hbn : (P.bpm P.last_bpm_index).next_page_id = pid := hnext
  rw [hbn] at r1 r2 r3
  have hout := (NewPgImp_outcomes P (by omega) hcN).2 0 0 pid (by omega)
    (fun i hi => absurd hi (Nat.not_lt_zero i)) (by rw [hc0]; exact r1)
  rw [hc0] at hout
  have hrouteQ : ∀ Q : ParallelBufferPoolManager, Q.num_of_bpm = 7 →
      Q.GetBufferPoolManager pid = P.last_bpm_index := fun Q hQ =>
    GetBufferPoolManager_of_mod Q pid _ h0 h1 (by rw [hQ]; exact_mod_cast hmod)
  have ea := BufferPoolManagerInstance.NewPgImp_alloc (P.bpm P.last_bpm_index)
  have hround : parLoopRound P
      = (DeletePgImp (UnpinPgImp
          { P.setBpm P.last_bpm_index
              (BufferPoolManagerInstance.NewPgImp (P.bpm P.last_bpm_index)).2 with
            last_bpm_index := (P.last_bpm_index + 1) % P.num_of_bpm } pid false).2 pid).2 := by
    unfold parLoopRound
    rw [hout]
  have hout7 := hout
  rw [hN] at hout7
  refine ⟨⟨_, _, hout7, hN⟩, ?_⟩
  obtain ⟨P1, hP1⟩ : ∃ Q : ParallelBufferPoolManager, Q = { P.setBpm P.last_bpm_index
        (BufferPoolManagerInstance.NewPgImp (P.bpm P.last_bpm_index)).2 with
      last_bpm_index := (P.last_bpm_index + 1) % P.num_of_bpm } := ⟨_, rfl⟩
  rw [← hP1] at hround
  have hP1N : P1.num_of_bpm = 7 := by rw [hP1]; exact hN
  have hP1b : P1.bpm P.last_bpm_index
      = (BufferPoolManagerInstance.NewPgImp (P.bpm P.last_bpm_index)).2 := by
    rw [hP1]
    generalize (BufferPoolManagerInstance.NewPgImp (P.bpm P.last_bpm_index)).2 = s
    cases s; simp [setBpm, bpm]
  have e2 := UnpinPgImp_of_route P1 pid false _ (hrouteQ P1 hP1N)
  rw [hP1b] at e2
  have e3 := DeletePgImp_of_route (UnpinPgImp P1 pid false).2 pid _
    (hrouteQ _ (by rw [e2]; exact hP1N))
  rw [hround, e3]
  have e4 : (UnpinPgImp P1 pid false).2.bpm P.last_bpm_index
      = (BufferPoolManagerInstance.UnpinPgImp
          (BufferPoolManagerInstance.NewPgImp (P.bpm P.last_bpm_index)).2 pid false).2 := by
    rw [e2, setBpm_bpm_same]
  rw [e4, e2]
  refine ⟨hP1N, by rw [hP1, hN]; rfl, fun i hi => by simp [setBpm, hi, hP1], ?_, ?_, ?_, ?_⟩
  · simpa [setBpm] using r2
  · simpa [setBpm] using r3
  · simp only [setBpm, if_true]
    rw [(BufferPoolManagerInstance.DeletePgImp_alloc _ _).2.1,
      (BufferPoolManagerInstance.UnpinPgImp_alloc _ _ _).2.1]
    rcases ea with ⟨hn, _⟩ | ⟨g, _, _, a3, _⟩
    · rw [hn] at r1; exact absurd r1 (by simp)
    · rw [a3]; exact hnum
  · simp only [setBpm, if_true]
    rw [(BufferPoolManagerInstance.DeletePgImp_alloc _ _).1,
      (BufferPoolManagerInstance.UnpinPgImp_alloc _ _ _).1]
    rcases ea with ⟨hn, _⟩ | ⟨g, _, a2, _, _⟩
    · rw [hn] at r1; exact absurd r1 (by simp)
    · rw [a2, hbn]
      have : (P.bpm P.last_bpm_index).num_instances = 7 := hnum
      rw [this]
      rfl


theorem GetBufferPoolManager_eq (Q : ParallelBufferPoolManager) (pid : page_id_t) (n : Nat)
    (h : Q.num_of_bpm = n) :
    Q.GetBufferPoolManager pid = (pid % 18446744073709551616).toNat % n := by
  unfold GetBufferPoolManager
  rw [h]

/-- On a pool of seven instances whose instance at the cursor `c` has its frame
free and an empty page table, `NewPgImp` returns a page of that instance under
the page id its counter holds. -/
theorem NewPgImp_at_cursor (P : ParallelBufferPoolManager) (c : Nat) (pid : page_id_t)
    (hN : P.num_of_bpm = 7) (hl : P.last_bpm_index = c) (hc : c < 7)
    (hfl : (P.parallel_buffer_pool_manager c).free_list = [0])
    (hpt : (P.parallel_buffer_pool_manager c).page_table = fun _ => none)
    (hnext : (P.parallel_buffer_pool_manager c).next_page_id = pid) :
    (NewPgImp 7 P).map (fun out => out.1) = some (some (c, 0, pid))
    ∧ (afterNewPg P).num_of_bpm = 7 := by
  subst hl hnext
  have hcN : P.last_bpm_index < P.num_of_bpm := by rw [hN]; exact hc
  have hc0 : (P.last_bpm_index + 0) % P.num_of_bpm = P.last_bpm_index := by
    rw [Nat.add_zero, Nat.mod_eq_of_lt hcN]
  obtain ⟨r1, _, _⟩ := BufferPoolManagerInstance.allocLoop_round (P.bpm P.last_bpm_index)
    hfl hpt
  have hout := (NewPgImp_outcomes P (by omega) hcN).2 0 0 _ (by omega)
    (fun i hi => absurd hi (Nat.not_lt_zero i)) (by rw [hc0]; exact r1)
  rw [hc0] at hout
  refine ⟨?_, ?_⟩
  · rw [← hN, hout]; rfl
  · unfold afterNewPg
    rw [hout]
    exact hN

/-- The scenario `parLoop r` for `r ≤ 2147483648` rounds: the cursor is at
`r mod 7`, every instance has its frame free and an empty page table, and the
counter of instance `i` is the least number from `r` on that is congruent to
`i` modulo 7, wrapped to 32 bits. -/
theorem parLoop_spec (r : Nat) (hr : r ≤ 2147483648) :
    (parLoop r).num_of_bpm = 7 ∧ (parLoop r).last_bpm_index = r % 7
    ∧ ∀ i, i < 7 →
        ((parLoop r).parallel_buffer_pool_manager i).free_list = [0]
        ∧ (((parLoop r).parallel_buffer_pool_manager i).page_table = fun _ => none)
        ∧ ((parLoop r).parallel_buffer_pool_manager i).num_instances = 7
        ∧ ((parLoop r).parallel_buffer_pool_manager i).next_page_id
            = toInt32 ((r + (i + 7 - r % 7) % 7 : Nat) : Int) := by
  induction r with
  | zero =>
    refine ⟨rfl, rfl, fun i hi => ⟨rfl, rfl, rfl, ?_⟩⟩
    have e : (0 + (i + 7 - 0 % 7) % 7 : Nat) = i := by omega
    rw [e]
    show (i : Int) = toInt32 (i : Int)
    rw [BufferPoolManagerInstance.toInt32_of_range _ (by omega) (by omega)]
  | succ r ih =>
    obtain ⟨hN, hlast, hinst⟩ := ih (by omega)
    have hc : (parLoop r).last_bpm_index < 7 := by rw [hlast]; exact Nat.mod_lt _ (by decide)
    obtain ⟨hfl, hpt, hnum, hnext⟩ := hinst _ hc
    have e : (r + ((parLoop r).last_bpm_index + 7 - r % 7) % 7 : Nat) = r := by
      rw [hlast]; omega
    rw [e, BufferPoolManagerInstance.toInt32_of_range _ (by omega) (by omega)] at hnext
    obtain ⟨_, s1, s2, s3, s4, s5, s6, s7⟩ := parLoopRound_spec (parLoop r) (r : Int) hN hc hfl
      hpt hnum hnext (Int.natCast_nonneg r)
      (by exact_mod_cast (show r < 2147483648 by omega))
      (by rw [hlast]; exact_mod_cast rfl)
    refine ⟨s1, by rw [show parLoop (r + 1) = parLoopRound (parLoop r) from rfl, s2, hlast]; omega,
      fun i hi => ?_⟩
    rw [show parLoop (r + 1) = parLoopRound (parLoop r) from rfl]
    by_cases hic : i = (parLoop r).last_bpm_index
    · subst hic
      refine ⟨s4, s5, s6, ?_⟩
      rw [s7]
      have e2 : (r + 1 + ((parLoop r).last_bpm_index + 7 - (r + 1) % 7) % 7 : Nat) = r + 7 := by
        rw [hlast]; omega
      rw [e2]
      push_cast
      rfl
    · rw [s3 i hic]
      obtain ⟨g1, g2, g3, g4⟩ := hinst i hi
      refine ⟨g1, g2, g3, ?_⟩
      rw [g4]
      have e2 : (r + 1 + (i + 7 - (r + 1) % 7) % 7 : Nat) = r + (i + 7 - r % 7) % 7 := by
        rw [hlast] at hic; omega
      rw [e2]

/-- C12 counterexample: on the pool of seven one-frame instances on which a page
has been created, unpinned and deleted 2147483648 times, `NewPgImp` returns a
page created by instance 2 under the page id `-2147483648`; that id is not
congruent to 2 modulo 7, and `GetBufferPoolManager` sends it to instance 0. -/
theorem routing_breaks_after_wrap :
    (NewPgImp 7 (parLoop 2147483648)).map (fun out => out.1)
        = some (some (2, 0, -2147483648))
    ∧ (afterNewPg (parLoop 2147483648)).GetBufferPoolManager (-2147483648) = 0
    ∧ (-2147483648 : Int) % 7 ≠ 2 := by
  obtain ⟨hN, hlast, hinst⟩ := parLoop_spec 2147483648 (Nat.le_refl _)
  obtain ⟨hfl, hpt, _, hnext⟩ := hinst 2 (by decide)
  have e : toInt32 ((2147483648 + (2 + 7 - 2147483648 % 7) % 7 : Nat) : Int) = -2147483648 := by
    unfold toInt32; norm_num
  obtain ⟨h1, h2⟩ := NewPgImp_at_cursor (parLoop 2147483648) 2 (-2147483648) hN hlast
    (by decide) hfl hpt (hnext.trans e)
  exact ⟨h1, (GetBufferPoolManager_eq _ _ 7 h2).trans (by decide), by decide⟩


/-- A pool of two instances with one frame each: the first `NewPgImp` returns
page 0 from instance 0, the second page 1 from instance 1 (the cursor has moved
on), and the third, with both frames pinned, tries instance 0 and instance 1
once each and returns `nullptr`. -/
theorem pool_of_two_scenario :
    (NewPgImp 2 (construct 2 1 (fun _ => zeroData))).map (fun out => (out.1, out.2.2))
      = some (some (0, 0, 0), [0])
    ∧ (NewPgImp 2 (afterNewPg (construct 2 1 (fun _ => zeroData)))).map
        (fun out => (out.1, out.2.2)) = some (some (1, 0, 1), [1])
    ∧ (NewPgImp 2 (afterNewPg (afterNewPg (construct 2 1 (fun _ => zeroData))))).map
        (fun out => (out.1, out.2.2)) = some (none, [0, 1]) := by
  refine ⟨by decide, by decide, by decide⟩

end ParallelBufferPoolManager

/-! ## Hash bucket page -/

theorem getD_pad_set {α : Type} (l : List α) (d x : α) (i j : Nat) :
    ((l ++ List.replicate (i + 1 - l.length) d).set i x).getD j d
      = if j = i then x else l.getD j d := by
  simp only [List.getD_eq_getElem?_getD, List.getElem?_set]
  by_cases hji : j = i
  · subst hji
    have h2 : j < l.length + (j + 1 - l.length) := by omega
    simp [h2]
  · have hij : ¬ i = j := fun h => hji h.symm
    simp only [hij, if_false, hji]
    by_cases hj : j < l.length
    · rw [List.getElem?_append_left hj]
    · rw [List.getElem?_append_right (by omega)]
      rw [List.getElem?_eq_none (by omega : l.length ≤ j)]
      by_cases hj2 : j - l.length < i + 1 - l.length
      · rw [List.getElem?_replicate_of_lt hj2]; rfl
      · rw [List.getElem?_eq_none (by simp; omega)]

theorem bitAt_setBit (bits : List Bool) (i j : Nat) (v : Bool) :
    bitAt (setBit bits i v) j = if j = i then v else bitAt bits j := by
  unfold bitAt setBit
  exact getD_pad_set bits false v i j

theorem comparator_eq_zero (a b : KeyType) : comparator a b = 0 ↔ a = b := by
  unfold comparator
  by_cases h1 : a < b
  · simp only [h1, if_true]
    exact ⟨fun h => absurd h (by decide), fun h => absurd h (ne_of_lt h1)⟩
  · by_cases h2 : b < a
    · simp only [h1, h2, if_true, if_false]
      exact ⟨fun h => absurd h (by decide), fun h => absurd h.symm (ne_of_lt h2)⟩
    · simp only [h1, h2, if_false]
      exact ⟨fun _ => le_antisymm (not_lt.mp h2) (not_lt.mp h1), fun _ => trivial⟩

namespace HashTableBucketPage

/-- The page after the three writes of the insertion loop at slot `i`. -/
theorem put_facts (b : HashTableBucketPage) (key : KeyType) (value : ValueType) (i j : Nat) :
    ((({ b with array := (padSlots b.array (i + 1)).set i (key, value) }
        : HashTableBucketPage).SetReadable i).SetOccupied i).IsReadable j
      = (if j = i then true else b.IsReadable j)
    ∧ ((({ b with array := (padSlots b.array (i + 1)).set i (key, value) }
        : HashTableBucketPage).SetReadable i).SetOccupied i).IsOccupied j
      = (if j = i then true else b.IsOccupied j)
    ∧ ((({ b with array := (padSlots b.array (i + 1)).set i (key, value) }
        : HashTableBucketPage).SetReadable i).SetOccupied i).KeyAt j
      = (if j = i then key else b.KeyAt j)
    ∧ ((({ b with array := (padSlots b.array (i + 1)).set i (key, value) }
        : HashTableBucketPage).SetReadable i).SetOccupied i).ValueAt j
      = (if j = i then value else b.ValueAt j) := by
  refine ⟨?_, ?_, ?_, ?_⟩
  · simp only [IsReadable, SetReadable, SetOccupied, bitAt_setBit]
  · simp only [IsOccupied, SetReadable, SetOccupied, bitAt_setBit]
  · simp only [KeyAt, SetReadable, SetOccupied, padSlots, getD_pad_set]
    by_cases h : j = i <;> simp [h]
  · simp only [ValueAt, SetReadable, SetOccupied, padSlots, getD_pad_set]
    by_cases h : j = i <;> simp [h]

/-- The insertion loop stops at the first slot from `i` on that is not readable. -/
theorem InsertLoop_first (b : HashTableBucketPage) (key : KeyType) (value : ValueType) (k : Nat)
    (hk : b.IsReadable k = false) :
    ∀ n i, i ≤ k → k < i + n → (∀ j, i ≤ j → j < k → b.IsReadable j = true) →
      InsertLoop b key value n i
        = (true, (({ b with array := (padSlots b.array (k + 1)).set k (key, value) }
            : HashTableBucketPage).SetReadable k).SetOccupied k) := by
  intro n
  induction n with
  | zero => intro i h1 h2; omega
  | succ n ih =>
    intro i h1 h2 hall
    by_cases hik : i = k
    · subst hik
      simp [InsertLoop, hk]
    · have hr := hall i (Nat.le_refl _) (by omega)
      rw [InsertLoop]
      simp only [hr, Bool.not_true, Bool.false_eq_true, if_false]
      exact ih (i + 1) (by omega) (by omega) (fun j hj1 hj2 => hall j (by omega) hj2)


/-- The insertion loop either stops at the first slot from `i` on that is not
readable, or finds every slot readable and gives up. -/
theorem InsertLoop_cases (b : HashTableBucketPage) (key : KeyType) (value : ValueType) :
    ∀ n i,
      (∃ k, i ≤ k ∧ k < i + n ∧ b.IsReadable k = false
          ∧ (∀ j, i ≤ j → j < k → b.IsReadable j = true)
          ∧ InsertLoop b key value n i
              = (true, (({ b with array := (padSlots b.array (k + 1)).set k (key, value) }
                  : HashTableBucketPage).SetReadable k).SetOccupied k))
      ∨ ((∀ j, i ≤ j → j < i + n → b.IsReadable j = true)
          ∧ InsertLoop b key value n i = (false, b)) := by
  intro n
  induction n with
  | zero => intro i; right; exact ⟨fun j h1 h2 => by omega, rfl⟩
  | succ n ih =>
    intro i
    cases hr : b.IsReadable i with
    | false =>
      left
      exact ⟨i, Nat.le_refl _, by omega, hr, fun j h1 h2 => by omega,
        InsertLoop_first b key value i hr (n + 1) i (Nat.le_refl _) (by omega)
          (fun j h1 h2 => by omega)⟩
    | true =>
      have e : InsertLoop b key value (n + 1) i = InsertLoop b key value n (i + 1) := by
        rw [InsertLoop]; simp [hr]
      rcases ih (i + 1) with ⟨k, h1, h2, h3, h4, h5⟩ | ⟨h1, h2⟩
      · left
        refine ⟨k, by omega, by omega, h3, fun j hj1 hj2 => ?_, e.trans h5⟩
        by_cases hji : j = i
        · rw [hji]; exact hr
        · exact h4 j (by omega) hj2
      · right
        refine ⟨fun j hj1 hj2 => ?_, e.trans h2⟩
        by_cases hji : j = i
        · rw [hji]; exact hr
        · exact h1 j (by omega) (by omega)

/-- Under the bitmap invariant the scan of `GetValue` from slot `i` appends the
values of the matching readable slots among the next `n` slots. -/
theorem GetValueLoop_spec (cap : Nat) (b : HashTableBucketPage) (key : KeyType)
    (hinv : BitmapInv cap b) :
    ∀ n i result,
      GetValueLoop b key n i result
        = result ++ ((List.range' i n).filter
            (fun i => b.IsReadable i && decide (comparator key (b.KeyAt i) = 0))).map
              b.ValueAt := by
  intro n
  induction n with
  | zero => intro i result; simp [GetValueLoop]
  | succ n ih =>
    intro i result
    rw [GetValueLoop, List.range'_succ]
    cases ho : b.IsOccupied i with
    | false =>
      have hnone : ∀ j, i ≤ j → b.IsReadable j = false := by
        intro j hj
        cases hrj : b.IsReadable j with
        | false => rfl
        | true =>
          have h1 := hinv.readable_occupied j hrj
          by_cases hji : j = i
          · rw [hji, ho] at h1; exact absurd h1 (by simp)
          · have h2 := hinv.occupied_prefix j i (by omega) h1
            rw [ho] at h2; exact absurd h2 (by simp)
      have hnil : (i :: List.range' (i + 1) n).filter
          (fun i => b.IsReadable i && decide (comparator key (b.KeyAt i) = 0)) = [] := by
        rw [List.filter_eq_nil_iff]
        intro a ha
        have hia : i ≤ a := by
          rcases List.mem_cons.mp ha with h | h
          · omega
          · have := (List.mem_range'_1.mp h).1; omega
        simp [hnone a hia]
      simp [hnil]
    | true =>
      cases hr : b.IsReadable i with
      | false => simp [hr, ih]
      | true =>
        by_cases hc : comparator key (b.KeyAt i) = 0
        · simp [hr, hc, ih]
        · simp [hr, hc, ih]

/-- What the removal loop returns: the page unchanged, or the page with the
readable bit of one slot cleared. -/
theorem RemoveLoop_cases (b : HashTableBucketPage) (key : KeyType) (value : ValueType) :
    ∀ n i,
      RemoveLoop b key value n i = (false, b)
      ∨ ∃ k, i ≤ k ∧ k < i + n ∧ b.IsReadable k = true ∧ b.KeyAt k = key ∧ b.ValueAt k = value
          ∧ RemoveLoop b key value n i = (true, b.RemoveAt k) := by
  intro n
  induction n with
  | zero => intro i; left; rfl
  | succ n ih =>
    intro i
    rw [RemoveLoop]
    cases ho : b.IsOccupied i with
    | false => left; simp
    | true =>
      have hnext : RemoveLoop b key value n (i + 1) = (false, b)
          ∨ ∃ k, i ≤ k ∧ k < i + (n + 1) ∧ b.IsReadable k = true ∧ b.KeyAt k = key
              ∧ b.ValueAt k = value
              ∧ RemoveLoop b key value n (i + 1) = (true, b.RemoveAt k) := by
        rcases ih (i + 1) with h | ⟨k, h1, h2, h3⟩
        · left; exact h
        · right; exact ⟨k, by omega, by omega, h3⟩
      cases hr : b.IsReadable i with
      | false => simpa using hnext
      | true =>
        by_cases hc : comparator key (b.KeyAt i) = 0 ∧ value = b.ValueAt i
        · right
          refine ⟨i, Nat.le_refl _, by omega, hr, ((comparator_eq_zero _ _).mp hc.1).symm,
            hc.2.symm, ?_⟩
          simp [hc]
        · simpa [hc] using hnext

theorem BitmapInv_zero (cap : Nat) : BitmapInv cap zero := by
  refine ⟨fun i h => ?_, fun i h => ?_, fun i j _ h => ?_⟩ <;>
    simp [IsReadable, IsOccupied, zero, bitAt] at h

theorem BitmapInv_RemoveAt (cap : Nat) (b : HashTableBucketPage) (h : BitmapInv cap b)
    (k : Nat) : BitmapInv cap (b.RemoveAt k) := by
  refine ⟨fun i hi => ?_, h.occupied_lt, h.occupied_prefix⟩
  have e : (b.RemoveAt k).IsReadable i = if i = k then false else b.IsReadable i := by
    simp only [IsReadable, RemoveAt, bitAt_setBit]
  rw [e] at hi
  by_cases hik : i = k
  · simp [hik] at hi
  · simp only [hik, if_false] at hi
    exact h.readable_occupied i hi

theorem BitmapInv_Remove (cap : Nat) (b : HashTableBucketPage) (h : BitmapInv cap b)
    (key : KeyType) (value : ValueType) : BitmapInv cap (Remove cap b key value).2 := by
  unfold Remove
  rcases RemoveLoop_cases b key value cap 0 with e | ⟨k, _, _, _, _, _, e⟩
  · rw [e]; exact h
  · rw [e]; exact BitmapInv_RemoveAt cap b h k


/-- Under the bitmap invariant `NumReadable` counts the readable slots below the
capacity, so the page is full exactly when all of them are readable. -/
theorem IsFull_iff (cap : Nat) (b : HashTableBucketPage) (h : BitmapInv cap b) :
    IsFull cap b = true ↔ ∀ i, i < cap → b.IsReadable i = true := by
  have hM : 8 * ((cap - 1) / 8 + 1) = cap + (8 * ((cap - 1) / 8 + 1) - cap) := by omega
  have hnil : ((List.range (8 * ((cap - 1) / 8 + 1) - cap)).map (cap + ·)).filter
      (fun i => bitAt b.readable i) = [] := by
    rw [List.filter_eq_nil_iff]
    intro a ha hr
    obtain ⟨j, _, rfl⟩ := List.mem_map.mp ha
    have := h.occupied_lt _ (h.readable_occupied _ hr)
    omega
  have hnum : NumReadable cap b = ((List.range cap).filter (fun i => bitAt b.readable i)).length := by
    unfold NumReadable
    rw [hM, List.range_add, List.filter_append, hnil, List.append_nil]
  unfold IsFull
  rw [hnum, beq_iff_eq]
  constructor
  · intro hlen i hi
    have h2 : ((List.range cap).filter (fun i => bitAt b.readable i)).length
        = (List.range cap).length := by rw [hlen, List.length_range]
    exact List.filter_length_eq_length.mp h2 i (List.mem_range.mpr hi)
  · intro hall
    have h2 : ((List.range cap).filter (fun i => bitAt b.readable i)).length
        = (List.range cap).length :=
      List.filter_length_eq_length.mpr (fun a ha => hall a (List.mem_range.mp ha))
    rw [h2, List.length_range]

theorem mem_liveValues (cap : Nat) (b : HashTableBucketPage) (key : KeyType) (value : ValueType) :
    value ∈ liveValues cap b key
      ↔ ∃ i, i < cap ∧ b.IsReadable i = true ∧ b.KeyAt i = key ∧ b.ValueAt i = value := by
  unfold liveValues
  simp only [List.mem_map, List.mem_filter, List.mem_range, Bool.and_eq_true, decide_eq_true_eq,
    comparator_eq_zero]
  constructor
  · rintro ⟨i, ⟨hi, hr, hk⟩, hv⟩
    exact ⟨i, hi, hr, hk.symm, hv⟩
  · rintro ⟨i, hi, hr, hk, hv⟩
    exact ⟨i, ⟨hi, hr, hk.symm⟩, hv⟩

theorem GetValue_eq (cap : Nat) (b : HashTableBucketPage) (key : KeyType)
    (hinv : BitmapInv cap b) :
    GetValue cap b key [] = (!(liveValues cap b key).isEmpty, liveValues cap b key) := by
  unfold GetValue liveValues
  rw [GetValueLoop_spec cap b key hinv, List.nil_append, List.range_eq_range']

/-- The three outcomes of `Insert` under the bitmap invariant. -/
theorem Insert_cases (cap : Nat) (b : HashTableBucketPage) (hinv : BitmapInv cap b)
    (key : KeyType) (value : ValueType) :
    ((IsFull cap b = true
        ∨ ∃ i, i < cap ∧ b.IsReadable i = true ∧ b.KeyAt i = key ∧ b.ValueAt i = value)
      ∧ Insert cap b key value = (false, b))
    ∨ (¬ (IsFull cap b = true
          ∨ ∃ i, i < cap ∧ b.IsReadable i = true ∧ b.KeyAt i = key ∧ b.ValueAt i = value)
        ∧ ∃ k, k < cap ∧ b.IsReadable k = false ∧ (∀ j, j < k → b.IsReadable j = true)
          ∧ Insert cap b key value
              = (true, (({ b with array := (padSlots b.array (k + 1)).set k (key, value) }
                  : HashTableBucketPage).SetReadable k).SetOccupied k)) := by
  unfold Insert
  by_cases hfull : IsFull cap b = true
  · left; exact ⟨Or.inl hfull, by simp [hfull]⟩
  · by_cases hdup : value ∈ (GetValue cap b key []).2
    · left
      refine ⟨Or.inr ?_, by simp [hfull, hdup]⟩
      rw [GetValue_eq cap b key hinv] at hdup
      exact (mem_liveValues cap b key value).mp hdup
    · right
      have hnd : ¬ ∃ i, i < cap ∧ b.IsReadable i = true ∧ b.KeyAt i = key
          ∧ b.ValueAt i = value := by
        intro hex
        apply hdup
        rw [GetValue_eq cap b key hinv]
        exact (mem_liveValues cap b key value).mpr hex
      refine ⟨fun h => h.elim hfull hnd, ?_⟩
      simp only [hfull, hdup, if_false]
      rcases InsertLoop_cases b key value cap 0 with ⟨k, _, h2, h3, h4, h5⟩ | ⟨h1, _⟩
      · refine ⟨k, by omega, h3, fun j hj => h4 j (Nat.zero_le _) hj, ?_⟩
        simpa using h5
      · exact absurd ((IsFull_iff cap b hinv).mpr
          (fun i hi => h1 i (Nat.zero_le _) (by omega))) hfull

theorem BitmapInv_Insert (cap : Nat) (b : HashTableBucketPage) (h : BitmapInv cap b)
    (key : KeyType) (value : ValueType) : BitmapInv cap (Insert cap b key value).2 := by
  rcases Insert_cases cap b h key value with ⟨_, e⟩ | ⟨_, k, hk, hrk, hbefore, e⟩
  · rw [e]; exact h
  · rw [e]
    refine ⟨fun i hi => ?_, fun i hi => ?_, fun i j hji hi => ?_⟩
    · rw [(put_facts b key value k i).1] at hi
      rw [(put_facts b key value k i).2.1]
      by_cases hik : i = k
      · simp [hik]
      · simp only [hik, if_false] at hi ⊢
        exact h.readable_occupied i hi
    · rw [(put_facts b key value k i).2.1] at hi
      by_cases hik : i = k
      · omega
      · simp only [hik, if_false] at hi
        exact h.occupied_lt i hi
    · rw [(put_facts b key value k i).2.1] at hi
      rw [(put_facts b key value k j).2.1]
      by_cases hjk : j = k
      · simp [hjk]
      · simp only [hjk, if_false]
        by_cases hik : i = k
        · exact h.readable_occupied j (hbefore j (by omega))
        · simp only [hik, if_false] at hi
          exact h.occupied_prefix i j hji hi

/-- Every page built from a zeroed page satisfies the bitmap invariant. -/
theorem Built.bitmapInv {cap : Nat} {b : HashTableBucketPage} (h : Built cap b) :
    BitmapInv cap b := by
  induction h with
  | zero => exact BitmapInv_zero cap
  | Insert _ key value ih => exact BitmapInv_Insert cap _ ih key value
  | Remove _ key value ih => exact BitmapInv_Remove cap _ ih key value
  | RemoveAt _ k _ ih => exact BitmapInv_RemoveAt cap _ ih k

/-- C17 (bucket scan): on every bucket page built from an all-zero page by
`Insert`, `Remove` and `RemoveAt`, `GetValue` called with an empty result
vector leaves in it exactly the values of the readable slots whose key compares
equal to `key`, in slot order, and returns true iff there is such a slot; no
readable slot lies behind a slot that was never occupied, so the scan, which
stops at the first never-occupied slot, misses no live pair. -/
theorem GetValue_scan (cap : Nat) (b : HashTableBucketPage) (h : Built cap b) (key : KeyType) :
    (GetValue cap b key []).2
        = ((List.range cap).filter
            (fun i => b.IsReadable i && decide (comparator key (b.KeyAt i) = 0))).map b.ValueAt
    ∧ ((GetValue cap b key []).1 = true
        ↔ ∃ i, i < cap ∧ b.IsReadable i = true ∧ comparator key (b.KeyAt i) = 0)
    ∧ (∀ i, b.IsReadable i = true → i < cap ∧ ∀ j, j ≤ i → b.IsOccupied j = true) := by
  have hinv := h.bitmapInv
  rw [GetValue_eq cap b key hinv]
  refine ⟨rfl, ?_, fun i hi => ?_⟩
  · simp only [liveValues, Bool.not_eq_true', List.isEmpty_eq_false, ne_eq, List.map_eq_nil_iff,
      List.filter_eq_nil_iff, List.mem_range, Bool.and_eq_true, decide_eq_true_eq, not_and,
      not_forall, not_not]
    constructor
    · rintro ⟨i, hi, hr, hc⟩; exact ⟨i, hi, hr, hc⟩
    · rintro ⟨i, hi, hr, hc⟩; exact ⟨i, hi, hr, hc⟩
  · have ho := hinv.readable_occupied i hi
    refine ⟨hinv.occupied_lt i ho, fun j hj => ?_⟩
    by_cases hji : j = i
    · rw [hji]; exact ho
    · exact hinv.occupied_prefix i j (by omega) ho


theorem tombstoneBucket_built : Built 4 tombstoneBucket :=
  Built.RemoveAt (Built.Insert (Built.Insert (Built.Insert Built.zero 1 10) 2 20) 2 21) 0
    (by decide)

/-- C17 witness: on `tombstoneBucket` the scan for key 2 skips the tombstone in
slot 0 and reports the values 20 and 21. -/
theorem GetValue_scan_witness :
    Built 4 tombstoneBucket
    ∧ GetValue 4 tombstoneBucket 2 [] = (true, [20, 21])
    ∧ tombstoneBucket.IsReadable 0 = false
    ∧ (GetValue 4 tombstoneBucket 2 []).2
        = ((List.range 4).filter
            (fun i => tombstoneBucket.IsReadable i
              && decide (comparator 2 (tombstoneBucket.KeyAt i) = 0))).map
            tombstoneBucket.ValueAt :=
  ⟨tombstoneBucket_built, by decide, by decide,
    (GetValue_scan 4 tombstoneBucket tombstoneBucket_built 2).1⟩

/-- C18 (bucket `Insert`): on every bucket page built from an all-zero page,
`Insert(key, value)` returns false and leaves the page unchanged when the page
is full (every slot below the capacity is readable) or a readable slot already
holds the pair; otherwise it returns true, the pair is stored in the
lowest-index slot that is not readable, that slot is now readable and
occupied, and the bits, keys and values of all other slots are as before. A
readable slot with the same key and another value does not stop the
insertion. -/
theorem Insert_spec (cap : Nat) (b : HashTableBucketPage) (h : Built cap b)
    (key : KeyType) (value : ValueType) :
    ((IsFull cap b = true
        ∨ ∃ i, i < cap ∧ b.IsReadable i = true ∧ b.KeyAt i = key ∧ b.ValueAt i = value) →
      Insert cap b key value = (false, b))
    ∧ (¬ (IsFull cap b = true
          ∨ ∃ i, i < cap ∧ b.IsReadable i = true ∧ b.KeyAt i = key ∧ b.ValueAt i = value) →
        ∃ k, k < cap ∧ b.IsReadable k = false ∧ (∀ j, j < k → b.IsReadable j = true)
          ∧ (Insert cap b key value).1 = true
          ∧ (Insert cap b key value).2.IsReadable k = true
          ∧ (Insert cap b key value).2.IsOccupied k = true
          ∧ (Insert cap b key value).2.KeyAt k = key
          ∧ (Insert cap b key value).2.ValueAt k = value
          ∧ ∀ j, j ≠ k →
              (Insert cap b key value).2.IsReadable j = b.IsReadable j
              ∧ (Insert cap b key value).2.IsOccupied j = b.IsOccupied j
              ∧ (Insert cap b key value).2.KeyAt j = b.KeyAt j
              ∧ (Insert cap b key value).2.ValueAt j = b.ValueAt j)
    ∧ (IsFull cap b = true ↔ ∀ i, i < cap → b.IsReadable i = true) := by
  have hinv := h.bitmapInv
  refine ⟨fun hcond => ?_, fun hcond => ?_, IsFull_iff cap b hinv⟩
  · rcases Insert_cases cap b hinv key value with ⟨_, e⟩ | ⟨hn, _⟩
    · exact e
    · exact absurd hcond hn
  · rcases Insert_cases cap b hinv key value with ⟨hc, _⟩ | ⟨_, k, hk, hrk, hbefore, e⟩
    · exact absurd hc hcond
    · refine ⟨k, hk, hrk, hbefore, ?_⟩
      rw [e]
      refine ⟨rfl, ?_, ?_, ?_, ?_, fun j hj => ⟨?_, ?_, ?_, ?_⟩⟩
      · rw [(put_facts b key value k k).1]; simp
      · rw [(put_facts b key value k k).2.1]; simp
      · rw [(put_facts b key value k k).2.2.1]; simp
      · rw [(put_facts b key value k k).2.2.2]; simp
      · rw [(put_facts b key value k j).1]; simp [hj]
      · rw [(put_facts b key value k j).2.1]; simp [hj]
      · rw [(put_facts b key value k j).2.2.1]; simp [hj]
      · rw [(put_facts b key value k j).2.2.2]; simp [hj]

/-- C18 witness: on `tombstoneBucket` the pair (2, 20) is rejected, and the pair
(2, 22) goes into slot 0, the tombstone. -/
theorem Insert_spec_witness :
    Built 4 tombstoneBucket
    ∧ Insert 4 tombstoneBucket 2 20 = (false, tombstoneBucket)
    ∧ (Insert 4 tombstoneBucket 2 22).1 = true
    ∧ (Insert 4 tombstoneBucket 2 22).2.KeyAt 0 = 2
    ∧ (Insert 4 tombstoneBucket 2 22).2.ValueAt 0 = 22
    ∧ (IsFull 4 tombstoneBucket = true ↔ ∀ i, i < 4 → tombstoneBucket.IsReadable i = true) :=
  ⟨tombstoneBucket_built,
    (Insert_spec 4 tombstoneBucket tombstoneBucket_built 2 20).1
      (Or.inr ⟨1, by decide, by decide, by decide, by decide⟩),
    by decide, by decide, by decide,
    (Insert_spec 4 tombstoneBucket tombstoneBucket_built 2 22).2.2⟩

end HashTableBucketPage

/-! ## B+ tree: the duplicate test of `Insert` -/

/-- C14 (B+ tree `Insert` and duplicates), the code evaluated with
`leaf_max_size = 3` and `internal_max_size = 3` on an empty tree. (a) After
`Insert(-2, 10)` and `Insert(-1, 20)`, which both return true, key 0 is not
stored (`GetValue(0)` returns false), yet `Insert(0, 30)` returns false; the
rejected call leaves the tree as it was. (b) When `array_[-1]` of the new root
leaf decodes to a negative key, a first `Insert(0, 20)` returns true without
storing the pair, and a second `Insert(0, 20)` returns false although
`GetValue(0)` still returns false. -/
theorem BPlusTree.Insert_rejects_absent_key (oob : KeyType) :
    ((BPlusTree.InsertAll 1 (BPlusTree.construct 3 3 oob) [(-2, 10), (-1, 20)]).map Prod.fst
        = some [true, true]
      ∧ (BPlusTree.InsertAll 1 (BPlusTree.construct 3 3 oob) [(-2, 10), (-1, 20)]).bind
          (fun r => BPlusTree.GetValue 1 r.2 0) = some (false, [])
      ∧ (BPlusTree.InsertAll 1 (BPlusTree.construct 3 3 oob) [(-2, 10), (-1, 20)]).bind
          (fun r => BPlusTree.Insert 1 r.2 0 30)
        = (BPlusTree.InsertAll 1 (BPlusTree.construct 3 3 oob) [(-2, 10), (-1, 20)]).map
            (fun r => (false, r.2)))
    ∧ (oob < 0 →
      (BPlusTree.InsertAll 1 (BPlusTree.construct 3 3 oob) [(0, 20), (0, 20)]).map Prod.fst
        = some [true, false]
      ∧ (BPlusTree.InsertAll 1 (BPlusTree.construct 3 3 oob) [(0, 20)]).bind
          (fun r => BPlusTree.GetValue 1 r.2 0) = some (false, [])
      ∧ (BPlusTree.InsertAll 1 (BPlusTree.construct 3 3 oob) [(0, 20), (0, 20)]).bind
          (fun r => BPlusTree.GetValue 1 r.2 0) = some (false, [])) := by
  constructor
  · have h1 : BPlusTree.Insert 1 (BPlusTree.construct 3 3 oob) (-2) 10
        = some (true, BPlusTree.StartNewTree (BPlusTree.construct 3 3 oob) (-2) 10) := rfl
    rw [BPlusTree.StartNewTree_eq oob (-2) 10 (by decide)] at h1
    simp only [BPlusTree.InsertAll, h1]
    refine ⟨rfl, rfl, rfl⟩
  · intro hoob
    have h1 : BPlusTree.Insert 1 (BPlusTree.construct 3 3 oob) 0 20
        = some (true, BPlusTree.StartNewTree (BPlusTree.construct 3 3 oob) 0 20) := rfl
    rw [BPlusTree.StartNewTree_zero oob 20 hoob] at h1
    have hget : BPlusTree.GetValue 1
        { root_page_id := 1, leaf_max_size := 3, internal_max_size := 3,
          pages := [(1, { page_type := IndexPageType.LEAF_PAGE, size := 0, max_size := 3,
                          parent_page_id := -1, page_id := 1, next_page_id := -1,
                          array := [], oob := oob })],
          next_page_id := 2, oob := oob } 0 = some (false, []) := by
      simp [BPlusTree.GetValue, BPlusTree.FindLeafPage, BPlusTree.FindLeafPageLoop,
        BPlusTree.page, List.lookup, BPlusTreePage.IsLeafPage, BPlusTreeLeafPage.Lookup,
        BPlusTreeLeafPage.KeyIndex, BPlusTreePage.slot, comparator, hoob, INVALID_PAGE_ID]
    have h2 : BPlusTree.Insert 1
        { root_page_id := 1, leaf_max_size := 3, internal_max_size := 3,
          pages := [(1, { page_type := IndexPageType.LEAF_PAGE, size := 0, max_size := 3,
                          parent_page_id := -1, page_id := 1, next_page_id := -1,
                          array := [], oob := oob })],
          next_page_id := 2, oob := oob } 0 20
        = some (false,
            { root_page_id := 1, leaf_max_size := 3, internal_max_size := 3,
              pages := [(1, { page_type := IndexPageType.LEAF_PAGE, size := 0, max_size := 3,
                              parent_page_id := -1, page_id := 1, next_page_id := -1,
                              array := [], oob := oob })],
              next_page_id := 2, oob := oob }) := by
      simp [BPlusTree.Insert, BPlusTree.InsertIntoLeaf, BPlusTree.FindLeafPage,
        BPlusTree.FindLeafPageLoop, BPlusTree.page, List.lookup, BPlusTreePage.IsLeafPage,
        BPlusTreeLeafPage.KeyIndex, BPlusTreeLeafPage.GetItem, BPlusTreePage.slot, comparator,
        hoob, INVALID_PAGE_ID]
    simp only [BPlusTree.InsertAll, h1, h2]
    exact ⟨rfl, hget, hget⟩

/-! ## B+ tree: leaf split -/

theorem lookup_storePage (l : List (page_id_t × BPlusTreePage)) (x y : page_id_t)
    (p : BPlusTreePage) :
    (storePage l x p).lookup y = if y = x then some p else l.lookup y := by
  induction l with
  | nil =>
    by_cases h : y = x
    · simp [storePage, List.lookup, h]
    · have hb : (y == x) = false := by simpa using h
      simp [storePage, List.lookup, h, hb]
  | cons a l ih =>
    obtain ⟨q, r⟩ := a
    by_cases hq : q = x
    · subst hq
      by_cases h : y = q
      · simp [storePage, List.lookup, h]
      · have hb : (y == q) = false := by simpa using h
        simp [storePage, List.lookup, h, hb]
    · by_cases h : y = x
      · subst h
        have hne : ¬ y = q := fun e => hq e.symm
        have hb : (y == q) = false := by simpa using hne
        simp [storePage, List.lookup, hq, hb, ih]
      · by_cases hyq : y = q
        · simp [storePage, List.lookup, hq, hyq]
        · have hb : (y == q) = false := by simpa using hyq
          simp [storePage, List.lookup, hq, hb, ih, h]

namespace BPlusTree

theorem page_setTreePage (t : BPlusTree) (x y : page_id_t) (p : BPlusTreePage) :
    (setTreePage t x p).page y = if y = x then p else t.page y := by
  unfold page setTreePage
  simp only [lookup_storePage]
  by_cases h : y = x <;> simp [h]

theorem page_NewPage (t : BPlusTree) (y : page_id_t) :
    (NewPage t).2.page y = if y = t.next_page_id then zeroPage t.oob else t.page y := by
  unfold NewPage
  have := page_setTreePage t t.next_page_id y (zeroPage t.oob)
  simpa [page, setTreePage] using this

end BPlusTree

namespace BPlusTreePage

theorem slot_setSlot (p : BPlusTreePage) (i j : Int) (x : MappingType) (hi : 0 ≤ i) :
    (p.setSlot i x).slot j = if j = i then x else p.slot j := by
  unfold setSlot slot
  have hi2 : ¬ i < 0 := not_lt.mpr hi
  simp only [hi2, if_false]
  by_cases hj : j < 0
  · have hne : ¬ j = i := by omega
    simp [hj, hne]
  · simp only [hj, if_false, padSlots, getD_pad_set]
    have e : (j.toNat = i.toNat) ↔ j = i := by omega
    by_cases hji : j = i
    · simp [hji]
    · have : ¬ j.toNat = i.toNat := fun h => hji (e.mp h)
      simp [hji, this]


theorem sameHeader_setSlot (p : BPlusTreePage) (i : Int) (x : MappingType) :
    sameHeader p (p.setSlot i x) ∧ (p.setSlot i x).size = p.size := by
  unfold setSlot sameHeader
  by_cases h : i < 0 <;> simp [h]

theorem sameHeader_shiftUp (n : Nat) : ∀ (i : Int) (p : BPlusTreePage),
    sameHeader p (shiftUp n i p) ∧ (shiftUp n i p).size = p.size := by
  induction n with
  | zero => intro i p; exact ⟨⟨rfl, rfl, rfl, rfl, rfl, rfl⟩, rfl⟩
  | succ n ih =>
    intro i p
    obtain ⟨⟨a1, a2, a3, a4, a5, a6⟩, a7⟩ := ih (i - 1) (p.setSlot i (p.slot (i - 1)))
    obtain ⟨⟨b1, b2, b3, b4, b5, b6⟩, b7⟩ := sameHeader_setSlot p i (p.slot (i - 1))
    exact ⟨⟨a1.trans b1, a2.trans b2, a3.trans b3, a4.trans b4, a5.trans b5, a6.trans b6⟩,
      a7.trans b7⟩

end BPlusTreePage

namespace BPlusTreeLeafPage

/-- The loop of `KeyIndex` returns an index from `i` on when one of the slots it
visits holds a key that is not below `key`. -/
theorem KeyIndexLoop_nonneg (p : BPlusTreePage) (key : KeyType) :
    ∀ (n : Nat) (i m : Int), 0 ≤ i → i ≤ m → m < i + n → comparator (p.slot m).1 key ≥ 0 →
      0 ≤ KeyIndexLoop p key n i := by
  intro n
  induction n with
  | zero => intro i m h0 h1 h2; omega
  | succ n ih =>
    intro i m h0 h1 h2 hm
    rw [KeyIndexLoop]
    by_cases hc : comparator (p.slot i).1 key ≥ 0
    · simp only [hc, if_true]; exact h0
    · simp only [hc, if_false]
      have hne : i ≠ m := fun e => hc (e ▸ hm)
      exact ih (i + 1) m (by omega) (by omega) (by push_cast at h2; omega) hm

/-- On a page with `size ≥ 0`, `KeyIndex` returns `-1` only when the page is empty. -/
theorem KeyIndex_neg_one (p : BPlusTreePage) (key : KeyType) (h0 : 0 ≤ p.size)
    (h : KeyIndex p key = -1) : p.size = 0 := by
  unfold KeyIndex at h
  by_cases hc : comparator (p.slot (p.size - 1)).1 key < 0
  · simp only [hc, if_true] at h; omega
  · simp only [hc, if_false] at h
    by_contra hne
    have hpos : 0 < p.size := lt_of_le_of_ne h0 (Ne.symm hne)
    have := KeyIndexLoop_nonneg p key p.size.toNat 0 (p.size - 1) (le_refl _) (by omega)
      (by rw [Int.toNat_of_nonneg h0]; omega) (not_lt.mp hc)
    omega

/-- The page after `Insert`: its size is the returned size (on a page with
`size ≥ 0`), and the other header fields are unchanged. -/
theorem Insert_header (p : BPlusTreePage) (key : KeyType) (value : ValueType) :
    BPlusTreePage.sameHeader p (Insert p key value).2
    ∧ (0 ≤ p.size → (Insert p key value).2.size = (Insert p key value).1) := by
  unfold Insert
  by_cases h1 : KeyIndex p key = -1
  · simp only [h1, if_true]
    refine ⟨(BPlusTreePage.sameHeader_setSlot p 0 (key, value)).1, fun h0 => ?_⟩
    show (p.setSlot 0 (key, value)).size + 1 = 1
    rw [(BPlusTreePage.sameHeader_setSlot p 0 (key, value)).2, KeyIndex_neg_one p key h0 h1]
    rfl
  · simp only [h1, if_false]
    by_cases h2 : comparator key (KeyAt p (KeyIndex p key)) = 0
    · simp only [h2, if_true]
      exact ⟨⟨rfl, rfl, rfl, rfl, rfl, rfl⟩, fun _ => trivial⟩
    · simp only [h2, if_false]
      obtain ⟨⟨a1, a2, a3, a4, a5, a6⟩, a7⟩ :=
        BPlusTreePage.sameHeader_shiftUp (p.size - KeyIndex p key).toNat p.size p
      obtain ⟨⟨b1, b2, b3, b4, b5, b6⟩, b7⟩ := BPlusTreePage.sameHeader_setSlot
        (BPlusTreePage.shiftUp (p.size - KeyIndex p key).toNat p.size p) (KeyIndex p key)
        (key, value)
      refine ⟨⟨b1.trans a1, b2.trans a2, b3.trans a3, b4.trans a4, b5.trans a5, b6.trans a6⟩,
        fun _ => ?_⟩
      show (BPlusTreePage.setSlot _ _ _).size + 1 = p.size + 1
      rw [b7, a7]

/-- The copy loop of `MoveHalfTo`: the recipient gains the `n` slots of the
source from slot `i` on, behind the entries it has. -/
theorem MoveHalfToLoop_spec (src : BPlusTreePage) :
    ∀ (n : Nat) (i : Int) (r : BPlusTreePage), 0 ≤ r.size →
      (MoveHalfToLoop src n i r).size = r.size + n
      ∧ (∀ j : Int, 0 ≤ j → j < n →
          (MoveHalfToLoop src n i r).slot (r.size + j) = src.slot (i + j))
      ∧ (∀ j : Int, j < r.size → (MoveHalfToLoop src n i r).slot j = r.slot j)
      ∧ BPlusTreePage.sameHeader r (MoveHalfToLoop src n i r) := by
  intro n
  induction n with
  | zero =>
    intro i r h0
    exact ⟨by simp [MoveHalfToLoop], fun j h1 h2 => by omega, fun j _ => rfl,
      ⟨rfl, rfl, rfl, rfl, rfl, rfl⟩⟩
  | succ n ih =>
    intro i r h0
    have hc : (CopyLastFrom r (src.slot i)).size = r.size + 1 := by
      show (r.setSlot r.size (src.slot i)).size + 1 = r.size + 1
      rw [(BPlusTreePage.sameHeader_setSlot r r.size (src.slot i)).2]
    have hslot : ∀ j, (CopyLastFrom r (src.slot i)).slot j
        = if j = r.size then src.slot i else r.slot j := by
      intro j
      have := BPlusTreePage.slot_setSlot r r.size j (src.slot i) h0
      simpa [CopyLastFrom, BPlusTreePage.IncreaseSize, BPlusTreePage.slot] using this
    have hhead : BPlusTreePage.sameHeader r (CopyLastFrom r (src.slot i)) :=
      (BPlusTreePage.sameHeader_setSlot r r.size (src.slot i)).1
    obtain ⟨a1, a2, a3, a4⟩ := ih (i + 1) (CopyLastFrom r (src.slot i)) (by rw [hc]; omega)
    rw [MoveHalfToLoop]
    refine ⟨by rw [a1, hc]; push_cast; ring, fun j hj0 hj1 => ?_, fun j hj => ?_, ?_⟩
    · by_cases hj : j = 0
      · subst hj
        rw [a3 (r.size + 0) (by rw [hc]; omega), hslot]
        simp
      · have := a2 (j - 1) (by omega) (by push_cast at hj1; omega)
        rw [hc] at this
        have e1 : r.size + 1 + (j - 1) = r.size + j := by ring
        have e2 : i + 1 + (j - 1) = i + j := by ring
        rw [e1, e2] at this
        exact this
    · rw [a3 j (by rw [hc]; omega), hslot]
      have : ¬ j = r.size := by omega
      simp [this]
    · obtain ⟨b1, b2, b3, b4, b5, b6⟩ := a4
      obtain ⟨c1, c2, c3, c4, c5, c6⟩ := hhead
      exact ⟨b1.trans c1, b2.trans c2, b3.trans c3, b4.trans c4, b5.trans c5, b6.trans c6⟩

end BPlusTreeLeafPage

namespace BPlusTree

theorem FindLeafPageLoop_leaf (t : BPlusTree) (key : KeyType) (leftMost : Bool) :
    ∀ (n : Nat) (pid leaf : page_id_t), FindLeafPageLoop t key leftMost n pid = some leaf →
      (t.page leaf).IsLeafPage = true := by
  intro n
  induction n with
  | zero => intro pid leaf h; simp [FindLeafPageLoop] at h
  | succ n ih =>
    intro pid leaf h
    rw [FindLeafPageLoop] at h
    by_cases hl : (t.page pid).IsLeafPage = true
    · simp only [hl, if_true] at h
      rw [← Option.some.inj h]; exact hl
    · simp only [hl, if_false] at h
      exact ih _ leaf h


/-- The pages after the part of `InsertIntoLeaf` that follows `Split`: the two
halves are stored and the new page is spliced into the sibling chain. -/
theorem splice_pages (S : BPlusTree) (leaf N : page_id_t) (hne : leaf ≠ N) :
    ∀ t5 : BPlusTree,
      t5 = (let moved := BPlusTreeLeafPage.MoveHalfTo (S.page leaf) (S.page N)
            let t3 := setTreePage (setTreePage S leaf moved.1) N moved.2
            let t4 := setTreePage t3 N
              { t3.page N with next_page_id := (t3.page leaf).next_page_id }
            setTreePage t4 leaf
              { t4.page leaf with next_page_id := (t4.page N).page_id }) →
      t5.page leaf
          = { (BPlusTreeLeafPage.MoveHalfTo (S.page leaf) (S.page N)).1 with
              next_page_id := (BPlusTreeLeafPage.MoveHalfTo (S.page leaf) (S.page N)).2.page_id }
      ∧ t5.page N
          = { (BPlusTreeLeafPage.MoveHalfTo (S.page leaf) (S.page N)).2 with
              next_page_id :=
                (BPlusTreeLeafPage.MoveHalfTo (S.page leaf) (S.page N)).1.next_page_id }
      ∧ (∀ y, y ≠ leaf → y ≠ N → t5.page y = S.page y)
      ∧ t5.next_page_id = S.next_page_id ∧ t5.root_page_id = S.root_page_id := by
  intro t5 h
  have hne2 : N ≠ leaf := fun e => hne e.symm
  subst h
  refine ⟨?_, ?_, fun y h1 h2 => ?_, rfl, rfl⟩
  · simp [page_setTreePage, hne, hne2]
  · simp [page_setTreePage, hne, hne2]
  · simp [page_setTreePage, h1, h2]

/-- The state after `Split` of a leaf page: the new page has the next page id,
it is an empty leaf page with the parent of the old one, and the other pages
are untouched. -/
theorem Split_leaf (t : BPlusTree) (leaf : page_id_t) (hfresh : leaf ≠ t.next_page_id)
    (hleaf : (t.page leaf).IsLeafPage = true) :
    (Split true t leaf).1 = t.next_page_id
    ∧ (Split true t leaf).2.page leaf = t.page leaf
    ∧ (Split true t leaf).2.page t.next_page_id
        = BPlusTreeLeafPage.Init (zeroPage t.oob) t.next_page_id
            (t.page leaf).parent_page_id t.leaf_max_size
    ∧ (∀ y, y ≠ t.next_page_id → (Split true t leaf).2.page y = t.page y)
    ∧ (Split true t leaf).2.next_page_id = t.next_page_id + 1
    ∧ (Split true t leaf).2.root_page_id = t.root_page_id := by
  have h1 : (NewPage t).2.page leaf = t.page leaf := by
    rw [page_NewPage]; simp [hfresh]
  have h2 : (NewPage t).2.page t.next_page_id = zeroPage t.oob := by
    rw [page_NewPage]; simp
  have h3 : (NewPage t).1 = t.next_page_id := rfl
  have h4 : (NewPage t).2.leaf_max_size = t.leaf_max_size := rfl
  refine ⟨rfl, ?_, ?_, fun y hy => ?_, rfl, rfl⟩
  · unfold Split
    simp only [page_setTreePage, h3, hfresh, if_false, h1]
  · unfold Split
    simp only [page_setTreePage, h3, if_true, h1, h2, hleaf, h4]
  · unfold Split
    simp only [page_setTreePage, h3, hy, if_false, page_NewPage]


/-- C15 (leaf split): when `Insert` on a non-empty tree reaches the leaf page
`leaf`, the key passes the duplicate test and `BPlusTreeLeafPage::Insert` returns
`leaf_max_size` (at least 2), then, with `p` the leaf page right after that
insertion and `N` the page id handed out by `NewPage`, the call continues as
`InsertIntoParent(leaf, first key of page N, N)` on a state in which: the old
leaf holds `⌈leaf_max_size / 2⌉` entries, the first slots of `p`; page `N` is a
leaf page with the parent of the old leaf that holds the remaining
`⌊leaf_max_size / 2⌋` entries of `p` in order; `N` follows the old leaf in the
`next_page_id` chain and is followed by the old successor; the key handed to
`InsertIntoParent` is the key of slot `⌈leaf_max_size / 2⌉` of `p`; and no other
page has changed. -/
theorem leaf_split (fuel : Nat) (t : BPlusTree) (key : KeyType) (value : ValueType)
    (leaf : page_id_t)
    (hroot : t.root_page_id ≠ INVALID_PAGE_ID)
    (hfind : FindLeafPage fuel t key false = some (some leaf))
    (hfresh : leaf ≠ t.next_page_id)
    (hsize : 0 ≤ (t.page leaf).size)
    (hmax : 2 ≤ t.leaf_max_size)
    (hnew : comparator key
      (BPlusTreeLeafPage.GetItem (t.page leaf)
        (BPlusTreeLeafPage.KeyIndex (t.page leaf) key)).1 ≠ 0)
    (hfull : (BPlusTreeLeafPage.Insert (t.page leaf) key value).1 = t.leaf_max_size) :
    ∃ t5 : BPlusTree,
      BPlusTree.Insert fuel t key value
        = (InsertIntoParent fuel t5 leaf ((t5.page t.next_page_id).slot 0).1
            t.next_page_id).map (fun t6 => (true, t6))
      ∧ (t5.page leaf).size = (t.leaf_max_size + 1) / 2
      ∧ (∀ i : Int, 0 ≤ i → i < (t.leaf_max_size + 1) / 2 →
          (t5.page leaf).slot i
            = (BPlusTreeLeafPage.Insert (t.page leaf) key value).2.slot i)
      ∧ (t5.page t.next_page_id).size = t.leaf_max_size / 2
      ∧ (∀ j : Int, 0 ≤ j → j < t.leaf_max_size / 2 →
          (t5.page t.next_page_id).slot j
            = (BPlusTreeLeafPage.Insert (t.page leaf) key value).2.slot
                ((t.leaf_max_size + 1) / 2 + j))
      ∧ (t5.page t.next_page_id).page_type = IndexPageType.LEAF_PAGE
      ∧ (t5.page t.next_page_id).page_id = t.next_page_id
      ∧ (t5.page t.next_page_id).max_size = t.leaf_max_size
      ∧ (t5.page t.next_page_id).parent_page_id = (t.page leaf).parent_page_id
      ∧ (t5.page t.next_page_id).next_page_id = (t.page leaf).next_page_id
      ∧ (t5.page leaf).next_page_id = t.next_page_id
      ∧ ((t5.page t.next_page_id).slot 0).1
          = ((BPlusTreeLeafPage.Insert (t.page leaf) key value).2.slot
              ((t.leaf_max_size + 1) / 2)).1
      ∧ (∀ y, y ≠ leaf → y ≠ t.next_page_id → t5.page y = t.page y)
      ∧ t5.next_page_id = t.next_page_id + 1 := by
  have hIns : BPlusTree.Insert fuel t key value = InsertIntoLeaf fuel t key value := by
    unfold BPlusTree.Insert
    rw [if_neg hroot]
  rw [hIns]
  unfold InsertIntoLeaf
  simp only [hfind, hnew, if_false]
  have hfull2 : ((BPlusTreeLeafPage.Insert (t.page leaf) key value).1
      = (setTreePage t leaf (BPlusTreeLeafPage.Insert (t.page leaf) key value).2).leaf_max_size)
      = True := by
    simp [setTreePage, hfull]
  simp only [hfull2, if_true]
  -- the leaf page after the insertion
  obtain ⟨p, hp⟩ : ∃ p, p = (BPlusTreeLeafPage.Insert (t.page leaf) key value).2 := ⟨_, rfl⟩
  obtain ⟨hhead, hpsize⟩ := BPlusTreeLeafPage.Insert_header (t.page leaf) key value
  have hpsz : p.size = t.leaf_max_size := by rw [hp, hpsize hsize, hfull]
  have hleaf0 : (t.page leaf).IsLeafPage = true := by
    unfold FindLeafPage at hfind
    rw [if_neg hroot] at hfind
    cases hl : FindLeafPageLoop t key false fuel t.root_page_id with
    | none => rw [hl] at hfind; simp at hfind
    | some x =>
      rw [hl] at hfind
      have hx : x = leaf := by simpa using hfind
      exact FindLeafPageLoop_leaf t key false fuel _ leaf (hx ▸ hl)
  have hpleaf : p.IsLeafPage = true := by
    unfold BPlusTreePage.IsLeafPage at hleaf0 ⊢
    rw [hp, hhead.1]; exact hleaf0
  rw [← hp]
  -- the state after `Split`
  have ht1page : (setTreePage t leaf p).page leaf = p := by
    rw [page_setTreePage]; simp
  obtain ⟨s1, s2, s3, s4, s5, s6⟩ := Split_leaf (setTreePage t leaf p) leaf hfresh
    (by rw [ht1page]; exact hpleaf)
  have hN : (setTreePage t leaf p).next_page_id = t.next_page_id := rfl
  rw [hN] at s1 s3 s4 s5
  rw [ht1page] at s2 s3
  have hoob : (setTreePage t leaf p).oob = t.oob := rfl
  have hlm : (setTreePage t leaf p).leaf_max_size = t.leaf_max_size := rfl
  rw [hoob, hlm] at s3
  rw [s1]
  obtain ⟨S, hS⟩ : ∃ S, S = (Split true (setTreePage t leaf p) leaf).2 := ⟨_, rfl⟩
  rw [← hS] at s2 s3 s4 s5 s6 ⊢
  obtain ⟨t5, ht5⟩ : ∃ t5 : BPlusTree,
      t5 = (let moved := BPlusTreeLeafPage.MoveHalfTo (S.page leaf) (S.page t.next_page_id)
            let t3 := setTreePage (setTreePage S leaf moved.1) t.next_page_id moved.2
            let t4 := setTreePage t3 t.next_page_id
              { t3.page t.next_page_id with next_page_id := (t3.page leaf).next_page_id }
            setTreePage t4 leaf
              { t4.page leaf with next_page_id := (t4.page t.next_page_id).page_id }) :=
    ⟨_, rfl⟩
  obtain ⟨g1, g2, g3, g4, _⟩ := splice_pages S leaf t.next_page_id hfresh t5 ht5
  rw [s2, s3] at g1 g2
  refine ⟨t5, by rw [ht5]; rfl, ?_⟩
  -- the two halves
  have hfs : (BPlusTreeLeafPage.Init (zeroPage t.oob) t.next_page_id p.parent_page_id
      t.leaf_max_size).size = 0 := rfl
  have hL0 : (0 : Int) ≤ t.leaf_max_size := by omega
  have htd : t.leaf_max_size.tdiv 2 = t.leaf_max_size / 2 :=
    Int.tdiv_eq_ediv hL0 (by decide)
  obtain ⟨m1, m2, _, m4⟩ := BPlusTreeLeafPage.MoveHalfToLoop_spec p
    (p.size - (p.size - p.size.tdiv 2)).toNat (p.size - p.size.tdiv 2)
    (BPlusTreeLeafPage.Init (zeroPage t.oob) t.next_page_id p.parent_page_id t.leaf_max_size)
    (by rw [hfs])
  rw [hfs, hpsz, htd] at m1 m2
  have hn : ((t.leaf_max_size - (t.leaf_max_size - t.leaf_max_size / 2)).toNat : Int)
      = t.leaf_max_size / 2 := by
    rw [Int.toNat_of_nonneg (by omega)]; omega
  have hceil : t.leaf_max_size - t.leaf_max_size / 2 = (t.leaf_max_size + 1) / 2 := by omega
  rw [hn, hceil] at m1 m2
  rw [hpsz, htd, hceil] at m4
  have hm2 : (BPlusTreeLeafPage.MoveHalfTo p
      (BPlusTreeLeafPage.Init (zeroPage t.oob) t.next_page_id p.parent_page_id
        t.leaf_max_size)).2
      = BPlusTreeLeafPage.MoveHalfToLoop p
          (t.leaf_max_size - (t.leaf_max_size + 1) / 2).toNat ((t.leaf_max_size + 1) / 2)
          (BPlusTreeLeafPage.Init (zeroPage t.oob) t.next_page_id p.parent_page_id
            t.leaf_max_size) := by
    unfold BPlusTreeLeafPage.MoveHalfTo
    rw [hpsz, htd, hceil]
  have hm1 : (BPlusTreeLeafPage.MoveHalfTo p
      (BPlusTreeLeafPage.Init (zeroPage t.oob) t.next_page_id p.parent_page_id
        t.leaf_max_size)).1 = p.DecreaseSize (t.leaf_max_size / 2) := by
    unfold BPlusTreeLeafPage.MoveHalfTo
    rw [hpsz, htd]
  rw [hm1, hm2] at g1 g2
  have hslotN : ∀ j : Int, 0 ≤ j → j < t.leaf_max_size / 2 →
      (BPlusTreeLeafPage.MoveHalfToLoop p
          (t.leaf_max_size - (t.leaf_max_size + 1) / 2).toNat ((t.leaf_max_size + 1) / 2)
          (BPlusTreeLeafPage.Init (zeroPage t.oob) t.next_page_id p.parent_page_id
            t.leaf_max_size)).slot j = p.slot ((t.leaf_max_size + 1) / 2 + j) := by
    intro j hj0 hj1
    have := m2 j hj0 hj1
    rwa [zero_add] at this
  obtain ⟨k1, k2, k3, k4, k5, _⟩ := m4
  refine ⟨?_, ?_, ?_, ?_, ?_, ?_, ?_, ?_, ?_, ?_, ?_, ?_, ?_⟩
  · rw [g1]
    show p.size - t.leaf_max_size / 2 = _
    rw [hpsz]; omega
  · intro i _ _
    rw [g1]; rfl
  · rw [g2]
    show (BPlusTreeLeafPage.MoveHalfToLoop p _ _ _).size = _
    rw [m1]; omega
  · intro j hj0 hj1
    rw [g2]
    exact hslotN j hj0 hj1
  · rw [g2]; exact k1
  · rw [g2]; exact k4
  · rw [g2]; exact k2
  · rw [g2]
    show (BPlusTreeLeafPage.MoveHalfToLoop p _ _ _).parent_page_id = _
    rw [k3]
    exact hp ▸ hhead.2.2.1
  · rw [g2]
    show (p.DecreaseSize (t.leaf_max_size / 2)).next_page_id = _
    exact hp ▸ hhead.2.2.2.2.1
  · rw [g1]
    show (BPlusTreeLeafPage.MoveHalfToLoop p _ _ _).page_id = _
    exact k4
  · rw [g2]
    have := hslotN 0 (le_refl _) (by omega)
    rw [add_zero] at this
    show ((BPlusTreeLeafPage.MoveHalfToLoop p _ _ _).slot 0).1 = _
    rw [this]
  · intro y h1 h2
    rw [g3 y h1 h2, s4 y h2, page_setTreePage]
    simp [h1]
  · rw [g4, s5]


/-- C15 witness: the fourth insertion into `leafSplitScenario` brings the root
leaf (page 1) to `leaf_max_size = 4` entries; the leaf keeps 2 entries and the
call continues with `InsertIntoParent` for the new page 2. -/
theorem leaf_split_witness :
    leafSplitScenario.root_page_id ≠ INVALID_PAGE_ID
    ∧ FindLeafPage 2 leafSplitScenario 4 false = some (some 1)
    ∧ (1 : page_id_t) ≠ leafSplitScenario.next_page_id
    ∧ 0 ≤ (leafSplitScenario.page 1).size
    ∧ 2 ≤ leafSplitScenario.leaf_max_size
    ∧ (BPlusTreeLeafPage.Insert (leafSplitScenario.page 1) 4 40).1
        = leafSplitScenario.leaf_max_size
    ∧ ∃ t5 : BPlusTree,
        BPlusTree.Insert 2 leafSplitScenario 4 40
          = (InsertIntoParent 2 t5 1 ((t5.page leafSplitScenario.next_page_id).slot 0).1
              leafSplitScenario.next_page_id).map (fun t6 => (true, t6))
        ∧ (t5.page 1).size = (leafSplitScenario.leaf_max_size + 1) / 2 :=
  ⟨by decide, by decide, by decide, by decide, by decide, by decide,
    (leaf_split 2 leafSplitScenario 4 40 1 (by decide) (by decide) (by decide) (by decide)
      (by decide) (by decide) (by decide)).imp fun _ h => ⟨h.1, h.2.1⟩⟩

/-- Boundary scenario 5 evaluated: `leaf_max_size = 4`, keys 1 to 4 inserted in
order. After three insertions the state is `leafSplitScenario`; the fourth
splits the root leaf: page 1 holds the keys 1 and 2, the new page 2 holds 3 and
4, page 1 is followed by page 2, which ends the chain, and the new root (page
3) routes with the single key 3, the first key of page 2. -/
theorem leaf_split_scenario :
    BPlusTree.InsertAll 2 (BPlusTree.construct 4 4 (-5)) [(1, 10), (2, 20), (3, 30)]
      = some ([true, true, true], leafSplitScenario)
    ∧ (BPlusTree.Insert 2 leafSplitScenario 4 40).map (fun r => (r.1, r.2.root_page_id))
      = some (true, 3)
    ∧ (BPlusTree.Insert 2 leafSplitScenario 4 40).map (fun r => r.2.entries 1)
      = some [(1, 10), (2, 20)]
    ∧ (BPlusTree.Insert 2 leafSplitScenario 4 40).map (fun r => r.2.entries 2)
      = some [(3, 30), (4, 40)]
    ∧ (BPlusTree.Insert 2 leafSplitScenario 4 40).map (fun r => r.2.entries 3)
      = some [(0, 1), (3, 2)]
    ∧ (BPlusTree.Insert 2 leafSplitScenario 4 40).map
        (fun r => ((r.2.page 1).next_page_id, (r.2.page 2).next_page_id))
      = some (2, -1)
    ∧ (BPlusTree.Insert 2 leafSplitScenario 4 40).map
        (fun r => ((r.2.page 1).parent_page_id, (r.2.page 2).parent_page_id))
      = some (3, 3)
    ∧ (BPlusTree.Insert 2 leafSplitScenario 4 40).map (fun r => (r.2.page 3).page_type)
      = some IndexPageType.INTERNAL_PAGE := by
  refine ⟨by decide, by decide, by decide, by decide, by decide, by decide, by decide,
    by decide⟩

end BPlusTree

/-! ## Extendible hash table: removal -/

/-- C16 (hash `Remove`), the code evaluated on a fresh table with bucket
capacity 4: the 11 pairs of `mergeScenarioPairs` are inserted (every `Insert`
returns true) and the pairs of the keys 0, 8 and 16 are removed (every `Remove`
returns true); `GetValue` of key 7 then reports the value 107. The next call,
`Remove(24, 124)`, returns true and empties a bucket, `Merge` shrinks the
directory, and afterwards `GetValue` of key 7 returns false with no value,
although the pair (7, 107) is still readable in bucket page 2. -/
theorem ExtendibleHashTable.remove_loses_other_key :
    (ExtendibleHashTable.InsertAll idHash 4 3 ExtendibleHashTable.construct
        mergeScenarioPairs).map Prod.fst
      = some [true, true, true, true, true, true, true, true, true, true, true]
    ∧ ((ExtendibleHashTable.InsertAll idHash 4 3 ExtendibleHashTable.construct
          mergeScenarioPairs).bind
        (fun r => ExtendibleHashTable.RemoveAll idHash 4 4 r.2
          [(0, 100), (8, 108), (16, 116)])).map
        (fun r => (r.1, ExtendibleHashTable.GetValue idHash 4 r.2 7))
      = some ([true, true, true], (true, [107]))
    ∧ ((ExtendibleHashTable.InsertAll idHash 4 3 ExtendibleHashTable.construct
          mergeScenarioPairs).bind
        (fun r => ExtendibleHashTable.RemoveAll idHash 4 4 r.2
          [(0, 100), (8, 108), (16, 116), (24, 124)])).map
        (fun r => (r.1, ExtendibleHashTable.GetValue idHash 4 r.2 7))
      = some ([true, true, true, true], (false, []))
    ∧ ((ExtendibleHashTable.InsertAll idHash 4 3 ExtendibleHashTable.construct
          mergeScenarioPairs).bind
        (fun r => ExtendibleHashTable.RemoveAll idHash 4 4 r.2
          [(0, 100), (8, 108), (16, 116), (24, 124)])).map
        (fun r => (r.2.directory.global_depth,
          HashTableBucketPage.GetValue 4 (r.2.bucket 2) 7 []))
      = some (2, (true, [107])) := by
  refine ⟨by decide, by decide, by decide, by decide⟩

/-! ## B+ tree on a pool that runs out of frames -/

theorem lookup_storePin (l : List (page_id_t × Nat)) (x y : page_id_t) (n : Nat) :
    (storePin l x n).lookup y = if y = x then some n else l.lookup y := by
  induction l with
  | nil =>
    by_cases h : y = x
    · simp [storePin, List.lookup, h]
    · have hb : (y == x) = false := by simpa using h
      simp [storePin, List.lookup, h, hb]
  | cons a l ih =>
    obtain ⟨q, r⟩ := a
    by_cases hq : q = x
    · subst hq
      by_cases h : y = q
      · simp [storePin, List.lookup, h]
      · have hb : (y == q) = false := by simpa using h
        simp [storePin, List.lookup, h, hb]
    · by_cases h : y = x
      · subst h
        have hne : ¬ y = q := fun e => hq e.symm
        have hb : (y == q) = false := by simpa using hne
        simp [storePin, List.lookup, hq, hb, ih]
      · by_cases hyq : y = q
        · simp [storePin, List.lookup, hq, hyq]
        · have hb : (y == q) = false := by simpa using hyq
          simp [storePin, List.lookup, hq, hb, ih, h]

namespace BPlusTreeOnPool

theorem pinCount_storePin (s : BPlusTreeOnPool) (t : BPlusTree) (x y : page_id_t) (n : Nat) :
    pinCount { s with tree := t, pins := storePin s.pins x n } y
      = if y = x then n else s.pinCount y := by
  unfold pinCount
  simp only [lookup_storePin]
  by_cases h : y = x <;> simp [h]

/-- A successful `FetchPage` adds one pin to the page and changes nothing else. -/
theorem FetchPage_true (s s1 : BPlusTreeOnPool) (pid : page_id_t)
    (h : s.FetchPage pid = (true, s1)) :
    s1.tree = s.tree ∧ s1.pool_size = s.pool_size
    ∧ ∀ q, s1.pinCount q = s.pinCount q + if q = pid then 1 else 0 := by
  unfold FetchPage at h
  by_cases hc : s.pinCount pid = 0 ∧ s.allPinned = true
  · rw [if_pos hc] at h; cases h
  · rw [if_neg hc] at h
    have e := (Prod.mk.inj h).2
    subst e
    refine ⟨rfl, rfl, fun q => ?_⟩
    have := pinCount_storePin s s.tree pid q (s.pinCount pid + 1)
    rw [this]
    by_cases hq : q = pid
    · subst hq; simp
    · simp [hq]

/-- A failed `FetchPage` changes nothing. -/
theorem FetchPage_false (s s1 : BPlusTreeOnPool) (pid : page_id_t)
    (h : s.FetchPage pid = (false, s1)) : s1 = s := by
  unfold FetchPage at h
  by_cases hc : s.pinCount pid = 0 ∧ s.allPinned = true
  · rw [if_pos hc] at h; exact (Prod.mk.inj h).2.symm
  · rw [if_neg hc] at h; cases h

theorem UnpinPage_facts (s : BPlusTreeOnPool) (pid : page_id_t) :
    (s.UnpinPage pid).tree = s.tree ∧ (s.UnpinPage pid).pool_size = s.pool_size
    ∧ ∀ q, (s.UnpinPage pid).pinCount q = if q = pid then s.pinCount pid - 1 else s.pinCount q :=
  ⟨rfl, rfl, fun q => pinCount_storePin s s.tree pid q (s.pinCount pid - 1)⟩

theorem setTreePage_facts (s : BPlusTreeOnPool) (pid : page_id_t) (p : BPlusTreePage) :
    (s.setTreePage pid p).tree = s.tree.setTreePage pid p
    ∧ (s.setTreePage pid p).pins = s.pins
    ∧ (s.setTreePage pid p).pool_size = s.pool_size
    ∧ (∀ q, (s.setTreePage pid p).pinCount q = s.pinCount q)
    ∧ (s.setTreePage pid p).allPinned = s.allPinned :=
  ⟨rfl, rfl, rfl, fun _ => rfl, rfl⟩

/-- The pool hands out no page exactly when every frame is pinned. -/
theorem NewPage_none (s : BPlusTreeOnPool) :
    (s.NewPage).1 = none ↔ s.allPinned = true := by
  unfold NewPage
  by_cases h : s.allPinned = true
  · simp [h]
  · simp [h]

theorem NewPage_of_allPinned (s : BPlusTreeOnPool) (h : s.allPinned = true) :
    s.NewPage = (none, s) := by
  unfold NewPage; simp [h]

/-- A successful `NewPage`: the page id is the next one of the allocator, the page is
pinned once, and no other pin count changes. -/
theorem NewPage_some (s s1 : BPlusTreeOnPool) (pid : page_id_t)
    (h : s.NewPage = (some pid, s1)) :
    pid = s.tree.next_page_id ∧ s1.tree = (BPlusTree.NewPage s.tree).2
    ∧ s1.pool_size = s.pool_size
    ∧ ∀ q, s1.pinCount q = if q = pid then 1 else s.pinCount q := by
  unfold NewPage at h
  by_cases hc : s.allPinned = true
  · rw [if_pos hc] at h; cases h
  · rw [if_neg hc] at h
    obtain ⟨e1, e2⟩ := Prod.mk.inj h
    have e1 := Option.some.inj e1
    subst e2
    refine ⟨e1.symm, rfl, rfl, fun q => ?_⟩
    rw [← e1]
    exact pinCount_storePin s _ s.tree.next_page_id q 1

/-- The descent of `FindLeafPage` keeps one pin, on the page it stands on: when it
returns, the leaf carries one pin more than before the call and nothing else
has changed. -/
theorem FindLeafPageLoop_spec (key : KeyType) (leftMost : Bool) (s0 : BPlusTreeOnPool) :
    ∀ (n : Nat) (s : BPlusTreeOnPool) (pid leaf : page_id_t) (s1 : BPlusTreeOnPool),
      FindLeafPageLoop key leftMost n s pid = (Outcome.ok leaf, s1) →
      s.tree = s0.tree → s.pool_size = s0.pool_size →
      (∀ q, s.pinCount q = s0.pinCount q + if q = pid then 1 else 0) →
      s1.tree = s0.tree ∧ s1.pool_size = s0.pool_size
      ∧ (∀ q, s1.pinCount q = s0.pinCount q + if q = leaf then 1 else 0)
      ∧ (s0.tree.page leaf).IsLeafPage = true := by
  intro n
  induction n with
  | zero => intro s pid leaf s1 h; simp [FindLeafPageLoop] at h
  | succ n ih =>
    intro s pid leaf s1 h ht hp hq
    rw [FindLeafPageLoop] at h
    by_cases hl : (s.tree.page pid).IsLeafPage = true
    · rw [if_pos hl] at h
      obtain ⟨e1, e2⟩ := Prod.mk.inj h
      have e1 : pid = leaf := by injection e1
      subst e1; subst e2
      exact ⟨ht, hp, hq, ht ▸ hl⟩
    · rw [if_neg hl] at h
      generalize hnext : (if leftMost = true then BPlusTreeInternalPage.ValueAt (s.tree.page pid) 0
          else BPlusTreeInternalPage.Lookup (s.tree.page pid) key) = next at h
      cases hf : (s.UnpinPage pid).FetchPage next with
      | mk b s2 =>
        rw [hf] at h
        cases b with
        | false => simp at h
        | true =>
          simp only at h
          obtain ⟨f1, f2, f3⟩ := FetchPage_true _ _ _ hf
          obtain ⟨u1, u2, u3⟩ := UnpinPage_facts s pid
          refine ih s2 next leaf s1 h (by rw [f1, u1, ht]) (by rw [f2, u2, hp]) (fun q => ?_)
          rw [f3, u3, hq pid]
          by_cases e : q = pid
          · simp [e]
          · rw [if_neg e, hq q, if_neg e, Nat.add_zero]

theorem FindLeafPage_spec (fuel : Nat) (s s1 : BPlusTreeOnPool) (key : KeyType)
    (leftMost : Bool) (leaf : page_id_t)
    (h : FindLeafPage fuel s key leftMost = (Outcome.ok leaf, s1)) :
    s1.tree = s.tree ∧ s1.pool_size = s.pool_size
    ∧ (∀ q, s1.pinCount q = s.pinCount q + if q = leaf then 1 else 0)
    ∧ (s.tree.page leaf).IsLeafPage = true := by
  unfold FindLeafPage at h
  cases hf : s.FetchPage s.tree.root_page_id with
  | mk b s2 =>
    rw [hf] at h
    cases b with
    | false => simp at h
    | true =>
      simp only at h
      obtain ⟨f1, f2, f3⟩ := FetchPage_true _ _ _ hf
      exact FindLeafPageLoop_spec key leftMost s fuel s2 _ leaf s1 h f1 f2 f3

end BPlusTreeOnPool
namespace BPlusTreeOnPool

theorem NewPage_none_state (s s1 : BPlusTreeOnPool) (h : s.NewPage = (none, s1)) : s1 = s := by
  unfold NewPage at h
  by_cases hc : s.allPinned = true
  · rw [if_pos hc] at h; exact (Prod.mk.inj h).2.symm
  · rw [if_neg hc] at h; cases h

/-- The header page is fetched and unpinned again: `UpdateRootPageId` changes no pin
count. -/
theorem UpdateRootPageId_facts (s s1 : BPlusTreeOnPool) (b : Bool)
    (h : s.UpdateRootPageId = (b, s1)) :
    s1.tree = s.tree ∧ s1.pool_size = s.pool_size ∧ ∀ q, s1.pinCount q = s.pinCount q := by
  unfold UpdateRootPageId at h
  cases hf : s.FetchPage HEADER_PAGE_ID with
  | mk c s2 =>
    rw [hf] at h
    cases c with
    | false =>
      simp only at h
      have e := (Prod.mk.inj h).2
      rw [← e, FetchPage_false _ _ _ hf]
      exact ⟨rfl, rfl, fun _ => rfl⟩
    | true =>
      simp only at h
      have e := (Prod.mk.inj h).2
      obtain ⟨f1, f2, f3⟩ := FetchPage_true _ _ _ hf
      obtain ⟨u1, u2, u3⟩ := UnpinPage_facts s2 HEADER_PAGE_ID
      rw [← e]
      refine ⟨u1.trans f1, u2.trans f2, fun q => ?_⟩
      rw [u3]
      by_cases hq : q = HEADER_PAGE_ID
      · rw [if_pos hq, f3, if_pos rfl, hq]; omega
      · rw [if_neg hq, f3, if_neg hq, Nat.add_zero]

/-- The child is fetched and unpinned again: `CopyLastFrom` changes no pin count and
allocates nothing. -/
theorem InternalCopyLastFrom_facts (s s1 : BPlusTreeOnPool) (recipient : page_id_t)
    (pair : MappingType) (b : Bool) (h : InternalCopyLastFrom s recipient pair = (b, s1)) :
    s1.tree.next_page_id = s.tree.next_page_id ∧ s1.pool_size = s.pool_size
    ∧ ∀ q, s1.pinCount q = s.pinCount q := by
  unfold InternalCopyLastFrom at h
  cases hf : s.FetchPage pair.2 with
  | mk c s2 =>
    rw [hf] at h
    cases c with
    | false =>
      simp only at h
      have e := (Prod.mk.inj h).2
      rw [← e, FetchPage_false _ _ _ hf]
      exact ⟨rfl, rfl, fun _ => rfl⟩
    | true =>
      simp only at h
      have e := (Prod.mk.inj h).2
      obtain ⟨f1, f2, f3⟩ := FetchPage_true _ _ _ hf
      rw [← e]
      refine ⟨?_, f2, fun q => ?_⟩
      · show (BPlusTree.InternalCopyLastFrom s2.tree recipient pair).next_page_id = _
        rw [← f1]; rfl
      · have u3 := pinCount_storePin s2 (BPlusTree.InternalCopyLastFrom s2.tree recipient pair)
          pair.2 q (s2.pinCount pair.2 - 1)
        have : (UnpinPage { s2 with tree := BPlusTree.InternalCopyLastFrom s2.tree recipient pair }
            pair.2).pinCount q = if q = pair.2 then s2.pinCount pair.2 - 1 else s2.pinCount q := u3
        rw [this]
        by_cases hq : q = pair.2
        · rw [if_pos hq, f3, if_pos rfl, hq]; omega
        · rw [if_neg hq, f3, if_neg hq, Nat.add_zero]

theorem InternalMoveHalfToLoop_facts (node recipient : page_id_t) :
    ∀ (n : Nat) (i : Int) (s s1 : BPlusTreeOnPool) (b : Bool),
      InternalMoveHalfToLoop node recipient n i s = (b, s1) →
      s1.tree.next_page_id = s.tree.next_page_id ∧ s1.pool_size = s.pool_size
      ∧ ∀ q, s1.pinCount q = s.pinCount q := by
  intro n
  induction n with
  | zero =>
    intro i s s1 b h
    rw [InternalMoveHalfToLoop] at h
    rw [← (Prod.mk.inj h).2]
    exact ⟨rfl, rfl, fun _ => rfl⟩
  | succ n ih =>
    intro i s s1 b h
    rw [InternalMoveHalfToLoop] at h
    cases hc : InternalCopyLastFrom s recipient ((s.tree.page node).slot i) with
    | mk c s2 =>
      rw [hc] at h
      obtain ⟨c1, c2, c3⟩ := InternalCopyLastFrom_facts _ _ _ _ _ hc
      cases c with
      | false =>
        simp only at h
        rw [← (Prod.mk.inj h).2]
        exact ⟨c1, c2, c3⟩
      | true =>
        simp only at h
        obtain ⟨a1, a2, a3⟩ := ih _ _ _ _ h
        exact ⟨a1.trans c1, a2.trans c2, fun q => (a3 q).trans (c3 q)⟩

theorem InternalMoveHalfTo_facts (s s1 : BPlusTreeOnPool) (node recipient : page_id_t) (b : Bool)
    (h : InternalMoveHalfTo s node recipient = (b, s1)) :
    s1.tree.next_page_id = s.tree.next_page_id ∧ s1.pool_size = s.pool_size
    ∧ ∀ q, s1.pinCount q = s.pinCount q := by
  unfold InternalMoveHalfTo at h
  cases hc : InternalMoveHalfToLoop node recipient
      ((s.tree.page node).size
        - ((s.tree.page node).size - (s.tree.page node).size.tdiv 2)).toNat
      ((s.tree.page node).size - (s.tree.page node).size.tdiv 2) s with
  | mk c s2 =>
    rw [hc] at h
    obtain ⟨c1, c2, c3⟩ := InternalMoveHalfToLoop_facts _ _ _ _ _ _ _ hc
    cases c with
    | false =>
      simp only at h
      rw [← (Prod.mk.inj h).2]
      exact ⟨c1, c2, c3⟩
    | true =>
      simp only at h
      rw [← (Prod.mk.inj h).2]
      exact ⟨c1, c2, c3⟩

/-- What `Split` does to the pool: nothing when the exception is thrown, one new page
pinned once otherwise. -/
theorem Split_facts (leafTemplate : Bool) (s s1 : BPlusTreeOnPool) (node : page_id_t)
    (r : Option page_id_t) (h : Split leafTemplate s node = (r, s1)) :
    (r = none → s1 = s ∧ s.allPinned = true)
    ∧ (∀ pid, r = some pid →
        pid = s.tree.next_page_id ∧ s1.tree.next_page_id = s.tree.next_page_id + 1
        ∧ s1.pool_size = s.pool_size
        ∧ ∀ q, s1.pinCount q = if q = pid then 1 else s.pinCount q) := by
  unfold Split at h
  cases hn : s.NewPage with
  | mk r2 s2 =>
    rw [hn] at h
    cases r2 with
    | none =>
      simp only at h
      obtain ⟨e1, e2⟩ := Prod.mk.inj h
      refine ⟨fun _ => ⟨?_, ?_⟩, fun pid hp => ?_⟩
      · rw [← e2]; exact NewPage_none_state _ _ hn
      · exact (NewPage_none s).mp (by rw [hn])
      · rw [← e1] at hp; cases hp
    | some pid2 =>
      simp only at h
      obtain ⟨e1, e2⟩ := Prod.mk.inj h
      obtain ⟨n1, n2, n3, n4⟩ := NewPage_some _ _ _ hn
      refine ⟨fun hr => ?_, fun pid hp => ?_⟩
      · rw [← e1] at hr; cases hr
      · rw [← e1] at hp
        have hp := Option.some.inj hp
        subst hp
        rw [← e2]
        refine ⟨n1, ?_, n3, n4⟩
        show (BPlusTree.setTreePage s2.tree _ _).next_page_id = _
        rw [n2]; rfl

end BPlusTreeOnPool
namespace BPlusTreeOnPool

/-- However `InsertIntoParent` ends, no page that existed before the call has fewer
pins after it. -/
theorem InsertIntoParent_pins :
    ∀ (fuel : Nat) (s : BPlusTreeOnPool) (old_node : page_id_t) (key : KeyType)
      (new_node : page_id_t) (o : Outcome Unit) (s1 : BPlusTreeOnPool),
      InsertIntoParent fuel s old_node key new_node = (o, s1) →
      s.tree.next_page_id ≤ s1.tree.next_page_id
      ∧ ∀ q, q < s.tree.next_page_id → s.pinCount q ≤ s1.pinCount q := by
  intro fuel
  induction fuel with
  | zero =>
    intro s old_node key new_node o s1 h
    rw [InsertIntoParent] at h
    rw [← (Prod.mk.inj h).2]
    exact ⟨le_refl _, fun _ _ => le_refl _⟩
  | succ fuel ih =>
    intro s old_node key new_node o s1 h
    rw [InsertIntoParent] at h
    by_cases hr : (s.tree.page old_node).IsRootPage = true
    · rw [if_pos hr] at h
      cases hn : s.NewPage with
      | mk r s2 =>
        rw [hn] at h
        cases r with
        | none =>
          simp only at h
          rw [← (Prod.mk.inj h).2, NewPage_none_state _ _ hn]
          exact ⟨le_refl _, fun _ _ => le_refl _⟩
        | some pid =>
          simp only at h
          obtain ⟨n1, n2, n3, n4⟩ := NewPage_some _ _ _ hn
          have hnext : s2.tree.next_page_id = s.tree.next_page_id + 1 := by rw [n2]; rfl
          generalize hs6 : (BPlusTreeOnPool.setTreePage _ pid
            (BPlusTreeInternalPage.PopulateNewRoot _ _ key _)) = s6 at h
          have h6t : s6.tree.next_page_id = s2.tree.next_page_id := by rw [← hs6]; rfl
          have h6p : ∀ q, s6.pinCount q = s2.pinCount q := by intro q; rw [← hs6]; rfl
          cases hu : s6.UpdateRootPageId with
          | mk b s7 =>
            rw [hu] at h
            obtain ⟨u1, u2, u3⟩ := UpdateRootPageId_facts _ _ _ hu
            have key1 : ∀ q, q < s.tree.next_page_id → s7.pinCount q = s.pinCount q := by
              intro q hq
              have hne : ¬ q = pid := by rw [n1]; exact ne_of_lt hq
              rw [u3, h6p, n4, if_neg hne]
            have key2 : s7.tree.next_page_id = s.tree.next_page_id + 1 := by
              rw [u1, h6t, hnext]
            cases b with
            | false =>
              simp only at h
              rw [← (Prod.mk.inj h).2]
              exact ⟨by rw [key2]; exact (lt_add_one _).le, fun q hq => le_of_eq (key1 q hq).symm⟩
            | true =>
              simp only at h
              rw [← (Prod.mk.inj h).2]
              obtain ⟨v1, v2, v3⟩ := UnpinPage_facts s7 pid
              refine ⟨by rw [v1, key2]; exact (lt_add_one _).le, fun q hq => ?_⟩
              have hne : ¬ q = pid := by rw [n1]; exact ne_of_lt hq
              rw [v3, if_neg hne, key1 q hq]
    · rw [if_neg hr] at h
      generalize hppid : (s.tree.page old_node).parent_page_id = ppid at h
      dsimp only at h
      cases hf : s.FetchPage ppid with
      | mk b s2 =>
        rw [hf] at h
        cases b with
        | false =>
          simp only at h
          rw [← (Prod.mk.inj h).2, FetchPage_false _ _ _ hf]
          exact ⟨le_refl _, fun _ _ => le_refl _⟩
        | true =>
          simp only at h
          obtain ⟨f1, f2, f3⟩ := FetchPage_true _ _ _ hf
          generalize hs3 : (s2.setTreePage ppid
            (BPlusTreeInternalPage.InsertNodeAfter (s2.tree.page ppid)
              (s2.tree.page old_node).page_id key (s2.tree.page new_node).page_id).2) = s3 at h
          have h3t : s3.tree.next_page_id = s.tree.next_page_id := by
            rw [← hs3]; show (BPlusTree.setTreePage s2.tree _ _).next_page_id = _
            rw [f1]; rfl
          have h3p : ∀ q, s3.pinCount q = s.pinCount q + if q = ppid then 1 else 0 := by
            intro q; rw [← hs3]; exact f3 q
          by_cases hfull : (BPlusTreeInternalPage.InsertNodeAfter (s2.tree.page ppid)
              (s2.tree.page old_node).page_id key (s2.tree.page new_node).page_id).1
                = s3.tree.internal_max_size
          · rw [if_pos hfull] at h
            cases hsp : Split false s3 ppid with
            | mk r s4 =>
              rw [hsp] at h
              obtain ⟨sp1, sp2⟩ := Split_facts _ _ _ _ _ hsp
              cases r with
              | none =>
                simp only at h
                rw [← (Prod.mk.inj h).2, (sp1 rfl).1]
                refine ⟨le_of_eq h3t.symm, fun q _ => ?_⟩
                rw [h3p]; omega
              | some new_internal =>
                simp only at h
                obtain ⟨t1, t2, t3, t4⟩ := sp2 _ rfl
                cases hm : InternalMoveHalfTo s4 ppid new_internal with
                | mk b2 s5 =>
                  rw [hm] at h
                  obtain ⟨m1, m2, m3⟩ := InternalMoveHalfTo_facts _ _ _ _ _ hm
                  have h5t : s5.tree.next_page_id = s.tree.next_page_id + 1 := by
                    rw [m1, t2, h3t]
                  have h5p : ∀ q, q < s.tree.next_page_id →
                      s5.pinCount q = s.pinCount q + if q = ppid then 1 else 0 := by
                    intro q hq
                    have hne : ¬ q = new_internal := by
                      rw [t1, h3t]; exact ne_of_lt hq
                    rw [m3, t4, if_neg hne, h3p]
                  have hle5 : s.tree.next_page_id ≤ s5.tree.next_page_id := by
                    rw [h5t]; exact (lt_add_one _).le
                  cases b2 with
                  | false =>
                    simp only at h
                    rw [← (Prod.mk.inj h).2]
                    refine ⟨hle5, fun q hq => ?_⟩
                    rw [h5p q hq]; omega
                  | true =>
                    simp only at h
                    cases hrec : InsertIntoParent fuel s5 ppid
                        (BPlusTreeInternalPage.KeyAt (s5.tree.page new_internal) 0)
                        new_internal with
                    | mk o2 s6 =>
                      rw [hrec] at h
                      obtain ⟨r1, r2⟩ := ih _ _ _ _ _ _ hrec
                      have h6p : ∀ q, q < s.tree.next_page_id →
                          s.pinCount q + (if q = ppid then 1 else 0) ≤ s6.pinCount q := by
                        intro q hq
                        have := r2 q (lt_of_lt_of_le hq hle5)
                        rw [h5p q hq] at this
                        exact this
                      cases o2 with
                      | ok u =>
                        simp only at h
                        rw [← (Prod.mk.inj h).2]
                        obtain ⟨v1, v2, v3⟩ := UnpinPage_facts s6 new_internal
                        obtain ⟨w1, w2, w3⟩ := UnpinPage_facts (s6.UnpinPage new_internal) ppid
                        refine ⟨by rw [w1, v1]; exact le_trans hle5 r1, fun q hq => ?_⟩
                        have hne : ¬ q = new_internal := by
                          rw [t1, h3t]; exact ne_of_lt hq
                        have h6 := h6p q hq
                        rw [w3]
                        by_cases hq2 : q = ppid
                        · rw [if_pos hq2, v3, ← hq2, if_neg hne]
                          rw [if_pos hq2] at h6
                          omega
                        · rw [if_neg hq2, v3, if_neg hne]
                          rw [if_neg hq2] at h6
                          omega
                      | outOfMemory =>
                        simp only at h
                        rw [← (Prod.mk.inj h).2]
                        refine ⟨le_trans hle5 r1, fun q hq => ?_⟩
                        have h6 := h6p q hq
                        split at h6 <;> omega
                      | nullDeref =>
                        simp only at h
                        rw [← (Prod.mk.inj h).2]
                        refine ⟨le_trans hle5 r1, fun q hq => ?_⟩
                        have h6 := h6p q hq
                        split at h6 <;> omega
                      | outOfFuel =>
                        simp only at h
                        rw [← (Prod.mk.inj h).2]
                        refine ⟨le_trans hle5 r1, fun q hq => ?_⟩
                        have h6 := h6p q hq
                        split at h6 <;> omega
          · rw [if_neg hfull] at h
            rw [← (Prod.mk.inj h).2]
            obtain ⟨v1, v2, v3⟩ := UnpinPage_facts s3 ppid
            refine ⟨by rw [v1, h3t], fun q _ => ?_⟩
            rw [v3]
            by_cases hq2 : q = ppid
            · rw [if_pos hq2, h3p, if_pos rfl, hq2]; omega
            · rw [if_neg hq2, h3p, if_neg hq2]; omega

end BPlusTreeOnPool
namespace BPlusTreeOnPool

theorem Split_of_allPinned (leafTemplate : Bool) (s : BPlusTreeOnPool) (node : page_id_t)
    (h : s.allPinned = true) : Split leafTemplate s node = (none, s) := by
  unfold Split
  rw [NewPage_of_allPinned s h]

/-- When a frame is left, `Split` changes the tree as the tree model does, and pins the
new page once. -/
theorem Split_of_frame (leafTemplate : Bool) (s : BPlusTreeOnPool) (node : page_id_t)
    (h : s.allPinned = false) :
    Split leafTemplate s node
      = (some s.tree.next_page_id,
          { s with
            tree := (BPlusTree.Split leafTemplate s.tree node).2
            pins := storePin s.pins s.tree.next_page_id 1 }) := by
  unfold Split NewPage
  simp only [h, Bool.false_eq_true, if_false]
  rfl

/-- First leaf: when the pool hands out no page for it, `Insert` on an empty tree throws
and changes nothing. -/
theorem Insert_first_leaf (fuel : Nat) (s : BPlusTreeOnPool) (key : KeyType) (value : ValueType)
    (hroot : s.tree.root_page_id = INVALID_PAGE_ID) (hpool : (s.NewPage).1 = none) :
    Insert fuel s key value = (Outcome.outOfMemory, s) := by
  have h := (NewPage_none s).mp hpool
  unfold Insert StartNewTree
  rw [if_pos hroot, NewPage_of_allPinned s h]

/-- Sibling of a leaf: when the pool hands out no page for it, `Insert` throws with the
pair already stored in the leaf and the leaf still pinned. -/
theorem Insert_leaf_sibling (fuel : Nat) (s s1 : BPlusTreeOnPool) (key : KeyType)
    (value : ValueType) (leaf : page_id_t)
    (hroot : s.tree.root_page_id ≠ INVALID_PAGE_ID)
    (hfind : FindLeafPage fuel s key false = (Outcome.ok leaf, s1))
    (hsize : 0 ≤ (s.tree.page leaf).size)
    (hnew : comparator key
      (BPlusTreeLeafPage.GetItem (s.tree.page leaf)
        (BPlusTreeLeafPage.KeyIndex (s.tree.page leaf) key)).1 ≠ 0)
    (hfull : (BPlusTreeLeafPage.Insert (s.tree.page leaf) key value).1 = s.tree.leaf_max_size)
    (hpool : (s1.NewPage).1 = none) :
    ∃ s2 : BPlusTreeOnPool,
      Insert fuel s key value = (Outcome.outOfMemory, s2)
      ∧ s2.tree
          = s.tree.setTreePage leaf (BPlusTreeLeafPage.Insert (s.tree.page leaf) key value).2
      ∧ (s2.tree.page leaf).size = s.tree.leaf_max_size
      ∧ (∀ q, s2.pinCount q = s.pinCount q + if q = leaf then 1 else 0) := by
  obtain ⟨f1, f2, f3, f4⟩ := FindLeafPage_spec _ _ _ _ _ _ hfind
  have hall : s1.allPinned = true := (NewPage_none s1).mp hpool
  refine ⟨s1.setTreePage leaf (BPlusTreeLeafPage.Insert (s.tree.page leaf) key value).2,
    ?_, ?_, ?_, fun q => f3 q⟩
  · unfold Insert InsertIntoLeaf
    rw [if_neg hroot, hfind]
    simp only [f1]
    rw [if_neg hnew]
    have hfull2 : (BPlusTreeLeafPage.Insert (s.tree.page leaf) key value).1
        = (s1.setTreePage leaf
            (BPlusTreeLeafPage.Insert (s.tree.page leaf) key value).2).tree.leaf_max_size := by
      rw [hfull, ← f1]; rfl
    rw [if_pos hfull2, Split_of_allPinned true
      (s1.setTreePage leaf (BPlusTreeLeafPage.Insert (s.tree.page leaf) key value).2) leaf hall]
  · show BPlusTree.setTreePage s1.tree _ _ = _
    rw [f1]
  · show ((BPlusTree.setTreePage s1.tree leaf _).page leaf).size = _
    rw [BPlusTree.page_setTreePage, if_pos rfl,
      (BPlusTreeLeafPage.Insert_header (s.tree.page leaf) key value).2 hsize, hfull]

/-- Whenever `Insert` on a non-empty tree throws, the leaf that `FindLeafPage` returned
is left with one pin more than before the call, at least. -/
theorem Insert_leaves_leaf_pinned (fuel : Nat) (s s1 s2 : BPlusTreeOnPool) (key : KeyType)
    (value : ValueType) (leaf : page_id_t)
    (hroot : s.tree.root_page_id ≠ INVALID_PAGE_ID)
    (hfind : FindLeafPage fuel s key false = (Outcome.ok leaf, s1))
    (hfresh : leaf < s.tree.next_page_id)
    (hthrow : Insert fuel s key value = (Outcome.outOfMemory, s2)) :
    s.pinCount leaf + 1 ≤ s2.pinCount leaf := by
  obtain ⟨f1, f2, f3, f4⟩ := FindLeafPage_spec _ _ _ _ _ _ hfind
  have hleaf1 : s1.pinCount leaf = s.pinCount leaf + 1 := by rw [f3, if_pos rfl]
  unfold Insert InsertIntoLeaf at hthrow
  rw [if_neg hroot, hfind] at hthrow
  dsimp only at hthrow
  split at hthrow
  · cases (Prod.mk.inj hthrow).1
  · generalize hs2 : s1.setTreePage leaf
        (BPlusTreeLeafPage.Insert (s1.tree.page leaf) key value).2 = t2 at hthrow
    have h2t : t2.tree.next_page_id = s.tree.next_page_id := by
      rw [← hs2]; show (BPlusTree.setTreePage s1.tree _ _).next_page_id = _
      rw [f1]; rfl
    have h2p : ∀ q, t2.pinCount q = s1.pinCount q := by intro q; rw [← hs2]; rfl
    split at hthrow
    · cases hsp : Split true t2 leaf with
      | mk r t3 =>
        rw [hsp] at hthrow
        obtain ⟨sp1, sp2⟩ := Split_facts _ _ _ _ _ hsp
        cases r with
        | none =>
          simp only at hthrow
          rw [← (Prod.mk.inj hthrow).2, (sp1 rfl).1, h2p, hleaf1]
        | some new_leaf =>
          simp only at hthrow
          obtain ⟨t1, t2n, t3p, t4⟩ := sp2 _ rfl
          generalize hs6 : (BPlusTreeOnPool.setTreePage _ leaf _) = t6 at hthrow
          have h6t : t6.tree.next_page_id = t3.tree.next_page_id := by rw [← hs6]; rfl
          have h6p : ∀ q, t6.pinCount q = t3.pinCount q := by intro q; rw [← hs6]; rfl
          generalize hk : BPlusTreeLeafPage.KeyAt (t6.tree.page new_leaf) 0 = k at hthrow
          cases hrec : InsertIntoParent fuel t6 leaf k new_leaf with
          | mk o t7 =>
            rw [hrec] at hthrow
            obtain ⟨r1, r2⟩ := InsertIntoParent_pins _ _ _ _ _ _ _ hrec
            have hne : ¬ leaf = new_leaf := by rw [t1, h2t]; exact ne_of_lt hfresh
            have hlt : leaf < t6.tree.next_page_id := by
              rw [h6t, t2n, h2t]; exact lt_trans hfresh (lt_add_one _)
            have h7 := r2 leaf hlt
            rw [h6p, t4, if_neg hne, h2p, hleaf1] at h7
            cases o with
            | ok u => simp only at hthrow; cases (Prod.mk.inj hthrow).1
            | outOfMemory =>
              simp only at hthrow
              rw [← (Prod.mk.inj hthrow).2]; exact h7
            | nullDeref => simp only at hthrow; cases (Prod.mk.inj hthrow).1
            | outOfFuel => simp only at hthrow; cases (Prod.mk.inj hthrow).1
    · cases (Prod.mk.inj hthrow).1

end BPlusTreeOnPool
namespace BPlusTreeOnPool

/-- Root above a root leaf: when the pool hands out the sibling but no page for the new
root, `Insert` throws with the root unchanged and both halves of the leaf
pinned. -/
theorem Insert_root_above_leaf (fuel : Nat) (s s1 : BPlusTreeOnPool) (key : KeyType)
    (value : ValueType)
    (hroot : s.tree.root_page_id ≠ INVALID_PAGE_ID)
    (hleaf : (s.tree.page s.tree.root_page_id).IsLeafPage = true)
    (hisroot : (s.tree.page s.tree.root_page_id).IsRootPage = true)
    (hfresh : s.tree.root_page_id ≠ s.tree.next_page_id)
    (hnew : comparator key
      (BPlusTreeLeafPage.GetItem (s.tree.page s.tree.root_page_id)
        (BPlusTreeLeafPage.KeyIndex (s.tree.page s.tree.root_page_id) key)).1 ≠ 0)
    (hfull : (BPlusTreeLeafPage.Insert (s.tree.page s.tree.root_page_id) key value).1
      = s.tree.leaf_max_size)
    (hfetch : s.FetchPage s.tree.root_page_id = (true, s1))
    (hsib : (s1.NewPage).1 ≠ none)
    (hpool : ((s1.NewPage).2.NewPage).1 = none) :
    ∃ s2 : BPlusTreeOnPool,
      Insert (fuel + 1) s key value = (Outcome.outOfMemory, s2)
      ∧ s2.tree.root_page_id = s.tree.root_page_id
      ∧ s2.pinCount s.tree.root_page_id = s.pinCount s.tree.root_page_id + 1
      ∧ s2.pinCount s.tree.next_page_id = 1 := by
  obtain ⟨f1, f2, f3⟩ := FetchPage_true _ _ _ hfetch
  generalize hleafid : s.tree.root_page_id = leaf at *
  have hfind : FindLeafPage (fuel + 1) s key false = (Outcome.ok leaf, s1) := by
    unfold FindLeafPage
    rw [hleafid, hfetch]
    simp only
    rw [FindLeafPageLoop, if_pos (by rw [f1]; exact hleaf)]
  have hfree : s1.allPinned = false := by
    cases h : s1.allPinned with
    | false => rfl
    | true => exact absurd ((NewPage_none s1).mpr h) hsib
  obtain ⟨p, hp⟩ : ∃ p, p = (BPlusTreeLeafPage.Insert (s.tree.page leaf) key value).2 := ⟨_, rfl⟩
  have hhead := (BPlusTreeLeafPage.Insert_header (s.tree.page leaf) key value).1
  rw [← hp] at hhead
  have hall : allPinned { s1 with pins := storePin s1.pins s1.tree.next_page_id 1 } = true := by
    have h := (NewPage_none _).mp hpool
    unfold NewPage at h
    rw [hfree] at h
    exact h
  -- the tree after the split
  obtain ⟨S, hS⟩ : ∃ S, S = (BPlusTree.Split true (s.tree.setTreePage leaf p) leaf).2 := ⟨_, rfl⟩
  have hpage : (s.tree.setTreePage leaf p).page leaf = p := by
    rw [BPlusTree.page_setTreePage, if_pos rfl]
  obtain ⟨_, sl2, _, _, _, sl6⟩ := BPlusTree.Split_leaf (s.tree.setTreePage leaf p) leaf hfresh
    (by
      rw [hpage]
      unfold BPlusTreePage.IsLeafPage at hleaf ⊢
      rw [hhead.1]; exact hleaf)
  rw [← hS, hpage] at sl2
  rw [← hS] at sl6
  obtain ⟨t5, ht5⟩ : ∃ t5 : BPlusTree,
      t5 = (let moved := BPlusTreeLeafPage.MoveHalfTo (S.page leaf) (S.page s.tree.next_page_id)
            let t3 := BPlusTree.setTreePage (BPlusTree.setTreePage S leaf moved.1)
              s.tree.next_page_id moved.2
            let t4 := BPlusTree.setTreePage t3 s.tree.next_page_id
              { t3.page s.tree.next_page_id with next_page_id := (t3.page leaf).next_page_id }
            BPlusTree.setTreePage t4 leaf
              { t4.page leaf with next_page_id := (t4.page s.tree.next_page_id).page_id }) :=
    ⟨_, rfl⟩
  obtain ⟨g1, _, _, _, g5⟩ := BPlusTree.splice_pages S leaf s.tree.next_page_id hfresh t5 ht5
  have hparent : (t5.page leaf).parent_page_id = (s.tree.page leaf).parent_page_id := by
    rw [g1, sl2]
    show p.parent_page_id = _
    exact hhead.2.2.1
  have hroot5 : (t5.page leaf).IsRootPage = true := by
    unfold BPlusTreePage.IsRootPage at hisroot ⊢
    rw [hparent]; exact hisroot
  have ht5root : t5.root_page_id = leaf := by
    rw [g5, sl6]; exact hleafid
  refine ⟨{ s1 with tree := t5, pins := storePin s1.pins s.tree.next_page_id 1 }, ?_, ht5root, ?_, ?_⟩
  · unfold Insert InsertIntoLeaf
    rw [if_neg (by rw [hleafid]; exact hroot), hfind]
    simp only [f1]
    rw [if_neg hnew, ← hp]
    have hfull2 : (BPlusTreeLeafPage.Insert (s.tree.page leaf) key value).1
        = (s1.setTreePage leaf p).tree.leaf_max_size := by
      rw [hfull, ← f1]; rfl
    rw [if_pos hfull2, Split_of_frame true (s1.setTreePage leaf p) leaf hfree]
    simp only
    have hstate : ∀ x y : BPlusTreeOnPool, x = y →
        y = { s1 with tree := t5, pins := storePin s1.pins s.tree.next_page_id 1 } →
        (match InsertIntoParent (fuel + 1) x leaf
            (BPlusTreeLeafPage.KeyAt (x.tree.page (s1.setTreePage leaf p).tree.next_page_id) 0)
            (s1.setTreePage leaf p).tree.next_page_id with
          | (Outcome.ok _, s7) =>
            (Outcome.ok true,
              (s7.UnpinPage (s1.setTreePage leaf p).tree.next_page_id).UnpinPage leaf)
          | (Outcome.outOfMemory, s7) => (Outcome.outOfMemory, s7)
          | (Outcome.nullDeref, s7) => (Outcome.nullDeref, s7)
          | (Outcome.outOfFuel, s7) => (Outcome.outOfFuel, s7))
          = ((Outcome.outOfMemory, y) : Outcome Bool × BPlusTreeOnPool) := by
      intro x y hxy hx
      subst hxy
      have hxa : x.allPinned = true := by
        rw [hx, ← f1]; exact hall
      have hxr : (x.tree.page leaf).IsRootPage = true := by rw [hx]; exact hroot5
      rw [InsertIntoParent, if_pos hxr, NewPage_of_allPinned x hxa]
    refine hstate _ _ ?_ rfl
    rw [ht5, hS]
    have e1 : (s1.setTreePage leaf p).tree = s.tree.setTreePage leaf p := by
      show BPlusTree.setTreePage s1.tree leaf p = _
      rw [f1]
    have e2 : (s1.setTreePage leaf p).tree.next_page_id = s.tree.next_page_id := by
      rw [e1]; rfl
    simp only [e1, e2]
    rfl
  · have := pinCount_storePin s1 t5 s.tree.next_page_id leaf 1
    rw [this, if_neg hfresh, f3, if_pos rfl]
  · have := pinCount_storePin s1 t5 s.tree.next_page_id s.tree.next_page_id 1
    rw [this, if_pos rfl]

end BPlusTreeOnPool
namespace BPlusTreeOnPool

/-! ### Calls that end normally change the tree as the model without the pool does -/

theorem NewPage_of_frame (s : BPlusTreeOnPool) (h : s.allPinned = false) :
    s.NewPage
      = (some s.tree.next_page_id,
          { s with
            tree := (BPlusTree.NewPage s.tree).2
            pins := storePin s.pins s.tree.next_page_id 1 }) := by
  unfold NewPage
  simp only [h, Bool.false_eq_true, if_false]

theorem FindLeafPageLoop_refines (key : KeyType) (leftMost : Bool) :
    ∀ (n : Nat) (s : BPlusTreeOnPool) (pid leaf : page_id_t) (s1 : BPlusTreeOnPool),
      FindLeafPageLoop key leftMost n s pid = (Outcome.ok leaf, s1) →
      BPlusTree.FindLeafPageLoop s.tree key leftMost n pid = some leaf := by
  intro n
  induction n with
  | zero => intro s pid leaf s1 h; simp [FindLeafPageLoop] at h
  | succ n ih =>
    intro s pid leaf s1 h
    rw [FindLeafPageLoop] at h
    rw [BPlusTree.FindLeafPageLoop]
    by_cases hl : (s.tree.page pid).IsLeafPage = true
    · rw [if_pos hl] at h
      rw [if_pos hl]
      have e1 : pid = leaf := by injection (Prod.mk.inj h).1
      rw [e1]
    · rw [if_neg hl] at h
      rw [if_neg hl]
      generalize (if leftMost = true then BPlusTreeInternalPage.ValueAt (s.tree.page pid) 0
          else BPlusTreeInternalPage.Lookup (s.tree.page pid) key) = next at h ⊢
      cases hf : (s.UnpinPage pid).FetchPage next with
      | mk b s2 =>
        rw [hf] at h
        cases b with
        | false => simp at h
        | true =>
          simp only at h
          have f1 : s2.tree = s.tree := (FetchPage_true _ _ _ hf).1
          have := ih s2 next leaf s1 h
          rw [f1] at this
          exact this

theorem FindLeafPage_refines (fuel : Nat) (s s1 : BPlusTreeOnPool) (key : KeyType)
    (leftMost : Bool) (leaf : page_id_t)
    (hroot : s.tree.root_page_id ≠ INVALID_PAGE_ID)
    (h : FindLeafPage fuel s key leftMost = (Outcome.ok leaf, s1)) :
    BPlusTree.FindLeafPage fuel s.tree key leftMost = some (some leaf) := by
  unfold FindLeafPage at h
  unfold BPlusTree.FindLeafPage
  rw [if_neg hroot]
  cases hf : s.FetchPage s.tree.root_page_id with
  | mk b s2 =>
    rw [hf] at h
    cases b with
    | false => simp at h
    | true =>
      simp only at h
      have f1 : s2.tree = s.tree := (FetchPage_true _ _ _ hf).1
      have := FindLeafPageLoop_refines key leftMost fuel s2 _ leaf s1 h
      rw [f1] at this
      rw [this]; rfl

theorem InternalCopyLastFrom_refines (s s1 : BPlusTreeOnPool) (recipient : page_id_t)
    (pair : MappingType) (h : InternalCopyLastFrom s recipient pair = (true, s1)) :
    s1.tree = BPlusTree.InternalCopyLastFrom s.tree recipient pair := by
  unfold InternalCopyLastFrom at h
  cases hf : s.FetchPage pair.2 with
  | mk c s2 =>
    rw [hf] at h
    cases c with
    | false => simp at h
    | true =>
      simp only at h
      have f1 : s2.tree = s.tree := (FetchPage_true _ _ _ hf).1
      rw [← (Prod.mk.inj h).2, ← f1]
      rfl

theorem InternalMoveHalfToLoop_refines (node recipient : page_id_t) :
    ∀ (n : Nat) (i : Int) (s s1 : BPlusTreeOnPool),
      InternalMoveHalfToLoop node recipient n i s = (true, s1) →
      s1.tree = BPlusTree.InternalMoveHalfToLoop node recipient n i s.tree := by
  intro n
  induction n with
  | zero =>
    intro i s s1 h
    rw [InternalMoveHalfToLoop] at h
    rw [← (Prod.mk.inj h).2]; rfl
  | succ n ih =>
    intro i s s1 h
    rw [InternalMoveHalfToLoop] at h
    rw [BPlusTree.InternalMoveHalfToLoop]
    cases hc : InternalCopyLastFrom s recipient ((s.tree.page node).slot i) with
    | mk c s2 =>
      rw [hc] at h
      cases c with
      | false => simp at h
      | true =>
        simp only at h
        rw [ih _ _ _ h, InternalCopyLastFrom_refines _ _ _ _ hc]

theorem InternalMoveHalfTo_refines (s s1 : BPlusTreeOnPool) (node recipient : page_id_t)
    (h : InternalMoveHalfTo s node recipient = (true, s1)) :
    s1.tree = BPlusTree.InternalMoveHalfTo s.tree node recipient := by
  unfold InternalMoveHalfTo at h
  cases hc : InternalMoveHalfToLoop node recipient
      ((s.tree.page node).size
        - ((s.tree.page node).size - (s.tree.page node).size.tdiv 2)).toNat
      ((s.tree.page node).size - (s.tree.page node).size.tdiv 2) s with
  | mk c s2 =>
    rw [hc] at h
    cases c with
    | false => simp at h
    | true =>
      simp only at h
      have := InternalMoveHalfToLoop_refines _ _ _ _ _ _ hc
      rw [← (Prod.mk.inj h).2]
      show BPlusTree.setTreePage s2.tree _ _ = _
      rw [this]
      rfl

theorem allPinned_of_tree (s : BPlusTreeOnPool) (t : BPlusTree) :
    allPinned { s with tree := t } = s.allPinned := rfl

/-- A call of `InsertIntoParent` that ends normally leaves the tree that the model
without the pool computes. -/
theorem InsertIntoParent_refines :
    ∀ (fuel : Nat) (s : BPlusTreeOnPool) (old_node : page_id_t) (key : KeyType)
      (new_node : page_id_t) (u : Unit) (s1 : BPlusTreeOnPool),
      InsertIntoParent fuel s old_node key new_node = (Outcome.ok u, s1) →
      BPlusTree.InsertIntoParent fuel s.tree old_node key new_node = some s1.tree := by
  intro fuel
  induction fuel with
  | zero =>
    intro s old_node key new_node u s1 h
    rw [InsertIntoParent] at h
    cases (Prod.mk.inj h).1
  | succ fuel ih =>
    intro s old_node key new_node u s1 h
    rw [InsertIntoParent] at h
    rw [BPlusTree.InsertIntoParent]
    by_cases hr : (s.tree.page old_node).IsRootPage = true
    · rw [if_pos hr] at h
      rw [if_pos hr]
      cases ha : s.allPinned with
      | true =>
        rw [NewPage_of_allPinned s ha] at h
        cases (Prod.mk.inj h).1
      | false =>
        rw [NewPage_of_frame s ha] at h
        dsimp only at h
        generalize hs6 : (BPlusTreeOnPool.setTreePage _ s.tree.next_page_id
          (BPlusTreeInternalPage.PopulateNewRoot _ _ key _)) = s6 at h
        cases hu : s6.UpdateRootPageId with
        | mk b s7 =>
          rw [hu] at h
          have u1 : s7.tree = s6.tree := (UpdateRootPageId_facts _ _ _ hu).1
          cases b with
          | false => cases (Prod.mk.inj h).1
          | true =>
            simp only at h
            rw [← (Prod.mk.inj h).2]
            show _ = some s7.tree
            rw [u1, ← hs6]
            rfl
    · rw [if_neg hr] at h
      rw [if_neg hr]
      generalize hppid : (s.tree.page old_node).parent_page_id = ppid at h ⊢
      dsimp only at h ⊢
      cases hf : s.FetchPage ppid with
      | mk b s2 =>
        rw [hf] at h
        cases b with
        | false => cases (Prod.mk.inj h).1
        | true =>
          simp only at h
          have f1 : s2.tree = s.tree := (FetchPage_true _ _ _ hf).1
          rw [f1] at h
          generalize hins : BPlusTreeInternalPage.InsertNodeAfter (s.tree.page ppid)
              (s.tree.page old_node).page_id key (s.tree.page new_node).page_id = ins at h ⊢
          have e3 : (s2.setTreePage ppid ins.2).tree = s.tree.setTreePage ppid ins.2 := by
            show BPlusTree.setTreePage s2.tree _ _ = _
            rw [f1]
          have emax : (s2.setTreePage ppid ins.2).tree.internal_max_size
              = (s.tree.setTreePage ppid ins.2).internal_max_size := by rw [e3]
          by_cases hfull : ins.1 = (s.tree.setTreePage ppid ins.2).internal_max_size
          · rw [if_pos (emax ▸ hfull)] at h
            rw [if_pos hfull]
            cases ha : (s2.setTreePage ppid ins.2).allPinned with
            | true =>
              rw [Split_of_allPinned _ _ _ ha] at h
              cases (Prod.mk.inj h).1
            | false =>
              rw [Split_of_frame _ _ _ ha] at h
              simp only [e3] at h
              generalize hs4 : BPlusTreeOnPool.mk
                (BPlusTree.Split false (s.tree.setTreePage ppid ins.2) ppid).2 _ _ = s4 at h
              have e4 : s4.tree = (BPlusTree.Split false (s.tree.setTreePage ppid ins.2) ppid).2 := by
                rw [← hs4]
              have en : (s.tree.setTreePage ppid ins.2).next_page_id
                  = (BPlusTree.Split false (s.tree.setTreePage ppid ins.2) ppid).1 := rfl
              rw [en] at h
              generalize (BPlusTree.Split false (s.tree.setTreePage ppid ins.2) ppid).1 = ni at h ⊢
              cases hm : InternalMoveHalfTo s4 ppid ni with
              | mk b2 s5 =>
                rw [hm] at h
                cases b2 with
                | false => cases (Prod.mk.inj h).1
                | true =>
                  simp only at h
                  have e5 := InternalMoveHalfTo_refines _ _ _ _ hm
                  rw [e4] at e5
                  cases hrec : InsertIntoParent fuel s5 ppid
                      (BPlusTreeInternalPage.KeyAt (s5.tree.page ni) 0) ni with
                  | mk o2 s6 =>
                    rw [hrec] at h
                    cases o2 with
                    | ok u2 =>
                      simp only at h
                      have := ih _ _ _ _ _ _ hrec
                      rw [e5] at this
                      rw [this, ← (Prod.mk.inj h).2]
                      rfl
                    | outOfMemory => cases (Prod.mk.inj h).1
                    | nullDeref => cases (Prod.mk.inj h).1
                    | outOfFuel => cases (Prod.mk.inj h).1
          · rw [if_neg (fun e => hfull (emax ▸ e))] at h
            rw [if_neg hfull, ← (Prod.mk.inj h).2]
            show some _ = some (BPlusTree.setTreePage s2.tree _ _)
            rw [f1]

end BPlusTreeOnPool
namespace BPlusTreeOnPool

theorem StartNewTree_refines (s s1 : BPlusTreeOnPool) (key : KeyType) (value : ValueType)
    (u : Unit) (h : StartNewTree s key value = (Outcome.ok u, s1)) :
    s1.tree = BPlusTree.StartNewTree s.tree key value := by
  unfold StartNewTree at h
  cases ha : s.allPinned with
  | true =>
    rw [NewPage_of_allPinned s ha] at h
    cases (Prod.mk.inj h).1
  | false =>
    rw [NewPage_of_frame s ha] at h
    dsimp only at h
    generalize hs1 : BPlusTreeOnPool.mk _ _ _ = x at h
    cases hu : x.UpdateRootPageId with
    | mk b s2 =>
      rw [hu] at h
      have u1 : s2.tree = x.tree := (UpdateRootPageId_facts _ _ _ hu).1
      cases b with
      | false => cases (Prod.mk.inj h).1
      | true =>
        simp only at h
        rw [← (Prod.mk.inj h).2]
        show BPlusTree.setTreePage s2.tree _ _ = _
        rw [u1, ← hs1]
        rfl

theorem InsertIntoLeaf_refines (fuel : Nat) (s s1 : BPlusTreeOnPool) (key : KeyType)
    (value : ValueType) (b : Bool)
    (hroot : s.tree.root_page_id ≠ INVALID_PAGE_ID)
    (h : InsertIntoLeaf fuel s key value = (Outcome.ok b, s1)) :
    BPlusTree.InsertIntoLeaf fuel s.tree key value = some (b, s1.tree) := by
  unfold InsertIntoLeaf at h
  unfold BPlusTree.InsertIntoLeaf
  cases hfind : FindLeafPage fuel s key false with
  | mk o s2 =>
    rw [hfind] at h
    cases o with
    | outOfMemory => cases (Prod.mk.inj h).1
    | nullDeref => cases (Prod.mk.inj h).1
    | outOfFuel => cases (Prod.mk.inj h).1
    | ok leaf =>
      rw [FindLeafPage_refines fuel s s2 key false leaf hroot hfind]
      have f1 : s2.tree = s.tree := (FindLeafPage_spec _ _ _ _ _ _ hfind).1
      dsimp only at h ⊢
      rw [f1] at h
      by_cases hdup : comparator key
          (BPlusTreeLeafPage.GetItem (s.tree.page leaf)
            (BPlusTreeLeafPage.KeyIndex (s.tree.page leaf) key)).1 = 0
      · rw [if_pos hdup] at h
        rw [if_pos hdup]
        obtain ⟨e1, e2⟩ := Prod.mk.inj h
        have e1 : false = b := by injection e1
        rw [← e1, ← e2]
        show some (false, s.tree) = some (false, s2.tree)
        rw [f1]
      · rw [if_neg hdup] at h
        rw [if_neg hdup]
        generalize hp : (BPlusTreeLeafPage.Insert (s.tree.page leaf) key value) = ins at h ⊢
        have e3 : (s2.setTreePage leaf ins.2).tree = s.tree.setTreePage leaf ins.2 := by
          show BPlusTree.setTreePage s2.tree _ _ = _
          rw [f1]
        have emax : (s2.setTreePage leaf ins.2).tree.leaf_max_size
            = (s.tree.setTreePage leaf ins.2).leaf_max_size := by rw [e3]
        by_cases hfull : ins.1 = (s.tree.setTreePage leaf ins.2).leaf_max_size
        · rw [if_pos (emax ▸ hfull)] at h
          rw [if_pos hfull]
          cases ha : (s2.setTreePage leaf ins.2).allPinned with
          | true =>
            rw [Split_of_allPinned _ _ _ ha] at h
            cases (Prod.mk.inj h).1
          | false =>
            rw [Split_of_frame _ _ _ ha] at h
            simp only [e3] at h
            generalize hs6 : (BPlusTreeOnPool.setTreePage _ leaf _) = s6 at h
            cases hrec : InsertIntoParent fuel s6 leaf
                (BPlusTreeLeafPage.KeyAt
                  (s6.tree.page (s.tree.setTreePage leaf ins.2).next_page_id) 0)
                (s.tree.setTreePage leaf ins.2).next_page_id with
            | mk o2 s7 =>
              rw [hrec] at h
              cases o2 with
              | outOfMemory => cases (Prod.mk.inj h).1
              | nullDeref => cases (Prod.mk.inj h).1
              | outOfFuel => cases (Prod.mk.inj h).1
              | ok u2 =>
                simp only at h
                obtain ⟨e1, e2⟩ := Prod.mk.inj h
                have e1 : true = b := by injection e1
                have hpure := InsertIntoParent_refines _ _ _ _ _ _ _ hrec
                rw [← hs6] at hpure
                have : ∀ r : Option BPlusTree, r = some s7.tree →
                    r.map (fun t6 => (true, t6)) = some (b, s1.tree) := by
                  intro r hr
                  rw [hr, ← e1, ← e2]
                  rfl
                exact this _ hpure
        · rw [if_neg (fun e => hfull (emax ▸ e))] at h
          rw [if_neg hfull]
          obtain ⟨e1, e2⟩ := Prod.mk.inj h
          have e1 : true = b := by injection e1
          rw [← e1, ← e2]
          show some (true, _) = some (true, BPlusTree.setTreePage s2.tree _ _)
          rw [f1]

/-- A call of `Insert` that ends normally returns what the model without the pool
returns, and leaves the tree that this model computes. -/
theorem Insert_refines (fuel : Nat) (s s1 : BPlusTreeOnPool) (key : KeyType)
    (value : ValueType) (b : Bool)
    (h : Insert fuel s key value = (Outcome.ok b, s1)) :
    BPlusTree.Insert fuel s.tree key value = some (b, s1.tree) := by
  unfold Insert at h
  unfold BPlusTree.Insert
  by_cases hroot : s.tree.root_page_id = INVALID_PAGE_ID
  · rw [if_pos hroot] at h
    rw [if_pos hroot]
    cases hst : StartNewTree s key value with
    | mk o s2 =>
      rw [hst] at h
      cases o with
      | outOfMemory => cases (Prod.mk.inj h).1
      | nullDeref => cases (Prod.mk.inj h).1
      | outOfFuel => cases (Prod.mk.inj h).1
      | ok u =>
        simp only at h
        obtain ⟨e1, e2⟩ := Prod.mk.inj h
        have e1 : true = b := by injection e1
        rw [← e1, ← e2, StartNewTree_refines _ _ _ _ _ hst]
  · rw [if_neg hroot] at h
    rw [if_neg hroot]
    exact InsertIntoLeaf_refines fuel s s1 key value b hroot h

end BPlusTreeOnPool
namespace BPlusTreeOnPool

/-- C19 (as amended): allocation failure during `Insert` raises `OutOfMemory` and
aborts the operation where it stands, with nothing rolled back. (1) When
`NewPage` returns `nullptr` for the first leaf of an empty tree, the exception
is thrown and the tree and the pin counts are unchanged. (2) When it returns
`nullptr` for the sibling of a leaf that has become full, the exception is
thrown with the new pair stored in the leaf, which then holds `leaf_max_size`
entries, and with the leaf pinned once more than before the call; nothing else
has changed. (3) When it returns `nullptr` for the root above a split root leaf,
the exception is thrown with `root_page_id` unchanged and the leaf and its
sibling left pinned. (4) Whenever `Insert` on a non-empty tree throws, the leaf
page that `FindLeafPage` returned is left pinned by the aborted operation. -/
theorem Insert_OutOfMemory (fuel : Nat) (s : BPlusTreeOnPool) (key : KeyType)
    (value : ValueType) :
    (s.tree.root_page_id = INVALID_PAGE_ID → (s.NewPage).1 = none →
      Insert fuel s key value = (Outcome.outOfMemory, s))
    ∧ (∀ (leaf : page_id_t) (s1 : BPlusTreeOnPool),
        s.tree.root_page_id ≠ INVALID_PAGE_ID →
        FindLeafPage fuel s key false = (Outcome.ok leaf, s1) →
        0 ≤ (s.tree.page leaf).size →
        comparator key
          (BPlusTreeLeafPage.GetItem (s.tree.page leaf)
            (BPlusTreeLeafPage.KeyIndex (s.tree.page leaf) key)).1 ≠ 0 →
        (BPlusTreeLeafPage.Insert (s.tree.page leaf) key value).1 = s.tree.leaf_max_size →
        (s1.NewPage).1 = none →
        ∃ s2 : BPlusTreeOnPool,
          Insert fuel s key value = (Outcome.outOfMemory, s2)
          ∧ s2.tree
              = s.tree.setTreePage leaf
                  (BPlusTreeLeafPage.Insert (s.tree.page leaf) key value).2
          ∧ (s2.tree.page leaf).size = s.tree.leaf_max_size
          ∧ (∀ q, s2.pinCount q = s.pinCount q + if q = leaf then 1 else 0))
    ∧ (∀ s1 : BPlusTreeOnPool,
        s.tree.root_page_id ≠ INVALID_PAGE_ID →
        (s.tree.page s.tree.root_page_id).IsLeafPage = true →
        (s.tree.page s.tree.root_page_id).IsRootPage = true →
        s.tree.root_page_id ≠ s.tree.next_page_id →
        comparator key
          (BPlusTreeLeafPage.GetItem (s.tree.page s.tree.root_page_id)
            (BPlusTreeLeafPage.KeyIndex (s.tree.page s.tree.root_page_id) key)).1 ≠ 0 →
        (BPlusTreeLeafPage.Insert (s.tree.page s.tree.root_page_id) key value).1
          = s.tree.leaf_max_size →
        s.FetchPage s.tree.root_page_id = (true, s1) →
        (s1.NewPage).1 ≠ none →
        ((s1.NewPage).2.NewPage).1 = none →
        ∃ s2 : BPlusTreeOnPool,
          Insert (fuel + 1) s key value = (Outcome.outOfMemory, s2)
          ∧ s2.tree.root_page_id = s.tree.root_page_id
          ∧ s2.pinCount s.tree.root_page_id = s.pinCount s.tree.root_page_id + 1
          ∧ s2.pinCount s.tree.next_page_id = 1)
    ∧ (∀ (leaf : page_id_t) (s1 s2 : BPlusTreeOnPool),
        s.tree.root_page_id ≠ INVALID_PAGE_ID →
        FindLeafPage fuel s key false = (Outcome.ok leaf, s1) →
        leaf < s.tree.next_page_id →
        Insert fuel s key value = (Outcome.outOfMemory, s2) →
        s.pinCount leaf + 1 ≤ s2.pinCount leaf) :=
  ⟨Insert_first_leaf fuel s key value,
    fun leaf s1 => Insert_leaf_sibling fuel s s1 key value leaf,
    fun s1 => Insert_root_above_leaf fuel s s1 key value,
    fun leaf s1 s2 => Insert_leaves_leaf_pinned fuel s s1 s2 key value leaf⟩

/-- Witness for C19 (as amended): the four cases on pools of one, two, two and four
frames. -/
theorem Insert_OutOfMemory_witness :
    BPlusTreeOnPool.Insert 10 oomEmptyScenario 1 10 = (Outcome.outOfMemory, oomEmptyScenario)
    ∧ (∃ s2 : BPlusTreeOnPool,
        BPlusTreeOnPool.Insert 10 oomLeafScenario 3 30 = (Outcome.outOfMemory, s2)
        ∧ s2.tree
            = oomLeafScenario.tree.setTreePage 1
                (BPlusTreeLeafPage.Insert (oomLeafScenario.tree.page 1) 3 30).2
        ∧ (s2.tree.page 1).size = oomLeafScenario.tree.leaf_max_size
        ∧ (∀ q, s2.pinCount q = oomLeafScenario.pinCount q + if q = 1 then 1 else 0))
    ∧ (∃ s2 : BPlusTreeOnPool,
        BPlusTreeOnPool.Insert (9 + 1) oomRootScenario 3 30 = (Outcome.outOfMemory, s2)
        ∧ s2.tree.root_page_id = oomRootScenario.tree.root_page_id
        ∧ s2.pinCount oomRootScenario.tree.root_page_id
            = oomRootScenario.pinCount oomRootScenario.tree.root_page_id + 1
        ∧ s2.pinCount oomRootScenario.tree.next_page_id = 1)
    ∧ oomInternalScenario.pinCount 2 + 1
        ≤ (BPlusTreeOnPool.Insert 10 oomInternalScenario 5 50).2.pinCount 2 :=
  ⟨(Insert_OutOfMemory 10 oomEmptyScenario 1 10).1 (by decide) (by decide),
    (Insert_OutOfMemory 10 oomLeafScenario 3 30).2.1 1 (oomLeafScenario.FetchPage 1).2
      (by decide) (by decide) (by decide) (by decide) (by decide) (by decide),
    (Insert_OutOfMemory 9 oomRootScenario 3 30).2.2.1 (oomRootScenario.FetchPage 1).2
      (by decide) (by decide) (by decide) (by decide) (by decide) (by decide) (by decide)
      (by decide) (by decide),
    (Insert_OutOfMemory 10 oomInternalScenario 5 50).2.2.2 2
      (FindLeafPage 10 oomInternalScenario 5 false).2
      (BPlusTreeOnPool.Insert 10 oomInternalScenario 5 50).2
      (by decide) (by decide) (by decide) (by decide)⟩

/-- C19, counterexample: callers that hold the header page pinned, `leaf_max_size = 3`
and `internal_max_size = 3`. On a pool of two frames the inserts of the keys 1
and 2 end normally and the insert of the key 3 throws `OutOfMemory` in `Split`:
afterwards the leaf page 1 holds 3 = `leaf_max_size` entries and its pin count
is 1, where it was 0 before the call. On a pool of four frames the inserts of
the keys 1 to 4 end normally and the insert of the key 5 throws in the `Split`
of the parent: afterwards the internal page 3 holds 3 = `internal_max_size`
entries and the pages 2, 3 and 4 are left pinned. -/
theorem Insert_throws_without_rollback :
    (insertAll 10 ((construct 3 3 0 2).FetchPage HEADER_PAGE_ID).2
        [(1, 10), (2, 20), (3, 30)]).1
      = [Outcome.ok true, Outcome.ok true, Outcome.outOfMemory]
    ∧ (BPlusTreeOnPool.Insert 10 oomLeafScenario 3 30).1 = Outcome.outOfMemory
    ∧ ((BPlusTreeOnPool.Insert 10 oomLeafScenario 3 30).2.tree.page 1).IsLeafPage = true
    ∧ ((BPlusTreeOnPool.Insert 10 oomLeafScenario 3 30).2.tree.page 1).size = 3
    ∧ (BPlusTreeOnPool.Insert 10 oomLeafScenario 3 30).2.tree.leaf_max_size = 3
    ∧ oomLeafScenario.pinCount 1 = 0
    ∧ (BPlusTreeOnPool.Insert 10 oomLeafScenario 3 30).2.pinCount 1 = 1
    ∧ (insertAll 10 ((construct 3 3 0 4).FetchPage HEADER_PAGE_ID).2
        [(1, 10), (2, 20), (3, 30), (4, 40), (5, 50)]).1
      = [Outcome.ok true, Outcome.ok true, Outcome.ok true, Outcome.ok true,
          Outcome.outOfMemory]
    ∧ (BPlusTreeOnPool.Insert 10 oomInternalScenario 5 50).1 = Outcome.outOfMemory
    ∧ ((BPlusTreeOnPool.Insert 10 oomInternalScenario 5 50).2.tree.page 3).IsLeafPage = false
    ∧ ((BPlusTreeOnPool.Insert 10 oomInternalScenario 5 50).2.tree.page 3).size = 3
    ∧ (BPlusTreeOnPool.Insert 10 oomInternalScenario 5 50).2.tree.internal_max_size = 3
    ∧ (BPlusTreeOnPool.Insert 10 oomInternalScenario 5 50).2.tree.root_page_id = 3
    ∧ ([2, 3, 4].map oomInternalScenario.pinCount) = [0, 0, 0]
    ∧ ([2, 3, 4].map (BPlusTreeOnPool.Insert 10 oomInternalScenario 5 50).2.pinCount)
        = [1, 1, 1] := by
  refine ⟨by decide, by decide, by decide, by decide, by decide, by decide, by decide,
    by decide, by decide, by decide, by decide, by decide, by decide, by decide, by decide⟩

/-- With frames to spare the pool plays no part: the five inserts that split two
leaves and the root end normally and leave no page pinned. -/
theorem insertAll_with_frames :
    (insertAll 10 (construct 3 3 0 10)
        [(1, 10), (2, 20), (3, 30), (4, 40), (5, 50)]).1
      = [Outcome.ok true, Outcome.ok true, Outcome.ok true, Outcome.ok true, Outcome.ok true]
    ∧ ((insertAll 10 (construct 3 3 0 10)
          [(1, 10), (2, 20), (3, 30), (4, 40), (5, 50)]).2.pins.filter
        (fun e => decide (0 < e.2))) = []
    ∧ (insertAll 10 (construct 3 3 0 10)
          [(1, 10), (2, 20), (3, 30), (4, 40), (5, 50)]).2.tree.root_page_id = 6 := by
  refine ⟨by decide, by decide, by decide⟩

end BPlusTreeOnPool

/-! ## Parallel pool: the cursor of `NewPgImp` -/

namespace ParallelBufferPoolManager

/-- Where `NewPgImp` leaves the cursor: behind the instances it has scanned. -/
theorem NewPgImp_cursor_facts (P : ParallelBufferPoolManager) (hN : 0 < P.num_of_bpm)
    (hc : P.last_bpm_index < P.num_of_bpm) :
    ∃ res P' tried, NewPgImp P.num_of_bpm P = some (res, P', tried)
      ∧ P'.num_of_bpm = P.num_of_bpm
      ∧ P'.last_bpm_index = (P.last_bpm_index + tried.length) % P.num_of_bpm
      ∧ (res = none → tried.length = P.num_of_bpm ∧ P'.last_bpm_index = P.last_bpm_index)
      ∧ (∀ s f pid, res = some (s, f, pid) →
          P'.last_bpm_index = (s + 1) % P.num_of_bpm
          ∧ 1 ≤ tried.length ∧ tried.length ≤ P.num_of_bpm
          ∧ s = (P.last_bpm_index + (tried.length - 1)) % P.num_of_bpm
          ∧ (tried.length = 1 ↔ s = P.last_bpm_index)) := by
  classical
  obtain ⟨hA, hB⟩ := NewPgImp_outcomes P hN hc
  by_cases hall : ∀ j, j < P.num_of_bpm →
      (BufferPoolManagerInstance.NewPgImp
        (P.bpm ((P.last_bpm_index + j) % P.num_of_bpm))).1 = none
  · refine ⟨none, P, _, hA hall, rfl, ?_, fun _ => ⟨by simp, rfl⟩, ?_⟩
    · simp [Nat.mod_eq_of_lt hc]
    · intro s f pid h
      exact absurd h (by simp)
  · have hex : ∃ j, j < P.num_of_bpm ∧
        (BufferPoolManagerInstance.NewPgImp
          (P.bpm ((P.last_bpm_index + j) % P.num_of_bpm))).1 ≠ none := by
      by_contra hcon
      exact hall (fun j hj => by_contra fun hne => hcon ⟨j, hj, hne⟩)
    have hj := Nat.find_spec hex
    have hmin : ∀ i, i < Nat.find hex →
        (BufferPoolManagerInstance.NewPgImp
          (P.bpm ((P.last_bpm_index + i) % P.num_of_bpm))).1 = none := by
      intro i hi
      by_contra hne
      exact Nat.find_min hex hi ⟨by omega, hne⟩
    obtain ⟨⟨f, pid⟩, hsucc⟩ := Option.ne_none_iff_exists'.mp hj.2
    have hlen : ((List.range (Nat.find hex + 1)).map
        (fun i => (P.last_bpm_index + i) % P.num_of_bpm)).length = Nat.find hex + 1 := by simp
    refine ⟨_, _, _, hB (Nat.find hex) f pid hj.1 hmin hsucc, rfl, ?_,
      fun h => absurd h (by simp), ?_⟩
    · rw [hlen]
      show ((P.last_bpm_index + Nat.find hex) % P.num_of_bpm + 1) % P.num_of_bpm = _
      rw [Nat.mod_add_mod, Nat.add_assoc]
    · intro s f' pid' h
      have h1 := Option.some.inj h
      have hs : (P.last_bpm_index + Nat.find hex) % P.num_of_bpm = s := (Prod.mk.inj h1).1
      rw [hlen]
      refine ⟨by rw [← hs], by omega, by omega, by rw [← hs]; simp, ?_⟩
      constructor
      · intro h0
        have h0 : Nat.find hex = 0 := by omega
        rw [← hs, h0, Nat.add_zero, Nat.mod_eq_of_lt hc]
      · intro h0
        by_contra hne
        have hpos : 0 < Nat.find hex := by omega
        exact cyc_ne _ _ _ hc hpos hj.1 (hs.trans h0)

/-- C21 (cursor of the parallel `NewPage`), as amended: on a pool with
`num_of_bpm > 0` instances whose cursor is in range, `NewPgImp` leaves the
cursor advanced, modulo `num_of_bpm`, by the number of instances whose `NewPage`
it has called. A successful call leaves it one past the instance `s` that
produced the page; that is one past its old value exactly when the instance at
the cursor itself succeeded, which is when one instance was scanned. A call
that fails has scanned all `num_of_bpm` instances and leaves the cursor equal to
its starting value. -/
theorem NewPgImp_cursor (P : ParallelBufferPoolManager) (hN : 0 < P.num_of_bpm)
    (hc : P.last_bpm_index < P.num_of_bpm) :
    ∃ res P' tried, NewPgImp P.num_of_bpm P = some (res, P', tried)
      ∧ P'.num_of_bpm = P.num_of_bpm
      ∧ P'.last_bpm_index = (P.last_bpm_index + tried.length) % P.num_of_bpm
      ∧ (res = none → tried.length = P.num_of_bpm ∧ P'.last_bpm_index = P.last_bpm_index)
      ∧ (∀ s f pid, res = some (s, f, pid) →
          P'.last_bpm_index = (s + 1) % P.num_of_bpm
          ∧ 1 ≤ tried.length ∧ tried.length ≤ P.num_of_bpm
          ∧ s = (P.last_bpm_index + (tried.length - 1)) % P.num_of_bpm
          ∧ (tried.length = 1 ↔ s = P.last_bpm_index)) :=
  NewPgImp_cursor_facts P hN hc

/-- C21 witness: the theorem at `cursorScenario`, where the call scans two
instances. -/
theorem NewPgImp_cursor_witness :
    0 < cursorScenario.num_of_bpm
    ∧ cursorScenario.last_bpm_index < cursorScenario.num_of_bpm
    ∧ ∃ res P' tried, NewPgImp cursorScenario.num_of_bpm cursorScenario = some (res, P', tried)
        ∧ P'.last_bpm_index
            = (cursorScenario.last_bpm_index + tried.length) % cursorScenario.num_of_bpm :=
  ⟨by decide, by decide,
    (NewPgImp_cursor cursorScenario (by decide) (by decide)).imp
      fun _ h => h.imp fun _ h => h.imp fun _ h => ⟨h.1, h.2.2.1⟩⟩

/-- C21, counterexample: in `cursorScenario` the cursor is at 0, instance 0 has its
only frame pinned and instance 1 can evict. `NewPgImp` succeeds (page 3 from
instance 1, after `NewPage` was called on the instances 0 and 1) and leaves the
cursor at 0, its value before the call, not at `(0 + 1) % 2 = 1`. -/
theorem cursor_skips_failed_shards :
    cursorScenario.last_bpm_index = 0
    ∧ cursorScenario.num_of_bpm = 2
    ∧ (NewPgImp 2 cursorScenario).map (fun out => (out.1, out.2.1.last_bpm_index, out.2.2))
        = some (some (1, 0, 3), 0, [0, 1])
    ∧ (cursorScenario.last_bpm_index + 1) % cursorScenario.num_of_bpm ≠ 0 := by
  refine ⟨by decide, by decide, by decide, by decide⟩

end ParallelBufferPoolManager

/-! ## B+ tree: `IsEmpty` -/

namespace BPlusTree

/-- C24 (`IsEmpty`), the code evaluated: `IsEmpty` returns true on every tree; on
the fresh tree with `leaf_max_size = 3` the call `Insert(1, 10)` returns true,
the root page id is then page 1 and no longer the INVALID sentinel, the key is
found by `GetValue`, and `IsEmpty` still returns true. -/
theorem IsEmpty_after_Insert :
    (∀ t : BPlusTree, IsEmpty t = true)
    ∧ IsEmpty (construct 3 3 0) = true
    ∧ (BPlusTree.Insert 10 (construct 3 3 0) 1 10).map (fun r => r.1) = some true
    ∧ (BPlusTree.Insert 10 (construct 3 3 0) 1 10).map (fun r => r.2.root_page_id) = some 1
    ∧ (BPlusTree.Insert 10 (construct 3 3 0) 1 10).map
        (fun r => decide (r.2.root_page_id = INVALID_PAGE_ID)) = some false
    ∧ (BPlusTree.Insert 10 (construct 3 3 0) 1 10).map (fun r => GetValue 10 r.2 1)
        = some (some (true, [10]))
    ∧ (BPlusTree.Insert 10 (construct 3 3 0) 1 10).map (fun r => IsEmpty r.2) = some true := by
  refine ⟨fun _ => rfl, rfl, by decide, by decide, by decide, by decide, by decide⟩

end BPlusTree
/-! ## B+ tree pages: `KeyIndex` of a leaf and `Lookup` of an internal page -/

theorem comparator_nonneg_iff (a b : KeyType) : comparator a b ≥ 0 ↔ b ≤ a := by
  unfold comparator
  by_cases h1 : a < b
  · simp only [h1, if_true]
    exact ⟨fun h => absurd h (by decide), fun h => absurd h (not_le.mpr h1)⟩
  · by_cases h2 : b < a
    · simp only [h1, h2, if_true, if_false]
      exact ⟨fun _ => le_of_lt h2, fun _ => by decide⟩
    · simp only [h1, h2, if_false]
      exact ⟨fun _ => not_lt.mp h1, fun _ => le_refl _⟩

theorem comparator_neg_iff (a b : KeyType) : comparator a b < 0 ↔ a < b := by
  unfold comparator
  by_cases h1 : a < b
  · simp only [h1, if_true]
    exact ⟨fun _ => trivial, fun _ => by decide⟩
  · by_cases h2 : b < a
    · simp only [h1, h2, if_true, if_false]
      exact ⟨fun h => absurd h (by decide), fun h => absurd h (fun x => x)⟩
    · simp only [h1, h2, if_false]
      exact ⟨fun h => absurd h (by decide), fun h => absurd h (fun x => x)⟩

theorem comparator_pos_iff (a b : KeyType) : comparator a b > 0 ↔ b < a := by
  unfold comparator
  by_cases h1 : a < b
  · simp only [h1, if_true]
    exact ⟨fun h => absurd h (by decide), fun h => absurd h (not_lt.mpr (le_of_lt h1))⟩
  · by_cases h2 : b < a
    · simp only [h1, h2, if_true, if_false]
      exact ⟨fun _ => trivial, fun _ => by decide⟩
    · simp only [h1, h2, if_false]
      exact ⟨fun h => absurd h (by decide), fun h => absurd h (fun x => x)⟩

namespace BPlusTreeLeafPage

/-- The loop of `KeyIndex`, started at `i` with one of the `n` slots from `i` on
holding a key that is not below `key`: it returns the first such slot. -/
theorem KeyIndexLoop_first (p : BPlusTreePage) (key : KeyType) :
    ∀ (n : Nat) (i m : Int), i ≤ m → m < i + n → key ≤ (p.slot m).1 →
      (∀ j, i ≤ j → j < m → (p.slot j).1 < key) →
      KeyIndexLoop p key n i = m := by
  intro n
  induction n with
  | zero => intro i m h1 h2; omega
  | succ n ih =>
    intro i m h1 h2 hm hbelow
    rw [KeyIndexLoop]
    by_cases hc : comparator (p.slot i).1 key ≥ 0
    · rw [if_pos hc]
      have hle := (comparator_nonneg_iff _ _).mp hc
      by_contra hne
      have := hbelow i (le_refl _) (lt_of_le_of_ne h1 hne)
      exact absurd hle (not_le.mpr this)
    · rw [if_neg hc]
      have hne : i ≠ m := fun e => hc ((comparator_nonneg_iff _ _).mpr (e ▸ hm))
      exact ih (i + 1) m (by omega) (by push_cast at h2; omega) hm
        (fun j hj1 hj2 => hbelow j (by omega) hj2)

/-- The loop of `KeyIndex` reads positions from `i` on, fewer than `n` of them. -/
theorem KeyIndexLoopReads_range (p : BPlusTreePage) (key : KeyType) :
    ∀ (n : Nat) (i r : Int), r ∈ KeyIndexLoopReads p key n i → i ≤ r ∧ r < i + n := by
  intro n
  induction n with
  | zero => intro i r hr; simp [KeyIndexLoopReads] at hr
  | succ n ih =>
    intro i r hr
    rw [KeyIndexLoopReads] at hr
    rcases List.mem_cons.mp hr with h | h
    · push_cast; omega
    · by_cases hc : comparator (p.slot i).1 key ≥ 0
      · rw [if_pos hc] at h; simp at h
      · rw [if_neg hc] at h
        have := ih (i + 1) r h
        push_cast; omega

/-- On a leaf page with at least one entry whose keys are strictly sorted,
`KeyIndex` is the search its comment describes: it returns the first index
whose key is not below `key`, or `size` when every stored key is below `key`,
and it reads positions of `[0, size)` only. -/
theorem KeyIndex_nonempty (p : BPlusTreePage) (key : KeyType) (hsize : 1 ≤ p.size)
    (hsorted : ∀ i j, 0 ≤ i → i < j → j < p.size → (p.slot i).1 < (p.slot j).1) :
    ((∀ i, 0 ≤ i → i < p.size → (p.slot i).1 < key) → KeyIndex p key = p.size)
    ∧ (∀ m, 0 ≤ m → m < p.size → key ≤ (p.slot m).1 →
        (∀ j, 0 ≤ j → j < m → (p.slot j).1 < key) → KeyIndex p key = m)
    ∧ (∀ r, r ∈ KeyIndexReads p key → 0 ≤ r ∧ r < p.size) := by
  refine ⟨fun hall => ?_, fun m hm0 hm1 hm hbelow => ?_, fun r hr => ?_⟩
  · have := hall (p.size - 1) (by omega) (by omega)
    unfold KeyIndex
    rw [if_pos ((comparator_neg_iff _ _).mpr this)]
  · unfold KeyIndex
    have hlast : ¬ comparator (p.slot (p.size - 1)).1 key < 0 := by
      intro hl
      have hlt := (comparator_neg_iff _ _).mp hl
      by_cases hml : m = p.size - 1
      · rw [hml] at hm
        exact absurd hm (not_le.mpr hlt)
      · have := hsorted m (p.size - 1) hm0 (by omega) (by omega)
        exact absurd hm (not_le.mpr (lt_trans this hlt))
    rw [if_neg hlast]
    exact KeyIndexLoop_first p key p.size.toNat 0 m hm0
      (by rw [Int.toNat_of_nonneg (by omega)]; omega) hm
      (fun j hj1 hj2 => hbelow j hj1 hj2)
  · unfold KeyIndexReads at hr
    rcases List.mem_cons.mp hr with h | h
    · omega
    · by_cases hl : comparator (p.slot (p.size - 1)).1 key < 0
      · rw [if_pos hl] at h; simp at h
      · rw [if_neg hl] at h
        have := KeyIndexLoopReads_range p key _ _ _ h
        rw [Int.toNat_of_nonneg (by omega)] at this
        omega

/-- C22 (leaf `KeyIndex`), the code evaluated on the empty leaf: on a page right
after `Init` (size 0), whatever the key, the first read of `KeyIndex` is
`array_[-1]`, a position outside `[0, size)`; the result depends on the key
`oob` that the bytes in front of `array_` decode to: it is `-1`, not
`size = 0`, when `oob` is not below `key`, and 0 otherwise. -/
theorem KeyIndex_empty_leaf (oob key : KeyType) (page_id parent_id : page_id_t)
    (max_size : Int) :
    (Init (zeroPage oob) page_id parent_id max_size).size = 0
    ∧ KeyIndexReads (Init (zeroPage oob) page_id parent_id max_size) key = [-1]
    ∧ (key ≤ oob → KeyIndex (Init (zeroPage oob) page_id parent_id max_size) key = -1)
    ∧ (oob < key → KeyIndex (Init (zeroPage oob) page_id parent_id max_size) key = 0) := by
  have hslot : ((Init (zeroPage oob) page_id parent_id max_size).slot (0 - 1)).1 = oob := by
    simp [BPlusTreePage.slot, Init, zeroPage]
  have hsz : (Init (zeroPage oob) page_id parent_id max_size).size = 0 := rfl
  refine ⟨rfl, ?_, fun h => ?_, fun h => ?_⟩
  · unfold KeyIndexReads
    rw [hsz, hslot]
    by_cases h : oob < key
    · rw [if_pos ((comparator_neg_iff _ _).mpr h)]; rfl
    · rw [if_neg (fun hl => h ((comparator_neg_iff _ _).mp hl))]
      rfl
  · unfold KeyIndex
    rw [hsz, hslot, if_neg (fun hl => absurd ((comparator_neg_iff _ _).mp hl) (not_lt.mpr h))]
    rfl
  · unfold KeyIndex
    rw [hsz, hslot, if_pos ((comparator_neg_iff _ _).mpr h)]

end BPlusTreeLeafPage

namespace BPlusTreeInternalPage

/-- The loop of `Lookup`, entered at `i` with `key_at[i] ≤ key`: it returns the value of
a slot `m ≥ i` whose key is not above `key` and that is the last slot or is
followed by a key above `key`. -/
theorem LookupLoop_spec (p : BPlusTreePage) (key : KeyType) :
    ∀ (n : Nat) (i : Int), 1 ≤ i → i < p.size → p.size - i ≤ n → (p.slot i).1 ≤ key →
      ∃ m, i ≤ m ∧ m < p.size ∧ (p.slot m).1 ≤ key
        ∧ (m = p.size - 1 ∨ key < (p.slot (m + 1)).1)
        ∧ LookupLoop p key n i = (p.slot m).2 := by
  intro n
  induction n with
  | zero => intro i h1 h2 h3; omega
  | succ n ih =>
    intro i h1 h2 h3 hle
    rw [LookupLoop]
    have hc : ¬ comparator (p.slot i).1 key > 0 :=
      fun h => absurd hle (not_le.mpr ((comparator_pos_iff _ _).mp h))
    rw [if_neg hc]
    by_cases hlast : i < p.size - 1
    · rw [if_pos hlast]
      by_cases hnext : comparator (p.slot (i + 1)).1 key > 0
      · rw [if_pos hnext]
        exact ⟨i, le_refl _, h2, hle, Or.inr ((comparator_pos_iff _ _).mp hnext), rfl⟩
      · rw [if_neg hnext]
        have hle2 : (p.slot (i + 1)).1 ≤ key :=
          not_lt.mp (fun h => hnext ((comparator_pos_iff _ _).mpr h))
        obtain ⟨m, a1, a2, a3, a4, a5⟩ := ih (i + 1) (by omega) (by omega)
          (by push_cast at h3; omega) hle2
        exact ⟨m, by omega, a2, a3, a4, a5⟩
    · rw [if_neg hlast]
      exact ⟨i, le_refl _, h2, hle, Or.inl (by omega), rfl⟩

/-- The loop of `Lookup` reads keys at positions of `[1, size)` only. -/
theorem LookupLoopReads_range (p : BPlusTreePage) (key : KeyType) :
    ∀ (n : Nat) (i r : Int), 1 ≤ i → i < p.size → r ∈ LookupLoopReads p key n i →
      1 ≤ r ∧ r < p.size := by
  intro n
  induction n with
  | zero => intro i r _ _ hr; simp [LookupLoopReads] at hr
  | succ n ih =>
    intro i r h1 h2 hr
    rw [LookupLoopReads] at hr
    rcases List.mem_cons.mp hr with h | h
    · omega
    · by_cases hc : comparator (p.slot i).1 key > 0
      · rw [if_pos hc] at h; simp at h
      · rw [if_neg hc] at h
        by_cases hlast : i < p.size - 1
        · rw [if_pos hlast] at h
          rcases List.mem_cons.mp h with h' | h'
          · omega
          · by_cases hnext : comparator (p.slot (i + 1)).1 key > 0
            · rw [if_pos hnext] at h'; simp at h'
            · rw [if_neg hnext] at h'
              exact ih (i + 1) r (by omega) (by omega) h'
        · rw [if_neg hlast] at h; simp at h

/-- What `Lookup` returns and reads on a page with at least one child. -/
theorem Lookup_facts (p : BPlusTreePage) (key : KeyType) (hsize : 1 ≤ p.size)
    (hsorted : ∀ i j, 1 ≤ i → i < j → j < p.size → KeyAt p i < KeyAt p j) :
    ((p.size = 1 ∨ key < KeyAt p 1) → Lookup p key = ValueAt p 0)
    ∧ (∀ i, 1 ≤ i → i < p.size → KeyAt p i ≤ key →
        (∀ j, i < j → j < p.size → key < KeyAt p j) → Lookup p key = ValueAt p i)
    ∧ (∀ r, r ∈ LookupReads p key → 1 ≤ r ∧ r < p.size)
    ∧ (∃ i, 0 ≤ i ∧ i < p.size ∧ Lookup p key = ValueAt p i)
    ∧ ((∀ i, 0 ≤ i → i < p.size → ValueAt p i ≠ INVALID_PAGE_ID) →
        Lookup p key ≠ INVALID_PAGE_ID) := by
  have hfirst : p.size ≠ 1 → key < KeyAt p 1 → Lookup p key = ValueAt p 0 := by
    intro h1 hlt
    unfold Lookup
    rw [if_neg h1]
    obtain ⟨n, hn⟩ : ∃ n, (p.size - 1).toNat = n + 1 :=
      ⟨(p.size - 1).toNat - 1, by omega⟩
    have hc : comparator (p.slot 1).1 key > 0 := (comparator_pos_iff _ _).mpr hlt
    rw [hn, LookupLoop, if_pos hc]
    rfl
  have hloop : p.size ≠ 1 → KeyAt p 1 ≤ key →
      ∃ m, 1 ≤ m ∧ m < p.size ∧ (p.slot m).1 ≤ key
        ∧ (m = p.size - 1 ∨ key < (p.slot (m + 1)).1)
        ∧ Lookup p key = (p.slot m).2 := by
    intro h1 hle
    unfold Lookup
    rw [if_neg h1]
    exact LookupLoop_spec p key (p.size - 1).toNat 1 (le_refl _) (by omega)
      (by rw [Int.toNat_of_nonneg (by omega)]) hle
  have hex : ∃ i, 0 ≤ i ∧ i < p.size ∧ Lookup p key = ValueAt p i := by
    by_cases h1 : p.size = 1
    · exact ⟨0, le_refl _, by omega, by unfold Lookup; rw [if_pos h1]; rfl⟩
    · by_cases hlt : key < KeyAt p 1
      · exact ⟨0, le_refl _, by omega, hfirst h1 hlt⟩
      · obtain ⟨m, a1, a2, _, _, a5⟩ := hloop h1 (not_lt.mp hlt)
        exact ⟨m, by omega, a2, a5⟩
  refine ⟨?_, ?_, ?_, hex, ?_⟩
  · rintro (h1 | hlt)
    · unfold Lookup; rw [if_pos h1]; rfl
    · by_cases h1 : p.size = 1
      · unfold Lookup; rw [if_pos h1]; rfl
      · exact hfirst h1 hlt
  · intro i hi1 hi2 hle habove
    have h1 : p.size ≠ 1 := by omega
    have hle1 : KeyAt p 1 ≤ key := by
      by_cases hi : i = 1
      · rw [← hi]; exact hle
      · exact le_trans (le_of_lt (hsorted 1 i (le_refl _) (by omega) hi2)) hle
    obtain ⟨m, a1, a2, a3, a4, a5⟩ := hloop h1 hle1
    have hmi : m = i := by
      by_contra hne
      rcases lt_or_gt_of_ne hne with hlt | hgt
      · rcases a4 with a4 | a4
        · omega
        · by_cases hmi1 : m + 1 = i
          · rw [hmi1] at a4
            exact absurd hle (not_le.mpr a4)
          · have := hsorted (m + 1) i (by omega) (by omega) hi2
            exact absurd hle (not_le.mpr (lt_trans a4 this))
      · exact absurd a3 (not_le.mpr (habove m hgt a2))
    rw [a5, hmi]; rfl
  · intro r hr
    unfold LookupReads at hr
    by_cases h1 : p.size = 1
    · rw [if_pos h1] at hr; simp at hr
    · rw [if_neg h1] at hr
      exact LookupLoopReads_range p key _ 1 r (le_refl _) (by omega) hr
  · intro hvalid
    obtain ⟨i, a1, a2, a3⟩ := hex
    rw [a3]
    exact hvalid i a1 a2

/-- C23 (internal `Lookup`): on an internal page with `size ≥ 1` whose keys at the
indices `1 .. size - 1` are strictly sorted, `Lookup(key)` returns `value_at[0]`
when `size = 1` or `key < key_at[1]`, and `value_at[i]` for the largest index
`i ≥ 1` with `key_at[i] ≤ key` otherwise; the keys it reads are at positions of
`[1, size)`, so the key of slot 0 is never consulted; and the result is the
value of one of the slots `0 .. size - 1`, so the `return INVALID_PAGE_ID` behind
the loop is not reached and the result is not INVALID_PAGE_ID when no child
pointer of the page is. -/
theorem Lookup_routing (p : BPlusTreePage) (key : KeyType) (hsize : 1 ≤ p.size)
    (hsorted : ∀ i j, 1 ≤ i → i < j → j < p.size → KeyAt p i < KeyAt p j) :
    ((p.size = 1 ∨ key < KeyAt p 1) → Lookup p key = ValueAt p 0)
    ∧ (∀ i, 1 ≤ i → i < p.size → KeyAt p i ≤ key →
        (∀ j, i < j → j < p.size → key < KeyAt p j) → Lookup p key = ValueAt p i)
    ∧ (∀ r, r ∈ LookupReads p key → 1 ≤ r ∧ r < p.size)
    ∧ (∃ i, 0 ≤ i ∧ i < p.size ∧ Lookup p key = ValueAt p i)
    ∧ ((∀ i, 0 ≤ i → i < p.size → ValueAt p i ≠ INVALID_PAGE_ID) →
        Lookup p key ≠ INVALID_PAGE_ID) :=
  Lookup_facts p key hsize hsorted

theorem routingPage_sorted :
    ∀ i j, 1 ≤ i → i < j → j < routingPage.size → KeyAt routingPage i < KeyAt routingPage j := by
  intro i j h1 h2 h3
  have hs : routingPage.size = 3 := rfl
  rw [hs] at h3
  have hi : i = 1 := by omega
  have hj : j = 2 := by omega
  subst hi hj
  decide

/-- C23 witness: on `routingPage` the key 7 is routed to the child of slot 1 (page
12), the key 3 to the child of slot 0 (page 11) and the key 9 to the child of
slot 2 (page 13). -/
theorem Lookup_routing_witness :
    1 ≤ routingPage.size
    ∧ Lookup routingPage 7 = ValueAt routingPage 1
    ∧ Lookup routingPage 3 = ValueAt routingPage 0
    ∧ Lookup routingPage 9 = ValueAt routingPage 2
    ∧ ValueAt routingPage 1 = 12 :=
  ⟨by decide,
    (Lookup_routing routingPage 7 (by decide) routingPage_sorted).2.1 1 (by decide) (by decide)
      (by decide)
      (fun j h1 h2 => by
        have hs : routingPage.size = 3 := rfl
        rw [hs] at h2
        have hj : j = 2 := by omega
        subst hj
        decide),
    (Lookup_routing routingPage 3 (by decide) routingPage_sorted).1 (Or.inr (by decide)),
    (Lookup_routing routingPage 9 (by decide) routingPage_sorted).2.1 2 (by decide) (by decide)
      (by decide)
      (fun j h1 h2 => by
        have hs : routingPage.size = 3 := rfl
        rw [hs] at h2
        omega),
    by decide⟩

end BPlusTreeInternalPage

/-! ## Buffer pool manager instance: invariants along runs -/

namespace BufferPoolManagerInstance

theorem Run.mono {ok ok2 : BufferPoolManagerInstance → Op → Prop}
    (hle : ∀ s op, ok s op → ok2 s op) {s : BufferPoolManagerInstance} (h : Run ok s) :
    Run ok2 s := by
  induction h with
  | construct a b c d hpos hlt => exact Run.construct a b c d hpos hlt
  | step _ op hok ih => exact Run.step ih op (hle _ op hok)

/-- A run of a client that unpins only what is pinned stays within the reachable
states. -/
theorem Run.reachable {s : BufferPoolManagerInstance} (h : Run unpinsPinned s) :
    Reachable s := by
  induction h with
  | construct a b c d hpos hlt => exact Reachable.construct a b c d
  | step _ op hok ih =>
    cases op with
    | NewPg => exact Reachable.NewPg ih
    | FetchPg pid => exact Reachable.FetchPg ih pid
    | UnpinPg pid d => exact Reachable.UnpinPg ih pid d hok
    | FlushPg pid => exact Reachable.FlushPg ih pid
    | DeletePg pid => exact Reachable.DeletePg ih pid
    | Write f d => exact Reachable.WriteData ih f d

theorem FrameInv_construct (pool_size num_instances instance_index : Nat)
    (disk : page_id_t → PageData) :
    FrameInv (construct pool_size num_instances instance_index disk) := by
  refine ⟨LRUReplacer.WF_empty, List.nodup_range _, ?_, ?_, ?_,
    TableConsistent_construct _ _ _ _, ?_, ?_⟩
  · intro f hf; simpa [construct] using hf
  · intro f hf; simp [construct, LRUReplacer.empty] at hf
  · intro q f hf; simp [construct] at hf
  · intro f _ q; simp [construct]
  · intro f _; exact ⟨rfl, rfl⟩

/-- Installing a page in a frame that is not on the free list keeps the bookkeeping. -/
theorem FrameInv_install (s s2 : BufferPoolManagerInstance) (f : frame_id_t) (p : Page)
    (pid : page_id_t) (h : FrameInv s) (hf : f < s.pool_size) (hnf : f ∉ s.free_list)
    (hr : s2.replacer = s.replacer.Pin f) (hp : s2.pages = setPage s.pages f p)
    (hid : p.page_id = pid) (hfl : s2.free_list = s.free_list)
    (hps : s2.pool_size = s.pool_size)
    (ht : s2.page_table = mapInsert (mapErase s.page_table (s.pages f).page_id) pid f) :
    FrameInv s2 := by
  obtain ⟨hwf, hmem⟩ := LRUReplacer.Pin_WF s.replacer f h.replacer_wf
  refine ⟨by rw [hr]; exact hwf, by rw [hfl]; exact h.free_nodup, ?_, ?_, ?_,
    TableConsistent_install s s2 f p pid h.consistent hp hid ht, ?_, ?_⟩
  · intro g hg
    rw [hfl] at hg; rw [hps]
    exact h.free_lt g hg
  · intro g hg
    rw [hr, hmem] at hg; rw [hps]
    exact h.dll_lt g hg.1
  · rw [ht, hps]
    exact mapInsert_mapErase_lt _ _ _ _ _ h.table_lt hf
  · intro g hg q hq
    rw [hfl] at hg
    rw [ht] at hq
    unfold mapInsert mapErase at hq
    by_cases hqp : q = pid
    · subst hqp
      simp only [if_true] at hq
      by_cases ho : q = (s.pages f).page_id
      · simp only [ho, if_true] at hq
        exact hnf ((Option.some.inj hq) ▸ hg)
      · simp only [ho, if_false] at hq
        cases ht2 : s.page_table q with
        | none =>
          rw [ht2] at hq
          exact hnf ((Option.some.inj hq) ▸ hg)
        | some w =>
          rw [ht2] at hq
          have hw : w = g := Option.some.inj hq
          exact h.free_not_resident g hg q (hw ▸ ht2)
    · simp only [hqp, if_false] at hq
      by_cases ho : q = (s.pages f).page_id
      · simp [ho] at hq
      · simp only [ho, if_false] at hq
        exact h.free_not_resident g hg q hq
  · intro g hg
    rw [hfl] at hg
    have hgf : g ≠ f := fun e => hnf (e ▸ hg)
    rw [hp, setPage_other _ _ _ _ hgf]
    exact h.free_fresh g hg

/-- Taking the front of the free list. -/
theorem FrameInv_pop_free (s : BufferPoolManagerInstance) (f : frame_id_t)
    (rest : List frame_id_t) (h : FrameInv s) (hfl : s.free_list = f :: rest) :
    FrameInv { s with free_list := rest } ∧ f < s.pool_size ∧ f ∉ rest
    ∧ (s.pages f).page_id = INVALID_PAGE_ID := by
  have hnd := h.free_nodup
  rw [hfl] at hnd
  have hmem : ∀ g, g ∈ rest → g ∈ s.free_list := fun g hg => by
    rw [hfl]; exact List.mem_cons_of_mem _ hg
  have hfm : f ∈ s.free_list := by rw [hfl]; exact List.mem_cons_self _ _
  refine ⟨⟨h.replacer_wf, (List.nodup_cons.mp hnd).2, fun g hg => h.free_lt g (hmem g hg),
    h.dll_lt, h.table_lt, h.consistent, fun g hg => h.free_not_resident g (hmem g hg),
    fun g hg => h.free_fresh g (hmem g hg)⟩, h.free_lt f hfm, (List.nodup_cons.mp hnd).1,
    (h.free_fresh f hfm).1⟩

/-- Taking the victim of the replacer, the free list being empty. -/
theorem FrameInv_pop_victim (s : BufferPoolManagerInstance) (f : frame_id_t)
    (r : LRUReplacer) (h : FrameInv s) (hfl : s.free_list = [])
    (hv : s.replacer.Victim = (some f, r)) :
    FrameInv { s with replacer := r } ∧ f < s.pool_size ∧ f ∉ s.free_list := by
  obtain ⟨hf, hwf, hmem⟩ := LRUReplacer.Victim_some s.replacer r f h.replacer_wf hv
  refine ⟨⟨hwf, h.free_nodup, h.free_lt, fun g hg => h.dll_lt g ((hmem g).mp hg).1,
    h.table_lt, h.consistent, h.free_not_resident, h.free_fresh⟩, h.dll_lt f hf, ?_⟩
  rw [hfl]; simp

theorem FrameInv_NewPgImp (s : BufferPoolManagerInstance) (h : FrameInv s) :
    FrameInv (NewPgImp s).2 := by
  rcases NewPgImp_cases s with ⟨_, _, he⟩ | ⟨f, rest, hfl, he⟩ | ⟨f, r, hfl, hv, he⟩
  · rw [he]; exact h
  · rw [he]
    obtain ⟨h1, h2, h3, _⟩ := FrameInv_pop_free s f rest h hfl
    obtain ⟨e1, e2, e3, e4, e5⟩ := installNew_fields { s with free_list := rest } f
    exact FrameInv_install _ _ f _ _ h1 h2 h3 e1 e2 rfl e3 e4 e5
  · rw [he]
    obtain ⟨h1, h2, h3⟩ := FrameInv_pop_victim s f r h hfl hv
    obtain ⟨e1, e2, e3, e4, e5⟩ := installNew_fields { s with replacer := r } f
    exact FrameInv_install _ _ f _ _ h1 h2 h3 e1 e2 rfl e3 e4 e5

theorem FrameInv_FetchPgImp (s : BufferPoolManagerInstance) (pid : page_id_t)
    (h : FrameInv s) : FrameInv (FetchPgImp s pid).2 := by
  cases hres : s.page_table pid with
  | some f =>
    have e : FetchPgImp s pid = (some f,
        { s with
          replacer := s.replacer.Pin f
          pages := setPage s.pages f
            { s.pages f with pin_count := (s.pages f).pin_count + 1 } }) := by
      simp only [FetchPgImp, hres]
    have hc := TableConsistent_FetchPgImp s pid h.consistent
    rw [e] at hc ⊢
    obtain ⟨hwf, hmem⟩ := LRUReplacer.Pin_WF s.replacer f h.replacer_wf
    refine ⟨hwf, h.free_nodup, h.free_lt, fun g hg => h.dll_lt g ((hmem g).mp hg).1,
      h.table_lt, hc, h.free_not_resident, ?_⟩
    intro g hg
    have hgf : g ≠ f := fun e2 => h.free_not_resident g hg pid (e2 ▸ hres)
    show ((setPage s.pages f _ g).page_id = _ ∧ (setPage s.pages f _ g).pin_count = 0)
    rw [setPage_other _ _ _ _ hgf]
    exact h.free_fresh g hg
  | none =>
    rcases FetchPgImp_miss_cases s pid hres with ⟨_, _, he⟩ | ⟨f, rest, hfl, he⟩ | ⟨f, r, hfl, hv, he⟩
    · rw [he]; exact h
    · rw [he]
      obtain ⟨h1, h2, h3, _⟩ := FrameInv_pop_free s f rest h hfl
      obtain ⟨e1, e2, e3, e4, e5⟩ := installFetch_fields { s with free_list := rest } pid f
      exact FrameInv_install _ _ f _ _ h1 h2 h3 e1 e2 rfl e3 e4 e5
    · rw [he]
      obtain ⟨h1, h2, h3⟩ := FrameInv_pop_victim s f r h hfl hv
      obtain ⟨e1, e2, e3, e4, e5⟩ := installFetch_fields { s with replacer := r } pid f
      exact FrameInv_install _ _ f _ _ h1 h2 h3 e1 e2 rfl e3 e4 e5

theorem FrameInv_UnpinPgImp (s : BufferPoolManagerInstance) (pid : page_id_t) (is_dirty : Bool)
    (h : FrameInv s) : FrameInv (UnpinPgImp s pid is_dirty).2 := by
  cases hres : s.page_table pid with
  | none => rw [(UnpinPgImp_facts s pid is_dirty).2.2 hres]; exact h
  | some f =>
    obtain ⟨_, hfacts, _⟩ := UnpinPgImp_facts s pid is_dirty
    obtain ⟨a1, a2, a3, a4, a5, a6, a7, a8, a9, a10⟩ := hfacts f hres
    have hc := TableConsistent_UnpinPgImp s pid is_dirty h.consistent
    have hps : (UnpinPgImp s pid is_dirty).2.pool_size = s.pool_size := by
      simp only [UnpinPgImp, hres]
    have hflt := h.table_lt pid f hres
    have hrep : (UnpinPgImp s pid is_dirty).2.replacer.WF
        ∧ ∀ g, g ∈ (UnpinPgImp s pid is_dirty).2.replacer.dll → g < s.pool_size := by
      by_cases h0 : (s.pages f).pin_count - 1 = 0
      · rw [a5 h0]
        obtain ⟨hwf, hmem⟩ := LRUReplacer.Unpin_WF s.replacer f h.replacer_wf
        refine ⟨hwf, fun g hg => ?_⟩
        rcases (hmem g).mp hg with h1 | h1
        · exact h.dll_lt g h1
        · exact h1 ▸ hflt
      · rw [a6 h0]
        exact ⟨h.replacer_wf, h.dll_lt⟩
    refine ⟨hrep.1, by rw [a9]; exact h.free_nodup, ?_, ?_, ?_, hc, ?_, ?_⟩
    · intro g hg; rw [a9] at hg; rw [hps]; exact h.free_lt g hg
    · intro g hg; rw [hps]; exact hrep.2 g hg
    · intro q g hq; rw [a8] at hq; rw [hps]; exact h.table_lt q g hq
    · intro g hg q hq
      rw [a9] at hg; rw [a8] at hq
      exact h.free_not_resident g hg q hq
    · intro g hg
      rw [a9] at hg
      have hgf : g ≠ f := fun e2 => h.free_not_resident g hg pid (e2 ▸ hres)
      rw [a7 g hgf]
      exact h.free_fresh g hg

theorem FrameInv_FlushPgImp (s : BufferPoolManagerInstance) (pid : page_id_t)
    (h : FrameInv s) : FrameInv (FlushPgImp s pid).2 := by
  have hc := TableConsistent_FlushPgImp s pid h.consistent
  cases hres : s.page_table pid with
  | none => simp only [FlushPgImp, hres]; exact h
  | some f =>
    by_cases hd : (s.pages f).is_dirty = true
    · simp only [FlushPgImp, hres, hd, if_true] at hc ⊢
      refine ⟨h.replacer_wf, h.free_nodup, h.free_lt, h.dll_lt, h.table_lt, hc,
        h.free_not_resident, ?_⟩
      intro g hg
      by_cases hgf : g = f
      · subst hgf
        simpa using h.free_fresh g hg
      · simpa [hgf] using h.free_fresh g hg
    · simp only [FlushPgImp, hres, hd]
      exact h

theorem FrameInv_DeletePgImp (s : BufferPoolManagerInstance) (pid : page_id_t)
    (h : FrameInv s) : FrameInv (DeletePgImp s pid).2 := by
  cases hres : s.page_table pid with
  | none => simp only [DeletePgImp, hres]; exact h
  | some f =>
    by_cases hp : (s.pages f).pin_count = 0
    · obtain ⟨_, _, h3⟩ := DeletePgImp_facts s pid
      obtain ⟨_, _, b3, _, ht, hpf, hpg, hfl⟩ := h3 f hres hp
      have hc := TableConsistent_DeletePgImp s pid h.consistent
      have hid : (s.pages f).page_id = pid := h.consistent pid f hres
      have hps : (DeletePgImp s pid).2.pool_size = s.pool_size := by
        simp only [DeletePgImp, hres, hp]
        by_cases hd : (s.pages f).is_dirty = true <;> simp [hd]
      have hr : (DeletePgImp s pid).2.replacer = s.replacer := by
        simp only [DeletePgImp, hres, hp]
        by_cases hd : (s.pages f).is_dirty = true <;> simp [hd]
      have hfn : f ∉ s.free_list := fun hm => h.free_not_resident f hm pid hres
      have htab : ∀ q g, (DeletePgImp s pid).2.page_table q = some g →
          q ≠ pid ∧ s.page_table q = some g := by
        intro q g hq
        by_cases hq2 : q = (s.pages f).page_id
        · rw [hq2, b3] at hq
          exact absurd hq (by simp)
        · rw [ht q hq2] at hq
          exact ⟨hid ▸ hq2, hq⟩
      refine ⟨by rw [hr]; exact h.replacer_wf, ?_, ?_, ?_, ?_, hc, ?_, ?_⟩
      · rw [hfl]
        exact List.Nodup.append h.free_nodup (List.nodup_singleton f)
          (by
            intro g hg1 hg2
            rw [List.mem_singleton] at hg2
            exact hfn (hg2 ▸ hg1))
      · intro g hg
        rw [hfl] at hg; rw [hps]
        rcases List.mem_append.mp hg with h1 | h1
        · exact h.free_lt g h1
        · rw [List.mem_singleton.mp h1]
          exact h.table_lt pid f hres
      · intro g hg
        rw [hr] at hg; rw [hps]
        exact h.dll_lt g hg
      · intro q g hq
        rw [hps]
        exact h.table_lt q g (htab q g hq).2
      · intro g hg q hq
        rw [hfl] at hg
        obtain ⟨hq1, hq2⟩ := htab q g hq
        rcases List.mem_append.mp hg with h1 | h1
        · exact h.free_not_resident g h1 q hq2
        · rw [List.mem_singleton.mp h1] at hq2
          exact hq1 ((h.consistent q f hq2).symm.trans hid)
      · intro g hg
        rw [hfl] at hg
        by_cases hgf : g = f
        · rw [hgf, hpf]
          exact ⟨rfl, rfl⟩
        · rw [hpg g hgf]
          rcases List.mem_append.mp hg with h1 | h1
          · exact h.free_fresh g h1
          · exact absurd (List.mem_singleton.mp h1) hgf
    · rw [(DeletePgImp_facts s pid).2.1 f hres hp]
      exact h

theorem FrameInv_WriteData (s : BufferPoolManagerInstance) (f : frame_id_t) (d : PageData)
    (h : FrameInv s) : FrameInv (WriteData s f d) := by
  have hc := TableConsistent_WriteData s f d h.consistent
  refine ⟨h.replacer_wf, h.free_nodup, h.free_lt, h.dll_lt, h.table_lt, hc,
    h.free_not_resident, ?_⟩
  intro g hg
  unfold WriteData
  by_cases hgf : g = f
  · subst hgf
    simpa using h.free_fresh g hg
  · simpa [hgf] using h.free_fresh g hg

/-- Every run maintains the bookkeeping of frames, whatever the calls. -/
theorem Run.frameInv {ok : BufferPoolManagerInstance → Op → Prop}
    {s : BufferPoolManagerInstance} (h : Run ok s) : FrameInv s := by
  induction h with
  | construct a b c d _ _ => exact FrameInv_construct a b c d
  | step _ op _ ih =>
    cases op with
    | NewPg => exact FrameInv_NewPgImp _ ih
    | FetchPg pid => exact FrameInv_FetchPgImp _ pid ih
    | UnpinPg pid d => exact FrameInv_UnpinPgImp _ pid d ih
    | FlushPg pid => exact FrameInv_FlushPgImp _ pid ih
    | DeletePg pid => exact FrameInv_DeletePgImp _ pid ih
    | Write f d => exact FrameInv_WriteData _ f d ih

end BufferPoolManagerInstance
namespace BufferPoolManagerInstance

theorem mapInsert_mapErase_key (t : page_id_t → Option frame_id_t) (old pid q : page_id_t)
    (f g : frame_id_t) (h : mapInsert (mapErase t old) pid f q = some g) :
    q = pid ∨ (q ≠ old ∧ t q = some g) := by
  unfold mapInsert mapErase at h
  by_cases h1 : q = pid
  · exact Or.inl h1
  · right
    simp only [h1, if_false] at h
    by_cases h2 : q = old
    · simp [h2] at h
    · simp only [h2, if_false] at h
      exact ⟨h2, h⟩

/-- What a call does to the keys of the page table: a key of the table after the
call was a key before it, or it is the page id the call brings in (the
argument of `FetchPgImp`, the id allocated by a successful `NewPgImp`). -/
theorem Op.apply_keys (op : Op) (s : BufferPoolManagerInstance) (q : page_id_t)
    (g : frame_id_t) (h : (op.apply s).page_table q = some g) :
    (∃ g2, s.page_table q = some g2)
    ∨ (op = Op.NewPg ∧ (NewPgImp s).1 ≠ none ∧ q = s.next_page_id)
    ∨ op = Op.FetchPg q := by
  cases op with
  | NewPg =>
    rcases NewPgImp_cases s with ⟨_, _, he⟩ | ⟨f, rest, hfl, he⟩ | ⟨f, r, hfl, hv, he⟩
    · left
      have h2 : (NewPgImp s).2.page_table q = some g := h
      rw [he] at h2
      exact ⟨g, h2⟩
    · have h2 : (NewPgImp s).2.page_table q = some g := h
      rw [he, (installNew_fields _ f).2.2.2.2] at h2
      rcases mapInsert_mapErase_key _ _ _ _ _ _ h2 with h3 | h3
      · right; left
        refine ⟨rfl, ?_, h3⟩
        rw [he, (installNew_alloc _ f).1]
        simp
      · exact Or.inl ⟨g, h3.2⟩
    · have h2 : (NewPgImp s).2.page_table q = some g := h
      rw [he, (installNew_fields _ f).2.2.2.2] at h2
      rcases mapInsert_mapErase_key _ _ _ _ _ _ h2 with h3 | h3
      · right; left
        refine ⟨rfl, ?_, h3⟩
        rw [he, (installNew_alloc _ f).1]
        simp
      · exact Or.inl ⟨g, h3.2⟩
  | FetchPg pid =>
    have h2 : (FetchPgImp s pid).2.page_table q = some g := h
    cases hres : s.page_table pid with
    | some f =>
      left
      simp only [FetchPgImp, hres] at h2
      exact ⟨g, h2⟩
    | none =>
      rcases FetchPgImp_miss_cases s pid hres with
        ⟨_, _, he⟩ | ⟨f, rest, hfl, he⟩ | ⟨f, r, hfl, hv, he⟩
      · rw [he] at h2
        exact Or.inl ⟨g, h2⟩
      · rw [he, (installFetch_fields _ pid f).2.2.2.2] at h2
        rcases mapInsert_mapErase_key _ _ _ _ _ _ h2 with h3 | h3
        · right; right; rw [h3]
        · exact Or.inl ⟨g, h3.2⟩
      · rw [he, (installFetch_fields _ pid f).2.2.2.2] at h2
        rcases mapInsert_mapErase_key _ _ _ _ _ _ h2 with h3 | h3
        · right; right; rw [h3]
        · exact Or.inl ⟨g, h3.2⟩
  | UnpinPg pid d =>
    left
    have h2 : (UnpinPgImp s pid d).2.page_table q = some g := h
    cases hres : s.page_table pid with
    | none => rw [(UnpinPgImp_facts s pid d).2.2 hres] at h2; exact ⟨g, h2⟩
    | some f =>
      obtain ⟨_, _, _, _, _, _, _, a8, _⟩ := (UnpinPgImp_facts s pid d).2.1 f hres
      rw [a8] at h2
      exact ⟨g, h2⟩
  | FlushPg pid =>
    left
    have h2 : (FlushPgImp s pid).2.page_table q = some g := h
    cases hres : s.page_table pid with
    | none => simp only [FlushPgImp, hres] at h2; exact ⟨g, h2⟩
    | some f =>
      by_cases hd : (s.pages f).is_dirty = true
      · simp only [FlushPgImp, hres, hd, if_true] at h2
        exact ⟨g, h2⟩
      · simp only [FlushPgImp, hres, hd] at h2
        exact ⟨g, h2⟩
  | DeletePg pid =>
    left
    have h2 : (DeletePgImp s pid).2.page_table q = some g := h
    cases hres : s.page_table pid with
    | none => rw [(DeletePgImp_facts s pid).1 hres] at h2; exact ⟨g, h2⟩
    | some f =>
      by_cases hp : (s.pages f).pin_count = 0
      · obtain ⟨_, _, b3, _, ht, _⟩ := (DeletePgImp_facts s pid).2.2 f hres hp
        by_cases hq : q = (s.pages f).page_id
        · rw [hq, b3] at h2
          exact absurd h2 (by simp)
        · rw [ht q hq] at h2
          exact ⟨g, h2⟩
      · rw [(DeletePgImp_facts s pid).2.1 f hres hp] at h2
        exact ⟨g, h2⟩
  | Write f d => exact Or.inl ⟨g, h⟩

end BufferPoolManagerInstance
namespace BufferPoolManagerInstance

theorem replacer_pin_facts (s : BufferPoolManagerInstance) (h : Run unpinsPinned s) :
    (∀ pid f, s.page_table pid = some f →
      (f ∈ s.replacer.hashmap ↔ (s.pages f).pin_count = 0))
    ∧ (∀ f, f ∈ s.replacer.hashmap → (s.pages f).pin_count = 0)
    ∧ (∀ f r, s.replacer.Victim = (some f, r) → (s.pages f).pin_count = 0)
    ∧ (∀ f pid, (NewPgImp s).1 = some (f, pid) → (s.pages f).pin_count = 0)
    ∧ (∀ pid f, s.page_table pid = none → (FetchPgImp s pid).1 = some f →
        (s.pages f).pin_count = 0) := by
  have hp := Reachable.pinInv (Run.reachable h)
  have hf := Run.frameInv h
  have hwf := hp.replacer_wf
  have hvict : ∀ f r, s.replacer.Victim = (some f, r) → (s.pages f).pin_count = 0 :=
    fun f r hv => hp.dll_pin f (LRUReplacer.Victim_some s.replacer r f hwf hv).1
  refine ⟨?_, fun f hm => hp.dll_pin f ((hwf.1 f).mpr hm), hvict, ?_, ?_⟩
  · intro pid f hq
    constructor
    · intro hm
      exact hp.dll_pin f ((hwf.1 f).mpr hm)
    · intro h0
      rcases hp.zero_tracked f (hp.table_lt pid f hq) (fun x => x) h0 with h1 | h1
      · exact absurd hq (hf.free_not_resident f h1 pid)
      · exact (hwf.1 f).mp h1
  · intro f pid hn
    rcases NewPgImp_cases s with ⟨_, _, he⟩ | ⟨f0, rest, hfl, he⟩ | ⟨f0, r, hfl, hv, he⟩
    · rw [he] at hn; cases hn
    · rw [he, (installNew_alloc _ f0).1] at hn
      have e : f0 = f := (Prod.mk.inj (Option.some.inj hn)).1
      rw [← e]
      exact (hf.free_fresh f0 (by rw [hfl]; exact List.mem_cons_self _ _)).2
    · rw [he, (installNew_alloc _ f0).1] at hn
      have e : f0 = f := (Prod.mk.inj (Option.some.inj hn)).1
      rw [← e]
      exact hvict f0 r hv
  · intro pid f hmiss hn
    rcases FetchPgImp_miss_cases s pid hmiss with
      ⟨_, _, he⟩ | ⟨f0, rest, hfl, he⟩ | ⟨f0, r, hfl, hv, he⟩
    · rw [he] at hn; cases hn
    · rw [he] at hn
      have e : f0 = f := Option.some.inj hn
      rw [← e]
      exact (hf.free_fresh f0 (by rw [hfl]; exact List.mem_cons_self _ _)).2
    · rw [he] at hn
      have e : f0 = f := Option.some.inj hn
      rw [← e]
      exact hvict f0 r hv

/-- C26. Replacer / pin-count invariant. In every state of a pool instance reached
from the constructor by `NewPgImp`, `FetchPgImp`, `UnpinPgImp`, `FlushPgImp` and
`DeletePgImp` in which `UnpinPgImp` is only called on pages with a positive pin
count, a frame that holds a resident page is tracked by the replacer exactly
when its pin count is 0, every tracked frame has pin count 0, and so has the
frame that `Victim` returns and the frame that `NewPgImp` or a missing
`FetchPgImp` takes over: a frame with a positive pin count is never chosen. -/
theorem replacer_pin_invariant (s : BufferPoolManagerInstance) (h : Run unpinsPinned s) :
    (∀ pid f, s.page_table pid = some f →
      (f ∈ s.replacer.hashmap ↔ (s.pages f).pin_count = 0))
    ∧ (∀ f, f ∈ s.replacer.hashmap → (s.pages f).pin_count = 0)
    ∧ (∀ f r, s.replacer.Victim = (some f, r) → (s.pages f).pin_count = 0)
    ∧ (∀ f pid, (NewPgImp s).1 = some (f, pid) → (s.pages f).pin_count = 0)
    ∧ (∀ pid f, s.page_table pid = none → (FetchPgImp s pid).1 = some f →
        (s.pages f).pin_count = 0) :=
  replacer_pin_facts s h

theorem unpinnedScenario_table (f : frame_id_t)
    (h : (NewPgImp (construct 1 1 0 (fun _ => zeroData))).2.page_table 0 = some f) : f = 0 := by
  have e : (NewPgImp (construct 1 1 0 (fun _ => zeroData))).2.page_table 0 = some 0 := by
    decide
  rw [e] at h
  exact (Option.some.inj h).symm

theorem unpinnedScenario_run : Run unpinsPinned unpinnedScenario :=
  ((Run.construct 1 1 0 (fun _ => zeroData) (by decide) (by decide)).step
    Op.NewPg trivial).step (Op.UnpinPg 0 false)
      (fun f hf => by rw [unpinnedScenario_table f hf]; decide)

/-- Witness for C26: one frame, page 0 created and unpinned; frame 0 is tracked and
would be the victim. -/
theorem replacer_pin_invariant_witness :
    Run unpinsPinned unpinnedScenario
    ∧ unpinnedScenario.page_table 0 = some 0
    ∧ unpinnedScenario.replacer.hashmap = [0]
    ∧ (unpinnedScenario.pages 0).pin_count = 0
    ∧ (∀ pid f, unpinnedScenario.page_table pid = some f →
      (f ∈ unpinnedScenario.replacer.hashmap ↔ (unpinnedScenario.pages f).pin_count = 0))
    ∧ (∀ f, f ∈ unpinnedScenario.replacer.hashmap → (unpinnedScenario.pages f).pin_count = 0)
    ∧ (∀ f r, unpinnedScenario.replacer.Victim = (some f, r) →
        (unpinnedScenario.pages f).pin_count = 0)
    ∧ (∀ f pid, (NewPgImp unpinnedScenario).1 = some (f, pid) →
        (unpinnedScenario.pages f).pin_count = 0)
    ∧ (∀ pid f, unpinnedScenario.page_table pid = none →
        (FetchPgImp unpinnedScenario pid).1 = some f →
        (unpinnedScenario.pages f).pin_count = 0) :=
  ⟨unpinnedScenario_run, by decide, by decide, by decide,
    replacer_pin_invariant unpinnedScenario unpinnedScenario_run⟩

/-! ### Free list and page table cover the pool -/

theorem CoverInv_install (s s2 : BufferPoolManagerInstance) (f : frame_id_t) (pid : page_id_t)
    (hc : CoverInv s) (hps : s2.pool_size = s.pool_size)
    (hfree : ∀ g, g ≠ f → g ∉ s2.free_list → g ∉ s.free_list)
    (hold : ∀ q g, s.page_table q = some g → g ≠ f → q ≠ (s.pages f).page_id)
    (hpid : pid ≠ INVALID_PAGE_ID) (hmiss : s.page_table pid = none)
    (ht : s2.page_table = mapInsert (mapErase s.page_table (s.pages f).page_id) pid f) :
    CoverInv s2 := by
  constructor
  · intro g hg hgf
    rw [hps] at hg
    by_cases e : g = f
    · refine ⟨pid, ?_⟩
      rw [ht, mapInsert_mapErase_apply _ _ _ _ _ hmiss, e]
      simp
    · obtain ⟨q, hq⟩ := hc.covered g hg (hfree g e hgf)
      refine ⟨q, ?_⟩
      have h1 : q ≠ pid := fun e2 => by rw [e2, hmiss] at hq; cases hq
      have h2 : q ≠ (s.pages f).page_id := hold q g hq e
      rw [ht, mapInsert_mapErase_apply _ _ _ _ _ hmiss]
      simp only [h1, h2, if_false]
      exact hq
  · intro g hg
    rw [ht, mapInsert_mapErase_apply _ _ _ _ _ hmiss] at hg
    have h1 : INVALID_PAGE_ID ≠ pid := fun e => hpid e.symm
    simp only [h1, if_false] at hg
    by_cases h2 : INVALID_PAGE_ID = (s.pages f).page_id
    · rw [if_pos h2] at hg; cases hg
    · rw [if_neg h2] at hg
      exact hc.no_invalid g hg

/-- The page id of a frame taken from the free list is not a key of the page table. -/
theorem hold_of_free (s : BufferPoolManagerInstance) (f : frame_id_t) (rest : List frame_id_t)
    (hf : FrameInv s) (hc : CoverInv s) (hfl : s.free_list = f :: rest) :
    ∀ q g, s.page_table q = some g → g ≠ f → q ≠ (s.pages f).page_id := by
  intro q g hq _ e
  rw [(hf.free_fresh f (by rw [hfl]; exact List.mem_cons_self _ _)).1] at e
  rw [e] at hq
  exact hc.no_invalid g hq

/-- The page id of a victim frame is the key of the victim frame only. -/
theorem hold_of_victim (s : BufferPoolManagerInstance) (f : frame_id_t) (r : LRUReplacer)
    (hf : FrameInv s) (hc : CoverInv s) (hfl : s.free_list = [])
    (hv : s.replacer.Victim = (some f, r)) :
    ∀ q g, s.page_table q = some g → g ≠ f → q ≠ (s.pages f).page_id := by
  intro q g hq hgf e
  have hlt : f < s.pool_size :=
    hf.dll_lt f (LRUReplacer.Victim_some s.replacer r f hf.replacer_wf hv).1
  obtain ⟨q2, hq2⟩ := hc.covered f hlt (by rw [hfl]; simp)
  have e2 : (s.pages f).page_id = q2 := hf.consistent q2 f hq2
  rw [e2] at e
  rw [e, hq2] at hq
  exact hgf (Option.some.inj hq).symm

theorem CoverInv_step (s : BufferPoolManagerInstance) (op : Op) (hf : FrameInv s)
    (hc : CoverInv s) (hok : properIds s op) : CoverInv (op.apply s) := by
  cases op with
  | NewPg =>
    show CoverInv (NewPgImp s).2
    obtain ⟨hpid, hmiss⟩ := hok
    rcases NewPgImp_cases s with ⟨_, _, he⟩ | ⟨f, rest, hfl, he⟩ | ⟨f, r, hfl, hv, he⟩
    · rw [he]; exact hc
    · rw [he]
      obtain ⟨_, _, e3, e4, e5⟩ := installNew_fields { s with free_list := rest } f
      refine CoverInv_install s _ f s.next_page_id hc e4 ?_
        (hold_of_free s f rest hf hc hfl) hpid hmiss e5
      intro g hgf hg hm
      rw [e3] at hg
      rw [hfl] at hm
      rcases List.mem_cons.mp hm with h1 | h1
      · exact hgf h1
      · exact hg h1
    · rw [he]
      obtain ⟨_, _, e3, e4, e5⟩ := installNew_fields { s with replacer := r } f
      refine CoverInv_install s _ f s.next_page_id hc e4 ?_
        (hold_of_victim s f r hf hc hfl hv) hpid hmiss e5
      intro g _ _ hm
      rw [hfl] at hm
      cases hm
  | FetchPg pid =>
    show CoverInv (FetchPgImp s pid).2
    cases hres : s.page_table pid with
    | some f =>
      simp only [FetchPgImp, hres]
      exact ⟨hc.covered, hc.no_invalid⟩
    | none =>
      rcases FetchPgImp_miss_cases s pid hres with
        ⟨_, _, he⟩ | ⟨f, rest, hfl, he⟩ | ⟨f, r, hfl, hv, he⟩
      · rw [he]; exact hc
      · rw [he]
        obtain ⟨_, _, e3, e4, e5⟩ := installFetch_fields { s with free_list := rest } pid f
        refine CoverInv_install s _ f pid hc e4 ?_
          (hold_of_free s f rest hf hc hfl) hok hres e5
        intro g hgf hg hm
        rw [e3] at hg
        rw [hfl] at hm
        rcases List.mem_cons.mp hm with h1 | h1
        · exact hgf h1
        · exact hg h1
      · rw [he]
        obtain ⟨_, _, e3, e4, e5⟩ := installFetch_fields { s with replacer := r } pid f
        refine CoverInv_install s _ f pid hc e4 ?_
          (hold_of_victim s f r hf hc hfl hv) hok hres e5
        intro g _ _ hm
        rw [hfl] at hm
        cases hm
  | UnpinPg pid d =>
    show CoverInv (UnpinPgImp s pid d).2
    cases hres : s.page_table pid with
    | none => rw [(UnpinPgImp_facts s pid d).2.2 hres]; exact hc
    | some f =>
      obtain ⟨_, _, _, _, _, _, _, a8, a9, _⟩ := (UnpinPgImp_facts s pid d).2.1 f hres
      have hps : (UnpinPgImp s pid d).2.pool_size = s.pool_size := by
        simp only [UnpinPgImp, hres]
      constructor
      · intro g hg hgf
        rw [hps] at hg; rw [a9] at hgf; rw [a8]
        exact hc.covered g hg hgf
      · intro g hg
        rw [a8] at hg
        exact hc.no_invalid g hg
  | FlushPg pid =>
    show CoverInv (FlushPgImp s pid).2
    cases hres : s.page_table pid with
    | none => simp only [FlushPgImp, hres]; exact hc
    | some f =>
      by_cases hd : (s.pages f).is_dirty = true
      · simp only [FlushPgImp, hres, hd, if_true]
        exact ⟨hc.covered, hc.no_invalid⟩
      · simp only [FlushPgImp, hres, hd]
        exact hc
  | DeletePg pid =>
    show CoverInv (DeletePgImp s pid).2
    cases hres : s.page_table pid with
    | none => rw [(DeletePgImp_facts s pid).1 hres]; exact hc
    | some f =>
      by_cases hp : (s.pages f).pin_count = 0
      · obtain ⟨_, _, b3, _, ht, _, _, hfl⟩ := (DeletePgImp_facts s pid).2.2 f hres hp
        have hid : (s.pages f).page_id = pid := hf.consistent pid f hres
        have hps : (DeletePgImp s pid).2.pool_size = s.pool_size := by
          simp only [DeletePgImp, hres, hp]
          by_cases hd : (s.pages f).is_dirty = true <;> simp [hd]
        constructor
        · intro g hg hgf
          rw [hps] at hg
          rw [hfl] at hgf
          have h1 : g ∉ s.free_list := fun hm => hgf (List.mem_append_left _ hm)
          have h2 : g ≠ f := fun e => hgf (by rw [e]; simp)
          obtain ⟨q, hq⟩ := hc.covered g hg h1
          refine ⟨q, ?_⟩
          have h3 : q ≠ (s.pages f).page_id := by
            intro e
            rw [e, hid, hres] at hq
            exact h2 (Option.some.inj hq).symm
          rw [ht q h3]
          exact hq
        · intro g hg
          by_cases e : INVALID_PAGE_ID = (s.pages f).page_id
          · rw [e, b3] at hg; cases hg
          · rw [ht _ e] at hg
            exact hc.no_invalid g hg
      · rw [(DeletePgImp_facts s pid).2.1 f hres hp]
        exact hc
  | Write f d => exact ⟨hc.covered, hc.no_invalid⟩

theorem Run.coverInv {s : BufferPoolManagerInstance} (h : Run properIds s) : CoverInv s := by
  induction h with
  | construct a b c d _ _ =>
    constructor
    · intro f hf hnf
      exact absurd (List.mem_range.mpr hf) hnf
    · intro f hf
      simp [BufferPoolManagerInstance.construct] at hf
  | @step s0 h0 op hok ih => exact CoverInv_step s0 op (Run.frameInv h0) ih hok

theorem free_list_facts (s : BufferPoolManagerInstance) (h : Run properIds s) :
    (∀ f, f < s.pool_size →
      (f ∈ s.free_list ∧ s.free_list.count f = 1 ∧ ∀ pid, s.page_table pid ≠ some f)
      ∨ (f ∉ s.free_list ∧ ∃ pid, s.page_table pid = some f
          ∧ ∀ pid2, s.page_table pid2 = some f → pid2 = pid))
    ∧ (∀ f, f ∈ s.free_list → f < s.pool_size)
    ∧ (∀ pid f, s.page_table pid = some f → f < s.pool_size) := by
  have hf := Run.frameInv h
  have hc := Run.coverInv h
  refine ⟨?_, hf.free_lt, hf.table_lt⟩
  intro f hlt
  by_cases hm : f ∈ s.free_list
  · exact Or.inl ⟨hm, List.count_eq_one_of_mem hf.free_nodup hm, hf.free_not_resident f hm⟩
  · right
    obtain ⟨q, hq⟩ := hc.covered f hlt hm
    refine ⟨hm, q, hq, ?_⟩
    intro q2 hq2
    rw [← hf.consistent q f hq, ← hf.consistent q2 f hq2]

/-- C27, amended. Free-list invariant. In every state of a pool instance reached from
the constructor by `NewPgImp`, `FetchPgImp`, `UnpinPgImp`, `FlushPgImp` and
`DeletePgImp` in which `FetchPgImp` is not called with the INVALID sentinel and
`NewPgImp` is not called when the page id it allocates is the sentinel or is
resident already, each frame index below the pool size is either in the free
list (exactly once, and then no page-table entry leads to it) or is the image
of exactly one page-table entry; the free list and the page table hold frame
indices below the pool size only. -/
theorem free_list_invariant (s : BufferPoolManagerInstance) (h : Run properIds s) :
    (∀ f, f < s.pool_size →
      (f ∈ s.free_list ∧ s.free_list.count f = 1 ∧ ∀ pid, s.page_table pid ≠ some f)
      ∨ (f ∉ s.free_list ∧ ∃ pid, s.page_table pid = some f
          ∧ ∀ pid2, s.page_table pid2 = some f → pid2 = pid))
    ∧ (∀ f, f ∈ s.free_list → f < s.pool_size)
    ∧ (∀ pid f, s.page_table pid = some f → f < s.pool_size) :=
  free_list_facts s h

theorem shardRunScenario_proper : Run properIds shardRunScenario :=
  ((((((Run.construct 3 2 1 (fun _ => zeroData) (by decide) (by decide)).step
    Op.NewPg ⟨by decide, by decide⟩).step
    Op.NewPg ⟨by decide, by decide⟩).step
    (Op.FetchPg 5) (by show (5 : page_id_t) ≠ INVALID_PAGE_ID; decide)).step
    (Op.UnpinPg 1 true) trivial).step
    (Op.UnpinPg 3 false) trivial).step
    (Op.DeletePg 3) trivial

/-- Witness for C27, amended: three frames; frames 0 and 2 hold pages 1 and 5, frame 1
was freed by the deletion of page 3. -/
theorem free_list_invariant_witness :
    Run properIds shardRunScenario
    ∧ shardRunScenario.free_list = [1]
    ∧ (∀ f, f < shardRunScenario.pool_size →
      (f ∈ shardRunScenario.free_list ∧ shardRunScenario.free_list.count f = 1
        ∧ ∀ pid, shardRunScenario.page_table pid ≠ some f)
      ∨ (f ∉ shardRunScenario.free_list ∧ ∃ pid, shardRunScenario.page_table pid = some f
          ∧ ∀ pid2, shardRunScenario.page_table pid2 = some f → pid2 = pid))
    ∧ (∀ f, f ∈ shardRunScenario.free_list → f < shardRunScenario.pool_size)
    ∧ (∀ pid f, shardRunScenario.page_table pid = some f → f < shardRunScenario.pool_size) :=
  ⟨shardRunScenario_proper, by decide,
    free_list_invariant shardRunScenario shardRunScenario_proper⟩

theorem twiceResidentScenario_keys (q : page_id_t) (g : frame_id_t)
    (h : twiceResidentScenario.page_table q = some g) : q = 0 := by
  rcases Op.apply_keys Op.NewPg _ q g h with ⟨g2, h2⟩ | ⟨_, _, h2⟩ | h2
  · rcases Op.apply_keys (Op.FetchPg 0) _ q g2 h2 with ⟨g3, h3⟩ | ⟨h3, _⟩ | h3
    · simp [BufferPoolManagerInstance.construct] at h3
    · cases h3
    · injection h3 with h4
      exact h4.symm
  · rw [h2]
    decide
  · cases h2

/-- C27, counterexample. A pool of two frames (one instance): `FetchPgImp(0)` puts page
0 in frame 0, then `NewPgImp` allocates the page id 0, takes frame 1 from the
free list and `page_table_.insert` keeps the entry `0 -> 0`. Afterwards frame 1
is neither in the free list nor the image of a page-table entry, and both
frames hold page id 0. -/
theorem frame_neither_free_nor_mapped :
    Run anyCall twiceResidentScenario
    ∧ twiceResidentScenario.pool_size = 2
    ∧ twiceResidentScenario.free_list = []
    ∧ twiceResidentScenario.page_table 0 = some 0
    ∧ (∀ pid, twiceResidentScenario.page_table pid ≠ some 1)
    ∧ (twiceResidentScenario.pages 0).page_id = 0
    ∧ (twiceResidentScenario.pages 1).page_id = 0
    ∧ (NewPgImp (FetchPgImp (construct 2 1 0 (fun _ => zeroData)) 0).2).1 = some (1, 0) := by
  refine ⟨((Run.construct 2 1 0 (fun _ => zeroData) (by decide) (by decide)).step
    (Op.FetchPg 0) trivial).step Op.NewPg trivial, by decide, by decide, by decide, ?_,
    by decide, by decide, by decide⟩
  intro pid hq
  have e := twiceResidentScenario_keys pid 1 hq
  rw [e] at hq
  exact absurd hq (by decide)

end BufferPoolManagerInstance
namespace BufferPoolManagerInstance

theorem pin_count_facts (s : BufferPoolManagerInstance) (h : Run unpinsPinned s) :
    (∀ f, 0 ≤ (s.pages f).pin_count)
    ∧ (∀ pid is_dirty f, s.page_table pid = some f → 0 < (s.pages f).pin_count →
        0 ≤ ((UnpinPgImp s pid is_dirty).2.pages f).pin_count)
    ∧ (∀ pid is_dirty f, s.page_table pid = some f → (s.pages f).pin_count = 0 →
        ((UnpinPgImp s pid is_dirty).2.pages f).pin_count = -1) := by
  refine ⟨(Reachable.pinInv (Run.reachable h)).pin_nonneg, ?_, ?_⟩
  · intro pid d f hq hpos
    rw [((UnpinPgImp_facts s pid d).2.1 f hq).1]
    exact Int.sub_nonneg_of_le hpos
  · intro pid d f hq h0
    rw [((UnpinPgImp_facts s pid d).2.1 f hq).1, h0]
    rfl

/-- C28, amended. In every state of a pool instance reached from the constructor by
`NewPgImp`, `FetchPgImp`, `UnpinPgImp`, `FlushPgImp` and `DeletePgImp` in which
`UnpinPgImp` is called on a resident page only when its pin count is positive,
no frame has a negative pin count, and one more such `UnpinPgImp` keeps it so;
`UnpinPgImp` on a resident page whose pin count is 0 makes the pin count -1. -/
theorem pin_count_nonneg (s : BufferPoolManagerInstance) (h : Run unpinsPinned s) :
    (∀ f, 0 ≤ (s.pages f).pin_count)
    ∧ (∀ pid is_dirty f, s.page_table pid = some f → 0 < (s.pages f).pin_count →
        0 ≤ ((UnpinPgImp s pid is_dirty).2.pages f).pin_count)
    ∧ (∀ pid is_dirty f, s.page_table pid = some f → (s.pages f).pin_count = 0 →
        ((UnpinPgImp s pid is_dirty).2.pages f).pin_count = -1) :=
  pin_count_facts s h

/-- Witness for C28, amended: one frame, page 0 created and unpinned once. -/
theorem pin_count_nonneg_witness :
    Run unpinsPinned unpinnedScenario
    ∧ (∀ f, 0 ≤ (unpinnedScenario.pages f).pin_count)
    ∧ (∀ pid is_dirty f, unpinnedScenario.page_table pid = some f →
        0 < (unpinnedScenario.pages f).pin_count →
        0 ≤ ((UnpinPgImp unpinnedScenario pid is_dirty).2.pages f).pin_count)
    ∧ (∀ pid is_dirty f, unpinnedScenario.page_table pid = some f →
        (unpinnedScenario.pages f).pin_count = 0 →
        ((UnpinPgImp unpinnedScenario pid is_dirty).2.pages f).pin_count = -1) :=
  ⟨unpinnedScenario_run, pin_count_nonneg unpinnedScenario unpinnedScenario_run⟩

/-- C28, counterexample. A pool of one frame: `NewPgImp` creates page 0 (pin count 1),
`UnpinPgImp(0)` brings the pin count to 0, and a second `UnpinPgImp(0)` on the
still resident page returns true and leaves the pin count at -1. -/
theorem pin_count_negative :
    Run anyCall doubleUnpinScenario
    ∧ unpinnedScenario.page_table 0 = some 0
    ∧ (unpinnedScenario.pages 0).pin_count = 0
    ∧ (UnpinPgImp unpinnedScenario 0 false).1 = true
    ∧ doubleUnpinScenario.page_table 0 = some 0
    ∧ (doubleUnpinScenario.pages 0).pin_count = -1 :=
  ⟨(((Run.construct 1 1 0 (fun _ => zeroData) (by decide) (by decide)).step
    Op.NewPg trivial).step (Op.UnpinPg 0 false) trivial).step (Op.UnpinPg 0 false) trivial,
    by decide, by decide, by decide, by decide, by decide⟩

/-! ### Free list and replacer -/

theorem FlushPgImp_frames (s : BufferPoolManagerInstance) (pid : page_id_t) :
    (FlushPgImp s pid).2.replacer = s.replacer
    ∧ (FlushPgImp s pid).2.free_list = s.free_list := by
  unfold FlushPgImp
  cases s.page_table pid with
  | none => exact ⟨rfl, rfl⟩
  | some f => by_cases hd : (s.pages f).is_dirty = true <;> simp [hd]

/-- The function `DeletePgImp` never touches the replacer. -/
theorem DeletePgImp_replacer (s : BufferPoolManagerInstance) (pid : page_id_t) :
    (DeletePgImp s pid).2.replacer = s.replacer := by
  unfold DeletePgImp
  cases s.page_table pid with
  | none => rfl
  | some f =>
    by_cases hp : (s.pages f).pin_count = 0
    · by_cases hd : (s.pages f).is_dirty = true <;> simp [hp, hd]
    · simp [hp]

theorem free_not_tracked_step (s : BufferPoolManagerInstance) (op : Op) (hf : FrameInv s)
    (hd : ∀ f, f ∈ s.free_list → f ∉ s.replacer.dll) (hok : deletesPinnedOnly s op) :
    ∀ f, f ∈ (op.apply s).free_list → f ∉ (op.apply s).replacer.dll := by
  have hpin : ∀ s2 : BufferPoolManagerInstance, ∀ f0 : frame_id_t,
      (∀ g, g ∈ s2.free_list → g ∈ s.free_list) →
      s2.replacer = s.replacer.Pin f0 →
      ∀ f, f ∈ s2.free_list → f ∉ s2.replacer.dll := by
    intro s2 f0 hsub hr f hm hm2
    rw [hr, (LRUReplacer.Pin_WF s.replacer f0 hf.replacer_wf).2] at hm2
    exact hd f (hsub f hm) hm2.1
  cases op with
  | NewPg =>
    show ∀ f, f ∈ (NewPgImp s).2.free_list → f ∉ (NewPgImp s).2.replacer.dll
    rcases NewPgImp_cases s with ⟨_, _, he⟩ | ⟨f0, rest, hfl, he⟩ | ⟨f0, r, hfl, hv, he⟩
    · rw [he]; exact hd
    · rw [he]
      obtain ⟨e1, _, e3, _⟩ := installNew_fields { s with free_list := rest } f0
      refine hpin _ f0 ?_ e1
      intro g hg
      rw [e3] at hg
      rw [hfl]
      exact List.mem_cons_of_mem _ hg
    · rw [he]
      obtain ⟨_, _, e3, _⟩ := installNew_fields { s with replacer := r } f0
      intro f hm
      rw [e3] at hm
      have hm2 : f ∈ s.free_list := hm
      rw [hfl] at hm2
      cases hm2
  | FetchPg pid =>
    show ∀ f, f ∈ (FetchPgImp s pid).2.free_list → f ∉ (FetchPgImp s pid).2.replacer.dll
    cases hres : s.page_table pid with
    | some f0 =>
      simp only [FetchPgImp, hres]
      exact hpin { s with replacer := s.replacer.Pin f0 } f0 (fun g hg => hg) rfl
    | none =>
      rcases FetchPgImp_miss_cases s pid hres with
        ⟨_, _, he⟩ | ⟨f0, rest, hfl, he⟩ | ⟨f0, r, hfl, hv, he⟩
      · rw [he]; exact hd
      · rw [he]
        obtain ⟨e1, _, e3, _⟩ := installFetch_fields { s with free_list := rest } pid f0
        refine hpin _ f0 ?_ e1
        intro g hg
        rw [e3] at hg
        rw [hfl]
        exact List.mem_cons_of_mem _ hg
      · rw [he]
        obtain ⟨_, _, e3, _⟩ := installFetch_fields { s with replacer := r } pid f0
        intro f hm
        rw [e3] at hm
        have hm2 : f ∈ s.free_list := hm
        rw [hfl] at hm2
        cases hm2
  | UnpinPg pid d =>
    show ∀ f, f ∈ (UnpinPgImp s pid d).2.free_list → f ∉ (UnpinPgImp s pid d).2.replacer.dll
    cases hres : s.page_table pid with
    | none => rw [(UnpinPgImp_facts s pid d).2.2 hres]; exact hd
    | some f0 =>
      obtain ⟨_, _, _, _, a5, a6, _, _, a9, _⟩ := (UnpinPgImp_facts s pid d).2.1 f0 hres
      intro f hm hm2
      rw [a9] at hm
      by_cases h0 : (s.pages f0).pin_count - 1 = 0
      · rw [a5 h0, (LRUReplacer.Unpin_WF s.replacer f0 hf.replacer_wf).2] at hm2
        rcases hm2 with h1 | h1
        · exact hd f hm h1
        · rw [h1] at hm
          exact hf.free_not_resident f0 hm pid hres
      · rw [a6 h0] at hm2
        exact hd f hm hm2
  | FlushPg pid =>
    show ∀ f, f ∈ (FlushPgImp s pid).2.free_list → f ∉ (FlushPgImp s pid).2.replacer.dll
    rw [(FlushPgImp_frames s pid).1, (FlushPgImp_frames s pid).2]
    exact hd
  | DeletePg pid =>
    show ∀ f, f ∈ (DeletePgImp s pid).2.free_list → f ∉ (DeletePgImp s pid).2.replacer.dll
    cases hres : s.page_table pid with
    | none => rw [(DeletePgImp_facts s pid).1 hres]; exact hd
    | some f0 =>
      rw [(DeletePgImp_facts s pid).2.1 f0 hres (hok f0 hres)]
      exact hd
  | Write f d => exact hd

theorem Run.free_not_tracked {s : BufferPoolManagerInstance} (h : Run deletesPinnedOnly s) :
    ∀ f, f ∈ s.free_list → f ∉ s.replacer.dll := by
  induction h with
  | construct a b c d _ _ =>
    intro f _ hm
    simp [BufferPoolManagerInstance.construct, LRUReplacer.empty] at hm
  | @step s0 h0 op hok ih => exact free_not_tracked_step s0 op (Run.frameInv h0) ih hok

theorem free_list_replacer_facts (s : BufferPoolManagerInstance)
    (h : Run deletesPinnedOnly s) :
    (∀ f, f ∈ s.free_list → f ∉ s.replacer.dll ∧ f ∉ s.replacer.hashmap)
    ∧ (∀ pid f, s.page_table pid = some f → (s.pages f).pin_count = 0 →
        (DeletePgImp s pid).1 = true
        ∧ (DeletePgImp s pid).2.free_list = s.free_list ++ [f]
        ∧ (DeletePgImp s pid).2.replacer = s.replacer
        ∧ (DeletePgImp s pid).2.replacer.Size = s.replacer.Size
        ∧ (f ∈ s.replacer.hashmap → f ∈ (DeletePgImp s pid).2.free_list
            ∧ f ∈ (DeletePgImp s pid).2.replacer.hashmap)) := by
  have hf := Run.frameInv h
  constructor
  · intro f hm
    have h1 := Run.free_not_tracked h f hm
    exact ⟨h1, fun h2 => h1 ((hf.replacer_wf.1 f).mpr h2)⟩
  · intro pid f hq h0
    obtain ⟨b1, _, _, _, _, _, _, b8⟩ := (DeletePgImp_facts s pid).2.2 f hq h0
    refine ⟨b1, b8, DeletePgImp_replacer s pid, by rw [DeletePgImp_replacer s pid], ?_⟩
    intro hm
    rw [b8, DeletePgImp_replacer s pid]
    exact ⟨by simp, hm⟩

/-- C29, amended. In every state of a pool instance reached from the constructor by
`NewPgImp`, `FetchPgImp`, `UnpinPgImp`, `FlushPgImp` and `DeletePgImp` in which
`DeletePgImp` has not been called on a resident page with pin count 0, no
frame index is at once in the free list and tracked by the replacer.
`DeletePgImp` on a resident page with pin count 0 succeeds, appends the frame to
the free list and leaves the replacer as it is: `Size` is unchanged, and a
frame that was tracked is afterwards both in the free list and tracked. -/
theorem free_list_replacer_disjoint (s : BufferPoolManagerInstance)
    (h : Run deletesPinnedOnly s) :
    (∀ f, f ∈ s.free_list → f ∉ s.replacer.dll ∧ f ∉ s.replacer.hashmap)
    ∧ (∀ pid f, s.page_table pid = some f → (s.pages f).pin_count = 0 →
        (DeletePgImp s pid).1 = true
        ∧ (DeletePgImp s pid).2.free_list = s.free_list ++ [f]
        ∧ (DeletePgImp s pid).2.replacer = s.replacer
        ∧ (DeletePgImp s pid).2.replacer.Size = s.replacer.Size
        ∧ (f ∈ s.replacer.hashmap → f ∈ (DeletePgImp s pid).2.free_list
            ∧ f ∈ (DeletePgImp s pid).2.replacer.hashmap)) :=
  free_list_replacer_facts s h

theorem unpinnedScenario_run3 : Run deletesPinnedOnly unpinnedScenario :=
  ((Run.construct 1 1 0 (fun _ => zeroData) (by decide) (by decide)).step
    Op.NewPg trivial).step (Op.UnpinPg 0 false) trivial

/-- Witness for C29, amended: one frame, page 0 created and unpinned. -/
theorem free_list_replacer_disjoint_witness :
    Run deletesPinnedOnly unpinnedScenario
    ∧ (∀ f, f ∈ unpinnedScenario.free_list →
        f ∉ unpinnedScenario.replacer.dll ∧ f ∉ unpinnedScenario.replacer.hashmap)
    ∧ (∀ pid f, unpinnedScenario.page_table pid = some f →
        (unpinnedScenario.pages f).pin_count = 0 →
        (DeletePgImp unpinnedScenario pid).1 = true
        ∧ (DeletePgImp unpinnedScenario pid).2.free_list = unpinnedScenario.free_list ++ [f]
        ∧ (DeletePgImp unpinnedScenario pid).2.replacer = unpinnedScenario.replacer
        ∧ (DeletePgImp unpinnedScenario pid).2.replacer.Size = unpinnedScenario.replacer.Size
        ∧ (f ∈ unpinnedScenario.replacer.hashmap →
            f ∈ (DeletePgImp unpinnedScenario pid).2.free_list
            ∧ f ∈ (DeletePgImp unpinnedScenario pid).2.replacer.hashmap)) :=
  ⟨unpinnedScenario_run3, free_list_replacer_disjoint unpinnedScenario unpinnedScenario_run3⟩

theorem deletedScenario_keys (q : page_id_t) (g : frame_id_t)
    (h : deletedScenario.page_table q = some g) : q = 0 := by
  rcases Op.apply_keys (Op.DeletePg 0)
    ((Op.UnpinPg 0 false).apply (Op.NewPg.apply (construct 1 1 0 (fun _ => zeroData))))
    q g h with ⟨g2, h2⟩ | ⟨h2, _⟩ | h2
  · rcases Op.apply_keys (Op.UnpinPg 0 false) _ q g2 h2 with ⟨g3, h3⟩ | ⟨h3, _⟩ | h3
    · rcases Op.apply_keys Op.NewPg _ q g3 h3 with ⟨g4, h4⟩ | ⟨_, _, h4⟩ | h4
      · simp [BufferPoolManagerInstance.construct] at h4
      · rw [h4]
        decide
      · cases h4
    · cases h3
    · cases h3
  · cases h2
  · cases h2

/-- C29, counterexample. A pool of one frame whose client unpins only what is pinned:
`NewPgImp` creates page 0, `UnpinPgImp(0)` brings its pin count to 0 (frame 0
becomes tracked), `DeletePgImp(0)` succeeds. Afterwards frame 0 is in the free
list and still tracked by the replacer, and `Size` is 1 although no page is
resident. -/
theorem freed_frame_still_tracked :
    Run unpinsPinned deletedScenario
    ∧ unpinnedScenario.page_table 0 = some 0
    ∧ (unpinnedScenario.pages 0).pin_count = 0
    ∧ (DeletePgImp unpinnedScenario 0).1 = true
    ∧ deletedScenario.free_list = [0]
    ∧ deletedScenario.replacer.dll = [0]
    ∧ deletedScenario.replacer.hashmap = [0]
    ∧ deletedScenario.replacer.Size = 1
    ∧ (∀ pid f, deletedScenario.page_table pid ≠ some f) := by
  refine ⟨(((Run.construct 1 1 0 (fun _ => zeroData) (by decide) (by decide)).step
    Op.NewPg trivial).step (Op.UnpinPg 0 false)
      (fun f hf => by rw [unpinnedScenario_table f hf]; decide)).step (Op.DeletePg 0) trivial,
    by decide, by decide, by decide, by decide, by decide, by decide, by decide, ?_⟩
  intro pid f hq
  have e := deletedScenario_keys pid f hq
  have hn : deletedScenario.page_table 0 = none := by decide
  rw [e, hn] at hq
  cases hq

end BufferPoolManagerInstance

/-! ## Extendible hash table: local depths never exceed the global depth -/

namespace HashTableDirectoryPage

theorem Size_eq (d : HashTableDirectoryPage) : d.Size = 2 ^ d.global_depth := by
  unfold Size
  exact Nat.one_shiftLeft _

theorem SetLocalDepth_get (d : HashTableDirectoryPage) (i x : Nat) :
    (d.SetLocalDepth i x).global_depth = d.global_depth
    ∧ (∀ j, (d.SetLocalDepth i x).GetLocalDepth j = if j = i then x else d.GetLocalDepth j)
    ∧ (∀ j, (d.SetLocalDepth i x).GetBucketPageId j = d.GetBucketPageId j) := by
  refine ⟨rfl, fun j => ?_, fun j => rfl⟩
  unfold SetLocalDepth GetLocalDepth
  exact getD_pad_set d.local_depths 0 x i j

theorem SetBucketPageId_get (d : HashTableDirectoryPage) (i : Nat) (x : page_id_t) :
    (d.SetBucketPageId i x).global_depth = d.global_depth
    ∧ (∀ j, (d.SetBucketPageId i x).GetLocalDepth j = d.GetLocalDepth j)
    ∧ (∀ j, (d.SetBucketPageId i x).GetBucketPageId j
        = if j = i then x else d.GetBucketPageId j) := by
  refine ⟨rfl, fun j => rfl, fun j => ?_⟩
  unfold SetBucketPageId GetBucketPageId
  exact getD_pad_set d.bucket_page_ids 0 x i j

theorem doubleLoop_get (old : Nat) : ∀ (n s : Nat) (d : HashTableDirectoryPage), s + n ≤ old →
    (doubleLoop old n s d).global_depth = d.global_depth
    ∧ (∀ j, (doubleLoop old n s d).GetLocalDepth j
        = if old + s ≤ j ∧ j < old + s + n then d.GetLocalDepth (j - old)
          else d.GetLocalDepth j)
    ∧ (∀ j, (doubleLoop old n s d).GetBucketPageId j
        = if old + s ≤ j ∧ j < old + s + n then d.GetBucketPageId (j - old)
          else d.GetBucketPageId j) := by
  intro n
  induction n with
  | zero =>
    intro s d _
    refine ⟨rfl, fun j => ?_, fun j => ?_⟩
    · rw [if_neg (by omega)]; rfl
    · rw [if_neg (by omega)]; rfl
  | succ n ih =>
    intro s d hle
    obtain ⟨g1, g2, g3⟩ := ih (s + 1)
      ((d.SetBucketPageId (s + old) (d.GetBucketPageId s)).SetLocalDepth (s + old)
        (d.GetLocalDepth s)) (by omega)
    obtain ⟨a1, a2, a3⟩ := SetLocalDepth_get
      (d.SetBucketPageId (s + old) (d.GetBucketPageId s)) (s + old) (d.GetLocalDepth s)
    obtain ⟨b1, b2, b3⟩ := SetBucketPageId_get d (s + old) (d.GetBucketPageId s)
    refine ⟨?_, fun j => ?_, fun j => ?_⟩
    · show (doubleLoop old n (s + 1) _).global_depth = _
      rw [g1, a1, b1]
    · show (doubleLoop old n (s + 1) _).GetLocalDepth j = _
      rw [g2 j, a2, a2, b2, b2]
      by_cases h1 : old + (s + 1) ≤ j ∧ j < old + (s + 1) + n
      · rw [if_pos h1, if_neg (by omega), if_pos (by omega)]
      · rw [if_neg h1]
        by_cases h2 : j = s + old
        · rw [if_pos h2, if_pos (by omega)]
          congr 1
          omega
        · rw [if_neg h2, if_neg (by omega)]
    · show (doubleLoop old n (s + 1) _).GetBucketPageId j = _
      rw [g3 j, a3, a3, b3, b3]
      by_cases h1 : old + (s + 1) ≤ j ∧ j < old + (s + 1) + n
      · rw [if_pos h1, if_neg (by omega), if_pos (by omega)]
      · rw [if_neg h1]
        by_cases h2 : j = s + old
        · rw [if_pos h2, if_pos (by omega)]
          congr 1
          omega
        · rw [if_neg h2, if_neg (by omega)]

theorem IncrGlobalDepth_get (d : HashTableDirectoryPage) :
    d.IncrGlobalDepth.global_depth = d.global_depth + 1
    ∧ (∀ j, d.IncrGlobalDepth.GetLocalDepth j
        = if d.Size ≤ j ∧ j < d.Size + d.Size then d.GetLocalDepth (j - d.Size)
          else d.GetLocalDepth j)
    ∧ (∀ j, d.IncrGlobalDepth.GetBucketPageId j
        = if d.Size ≤ j ∧ j < d.Size + d.Size then d.GetBucketPageId (j - d.Size)
          else d.GetBucketPageId j) := by
  obtain ⟨_, g2, g3⟩ := doubleLoop_get d.Size d.Size 0 d (by omega)
  refine ⟨rfl, fun j => ?_, fun j => ?_⟩
  · have e := g2 j
    simp only [Nat.add_zero] at e
    exact e
  · have e := g3 j
    simp only [Nat.add_zero] at e
    exact e

/-- Doubling the directory keeps its shape, and afterwards every local depth is
below the global depth. -/
theorem DirInv_IncrGlobalDepth (d : HashTableDirectoryPage) (next : page_id_t)
    (h : DirInv d next) :
    DirInv d.IncrGlobalDepth next
    ∧ (∀ s, s < d.IncrGlobalDepth.Size →
        d.IncrGlobalDepth.GetLocalDepth s < d.IncrGlobalDepth.global_depth)
    ∧ (∀ s, s < d.Size → d.IncrGlobalDepth.GetBucketPageId s = d.GetBucketPageId s)
    ∧ (∀ s, s < d.Size → d.IncrGlobalDepth.GetLocalDepth s = d.GetLocalDepth s)
    ∧ d.Size ≤ d.IncrGlobalDepth.Size := by
  obtain ⟨g1, g2, g3⟩ := IncrGlobalDepth_get d
  have hsz : d.IncrGlobalDepth.Size = d.Size + d.Size := by
    rw [Size_eq, Size_eq, g1, pow_succ]
    omega
  have key : ∀ s, s < d.Size + d.Size → ∃ r, r < d.Size
      ∧ d.IncrGlobalDepth.GetLocalDepth s = d.GetLocalDepth r
      ∧ d.IncrGlobalDepth.GetBucketPageId s = d.GetBucketPageId r := by
    intro s hs
    by_cases h1 : d.Size ≤ s
    · refine ⟨s - d.Size, by omega, ?_, ?_⟩
      · rw [g2, if_pos ⟨h1, hs⟩]
      · rw [g3, if_pos ⟨h1, hs⟩]
    · refine ⟨s, by omega, ?_, ?_⟩
      · rw [g2, if_neg (fun hc => h1 hc.1)]
      · rw [g3, if_neg (fun hc => h1 hc.1)]
  refine ⟨⟨?_, ?_, ?_⟩, ?_, ?_, ?_, by omega⟩
  · intro s hs
    rw [hsz] at hs
    obtain ⟨r, hr, e1, _⟩ := key s hs
    rw [e1, g1]
    exact Nat.le_succ_of_le (h.depth_le r hr)
  · intro s u hs hu hp
    rw [hsz] at hs hu
    obtain ⟨r, hr, e1, e2⟩ := key s hs
    obtain ⟨r2, hr2, e3, e4⟩ := key u hu
    rw [e1, e3]
    rw [e2, e4] at hp
    exact h.same_depth r r2 hr hr2 hp
  · intro s hs
    rw [hsz] at hs
    obtain ⟨r, hr, _, e2⟩ := key s hs
    rw [e2]
    exact h.pid_lt r hr
  · intro s hs
    rw [hsz] at hs
    obtain ⟨r, hr, e1, _⟩ := key s hs
    rw [e1, g1]
    exact Nat.lt_succ_of_le (h.depth_le r hr)
  · intro s hs
    rw [g3, if_neg (by omega)]
  · intro s hs
    rw [g2, if_neg (by omega)]

end HashTableDirectoryPage

namespace ExtendibleHashTable

open HashTableDirectoryPage

theorem KeyToDirectoryIndex_lt (hash : KeyType → Nat) (key : KeyType)
    (d : HashTableDirectoryPage) : KeyToDirectoryIndex hash key d < d.Size := by
  unfold KeyToDirectoryIndex GetGlobalDepthMask
  have h1 : hash key &&& (1 <<< d.global_depth) - 1 ≤ (1 <<< d.global_depth) - 1 :=
    Nat.and_le_right
  have h2 : 0 < d.Size := by rw [Size_eq]; exact Nat.two_pow_pos _
  unfold Size at h2 ⊢
  omega

theorem splitDirLoop_get (bp np : page_id_t) (b nb L : Nat) :
    ∀ (n i : Nat) (d : HashTableDirectoryPage),
      d.GetLocalDepth b = L → d.GetLocalDepth nb = L →
      (splitDirLoop bp np b nb n i d).global_depth = d.global_depth
      ∧ (∀ j, (splitDirLoop bp np b nb n i d).GetLocalDepth j
          = if i ≤ j ∧ j < i + n ∧ d.GetBucketPageId j = bp then L else d.GetLocalDepth j)
      ∧ (∀ j, (splitDirLoop bp np b nb n i d).GetBucketPageId j
          = if i ≤ j ∧ j < i + n ∧ d.GetBucketPageId j = bp then
              (if j >>> (L - 1) = b >>> (L - 1) then bp else np)
            else d.GetBucketPageId j) := by
  intro n
  induction n with
  | zero =>
    intro i d _ _
    refine ⟨rfl, fun j => ?_, fun j => ?_⟩
    · rw [if_neg (by omega)]; rfl
    · rw [if_neg (by omega)]; rfl
  | succ n ih =>
    intro i d hb hnb
    have hstep : ∃ d2 : HashTableDirectoryPage,
        splitDirLoop bp np b nb (n + 1) i d = splitDirLoop bp np b nb n (i + 1) d2
        ∧ d2.global_depth = d.global_depth
        ∧ (∀ j, d2.GetLocalDepth j
            = if j = i ∧ d.GetBucketPageId i = bp then L else d.GetLocalDepth j)
        ∧ (∀ j, d2.GetBucketPageId j
            = if j = i ∧ d.GetBucketPageId i = bp then
                (if i >>> (L - 1) = b >>> (L - 1) then bp else np)
              else d.GetBucketPageId j) := by
      refine ⟨_, rfl, ?_⟩
      by_cases hp : d.GetBucketPageId i = bp
      · rw [if_pos hp, hb]
        by_cases hs : i >>> (L - 1) = b >>> (L - 1)
        · rw [if_pos hs]
          obtain ⟨a1, a2, a3⟩ := SetBucketPageId_get (d.SetLocalDepth i L) i bp
          obtain ⟨b1, b2, b3⟩ := SetLocalDepth_get d i L
          refine ⟨by rw [a1, b1], fun j => ?_, fun j => ?_⟩
          · rw [a2, b2]
            by_cases hj : j = i
            · rw [if_pos hj, if_pos ⟨hj, hp⟩]
            · rw [if_neg hj, if_neg (fun hc => hj hc.1)]
          · rw [a3, b3]
            by_cases hj : j = i
            · rw [if_pos hj, if_pos ⟨hj, hp⟩, if_pos hs]
            · rw [if_neg hj, if_neg (fun hc => hj hc.1)]
        · rw [if_neg hs, hnb]
          obtain ⟨a1, a2, a3⟩ := SetBucketPageId_get (d.SetLocalDepth i L) i np
          obtain ⟨b1, b2, b3⟩ := SetLocalDepth_get d i L
          refine ⟨by rw [a1, b1], fun j => ?_, fun j => ?_⟩
          · rw [a2, b2]
            by_cases hj : j = i
            · rw [if_pos hj, if_pos ⟨hj, hp⟩]
            · rw [if_neg hj, if_neg (fun hc => hj hc.1)]
          · rw [a3, b3]
            by_cases hj : j = i
            · rw [if_pos hj, if_pos ⟨hj, hp⟩, if_neg hs]
            · rw [if_neg hj, if_neg (fun hc => hj hc.1)]
      · rw [if_neg hp]
        refine ⟨rfl, fun j => ?_, fun j => ?_⟩
        · rw [if_neg (fun hc => hp hc.2)]
        · rw [if_neg (fun hc => hp hc.2)]
    obtain ⟨d2, e, c1, c2, c3⟩ := hstep
    have hb2 : d2.GetLocalDepth b = L := by
      rw [c2]
      by_cases hc : b = i ∧ d.GetBucketPageId i = bp
      · rw [if_pos hc]
      · rw [if_neg hc, hb]
    have hnb2 : d2.GetLocalDepth nb = L := by
      rw [c2]
      by_cases hc : nb = i ∧ d.GetBucketPageId i = bp
      · rw [if_pos hc]
      · rw [if_neg hc, hnb]
    obtain ⟨g1, g2, g3⟩ := ih (i + 1) d2 hb2 hnb2
    rw [e]
    refine ⟨by rw [g1, c1], fun j => ?_, fun j => ?_⟩
    · by_cases hj : j = i
      · subst hj
        rw [g2, c2, c3]
        by_cases hp : d.GetBucketPageId j = bp <;> simp [hp]
      · have e2 : d2.GetLocalDepth j = d.GetLocalDepth j := by
          rw [c2, if_neg (fun hc => hj hc.1)]
        have e3 : d2.GetBucketPageId j = d.GetBucketPageId j := by
          rw [c3, if_neg (fun hc => hj hc.1)]
        rw [g2, e2, e3]
        refine if_congr ?_ rfl rfl
        constructor
        · rintro ⟨h1, h2, h3⟩
          exact ⟨by omega, by omega, h3⟩
        · rintro ⟨h1, h2, h3⟩
          exact ⟨by omega, by omega, h3⟩
    · by_cases hj : j = i
      · subst hj
        rw [g3, c3]
        by_cases hp : d.GetBucketPageId j = bp <;> simp [hp]
      · have e3 : d2.GetBucketPageId j = d.GetBucketPageId j := by
          rw [c3, if_neg (fun hc => hj hc.1)]
        rw [g3, e3]
        refine if_congr ?_ rfl rfl
        constructor
        · rintro ⟨h1, h2, h3⟩
          exact ⟨by omega, by omega, h3⟩
        · rintro ⟨h1, h2, h3⟩
          exact ⟨by omega, by omega, h3⟩

end ExtendibleHashTable
namespace ExtendibleHashTable

open HashTableDirectoryPage

/-- The directory part of a bucket split keeps the shape of the directory: `d1` is the
directory after the optional doubling, `b` the slot of the key, `nb` the slot
taken as its split image, `next` the page id of the new bucket page. -/
theorem DirInv_split (d1 : HashTableDirectoryPage) (next : page_id_t) (b nb : Nat)
    (h : DirInv d1 next) (hb : b < d1.Size)
    (hlt : d1.GetLocalDepth b < d1.global_depth) :
    DirInv
      (splitDirLoop (d1.GetBucketPageId b) next b nb
        (((d1.IncrLocalDepth b).SetLocalDepth nb
          ((d1.IncrLocalDepth b).GetLocalDepth b)).SetBucketPageId nb next).Size 0
        (((d1.IncrLocalDepth b).SetLocalDepth nb
          ((d1.IncrLocalDepth b).GetLocalDepth b)).SetBucketPageId nb next))
      (next + 1) := by
  obtain ⟨a1, a2, a3⟩ := SetLocalDepth_get d1 b (d1.GetLocalDepth b + 1)
  have hL : (d1.IncrLocalDepth b).GetLocalDepth b = d1.GetLocalDepth b + 1 := by
    unfold IncrLocalDepth
    rw [a2, if_pos rfl]
  rw [hL]
  obtain ⟨b1, b2, b3⟩ := SetLocalDepth_get (d1.IncrLocalDepth b) nb (d1.GetLocalDepth b + 1)
  obtain ⟨c1, c2, c3⟩ := SetBucketPageId_get
    ((d1.IncrLocalDepth b).SetLocalDepth nb (d1.GetLocalDepth b + 1)) nb next
  generalize hd4 : ((d1.IncrLocalDepth b).SetLocalDepth nb
    (d1.GetLocalDepth b + 1)).SetBucketPageId nb next = d4 at c1 c2 c3 ⊢
  have hgd : d4.global_depth = d1.global_depth := by
    rw [c1, b1]
    exact a1
  have hld : ∀ j, d4.GetLocalDepth j
      = if j = nb then d1.GetLocalDepth b + 1
        else if j = b then d1.GetLocalDepth b + 1 else d1.GetLocalDepth j := by
    intro j
    rw [c2, b2]
    unfold IncrLocalDepth
    rw [a2]
  have hpid : ∀ j, d4.GetBucketPageId j = if j = nb then next else d1.GetBucketPageId j := by
    intro j
    rw [c3, b3]
    unfold IncrLocalDepth
    rw [a3]
  have hsz : d4.Size = d1.Size := by rw [Size_eq, Size_eq, hgd]
  have hbp : d1.GetBucketPageId b < next := h.pid_lt b hb
  have h4b : d4.GetLocalDepth b = d1.GetLocalDepth b + 1 := by
    rw [hld]
    by_cases e : b = nb
    · rw [if_pos e]
    · rw [if_neg e, if_pos rfl]
  have h4nb : d4.GetLocalDepth nb = d1.GetLocalDepth b + 1 := by
    rw [hld, if_pos rfl]
  obtain ⟨g1, g2, g3⟩ := splitDirLoop_get (d1.GetBucketPageId b) next b nb
    (d1.GetLocalDepth b + 1) d4.Size 0 d4 h4b h4nb
  generalize hd5 : splitDirLoop (d1.GetBucketPageId b) next b nb d4.Size 0 d4 = d5
    at g1 g2 g3 ⊢
  have hsz5 : d5.Size = d1.Size := by rw [Size_eq, Size_eq, g1, hgd]
  have key : ∀ j, j < d1.Size →
      (d5.GetLocalDepth j = d1.GetLocalDepth b + 1
        ∧ (d5.GetBucketPageId j = d1.GetBucketPageId b ∨ d5.GetBucketPageId j = next))
      ∨ (d5.GetLocalDepth j = d1.GetLocalDepth j
        ∧ d5.GetBucketPageId j = d1.GetBucketPageId j
        ∧ d1.GetBucketPageId j ≠ d1.GetBucketPageId b) := by
    intro j hj
    by_cases e : j = nb
    · left
      have hp4 : d4.GetBucketPageId j = next := by rw [hpid, if_pos e]
      have hne : ¬ (0 ≤ j ∧ j < 0 + d4.Size ∧ d4.GetBucketPageId j = d1.GetBucketPageId b) := by
        intro hc
        rw [hp4] at hc
        exact absurd hc.2.2 (ne_of_gt hbp)
      rw [g2, g3, if_neg hne, if_neg hne, hp4, e, h4nb]
      exact ⟨rfl, Or.inr rfl⟩
    · have hp4 : d4.GetBucketPageId j = d1.GetBucketPageId j := by rw [hpid, if_neg e]
      by_cases hp : d1.GetBucketPageId j = d1.GetBucketPageId b
      · left
        have hc : 0 ≤ j ∧ j < 0 + d4.Size ∧ d4.GetBucketPageId j = d1.GetBucketPageId b :=
          ⟨Nat.zero_le _, by rw [hsz]; omega, by rw [hp4, hp]⟩
        rw [g2, g3, if_pos hc, if_pos hc]
        refine ⟨rfl, ?_⟩
        by_cases hs : j >>> (d1.GetLocalDepth b + 1 - 1) = b >>> (d1.GetLocalDepth b + 1 - 1)
        · rw [if_pos hs]; exact Or.inl rfl
        · rw [if_neg hs]; exact Or.inr rfl
      · right
        have hne : ¬ (0 ≤ j ∧ j < 0 + d4.Size
            ∧ d4.GetBucketPageId j = d1.GetBucketPageId b) := by
          intro hc
          rw [hp4] at hc
          exact hp hc.2.2
        have hjb : j ≠ b := fun e2 => hp (by rw [e2])
        rw [g2, g3, if_neg hne, if_neg hne, hp4, hld, if_neg e, if_neg hjb]
        exact ⟨rfl, rfl, hp⟩
  refine ⟨?_, ?_, ?_⟩
  · intro s hs
    rw [hsz5] at hs
    rw [g1, hgd]
    rcases key s hs with ⟨e1, _⟩ | ⟨e1, _, _⟩
    · rw [e1]; exact hlt
    · rw [e1]; exact h.depth_le s hs
  · intro s u hs hu hp
    rw [hsz5] at hs hu
    rcases key s hs with ⟨e1, e2⟩ | ⟨e1, e2, e3⟩
    · rcases key u hu with ⟨f1, _⟩ | ⟨f1, f2, f3⟩
      · rw [e1, f1]
      · exfalso
        rw [f2] at hp
        rcases e2 with e2 | e2
        · rw [e2] at hp
          exact f3 hp.symm
        · rw [e2] at hp
          exact absurd hp.symm (ne_of_lt (h.pid_lt u hu))
    · rcases key u hu with ⟨f1, f2⟩ | ⟨f1, f2, f3⟩
      · exfalso
        rw [e2] at hp
        rcases f2 with f2 | f2
        · rw [f2] at hp
          exact e3 hp
        · rw [f2] at hp
          exact absurd hp (ne_of_lt (h.pid_lt s hs))
      · rw [e1, f1]
        rw [e2, f2] at hp
        exact h.same_depth s u hs hu hp
  · intro s hs
    rw [hsz5] at hs
    rcases key s hs with ⟨_, e2 | e2⟩ | ⟨_, e2, _⟩
    · rw [e2]; exact lt_trans hbp (lt_add_one _)
    · rw [e2]; exact lt_add_one _
    · rw [e2]; exact lt_trans (h.pid_lt s hs) (lt_add_one _)

/-- The function `SplitInsertBody` keeps the shape of the directory. -/
theorem DirInv_SplitInsertBody (hash : KeyType → Nat) (cap : Nat) (t : ExtendibleHashTable)
    (key : KeyType) (value : ValueType) (h : DirInv t.directory t.next_page_id) :
    DirInv (SplitInsertBody hash cap t key value).2.directory
      (SplitInsertBody hash cap t key value).2.next_page_id := by
  simp only [SplitInsertBody]
  cases hfull : HashTableBucketPage.IsFull cap (t.bucket (KeyToPageId hash key t.directory))
  · simp only [Bool.not_false, if_true]
    exact h
  · have hb := KeyToDirectoryIndex_lt hash key t.directory
    by_cases hc : t.directory.global_depth
        = t.directory.GetLocalDepth (KeyToDirectoryIndex hash key t.directory)
    · obtain ⟨i1, i2, i3, i4, i5⟩ := DirInv_IncrGlobalDepth t.directory t.next_page_id h
      have hb2 : KeyToDirectoryIndex hash key t.directory < t.directory.IncrGlobalDepth.Size :=
        lt_of_lt_of_le hb i5
      have e : KeyToPageId hash key t.directory
          = t.directory.IncrGlobalDepth.GetBucketPageId
              (KeyToDirectoryIndex hash key t.directory) := (i3 _ hb).symm
      simp only [Bool.not_true, if_pos hc]
      rw [e]
      exact DirInv_split t.directory.IncrGlobalDepth t.next_page_id _ _ i1 hb2 (i2 _ hb2)
    · simp only [Bool.not_true, if_neg hc]
      exact DirInv_split t.directory t.next_page_id _ _ h hb
        (lt_of_le_of_ne (h.depth_le _ hb) (fun e => hc e.symm))

end ExtendibleHashTable
namespace ExtendibleHashTable

open HashTableDirectoryPage

theorem mergeDirLoop_get (bp P : page_id_t) (nb M : Nat) (hne : P ≠ bp) :
    ∀ (n i : Nat) (d : HashTableDirectoryPage),
      d.GetBucketPageId nb = P → d.GetLocalDepth nb = M →
      (mergeDirLoop bp nb n i d).global_depth = d.global_depth
      ∧ (∀ j, (mergeDirLoop bp nb n i d).GetLocalDepth j
          = if i ≤ j ∧ j < i + n then
              (if d.GetBucketPageId j = P ∧ j ≠ nb then (d.GetLocalDepth j + 255) % 256
               else if d.GetBucketPageId j = bp then M else d.GetLocalDepth j)
            else d.GetLocalDepth j)
      ∧ (∀ j, (mergeDirLoop bp nb n i d).GetBucketPageId j
          = if i ≤ j ∧ j < i + n ∧ d.GetBucketPageId j = bp then P
            else d.GetBucketPageId j) := by
  intro n
  induction n with
  | zero =>
    intro i d _ _
    refine ⟨rfl, fun j => ?_, fun j => ?_⟩
    · rw [if_neg (by omega)]; rfl
    · rw [if_neg (by omega)]; rfl
  | succ n ih =>
    intro i d hP hM
    have hstep : ∃ d2 : HashTableDirectoryPage,
        mergeDirLoop bp nb (n + 1) i d = mergeDirLoop bp nb n (i + 1) d2
        ∧ d2.global_depth = d.global_depth
        ∧ (∀ j, d2.GetLocalDepth j
            = if j = i then
                (if d.GetBucketPageId i = P ∧ i ≠ nb then (d.GetLocalDepth i + 255) % 256
                 else if d.GetBucketPageId i = bp then M else d.GetLocalDepth i)
              else d.GetLocalDepth j)
        ∧ (∀ j, d2.GetBucketPageId j
            = if j = i ∧ d.GetBucketPageId i = bp then P else d.GetBucketPageId j) := by
      refine ⟨_, rfl, ?_⟩
      rw [hP]
      by_cases hc1 : d.GetBucketPageId i = P ∧ i ≠ nb
      · simp only [if_pos hc1]
        obtain ⟨a1, a2, a3⟩ := SetLocalDepth_get d i ((d.GetLocalDepth i + 255) % 256)
        have hnb : (d.DecrLocalDepth i).GetBucketPageId i ≠ bp := by
          unfold DecrLocalDepth
          rw [a3, hc1.1]
          exact hne
        rw [if_neg hnb]
        unfold DecrLocalDepth
        refine ⟨a1, fun j => ?_, fun j => ?_⟩
        · rw [a2]
        · rw [a3, if_neg (fun hc => hne (hc1.1.symm.trans hc.2))]
      · simp only [if_neg hc1]
        by_cases hc2 : d.GetBucketPageId i = bp
        · rw [if_pos hc2, hM, hP]
          obtain ⟨a1, a2, a3⟩ := SetBucketPageId_get (d.SetLocalDepth i M) i P
          obtain ⟨b1, b2, b3⟩ := SetLocalDepth_get d i M
          refine ⟨by rw [a1, b1], fun j => ?_, fun j => ?_⟩
          · rw [a2, b2]
            by_cases hj : j = i
            · rw [if_pos hj, if_pos hj, if_pos hc2]
            · rw [if_neg hj, if_neg hj]
          · rw [a3, b3]
            by_cases hj : j = i
            · rw [if_pos hj, if_pos ⟨hj, hc2⟩]
            · rw [if_neg hj, if_neg (fun hc => hj hc.1)]
        · rw [if_neg hc2]
          refine ⟨rfl, fun j => ?_, fun j => ?_⟩
          · by_cases hj : j = i
            · rw [if_pos hj, if_neg hc2, hj]
            · rw [if_neg hj]
          · rw [if_neg (fun hc => hc2 hc.2)]
    obtain ⟨d2, e, c1, c2, c3⟩ := hstep
    have hP2 : d2.GetBucketPageId nb = P := by
      rw [c3]
      by_cases hc : nb = i ∧ d.GetBucketPageId i = bp
      · rw [if_pos hc]
      · rw [if_neg hc, hP]
    have hM2 : d2.GetLocalDepth nb = M := by
      rw [c2]
      by_cases hc : nb = i
      · rw [if_pos hc]
        have h1 : ¬ (d.GetBucketPageId i = P ∧ i ≠ nb) := fun hx => hx.2 hc.symm
        have h2 : ¬ d.GetBucketPageId i = bp := by
          rw [← hc, hP]
          exact hne
        rw [if_neg h1, if_neg h2, ← hc, hM]
      · rw [if_neg hc, hM]
    obtain ⟨g1, g2, g3⟩ := ih (i + 1) d2 hP2 hM2
    rw [e]
    refine ⟨by rw [g1, c1], fun j => ?_, fun j => ?_⟩
    · by_cases hj : j = i
      · subst hj
        rw [g2, if_neg (show ¬ (j + 1 ≤ j ∧ j < j + 1 + n) by omega), c2, if_pos rfl,
          if_pos (show j ≤ j ∧ j < j + (n + 1) by omega)]
      · have e2 : d2.GetLocalDepth j = d.GetLocalDepth j := by
          rw [c2, if_neg hj]
        have e3 : d2.GetBucketPageId j = d.GetBucketPageId j := by
          rw [c3, if_neg (fun hc => hj hc.1)]
        rw [g2, e2, e3]
        refine if_congr ?_ rfl rfl
        constructor
        · rintro ⟨h1, h2⟩
          exact ⟨by omega, by omega⟩
        · rintro ⟨h1, h2⟩
          exact ⟨by omega, by omega⟩
    · by_cases hj : j = i
      · subst hj
        rw [g3, if_neg (show ¬ (j + 1 ≤ j ∧ j < j + 1 + n ∧ d2.GetBucketPageId j = bp) by omega),
          c3]
        refine if_congr ?_ rfl rfl
        constructor
        · rintro ⟨_, h3⟩
          exact ⟨le_refl _, by omega, h3⟩
        · rintro ⟨_, _, h3⟩
          exact ⟨rfl, h3⟩
      · have e3 : d2.GetBucketPageId j = d.GetBucketPageId j := by
          rw [c3, if_neg (fun hc => hj hc.1)]
        rw [g3, e3]
        refine if_congr ?_ rfl rfl
        constructor
        · rintro ⟨h1, h2, h3⟩
          exact ⟨by omega, by omega, h3⟩
        · rintro ⟨h1, h2, h3⟩
          exact ⟨by omega, by omega, h3⟩

theorem GetSplitImageIndex_lt (d : HashTableDirectoryPage) (b : Nat) (hb : b < d.Size)
    (hpos : 0 < d.GetLocalDepth b) (hle : d.GetLocalDepth b ≤ d.global_depth) :
    d.GetSplitImageIndex b < d.Size := by
  unfold GetSplitImageIndex
  rw [Size_eq] at hb ⊢
  refine Nat.xor_lt_two_pow hb ?_
  rw [Nat.one_shiftLeft]
  exact Nat.pow_lt_pow_right (by decide) (by omega)

theorem DirInv_shrink (d : HashTableDirectoryPage) (next : page_id_t) (h : DirInv d next) :
    DirInv (if d.CanShrink then d.DecrGlobalDepth else d) next := by
  by_cases hc : d.CanShrink = true
  · rw [if_pos hc]
    have hall : ∀ i, i < d.Size → d.GetLocalDepth i < d.global_depth := by
      intro i hi
      unfold CanShrink at hc
      rw [List.all_eq_true] at hc
      exact of_decide_eq_true (hc i (List.mem_range.mpr hi))
    have hsz : d.DecrGlobalDepth.Size ≤ d.Size := by
      rw [Size_eq, Size_eq]
      exact Nat.pow_le_pow_right (by decide) (Nat.sub_le _ _)
    refine ⟨?_, ?_, ?_⟩
    · intro s hs
      have h1 := hall s (lt_of_lt_of_le hs hsz)
      show d.GetLocalDepth s ≤ d.global_depth - 1
      omega
    · intro s u hs hu hp
      exact h.same_depth s u (lt_of_lt_of_le hs hsz) (lt_of_lt_of_le hu hsz) hp
    · intro s hs
      exact h.pid_lt s (lt_of_lt_of_le hs hsz)
  · rw [if_neg hc]
    exact h

/-- The directory part of a merge step keeps the shape of the directory. -/
theorem DirInv_merge (d0 : HashTableDirectoryPage) (next : page_id_t) (b : Nat)
    (h : DirInv d0 next) (hb : b < d0.Size) (hpos : 0 < d0.GetLocalDepth b)
    (hld : d0.GetLocalDepth b = d0.GetLocalDepth (d0.GetSplitImageIndex b))
    (hpid : d0.GetBucketPageId b ≠ d0.GetBucketPageId (d0.GetSplitImageIndex b)) :
    DirInv
      (mergeDirLoop (d0.GetBucketPageId b) (d0.GetSplitImageIndex b)
        ((d0.DecrLocalDepth b).DecrLocalDepth (d0.GetSplitImageIndex b)).Size 0
        ((d0.DecrLocalDepth b).DecrLocalDepth (d0.GetSplitImageIndex b))) next := by
  have hnb : d0.GetSplitImageIndex b < d0.Size :=
    GetSplitImageIndex_lt d0 b hb hpos (h.depth_le b hb)
  generalize d0.GetSplitImageIndex b = nb at hld hpid hnb ⊢
  have hbn : nb ≠ b := fun e => hpid (by rw [e])
  obtain ⟨a1, a2, a3⟩ := SetLocalDepth_get d0 b ((d0.GetLocalDepth b + 255) % 256)
  have hdb : d0.DecrLocalDepth b = d0.SetLocalDepth b ((d0.GetLocalDepth b + 255) % 256) := rfl
  have hldn : (d0.DecrLocalDepth b).GetLocalDepth nb = d0.GetLocalDepth b := by
    rw [hdb, a2, if_neg hbn, hld]
  obtain ⟨b1, b2, b3⟩ := SetLocalDepth_get (d0.DecrLocalDepth b) nb
    (((d0.DecrLocalDepth b).GetLocalDepth nb + 255) % 256)
  have hd1 : (d0.DecrLocalDepth b).DecrLocalDepth nb
      = (d0.DecrLocalDepth b).SetLocalDepth nb
          (((d0.DecrLocalDepth b).GetLocalDepth nb + 255) % 256) := rfl
  rw [hd1]
  rw [hldn] at b1 b2 b3 ⊢
  generalize hd1g : (d0.DecrLocalDepth b).SetLocalDepth nb ((d0.GetLocalDepth b + 255) % 256)
    = d1 at b1 b2 b3 ⊢
  have hgd : d1.global_depth = d0.global_depth := by rw [b1, hdb, a1]
  have hld1 : ∀ j, d1.GetLocalDepth j
      = if j = nb then (d0.GetLocalDepth b + 255) % 256
        else if j = b then (d0.GetLocalDepth b + 255) % 256 else d0.GetLocalDepth j := by
    intro j
    rw [b2, hdb, a2]
  have hpid1 : ∀ j, d1.GetBucketPageId j = d0.GetBucketPageId j := by
    intro j
    rw [b3, hdb, a3]
  have hsz : d1.Size = d0.Size := by rw [Size_eq, Size_eq, hgd]
  obtain ⟨g1, g2, g3⟩ := mergeDirLoop_get (d0.GetBucketPageId b) (d0.GetBucketPageId nb) nb
    ((d0.GetLocalDepth b + 255) % 256) (fun e => hpid e.symm) d1.Size 0 d1 (hpid1 nb)
    (by rw [hld1, if_pos rfl])
  generalize mergeDirLoop (d0.GetBucketPageId b) nb d1.Size 0 d1 = d2 at g1 g2 g3 ⊢
  have hsz2 : d2.Size = d0.Size := by rw [Size_eq, Size_eq, g1, hgd]
  have hM : (d0.GetLocalDepth b + 255) % 256 ≤ d0.global_depth := by
    have := h.depth_le b hb
    omega
  have key : ∀ j, j < d0.Size →
      (d2.GetLocalDepth j = (d0.GetLocalDepth b + 255) % 256
        ∧ d2.GetBucketPageId j = d0.GetBucketPageId nb)
      ∨ (d2.GetLocalDepth j = d0.GetLocalDepth j
        ∧ d2.GetBucketPageId j = d0.GetBucketPageId j
        ∧ d0.GetBucketPageId j ≠ d0.GetBucketPageId nb) := by
    intro j hj
    have hr : 0 ≤ j ∧ j < 0 + d1.Size := ⟨Nat.zero_le _, by rw [hsz]; omega⟩
    have hl : d2.GetLocalDepth j
        = if d0.GetBucketPageId j = d0.GetBucketPageId nb ∧ j ≠ nb then
            (d1.GetLocalDepth j + 255) % 256
          else if d0.GetBucketPageId j = d0.GetBucketPageId b then
            (d0.GetLocalDepth b + 255) % 256
          else d1.GetLocalDepth j := by
      rw [g2, if_pos hr, hpid1]
    have hp : d2.GetBucketPageId j
        = if d0.GetBucketPageId j = d0.GetBucketPageId b then d0.GetBucketPageId nb
          else d0.GetBucketPageId j := by
      rw [g3, hpid1]
      exact if_congr ⟨fun hc => hc.2.2, fun hc => ⟨hr.1, hr.2, hc⟩⟩ rfl rfl
    rw [hl, hp]
    by_cases hc1 : d0.GetBucketPageId j = d0.GetBucketPageId nb ∧ j ≠ nb
    · left
      have hjb : j ≠ b := fun e => hpid (by rw [← e]; exact hc1.1)
      have hne : ¬ d0.GetBucketPageId j = d0.GetBucketPageId b :=
        fun hc => hpid (hc.symm.trans hc1.1)
      have e1 : d1.GetLocalDepth j = d0.GetLocalDepth b := by
        rw [hld1, if_neg hc1.2, if_neg hjb, h.same_depth j nb hj hnb hc1.1, ← hld]
      rw [if_pos hc1, if_neg hne, e1]
      exact ⟨rfl, hc1.1⟩
    · rw [if_neg hc1]
      by_cases hc2 : d0.GetBucketPageId j = d0.GetBucketPageId b
      · left
        rw [if_pos hc2, if_pos hc2]
        exact ⟨rfl, rfl⟩
      · rw [if_neg hc2, if_neg hc2]
        by_cases hjn : j = nb
        · left
          rw [hld1, if_pos hjn, hjn]
          exact ⟨rfl, rfl⟩
        · right
          have hjb : j ≠ b := fun e => hc2 (by rw [e])
          rw [hld1, if_neg hjn, if_neg hjb]
          exact ⟨rfl, rfl, fun e => hc1 ⟨e, hjn⟩⟩
  refine ⟨?_, ?_, ?_⟩
  · intro s hs
    rw [hsz2] at hs
    rw [g1, hgd]
    rcases key s hs with ⟨e1, _⟩ | ⟨e1, _, _⟩
    · rw [e1]; exact hM
    · rw [e1]; exact h.depth_le s hs
  · intro s u hs hu hp
    rw [hsz2] at hs hu
    rcases key s hs with ⟨e1, e2⟩ | ⟨e1, e2, e3⟩
    · rcases key u hu with ⟨f1, _⟩ | ⟨f1, f2, f3⟩
      · rw [e1, f1]
      · exfalso
        rw [e2, f2] at hp
        exact f3 hp.symm
    · rcases key u hu with ⟨f1, f2⟩ | ⟨f1, f2, f3⟩
      · exfalso
        rw [e2, f2] at hp
        exact e3 hp
      · rw [e1, f1]
        rw [e2, f2] at hp
        exact h.same_depth s u hs hu hp
  · intro s hs
    rw [hsz2] at hs
    rcases key s hs with ⟨_, e2⟩ | ⟨_, e2, _⟩
    · rw [e2]; exact h.pid_lt nb hnb
    · rw [e2]; exact h.pid_lt s hs

end ExtendibleHashTable
namespace ExtendibleHashTable

open HashTableDirectoryPage

theorem DirInv_construct : DirInv construct.directory construct.next_page_id := by
  have hsz : construct.directory.Size = 1 := by decide
  refine ⟨?_, ?_, ?_⟩
  · intro s hs
    rw [hsz] at hs
    have e : s = 0 := by omega
    subst e
    decide
  · intro s u hs hu _
    rw [hsz] at hs hu
    have e : s = 0 := by omega
    have e2 : u = 0 := by omega
    rw [e, e2]
  · intro s hs
    rw [hsz] at hs
    have e : s = 0 := by omega
    subst e
    decide

theorem DirInv_Merge (hash : KeyType → Nat) (cap : Nat) :
    ∀ (fuel : Nat) (t : ExtendibleHashTable) (key : KeyType) (r : ExtendibleHashTable),
      DirInv t.directory t.next_page_id →
      Merge hash cap fuel t key = some r → DirInv r.directory r.next_page_id := by
  intro fuel
  induction fuel with
  | zero =>
    intro t key r _ he
    simp [Merge] at he
  | succ fuel ih =>
    intro t key r h he
    simp only [Merge] at he
    split at he
    · injection he with he
      rw [← he]
      exact h
    · split at he
      · rename_i hc
        split at he
        · rename_i hc2
          refine ih _ key r ?_ he
          have hpos : 0 < t.directory.GetLocalDepth (KeyToDirectoryIndex hash key t.directory) := by
            simp only [Bool.and_eq_true, decide_eq_true_eq] at hc
            exact hc.2
          exact DirInv_shrink _ _
            (DirInv_merge t.directory t.next_page_id _ h
              (KeyToDirectoryIndex_lt hash key t.directory) hpos hc2.1 hc2.2)
        · injection he with he
          rw [← he]
          exact h
      · injection he with he
        rw [← he]
        exact h

theorem DirInv_Insert (hash : KeyType → Nat) (cap : Nat) :
    ∀ (fuel : Nat) (t : ExtendibleHashTable) (key : KeyType) (value : ValueType)
      (r : Bool × ExtendibleHashTable),
      DirInv t.directory t.next_page_id →
      ExtendibleHashTable.Insert hash cap fuel t key value = some r →
      DirInv r.2.directory r.2.next_page_id := by
  intro fuel
  induction fuel with
  | zero =>
    intro t key value r _ he
    simp [ExtendibleHashTable.Insert] at he
  | succ fuel ih =>
    intro t key value r h he
    simp only [ExtendibleHashTable.Insert] at he
    have hs := DirInv_SplitInsertBody hash cap t key value h
    split at he
    · rcases hb : SplitInsertBody hash cap t key value with ⟨o, t1⟩
      rw [hb] at he hs
      cases o with
      | some b =>
        injection he with he
        rw [← he]
        exact hs
      | none => exact ih t1 key value r hs he
    · injection he with he
      rw [← he]
      exact h

theorem DirInv_SplitInsert (hash : KeyType → Nat) (cap : Nat) (fuel : Nat)
    (t : ExtendibleHashTable) (key : KeyType) (value : ValueType)
    (r : Bool × ExtendibleHashTable) (h : DirInv t.directory t.next_page_id)
    (he : SplitInsert hash cap fuel t key value = some r) :
    DirInv r.2.directory r.2.next_page_id := by
  unfold SplitInsert at he
  have hs := DirInv_SplitInsertBody hash cap t key value h
  rcases hb : SplitInsertBody hash cap t key value with ⟨o, t1⟩
  rw [hb] at he hs
  cases o with
  | some b =>
    injection he with he
    rw [← he]
    exact hs
  | none => exact DirInv_Insert hash cap fuel t1 key value r hs he

theorem DirInv_Remove (hash : KeyType → Nat) (cap : Nat) (fuel : Nat)
    (t : ExtendibleHashTable) (key : KeyType) (value : ValueType)
    (r : Bool × ExtendibleHashTable) (h : DirInv t.directory t.next_page_id)
    (he : Remove hash cap fuel t key value = some r) :
    DirInv r.2.directory r.2.next_page_id := by
  simp only [Remove] at he
  split at he
  · cases hm : Merge hash cap fuel
        (t.setBucket (KeyToPageId hash key t.directory)
          (HashTableBucketPage.Remove cap (t.bucket (KeyToPageId hash key t.directory))
            key value).2) key with
    | none => rw [hm] at he; cases he
    | some t1 =>
      rw [hm] at he
      injection he with he
      rw [← he]
      exact DirInv_Merge hash cap fuel (t.setBucket _ _) key t1 h hm
  · injection he with he
    rw [← he]
    exact h

/-- Every reached state of the hash table has a directory of the shape `DirInv`. -/
theorem Reached.dirInv {hash : KeyType → Nat} {cap : Nat} {t : ExtendibleHashTable}
    (h : Reached hash cap t) : DirInv t.directory t.next_page_id := by
  induction h with
  | construct => exact DirInv_construct
  | Insert _ fuel key value r he ih => exact DirInv_Insert hash cap fuel _ key value r ih he
  | Remove _ fuel key value r he ih => exact DirInv_Remove hash cap fuel _ key value r ih he
  | SplitInsert _ fuel key value r he ih =>
    exact DirInv_SplitInsert hash cap fuel _ key value r ih he
  | Merge _ fuel key r he ih => exact DirInv_Merge hash cap fuel _ key r ih he

theorem Reached_InsertAll {hash : KeyType → Nat} {cap : Nat} (fuel : Nat) :
    ∀ (pairs : List (KeyType × ValueType)) (t : ExtendibleHashTable)
      (r : List Bool × ExtendibleHashTable),
      Reached hash cap t → ExtendibleHashTable.InsertAll hash cap fuel t pairs = some r →
      Reached hash cap r.2 := by
  intro pairs
  induction pairs with
  | nil =>
    intro t r h he
    simp only [ExtendibleHashTable.InsertAll] at he
    injection he with he
    rw [← he]
    exact h
  | cons p rest ih =>
    intro t r h he
    obtain ⟨key, value⟩ := p
    simp only [ExtendibleHashTable.InsertAll] at he
    cases h1 : ExtendibleHashTable.Insert hash cap fuel t key value with
    | none => rw [h1] at he; cases he
    | some r1 =>
      obtain ⟨b, t1⟩ := r1
      simp only [h1] at he
      cases h2 : ExtendibleHashTable.InsertAll hash cap fuel t1 rest with
      | none => simp only [h2] at he; cases he
      | some r2 =>
        obtain ⟨bs, t2⟩ := r2
        simp only [h2] at he
        injection he with he
        rw [← he]
        exact ih t1 (bs, t2) (Reached.Insert h fuel key value (b, t1) h1) h2

theorem Reached_RemoveAll {hash : KeyType → Nat} {cap : Nat} (fuel : Nat) :
    ∀ (pairs : List (KeyType × ValueType)) (t : ExtendibleHashTable)
      (r : List Bool × ExtendibleHashTable),
      Reached hash cap t → ExtendibleHashTable.RemoveAll hash cap fuel t pairs = some r →
      Reached hash cap r.2 := by
  intro pairs
  induction pairs with
  | nil =>
    intro t r h he
    simp only [ExtendibleHashTable.RemoveAll] at he
    injection he with he
    rw [← he]
    exact h
  | cons p rest ih =>
    intro t r h he
    obtain ⟨key, value⟩ := p
    simp only [ExtendibleHashTable.RemoveAll] at he
    cases h1 : ExtendibleHashTable.Remove hash cap fuel t key value with
    | none => rw [h1] at he; cases he
    | some r1 =>
      obtain ⟨b, t1⟩ := r1
      simp only [h1] at he
      cases h2 : ExtendibleHashTable.RemoveAll hash cap fuel t1 rest with
      | none => simp only [h2] at he; cases he
      | some r2 =>
        obtain ⟨bs, t2⟩ := r2
        simp only [h2] at he
        injection he with he
        rw [← he]
        exact ih t1 (bs, t2) (Reached.Remove h fuel key value (b, t1) h1) h2

theorem directory_depth_facts (hash : KeyType → Nat) (cap : Nat) (t : ExtendibleHashTable)
    (h : Reached hash cap t) :
    ∀ s, s < 2 ^ t.directory.global_depth →
      t.directory.GetLocalDepth s ≤ t.directory.global_depth := by
  intro s hs
  exact (Reached.dirInv h).depth_le s (by rw [Size_eq]; exact hs)

theorem depthScenario_reached : Reached idHash 4 depthScenario := by
  unfold depthScenario
  cases h1 : ExtendibleHashTable.InsertAll idHash 4 3 construct mergeScenarioPairs with
  | none => exact Reached.construct
  | some r =>
    have hr := Reached_InsertAll 3 mergeScenarioPairs construct r Reached.construct h1
    dsimp only
    cases h2 : ExtendibleHashTable.RemoveAll idHash 4 4 r.2
        [(0, 100), (8, 108), (16, 116), (24, 124)] with
    | none => exact hr
    | some r2 => exact Reached_RemoveAll 4 _ r.2 r2 hr h2

end ExtendibleHashTable

/-! ## B+ tree pages: redistribution moves -/

namespace BPlusTreePage

/-- The slots after the shifting loop: the slots `i - n + 1 .. i` hold what their
left neighbours held. -/
theorem slot_shiftUp : ∀ (n : Nat) (i : Int) (p : BPlusTreePage), (n : Int) ≤ i →
    ∀ j, (shiftUp n i p).slot j
      = if i - n < j ∧ j ≤ i then p.slot (j - 1) else p.slot j := by
  intro n
  induction n with
  | zero =>
    intro i p _ j
    rw [if_neg (by omega)]
    rfl
  | succ n ih =>
    intro i p hi j
    show (shiftUp n (i - 1) (p.setSlot i (p.slot (i - 1)))).slot j = _
    rw [ih (i - 1) _ (by omega) j]
    have hi0 : 0 ≤ i := by omega
    by_cases h1 : i - 1 - (n : Int) < j ∧ j ≤ i - 1
    · rw [if_pos h1, slot_setSlot _ _ _ _ hi0, if_neg (by omega), if_pos]
      push_cast
      omega
    · rw [if_neg h1, slot_setSlot _ _ _ _ hi0]
      by_cases h2 : j = i
      · rw [if_pos h2, if_pos, h2]
        push_cast
        omega
      · rw [if_neg h2, if_neg]
        push_cast
        omega

end BPlusTreePage

namespace BPlusTreeLeafPage

theorem CopyFirstFrom_facts (p : BPlusTreePage) (item : MappingType) (h0 : 0 ≤ p.size) :
    (CopyFirstFrom p item).size = p.size
    ∧ (CopyFirstFrom p item).slot 0 = item
    ∧ (∀ j, 1 ≤ j → j ≤ p.size → (CopyFirstFrom p item).slot j = p.slot (j - 1))
    ∧ BPlusTreePage.sameHeader p (CopyFirstFrom p item) := by
  unfold CopyFirstFrom
  obtain ⟨a1, a2⟩ := BPlusTreePage.sameHeader_setSlot
    (BPlusTreePage.shiftUp p.size.toNat p.size p) 0 item
  obtain ⟨b1, b2⟩ := BPlusTreePage.sameHeader_shiftUp p.size.toNat p.size p
  have hn : (p.size.toNat : Int) ≤ p.size := by omega
  refine ⟨a2.trans b2, ?_, ?_, ?_⟩
  · rw [BPlusTreePage.slot_setSlot _ _ _ _ (le_refl 0), if_pos rfl]
  · intro j h1 hj
    rw [BPlusTreePage.slot_setSlot _ _ _ _ (le_refl 0), if_neg (by omega),
      BPlusTreePage.slot_shiftUp _ _ _ hn, if_pos]
    omega
  · obtain ⟨c1, c2, c3, c4, c5, c6⟩ := a1
    obtain ⟨d1, d2, d3, d4, d5, d6⟩ := b1
    exact ⟨c1.trans d1, c2.trans d2, c3.trans d3, c4.trans d4, c5.trans d5, c6.trans d6⟩

/-- What `MoveLastToFrontOf` does, for every donor and every recipient of
non-negative size: the donor loses its last entry; the recipient keeps its
size, gets the donor's last entry in slot 0 and its own former entries
`0 .. size - 2` behind it; its own former last entry ends up in slot `size`,
which is not an entry of the page. -/
theorem MoveLastToFrontOf_facts (p r : BPlusTreePage) (h0 : 0 ≤ r.size) :
    (MoveLastToFrontOf p r).1.size = p.size - 1
    ∧ (∀ j, (MoveLastToFrontOf p r).1.slot j = p.slot j)
    ∧ (MoveLastToFrontOf p r).2.size = r.size
    ∧ (MoveLastToFrontOf p r).2.slot 0 = p.slot (p.size - 1)
    ∧ (∀ j, 1 ≤ j → j ≤ r.size → (MoveLastToFrontOf p r).2.slot j = r.slot (j - 1)) := by
  obtain ⟨a1, a2, a3, _⟩ := CopyFirstFrom_facts r (p.slot (p.size - 1)) h0
  exact ⟨rfl, fun j => rfl, a1, a2, a3⟩

/-- C39. The function `MoveLastToFrontOf` does not conserve the entries. For every
donor and every recipient of non-negative size the recipient's size is what
it was (`CopyFirstFrom` shifts the slots and writes slot 0 but never calls
`IncreaseSize`), so its former last entry is pushed out to slot `size`. On the
leaves with the keys 1, 2, 3 and 5, 6: the donor keeps 1, 2, the recipient
holds 3, 5, and the entry of key 6 is no longer an entry of either page. -/
theorem MoveLastToFrontOf_loses_entry :
    (∀ p r : BPlusTreePage, 0 ≤ r.size →
      (MoveLastToFrontOf p r).2.size = r.size
      ∧ (MoveLastToFrontOf p r).2.slot 0 = p.slot (p.size - 1)
      ∧ (1 ≤ r.size → (MoveLastToFrontOf p r).2.slot r.size = r.slot (r.size - 1)))
    ∧ entries donorLeaf = [(1, 10), (2, 20), (3, 30)]
    ∧ entries recipientLeaf = [(5, 50), (6, 60)]
    ∧ entries (MoveLastToFrontOf donorLeaf recipientLeaf).1 = [(1, 10), (2, 20)]
    ∧ entries (MoveLastToFrontOf donorLeaf recipientLeaf).2 = [(3, 30), (5, 50)]
    ∧ (MoveLastToFrontOf donorLeaf recipientLeaf).2.size = 2 := by
  refine ⟨?_, by decide, by decide, by decide, by decide, by decide⟩
  intro p r h0
  obtain ⟨_, _, a3, a4, a5⟩ := MoveLastToFrontOf_facts p r h0
  exact ⟨a3, a4, fun h1 => a5 r.size h1 (le_refl _)⟩

end BPlusTreeLeafPage

namespace BPlusTree

theorem InternalCopyLastFrom_pages (t : BPlusTree) (recipient : page_id_t) (pair : MappingType)
    (h0 : 0 ≤ (t.page recipient).size) (hc : pair.2 ≠ recipient) :
    ((InternalCopyLastFrom t recipient pair).page recipient).size = (t.page recipient).size + 1
    ∧ ((InternalCopyLastFrom t recipient pair).page recipient).slot (t.page recipient).size
        = pair
    ∧ (∀ j, j ≠ (t.page recipient).size →
        ((InternalCopyLastFrom t recipient pair).page recipient).slot j
          = (t.page recipient).slot j)
    ∧ BPlusTreePage.sameHeader (t.page recipient)
        ((InternalCopyLastFrom t recipient pair).page recipient)
    ∧ (InternalCopyLastFrom t recipient pair).page pair.2
        = { t.page pair.2 with parent_page_id := (t.page recipient).page_id }
    ∧ (∀ y, y ≠ recipient → y ≠ pair.2 →
        (InternalCopyLastFrom t recipient pair).page y = t.page y)
    ∧ (InternalCopyLastFrom t recipient pair).root_page_id = t.root_page_id
    ∧ (InternalCopyLastFrom t recipient pair).next_page_id = t.next_page_id
    ∧ (InternalCopyLastFrom t recipient pair).leaf_max_size = t.leaf_max_size
    ∧ (InternalCopyLastFrom t recipient pair).internal_max_size = t.internal_max_size
    ∧ (InternalCopyLastFrom t recipient pair).oob = t.oob := by
  have hr : (setTreePage t pair.2
      { t.page pair.2 with parent_page_id := (t.page recipient).page_id }).page recipient
      = t.page recipient := by
    rw [page_setTreePage, if_neg (fun e => hc e.symm)]
  have hpage : (InternalCopyLastFrom t recipient pair).page recipient
      = BPlusTreeInternalPage.InsertAtIndex (t.page recipient) (t.page recipient).size
          pair.1 pair.2 := by
    unfold InternalCopyLastFrom
    simp only [page_setTreePage, if_true, hr]
  obtain ⟨a1, a2⟩ := BPlusTreePage.sameHeader_setSlot
    (BPlusTreePage.shiftUp ((t.page recipient).size - (t.page recipient).size).toNat
      (t.page recipient).size (t.page recipient)) (t.page recipient).size (pair.1, pair.2)
  obtain ⟨b1, b2⟩ := BPlusTreePage.sameHeader_shiftUp
    ((t.page recipient).size - (t.page recipient).size).toNat (t.page recipient).size
    (t.page recipient)
  have hz : ((t.page recipient).size - (t.page recipient).size).toNat = 0 := by simp
  refine ⟨?_, ?_, ?_, ?_, ?_, ?_, rfl, rfl, rfl, rfl, rfl⟩
  · rw [hpage]
    unfold BPlusTreeInternalPage.InsertAtIndex BPlusTreePage.IncreaseSize
    show (BPlusTreePage.setSlot _ _ _).size + 1 = _
    rw [a2, b2]
  · rw [hpage]
    unfold BPlusTreeInternalPage.InsertAtIndex BPlusTreePage.IncreaseSize
    show (BPlusTreePage.setSlot _ _ _).slot _ = _
    rw [BPlusTreePage.slot_setSlot _ _ _ _ h0, if_pos rfl]
  · intro j hj
    rw [hpage]
    unfold BPlusTreeInternalPage.InsertAtIndex BPlusTreePage.IncreaseSize
    show (BPlusTreePage.setSlot _ _ _).slot _ = _
    rw [BPlusTreePage.slot_setSlot _ _ _ _ h0, if_neg hj, hz]
    rfl
  · rw [hpage]
    unfold BPlusTreeInternalPage.InsertAtIndex BPlusTreePage.IncreaseSize
    obtain ⟨c1, c2, c3, c4, c5, c6⟩ := a1
    obtain ⟨d1, d2, d3, d4, d5, d6⟩ := b1
    exact ⟨c1.trans d1, c2.trans d2, c3.trans d3, c4.trans d4, c5.trans d5, c6.trans d6⟩
  · unfold InternalCopyLastFrom
    simp only [page_setTreePage, if_neg hc, if_true]
  · intro y h1 h2
    unfold InternalCopyLastFrom
    simp only [page_setTreePage, if_neg h1, if_neg h2]

/-- What `MoveFirstToEndOf` of an internal page does, for every tree state in which
the donor `node`, the recipient and the donor's first child are three different
pages: the recipient gets the pair of the middle key and the donor's first
child as its new last entry and the child is re-parented; the donor's size
drops by one and its slot array is untouched. -/
theorem InternalMoveFirstToEndOf_facts (t : BPlusTree) (node recipient : page_id_t)
    (middle_key : KeyType) (h0 : 0 ≤ (t.page recipient).size) (hnr : node ≠ recipient)
    (hcr : BPlusTreeInternalPage.ValueAt (t.page node) 0 ≠ recipient)
    (hcn : BPlusTreeInternalPage.ValueAt (t.page node) 0 ≠ node) :
    ((InternalMoveFirstToEndOf t node recipient middle_key).page node).size
        = (t.page node).size - 1
    ∧ (∀ j, ((InternalMoveFirstToEndOf t node recipient middle_key).page node).slot j
        = (t.page node).slot j)
    ∧ ((InternalMoveFirstToEndOf t node recipient middle_key).page recipient).size
        = (t.page recipient).size + 1
    ∧ ((InternalMoveFirstToEndOf t node recipient middle_key).page recipient).slot
          (t.page recipient).size
        = (middle_key, BPlusTreeInternalPage.ValueAt (t.page node) 0)
    ∧ (∀ j, j ≠ (t.page recipient).size →
        ((InternalMoveFirstToEndOf t node recipient middle_key).page recipient).slot j
          = (t.page recipient).slot j)
    ∧ ((InternalMoveFirstToEndOf t node recipient middle_key).page
          (BPlusTreeInternalPage.ValueAt (t.page node) 0)).parent_page_id
        = (t.page recipient).page_id := by
  obtain ⟨a1, a2, a3, _, a5, a6, _⟩ := InternalCopyLastFrom_pages t recipient
    (middle_key, BPlusTreeInternalPage.ValueAt (t.page node) 0) h0 hcr
  have hn := a6 node hnr (fun e => hcn e.symm)
  have hrn : ¬ recipient = node := fun e => hnr e.symm
  unfold InternalMoveFirstToEndOf
  simp only [page_setTreePage, if_true, if_neg hrn, if_neg hcn]
  refine ⟨?_, ?_, a1, a2, a3, ?_⟩
  · rw [hn]; rfl
  · intro j; rw [hn]; rfl
  · rw [a5]

/-- C38. The function `MoveFirstToEndOf` of an internal page leaves the donor's first
entry in place. For every tree state in which the donor, the recipient and
the donor's first child are three different pages, the donor's slot array is
untouched and only its size drops by one, so its remaining entries are its
former entries `0 .. size - 2`: the former first child is still among them and
the former last child is not. On the scenario (donor page 3 with the children
11, 12, 13, recipient page 2, middle key 4): the recipient ends with the
children 21, 22, 11 and page 11 is re-parented to page 2, while the donor still
lists the children 11 and 12 and no page lists child 13. -/
theorem InternalMoveFirstToEndOf_keeps_first :
    (∀ (t : BPlusTree) (node recipient : page_id_t) (middle_key : KeyType),
      0 ≤ (t.page recipient).size → node ≠ recipient →
      BPlusTreeInternalPage.ValueAt (t.page node) 0 ≠ recipient →
      BPlusTreeInternalPage.ValueAt (t.page node) 0 ≠ node →
      ((InternalMoveFirstToEndOf t node recipient middle_key).page node).size
          = (t.page node).size - 1
      ∧ ∀ j, ((InternalMoveFirstToEndOf t node recipient middle_key).page node).slot j
          = (t.page node).slot j)
    ∧ entries moveFirstScenario 3 = [(0, 11), (5, 12), (9, 13)]
    ∧ entries moveFirstScenario 2 = [(0, 21), (3, 22)]
    ∧ entries (InternalMoveFirstToEndOf moveFirstScenario 3 2 4) 2
        = [(0, 21), (3, 22), (4, 11)]
    ∧ entries (InternalMoveFirstToEndOf moveFirstScenario 3 2 4) 3 = [(0, 11), (5, 12)]
    ∧ ((InternalMoveFirstToEndOf moveFirstScenario 3 2 4).page 11).parent_page_id = 2
    ∧ ((InternalMoveFirstToEndOf moveFirstScenario 3 2 4).page 13).parent_page_id = 3 := by
  refine ⟨?_, by decide, by decide, by decide, by decide, by decide, by decide⟩
  intro t node recipient middle_key h0 hnr hcr hcn
  obtain ⟨a1, a2, _⟩ := InternalMoveFirstToEndOf_facts t node recipient middle_key h0 hnr
    hcr hcn
  exact ⟨a1, a2⟩

end BPlusTree

/-! ## Extendible hash table: slot sharing, repeated splits, unpin arguments -/

theorem lookup_storeBucket (l : List (page_id_t × HashTableBucketPage)) (x y : page_id_t)
    (b : HashTableBucketPage) :
    (storeBucket l x b).lookup y = if y = x then some b else l.lookup y := by
  induction l with
  | nil =>
    by_cases h : y = x
    · simp [storeBucket, List.lookup, h]
    · have hb : (y == x) = false := by simpa using h
      simp [storeBucket, List.lookup, h, hb]
  | cons a l ih =>
    obtain ⟨q, r⟩ := a
    by_cases hq : q = x
    · subst hq
      by_cases h : y = q
      · simp [storeBucket, List.lookup, h]
      · have hb : (y == q) = false := by simpa using h
        simp [storeBucket, List.lookup, h, hb]
    · by_cases h : y = x
      · subst h
        have hne : ¬ y = q := fun e => hq e.symm
        have hb : (y == q) = false := by simpa using hne
        simp [storeBucket, List.lookup, hq, hb, ih]
      · by_cases hyq : y = q
        · simp [storeBucket, List.lookup, hq, hyq]
        · have hb : (y == q) = false := by simpa using hyq
          simp [storeBucket, List.lookup, hq, hb, ih, h]

namespace ExtendibleHashTable

open HashTableDirectoryPage

theorem sharingScenario_reached : Reached idHash 4 sharingScenario := by
  unfold sharingScenario
  cases h1 : ExtendibleHashTable.InsertAll idHash 4 3 construct mergeScenarioPairs with
  | none => exact Reached.construct
  | some r => exact Reached_InsertAll 3 mergeScenarioPairs construct r Reached.construct h1

/-- C31. The sharing invariant fails in a state reached by `Insert` calls alone. Bucket
capacity 4, the hash of a key is the key, the eleven pairs of
`mergeScenarioPairs` inserted (every call returns true): the global depth is
3, the slots 1, 3 and 5 reference bucket page 5 with local depth 2, and slot
7 references bucket page 2 with local depth 2. So the slots referencing page
5 are not the slots that agree with slot 3 on the low two bits (these are 3
and 7), and page 5 is referenced by three slots instead of `2 ^ (3 - 2)`. -/
theorem sharing_invariant_broken :
    (ExtendibleHashTable.InsertAll idHash 4 3 construct mergeScenarioPairs).map Prod.fst
      = some [true, true, true, true, true, true, true, true, true, true, true]
    ∧ Reached idHash 4 sharingScenario
    ∧ sharingScenario.directory.global_depth = 3
    ∧ (List.range 8).map sharingScenario.directory.GetLocalDepth = [3, 2, 2, 2, 3, 2, 2, 2]
    ∧ (List.range 8).map sharingScenario.directory.GetBucketPageId = [1, 5, 3, 5, 4, 5, 3, 2]
    ∧ slotsOf sharingScenario.directory 5 = [1, 3, 5]
    ∧ slotsSharing sharingScenario.directory 3 = [3, 7]
    ∧ (slotsOf sharingScenario.directory 5).length ≠ 2 ^ (3 - 2) :=
  ⟨by decide, sharingScenario_reached, by decide, by decide, by decide, by decide, by decide,
    by decide⟩

theorem KeyToDirectoryIndex_zero (d : HashTableDirectoryPage) :
    KeyToDirectoryIndex idHash 0 d = 0 := by
  unfold KeyToDirectoryIndex
  have : idHash 0 = 0 := rfl
  rw [this, Nat.zero_and]

theorem KeyToPageId_zero (d : HashTableDirectoryPage) :
    KeyToPageId idHash 0 d = d.GetBucketPageId 0 := by
  unfold KeyToPageId
  rw [KeyToDirectoryIndex_zero]

theorem GetSplitImageIndex_zero_ne (d : HashTableDirectoryPage) : d.GetSplitImageIndex 0 ≠ 0 := by
  unfold GetSplitImageIndex
  rw [Nat.zero_xor, Nat.one_shiftLeft]
  exact (Nat.two_pow_pos _).ne.symm

/-- A pass of the rehash loop over keys that all still map to the old bucket
moves nothing. -/
theorem rehashLoop_stay (hash : KeyType → Nat) (cap : Nat) (d : HashTableDirectoryPage)
    (bp : page_id_t) :
    ∀ (n i : Nat) (pages : HashTableBucketPage × HashTableBucketPage),
      (∀ j, i ≤ j → j < i + n → KeyToPageId hash (pages.1.KeyAt j) d = bp) →
      rehashLoop hash cap d bp n i pages = pages := by
  intro n
  induction n with
  | zero => intro i pages _; rfl
  | succ n ih =>
    intro i pages h
    rw [rehashLoop]
    have h0 : ¬ KeyToPageId hash (pages.1.KeyAt i) d ≠ bp := by
      intro hne
      exact hne (h i (le_refl _) (by omega))
    rw [if_neg h0]
    exact ih (i + 1) pages (fun j h1 h2 => h j (by omega) (by omega))

/-- Slot 0 across the directory part of a split of slot 0: it keeps its bucket
page and its local depth grows by one. -/
theorem split_slot_zero (d1 : HashTableDirectoryPage) (np : page_id_t) (nb : Nat)
    (hnb : nb ≠ 0) :
    (splitDirLoop (d1.GetBucketPageId 0) np 0 nb
        (((d1.IncrLocalDepth 0).SetLocalDepth nb
          ((d1.IncrLocalDepth 0).GetLocalDepth 0)).SetBucketPageId nb np).Size 0
        (((d1.IncrLocalDepth 0).SetLocalDepth nb
          ((d1.IncrLocalDepth 0).GetLocalDepth 0)).SetBucketPageId nb np)).GetBucketPageId 0
      = d1.GetBucketPageId 0
    ∧ (splitDirLoop (d1.GetBucketPageId 0) np 0 nb
        (((d1.IncrLocalDepth 0).SetLocalDepth nb
          ((d1.IncrLocalDepth 0).GetLocalDepth 0)).SetBucketPageId nb np).Size 0
        (((d1.IncrLocalDepth 0).SetLocalDepth nb
          ((d1.IncrLocalDepth 0).GetLocalDepth 0)).SetBucketPageId nb np)).GetLocalDepth 0
      = d1.GetLocalDepth 0 + 1
    ∧ (splitDirLoop (d1.GetBucketPageId 0) np 0 nb
        (((d1.IncrLocalDepth 0).SetLocalDepth nb
          ((d1.IncrLocalDepth 0).GetLocalDepth 0)).SetBucketPageId nb np).Size 0
        (((d1.IncrLocalDepth 0).SetLocalDepth nb
          ((d1.IncrLocalDepth 0).GetLocalDepth 0)).SetBucketPageId nb np)).global_depth
      = d1.global_depth := by
  have h0nb : ¬ 0 = nb := fun e => hnb e.symm
  obtain ⟨a1, a2, a3⟩ := SetLocalDepth_get d1 0 (d1.GetLocalDepth 0 + 1)
  have e2 : (d1.IncrLocalDepth 0).GetLocalDepth 0 = d1.GetLocalDepth 0 + 1 := by
    unfold IncrLocalDepth; rw [a2, if_pos rfl]
  have g2 : (d1.IncrLocalDepth 0).global_depth = d1.global_depth := a1
  have p2 : ∀ j, (d1.IncrLocalDepth 0).GetBucketPageId j = d1.GetBucketPageId j := a3
  rw [e2]
  obtain ⟨b1, b2, b3⟩ := SetLocalDepth_get (d1.IncrLocalDepth 0) nb (d1.GetLocalDepth 0 + 1)
  obtain ⟨c1, c2, c3⟩ := SetBucketPageId_get
    ((d1.IncrLocalDepth 0).SetLocalDepth nb (d1.GetLocalDepth 0 + 1)) nb np
  generalize hd4 : ((d1.IncrLocalDepth 0).SetLocalDepth nb
    (d1.GetLocalDepth 0 + 1)).SetBucketPageId nb np = d4 at c1 c2 c3
  have l0 : d4.GetLocalDepth 0 = d1.GetLocalDepth 0 + 1 := by
    rw [c2, b2, if_neg h0nb, e2]
  have lnb : d4.GetLocalDepth nb = d1.GetLocalDepth 0 + 1 := by
    rw [c2, b2, if_pos rfl]
  have q0 : d4.GetBucketPageId 0 = d1.GetBucketPageId 0 := by
    rw [c3, if_neg h0nb, b3, p2]
  obtain ⟨s1, s2, s3⟩ := splitDirLoop_get (d1.GetBucketPageId 0) np 0 nb
    (d1.GetLocalDepth 0 + 1) d4.Size 0 d4 l0 lnb
  refine ⟨?_, ?_, ?_⟩
  · rw [s3]
    by_cases hc : 0 ≤ 0 ∧ 0 < 0 + d4.Size ∧ d4.GetBucketPageId 0 = d1.GetBucketPageId 0
    · rw [if_pos hc, if_pos rfl]
    · rw [if_neg hc, q0]
  · rw [s2]
    by_cases hc : 0 ≤ 0 ∧ 0 < 0 + d4.Size ∧ d4.GetBucketPageId 0 = d1.GetBucketPageId 0
    · rw [if_pos hc]
    · rw [if_neg hc, l0]
  · rw [s1, c1, b1, g2]

/-- Slot 0 across the doubling of the directory. -/
theorem IncrGlobalDepth_zero (d : HashTableDirectoryPage) :
    d.IncrGlobalDepth.GetBucketPageId 0 = d.GetBucketPageId 0
    ∧ d.IncrGlobalDepth.GetLocalDepth 0 = d.GetLocalDepth 0
    ∧ d.IncrGlobalDepth.global_depth = d.global_depth + 1 := by
  obtain ⟨a1, a2, a3⟩ := IncrGlobalDepth_get d
  have hs : ¬ (d.Size ≤ 0 ∧ 0 < d.Size + d.Size) := by
    have := Nat.two_pow_pos d.global_depth
    rw [Size_eq]; omega
  exact ⟨by rw [a3, if_neg hs], by rw [a2, if_neg hs], a1⟩

theorem bucket_Insert_full (cap : Nat) (b : HashTableBucketPage) (key : KeyType)
    (value : ValueType) (h : HashTableBucketPage.IsFull cap b = true) :
    HashTableBucketPage.Insert cap b key value = (false, b) := by
  unfold HashTableBucketPage.Insert
  rw [if_pos h]

/-- The state that the split of a stuck state hands to `Insert` is stuck, whenever
slot 0 of the new directory still references the full bucket. -/
theorem Stuck_store (cap : Nat) (t : ExtendibleHashTable) (d5 : HashTableDirectoryPage)
    (np : page_id_t) (h : Stuck cap t)
    (hp : d5.GetBucketPageId 0 = t.directory.GetBucketPageId 0)
    (hle : d5.GetLocalDepth 0 ≤ d5.global_depth) :
    Stuck cap
      { directory_page_id := t.directory_page_id
        directory := d5
        buckets :=
          storeBucket
            (storeBucket t.buckets np
              (rehashLoop idHash cap d5 (t.directory.GetBucketPageId 0) cap 0
                (t.bucket (t.directory.GetBucketPageId 0), HashTableBucketPage.zero)).2)
            (t.directory.GetBucketPageId 0)
            (rehashLoop idHash cap d5 (t.directory.GetBucketPageId 0) cap 0
              (t.bucket (t.directory.GetBucketPageId 0), HashTableBucketPage.zero)).1
        next_page_id := t.next_page_id + 1 } := by
  have hstay := rehashLoop_stay idHash cap d5 (t.directory.GetBucketPageId 0) cap 0
    (t.bucket (t.directory.GetBucketPageId 0), HashTableBucketPage.zero)
    (fun j _ hj => by
      show KeyToPageId idHash ((t.bucket (t.directory.GetBucketPageId 0)).KeyAt j) d5 = _
      rw [h.keys j (by omega), KeyToPageId_zero, hp])
  rw [hstay]
  have hb : ∀ l : List (page_id_t × HashTableBucketPage),
      bucket
        { directory_page_id := t.directory_page_id
          directory := d5
          buckets := storeBucket l (t.directory.GetBucketPageId 0)
            (t.bucket (t.directory.GetBucketPageId 0))
          next_page_id := t.next_page_id + 1 } (t.directory.GetBucketPageId 0)
        = t.bucket (t.directory.GetBucketPageId 0) := by
    intro l
    show (match (storeBucket l _ _).lookup _ with
      | some b => b
      | none => HashTableBucketPage.zero) = _
    rw [lookup_storeBucket, if_pos rfl]
  refine ⟨?_, ?_, hle⟩
  · show HashTableBucketPage.IsFull cap (bucket _ (d5.GetBucketPageId 0)) = true
    rw [hp, hb]; exact h.full
  · intro i hi
    show (bucket _ (d5.GetBucketPageId 0)).KeyAt i = 0
    rw [hp, hb]; exact h.keys i hi

/-- In a stuck state `SplitInsert` splits the bucket of slot 0, and the state it
hands to `Insert` is stuck again, with the local depth of slot 0 one higher. -/
theorem Stuck_step (cap : Nat) (t : ExtendibleHashTable) (value : ValueType)
    (h : Stuck cap t) :
    (SplitInsertBody idHash cap t 0 value).1 = none
    ∧ Stuck cap (SplitInsertBody idHash cap t 0 value).2
    ∧ (SplitInsertBody idHash cap t 0 value).2.directory.GetLocalDepth 0
        = t.directory.GetLocalDepth 0 + 1 := by
  have hfull := h.full
  have hft : ¬ (false = true) := by decide
  simp only [SplitInsertBody, KeyToPageId_zero, KeyToDirectoryIndex_zero, hfull, Bool.not_true,
    if_neg hft]
  by_cases hc : t.directory.global_depth = t.directory.GetLocalDepth 0
  · obtain ⟨i1, i2, i3⟩ := IncrGlobalDepth_zero t.directory
    simp only [if_pos hc]
    obtain ⟨s1, s2, s3⟩ := split_slot_zero t.directory.IncrGlobalDepth t.next_page_id _
      (GetSplitImageIndex_zero_ne (t.directory.IncrGlobalDepth.IncrLocalDepth 0))
    rw [i1] at s1 s2 s3
    generalize splitDirLoop (t.directory.GetBucketPageId 0) t.next_page_id 0 _ _ 0 _ = d5
      at s1 s2 s3 ⊢
    refine ⟨trivial, Stuck_store cap t d5 t.next_page_id h s1 ?_, ?_⟩
    · rw [s2, s3, i2, i3, hc]
    · show d5.GetLocalDepth 0 = _
      rw [s2, i2]
  · simp only [if_neg hc]
    obtain ⟨s1, s2, s3⟩ := split_slot_zero t.directory t.next_page_id _
      (GetSplitImageIndex_zero_ne (t.directory.IncrLocalDepth 0))
    generalize splitDirLoop (t.directory.GetBucketPageId 0) t.next_page_id 0 _ _ 0 _ = d5
      at s1 s2 s3 ⊢
    refine ⟨trivial, Stuck_store cap t d5 t.next_page_id h s1 ?_, ?_⟩
    · rw [s2, s3]
      have := h.depth_le
      omega
    · show d5.GetLocalDepth 0 = _
      rw [s2]

/-- In a stuck state `Insert` of the key 0 goes through `SplitInsert` back to `Insert`. -/
theorem Stuck_Insert_succ (cap : Nat) (t : ExtendibleHashTable) (value : ValueType)
    (h : Stuck cap t) (fuel : Nat) :
    ExtendibleHashTable.Insert idHash cap (fuel + 1) t 0 value
      = ExtendibleHashTable.Insert idHash cap fuel (SplitInsertBody idHash cap t 0 value).2 0
          value := by
  obtain ⟨a1, _, _⟩ := Stuck_step cap t value h
  rw [ExtendibleHashTable.Insert]
  simp only [KeyToPageId_zero, bucket_Insert_full cap _ 0 value h.full, h.full, Bool.not_false,
    Bool.and_self, if_true]
  cases hs : SplitInsertBody idHash cap t 0 value with
  | mk o t1 =>
    rw [hs] at a1
    simp only at a1
    subst a1
    rfl

/-- In a stuck state `Insert` of the key 0 does not return, whatever the fuel, and
the state of the `n`-th recursive call has local depth `n` higher in slot 0. -/
theorem Stuck_splitSteps (cap : Nat) (value : ValueType) :
    ∀ (n : Nat) (t : ExtendibleHashTable), Stuck cap t →
      Stuck cap (splitSteps idHash cap 0 value n t)
      ∧ (splitSteps idHash cap 0 value n t).directory.GetLocalDepth 0
          = t.directory.GetLocalDepth 0 + n
      ∧ ∀ fuel, ExtendibleHashTable.Insert idHash cap (n + fuel) t 0 value
          = ExtendibleHashTable.Insert idHash cap fuel (splitSteps idHash cap 0 value n t) 0
              value := by
  intro n
  induction n with
  | zero =>
    intro t h
    refine ⟨h, rfl, fun fuel => ?_⟩
    rw [Nat.zero_add]; rfl
  | succ n ih =>
    intro t h
    obtain ⟨_, a2, a3⟩ := Stuck_step cap t value h
    obtain ⟨b1, b2, b3⟩ := ih _ a2
    refine ⟨b1, ?_, fun fuel => ?_⟩
    · show (splitSteps idHash cap 0 value n _).directory.GetLocalDepth 0 = _
      rw [b2, a3]; omega
    · have e : n + 1 + fuel = (n + fuel) + 1 := by omega
      rw [e, Stuck_Insert_succ cap t value h, b3]
      rfl

theorem Stuck_Insert (cap : Nat) (value : ValueType) :
    ∀ (fuel : Nat) (t : ExtendibleHashTable), Stuck cap t →
      ExtendibleHashTable.Insert idHash cap fuel t 0 value = none := by
  intro fuel
  induction fuel with
  | zero => intro t _; rfl
  | succ fuel ih =>
    intro t h
    rw [Stuck_Insert_succ cap t value h]
    exact ih _ (Stuck_step cap t value h).2.1

theorem sameKeyScenario_stuck : Stuck 4 sameKeyScenario :=
  ⟨by decide, by decide, by decide⟩

/-- C32. The recursion of `SplitInsert` through `Insert` does not terminate on pairs
with identical hashes. Bucket capacity 4, the hash of a key is the key: the
four pairs (0, 1) .. (0, 4) are inserted (every call returns true) and fill
the only bucket. `Insert(0, 5)` then returns for no amount of fuel: every
`SplitInsert` splits the bucket of slot 0, all four keys stay in it, and
`Insert` is called again on a full bucket. The state of the `n`-th recursive
call has global depth at least `n`, so the global depth passes every bound. -/
theorem same_hash_inserts_diverge :
    (ExtendibleHashTable.InsertAll idHash 4 1 construct sameKeyPairs).map Prod.fst
      = some [true, true, true, true]
    ∧ Reached idHash 4 sameKeyScenario
    ∧ (∀ fuel, ExtendibleHashTable.Insert idHash 4 fuel sameKeyScenario 0 5 = none)
    ∧ (∀ n fuel, ExtendibleHashTable.Insert idHash 4 (n + fuel) sameKeyScenario 0 5
        = ExtendibleHashTable.Insert idHash 4 fuel (splitSteps idHash 4 0 5 n sameKeyScenario) 0 5)
    ∧ (∀ n, n ≤ (splitSteps idHash 4 0 5 n sameKeyScenario).directory.global_depth) := by
  refine ⟨by decide, ?_, fun fuel => Stuck_Insert 4 5 fuel _ sameKeyScenario_stuck,
    fun n fuel => (Stuck_splitSteps 4 5 n _ sameKeyScenario_stuck).2.2 fuel, fun n => ?_⟩
  · unfold sameKeyScenario
    cases h1 : ExtendibleHashTable.InsertAll idHash 4 1 construct sameKeyPairs with
    | none => exact Reached.construct
    | some r => exact Reached_InsertAll 1 sameKeyPairs construct r Reached.construct h1
  · obtain ⟨b1, b2, _⟩ := Stuck_splitSteps 4 5 n _ sameKeyScenario_stuck
    have := b1.depth_le
    omega

/-- The unpin arguments of `GetValue`: the directory page clean, the bucket page with
the return value of the call as its dirty flag. -/
theorem GetValueUnpins_facts (hash : KeyType → Nat) (cap : Nat) (t : ExtendibleHashTable)
    (key : KeyType) :
    GetValueUnpins hash cap t key
      = [(t.directory_page_id, false),
         (KeyToPageId hash key t.directory, (GetValue hash cap t key).1)] := rfl

/-- A call of `Merge` that takes the first `return`: the state is unchanged and the
directory page is unpinned dirty. -/
theorem Merge_early_facts (hash : KeyType → Nat) (cap : Nat) (fuel : Nat)
    (t : ExtendibleHashTable) (key : KeyType)
    (h : (!HashTableBucketPage.IsEmpty cap (t.bucket (KeyToPageId hash key t.directory))
          || t.directory.global_depth == 0) = true) :
    Merge hash cap (fuel + 1) t key = some t
    ∧ MergeUnpins hash cap (fuel + 1) t key
        = some [(KeyToPageId hash key t.directory, false), (t.directory_page_id, true)] := by
  constructor
  · rw [Merge]; simp only [h, if_true]
  · rw [MergeUnpins]; simp only [h, if_true]

/-- C34. Two unpins of the hash table pass `is_dirty = true` for a page the call has
not modified. `GetValue` unpins the bucket page with its return value as the
dirty flag, so every successful lookup marks the bucket page dirty although
`GetValue` writes nothing. `Merge` unpins the directory page with `true` on
every path, also when it returns at once because the bucket is not empty or
the global depth is 0 and the state is unchanged. Scenario (bucket capacity
4): after `Insert(1, 101)`, `GetValue(1)` finds the value and unpins bucket page
1 dirty; `Remove(1, 101)` calls `Merge` at global depth 0, which changes nothing
and unpins the directory page 0 dirty. -/
theorem unpin_dirty_without_change :
    (∀ (hash : KeyType → Nat) (cap : Nat) (t : ExtendibleHashTable) (key : KeyType),
      GetValueUnpins hash cap t key
        = [(t.directory_page_id, false),
           (KeyToPageId hash key t.directory, (GetValue hash cap t key).1)])
    ∧ (∀ (hash : KeyType → Nat) (cap fuel : Nat) (t : ExtendibleHashTable) (key : KeyType),
      (!HashTableBucketPage.IsEmpty cap (t.bucket (KeyToPageId hash key t.directory))
          || t.directory.global_depth == 0) = true →
      Merge hash cap (fuel + 1) t key = some t
      ∧ MergeUnpins hash cap (fuel + 1) t key
          = some [(KeyToPageId hash key t.directory, false), (t.directory_page_id, true)])
    ∧ GetValue idHash 4 onePairScenario 1 = (true, [101])
    ∧ GetValueUnpins idHash 4 onePairScenario 1 = [(0, false), (1, true)]
    ∧ Remove idHash 4 1 onePairScenario 1 101 = some (true, emptiedScenario)
    ∧ Merge idHash 4 1 emptiedScenario 1 = some emptiedScenario
    ∧ MergeUnpins idHash 4 1 emptiedScenario 1 = some [(1, false), (0, true)] :=
  ⟨GetValueUnpins_facts, Merge_early_facts, by decide, by decide, by decide, by decide,
    by decide⟩

end ExtendibleHashTable

/-! ## B+ tree: the leaf chain -/

namespace BPlusTree

/-- C36. The leaf chain does not yield every successfully inserted key. On an empty
tree (`leaf_max_size = 3`, `internal_max_size = 3`) whose new root leaf reads a
negative key from `array_[-1]`, `Insert(0, value)` returns true and stores
nothing: the walk along `next_page_id` from the leftmost leaf yields no key. With
the keys 1 to 7 the walk yields them all, in increasing order. -/
theorem leaf_chain_misses_key :
    (∀ (oob : KeyType) (value : ValueType), oob < 0 →
      (BPlusTree.InsertAll 1 (construct 3 3 oob) [(0, value)]).map Prod.fst = some [true]
      ∧ (BPlusTree.InsertAll 1 (construct 3 3 oob) [(0, value)]).bind
          (fun r => leafChainKeys 1 r.2) = some [])
    ∧ (BPlusTree.InsertAll 1 (construct 3 3 (-5)) [(0, 20)]).map Prod.fst = some [true]
    ∧ (BPlusTree.InsertAll 1 (construct 3 3 (-5)) [(0, 20)]).bind
        (fun r => leafChainKeys 1 r.2) = some []
    ∧ (BPlusTree.InsertAll 3 (construct 3 3 (-5))
        [(1, 10), (2, 20), (3, 30), (4, 40), (5, 50), (6, 60), (7, 70)]).bind
        (fun r => leafChainKeys 8 r.2) = some [1, 2, 3, 4, 5, 6, 7] := by
  refine ⟨?_, by decide, by decide, by decide⟩
  intro oob value hoob
  have h1 : BPlusTree.Insert 1 (construct 3 3 oob) 0 value
      = some (true, StartNewTree (construct 3 3 oob) 0 value) := rfl
  rw [StartNewTree_zero oob value hoob] at h1
  simp only [BPlusTree.InsertAll, h1]
  refine ⟨rfl, ?_⟩
  simp [leafChainKeys, chainKeys, FindLeafPage, FindLeafPageLoop, page, List.lookup,
    BPlusTreePage.IsLeafPage, entries, INVALID_PAGE_ID]

end BPlusTree

/-! ## B+ tree over a pool: pins bracket every access -/

namespace BPlusTreeOnPool

/-- When `InsertIntoParent` ends normally, the pages it has created have no pin and
every other page has the pin count it had before the call. -/
theorem InsertIntoParent_ok_pins :
    ∀ (fuel : Nat) (s : BPlusTreeOnPool) (old_node : page_id_t) (key : KeyType)
      (new_node : page_id_t) (u : Unit) (s1 : BPlusTreeOnPool),
      InsertIntoParent fuel s old_node key new_node = (Outcome.ok u, s1) →
      s.tree.next_page_id ≤ s1.tree.next_page_id
      ∧ ∀ q, s1.pinCount q
          = if s.tree.next_page_id ≤ q ∧ q < s1.tree.next_page_id then 0 else s.pinCount q := by
  intro fuel
  induction fuel with
  | zero =>
    intro s old_node key new_node u s1 h
    rw [InsertIntoParent] at h
    cases (Prod.mk.inj h).1
  | succ fuel ih =>
    intro s old_node key new_node u s1 h
    rw [InsertIntoParent] at h
    by_cases hr : (s.tree.page old_node).IsRootPage = true
    · rw [if_pos hr] at h
      cases hn : s.NewPage with
      | mk r s2 =>
        rw [hn] at h
        cases r with
        | none =>
          simp only at h
          cases (Prod.mk.inj h).1
        | some pid =>
          simp only at h
          obtain ⟨n1, n2, n3, n4⟩ := NewPage_some _ _ _ hn
          have hnext : s2.tree.next_page_id = s.tree.next_page_id + 1 := by rw [n2]; rfl
          generalize hs6 : (BPlusTreeOnPool.setTreePage _ pid
            (BPlusTreeInternalPage.PopulateNewRoot _ _ key _)) = s6 at h
          have h6t : s6.tree.next_page_id = s2.tree.next_page_id := by rw [← hs6]; rfl
          have h6p : ∀ q, s6.pinCount q = s2.pinCount q := by intro q; rw [← hs6]; rfl
          cases hu : s6.UpdateRootPageId with
          | mk b s7 =>
            rw [hu] at h
            obtain ⟨u1, u2, u3⟩ := UpdateRootPageId_facts _ _ _ hu
            have key2 : s7.tree.next_page_id = s.tree.next_page_id + 1 := by
              rw [u1, h6t, hnext]
            cases b with
            | false =>
              simp only at h
              cases (Prod.mk.inj h).1
            | true =>
              simp only at h
              rw [← (Prod.mk.inj h).2]
              obtain ⟨v1, v2, v3⟩ := UnpinPage_facts s7 pid
              refine ⟨by rw [v1, key2]; exact (lt_add_one _).le, fun q => ?_⟩
              rw [v3, v1, key2, u3, u3, h6p, h6p, n4, n4, if_pos rfl]
              unfold page_id_t at *
              by_cases hq : q = pid
              · rw [if_pos hq, if_pos (by omega)]
              · rw [if_neg hq, if_neg hq, if_neg (by omega)]
    · rw [if_neg hr] at h
      generalize hppid : (s.tree.page old_node).parent_page_id = ppid at h
      dsimp only at h
      cases hf : s.FetchPage ppid with
      | mk b s2 =>
        rw [hf] at h
        cases b with
        | false =>
          simp only at h
          cases (Prod.mk.inj h).1
        | true =>
          simp only at h
          obtain ⟨f1, f2, f3⟩ := FetchPage_true _ _ _ hf
          generalize hs3 : (s2.setTreePage ppid
            (BPlusTreeInternalPage.InsertNodeAfter (s2.tree.page ppid)
              (s2.tree.page old_node).page_id key (s2.tree.page new_node).page_id).2) = s3 at h
          have h3t : s3.tree.next_page_id = s.tree.next_page_id := by
            rw [← hs3]; show (BPlusTree.setTreePage s2.tree _ _).next_page_id = _
            rw [f1]; rfl
          have h3p : ∀ q, s3.pinCount q = s.pinCount q + if q = ppid then 1 else 0 := by
            intro q; rw [← hs3]; exact f3 q
          by_cases hfull : (BPlusTreeInternalPage.InsertNodeAfter (s2.tree.page ppid)
              (s2.tree.page old_node).page_id key (s2.tree.page new_node).page_id).1
                = s3.tree.internal_max_size
          · rw [if_pos hfull] at h
            cases hsp : Split false s3 ppid with
            | mk r s4 =>
              rw [hsp] at h
              obtain ⟨sp1, sp2⟩ := Split_facts _ _ _ _ _ hsp
              cases r with
              | none =>
                simp only at h
                cases (Prod.mk.inj h).1
              | some new_internal =>
                simp only at h
                obtain ⟨t1, t2, t3, t4⟩ := sp2 _ rfl
                cases hm : InternalMoveHalfTo s4 ppid new_internal with
                | mk b2 s5 =>
                  rw [hm] at h
                  obtain ⟨m1, m2, m3⟩ := InternalMoveHalfTo_facts _ _ _ _ _ hm
                  have h5t : s5.tree.next_page_id = s.tree.next_page_id + 1 := by
                    rw [m1, t2, h3t]
                  have h5p : ∀ q, s5.pinCount q
                      = if q = new_internal then 1
                        else s.pinCount q + if q = ppid then 1 else 0 := by
                    intro q
                    rw [m3, t4, h3p]
                  have hnew : new_internal = s.tree.next_page_id := by rw [t1, h3t]
                  cases b2 with
                  | false =>
                    simp only at h
                    cases (Prod.mk.inj h).1
                  | true =>
                    simp only at h
                    cases hrec : InsertIntoParent fuel s5 ppid
                        (BPlusTreeInternalPage.KeyAt (s5.tree.page new_internal) 0)
                        new_internal with
                    | mk o2 s6 =>
                      rw [hrec] at h
                      cases o2 with
                      | ok u2 =>
                        obtain ⟨r1, r2⟩ := ih _ _ _ _ _ _ hrec
                        simp only at h
                        rw [← (Prod.mk.inj h).2]
                        obtain ⟨v1, v2, v3⟩ := UnpinPage_facts s6 new_internal
                        obtain ⟨w1, w2, w3⟩ := UnpinPage_facts (s6.UnpinPage new_internal) ppid
                        rw [w1, v1]
                        rw [h5t] at r1 r2
                        refine ⟨?_, fun q => ?_⟩
                        · unfold page_id_t at *
                          omega
                        · simp only [w3, v3, r2, h5p]
                          by_cases hq1 : q = ppid
                          · subst hq1
                            unfold page_id_t at *
                            split_ifs <;> omega
                          · unfold page_id_t at *
                            split_ifs <;> omega
                      | outOfMemory =>
                        simp only at h
                        cases (Prod.mk.inj h).1
                      | nullDeref =>
                        simp only at h
                        cases (Prod.mk.inj h).1
                      | outOfFuel =>
                        simp only at h
                        cases (Prod.mk.inj h).1
          · rw [if_neg hfull] at h
            rw [← (Prod.mk.inj h).2]
            obtain ⟨v1, v2, v3⟩ := UnpinPage_facts s3 ppid
            refine ⟨by rw [v1, h3t], fun q => ?_⟩
            simp only [v3, v1, h3t, h3p]
            by_cases hq1 : q = ppid
            · subst hq1
              unfold page_id_t at *
              split_ifs <;> omega
            · unfold page_id_t at *
              split_ifs <;> omega

/-- When `Insert` ends normally, the pages it has created have no pin and every other
page has the pin count it had before the call. -/
theorem Insert_ok_pins (fuel : Nat) (s s1 : BPlusTreeOnPool) (key : KeyType)
    (value : ValueType) (b : Bool) (h : Insert fuel s key value = (Outcome.ok b, s1)) :
    s.tree.next_page_id ≤ s1.tree.next_page_id
    ∧ ∀ q, s1.pinCount q
        = if s.tree.next_page_id ≤ q ∧ q < s1.tree.next_page_id then 0 else s.pinCount q := by
  unfold Insert at h
  by_cases hroot : s.tree.root_page_id = INVALID_PAGE_ID
  · rw [if_pos hroot] at h
    unfold StartNewTree at h
    cases hn : s.NewPage with
    | mk r s2 =>
      rw [hn] at h
      cases r with
      | none =>
        simp only at h
        cases (Prod.mk.inj h).1
      | some pid =>
        simp only at h
        obtain ⟨n1, n2, n3, n4⟩ := NewPage_some _ _ _ hn
        have hnext : s2.tree.next_page_id = s.tree.next_page_id + 1 := by rw [n2]; rfl
        generalize hs3 : ({ s2 with tree := { s2.tree with root_page_id := pid } }
          : BPlusTreeOnPool) = s3 at h
        have h3t : s3.tree.next_page_id = s2.tree.next_page_id := by rw [← hs3]
        have h3p : ∀ q, s3.pinCount q = s2.pinCount q := by intro q; rw [← hs3]; rfl
        cases hu : s3.UpdateRootPageId with
        | mk c s4 =>
          rw [hu] at h
          obtain ⟨u1, u2, u3⟩ := UpdateRootPageId_facts _ _ _ hu
          cases c with
          | false =>
            simp only at h
            cases (Prod.mk.inj h).1
          | true =>
            simp only at h
            rw [← (Prod.mk.inj h).2]
            generalize hs5 : (BPlusTreeOnPool.setTreePage s4 pid _) = s5
            have h5t : s5.tree.next_page_id = s4.tree.next_page_id := by rw [← hs5]; rfl
            have h5p : ∀ q, s5.pinCount q = s4.pinCount q := by intro q; rw [← hs5]; rfl
            obtain ⟨v1, v2, v3⟩ := UnpinPage_facts s5 pid
            have key2 : s5.tree.next_page_id = s.tree.next_page_id + 1 := by
              rw [h5t, u1, h3t, hnext]
            rw [v1, key2]
            refine ⟨(lt_add_one _).le, fun q => ?_⟩
            simp only [v3, h5p, u3, h3p, n4, if_true]
            unfold page_id_t at *
            split_ifs <;> omega
  · rw [if_neg hroot] at h
    unfold InsertIntoLeaf at h
    cases hfind : FindLeafPage fuel s key false with
    | mk o s2 =>
      rw [hfind] at h
      cases o with
      | outOfMemory => simp only at h; cases (Prod.mk.inj h).1
      | nullDeref => simp only at h; cases (Prod.mk.inj h).1
      | outOfFuel => simp only at h; cases (Prod.mk.inj h).1
      | ok leaf =>
        obtain ⟨f1, f2, f3, f4⟩ := FindLeafPage_spec _ _ _ _ _ _ hfind
        have h2t : s2.tree.next_page_id = s.tree.next_page_id := by rw [f1]
        dsimp only at h
        split at h
        · rw [← (Prod.mk.inj h).2]
          obtain ⟨v1, v2, v3⟩ := UnpinPage_facts s2 leaf
          rw [v1, h2t]
          refine ⟨le_refl _, fun q => ?_⟩
          simp only [v3, f3]
          by_cases hq1 : q = leaf
          · subst hq1
            unfold page_id_t at *
            split_ifs <;> omega
          · unfold page_id_t at *
            split_ifs <;> omega
        · generalize hs3 : s2.setTreePage leaf
              (BPlusTreeLeafPage.Insert (s2.tree.page leaf) key value).2 = s3 at h
          have h3t : s3.tree.next_page_id = s.tree.next_page_id := by
            rw [← hs3]; show (BPlusTree.setTreePage s2.tree _ _).next_page_id = _
            rw [f1]; rfl
          have h3p : ∀ q, s3.pinCount q = s2.pinCount q := by intro q; rw [← hs3]; rfl
          split at h
          · cases hsp : Split true s3 leaf with
            | mk r s4 =>
              rw [hsp] at h
              obtain ⟨sp1, sp2⟩ := Split_facts _ _ _ _ _ hsp
              cases r with
              | none =>
                simp only at h
                cases (Prod.mk.inj h).1
              | some new_leaf =>
                simp only at h
                obtain ⟨t1, t2, t3, t4⟩ := sp2 _ rfl
                generalize hs6 : (BPlusTreeOnPool.setTreePage _ leaf _) = s6 at h
                have h6t : s6.tree.next_page_id = s4.tree.next_page_id := by rw [← hs6]; rfl
                have h6p : ∀ q, s6.pinCount q = s4.pinCount q := by intro q; rw [← hs6]; rfl
                generalize hk : BPlusTreeLeafPage.KeyAt (s6.tree.page new_leaf) 0 = k at h
                cases hrec : InsertIntoParent fuel s6 leaf k new_leaf with
                | mk o2 s7 =>
                  rw [hrec] at h
                  cases o2 with
                  | outOfMemory => simp only at h; cases (Prod.mk.inj h).1
                  | nullDeref => simp only at h; cases (Prod.mk.inj h).1
                  | outOfFuel => simp only at h; cases (Prod.mk.inj h).1
                  | ok u =>
                    obtain ⟨r1, r2⟩ := InsertIntoParent_ok_pins _ _ _ _ _ _ _ hrec
                    simp only at h
                    rw [← (Prod.mk.inj h).2]
                    obtain ⟨v1, v2, v3⟩ := UnpinPage_facts s7 new_leaf
                    obtain ⟨w1, w2, w3⟩ := UnpinPage_facts (s7.UnpinPage new_leaf) leaf
                    have h6n : s6.tree.next_page_id = s.tree.next_page_id + 1 := by
                      rw [h6t, t2, h3t]
                    have hnew : new_leaf = s.tree.next_page_id := by rw [t1, h3t]
                    rw [w1, v1]
                    rw [h6n] at r1 r2
                    refine ⟨?_, fun q => ?_⟩
                    · unfold page_id_t at *
                      omega
                    · simp only [w3, v3, r2, h6p, t4, h3p, f3]
                      by_cases hq1 : q = leaf
                      · subst hq1
                        unfold page_id_t at *
                        split_ifs <;> omega
                      · unfold page_id_t at *
                        split_ifs <;> omega
          · rw [← (Prod.mk.inj h).2]
            obtain ⟨v1, v2, v3⟩ := UnpinPage_facts s3 leaf
            rw [v1, h3t]
            refine ⟨le_refl _, fun q => ?_⟩
            simp only [v3, h3p, f3]
            by_cases hq1 : q = leaf
            · subst hq1
              unfold page_id_t at *
              split_ifs <;> omega
            · unfold page_id_t at *
              split_ifs <;> omega

/-- When `GetValue` ends normally, the tree and every pin count are what they were. -/
theorem GetValue_ok_pins (fuel : Nat) (s s1 : BPlusTreeOnPool) (key : KeyType)
    (r : Bool × List ValueType) (h : GetValue fuel s key = (Outcome.ok r, s1)) :
    s1.tree = s.tree ∧ ∀ q, s1.pinCount q = s.pinCount q := by
  unfold GetValue at h
  by_cases hroot : s.tree.root_page_id = INVALID_PAGE_ID
  · rw [if_pos hroot] at h
    rw [← (Prod.mk.inj h).2]
    exact ⟨rfl, fun _ => rfl⟩
  · rw [if_neg hroot] at h
    cases hfind : FindLeafPage fuel s key false with
    | mk o s2 =>
      rw [hfind] at h
      cases o with
      | outOfMemory => simp only at h; cases (Prod.mk.inj h).1
      | nullDeref => simp only at h; cases (Prod.mk.inj h).1
      | outOfFuel => simp only at h; cases (Prod.mk.inj h).1
      | ok leaf =>
        obtain ⟨f1, f2, f3, f4⟩ := FindLeafPage_spec _ _ _ _ _ _ hfind
        obtain ⟨v1, v2, v3⟩ := UnpinPage_facts s2 leaf
        have hp : ∀ q, (s2.UnpinPage leaf).pinCount q = s.pinCount q := by
          intro q
          simp only [v3, f3]
          by_cases hq1 : q = leaf
          · subst hq1
            simp only [if_true]; omega
          · simp only [if_neg hq1]; omega
        dsimp only at h
        split at h
        · rw [← (Prod.mk.inj h).2]
          exact ⟨v1.trans f1, hp⟩
        · rw [← (Prod.mk.inj h).2]
          exact ⟨v1.trans f1, hp⟩

/-- The facts behind the pin bracket: on a pool in which the page ids not yet handed
out carry no pin, a normally ending `Insert` or `GetValue` leaves every pin count as
it was. -/
theorem pins_bracket_facts (fuel : Nat) (s : BPlusTreeOnPool) (key : KeyType)
    (value : ValueType) (hfresh : ∀ q, s.tree.next_page_id ≤ q → s.pinCount q = 0) :
    (∀ b s1, Insert fuel s key value = (Outcome.ok b, s1) →
      (∀ q, s1.pinCount q = s.pinCount q)
      ∧ ∀ q, s1.tree.next_page_id ≤ q → s1.pinCount q = 0)
    ∧ (∀ r s1, GetValue fuel s key = (Outcome.ok r, s1) →
      (∀ q, s1.pinCount q = s.pinCount q) ∧ s1.tree = s.tree) := by
  constructor
  · intro b s1 h
    obtain ⟨a1, a2⟩ := Insert_ok_pins fuel s s1 key value b h
    have hall : ∀ q, s1.pinCount q = s.pinCount q := by
      intro q
      rw [a2]
      by_cases hc : s.tree.next_page_id ≤ q ∧ q < s1.tree.next_page_id
      · rw [if_pos hc, hfresh q hc.1]
      · rw [if_neg hc]
    exact ⟨hall, fun q hq => by rw [hall]; exact hfresh q (le_trans a1 hq)⟩
  · intro r s1 h
    obtain ⟨a1, a2⟩ := GetValue_ok_pins fuel s s1 key r h
    exact ⟨a2, a1⟩

/-- C40. Pins bracket every B+ tree access. On a pool in which the page ids that have
not been handed out yet carry no pin, every `Insert` that returns normally (true or
false, with or without splits of leaves and internal pages and a new root)
leaves the pin count of every page as it was before the call, the pages it
created included, and the page ids not yet handed out after the call carry no
pin again; every `GetValue` that returns normally leaves every pin count and the
tree as they were. -/
theorem pins_bracket_access (fuel : Nat) (s : BPlusTreeOnPool) (key : KeyType)
    (value : ValueType) (hfresh : ∀ q, s.tree.next_page_id ≤ q → s.pinCount q = 0) :
    (∀ b s1, Insert fuel s key value = (Outcome.ok b, s1) →
      (∀ q, s1.pinCount q = s.pinCount q)
      ∧ ∀ q, s1.tree.next_page_id ≤ q → s1.pinCount q = 0)
    ∧ (∀ r s1, GetValue fuel s key = (Outcome.ok r, s1) →
      (∀ q, s1.pinCount q = s.pinCount q) ∧ s1.tree = s.tree) :=
  pins_bracket_facts fuel s key value hfresh

theorem bracketScenario_pins (q : page_id_t) :
    bracketScenario.pinCount q = if q = 0 then 2 else 0 := by
  have e : bracketScenario.pins = [(0, 2), (1, 0), (2, 0), (3, 0)] := by decide
  unfold pinCount
  rw [e]
  by_cases h0 : q = 0
  · subst h0; rfl
  · rw [if_neg h0]
    have b0 : (q == 0) = false := by simpa using h0
    by_cases h1 : q = 1
    · subst h1; rfl
    · have b1 : (q == 1) = false := by simpa using h1
      by_cases h2 : q = 2
      · subst h2; rfl
      · have b2 : (q == 2) = false := by simpa using h2
        by_cases h3 : q = 3
        · subst h3; rfl
        · have b3 : (q == 3) = false := by simpa using h3
          simp [List.lookup, b0, b1, b2, b3]

/-- Witness for C40: the header page is pinned twice by other users of the pool, the
keys 1 to 4 are in the tree (pages 1 to 3). `Insert(5, 50)` returns true, splits a
leaf and the root, creates the pages 4, 5 and 6, and leaves every pin count as
it was; `GetValue(4)` finds 40 and does the same. -/
theorem pins_bracket_access_witness :
    (∀ q, bracketScenario.tree.next_page_id ≤ q → bracketScenario.pinCount q = 0)
    ∧ bracketScenario.pinCount 0 = 2
    ∧ bracketScenario.tree.next_page_id = 4
    ∧ (Insert 10 bracketScenario 5 50).1 = Outcome.ok true
    ∧ (Insert 10 bracketScenario 5 50).2.tree.next_page_id = 7
    ∧ (∀ q, (Insert 10 bracketScenario 5 50).2.pinCount q = bracketScenario.pinCount q)
    ∧ (GetValue 10 bracketScenario 4).1 = Outcome.ok (true, [40])
    ∧ (∀ q, (GetValue 10 bracketScenario 4).2.pinCount q = bracketScenario.pinCount q) := by
  have hfresh : ∀ q, bracketScenario.tree.next_page_id ≤ q → bracketScenario.pinCount q = 0 := by
    intro q hq
    have e : bracketScenario.tree.next_page_id = 4 := by decide
    rw [e] at hq
    rw [bracketScenario_pins, if_neg]
    intro h0
    subst h0
    exact absurd hq (by decide)
  have hi : (Insert 10 bracketScenario 5 50).1 = Outcome.ok true := by decide
  have hg : (GetValue 10 bracketScenario 4).1 = Outcome.ok (true, [40]) := by decide
  exact ⟨hfresh, by decide, by decide, hi, by decide,
    ((pins_bracket_access 10 bracketScenario 5 50 hfresh).1 true _ (Prod.ext hi rfl)).1, hg,
    ((pins_bracket_access 10 bracketScenario 4 0 hfresh).2 (true, [40]) _
      (Prod.ext hg rfl)).1⟩

end BPlusTreeOnPool

/-! ## Extendible hash table: one step of `Merge` -/

namespace ExtendibleHashTable

open HashTableDirectoryPage

/-- The slots after the directory loop of `Merge`: those of the emptied bucket and of
its split image reference the split image's page with the decremented local
depth, the others are unchanged. -/
theorem merge_slots (d0 : HashTableDirectoryPage) (next : page_id_t) (b : Nat)
    (h : DirInv d0 next) (hb : b < d0.Size) (hpos : 0 < d0.GetLocalDepth b)
    (hld : d0.GetLocalDepth b = d0.GetLocalDepth (d0.GetSplitImageIndex b))
    (hpid : d0.GetBucketPageId b ≠ d0.GetBucketPageId (d0.GetSplitImageIndex b)) :
    (mergeDirLoop (d0.GetBucketPageId b) (d0.GetSplitImageIndex b)
        ((d0.DecrLocalDepth b).DecrLocalDepth (d0.GetSplitImageIndex b)).Size 0
        ((d0.DecrLocalDepth b).DecrLocalDepth (d0.GetSplitImageIndex b))).global_depth
      = d0.global_depth
    ∧ ∀ j, j < d0.Size →
      ((d0.GetBucketPageId j = d0.GetBucketPageId b
          ∨ d0.GetBucketPageId j = d0.GetBucketPageId (d0.GetSplitImageIndex b)) →
        (mergeDirLoop (d0.GetBucketPageId b) (d0.GetSplitImageIndex b)
          ((d0.DecrLocalDepth b).DecrLocalDepth (d0.GetSplitImageIndex b)).Size 0
          ((d0.DecrLocalDepth b).DecrLocalDepth (d0.GetSplitImageIndex b))).GetLocalDepth j
            = (d0.GetLocalDepth b + 255) % 256
        ∧ (mergeDirLoop (d0.GetBucketPageId b) (d0.GetSplitImageIndex b)
          ((d0.DecrLocalDepth b).DecrLocalDepth (d0.GetSplitImageIndex b)).Size 0
          ((d0.DecrLocalDepth b).DecrLocalDepth (d0.GetSplitImageIndex b))).GetBucketPageId j
            = d0.GetBucketPageId (d0.GetSplitImageIndex b))
      ∧ (d0.GetBucketPageId j ≠ d0.GetBucketPageId b →
        d0.GetBucketPageId j ≠ d0.GetBucketPageId (d0.GetSplitImageIndex b) →
        (mergeDirLoop (d0.GetBucketPageId b) (d0.GetSplitImageIndex b)
          ((d0.DecrLocalDepth b).DecrLocalDepth (d0.GetSplitImageIndex b)).Size 0
          ((d0.DecrLocalDepth b).DecrLocalDepth (d0.GetSplitImageIndex b))).GetLocalDepth j
            = d0.GetLocalDepth j
        ∧ (mergeDirLoop (d0.GetBucketPageId b) (d0.GetSplitImageIndex b)
          ((d0.DecrLocalDepth b).DecrLocalDepth (d0.GetSplitImageIndex b)).Size 0
          ((d0.DecrLocalDepth b).DecrLocalDepth (d0.GetSplitImageIndex b))).GetBucketPageId j
            = d0.GetBucketPageId j) := by
  have hnb : d0.GetSplitImageIndex b < d0.Size :=
    GetSplitImageIndex_lt d0 b hb hpos (h.depth_le b hb)
  generalize d0.GetSplitImageIndex b = nb at hld hpid hnb ⊢
  have hbn : nb ≠ b := fun e => hpid (by rw [e])
  obtain ⟨a1, a2, a3⟩ := SetLocalDepth_get d0 b ((d0.GetLocalDepth b + 255) % 256)
  have hdb : d0.DecrLocalDepth b = d0.SetLocalDepth b ((d0.GetLocalDepth b + 255) % 256) := rfl
  have hldn : (d0.DecrLocalDepth b).GetLocalDepth nb = d0.GetLocalDepth b := by
    rw [hdb, a2, if_neg hbn, hld]
  obtain ⟨b1, b2, b3⟩ := SetLocalDepth_get (d0.DecrLocalDepth b) nb
    (((d0.DecrLocalDepth b).GetLocalDepth nb + 255) % 256)
  have hd1 : (d0.DecrLocalDepth b).DecrLocalDepth nb
      = (d0.DecrLocalDepth b).SetLocalDepth nb
          (((d0.DecrLocalDepth b).GetLocalDepth nb + 255) % 256) := rfl
  rw [hd1]
  rw [hldn] at b1 b2 b3 ⊢
  generalize hd1g : (d0.DecrLocalDepth b).SetLocalDepth nb ((d0.GetLocalDepth b + 255) % 256)
    = d1 at b1 b2 b3 ⊢
  have hgd : d1.global_depth = d0.global_depth := by rw [b1, hdb, a1]
  have hld1 : ∀ j, d1.GetLocalDepth j
      = if j = nb then (d0.GetLocalDepth b + 255) % 256
        else if j = b then (d0.GetLocalDepth b + 255) % 256 else d0.GetLocalDepth j := by
    intro j
    rw [b2, hdb, a2]
  have hpid1 : ∀ j, d1.GetBucketPageId j = d0.GetBucketPageId j := by
    intro j
    rw [b3, hdb, a3]
  have hsz : d1.Size = d0.Size := by rw [Size_eq, Size_eq, hgd]
  obtain ⟨g1, g2, g3⟩ := mergeDirLoop_get (d0.GetBucketPageId b) (d0.GetBucketPageId nb) nb
    ((d0.GetLocalDepth b + 255) % 256) (fun e => hpid e.symm) d1.Size 0 d1 (hpid1 nb)
    (by rw [hld1, if_pos rfl])
  generalize mergeDirLoop (d0.GetBucketPageId b) nb d1.Size 0 d1 = d2 at g1 g2 g3 ⊢
  refine ⟨by rw [g1, hgd], fun j hj => ?_⟩
  have hr : 0 ≤ j ∧ j < 0 + d1.Size := ⟨Nat.zero_le _, by rw [hsz]; omega⟩
  have hl : d2.GetLocalDepth j
      = if d0.GetBucketPageId j = d0.GetBucketPageId nb ∧ j ≠ nb then
          (d1.GetLocalDepth j + 255) % 256
        else if d0.GetBucketPageId j = d0.GetBucketPageId b then
          (d0.GetLocalDepth b + 255) % 256
        else d1.GetLocalDepth j := by
    rw [g2, if_pos hr, hpid1]
  have hp : d2.GetBucketPageId j
      = if d0.GetBucketPageId j = d0.GetBucketPageId b then d0.GetBucketPageId nb
        else d0.GetBucketPageId j := by
    rw [g3, hpid1]
    exact if_congr ⟨fun hc => hc.2.2, fun hc => ⟨hr.1, hr.2, hc⟩⟩ rfl rfl
  rw [hl, hp]
  by_cases hc1 : d0.GetBucketPageId j = d0.GetBucketPageId nb ∧ j ≠ nb
  · have hjb : j ≠ b := fun e => hpid (by rw [← e]; exact hc1.1)
    have hne : ¬ d0.GetBucketPageId j = d0.GetBucketPageId b :=
      fun hc => hpid (hc.symm.trans hc1.1)
    have e1 : d1.GetLocalDepth j = d0.GetLocalDepth b := by
      rw [hld1, if_neg hc1.2, if_neg hjb, h.same_depth j nb hj hnb hc1.1, ← hld]
    rw [if_pos hc1, if_neg hne, e1]
    exact ⟨fun _ => ⟨rfl, hc1.1⟩, fun _ h2 => absurd hc1.1 h2⟩
  · rw [if_neg hc1]
    by_cases hc2 : d0.GetBucketPageId j = d0.GetBucketPageId b
    · rw [if_pos hc2, if_pos hc2]
      exact ⟨fun _ => ⟨rfl, rfl⟩, fun h1 _ => absurd hc2 h1⟩
    · rw [if_neg hc2, if_neg hc2]
      by_cases hjn : j = nb
      · rw [hld1, if_pos hjn, hjn]
        exact ⟨fun _ => ⟨rfl, rfl⟩, fun _ h2 => absurd rfl h2⟩
      · have hjb : j ≠ b := fun e => hc2 (by rw [e])
        rw [hld1, if_neg hjn, if_neg hjb]
        refine ⟨fun hor => ?_, fun _ _ => ⟨rfl, rfl⟩⟩
        rcases hor with e | e
        · exact absurd e hc2
        · exact absurd ⟨e, hjn⟩ hc1

theorem CanShrink_iff (d : HashTableDirectoryPage) :
    d.CanShrink = true ↔ ∀ i, i < d.Size → d.GetLocalDepth i < d.global_depth := by
  unfold CanShrink
  rw [List.all_eq_true]
  constructor
  · intro h i hi
    have := h i (List.mem_range.mpr hi)
    exact of_decide_eq_true this
  · intro h i hi
    exact decide_eq_true (h i (List.mem_range.mp hi))

theorem shrink_get (d : HashTableDirectoryPage) :
    (∀ j, (if d.CanShrink then d.DecrGlobalDepth else d).GetLocalDepth j = d.GetLocalDepth j)
    ∧ (∀ j, (if d.CanShrink then d.DecrGlobalDepth else d).GetBucketPageId j
        = d.GetBucketPageId j)
    ∧ (if d.CanShrink then d.DecrGlobalDepth else d).global_depth
        = if d.CanShrink then d.global_depth - 1 else d.global_depth := by
  by_cases hc : d.CanShrink = true
  · simp only [hc, if_true]
    exact ⟨fun _ => rfl, fun _ => rfl, rfl⟩
  · have hc2 : d.CanShrink = false := by simpa using hc
    rw [hc2]
    exact ⟨fun _ => rfl, fun _ => rfl, rfl⟩

/-- One step of `Merge` when its conditions hold, in a state whose directory has the
shape `DirInv` and whose local depth at the key's slot fits the `u8` field: `Merge`
calls itself on the state with the directory `mergeStepDirectory`; there every
slot that referenced the emptied bucket or the split image's bucket
references the latter with a local depth one lower, the other slots are
unchanged, the global depth is one lower exactly when every slot's local depth
is below it, and when it is not lowered the key's slot references the merged
bucket. -/
theorem Merge_step_facts (hash : KeyType → Nat) (cap : Nat) (fuel : Nat)
    (t : ExtendibleHashTable) (key : KeyType)
    (h : DirInv t.directory t.next_page_id)
    (hempty : HashTableBucketPage.IsEmpty cap (t.bucket (KeyToPageId hash key t.directory))
      = true)
    (hpos : 0 < t.directory.GetLocalDepth (KeyToDirectoryIndex hash key t.directory))
    (hld : t.directory.GetLocalDepth (KeyToDirectoryIndex hash key t.directory)
      = t.directory.GetLocalDepth
          (t.directory.GetSplitImageIndex (KeyToDirectoryIndex hash key t.directory)))
    (hpid : t.directory.GetBucketPageId (KeyToDirectoryIndex hash key t.directory)
      ≠ t.directory.GetBucketPageId
          (t.directory.GetSplitImageIndex (KeyToDirectoryIndex hash key t.directory)))
    (hu8 : t.directory.GetLocalDepth (KeyToDirectoryIndex hash key t.directory) ≤ 255) :
    Merge hash cap (fuel + 1) t key
      = Merge hash cap fuel { t with directory := mergeStepDirectory hash t key } key
    ∧ (∀ j, j < t.directory.Size →
        ((t.directory.GetBucketPageId j
              = t.directory.GetBucketPageId (KeyToDirectoryIndex hash key t.directory)
            ∨ t.directory.GetBucketPageId j
              = t.directory.GetBucketPageId
                  (t.directory.GetSplitImageIndex (KeyToDirectoryIndex hash key t.directory))) →
          (mergeStepDirectory hash t key).GetBucketPageId j
            = t.directory.GetBucketPageId
                (t.directory.GetSplitImageIndex (KeyToDirectoryIndex hash key t.directory))
          ∧ (mergeStepDirectory hash t key).GetLocalDepth j + 1 = t.directory.GetLocalDepth j)
        ∧ (t.directory.GetBucketPageId j
              ≠ t.directory.GetBucketPageId (KeyToDirectoryIndex hash key t.directory) →
            t.directory.GetBucketPageId j
              ≠ t.directory.GetBucketPageId
                  (t.directory.GetSplitImageIndex (KeyToDirectoryIndex hash key t.directory)) →
          (mergeStepDirectory hash t key).GetBucketPageId j = t.directory.GetBucketPageId j
          ∧ (mergeStepDirectory hash t key).GetLocalDepth j = t.directory.GetLocalDepth j))
    ∧ ((mergeStepDirectory hash t key).global_depth
        = if (∀ j, j < t.directory.Size →
              (mergeStepDirectory hash t key).GetLocalDepth j < t.directory.global_depth)
          then t.directory.global_depth - 1 else t.directory.global_depth)
    ∧ 0 < t.directory.global_depth
    ∧ ((mergeStepDirectory hash t key).global_depth = t.directory.global_depth →
        KeyToPageId hash key (mergeStepDirectory hash t key)
          = t.directory.GetBucketPageId
              (t.directory.GetSplitImageIndex (KeyToDirectoryIndex hash key t.directory))) := by
  have hb := KeyToDirectoryIndex_lt hash key t.directory
  have hgd : 0 < t.directory.global_depth := lt_of_lt_of_le hpos (h.depth_le _ hb)
  obtain ⟨m1, m2⟩ := merge_slots t.directory t.next_page_id _ h hb hpos hld hpid
  have hdef : mergeStepDirectory hash t key
      = if (mergeDirLoop (t.directory.GetBucketPageId (KeyToDirectoryIndex hash key t.directory))
            (t.directory.GetSplitImageIndex (KeyToDirectoryIndex hash key t.directory))
            ((t.directory.DecrLocalDepth (KeyToDirectoryIndex hash key t.directory)).DecrLocalDepth
              (t.directory.GetSplitImageIndex (KeyToDirectoryIndex hash key t.directory))).Size 0
            ((t.directory.DecrLocalDepth (KeyToDirectoryIndex hash key t.directory)).DecrLocalDepth
              (t.directory.GetSplitImageIndex
                (KeyToDirectoryIndex hash key t.directory)))).CanShrink
        then (mergeDirLoop
            (t.directory.GetBucketPageId (KeyToDirectoryIndex hash key t.directory))
            (t.directory.GetSplitImageIndex (KeyToDirectoryIndex hash key t.directory))
            ((t.directory.DecrLocalDepth (KeyToDirectoryIndex hash key t.directory)).DecrLocalDepth
              (t.directory.GetSplitImageIndex (KeyToDirectoryIndex hash key t.directory))).Size 0
            ((t.directory.DecrLocalDepth (KeyToDirectoryIndex hash key t.directory)).DecrLocalDepth
              (t.directory.GetSplitImageIndex
                (KeyToDirectoryIndex hash key t.directory)))).DecrGlobalDepth
        else mergeDirLoop
            (t.directory.GetBucketPageId (KeyToDirectoryIndex hash key t.directory))
            (t.directory.GetSplitImageIndex (KeyToDirectoryIndex hash key t.directory))
            ((t.directory.DecrLocalDepth (KeyToDirectoryIndex hash key t.directory)).DecrLocalDepth
              (t.directory.GetSplitImageIndex (KeyToDirectoryIndex hash key t.directory))).Size 0
            ((t.directory.DecrLocalDepth (KeyToDirectoryIndex hash key t.directory)).DecrLocalDepth
              (t.directory.GetSplitImageIndex
                (KeyToDirectoryIndex hash key t.directory))) := rfl
  have hrec : Merge hash cap (fuel + 1) t key
      = Merge hash cap fuel { t with directory := mergeStepDirectory hash t key } key := by
    have hg : (t.directory.global_depth == 0) = false := by
      rw [beq_eq_false_iff_ne]; omega
    rw [Merge]
    simp only [hempty, hg, Bool.not_true, Bool.or_false, Bool.false_eq_true, if_false,
      decide_eq_true hpos, Bool.and_self, if_true]
    rw [if_pos ⟨hld, hpid⟩]
    rfl
  generalize mergeDirLoop (t.directory.GetBucketPageId (KeyToDirectoryIndex hash key t.directory))
    (t.directory.GetSplitImageIndex (KeyToDirectoryIndex hash key t.directory)) _ 0 _ = d2
    at m1 m2 hdef
  obtain ⟨s1, s2, s3⟩ := shrink_get d2
  have hsz2 : d2.Size = t.directory.Size := by rw [Size_eq, Size_eq, m1]
  have hslots : ∀ j, j < t.directory.Size →
      ((t.directory.GetBucketPageId j
            = t.directory.GetBucketPageId (KeyToDirectoryIndex hash key t.directory)
          ∨ t.directory.GetBucketPageId j
            = t.directory.GetBucketPageId
                (t.directory.GetSplitImageIndex (KeyToDirectoryIndex hash key t.directory))) →
        d2.GetBucketPageId j
          = t.directory.GetBucketPageId
              (t.directory.GetSplitImageIndex (KeyToDirectoryIndex hash key t.directory))
        ∧ d2.GetLocalDepth j + 1 = t.directory.GetLocalDepth j) := by
    intro j hj hor
    obtain ⟨e1, e2⟩ := (m2 j hj).1 hor
    refine ⟨e2, ?_⟩
    have hnb : t.directory.GetSplitImageIndex (KeyToDirectoryIndex hash key t.directory)
        < t.directory.Size := GetSplitImageIndex_lt _ _ hb hpos (h.depth_le _ hb)
    have hlj : t.directory.GetLocalDepth j
        = t.directory.GetLocalDepth (KeyToDirectoryIndex hash key t.directory) := by
      rcases hor with e | e
      · exact h.same_depth j _ hj hb e
      · rw [h.same_depth j _ hj hnb e, ← hld]
    rw [e1, hlj]
    omega
  have hcs : d2.CanShrink = true
      ↔ ∀ j, j < t.directory.Size → d2.GetLocalDepth j < t.directory.global_depth := by
    rw [CanShrink_iff, hsz2, m1]
  refine ⟨hrec, fun j hj => ⟨fun hor => ?_, fun h1 h2 => ?_⟩, ?_, hgd, fun he => ?_⟩
  · rw [hdef, s1, s2]
    exact hslots j hj hor
  · rw [hdef, s1, s2]
    obtain ⟨e1, e2⟩ := (m2 j hj).2 h1 h2
    exact ⟨e2, e1⟩
  · rw [hdef, s3, m1]
    simp only [s1]
    by_cases hc : d2.CanShrink = true
    · rw [if_pos hc, if_pos (hcs.mp hc)]
    · rw [if_neg hc, if_neg (fun hall => hc (hcs.mpr hall))]
  · rw [hdef, s3, m1] at he
    have hc : ¬ d2.CanShrink = true := by
      intro hc
      rw [if_pos hc] at he
      omega
    have hc2 : d2.CanShrink = false := by simpa using hc
    rw [hdef, hc2]
    show d2.GetBucketPageId (KeyToDirectoryIndex hash key d2) = _
    have hidx : KeyToDirectoryIndex hash key d2 = KeyToDirectoryIndex hash key t.directory := by
      unfold KeyToDirectoryIndex GetGlobalDepthMask
      rw [m1]
    rw [hidx]
    exact (hslots _ hb (Or.inl rfl)).1

/-- When one of its conditions fails, `Merge` returns the state unchanged. -/
theorem Merge_noop_facts (hash : KeyType → Nat) (cap : Nat) (fuel : Nat)
    (t : ExtendibleHashTable) (key : KeyType)
    (hno : ¬ (HashTableBucketPage.IsEmpty cap (t.bucket (KeyToPageId hash key t.directory)) = true
      ∧ 0 < t.directory.GetLocalDepth (KeyToDirectoryIndex hash key t.directory)
      ∧ t.directory.GetLocalDepth (KeyToDirectoryIndex hash key t.directory)
        = t.directory.GetLocalDepth
            (t.directory.GetSplitImageIndex (KeyToDirectoryIndex hash key t.directory))
      ∧ t.directory.GetBucketPageId (KeyToDirectoryIndex hash key t.directory)
        ≠ t.directory.GetBucketPageId
            (t.directory.GetSplitImageIndex (KeyToDirectoryIndex hash key t.directory)))) :
    Merge hash cap (fuel + 1) t key = some t := by
  rw [Merge]
  dsimp only
  split
  · rfl
  · split
    · rename_i hc2
      split
      · rename_i hc3
        exfalso
        simp only [Bool.and_eq_true, decide_eq_true_eq] at hc2
        exact hno ⟨hc2.1, hc2.2, hc3.1, hc3.2⟩
      · rfl
    · rfl

theorem repeatScenario_reached : Reached idHash 1 repeatScenario := by
  unfold repeatScenario repeatRun
  cases h1 : ExtendibleHashTable.InsertAll idHash 1 8 construct repeatPairsA with
  | none => exact Reached.construct
  | some r1 =>
    have hr1 := Reached_InsertAll 8 repeatPairsA construct r1 Reached.construct h1
    obtain ⟨b1, t1⟩ := r1
    dsimp only
    cases h2 : RemoveAll idHash 1 8 t1 repeatPairsB with
    | none => exact Reached.construct
    | some r2 =>
      have hr2 := Reached_RemoveAll 8 repeatPairsB t1 r2 hr1 h2
      obtain ⟨b2, t2⟩ := r2
      dsimp only
      cases h3 : ExtendibleHashTable.InsertAll idHash 1 8 t2 repeatPairsC with
      | none => exact Reached.construct
      | some r3 =>
        have hr3 := Reached_InsertAll 8 repeatPairsC t2 r3 hr2 h3
        obtain ⟨b3, t3⟩ := r3
        exact hr3

set_option maxRecDepth 100000 in
theorem repeatScenario_facts :
    repeatRun.map Prod.fst
      = some [true, true, true, true, true, true, true, true, true, true, true, true, true]
    ∧ (repeatEmptied.directory.global_depth,
        (List.range 16).map repeatEmptied.directory.GetLocalDepth,
        (List.range 16).map repeatEmptied.directory.GetBucketPageId)
      = (4, [3, 3, 3, 2, 3, 3, 3, 3, 3, 3, 3, 3, 3, 3, 3, 3],
          [12, 14, 12, 3, 12, 14, 12, 14, 12, 13, 12, 13, 7, 14, 7, 14])
    ∧ (HashTableBucketPage.IsEmpty 1 (repeatEmptied.bucket 13),
        KeyToDirectoryIndex idHash 27 repeatEmptied.directory,
        repeatEmptied.directory.GetSplitImageIndex 11)
      = (true, 11, 15)
    ∧ ((mergeStepDirectory idHash repeatEmptied 27).global_depth,
        (List.range 8).map (mergeStepDirectory idHash repeatEmptied 27).GetLocalDepth,
        (List.range 8).map (mergeStepDirectory idHash repeatEmptied 27).GetBucketPageId,
        KeyToPageId idHash 27 (mergeStepDirectory idHash repeatEmptied 27))
      = (3, [3, 2, 3, 2, 3, 2, 3, 2], [12, 14, 12, 3, 12, 14, 12, 14], 3) := by
  refine ⟨by decide, by decide, by decide, by decide⟩

theorem setBucket_directory (t : ExtendibleHashTable) (pid : page_id_t)
    (b : HashTableBucketPage) : (t.setBucket pid b).directory = t.directory := rfl

theorem bucket_setBucket (t : ExtendibleHashTable) (pid q : page_id_t)
    (b : HashTableBucketPage) :
    (t.setBucket pid b).bucket q = if q = pid then b else t.bucket q := by
  unfold bucket setBucket
  simp only [lookup_storeBucket]
  by_cases h : q = pid
  · rw [if_pos h, if_pos h]
  · rw [if_neg h, if_neg h]

theorem DirInv_setBucket (t : ExtendibleHashTable) (pid : page_id_t) (b : HashTableBucketPage)
    (h : DirInv t.directory t.next_page_id) :
    DirInv (t.setBucket pid b).directory (t.setBucket pid b).next_page_id := h

set_option maxRecDepth 100000 in
theorem repeatEmptied_conditions :
    (HashTableBucketPage.Remove 1
        (repeatScenario.bucket (KeyToPageId idHash 27 repeatScenario.directory)) 27 270).1 = true
    ∧ HashTableBucketPage.IsEmpty 1
        (repeatEmptied.bucket (KeyToPageId idHash 27 repeatEmptied.directory)) = true
    ∧ 0 < repeatEmptied.directory.GetLocalDepth
        (KeyToDirectoryIndex idHash 27 repeatEmptied.directory)
    ∧ repeatEmptied.directory.GetLocalDepth (KeyToDirectoryIndex idHash 27 repeatEmptied.directory)
      = repeatEmptied.directory.GetLocalDepth
          (repeatEmptied.directory.GetSplitImageIndex
            (KeyToDirectoryIndex idHash 27 repeatEmptied.directory))
    ∧ repeatEmptied.directory.GetBucketPageId
        (KeyToDirectoryIndex idHash 27 repeatEmptied.directory)
      ≠ repeatEmptied.directory.GetBucketPageId
          (repeatEmptied.directory.GetSplitImageIndex
            (KeyToDirectoryIndex idHash 27 repeatEmptied.directory))
    ∧ repeatEmptied.directory.GetLocalDepth
        (KeyToDirectoryIndex idHash 27 repeatEmptied.directory) ≤ 255 := by
  decide

theorem repeatEmptied_step :
    Remove idHash 1 8 repeatScenario 27 270
      = (Merge idHash 1 8 repeatEmptied 27).map (fun t1 => (true, t1))
    ∧ Merge idHash 1 8 repeatEmptied 27
      = Merge idHash 1 7
          { repeatEmptied with directory := mergeStepDirectory idHash repeatEmptied 27 } 27 := by
  obtain ⟨c0, c1, c2, c3, c4, c5⟩ := repeatEmptied_conditions
  constructor
  · have hc : ((HashTableBucketPage.Remove 1
          (repeatScenario.bucket (KeyToPageId idHash 27 repeatScenario.directory)) 27 270).1
        && HashTableBucketPage.IsEmpty 1
          (HashTableBucketPage.Remove 1
            (repeatScenario.bucket (KeyToPageId idHash 27 repeatScenario.directory)) 27 270).2)
        = true := by
      rw [c0, Bool.true_and]
      have e : HashTableBucketPage.IsEmpty 1
          (repeatEmptied.bucket (KeyToPageId idHash 27 repeatEmptied.directory)) = true := c1
      have hb : repeatEmptied.bucket (KeyToPageId idHash 27 repeatEmptied.directory)
          = (HashTableBucketPage.Remove 1
              (repeatScenario.bucket (KeyToPageId idHash 27 repeatScenario.directory))
              27 270).2 := by
        unfold repeatEmptied
        rw [setBucket_directory, bucket_setBucket, if_pos rfl]
      rw [← hb]
      exact e
    unfold Remove
    simp only [hc, if_true]
    rfl
  · have hd : DirInv repeatEmptied.directory repeatEmptied.next_page_id := by
      unfold repeatEmptied
      exact DirInv_setBucket _ _ _ (Reached.dirInv repeatScenario_reached)
    exact (Merge_step_facts idHash 1 7 repeatEmptied 27 hd c1 c2 c3 c4 c5).1

/-- C33. One step of `Merge`, and a reached state in which the recursive call does not
look at the merged bucket. In general (directory of the shape `DirInv`, local
depth within the `u8` field): when the conditions hold, every slot that
referenced the emptied bucket or the split image's bucket references the
latter with a local depth one lower, the other slots are unchanged, the global
depth is decremented exactly when every slot's local depth is below it, and
`Merge` calls itself with the same key; when a condition fails the state is
returned unchanged. Scenario (bucket capacity 1, hash of a key the key):
thirteen calls return true; `Remove(27, 270)` then empties bucket page 13 of slot
11 and `Merge` joins it with page 14 of the split image 15, at local depth 3 and
global depth 4. No slot has local depth 4, so the directory is halved, and key
27 now maps to slot 3, which references page 3: the recursive call of `Merge`
examines page 3, not the merged page 14. -/
theorem merge_repeats_elsewhere :
    (∀ (hash : KeyType → Nat) (cap fuel : Nat) (t : ExtendibleHashTable) (key : KeyType),
      DirInv t.directory t.next_page_id →
      HashTableBucketPage.IsEmpty cap (t.bucket (KeyToPageId hash key t.directory)) = true →
      0 < t.directory.GetLocalDepth (KeyToDirectoryIndex hash key t.directory) →
      t.directory.GetLocalDepth (KeyToDirectoryIndex hash key t.directory)
        = t.directory.GetLocalDepth
            (t.directory.GetSplitImageIndex (KeyToDirectoryIndex hash key t.directory)) →
      t.directory.GetBucketPageId (KeyToDirectoryIndex hash key t.directory)
        ≠ t.directory.GetBucketPageId
            (t.directory.GetSplitImageIndex (KeyToDirectoryIndex hash key t.directory)) →
      t.directory.GetLocalDepth (KeyToDirectoryIndex hash key t.directory) ≤ 255 →
      Merge hash cap (fuel + 1) t key
            = Merge hash cap fuel { t with directory := mergeStepDirectory hash t key } key
          ∧ (∀ j, j < t.directory.Size →
              ((t.directory.GetBucketPageId j
                    = t.directory.GetBucketPageId (KeyToDirectoryIndex hash key t.directory)
                  ∨ t.directory.GetBucketPageId j
                    = t.directory.GetBucketPageId
                        (t.directory.GetSplitImageIndex (KeyToDirectoryIndex hash key t.directory))) →
                (mergeStepDirectory hash t key).GetBucketPageId j
                  = t.directory.GetBucketPageId
                      (t.directory.GetSplitImageIndex (KeyToDirectoryIndex hash key t.directory))
                ∧ (mergeStepDirectory hash t key).GetLocalDepth j + 1 = t.directory.GetLocalDepth j)
              ∧ (t.directory.GetBucketPageId j
                    ≠ t.directory.GetBucketPageId (KeyToDirectoryIndex hash key t.directory) →
                  t.directory.GetBucketPageId j
                    ≠ t.directory.GetBucketPageId
                        (t.directory.GetSplitImageIndex (KeyToDirectoryIndex hash key t.directory)) →
                (mergeStepDirectory hash t key).GetBucketPageId j = t.directory.GetBucketPageId j
                ∧ (mergeStepDirectory hash t key).GetLocalDepth j = t.directory.GetLocalDepth j))
          ∧ ((mergeStepDirectory hash t key).global_depth
              = if (∀ j, j < t.directory.Size →
                    (mergeStepDirectory hash t key).GetLocalDepth j < t.directory.global_depth)
                then t.directory.global_depth - 1 else t.directory.global_depth)
          ∧ 0 < t.directory.global_depth
          ∧ ((mergeStepDirectory hash t key).global_depth = t.directory.global_depth →
              KeyToPageId hash key (mergeStepDirectory hash t key)
                = t.directory.GetBucketPageId
                    (t.directory.GetSplitImageIndex (KeyToDirectoryIndex hash key t.directory))))
    ∧ (∀ (hash : KeyType → Nat) (cap fuel : Nat) (t : ExtendibleHashTable) (key : KeyType),
      ¬ (HashTableBucketPage.IsEmpty cap (t.bucket (KeyToPageId hash key t.directory)) = true
        ∧ 0 < t.directory.GetLocalDepth (KeyToDirectoryIndex hash key t.directory)
        ∧ t.directory.GetLocalDepth (KeyToDirectoryIndex hash key t.directory)
          = t.directory.GetLocalDepth
              (t.directory.GetSplitImageIndex (KeyToDirectoryIndex hash key t.directory))
        ∧ t.directory.GetBucketPageId (KeyToDirectoryIndex hash key t.directory)
          ≠ t.directory.GetBucketPageId
              (t.directory.GetSplitImageIndex (KeyToDirectoryIndex hash key t.directory))) →
      Merge hash cap (fuel + 1) t key = some t)
    ∧ repeatRun.map Prod.fst
      = some [true, true, true, true, true, true, true, true, true, true, true, true, true]
    ∧ Reached idHash 1 repeatScenario
    ∧ Remove idHash 1 8 repeatScenario 27 270
      = (Merge idHash 1 8 repeatEmptied 27).map (fun t1 => (true, t1))
    ∧ (repeatEmptied.directory.global_depth,
        (List.range 16).map repeatEmptied.directory.GetLocalDepth,
        (List.range 16).map repeatEmptied.directory.GetBucketPageId)
      = (4, [3, 3, 3, 2, 3, 3, 3, 3, 3, 3, 3, 3, 3, 3, 3, 3],
          [12, 14, 12, 3, 12, 14, 12, 14, 12, 13, 12, 13, 7, 14, 7, 14])
    ∧ (HashTableBucketPage.IsEmpty 1 (repeatEmptied.bucket 13),
        KeyToDirectoryIndex idHash 27 repeatEmptied.directory,
        repeatEmptied.directory.GetSplitImageIndex 11)
      = (true, 11, 15)
    ∧ Merge idHash 1 8 repeatEmptied 27
      = Merge idHash 1 7
          { repeatEmptied with directory := mergeStepDirectory idHash repeatEmptied 27 } 27
    ∧ ((mergeStepDirectory idHash repeatEmptied 27).global_depth,
        (List.range 8).map (mergeStepDirectory idHash repeatEmptied 27).GetLocalDepth,
        (List.range 8).map (mergeStepDirectory idHash repeatEmptied 27).GetBucketPageId,
        KeyToPageId idHash 27 (mergeStepDirectory idHash repeatEmptied 27))
      = (3, [3, 2, 3, 2, 3, 2, 3, 2], [12, 14, 12, 3, 12, 14, 12, 14], 3) := by
  obtain ⟨f1, f2, f3, f4⟩ := repeatScenario_facts
  exact ⟨fun hash cap fuel t key h1 h2 h3 h4 h5 h6 =>
      Merge_step_facts hash cap fuel t key h1 h2 h3 h4 h5 h6,
    fun hash cap fuel t key hno => Merge_noop_facts hash cap fuel t key hno,
    f1, repeatScenario_reached, repeatEmptied_step.1, f2, f3, repeatEmptied_step.2, f4⟩

end ExtendibleHashTable

/-! ## B+ tree: shape of the tree after insertions -/

namespace BPlusTreeLeafPage

/-- The size that the leaf `Insert` returns when the key is not taken for a duplicate. -/
theorem Insert_size (p : BPlusTreePage) (key : KeyType) (value : ValueType)
    (h0 : 0 ≤ p.size)
    (hnew : comparator key (GetItem p (KeyIndex p key)).1 ≠ 0) :
    (Insert p key value).1 = p.size + 1 := by
  unfold Insert
  by_cases h1 : KeyIndex p key = -1
  · simp only [h1, if_true]
    rw [KeyIndex_neg_one p key h0 h1]
    rfl
  · simp only [h1, if_false]
    have h2 : ¬ comparator key (KeyAt p (KeyIndex p key)) = 0 := hnew
    simp only [h2, if_false]

/-- Sizes and headers after the leaf `MoveHalfTo`. -/
theorem MoveHalfTo_sizes (p r : BPlusTreePage) (hp : 0 ≤ p.size) (hr : 0 ≤ r.size) :
    (MoveHalfTo p r).1.size = p.size - p.size / 2
    ∧ BPlusTreePage.sameHeader p (MoveHalfTo p r).1
    ∧ (MoveHalfTo p r).2.size = r.size + p.size / 2
    ∧ BPlusTreePage.sameHeader r (MoveHalfTo p r).2 := by
  have hd : p.size.tdiv 2 = p.size / 2 := Int.tdiv_eq_ediv hp (by decide)
  obtain ⟨a1, _, _, a4⟩ := MoveHalfToLoop_spec p
    (p.size - (p.size - p.size.tdiv 2)).toNat (p.size - p.size.tdiv 2) r hr
  refine ⟨?_, ⟨rfl, rfl, rfl, rfl, rfl, rfl⟩, ?_, a4⟩
  · show p.size - p.size.tdiv 2 = _
    rw [hd]
  · show (MoveHalfToLoop p _ _ r).size = _
    rw [a1, hd]
    have : 0 ≤ p.size / 2 := by omega
    omega

end BPlusTreeLeafPage

namespace BPlusTreeInternalPage

/-- The loop of `ValueIndex` returns the first slot that holds the value. -/
theorem ValueIndexLoop_first (p : BPlusTreePage) (value : ValueType) :
    ∀ (n : Nat) (i r : Int), i ≤ r → r < i + n → (p.slot r).2 = value →
      (∀ j, i ≤ j → j < r → (p.slot j).2 ≠ value) →
      ValueIndexLoop p value n i = r := by
  intro n
  induction n with
  | zero => intro i r h1 h2 _ _; omega
  | succ n ih =>
    intro i r h1 h2 h3 h4
    rw [ValueIndexLoop]
    by_cases hc : (p.slot i).2 = value
    · rw [if_pos hc]
      by_cases hir : i = r
      · exact hir
      · exact absurd hc (h4 i (le_refl _) (by omega))
    · rw [if_neg hc]
      have hir : i ≠ r := fun e => hc (by rw [e]; exact h3)
      exact ih (i + 1) r (by omega) (by push_cast at h2; omega) h3
        (fun j hj1 hj2 => h4 j (by omega) hj2)

/-- On a page whose child pointers are pairwise different, `ValueIndex` of a child is
its slot. -/
theorem ValueIndex_child (p : BPlusTreePage) (r : Int) (h0 : 0 ≤ r) (hr : r < p.size)
    (hinj : ∀ i j, 0 ≤ i → i < p.size → 0 ≤ j → j < p.size →
      (p.slot i).2 = (p.slot j).2 → i = j) :
    ValueIndex p (p.slot r).2 = r := by
  unfold ValueIndex
  refine ValueIndexLoop_first p _ _ 0 r h0 ?_ rfl ?_
  · have : ((p.size + 1).toNat : Int) = p.size + 1 := Int.toNat_of_nonneg (by omega)
    omega
  · intro j hj1 hj2 he
    have := hinj j r hj1 (by omega) h0 hr he
    omega

/-- The slots and the header after `InsertNodeAfter`, when the old value sits in slot `r`. -/
theorem InsertNodeAfter_slots (p : BPlusTreePage) (old_value : ValueType) (new_key : KeyType)
    (new_value : ValueType) (r : Int) (h0 : 0 ≤ r) (hr : r < p.size)
    (hidx : ValueIndex p old_value = r) :
    (InsertNodeAfter p old_value new_key new_value).1 = p.size + 1
    ∧ (InsertNodeAfter p old_value new_key new_value).2.size = p.size + 1
    ∧ BPlusTreePage.sameHeader p (InsertNodeAfter p old_value new_key new_value).2
    ∧ ∀ j, (InsertNodeAfter p old_value new_key new_value).2.slot j
        = if j = r + 1 then (new_key, new_value)
          else if r + 1 < j ∧ j ≤ p.size then p.slot (j - 1) else p.slot j := by
  unfold InsertNodeAfter
  rw [hidx]
  obtain ⟨⟨a1, a2, a3, a4, a5, a6⟩, a7⟩ :=
    BPlusTreePage.sameHeader_shiftUp (p.size - (r + 1)).toNat p.size p
  obtain ⟨⟨b1, b2, b3, b4, b5, b6⟩, b7⟩ := BPlusTreePage.sameHeader_setSlot
    (BPlusTreePage.shiftUp (p.size - (r + 1)).toNat p.size p) (r + 1) (new_key, new_value)
  have hn : ((p.size - (r + 1)).toNat : Int) = p.size - (r + 1) :=
    Int.toNat_of_nonneg (by omega)
  refine ⟨rfl, ?_, ⟨b1.trans a1, b2.trans a2, b3.trans a3, b4.trans a4, b5.trans a5,
    b6.trans a6⟩, fun j => ?_⟩
  · show (BPlusTreePage.setSlot _ _ _).size + 1 = p.size + 1
    rw [b7, a7]
  · show (BPlusTreePage.setSlot _ _ _).slot j = _
    rw [BPlusTreePage.slot_setSlot _ _ _ _ (by omega),
      BPlusTreePage.slot_shiftUp _ _ _ (by omega), hn]
    by_cases hj : j = r + 1
    · rw [if_pos hj, if_pos hj]
    · rw [if_neg hj, if_neg hj]
      refine if_congr ?_ rfl rfl
      constructor
      · intro h; exact ⟨by omega, h.2⟩
      · intro h; exact ⟨by omega, h.2⟩

/-- The function `Lookup` returns the value of one of the slots `0 .. size - 1` of a page
with at least one child, whatever its keys. -/
theorem LookupLoop_child (p : BPlusTreePage) (key : KeyType) :
    ∀ (n : Nat) (i : Int), 1 ≤ i → i < p.size → p.size - i ≤ n →
      ∃ m, 0 ≤ m ∧ m < p.size ∧ LookupLoop p key n i = (p.slot m).2 := by
  intro n
  induction n with
  | zero => intro i h1 h2 h3; omega
  | succ n ih =>
    intro i h1 h2 h3
    rw [LookupLoop]
    by_cases hc : comparator (p.slot i).1 key > 0
    · rw [if_pos hc]
      exact ⟨i - 1, by omega, by omega, rfl⟩
    · rw [if_neg hc]
      by_cases hl : i < p.size - 1
      · rw [if_pos hl]
        by_cases hn : comparator (p.slot (i + 1)).1 key > 0
        · rw [if_pos hn]
          exact ⟨i, by omega, h2, rfl⟩
        · rw [if_neg hn]
          exact ih (i + 1) (by omega) (by omega) (by push_cast at h3; omega)
      · rw [if_neg hl]
        exact ⟨i, by omega, h2, rfl⟩

theorem Lookup_child (p : BPlusTreePage) (key : KeyType) (hsize : 1 ≤ p.size) :
    ∃ m, 0 ≤ m ∧ m < p.size ∧ Lookup p key = (p.slot m).2 := by
  unfold Lookup
  by_cases h1 : p.size = 1
  · rw [if_pos h1]
    exact ⟨0, le_refl _, by omega, rfl⟩
  · rw [if_neg h1]
    refine LookupLoop_child p key _ 1 (le_refl _) (by omega) ?_
    have : ((p.size - 1).toNat : Int) = p.size - 1 := Int.toNat_of_nonneg (by omega)
    omega

/-- The slots and the header after `PopulateNewRoot`. -/
theorem PopulateNewRoot_facts (p : BPlusTreePage) (old_value : ValueType) (new_key : KeyType)
    (new_value : ValueType) :
    (PopulateNewRoot p old_value new_key new_value).size = 2
    ∧ ((PopulateNewRoot p old_value new_key new_value).slot 0).2 = old_value
    ∧ ((PopulateNewRoot p old_value new_key new_value).slot 1).2 = new_value
    ∧ (PopulateNewRoot p old_value new_key new_value).page_type = p.page_type
    ∧ (PopulateNewRoot p old_value new_key new_value).parent_page_id = p.parent_page_id
    ∧ (PopulateNewRoot p old_value new_key new_value).page_id = p.page_id := by
  unfold PopulateNewRoot
  dsimp only
  obtain ⟨⟨a1, a2, a3, a4, a5, a6⟩, _⟩ :=
    BPlusTreePage.sameHeader_setSlot p 1 (new_key, (p.slot 1).2)
  generalize p.setSlot 1 (new_key, (p.slot 1).2) = p1 at a1 a2 a3 a4 a5 a6 ⊢
  obtain ⟨⟨b1, b2, b3, b4, b5, b6⟩, _⟩ :=
    BPlusTreePage.sameHeader_setSlot p1 0 ((p1.slot 0).1, old_value)
  have s0 : ∀ j, (p1.setSlot 0 ((p1.slot 0).1, old_value)).slot j
      = if j = 0 then ((p1.slot 0).1, old_value) else p1.slot j :=
    fun j => BPlusTreePage.slot_setSlot p1 0 j _ (le_refl _)
  generalize p1.setSlot 0 ((p1.slot 0).1, old_value) = p2 at b1 b2 b3 b4 b5 b6 s0 ⊢
  obtain ⟨⟨c1, c2, c3, c4, c5, c6⟩, _⟩ :=
    BPlusTreePage.sameHeader_setSlot p2 1 ((p2.slot 1).1, new_value)
  have s1 : ∀ j, (p2.setSlot 1 ((p2.slot 1).1, new_value)).slot j
      = if j = 1 then ((p2.slot 1).1, new_value) else p2.slot j :=
    fun j => BPlusTreePage.slot_setSlot p2 1 j _ (by decide)
  generalize p2.setSlot 1 ((p2.slot 1).1, new_value) = p3 at c1 c2 c3 c4 c5 c6 s1 ⊢
  refine ⟨rfl, ?_, ?_, ?_, ?_, ?_⟩
  · show (p3.slot 0).2 = _
    rw [s1, if_neg (by decide), s0, if_pos rfl]
  · show (p3.slot 1).2 = _
    rw [s1, if_pos rfl]
  · show p3.page_type = _
    rw [c1, b1, a1]
  · show p3.parent_page_id = _
    rw [c3, b3, a3]
  · show p3.page_id = _
    rw [c4, b4, a4]

end BPlusTreeInternalPage
namespace BPlusTree

theorem sameHeader_trans {a b c : BPlusTreePage} (h1 : BPlusTreePage.sameHeader a b)
    (h2 : BPlusTreePage.sameHeader b c) : BPlusTreePage.sameHeader a c := by
  unfold BPlusTreePage.sameHeader at h1 h2 ⊢
  refine ⟨h2.1.trans h1.1, h2.2.1.trans h1.2.1, h2.2.2.1.trans h1.2.2.1, ?_, ?_, ?_⟩
  · exact h2.2.2.2.1.trans h1.2.2.2.1
  · exact h2.2.2.2.2.1.trans h1.2.2.2.2.1
  · exact h2.2.2.2.2.2.trans h1.2.2.2.2.2

/-- The loop of the internal `MoveHalfTo`: the recipient gains the slots `i .. i + n - 1` of
the page `node` behind its own, every page these slots point to gets the
page id of the recipient as parent pointer, and nothing else changes. -/
theorem InternalMoveHalfToLoop_pages (node recipient : page_id_t) (hnr : node ≠ recipient) :
    ∀ (n : Nat) (i : Int) (t : BPlusTree), 0 ≤ (t.page recipient).size →
      (∀ j, i ≤ j → j < i + n →
        ((t.page node).slot j).2 ≠ recipient ∧ ((t.page node).slot j).2 ≠ node) →
      (InternalMoveHalfToLoop node recipient n i t).page node = t.page node
      ∧ ((InternalMoveHalfToLoop node recipient n i t).page recipient).size
          = (t.page recipient).size + n
      ∧ BPlusTreePage.sameHeader (t.page recipient)
          ((InternalMoveHalfToLoop node recipient n i t).page recipient)
      ∧ (∀ j, 0 ≤ j → j < (n : Int) →
          ((InternalMoveHalfToLoop node recipient n i t).page recipient).slot
              ((t.page recipient).size + j)
            = (t.page node).slot (i + j))
      ∧ (∀ j, j < (t.page recipient).size →
          ((InternalMoveHalfToLoop node recipient n i t).page recipient).slot j
            = (t.page recipient).slot j)
      ∧ (∀ j, i ≤ j → j < i + n →
          (InternalMoveHalfToLoop node recipient n i t).page ((t.page node).slot j).2
            = { t.page ((t.page node).slot j).2 with
                parent_page_id := (t.page recipient).page_id })
      ∧ (∀ y, y ≠ recipient → (∀ j, i ≤ j → j < i + n → ((t.page node).slot j).2 ≠ y) →
          (InternalMoveHalfToLoop node recipient n i t).page y = t.page y)
      ∧ (InternalMoveHalfToLoop node recipient n i t).root_page_id = t.root_page_id
      ∧ (InternalMoveHalfToLoop node recipient n i t).next_page_id = t.next_page_id
      ∧ (InternalMoveHalfToLoop node recipient n i t).leaf_max_size = t.leaf_max_size
      ∧ (InternalMoveHalfToLoop node recipient n i t).internal_max_size = t.internal_max_size
      ∧ (InternalMoveHalfToLoop node recipient n i t).oob = t.oob := by
  intro n
  induction n with
  | zero =>
    intro i t h0 _
    rw [InternalMoveHalfToLoop]
    refine ⟨rfl, by simp, ⟨rfl, rfl, rfl, rfl, rfl, rfl⟩, fun j h1 h2 => ?_, fun _ _ => rfl,
      fun j h1 h2 => ?_, fun _ _ _ => rfl, rfl, rfl, rfl, rfl, rfl⟩
    · simp at h2; omega
    · simp at h2; omega
  | succ n ih =>
    intro i t h0 hch
    rw [InternalMoveHalfToLoop]
    obtain ⟨hc1, hc2⟩ := hch i (le_refl _) (by push_cast; omega)
    obtain ⟨a1, a2, a3, a4, a5, a6, a7, a8, a9, a10, a11⟩ :=
      InternalCopyLastFrom_pages t recipient ((t.page node).slot i) h0 hc1
    have hnode : (InternalCopyLastFrom t recipient ((t.page node).slot i)).page node
        = t.page node := a6 node hnr (fun e => hc2 e.symm)
    generalize InternalCopyLastFrom t recipient ((t.page node).slot i) = t1
      at a1 a2 a3 a4 a5 a6 a7 a8 a9 a10 a11 hnode ⊢
    have hch1 : ∀ j, i + 1 ≤ j → j < i + 1 + n →
        ((t1.page node).slot j).2 ≠ recipient ∧ ((t1.page node).slot j).2 ≠ node := by
      intro j h1 h2
      rw [hnode]
      exact hch j (by omega) (by push_cast; omega)
    obtain ⟨b1, b2, b3, b4, b5, b6, b7, b8, b9, b10, b11, b12⟩ :=
      ih (i + 1) t1 (by rw [a1]; omega) hch1
    generalize InternalMoveHalfToLoop node recipient n (i + 1) t1 = t2
      at b1 b2 b3 b4 b5 b6 b7 b8 b9 b10 b11 b12 ⊢
    have hrid : (t1.page recipient).page_id = (t.page recipient).page_id := a4.2.2.2.1
    refine ⟨b1.trans hnode, ?_, sameHeader_trans a4 b3, ?_, ?_, ?_, ?_, b8.trans a7,
      b9.trans a8, b10.trans a9, b11.trans a10, b12.trans a11⟩
    · rw [b2, a1]; push_cast; omega
    · intro j h1 h2
      by_cases hj : j = 0
      · subst hj
        rw [Int.add_zero, Int.add_zero, b5 _ (by rw [a1]; omega), a2]
      · have e := b4 (j - 1) (by omega) (by push_cast at h2; omega)
        rw [a1, hnode] at e
        have e1 : (t.page recipient).size + 1 + (j - 1) = (t.page recipient).size + j := by omega
        have e2 : i + 1 + (j - 1) = i + j := by omega
        rw [e1, e2] at e
        exact e
    · intro j hj
      rw [b5 j (by rw [a1]; omega), a3 j (by omega)]
    · intro j h1 h2
      by_cases hlater : ∃ j2, i + 1 ≤ j2 ∧ j2 < i + 1 + n
          ∧ ((t.page node).slot j2).2 = ((t.page node).slot j).2
      · obtain ⟨j2, k1, k2, k3⟩ := hlater
        have e := b6 j2 k1 k2
        rw [hnode, k3, hrid] at e
        rw [e]
        by_cases hc0 : ((t.page node).slot j).2 = ((t.page node).slot i).2
        · rw [hc0, a5]
        · rw [a6 _ (hch j h1 h2).1 hc0]
      · have hno : ∀ j2, i + 1 ≤ j2 → j2 < i + 1 + n →
            ((t1.page node).slot j2).2 ≠ ((t.page node).slot j).2 := by
          intro j2 k1 k2 k3
          rw [hnode] at k3
          exact hlater ⟨j2, k1, k2, k3⟩
        have e := b7 _ (hch j h1 h2).1 hno
        rw [e]
        have hji : j = i := by
          by_contra hne
          exact hlater ⟨j, by omega, by push_cast at h2; omega, rfl⟩
        rw [hji, a5]
    · intro y hy hno
      have hno1 : ∀ j, i + 1 ≤ j → j < i + 1 + n → ((t1.page node).slot j).2 ≠ y := by
        intro j k1 k2
        rw [hnode]
        exact hno j (by omega) (by push_cast; omega)
      rw [b7 y hy hno1]
      exact a6 y hy (fun e => hno i (le_refl _) (by push_cast; omega) e.symm)

/-- The internal `MoveHalfTo` to a recipient without entries: the page `node` keeps its
first `size - size / 2` slots, the recipient gets the others, and every page
these point to gets the page id of the recipient as parent pointer. -/
theorem InternalMoveHalfTo_pages (t : BPlusTree) (node recipient : page_id_t)
    (hnr : node ≠ recipient) (hsz : 0 ≤ (t.page node).size)
    (hr0 : (t.page recipient).size = 0)
    (hch : ∀ j, 0 ≤ j → j < (t.page node).size →
      ((t.page node).slot j).2 ≠ recipient ∧ ((t.page node).slot j).2 ≠ node) :
    ((InternalMoveHalfTo t node recipient).page node).size
        = (t.page node).size - (t.page node).size / 2
    ∧ BPlusTreePage.sameHeader (t.page node) ((InternalMoveHalfTo t node recipient).page node)
    ∧ (∀ j, ((InternalMoveHalfTo t node recipient).page node).slot j = (t.page node).slot j)
    ∧ ((InternalMoveHalfTo t node recipient).page recipient).size = (t.page node).size / 2
    ∧ BPlusTreePage.sameHeader (t.page recipient)
        ((InternalMoveHalfTo t node recipient).page recipient)
    ∧ (∀ j, 0 ≤ j → j < (t.page node).size / 2 →
        ((InternalMoveHalfTo t node recipient).page recipient).slot j
          = (t.page node).slot ((t.page node).size - (t.page node).size / 2 + j))
    ∧ (∀ j, (t.page node).size - (t.page node).size / 2 ≤ j → j < (t.page node).size →
        (InternalMoveHalfTo t node recipient).page ((t.page node).slot j).2
          = { t.page ((t.page node).slot j).2 with
              parent_page_id := (t.page recipient).page_id })
    ∧ (∀ y, y ≠ recipient → y ≠ node →
        (∀ j, (t.page node).size - (t.page node).size / 2 ≤ j → j < (t.page node).size →
          ((t.page node).slot j).2 ≠ y) →
        (InternalMoveHalfTo t node recipient).page y = t.page y)
    ∧ (InternalMoveHalfTo t node recipient).root_page_id = t.root_page_id
    ∧ (InternalMoveHalfTo t node recipient).next_page_id = t.next_page_id
    ∧ (InternalMoveHalfTo t node recipient).leaf_max_size = t.leaf_max_size
    ∧ (InternalMoveHalfTo t node recipient).internal_max_size = t.internal_max_size := by
  have hd : (t.page node).size.tdiv 2 = (t.page node).size / 2 :=
    Int.tdiv_eq_ediv hsz (by decide)
  have hhalf : 0 ≤ (t.page node).size / 2 := by omega
  have hn : (((t.page node).size - ((t.page node).size - (t.page node).size / 2)).toNat : Int)
      = (t.page node).size / 2 := by
    rw [Int.toNat_of_nonneg (by omega)]; omega
  unfold InternalMoveHalfTo
  dsimp only
  rw [hd]
  obtain ⟨b1, b2, b3, b4, b5, b6, b7, b8, b9, b10, b11, _⟩ :=
    InternalMoveHalfToLoop_pages node recipient hnr
      ((t.page node).size - ((t.page node).size - (t.page node).size / 2)).toNat
      ((t.page node).size - (t.page node).size / 2) t (by rw [hr0])
      (fun j h1 h2 => hch j (by omega) (by rw [hn] at h2; omega))
  rw [hn] at b2 b4 b6 b7
  rw [hr0] at b2 b4
  generalize InternalMoveHalfToLoop node recipient _ _ t = t1
    at b1 b2 b3 b4 b5 b6 b7 b8 b9 b10 b11 ⊢
  have hrn : ¬ recipient = node := fun e => hnr e.symm
  simp only [page_setTreePage, if_true, if_neg hrn]
  refine ⟨?_, ?_, ?_, ?_, b3, ?_, ?_, ?_, b8, b9, b10, b11⟩
  · rw [b1]; rfl
  · rw [b1]; exact ⟨rfl, rfl, rfl, rfl, rfl, rfl⟩
  · intro j; rw [b1]; rfl
  · rw [b2]; omega
  · intro j h1 h2
    have e := b4 j h1 h2
    rw [Int.zero_add] at e
    exact e
  · intro j h1 h2
    have hne : ¬ ((t.page node).slot j).2 = node := (hch j (by omega) h2).2
    rw [if_neg hne]
    exact b6 j h1 (by omega)
  · intro y hy1 hy2 hno
    rw [if_neg hy2]
    exact b7 y hy1 (fun j h1 h2 => hno j h1 (by omega))

/-- The page that `Split` creates, and the pages it leaves alone. -/
theorem Split_pages (leafTemplate : Bool) (t : BPlusTree) (node : page_id_t)
    (hfresh : node ≠ t.next_page_id) :
    (Split leafTemplate t node).1 = t.next_page_id
    ∧ ((Split leafTemplate t node).2.page t.next_page_id).page_type
        = (if leafTemplate then IndexPageType.LEAF_PAGE else IndexPageType.INTERNAL_PAGE)
    ∧ ((Split leafTemplate t node).2.page t.next_page_id).size = 0
    ∧ ((Split leafTemplate t node).2.page t.next_page_id).parent_page_id
        = (t.page node).parent_page_id
    ∧ ((Split leafTemplate t node).2.page t.next_page_id).page_id = t.next_page_id
    ∧ (∀ y, y ≠ t.next_page_id → (Split leafTemplate t node).2.page y = t.page y)
    ∧ (Split leafTemplate t node).2.next_page_id = t.next_page_id + 1
    ∧ (Split leafTemplate t node).2.root_page_id = t.root_page_id
    ∧ (Split leafTemplate t node).2.leaf_max_size = t.leaf_max_size
    ∧ (Split leafTemplate t node).2.internal_max_size = t.internal_max_size := by
  unfold Split
  dsimp only
  have hn : (NewPage t).1 = t.next_page_id := rfl
  have hnode : (NewPage t).2.page node = t.page node := by
    rw [page_NewPage, if_neg hfresh]
  rw [hn, hnode]
  simp only [page_setTreePage, if_true]
  refine ⟨trivial, ?_, ?_, ?_, ?_, ?_, rfl, rfl, rfl, rfl⟩
  · cases leafTemplate <;> rfl
  · cases leafTemplate <;> rfl
  · cases leafTemplate <;> rfl
  · cases leafTemplate <;> rfl
  · intro y hy
    rw [if_neg hy, page_NewPage, if_neg hy]

end BPlusTree
namespace BPlusTree

theorem IsLeafPage_iff (p : BPlusTreePage) :
    p.IsLeafPage = true ↔ p.page_type = IndexPageType.LEAF_PAGE := by
  unfold BPlusTreePage.IsLeafPage
  exact beq_iff_eq

theorem IsRootPage_iff (p : BPlusTreePage) :
    p.IsRootPage = true ↔ p.parent_page_id = INVALID_PAGE_ID := by
  unfold BPlusTreePage.IsRootPage
  exact beq_iff_eq

/-- A change of the tree that keeps the page ids handed out, the root, the type, parent
pointer and page id of every page, and every internal page as it is, keeps the
shape of the pages. -/
theorem Core_frame (t t1 : BPlusTree) (pend : Option page_id_t) (hc : Core t pend)
    (hnext : t1.next_page_id = t.next_page_id) (hroot : t1.root_page_id = t.root_page_id)
    (hdr : ∀ q, IsTreePage t q →
      (t1.page q).page_type = (t.page q).page_type
      ∧ (t1.page q).parent_page_id = (t.page q).parent_page_id
      ∧ (t1.page q).page_id = (t.page q).page_id)
    (hint : ∀ q, IsTreePage t q → (t.page q).page_type = IndexPageType.INTERNAL_PAGE →
      t1.page q = t.page q)
    (hleaf : ∀ q, IsTreePage t q → (t.page q).page_type = IndexPageType.LEAF_PAGE →
      0 ≤ (t1.page q).size) :
    Core t1 pend := by
  have htree : ∀ q, IsTreePage t1 q ↔ IsTreePage t q := by
    intro q; unfold IsTreePage; rw [hnext]
  have hchild : ∀ P c, IsTreePage t P → (t.page P).page_type = IndexPageType.INTERNAL_PAGE →
      (IsChild t1 P c ↔ IsChild t P c) := by
    intro P c hP hty
    unfold IsChild
    rw [hint P hP hty]
  refine ⟨?_, ?_, ?_, ?_, ?_, ?_, ?_, ?_, ?_⟩
  · intro pid hp
    have hp := (htree pid).mp hp
    rw [(hdr pid hp).2.2]; exact hc.page_id_eq pid hp
  · intro pid hp
    have hp := (htree pid).mp hp
    rw [(hdr pid hp).1]; exact hc.typed pid hp
  · intro pid hp
    have hp := (htree pid).mp hp
    rw [(hdr pid hp).2.1]; exact hc.no_self pid hp
  · intro pid hp hpend hpar
    have hp := (htree pid).mp hp
    rw [(hdr pid hp).2.1] at hpar
    rw [hroot]; exact hc.root_unique pid hp hpend hpar
  · intro pid hp hpend hpar
    have hp := (htree pid).mp hp
    rw [(hdr pid hp).2.1] at hpar ⊢
    obtain ⟨a1, a2, a3⟩ := hc.parent_of pid hp hpend hpar
    exact ⟨(htree _).mpr a1, by rw [(hdr _ a1).1]; exact a2, (hchild _ _ a1 a2).mpr a3⟩
  · intro pid hp hty i hi1 hi2
    have hp := (htree pid).mp hp
    rw [(hdr pid hp).1] at hty
    rw [hint pid hp hty] at hi2 ⊢
    obtain ⟨a1, a2, a3⟩ := hc.child_of pid hp hty i hi1 hi2
    exact ⟨(htree _).mpr a1, by rw [(hdr _ a1).2.1]; exact a2, a3⟩
  · intro pid hp hty i j hi1 hi2 hj1 hj2 he
    have hp := (htree pid).mp hp
    rw [(hdr pid hp).1] at hty
    rw [hint pid hp hty] at hi2 hj2 he
    exact hc.child_inj pid hp hty i j hi1 hi2 hj1 hj2 he
  · intro pid hp hty
    have hp := (htree pid).mp hp
    rw [(hdr pid hp).1] at hty
    exact hleaf pid hp hty
  · intro pid hp hty
    have hp := (htree pid).mp hp
    rw [(hdr pid hp).1] at hty
    rw [hint pid hp hty]
    exact hc.internal_size pid hp hty

/-- From a page of the tree, the loop of `FindLeafPage` ends on a page of the tree. -/
theorem FindLeafPageLoop_tree (t : BPlusTree) (hc : Core t none) (key : KeyType)
    (leftMost : Bool) :
    ∀ (n : Nat) (pid leaf : page_id_t), IsTreePage t pid →
      FindLeafPageLoop t key leftMost n pid = some leaf → IsTreePage t leaf := by
  intro n
  induction n with
  | zero => intro pid leaf _ h; rw [FindLeafPageLoop] at h; cases h
  | succ n ih =>
    intro pid leaf hp h
    rw [FindLeafPageLoop] at h
    by_cases hl : (t.page pid).IsLeafPage = true
    · rw [if_pos hl] at h
      cases h
      exact hp
    · rw [if_neg hl] at h
      have hty : (t.page pid).page_type = IndexPageType.INTERNAL_PAGE := by
        rcases hc.typed pid hp with e | e
        · exact absurd ((IsLeafPage_iff _).mpr e) hl
        · exact e
      have hsz := hc.internal_size pid hp hty
      refine ih _ leaf ?_ h
      cases leftMost with
      | true =>
        exact (hc.child_of pid hp hty 0 (le_refl _) (by omega)).1
      | false =>
        obtain ⟨m, m1, m2, m3⟩ := BPlusTreeInternalPage.Lookup_child (t.page pid) key hsz
        simp only [Bool.false_eq_true, if_false]
        rw [m3]
        exact (hc.child_of pid hp hty m m1 m2).1

/-- The leaf that `FindLeafPage` returns on a tree with a root is a leaf page of the
tree. -/
theorem FindLeafPage_tree (t : BPlusTree) (hw : WF t) (fuel : Nat) (key : KeyType)
    (leftMost : Bool) (leaf : page_id_t)
    (h : FindLeafPage fuel t key leftMost = some (some leaf)) :
    IsTreePage t leaf ∧ (t.page leaf).page_type = IndexPageType.LEAF_PAGE
    ∧ t.root_page_id ≠ INVALID_PAGE_ID := by
  unfold FindLeafPage at h
  by_cases hr : t.root_page_id = INVALID_PAGE_ID
  · rw [if_pos hr] at h; cases h
  · rw [if_neg hr] at h
    cases hf : FindLeafPageLoop t key leftMost fuel t.root_page_id with
    | none => rw [hf] at h; cases h
    | some l =>
      rw [hf] at h
      have e : l = leaf := by
        simp only [Option.map] at h
        exact Option.some.inj (Option.some.inj h)
      subst e
      have hroot : IsTreePage t t.root_page_id := by
        rcases hw.root_cases with ⟨e, _⟩ | ⟨e, _⟩
        · exact absurd e hr
        · exact e
      exact ⟨FindLeafPageLoop_tree t hw.core key leftMost fuel _ _ hroot hf,
        (IsLeafPage_iff _).mp (FindLeafPageLoop_leaf t key leftMost fuel _ _ hf), hr⟩

/-- A leaf page created by a split: the new page is pending. The other pages keep
their type, parent pointer and page id, and the internal pages are as they
were. -/
theorem Core_new_leaf (t t1 : BPlusTree) (old_node : page_id_t) (hc : Core t none)
    (hold : IsTreePage t old_node)
    (hnext : t1.next_page_id = t.next_page_id + 1)
    (hroot : t1.root_page_id = t.root_page_id)
    (hdr : ∀ q, IsTreePage t q →
      (t1.page q).page_type = (t.page q).page_type
      ∧ (t1.page q).parent_page_id = (t.page q).parent_page_id
      ∧ (t1.page q).page_id = (t.page q).page_id)
    (hint : ∀ q, IsTreePage t q → (t.page q).page_type = IndexPageType.INTERNAL_PAGE →
      t1.page q = t.page q)
    (hleaf : ∀ q, IsTreePage t q → (t.page q).page_type = IndexPageType.LEAF_PAGE →
      0 ≤ (t1.page q).size)
    (hnty : (t1.page t.next_page_id).page_type = IndexPageType.LEAF_PAGE)
    (hnid : (t1.page t.next_page_id).page_id = t.next_page_id)
    (hnpar : (t1.page t.next_page_id).parent_page_id = (t.page old_node).parent_page_id)
    (hnsz : 0 ≤ (t1.page t.next_page_id).size) :
    Core t1 (some t.next_page_id) := by
  have hcases : ∀ q, IsTreePage t1 q → IsTreePage t q ∨ q = t.next_page_id := by
    intro q hq
    unfold IsTreePage at hq ⊢
    rw [hnext] at hq
    unfold page_id_t at *
    omega
  have hup : ∀ q, IsTreePage t q → IsTreePage t1 q := by
    intro q hq
    unfold IsTreePage at hq ⊢
    rw [hnext]
    unfold page_id_t at *
    omega
  have hlt : ∀ q, IsTreePage t q → q ≠ t.next_page_id := by
    intro q hq e
    unfold IsTreePage at hq
    rw [e] at hq
    exact lt_irrefl _ hq.2
  have hnotint : ¬ (t1.page t.next_page_id).page_type = IndexPageType.INTERNAL_PAGE := by
    rw [hnty]; decide
  have hchild : ∀ P c, IsTreePage t P → (t.page P).page_type = IndexPageType.INTERNAL_PAGE →
      (IsChild t1 P c ↔ IsChild t P c) := by
    intro P c hP hty
    unfold IsChild
    rw [hint P hP hty]
  refine ⟨?_, ?_, ?_, ?_, ?_, ?_, ?_, ?_, ?_⟩
  · intro pid hp
    rcases hcases pid hp with hp | e
    · rw [(hdr pid hp).2.2]; exact hc.page_id_eq pid hp
    · rw [e]; exact hnid
  · intro pid hp
    rcases hcases pid hp with hp | e
    · rw [(hdr pid hp).1]; exact hc.typed pid hp
    · rw [e]; exact Or.inl hnty
  · intro pid hp
    rcases hcases pid hp with hp | e
    · rw [(hdr pid hp).2.1]; exact hc.no_self pid hp
    · rw [e, hnpar]
      intro hpar
      by_cases hinv : (t.page old_node).parent_page_id = INVALID_PAGE_ID
      · rw [hinv] at hpar
        have h1 : (1 : page_id_t) ≤ t.next_page_id := le_trans hold.1 (le_of_lt hold.2)
        rw [← hpar] at h1
        exact absurd h1 (by decide)
      · have := (hc.parent_of old_node hold (by simp) hinv).1
        exact hlt _ this hpar
  · intro pid hp hpend hpar
    rcases hcases pid hp with hp | e
    · rw [(hdr pid hp).2.1] at hpar
      rw [hroot]; exact hc.root_unique pid hp (by simp) hpar
    · exact absurd (by rw [e]) hpend
  · intro pid hp hpend hpar
    rcases hcases pid hp with hp | e
    · rw [(hdr pid hp).2.1] at hpar ⊢
      obtain ⟨a1, a2, a3⟩ := hc.parent_of pid hp (by simp) hpar
      exact ⟨hup _ a1, by rw [(hdr _ a1).1]; exact a2, (hchild _ _ a1 a2).mpr a3⟩
    · exact absurd (by rw [e]) hpend
  · intro pid hp hty i hi1 hi2
    rcases hcases pid hp with hp | e
    · rw [(hdr pid hp).1] at hty
      rw [hint pid hp hty] at hi2 ⊢
      obtain ⟨a1, a2, _⟩ := hc.child_of pid hp hty i hi1 hi2
      refine ⟨hup _ a1, by rw [(hdr _ a1).2.1]; exact a2, ?_⟩
      intro e
      exact hlt _ a1 (Option.some.inj e).symm
    · rw [e] at hty
      exact absurd hty hnotint
  · intro pid hp hty i j hi1 hi2 hj1 hj2 he
    rcases hcases pid hp with hp | e
    · rw [(hdr pid hp).1] at hty
      rw [hint pid hp hty] at hi2 hj2 he
      exact hc.child_inj pid hp hty i j hi1 hi2 hj1 hj2 he
    · rw [e] at hty
      exact absurd hty hnotint
  · intro pid hp hty
    rcases hcases pid hp with hp | e
    · rw [(hdr pid hp).1] at hty
      exact hleaf pid hp hty
    · rw [e]; exact hnsz
  · intro pid hp hty
    rcases hcases pid hp with hp | e
    · rw [(hdr pid hp).1] at hty
      rw [hint pid hp hty]
      exact hc.internal_size pid hp hty
    · rw [e] at hty
      exact absurd hty hnotint

end BPlusTree
namespace BPlusTree

theorem IsTreePage_succ (t t1 : BPlusTree) (hnext : t1.next_page_id = t.next_page_id + 1) :
    (∀ q, IsTreePage t1 q → IsTreePage t q ∨ q = t.next_page_id)
    ∧ (∀ q, IsTreePage t q → IsTreePage t1 q)
    ∧ (∀ q, IsTreePage t q → q ≠ t.next_page_id)
    ∧ (∀ q, IsTreePage t q → IsTreePage t1 t.next_page_id) := by
  unfold IsTreePage
  rw [hnext]
  unfold page_id_t at *
  refine ⟨fun q hq => ?_, fun q hq => ?_, fun q hq => ?_, fun q hq => ?_⟩ <;> omega

/-- A new root above the page `old_node` and the pending page `new_node`. -/
theorem WF_new_root (t t1 : BPlusTree) (old_node new_node : page_id_t)
    (hp : Pending t old_node new_node)
    (hrootold : (t.page old_node).parent_page_id = INVALID_PAGE_ID)
    (hnext : t1.next_page_id = t.next_page_id + 1)
    (hroot : t1.root_page_id = t.next_page_id)
    (hnty : (t1.page t.next_page_id).page_type = IndexPageType.INTERNAL_PAGE)
    (hnpar : (t1.page t.next_page_id).parent_page_id = INVALID_PAGE_ID)
    (hnid : (t1.page t.next_page_id).page_id = t.next_page_id)
    (hnsz : (t1.page t.next_page_id).size = 2)
    (hs0 : ((t1.page t.next_page_id).slot 0).2 = old_node)
    (hs1 : ((t1.page t.next_page_id).slot 1).2 = new_node)
    (hold : t1.page old_node = { t.page old_node with parent_page_id := t.next_page_id })
    (hnew : t1.page new_node = { t.page new_node with parent_page_id := t.next_page_id })
    (hother : ∀ q, q ≠ t.next_page_id → q ≠ old_node → q ≠ new_node → t1.page q = t.page q) :
    WF t1 := by
  obtain ⟨hcases, hup, hlt, hR⟩ := IsTreePage_succ t t1 hnext
  have hc := hp.core
  have hRtree : IsTreePage t1 t.next_page_id := hR _ hp.old_tree
  have hpendold : (some new_node : Option page_id_t) ≠ some old_node :=
    fun e => hp.ne (Option.some.inj e).symm
  have holdroot : old_node = t.root_page_id :=
    hc.root_unique old_node hp.old_tree hpendold hrootold
  have hRpos : (1 : page_id_t) ≤ t.next_page_id := le_trans hp.old_tree.1 (le_of_lt hp.old_tree.2)
  have hRinv : t.next_page_id ≠ INVALID_PAGE_ID := by
    intro e; rw [e] at hRpos; exact absurd hRpos (by decide)
  -- the pages of `t` in `t1`
  have hsame : ∀ q, IsTreePage t q →
      (t1.page q).page_type = (t.page q).page_type
      ∧ (t1.page q).page_id = (t.page q).page_id
      ∧ (t1.page q).size = (t.page q).size
      ∧ (∀ i, (t1.page q).slot i = (t.page q).slot i)
      ∧ (t1.page q).parent_page_id
          = if q = old_node ∨ q = new_node then t.next_page_id
            else (t.page q).parent_page_id := by
    intro q hq
    by_cases h1 : q = old_node
    · rw [h1, hold, if_pos (Or.inl rfl)]
      exact ⟨rfl, rfl, rfl, fun _ => rfl, rfl⟩
    · by_cases h2 : q = new_node
      · rw [h2, hnew, if_pos (Or.inr rfl)]
        exact ⟨rfl, rfl, rfl, fun _ => rfl, rfl⟩
      · rw [hother q (hlt q hq) h1 h2, if_neg (fun h => h.elim h1 h2)]
        exact ⟨rfl, rfl, rfl, fun _ => rfl, rfl⟩
  have hchild : ∀ P c, IsTreePage t P → (IsChild t1 P c ↔ IsChild t P c) := by
    intro P c hP
    obtain ⟨_, _, a3, a4, _⟩ := hsame P hP
    unfold IsChild
    rw [a3]
    simp only [a4]
  have h01 : ∀ i : Int, 0 ≤ i → i < 2 → i = 0 ∨ i = 1 := by
    intro i h1 h2; omega
  refine ⟨Or.inr ⟨by rw [hroot]; exact hRtree, by rw [hroot]; exact hnpar⟩, ?_⟩
  refine ⟨?_, ?_, ?_, ?_, ?_, ?_, ?_, ?_, ?_⟩
  · intro pid hpid
    rcases hcases pid hpid with hq | e
    · rw [(hsame pid hq).2.1]; exact hc.page_id_eq pid hq
    · rw [e]; exact hnid
  · intro pid hpid
    rcases hcases pid hpid with hq | e
    · rw [(hsame pid hq).1]; exact hc.typed pid hq
    · rw [e]; exact Or.inr hnty
  · intro pid hpid
    rcases hcases pid hpid with hq | e
    · rw [(hsame pid hq).2.2.2.2]
      by_cases h1 : pid = old_node ∨ pid = new_node
      · rw [if_pos h1]; exact fun e => hlt pid hq e.symm
      · rw [if_neg h1]; exact hc.no_self pid hq
    · rw [e, hnpar]; exact fun e => hRinv e.symm
  · intro pid hpid _ hpar
    rcases hcases pid hpid with hq | e
    · rw [(hsame pid hq).2.2.2.2] at hpar
      by_cases h1 : pid = old_node ∨ pid = new_node
      · rw [if_pos h1] at hpar; exact absurd hpar hRinv
      · rw [if_neg h1] at hpar
        have hne : (some new_node : Option page_id_t) ≠ some pid :=
          fun e => h1 (Or.inr (Option.some.inj e).symm)
        have := hc.root_unique pid hq hne hpar
        exact absurd (this.trans holdroot.symm) (fun e => h1 (Or.inl e))
    · rw [hroot, e]
  · intro pid hpid _ hpar
    rcases hcases pid hpid with hq | e
    · rw [(hsame pid hq).2.2.2.2] at hpar ⊢
      by_cases h1 : pid = old_node ∨ pid = new_node
      · rw [if_pos h1]
        refine ⟨hRtree, hnty, ?_⟩
        rcases h1 with h1 | h1
        · exact ⟨0, le_refl _, by rw [hnsz]; decide, by rw [hs0, h1]⟩
        · exact ⟨1, by decide, by rw [hnsz]; decide, by rw [hs1, h1]⟩
      · rw [if_neg h1] at hpar ⊢
        have hne : (some new_node : Option page_id_t) ≠ some pid :=
          fun e => h1 (Or.inr (Option.some.inj e).symm)
        obtain ⟨a1, a2, a3⟩ := hc.parent_of pid hq hne hpar
        exact ⟨hup _ a1, by rw [(hsame _ a1).1]; exact a2, (hchild _ _ a1).mpr a3⟩
    · rw [e, hnpar] at hpar; exact absurd rfl hpar
  · intro pid hpid hty i hi1 hi2
    rcases hcases pid hpid with hq | e
    · obtain ⟨b1, _, b3, b4, _⟩ := hsame pid hq
      rw [b1] at hty
      rw [b3] at hi2
      rw [b4]
      obtain ⟨a1, a2, a3⟩ := hc.child_of pid hq hty i hi1 hi2
      refine ⟨hup _ a1, ?_, by simp⟩
      rw [(hsame _ a1).2.2.2.2]
      have hnotold : ¬ ((t.page pid).slot i).2 = old_node := by
        intro e
        rw [e, hrootold] at a2
        rw [← a2] at hq
        exact absurd hq.1 (by decide)
      have hnotnew : ¬ ((t.page pid).slot i).2 = new_node :=
        fun e => a3 (by rw [e])
      rw [if_neg (fun h => h.elim hnotold hnotnew)]
      exact a2
    · rw [e] at hi2 ⊢
      rw [hnsz] at hi2
      rcases h01 i hi1 hi2 with e0 | e1
      · rw [e0, hs0]
        refine ⟨hup _ hp.old_tree, ?_, by simp⟩
        rw [hold]
      · rw [e1, hs1]
        refine ⟨hup _ hp.new_tree, ?_, by simp⟩
        rw [hnew]
  · intro pid hpid hty i j hi1 hi2 hj1 hj2 he
    rcases hcases pid hpid with hq | e
    · obtain ⟨b1, _, b3, b4, _⟩ := hsame pid hq
      rw [b1] at hty
      rw [b3] at hi2 hj2
      rw [b4, b4] at he
      exact hc.child_inj pid hq hty i j hi1 hi2 hj1 hj2 he
    · rw [e] at hi2 hj2 he
      rw [hnsz] at hi2 hj2
      rcases h01 i hi1 hi2 with e0 | e1
      · rcases h01 j hj1 hj2 with f0 | f1
        · rw [e0, f0]
        · rw [e0, f1, hs0, hs1] at he; exact absurd he hp.ne
      · rcases h01 j hj1 hj2 with f0 | f1
        · rw [e1, f0, hs0, hs1] at he; exact absurd he.symm hp.ne
        · rw [e1, f1]
  · intro pid hpid hty
    rcases hcases pid hpid with hq | e
    · obtain ⟨b1, _, b3, _, _⟩ := hsame pid hq
      rw [b1] at hty
      rw [b3]; exact hc.leaf_size pid hq hty
    · rw [e, hnsz]; decide
  · intro pid hpid hty
    rcases hcases pid hpid with hq | e
    · obtain ⟨b1, _, b3, _, _⟩ := hsame pid hq
      rw [b1] at hty
      rw [b3]; exact hc.internal_size pid hq hty
    · rw [e, hnsz]; decide

end BPlusTree
namespace BPlusTree

/-- The pending page entered in its parent, one slot after the page it was split
from. -/
theorem WF_insert_child (t t1 : BPlusTree) (old_node new_node : page_id_t) (key : KeyType)
    (r : Int) (hp : Pending t old_node new_node)
    (hpar : (t.page old_node).parent_page_id ≠ INVALID_PAGE_ID)
    (hnext : t1.next_page_id = t.next_page_id)
    (hroot : t1.root_page_id = t.root_page_id)
    (hother : ∀ q, q ≠ (t.page old_node).parent_page_id → t1.page q = t.page q)
    (hhead : BPlusTreePage.sameHeader (t.page (t.page old_node).parent_page_id)
      (t1.page (t.page old_node).parent_page_id))
    (hsize : (t1.page (t.page old_node).parent_page_id).size
      = (t.page (t.page old_node).parent_page_id).size + 1)
    (hr0 : 0 ≤ r) (hr1 : r < (t.page (t.page old_node).parent_page_id).size)
    (hslots : ∀ j, (t1.page (t.page old_node).parent_page_id).slot j
      = if j = r + 1 then (key, new_node)
        else if r + 1 < j ∧ j ≤ (t.page (t.page old_node).parent_page_id).size
          then (t.page (t.page old_node).parent_page_id).slot (j - 1)
        else (t.page (t.page old_node).parent_page_id).slot j) :
    WF t1 := by
  have hc := hp.core
  have hpendold : (some new_node : Option page_id_t) ≠ some old_node :=
    fun e => hp.ne (Option.some.inj e).symm
  obtain ⟨hPtree, hPty, hPchild⟩ := hc.parent_of old_node hp.old_tree hpendold hpar
  generalize hPdef : (t.page old_node).parent_page_id = P at *
  have hnewpar : (t.page new_node).parent_page_id = P := by rw [hp.new_parent, hPdef]
  have hnewP : new_node ≠ P := by
    intro e
    have := hc.no_self new_node hp.new_tree
    rw [hnewpar] at this
    exact this e.symm
  have htree : ∀ q, IsTreePage t1 q ↔ IsTreePage t q := by
    intro q; unfold IsTreePage; rw [hnext]
  have hhd : ∀ q, (t1.page q).page_type = (t.page q).page_type
      ∧ (t1.page q).parent_page_id = (t.page q).parent_page_id
      ∧ (t1.page q).page_id = (t.page q).page_id := by
    intro q
    by_cases hq : q = P
    · rw [hq]
      unfold BPlusTreePage.sameHeader at hhead
      obtain ⟨a1, a2, a3, a4, a5⟩ := hhead
      exact ⟨a1, a3, a4⟩
    · rw [hother q hq]; exact ⟨rfl, rfl, rfl⟩
  have hleafsz : ∀ q, (t.page q).page_type = IndexPageType.LEAF_PAGE →
      (t1.page q).size = (t.page q).size := by
    intro q hq
    have : q ≠ P := by
      intro e; rw [e, hPty] at hq; exact absurd hq (by decide)
    rw [hother q this]
  have hnewslot : (t1.page P).slot (r + 1) = (key, new_node) := by
    rw [hslots, if_pos rfl]
  have hlow : ∀ j, j ≤ r → (t1.page P).slot j = (t.page P).slot j := by
    intro j hj
    rw [hslots, if_neg (by omega), if_neg (by omega)]
  have hhigh : ∀ j, r < j → j < (t.page P).size →
      (t1.page P).slot (j + 1) = (t.page P).slot j := by
    intro j hj1 hj2
    rw [hslots, if_neg (by omega), if_pos ⟨by omega, by omega⟩]
    congr 1; omega
  -- every slot of the parent in `t1` is the new entry or a slot of the parent in `t`
  have hback : ∀ j, 0 ≤ j → j < (t.page P).size + 1 →
      j = r + 1 ∨ ∃ k, 0 ≤ k ∧ k < (t.page P).size ∧ (t1.page P).slot j = (t.page P).slot k
        ∧ ((k = j ∧ j ≤ r) ∨ (r < k ∧ j = k + 1)) := by
    intro j hj1 hj2
    by_cases h1 : j = r + 1
    · exact Or.inl h1
    · right
      by_cases h2 : j ≤ r
      · exact ⟨j, hj1, by omega, hlow j h2, Or.inl ⟨rfl, h2⟩⟩
      · refine ⟨j - 1, by omega, by omega, ?_, Or.inr ⟨by omega, by omega⟩⟩
        have := hhigh (j - 1) (by omega) (by omega)
        rw [← this]; congr 1; omega
  have hnotchild : ∀ k, 0 ≤ k → k < (t.page P).size → ((t.page P).slot k).2 ≠ new_node := by
    intro k hk1 hk2 e
    obtain ⟨_, _, a3⟩ := hc.child_of P hPtree hPty k hk1 hk2
    exact a3 (by rw [e])
  refine ⟨?_, ?_⟩
  · right
    rw [hroot]
    exact ⟨(htree _).mpr hp.root_tree, by rw [(hhd _).2.1]; exact hp.root_parent⟩
  refine ⟨?_, ?_, ?_, ?_, ?_, ?_, ?_, ?_, ?_⟩
  · intro pid hpid
    rw [(hhd pid).2.2]; exact hc.page_id_eq pid ((htree _).mp hpid)
  · intro pid hpid
    rw [(hhd pid).1]; exact hc.typed pid ((htree _).mp hpid)
  · intro pid hpid
    rw [(hhd pid).2.1]; exact hc.no_self pid ((htree _).mp hpid)
  · intro pid hpid _ hq
    rw [(hhd pid).2.1] at hq
    rw [hroot]
    by_cases hn : pid = new_node
    · rw [hn, hnewpar] at hq
      rw [hq] at hPtree
      exact absurd hPtree.1 (by decide)
    · exact hc.root_unique pid ((htree _).mp hpid)
        (fun e => hn (Option.some.inj e).symm) hq
  · intro pid hpid _ hq
    rw [(hhd pid).2.1] at hq ⊢
    by_cases hn : pid = new_node
    · rw [hn, hnewpar]
      refine ⟨(htree _).mpr hPtree, by rw [(hhd P).1]; exact hPty, ?_⟩
      exact ⟨r + 1, by omega, by rw [hsize]; omega, by rw [hnewslot]⟩
    · obtain ⟨a1, a2, i, hi1, hi2, hi3⟩ := hc.parent_of pid ((htree _).mp hpid)
        (fun e => hn (Option.some.inj e).symm) hq
      refine ⟨(htree _).mpr a1, by rw [(hhd _).1]; exact a2, ?_⟩
      by_cases hQ : (t.page pid).parent_page_id = P
      · rw [hQ] at hi2 hi3 ⊢
        by_cases hir : i ≤ r
        · exact ⟨i, hi1, by rw [hsize]; omega, by rw [hlow i hir]; exact hi3⟩
        · exact ⟨i + 1, by omega, by rw [hsize]; omega,
            by rw [hhigh i (by omega) hi2]; exact hi3⟩
      · unfold IsChild
        rw [hother _ hQ]
        exact ⟨i, hi1, hi2, hi3⟩
  · intro pid hpid hty i hi1 hi2
    rw [(hhd pid).1] at hty
    by_cases hQ : pid = P
    · rw [hQ] at hi2 ⊢
      rw [hsize] at hi2
      rcases hback i hi1 hi2 with e | ⟨k, hk1, hk2, hk3, _⟩
      · rw [e, hnewslot]
        refine ⟨(htree _).mpr hp.new_tree, ?_, by simp⟩
        rw [(hhd _).2.1, hnewpar]
      · rw [hk3]
        obtain ⟨a1, a2, _⟩ := hc.child_of P hPtree hPty k hk1 hk2
        exact ⟨(htree _).mpr a1, by rw [(hhd _).2.1]; exact a2, by simp⟩
    · rw [hother _ hQ] at hi2 ⊢
      obtain ⟨a1, a2, _⟩ := hc.child_of pid ((htree _).mp hpid) hty i hi1 hi2
      exact ⟨(htree _).mpr a1, by rw [(hhd _).2.1]; exact a2, by simp⟩
  · intro pid hpid hty i j hi1 hi2 hj1 hj2 he
    rw [(hhd pid).1] at hty
    by_cases hQ : pid = P
    · rw [hQ] at hi2 hj2 he
      rw [hsize] at hi2 hj2
      rcases hback i hi1 hi2 with e | ⟨k, hk1, hk2, hk3, hk4⟩
      · rcases hback j hj1 hj2 with f | ⟨l, hl1, hl2, hl3, _⟩
        · rw [e, f]
        · rw [e, hnewslot, hl3] at he
          exact absurd he.symm (hnotchild l hl1 hl2)
      · rcases hback j hj1 hj2 with f | ⟨l, hl1, hl2, hl3, hl4⟩
        · rw [f, hnewslot, hk3] at he
          exact absurd he (hnotchild k hk1 hk2)
        · rw [hk3, hl3] at he
          have hkl := hc.child_inj P hPtree hPty k l hk1 hk2 hl1 hl2 he
          omega
    · rw [hother _ hQ] at hi2 hj2 he
      exact hc.child_inj pid ((htree _).mp hpid) hty i j hi1 hi2 hj1 hj2 he
  · intro pid hpid hty
    rw [(hhd pid).1] at hty
    rw [hleafsz pid hty]
    exact hc.leaf_size pid ((htree _).mp hpid) hty
  · intro pid hpid hty
    rw [(hhd pid).1] at hty
    by_cases hQ : pid = P
    · rw [hQ, hsize]; omega
    · rw [hother _ hQ]
      exact hc.internal_size pid ((htree _).mp hpid) hty

end BPlusTree
namespace BPlusTree

/-- An internal page of a well-formed tree split in two: the upper half of its slots
moved to the fresh page, the moved children re-parented; the fresh page is pending. -/
theorem Pending_split_internal (t t3 : BPlusTree) (P : page_id_t) (hw : WF t)
    (hP : IsTreePage t P) (hty : (t.page P).page_type = IndexPageType.INTERNAL_PAGE)
    (hs : 2 ≤ (t.page P).size)
    (hnext : t3.next_page_id = t.next_page_id + 1)
    (hroot : t3.root_page_id = t.root_page_id)
    (hPsz : (t3.page P).size = (t.page P).size - (t.page P).size / 2)
    (hPhd : BPlusTreePage.sameHeader (t.page P) (t3.page P))
    (hPsl : ∀ j, (t3.page P).slot j = (t.page P).slot j)
    (hRty : (t3.page t.next_page_id).page_type = IndexPageType.INTERNAL_PAGE)
    (hRid : (t3.page t.next_page_id).page_id = t.next_page_id)
    (hRpar : (t3.page t.next_page_id).parent_page_id = (t.page P).parent_page_id)
    (hRsz : (t3.page t.next_page_id).size = (t.page P).size / 2)
    (hRsl : ∀ j, 0 ≤ j → j < (t.page P).size / 2 →
      (t3.page t.next_page_id).slot j
        = (t.page P).slot ((t.page P).size - (t.page P).size / 2 + j))
    (hmoved : ∀ j, (t.page P).size - (t.page P).size / 2 ≤ j → j < (t.page P).size →
      t3.page ((t.page P).slot j).2
        = { t.page ((t.page P).slot j).2 with parent_page_id := t.next_page_id })
    (hother : ∀ y, y ≠ t.next_page_id → y ≠ P →
      (∀ j, (t.page P).size - (t.page P).size / 2 ≤ j → j < (t.page P).size →
        ((t.page P).slot j).2 ≠ y) → t3.page y = t.page y) :
    Pending t3 P t.next_page_id := by
  have hc := hw.core
  obtain ⟨hcases, hup, hlt, hR⟩ := IsTreePage_succ t t3 hnext
  have hRtree : IsTreePage t3 t.next_page_id := hR P hP
  have hnone : ∀ q : page_id_t, (none : Option page_id_t) ≠ some q := by intro q; simp
  have hRpos : (1 : page_id_t) ≤ t.next_page_id := le_trans hP.1 (le_of_lt hP.2)
  have hRinv : t.next_page_id ≠ INVALID_PAGE_ID := by
    intro e; rw [e] at hRpos; exact absurd hRpos (by decide)
  have hch : ∀ j, 0 ≤ j → j < (t.page P).size →
      IsTreePage t ((t.page P).slot j).2
      ∧ (t.page ((t.page P).slot j).2).parent_page_id = P := by
    intro j h1 h2
    obtain ⟨a, b, _⟩ := hc.child_of P hP hty j h1 h2
    exact ⟨a, b⟩
  have hmv : ∀ c, IsChildFrom t P ((t.page P).size - (t.page P).size / 2) c →
      IsTreePage t c ∧ (t.page c).parent_page_id = P ∧ c ≠ P
      ∧ t3.page c = { t.page c with parent_page_id := t.next_page_id } := by
    intro c ⟨j, h1, h2, h3⟩
    obtain ⟨a, b⟩ := hch j (by omega) h2
    have hm := hmoved j h1 h2
    rw [h3] at a b hm
    refine ⟨a, b, ?_, hm⟩
    intro e
    have := hc.no_self c a
    rw [b] at this
    exact this e.symm
  have hsame : ∀ q, IsTreePage t q →
      (t3.page q).page_type = (t.page q).page_type
      ∧ (t3.page q).page_id = (t.page q).page_id
      ∧ (∀ i, (t3.page q).slot i = (t.page q).slot i)
      ∧ (t3.page q).size
          = (if q = P then (t.page P).size - (t.page P).size / 2 else (t.page q).size)
      ∧ (IsChildFrom t P ((t.page P).size - (t.page P).size / 2) q →
          (t3.page q).parent_page_id = t.next_page_id)
      ∧ (¬ IsChildFrom t P ((t.page P).size - (t.page P).size / 2) q →
          (t3.page q).parent_page_id = (t.page q).parent_page_id) := by
    intro q hq
    by_cases hqP : q = P
    · rw [hqP, if_pos rfl]
      obtain ⟨a1, a2, a3, a4, a5⟩ := hPhd
      exact ⟨a1, a4, hPsl, hPsz, fun h => absurd rfl (hmv P h).2.2.1, fun _ => a3⟩
    · rw [if_neg hqP]
      by_cases hm : IsChildFrom t P ((t.page P).size - (t.page P).size / 2) q
      · rw [(hmv q hm).2.2.2]
        exact ⟨rfl, rfl, fun _ => rfl, rfl, fun _ => rfl, fun h => absurd hm h⟩
      · rw [hother q (hlt q hq) hqP (fun j h1 h2 e => hm ⟨j, h1, h2, e⟩)]
        exact ⟨rfl, rfl, fun _ => rfl, rfl, fun h => absurd h hm, fun _ => rfl⟩
  have hparP : (t.page P).parent_page_id ≠ t.next_page_id := by
    intro e
    by_cases hi : (t.page P).parent_page_id = INVALID_PAGE_ID
    · rw [hi] at e; exact hRinv e.symm
    · exact hlt _ (hc.parent_of P hP (hnone P) hi).1 e
  have hrt : IsTreePage t t.root_page_id ∧ (t.page t.root_page_id).parent_page_id
      = INVALID_PAGE_ID := by
    rcases hw.root_cases with ⟨_, h2⟩ | h
    · have := hP.2
      rw [h2] at this
      have h1 := hP.1
      unfold page_id_t at *
      omega
    · exact h
  have hcore : Core t3 (some t.next_page_id) := by
    refine ⟨?_, ?_, ?_, ?_, ?_, ?_, ?_, ?_, ?_⟩
    · intro pid hpid
      rcases hcases pid hpid with hq | e
      · rw [(hsame pid hq).2.1]; exact hc.page_id_eq pid hq
      · rw [e]; exact hRid
    · intro pid hpid
      rcases hcases pid hpid with hq | e
      · rw [(hsame pid hq).1]; exact hc.typed pid hq
      · rw [e]; exact Or.inr hRty
    · intro pid hpid
      rcases hcases pid hpid with hq | e
      · by_cases hm : IsChildFrom t P ((t.page P).size - (t.page P).size / 2) pid
        · rw [(hsame pid hq).2.2.2.2.1 hm]; exact fun e => hlt pid hq e.symm
        · rw [(hsame pid hq).2.2.2.2.2 hm]; exact hc.no_self pid hq
      · rw [e, hRpar]; exact hparP
    · intro pid hpid hpend hpar
      rcases hcases pid hpid with hq | e
      · by_cases hm : IsChildFrom t P ((t.page P).size - (t.page P).size / 2) pid
        · rw [(hsame pid hq).2.2.2.2.1 hm] at hpar; exact absurd hpar hRinv
        · rw [(hsame pid hq).2.2.2.2.2 hm] at hpar
          rw [hroot]
          exact hc.root_unique pid hq (hnone pid) hpar
      · exact absurd (by rw [e]) hpend
    · intro pid hpid hpend hpar
      rcases hcases pid hpid with hq | e
      · by_cases hm : IsChildFrom t P ((t.page P).size - (t.page P).size / 2) pid
        · rw [(hsame pid hq).2.2.2.2.1 hm]
          refine ⟨hRtree, hRty, ?_⟩
          obtain ⟨j, h1, h2, h3⟩ := hm
          refine ⟨j - ((t.page P).size - (t.page P).size / 2), by omega,
            by rw [hRsz]; omega, ?_⟩
          rw [hRsl _ (by omega) (by omega), ← h3]
          congr 2; omega
        · rw [(hsame pid hq).2.2.2.2.2 hm] at hpar ⊢
          obtain ⟨a1, a2, i, hi1, hi2, hi3⟩ := hc.parent_of pid hq (hnone pid) hpar
          refine ⟨hup _ a1, by rw [(hsame _ a1).1]; exact a2, ?_⟩
          obtain ⟨_, _, b3, b4, _⟩ := hsame _ a1
          refine ⟨i, hi1, ?_, by rw [b3]; exact hi3⟩
          rw [b4]
          by_cases hQ : (t.page pid).parent_page_id = P
          · rw [if_pos hQ]
            rw [hQ] at hi2 hi3
            by_contra hlo
            exact hm ⟨i, by omega, hi2, hi3⟩
          · rw [if_neg hQ]; exact hi2
      · exact absurd (by rw [e]) hpend
    · intro pid hpid hty1 i hi1 hi2
      rcases hcases pid hpid with hq | e
      · obtain ⟨b1, _, b3, b4, _⟩ := hsame pid hq
        rw [b1] at hty1
        rw [b3]
        have hi3 : i < (t.page pid).size := by
          rw [b4] at hi2
          by_cases hQ : pid = P
          · rw [if_pos hQ] at hi2; rw [hQ]; omega
          · rw [if_neg hQ] at hi2; exact hi2
        obtain ⟨a1, a2, _⟩ := hc.child_of pid hq hty1 i hi1 hi3
        refine ⟨hup _ a1, ?_, fun e => hlt _ a1 (Option.some.inj e).symm⟩
        have hnm : ¬ IsChildFrom t P ((t.page P).size - (t.page P).size / 2)
            ((t.page pid).slot i).2 := by
          intro hm
          have hQ : pid = P := by rw [← a2, (hmv _ hm).2.1]
          obtain ⟨j, h1, h2, h3⟩ := hm
          subst hQ
          rw [b4, if_pos rfl] at hi2
          have := hc.child_inj pid hq hty j i (by omega) h2 hi1 hi3 h3
          omega
        rw [(hsame _ a1).2.2.2.2.2 hnm]
        exact a2
      · rw [e] at hi2 ⊢
        rw [hRsz] at hi2
        rw [hRsl i hi1 hi2]
        obtain ⟨a1, a2⟩ := hch ((t.page P).size - (t.page P).size / 2 + i)
          (by omega) (by omega)
        refine ⟨hup _ a1, ?_, fun e => hlt _ a1 (Option.some.inj e).symm⟩
        exact (hsame _ a1).2.2.2.2.1 ⟨_, by omega, by omega, rfl⟩
    · intro pid hpid hty1 i j hi1 hi2 hj1 hj2 he
      rcases hcases pid hpid with hq | e
      · obtain ⟨b1, _, b3, b4, _⟩ := hsame pid hq
        rw [b1] at hty1
        rw [b3, b3] at he
        have hlt2 : ∀ k, k < (t3.page pid).size → k < (t.page pid).size := by
          intro k hk
          rw [b4] at hk
          by_cases hQ : pid = P
          · rw [if_pos hQ] at hk; rw [hQ]; omega
          · rw [if_neg hQ] at hk; exact hk
        exact hc.child_inj pid hq hty1 i j hi1 (hlt2 i hi2) hj1 (hlt2 j hj2) he
      · rw [e] at hi2 hj2 he
        rw [hRsz] at hi2 hj2
        rw [hRsl i hi1 hi2, hRsl j hj1 hj2] at he
        have := hc.child_inj P hP hty _ _ (by omega) (by omega) (by omega) (by omega) he
        omega
    · intro pid hpid hty1
      rcases hcases pid hpid with hq | e
      · obtain ⟨b1, _, _, b4, _⟩ := hsame pid hq
        rw [b1] at hty1
        have hQ : pid ≠ P := by
          intro e; rw [e, hty] at hty1; exact absurd hty1 (by decide)
        rw [b4, if_neg hQ]
        exact hc.leaf_size pid hq hty1
      · rw [e, hRty] at hty1; exact absurd hty1 (by decide)
    · intro pid hpid hty1
      rcases hcases pid hpid with hq | e
      · obtain ⟨b1, _, _, b4, _⟩ := hsame pid hq
        rw [b1] at hty1
        rw [b4]
        by_cases hQ : pid = P
        · rw [if_pos hQ]; omega
        · rw [if_neg hQ]; exact hc.internal_size pid hq hty1
      · rw [e, hRsz]; omega
  refine ⟨?_, ?_, hup P hP, hRtree, fun e => hlt P hP e, ?_, hcore⟩
  · rw [hroot]; exact hup _ hrt.1
  · rw [hroot]
    have hnm : ¬ IsChildFrom t P ((t.page P).size - (t.page P).size / 2) t.root_page_id := by
      intro hm
      have := (hmv _ hm).2.1
      rw [hrt.2] at this
      rw [← this] at hP
      exact absurd hP.1 (by decide)
    rw [(hsame _ hrt.1).2.2.2.2.2 hnm]
    exact hrt.2
  · rw [hRpar]
    have hnm : ¬ IsChildFrom t P ((t.page P).size - (t.page P).size / 2) P :=
      fun hm => (hmv _ hm).2.2.1 rfl
    rw [(hsame _ hP).2.2.2.2.2 hnm]

end BPlusTree
namespace BPlusTree

/-- The root case of `InsertIntoParent` returns, whatever the fuel above zero: the pages
of the state it returns. -/
theorem InsertIntoParent_root (fuel : Nat) (t : BPlusTree) (old_node new_node : page_id_t)
    (key : KeyType) (hroot : (t.page old_node).parent_page_id = INVALID_PAGE_ID)
    (hold : old_node ≠ t.next_page_id) (hnew : new_node ≠ t.next_page_id)
    (hne : old_node ≠ new_node)
    (hoid : (t.page old_node).page_id = old_node)
    (hnid : (t.page new_node).page_id = new_node) :
    ∃ t1, InsertIntoParent (fuel + 1) t old_node key new_node = some t1
      ∧ t1.next_page_id = t.next_page_id + 1
      ∧ t1.root_page_id = t.next_page_id
      ∧ t1.leaf_max_size = t.leaf_max_size
      ∧ t1.internal_max_size = t.internal_max_size
      ∧ (t1.page t.next_page_id).page_type = IndexPageType.INTERNAL_PAGE
      ∧ (t1.page t.next_page_id).parent_page_id = INVALID_PAGE_ID
      ∧ (t1.page t.next_page_id).page_id = t.next_page_id
      ∧ (t1.page t.next_page_id).size = 2
      ∧ ((t1.page t.next_page_id).slot 0).2 = old_node
      ∧ ((t1.page t.next_page_id).slot 1).2 = new_node
      ∧ t1.page old_node = { t.page old_node with parent_page_id := t.next_page_id }
      ∧ t1.page new_node = { t.page new_node with parent_page_id := t.next_page_id }
      ∧ (∀ q, q ≠ t.next_page_id → q ≠ old_node → q ≠ new_node → t1.page q = t.page q) := by
  refine ⟨_, by rw [InsertIntoParent, if_pos ((IsRootPage_iff _).mpr hroot)], ?_⟩
  dsimp only
  have hn : (NewPage t).1 = t.next_page_id := rfl
  have hpg : ∀ (x : page_id_t) (y : page_id_t),
      ({ (NewPage t).2 with root_page_id := x } : BPlusTree).page y = (NewPage t).2.page y :=
    fun _ _ => rfl
  rw [hn]
  simp only [page_setTreePage, hpg, page_NewPage, if_true, if_neg hold, if_neg hnew,
    if_neg hne, if_neg (Ne.symm hne), if_neg (Ne.symm hold), if_neg (Ne.symm hnew)]
  have hi : (NewPage t).2.internal_max_size = t.internal_max_size := rfl
  rw [hoid, hnid, hi]
  obtain ⟨a1, a2, a3, a4, a5, a6⟩ := BPlusTreeInternalPage.PopulateNewRoot_facts
    (BPlusTreeInternalPage.Init (zeroPage t.oob) t.next_page_id INVALID_PAGE_ID
      t.internal_max_size) old_node key new_node
  refine ⟨rfl, rfl, rfl, rfl, a4.trans rfl, a5.trans rfl, a6.trans rfl, a1, a2, a3, trivial,
    trivial, ?_⟩
  intro q h1 h2 h3
  rw [if_neg h1, if_neg h3, if_neg h2, if_neg h1, if_neg h1]

end BPlusTree

namespace BPlusTree

theorem pageMax_congr (t t1 : BPlusTree) (q : page_id_t)
    (hty : (t1.page q).page_type = (t.page q).page_type)
    (hl : t1.leaf_max_size = t.leaf_max_size)
    (hi : t1.internal_max_size = t.internal_max_size) : pageMax t1 q = pageMax t q := by
  unfold pageMax BPlusTreePage.IsLeafPage
  rw [hty, hl, hi]

theorem pageMax_leaf (t : BPlusTree) (q : page_id_t)
    (hty : (t.page q).page_type = IndexPageType.LEAF_PAGE) : pageMax t q = t.leaf_max_size := by
  unfold pageMax
  rw [if_pos ((IsLeafPage_iff _).mpr hty)]

theorem pageMax_internal (t : BPlusTree) (q : page_id_t)
    (hty : (t.page q).page_type = IndexPageType.INTERNAL_PAGE) :
    pageMax t q = t.internal_max_size := by
  unfold pageMax
  have : ¬ (t.page q).IsLeafPage = true := by
    intro h
    rw [(IsLeafPage_iff _).mp h] at hty
    exact absurd hty (by decide)
  rw [if_neg this]

/-- The state after `InsertIntoParent` has entered the pending page in the parent of
`old_node`, before the size test. -/
theorem insert_child_state (t : BPlusTree) (old_node new_node : page_id_t) (key : KeyType)
    (hp : Pending t old_node new_node)
    (hpar : (t.page old_node).parent_page_id ≠ INVALID_PAGE_ID) :
    WF (setTreePage t (t.page old_node).parent_page_id
        (BPlusTreeInternalPage.InsertNodeAfter (t.page (t.page old_node).parent_page_id)
          (t.page old_node).page_id key (t.page new_node).page_id).2)
    ∧ (BPlusTreeInternalPage.InsertNodeAfter (t.page (t.page old_node).parent_page_id)
          (t.page old_node).page_id key (t.page new_node).page_id).1
        = (t.page (t.page old_node).parent_page_id).size + 1
    ∧ ((setTreePage t (t.page old_node).parent_page_id
        (BPlusTreeInternalPage.InsertNodeAfter (t.page (t.page old_node).parent_page_id)
          (t.page old_node).page_id key (t.page new_node).page_id).2).page
          (t.page old_node).parent_page_id).size
        = (t.page (t.page old_node).parent_page_id).size + 1
    ∧ BPlusTreePage.sameHeader (t.page (t.page old_node).parent_page_id)
        ((setTreePage t (t.page old_node).parent_page_id
          (BPlusTreeInternalPage.InsertNodeAfter (t.page (t.page old_node).parent_page_id)
            (t.page old_node).page_id key (t.page new_node).page_id).2).page
            (t.page old_node).parent_page_id)
    ∧ (∀ q, q ≠ (t.page old_node).parent_page_id →
        (setTreePage t (t.page old_node).parent_page_id
          (BPlusTreeInternalPage.InsertNodeAfter (t.page (t.page old_node).parent_page_id)
            (t.page old_node).page_id key (t.page new_node).page_id).2).page q = t.page q)
    ∧ IsTreePage t (t.page old_node).parent_page_id
    ∧ (t.page (t.page old_node).parent_page_id).page_type = IndexPageType.INTERNAL_PAGE
    ∧ 1 ≤ (t.page (t.page old_node).parent_page_id).size := by
  have hc := hp.core
  have hpendold : (some new_node : Option page_id_t) ≠ some old_node :=
    fun e => hp.ne (Option.some.inj e).symm
  obtain ⟨hPtree, hPty, r, hr0, hr1, hr2⟩ := hc.parent_of old_node hp.old_tree hpendold hpar
  rw [hc.page_id_eq old_node hp.old_tree, hc.page_id_eq new_node hp.new_tree]
  have hidx : BPlusTreeInternalPage.ValueIndex (t.page (t.page old_node).parent_page_id)
      old_node = r := by
    have := BPlusTreeInternalPage.ValueIndex_child _ r hr0 hr1 (hc.child_inj _ hPtree hPty)
    rw [hr2] at this
    exact this
  obtain ⟨i1, i2, i3, i4⟩ := BPlusTreeInternalPage.InsertNodeAfter_slots
    (t.page (t.page old_node).parent_page_id) old_node key new_node r hr0 hr1 hidx
  have hpg : (setTreePage t (t.page old_node).parent_page_id
        (BPlusTreeInternalPage.InsertNodeAfter (t.page (t.page old_node).parent_page_id)
          old_node key new_node).2).page (t.page old_node).parent_page_id
      = (BPlusTreeInternalPage.InsertNodeAfter (t.page (t.page old_node).parent_page_id)
          old_node key new_node).2 := by
    rw [page_setTreePage, if_pos rfl]
  have hoth : ∀ q, q ≠ (t.page old_node).parent_page_id →
      (setTreePage t (t.page old_node).parent_page_id
        (BPlusTreeInternalPage.InsertNodeAfter (t.page (t.page old_node).parent_page_id)
          old_node key new_node).2).page q = t.page q := by
    intro q hq
    rw [page_setTreePage, if_neg hq]
  refine ⟨?_, i1, by rw [hpg]; exact i2, by rw [hpg]; exact i3, hoth, hPtree, hPty, by omega⟩
  exact WF_insert_child t _ old_node new_node key r hp hpar rfl rfl hoth
    (by rw [hpg]; exact i3) (by rw [hpg]; exact i2) hr0 hr1 (by rw [hpg]; exact i4)

/-- The state after `Split` and `MoveHalfTo` on an internal page of a well-formed tree:
the fresh page is pending. -/
theorem split_internal_state (t : BPlusTree) (P : page_id_t) (hw : WF t)
    (hP : IsTreePage t P) (hty : (t.page P).page_type = IndexPageType.INTERNAL_PAGE)
    (hs : 2 ≤ (t.page P).size) :
    (Split false t P).1 = t.next_page_id
    ∧ Pending (InternalMoveHalfTo (Split false t P).2 P t.next_page_id) P t.next_page_id
    ∧ (InternalMoveHalfTo (Split false t P).2 P t.next_page_id).leaf_max_size
        = t.leaf_max_size
    ∧ (InternalMoveHalfTo (Split false t P).2 P t.next_page_id).internal_max_size
        = t.internal_max_size
    ∧ (InternalMoveHalfTo (Split false t P).2 P t.next_page_id).root_page_id
        = t.root_page_id
    ∧ (InternalMoveHalfTo (Split false t P).2 P t.next_page_id).next_page_id
        = t.next_page_id + 1
    ∧ ((InternalMoveHalfTo (Split false t P).2 P t.next_page_id).page P).size
        = (t.page P).size - (t.page P).size / 2
    ∧ ((InternalMoveHalfTo (Split false t P).2 P t.next_page_id).page t.next_page_id).size
        = (t.page P).size / 2
    ∧ ((InternalMoveHalfTo (Split false t P).2 P t.next_page_id).page
        t.next_page_id).page_type = IndexPageType.INTERNAL_PAGE
    ∧ (∀ q, IsTreePage t q →
        ((InternalMoveHalfTo (Split false t P).2 P t.next_page_id).page q).page_type
          = (t.page q).page_type
        ∧ (q ≠ P →
          ((InternalMoveHalfTo (Split false t P).2 P t.next_page_id).page q).size
            = (t.page q).size)) := by
  have hc := hw.core
  have hPR : P ≠ t.next_page_id := fun e => by
    have := hP.2
    rw [e] at this
    exact lt_irrefl _ this
  obtain ⟨s1, s2, s3, s4, s5, s6, s7, s8, s9, s10⟩ := Split_pages false t P hPR
  have hch : ∀ j, 0 ≤ j → j < (t.page P).size →
      IsTreePage t ((t.page P).slot j).2
      ∧ (t.page ((t.page P).slot j).2).parent_page_id = P := by
    intro j h1 h2
    obtain ⟨a, b, _⟩ := hc.child_of P hP hty j h1 h2
    exact ⟨a, b⟩
  have hnotR : ∀ q, IsTreePage t q → q ≠ t.next_page_id := fun q hq e => by
    have := hq.2
    rw [e] at this
    exact lt_irrefl _ this
  have hPpage : (Split false t P).2.page P = t.page P := s6 P hPR
  obtain ⟨m1, m2, m3, m4, m5, m6, m7, m8, m9⟩ :=
    InternalMoveHalfTo_pages (Split false t P).2 P t.next_page_id hPR
      (by rw [hPpage]; omega) s3
      (by
        intro j h1 h2
        rw [hPpage] at h2 ⊢
        obtain ⟨a, b⟩ := hch j h1 h2
        refine ⟨hnotR _ a, fun e => ?_⟩
        have := hc.no_self _ a
        rw [b] at this
        exact this e.symm)
  rw [hPpage] at m1 m2 m3 m4 m6 m7 m8
  rw [s5] at m7
  have hmoved : ∀ j, (t.page P).size - (t.page P).size / 2 ≤ j → j < (t.page P).size →
      (InternalMoveHalfTo (Split false t P).2 P t.next_page_id).page ((t.page P).slot j).2
        = { t.page ((t.page P).slot j).2 with parent_page_id := t.next_page_id } := by
    intro j h1 h2
    rw [m7 j h1 h2, s6 _ (hnotR _ (hch j (by omega) h2).1)]
  have hother : ∀ y, y ≠ t.next_page_id → y ≠ P →
      (∀ j, (t.page P).size - (t.page P).size / 2 ≤ j → j < (t.page P).size →
        ((t.page P).slot j).2 ≠ y) →
      (InternalMoveHalfTo (Split false t P).2 P t.next_page_id).page y = t.page y := by
    intro y h1 h2 h3
    rw [m8 y h1 h2 h3, s6 y h1]
  obtain ⟨n1, n2, n3, n4⟩ := m9
  have hRty : ((InternalMoveHalfTo (Split false t P).2 P t.next_page_id).page
      t.next_page_id).page_type = IndexPageType.INTERNAL_PAGE := by
    rw [m5.1, s2]; rfl
  refine ⟨s1, ?_, by rw [n3, s9], by rw [n4, s10], by rw [n1, s8], by rw [n2, s7], m1, m4,
    hRty, ?_⟩
  · exact Pending_split_internal t _ P hw hP hty hs (by rw [n2, s7]) (by rw [n1, s8]) m1 m2 m3
      hRty (by rw [m5.2.2.2.1, s5]) (by rw [m5.2.2.1, s4]) m4 m6 hmoved hother
  · intro q hq
    by_cases hqP : q = P
    · rw [hqP]
      exact ⟨m2.1, fun h => absurd rfl h⟩
    · by_cases hm : IsChildFrom t P ((t.page P).size - (t.page P).size / 2) q
      · obtain ⟨j, h1, h2, h3⟩ := hm
        have := hmoved j h1 h2
        rw [h3] at this
        rw [this]
        exact ⟨rfl, fun _ => rfl⟩
      · rw [hother q (hnotR q hq) hqP (fun j h1 h2 e => hm ⟨j, h1, h2, e⟩)]
        exact ⟨rfl, fun _ => rfl⟩

end BPlusTree
namespace BPlusTree

/-- The tree that `InsertIntoParent` returns is well formed, and within the size
bounds when the tree it was called on is. -/
theorem InsertIntoParent_WF : ∀ (fuel : Nat) (t : BPlusTree) (old_node : page_id_t)
    (key : KeyType) (new_node : page_id_t) (t1 : BPlusTree),
    Pending t old_node new_node →
    InsertIntoParent fuel t old_node key new_node = some t1 →
    WF t1 ∧ t1.leaf_max_size = t.leaf_max_size
    ∧ t1.internal_max_size = t.internal_max_size
    ∧ (2 ≤ t.leaf_max_size → 3 ≤ t.internal_max_size →
        SizeBounds t (some old_node) → SizeBounds t1 none) := by
  intro fuel
  induction fuel with
  | zero =>
    intro t old_node key new_node t1 _ h
    rw [InsertIntoParent] at h
    cases h
  | succ fuel ih =>
    intro t old_node key new_node t1 hp h
    have hc := hp.core
    have hpendold : (some new_node : Option page_id_t) ≠ some old_node :=
      fun e => hp.ne (Option.some.inj e).symm
    have hnotR : ∀ q, IsTreePage t q → q ≠ t.next_page_id := fun q hq e => by
      have := hq.2
      rw [e] at this
      exact lt_irrefl _ this
    by_cases hroot : (t.page old_node).parent_page_id = INVALID_PAGE_ID
    · obtain ⟨t2, r0, r1, r2, r3, r4, r5, r6, r7, r8, r9, r10, r11, r12, r13⟩ :=
        InsertIntoParent_root fuel t old_node new_node key hroot (hnotR _ hp.old_tree)
          (hnotR _ hp.new_tree) hp.ne (hc.page_id_eq _ hp.old_tree)
          (hc.page_id_eq _ hp.new_tree)
      rw [r0] at h
      have e := Option.some.inj h
      subst e
      refine ⟨WF_new_root t t2 old_node new_node hp hroot r1 r2 r5 r6 r7 r8 r9 r10 r11 r12 r13,
        r3, r4, ?_⟩
      intro hl hi hb q hq
      obtain ⟨hcases, _, _, _⟩ := IsTreePage_succ t t2 r1
      rcases hcases q hq with hq1 | e
      · have hts : (t2.page q).page_type = (t.page q).page_type
            ∧ (t2.page q).size = (t.page q).size := by
          by_cases h1 : q = old_node
          · rw [h1, r11]; exact ⟨rfl, rfl⟩
          · by_cases h2 : q = new_node
            · rw [h2, r12]; exact ⟨rfl, rfl⟩
            · rw [r13 q (hnotR q hq1) h1 h2]; exact ⟨rfl, rfl⟩
        rw [pageMax_congr t t2 q hts.1 r3 r4, hts.2]
        obtain ⟨b1, b2⟩ := hb q hq1
        refine ⟨b1, fun _ => b2 ?_⟩
        by_cases h1 : q = old_node
        · exact Or.inr (by rw [h1])
        · left
          intro e
          have := hc.root_unique old_node hp.old_tree hpendold hroot
          exact h1 (e.trans this.symm)
      · rw [e, pageMax_internal t2 _ r5, r8, r4]
        refine ⟨by omega, fun hcond => ?_⟩
        rcases hcond with h1 | h1
        · exact absurd (e.trans r2.symm) (by rw [e]; exact fun x => h1 (by rw [r2]))
        · cases h1
    · rw [InsertIntoParent, if_neg (fun x => hroot ((IsRootPage_iff _).mp x))] at h
      dsimp only at h
      obtain ⟨d1, d2, d3, d4, d5, d6, d7, d8⟩ := insert_child_state t old_node new_node key hp hroot
      rw [d2] at h
      generalize hT : setTreePage t (t.page old_node).parent_page_id
        (BPlusTreeInternalPage.InsertNodeAfter (t.page (t.page old_node).parent_page_id)
          (t.page old_node).page_id key (t.page new_node).page_id).2 = T at h d1 d3 d4 d5
      have hTn : T.next_page_id = t.next_page_id := by rw [← hT]; rfl
      have hTr : T.root_page_id = t.root_page_id := by rw [← hT]; rfl
      have hTl : T.leaf_max_size = t.leaf_max_size := by rw [← hT]; rfl
      have hTi : T.internal_max_size = t.internal_max_size := by rw [← hT]; rfl
      generalize hPdef : (t.page old_node).parent_page_id = P at h d1 d3 d4 d5 d6 d7 d8 hT
      have htree : ∀ q, IsTreePage T q ↔ IsTreePage t q := by
        intro q; unfold IsTreePage; rw [hTn]
      have hTty : (T.page P).page_type = IndexPageType.INTERNAL_PAGE := by
        rw [d4.1]; exact d7
      by_cases hsplit : (t.page P).size + 1 = T.internal_max_size
      · rw [if_pos hsplit] at h
        obtain ⟨e1, e2, e3, e4, e5, e6, e7, e8, e9, e10⟩ :=
          split_internal_state T P d1 ((htree P).mpr d6) hTty (by rw [d3]; omega)
        rw [e1] at h
        obtain ⟨w1, w2, w3, w4⟩ := ih _ _ _ _ _ e2 h
        refine ⟨w1, w2.trans (e3.trans hTl), w3.trans (e4.trans hTi), ?_⟩
        intro hl hi hb
        apply w4 (by rw [e3, hTl]; exact hl) (by rw [e4, hTi]; exact hi)
        intro q hq
        obtain ⟨hcases, _, _, _⟩ := IsTreePage_succ T _ e6
        rcases hcases q hq with hq1 | e
        · obtain ⟨ty, sz⟩ := e10 q hq1
          by_cases hqP : q = P
          · rw [hqP, pageMax_internal _ P ((e10 P ((htree P).mpr d6)).1.trans hTty), e4, e7, d3]
            rw [hTi] at hsplit ⊢
            refine ⟨by omega, fun _ => by omega⟩
          · rw [pageMax_congr T _ q ty e3 e4, sz hqP,
              pageMax_congr t T q (by rw [d5 q hqP]) hTl hTi, d5 q hqP]
            obtain ⟨b1, b2⟩ := hb q ((htree q).mp hq1)
            refine ⟨b1, fun hcond => b2 ?_⟩
            rcases hcond with h1 | h1
            · left
              intro e
              apply h1
              rw [e5, hTr]; exact e
            · exact absurd (Option.some.inj h1).symm hqP
        · rw [e, pageMax_internal _ _ e9, e4, e8, d3]
          rw [hTi] at hsplit ⊢
          refine ⟨by omega, fun _ => by omega⟩
      · rw [if_neg hsplit] at h
        have e := Option.some.inj h
        subst e
        refine ⟨d1, hTl, hTi, ?_⟩
        intro hl hi hb q hq
        obtain ⟨b1, b2⟩ := hb q ((htree q).mp hq)
        by_cases hqP : q = P
        · rw [hqP] at b1 b2 ⊢
          rw [pageMax_congr t T P d4.1 hTl hTi, d3]
          rw [pageMax_internal t P d7] at b1 b2 ⊢
          rw [hTi] at hsplit
          refine ⟨by omega, fun hcond => ?_⟩
          rcases hcond with h1 | h1
          · have := b2 (Or.inl (by rw [← hTr]; exact h1))
            omega
          · cases h1
        · rw [pageMax_congr t T q (by rw [d5 q hqP]) hTl hTi, d5 q hqP]
          refine ⟨b1, fun hcond => b2 ?_⟩
          rcases hcond with h1 | h1
          · left; rw [← hTr]; exact h1
          · cases h1

end BPlusTree
namespace BPlusTreeLeafPage

theorem Insert_ret_cases (p : BPlusTreePage) (key : KeyType) (value : ValueType) :
    (Insert p key value).1 = 1 ∨ (Insert p key value).1 = p.size
    ∨ (Insert p key value).1 = p.size + 1 := by
  unfold Insert
  split_ifs
  · exact Or.inl rfl
  · exact Or.inr (Or.inl rfl)
  · exact Or.inr (Or.inr rfl)

end BPlusTreeLeafPage

namespace BPlusTree

/-- How `InsertIntoLeaf` goes on once `FindLeafPage` has returned the leaf. -/
theorem InsertIntoLeaf_eq (fuel : Nat) (t : BPlusTree) (key : KeyType) (value : ValueType)
    (leaf : page_id_t) (hf : FindLeafPage fuel t key false = some (some leaf)) :
    InsertIntoLeaf fuel t key value
      = if comparator key (BPlusTreeLeafPage.GetItem (t.page leaf)
            (BPlusTreeLeafPage.KeyIndex (t.page leaf) key)).1 = 0 then some (false, t)
        else if (BPlusTreeLeafPage.Insert (t.page leaf) key value).1 = t.leaf_max_size then
          (InsertIntoParent fuel (leafSplitState t leaf key value) leaf
            (BPlusTreeLeafPage.KeyAt ((leafSplitState t leaf key value).page
              (Split true (setTreePage t leaf
                (BPlusTreeLeafPage.Insert (t.page leaf) key value).2) leaf).1) 0)
            (Split true (setTreePage t leaf
                (BPlusTreeLeafPage.Insert (t.page leaf) key value).2) leaf).1).map
            (fun t6 => (true, t6))
        else some (true, setTreePage t leaf
          (BPlusTreeLeafPage.Insert (t.page leaf) key value).2) := by
  unfold InsertIntoLeaf
  rw [hf]
  rfl

/-- The pages of the state in which `InsertIntoLeaf` calls `InsertIntoParent`. -/
theorem leafSplitState_pages (t : BPlusTree) (leaf : page_id_t) (key : KeyType)
    (value : ValueType) (hfresh : leaf ≠ t.next_page_id) (hsz : 0 ≤ (t.page leaf).size)
    (hins : (BPlusTreeLeafPage.Insert (t.page leaf) key value).1 = (t.page leaf).size + 1) :
    (Split true (setTreePage t leaf
        (BPlusTreeLeafPage.Insert (t.page leaf) key value).2) leaf).1 = t.next_page_id
    ∧ (leafSplitState t leaf key value).next_page_id = t.next_page_id + 1
    ∧ (leafSplitState t leaf key value).root_page_id = t.root_page_id
    ∧ (leafSplitState t leaf key value).leaf_max_size = t.leaf_max_size
    ∧ (leafSplitState t leaf key value).internal_max_size = t.internal_max_size
    ∧ ((leafSplitState t leaf key value).page leaf).page_type = (t.page leaf).page_type
    ∧ ((leafSplitState t leaf key value).page leaf).parent_page_id
        = (t.page leaf).parent_page_id
    ∧ ((leafSplitState t leaf key value).page leaf).page_id = (t.page leaf).page_id
    ∧ ((leafSplitState t leaf key value).page leaf).size
        = (t.page leaf).size + 1 - ((t.page leaf).size + 1) / 2
    ∧ ((leafSplitState t leaf key value).page t.next_page_id).page_type
        = IndexPageType.LEAF_PAGE
    ∧ ((leafSplitState t leaf key value).page t.next_page_id).parent_page_id
        = (t.page leaf).parent_page_id
    ∧ ((leafSplitState t leaf key value).page t.next_page_id).page_id = t.next_page_id
    ∧ ((leafSplitState t leaf key value).page t.next_page_id).size
        = ((t.page leaf).size + 1) / 2
    ∧ (∀ q, q ≠ leaf → q ≠ t.next_page_id →
        (leafSplitState t leaf key value).page q = t.page q) := by
  obtain ⟨i1, i2⟩ := BPlusTreeLeafPage.Insert_header (t.page leaf) key value
  have i3 := i2 hsz
  rw [hins] at i3
  generalize hT : setTreePage t leaf (BPlusTreeLeafPage.Insert (t.page leaf) key value).2 = T
  have hTn : T.next_page_id = t.next_page_id := by rw [← hT]; rfl
  have hTleaf : T.page leaf = (BPlusTreeLeafPage.Insert (t.page leaf) key value).2 := by
    rw [← hT, page_setTreePage, if_pos rfl]
  have hToth : ∀ q, q ≠ leaf → T.page q = t.page q := by
    intro q hq; rw [← hT, page_setTreePage, if_neg hq]
  obtain ⟨s1, s2, s3, s4, s5, s6, s7, s8, s9, s10⟩ :=
    Split_pages true T leaf (by rw [hTn]; exact hfresh)
  rw [hTn] at s1 s2 s3 s4 s5 s6 s7
  unfold leafSplitState
  dsimp only
  rw [hT, s1]
  generalize hT2 : (Split true T leaf).2 = T2 at s2 s3 s4 s5 s6 s7 s8 s9 s10 ⊢
  have hne : ¬ t.next_page_id = leaf := fun e => hfresh e.symm
  simp only [page_setTreePage, if_true, if_neg hfresh, if_neg hne]
  have hL : T2.page leaf = (BPlusTreeLeafPage.Insert (t.page leaf) key value).2 := by
    rw [s6 leaf hfresh, hTleaf]
  obtain ⟨m1, m2, m3, m4⟩ := BPlusTreeLeafPage.MoveHalfTo_sizes (T2.page leaf)
    (T2.page t.next_page_id) (by rw [hL, i3]; omega) (by rw [s3])
  rw [hL] at m1 m2 m4
  rw [i3] at m1
  rw [s3] at m3
  rw [hL, i3] at m3
  have hTr : T.root_page_id = t.root_page_id := by rw [← hT]; rfl
  have hTl : T.leaf_max_size = t.leaf_max_size := by rw [← hT]; rfl
  have hTi : T.internal_max_size = t.internal_max_size := by rw [← hT]; rfl
  rw [hL]
  refine ⟨trivial, s7, s8.trans hTr, s9.trans hTl, s10.trans hTi, m2.1.trans i1.1,
    m2.2.2.1.trans i1.2.2.1, m2.2.2.2.1.trans i1.2.2.2.1, m1, ?_, ?_, ?_, ?_, ?_⟩
  · rw [m4.1, s2]; rfl
  · rw [m4.2.2.1, s4, hTleaf]; exact i1.2.2.1
  · rw [m4.2.2.2.1, s5]
  · rw [m3]; omega
  · intro q h1 h2
    rw [if_neg h1, if_neg h2, if_neg h2, if_neg h1, s6 q h2, hToth q h1]

end BPlusTree
namespace BPlusTree

/-- The empty tree of the constructor is well formed and within the size bounds. -/
theorem WF_construct (leaf_max_size internal_max_size : Int) (oob : KeyType) :
    WF (construct leaf_max_size internal_max_size oob)
    ∧ SizeBounds (construct leaf_max_size internal_max_size oob) none := by
  have hno : ∀ q, ¬ IsTreePage (construct leaf_max_size internal_max_size oob) q := by
    intro q hq
    have h1 := hq.1
    have h2 : q < 1 := hq.2
    unfold page_id_t at *
    omega
  refine ⟨⟨Or.inl ⟨rfl, rfl⟩, ?_⟩, fun q hq => absurd hq (hno q)⟩
  refine ⟨?_, ?_, ?_, ?_, ?_, ?_, ?_, ?_, ?_⟩ <;> intro q hq <;> exact absurd hq (hno q)

/-- The tree that `StartNewTree` makes of an empty well-formed tree: one leaf, the
root. -/
theorem StartNewTree_WF (t : BPlusTree) (key : KeyType) (value : ValueType) (hw : WF t)
    (hr : t.root_page_id = INVALID_PAGE_ID) :
    WF (StartNewTree t key value)
    ∧ (StartNewTree t key value).leaf_max_size = t.leaf_max_size
    ∧ (StartNewTree t key value).internal_max_size = t.internal_max_size
    ∧ (2 ≤ t.leaf_max_size → SizeBounds (StartNewTree t key value) none) := by
  have hnext : t.next_page_id = 1 := by
    rcases hw.root_cases with ⟨_, h⟩ | ⟨h, _⟩
    · exact h
    · rw [hr] at h; exact absurd h.1 (by decide)
  have hN : (StartNewTree t key value).next_page_id = 2 := by
    show t.next_page_id + 1 = 2
    rw [hnext]; rfl
  have hR : (StartNewTree t key value).root_page_id = 1 := by
    show t.next_page_id = 1
    exact hnext
  have hpg : (StartNewTree t key value).page 1
      = (BPlusTreeLeafPage.Insert (BPlusTreeLeafPage.Init (zeroPage t.oob) 1 INVALID_PAGE_ID
          t.leaf_max_size) key value).2 := by
    unfold StartNewTree
    dsimp only
    have hn : (NewPage t).1 = 1 := hnext
    have hpg : ∀ (x : page_id_t) (y : page_id_t),
        ({ (NewPage t).2 with root_page_id := x } : BPlusTree).page y = (NewPage t).2.page y :=
      fun _ _ => rfl
    rw [hn, page_setTreePage, if_pos rfl, hpg, page_NewPage, if_pos hnext.symm]
    rfl
  obtain ⟨i1, i2⟩ := BPlusTreeLeafPage.Insert_header
    (BPlusTreeLeafPage.Init (zeroPage t.oob) 1 INVALID_PAGE_ID t.leaf_max_size) key value
  have i3 := i2 (le_refl _)
  have i4 := BPlusTreeLeafPage.Insert_ret_cases
    (BPlusTreeLeafPage.Init (zeroPage t.oob) 1 INVALID_PAGE_ID t.leaf_max_size) key value
  have hsz0 : (BPlusTreeLeafPage.Init (zeroPage t.oob) 1 INVALID_PAGE_ID
      t.leaf_max_size).size = 0 := rfl
  rw [hsz0] at i4
  rw [← hpg] at i1 i3
  have hty : ((StartNewTree t key value).page 1).page_type = IndexPageType.LEAF_PAGE := i1.1
  have hpar : ((StartNewTree t key value).page 1).parent_page_id = INVALID_PAGE_ID :=
    i1.2.2.1
  have hid : ((StartNewTree t key value).page 1).page_id = 1 := i1.2.2.2.1
  have hsz : 0 ≤ ((StartNewTree t key value).page 1).size
      ∧ ((StartNewTree t key value).page 1).size ≤ 1 := by
    rw [i3]
    omega
  have honly : ∀ q, IsTreePage (StartNewTree t key value) q → q = 1 := by
    intro q hq
    have h1 := hq.1
    have h2 := hq.2
    rw [hN] at h2
    unfold page_id_t at *
    omega
  have h1tree : IsTreePage (StartNewTree t key value) 1 := by
    unfold IsTreePage
    rw [hN]
    exact ⟨by decide, by decide⟩
  refine ⟨⟨Or.inr ⟨by rw [hR]; exact h1tree, by rw [hR]; exact hpar⟩, ?_⟩, rfl, rfl, ?_⟩
  · refine ⟨?_, ?_, ?_, ?_, ?_, ?_, ?_, ?_, ?_⟩
    · intro q hq; rw [honly q hq]; exact hid
    · intro q hq; rw [honly q hq]; exact Or.inl hty
    · intro q hq; rw [honly q hq, hpar]; decide
    · intro q hq _ _; rw [honly q hq, hR]
    · intro q hq _ hne; rw [honly q hq] at hne; exact absurd hpar hne
    · intro q hq h; rw [honly q hq, hty] at h; exact absurd h (by decide)
    · intro q hq h; rw [honly q hq, hty] at h; exact absurd h (by decide)
    · intro q hq _; rw [honly q hq]; exact hsz.1
    · intro q hq h; rw [honly q hq, hty] at h; exact absurd h (by decide)
  · intro hl q hq
    rw [honly q hq, pageMax_leaf _ 1 hty]
    have hlm : (StartNewTree t key value).leaf_max_size = t.leaf_max_size := rfl
    rw [hlm]
    refine ⟨by omega, fun hcond => ?_⟩
    rcases hcond with h1 | h1
    · exact absurd hR.symm h1
    · cases h1

end BPlusTree
namespace BPlusTree

/-- The tree that `InsertIntoLeaf` returns is well formed, and within the size bounds
when the tree it was called on is. -/
theorem InsertIntoLeaf_WF (fuel : Nat) (t : BPlusTree) (key : KeyType) (value : ValueType)
    (b : Bool) (t1 : BPlusTree) (hw : WF t)
    (h : InsertIntoLeaf fuel t key value = some (b, t1)) :
    WF t1 ∧ t1.leaf_max_size = t.leaf_max_size
    ∧ t1.internal_max_size = t.internal_max_size
    ∧ (2 ≤ t.leaf_max_size → 3 ≤ t.internal_max_size →
        SizeBounds t none → SizeBounds t1 none) := by
  cases hf : FindLeafPage fuel t key false with
  | none =>
    unfold InsertIntoLeaf at h
    rw [hf] at h
    cases h
  | some o =>
    cases o with
    | none =>
      unfold InsertIntoLeaf at h
      rw [hf] at h
      cases h
    | some leaf =>
      rw [InsertIntoLeaf_eq fuel t key value leaf hf] at h
      obtain ⟨hlt, hlty, hrne⟩ := FindLeafPage_tree t hw fuel key false leaf hf
      have hc := hw.core
      have hrt : IsTreePage t t.root_page_id
          ∧ (t.page t.root_page_id).parent_page_id = INVALID_PAGE_ID := by
        rcases hw.root_cases with ⟨e, _⟩ | e
        · exact absurd e hrne
        · exact e
      have hnotR : ∀ q, IsTreePage t q → q ≠ t.next_page_id := fun q hq e => by
        have := hq.2
        rw [e] at this
        exact lt_irrefl _ this
      by_cases hdup : comparator key (BPlusTreeLeafPage.GetItem (t.page leaf)
          (BPlusTreeLeafPage.KeyIndex (t.page leaf) key)).1 = 0
      · rw [if_pos hdup] at h
        obtain ⟨rfl, rfl⟩ := Prod.mk.inj (Option.some.inj h)
        exact ⟨hw, rfl, rfl, fun _ _ hb => hb⟩
      · rw [if_neg hdup] at h
        have hs0 := hc.leaf_size leaf hlt hlty
        have hins := BPlusTreeLeafPage.Insert_size (t.page leaf) key value hs0 hdup
        obtain ⟨i1, i2⟩ := BPlusTreeLeafPage.Insert_header (t.page leaf) key value
        have i3 := i2 hs0
        rw [hins] at i3
        rw [hins] at h
        by_cases hsplit : (t.page leaf).size + 1 = t.leaf_max_size
        · rw [if_pos hsplit] at h
          obtain ⟨p1, p2, p3, p4, p5, p6, p7, p8, p9, p10, p11, p12, p13, p14⟩ :=
            leafSplitState_pages t leaf key value (hnotR leaf hlt) hs0 hins
          rw [p1] at h
          generalize hS : leafSplitState t leaf key value = S
            at h p2 p3 p4 p5 p6 p7 p8 p9 p10 p11 p12 p13 p14
          obtain ⟨hcases, hup, _, hRtree⟩ := IsTreePage_succ t S p2
          have hdr : ∀ q, IsTreePage t q →
              (S.page q).page_type = (t.page q).page_type
              ∧ (S.page q).parent_page_id = (t.page q).parent_page_id
              ∧ (S.page q).page_id = (t.page q).page_id := by
            intro q hq
            by_cases hql : q = leaf
            · rw [hql]; exact ⟨p6, p7, p8⟩
            · rw [p14 q hql (hnotR q hq)]; exact ⟨rfl, rfl, rfl⟩
          have hcore : Core S (some t.next_page_id) := by
            refine Core_new_leaf t S leaf hc hlt p2 p3 hdr ?_ ?_ p10 p12 p11
              (by rw [p13]; omega)
            · intro q hq hty
              have hql : q ≠ leaf := by
                intro e; rw [e, hlty] at hty; exact absurd hty (by decide)
              exact p14 q hql (hnotR q hq)
            · intro q hq hty
              by_cases hql : q = leaf
              · rw [hql, p9]; omega
              · rw [p14 q hql (hnotR q hq)]; exact hc.leaf_size q hq hty
          have hpend : Pending S leaf t.next_page_id := by
            refine ⟨by rw [p3]; exact hup _ hrt.1, ?_, hup _ hlt, hRtree _ hlt,
              hnotR leaf hlt, p11.trans p7.symm, hcore⟩
            rw [p3, (hdr _ hrt.1).2.1]
            exact hrt.2
          cases hip : InsertIntoParent fuel S leaf
              (BPlusTreeLeafPage.KeyAt (S.page t.next_page_id) 0) t.next_page_id with
          | none => rw [hip] at h; cases h
          | some t6 =>
            rw [hip] at h
            obtain ⟨rfl, rfl⟩ := Prod.mk.inj (Option.some.inj h)
            obtain ⟨w1, w2, w3, w4⟩ := InsertIntoParent_WF fuel S leaf _ t.next_page_id t6 hpend hip
            refine ⟨w1, w2.trans p4, w3.trans p5, ?_⟩
            intro hl hi hb
            apply w4 (by rw [p4]; exact hl) (by rw [p5]; exact hi)
            intro q hq
            rcases hcases q hq with hq1 | e
            · by_cases hql : q = leaf
              · rw [hql, pageMax_leaf S leaf (p6.trans hlty), p4, p9]
                refine ⟨by omega, fun _ => by omega⟩
              · rw [pageMax_congr t S q (hdr q hq1).1 p4 p5, p14 q hql (hnotR q hq1)]
                obtain ⟨b1, b2⟩ := hb q hq1
                refine ⟨b1, fun hcond => b2 ?_⟩
                rcases hcond with h1 | h1
                · left; rw [← p3]; exact h1
                · exact absurd (Option.some.inj h1).symm hql
            · rw [e, pageMax_leaf S _ p10, p4, p13]
              refine ⟨by omega, fun _ => by omega⟩
        · rw [if_neg hsplit] at h
          generalize hT : setTreePage t leaf
            (BPlusTreeLeafPage.Insert (t.page leaf) key value).2 = T at h
          obtain ⟨rfl, rfl⟩ := Prod.mk.inj (Option.some.inj h)
          have hTleaf : T.page leaf = (BPlusTreeLeafPage.Insert (t.page leaf) key value).2 := by
            rw [← hT, page_setTreePage, if_pos rfl]
          have hToth : ∀ q, q ≠ leaf → T.page q = t.page q := by
            intro q hq; rw [← hT, page_setTreePage, if_neg hq]
          have hTn : T.next_page_id = t.next_page_id := by rw [← hT]; rfl
          have hTr : T.root_page_id = t.root_page_id := by rw [← hT]; rfl
          have hTl : T.leaf_max_size = t.leaf_max_size := by rw [← hT]; rfl
          have hTi : T.internal_max_size = t.internal_max_size := by rw [← hT]; rfl
          have htree : ∀ q, IsTreePage T q ↔ IsTreePage t q := by
            intro q; unfold IsTreePage; rw [hTn]
          have hdr : ∀ q, IsTreePage t q →
              (T.page q).page_type = (t.page q).page_type
              ∧ (T.page q).parent_page_id = (t.page q).parent_page_id
              ∧ (T.page q).page_id = (t.page q).page_id := by
            intro q hq
            by_cases hql : q = leaf
            · rw [hql, hTleaf]; exact ⟨i1.1, i1.2.2.1, i1.2.2.2.1⟩
            · rw [hToth q hql]; exact ⟨rfl, rfl, rfl⟩
          have hcore : Core T none := by
            refine Core_frame t T none hc hTn hTr hdr ?_ ?_
            · intro q hq hty
              have hql : q ≠ leaf := by
                intro e; rw [e, hlty] at hty; exact absurd hty (by decide)
              exact hToth q hql
            · intro q hq hty
              by_cases hql : q = leaf
              · rw [hql, hTleaf, i3]; omega
              · rw [hToth q hql]; exact hc.leaf_size q hq hty
          refine ⟨⟨Or.inr ⟨by rw [hTr]; exact (htree _).mpr hrt.1, ?_⟩, hcore⟩, hTl, hTi, ?_⟩
          · rw [hTr, (hdr _ hrt.1).2.1]; exact hrt.2
          · intro hl hi hb q hq
            obtain ⟨b1, b2⟩ := hb q ((htree q).mp hq)
            rw [pageMax_congr t T q (hdr q ((htree q).mp hq)).1 hTl hTi]
            by_cases hql : q = leaf
            · rw [hql] at b1 b2 ⊢
              rw [hTleaf, i3]
              rw [pageMax_leaf t leaf hlty] at b1 b2 ⊢
              refine ⟨by omega, fun hcond => ?_⟩
              rcases hcond with h1 | h1
              · have := b2 (Or.inl (by rw [← hTr]; exact h1))
                omega
              · cases h1
            · rw [hToth q hql]
              refine ⟨b1, fun hcond => b2 ?_⟩
              rcases hcond with h1 | h1
              · left; rw [← hTr]; exact h1
              · cases h1

/-- The tree that `Insert` returns is well formed, and within the size bounds when the
tree it was called on is. -/
theorem Insert_WF (fuel : Nat) (t : BPlusTree) (key : KeyType) (value : ValueType)
    (b : Bool) (t1 : BPlusTree) (hw : WF t)
    (h : Insert fuel t key value = some (b, t1)) :
    WF t1 ∧ t1.leaf_max_size = t.leaf_max_size
    ∧ t1.internal_max_size = t.internal_max_size
    ∧ (2 ≤ t.leaf_max_size → 3 ≤ t.internal_max_size →
        SizeBounds t none → SizeBounds t1 none) := by
  unfold Insert at h
  by_cases hr : t.root_page_id = INVALID_PAGE_ID
  · rw [if_pos hr] at h
    obtain ⟨rfl, rfl⟩ := Prod.mk.inj (Option.some.inj h)
    obtain ⟨a1, a2, a3, a4⟩ := StartNewTree_WF t key value hw hr
    exact ⟨a1, a2, a3, fun hl _ _ => a4 hl⟩
  · rw [if_neg hr] at h
    exact InsertIntoLeaf_WF fuel t key value b t1 hw h

/-- The tree after a sequence of `Insert` calls is well formed, and within the size
bounds when the tree at the start is. -/
theorem InsertAll_WF (fuel : Nat) : ∀ (pairs : List (KeyType × ValueType)) (t : BPlusTree)
    (bs : List Bool) (t1 : BPlusTree), WF t → InsertAll fuel t pairs = some (bs, t1) →
    WF t1 ∧ t1.leaf_max_size = t.leaf_max_size
    ∧ t1.internal_max_size = t.internal_max_size
    ∧ (2 ≤ t.leaf_max_size → 3 ≤ t.internal_max_size →
        SizeBounds t none → SizeBounds t1 none) := by
  intro pairs
  induction pairs with
  | nil =>
    intro t bs t1 hw h
    rw [InsertAll] at h
    obtain ⟨rfl, rfl⟩ := Prod.mk.inj (Option.some.inj h)
    exact ⟨hw, rfl, rfl, fun _ _ hb => hb⟩
  | cons p rest ih =>
    intro t bs t1 hw h
    obtain ⟨key, value⟩ := p
    rw [InsertAll] at h
    cases hi : Insert fuel t key value with
    | none => rw [hi] at h; cases h
    | some r =>
      obtain ⟨b, t2⟩ := r
      rw [hi] at h
      dsimp only at h
      cases hrest : InsertAll fuel t2 rest with
      | none => rw [hrest] at h; cases h
      | some r2 =>
        obtain ⟨bs2, t3⟩ := r2
        rw [hrest] at h
        dsimp only at h
        obtain ⟨_, rfl⟩ := Prod.mk.inj (Option.some.inj h)
        obtain ⟨a1, a2, a3, a4⟩ := Insert_WF fuel t key value b t2 hw hi
        obtain ⟨c1, c2, c3, c4⟩ := ih t2 bs2 t3 a1 hrest
        refine ⟨c1, c2.trans a2, c3.trans a3, fun hl hi hb => ?_⟩
        exact c4 (by rw [a2]; exact hl) (by rw [a3]; exact hi) (a4 hl hi hb)

end BPlusTree
namespace BPlusTree

theorem Ranked_mono (t : BPlusTree) (lvl : page_id_t → Nat) (B C : Nat) (h : Ranked t lvl B)
    (hBC : B ≤ C) : Ranked t lvl C :=
  fun q hq => ⟨le_trans (h q hq).1 hBC, (h q hq).2⟩

theorem Ranked_construct (leaf_max_size internal_max_size : Int) (oob : KeyType) :
    Ranked (construct leaf_max_size internal_max_size oob) (fun _ => 0) 0 := by
  intro q hq
  have h1 := hq.1
  have h2 : q < 1 := hq.2
  unfold page_id_t at *
  omega

/-- A ranking carries over to a state with the same pages handed out in which every
page has the parent pointer it had. -/
theorem Ranked_frame (t t1 : BPlusTree) (lvl : page_id_t → Nat) (B : Nat)
    (h : Ranked t lvl B) (hnext : t1.next_page_id = t.next_page_id)
    (hpar : ∀ q, IsTreePage t q → (t1.page q).parent_page_id = (t.page q).parent_page_id) :
    Ranked t1 lvl B := by
  intro q hq
  have hq1 : IsTreePage t q := by
    unfold IsTreePage at hq ⊢
    rw [hnext] at hq
    exact hq
  rw [hpar q hq1]
  exact h q hq1

/-- With more fuel than the level of the page it starts on, the loop of `FindLeafPage`
returns a leaf. -/
theorem FindLeafPageLoop_returns (t : BPlusTree) (hc : Core t none) (lvl : page_id_t → Nat)
    (B : Nat) (hr : Ranked t lvl B) (key : KeyType) (leftMost : Bool) :
    ∀ (n : Nat) (pid : page_id_t), IsTreePage t pid → lvl pid < n →
      ∃ leaf, FindLeafPageLoop t key leftMost n pid = some leaf := by
  intro n
  induction n with
  | zero => intro pid _ h; exact absurd h (Nat.not_lt_zero _)
  | succ n ih =>
    intro pid hp hlv
    rw [FindLeafPageLoop]
    by_cases hl : (t.page pid).IsLeafPage = true
    · rw [if_pos hl]
      exact ⟨pid, rfl⟩
    · rw [if_neg hl]
      have hty : (t.page pid).page_type = IndexPageType.INTERNAL_PAGE := by
        rcases hc.typed pid hp with e | e
        · exact absurd ((IsLeafPage_iff _).mpr e) hl
        · exact e
      have hsz := hc.internal_size pid hp hty
      have hpinv : pid ≠ INVALID_PAGE_ID := by
        intro e
        rw [e] at hp
        exact absurd hp.1 (by decide)
      have hchild : ∀ m, 0 ≤ m → m < (t.page pid).size →
          IsTreePage t ((t.page pid).slot m).2 ∧ lvl ((t.page pid).slot m).2 < n := by
        intro m m1 m2
        obtain ⟨a1, a2, _⟩ := hc.child_of pid hp hty m m1 m2
        refine ⟨a1, ?_⟩
        have := (hr _ a1).2 (by rw [a2]; exact hpinv)
        rw [a2] at this
        omega
      cases leftMost with
      | true =>
        obtain ⟨a1, a2⟩ := hchild 0 (le_refl _) (by omega)
        exact ih _ a1 a2
      | false =>
        obtain ⟨m, m1, m2, m3⟩ := BPlusTreeInternalPage.Lookup_child (t.page pid) key hsz
        simp only [Bool.false_eq_true, if_false]
        rw [m3]
        obtain ⟨a1, a2⟩ := hchild m m1 m2
        exact ih _ a1 a2

/-- On a well-formed tree with a root, `FindLeafPage` returns a leaf when the fuel is
above the levels of the pages. -/
theorem FindLeafPage_returns (t : BPlusTree) (hw : WF t) (lvl : page_id_t → Nat) (B : Nat)
    (hr : Ranked t lvl B) (hroot : t.root_page_id ≠ INVALID_PAGE_ID) (fuel : Nat)
    (hf : B < fuel) (key : KeyType) (leftMost : Bool) :
    ∃ leaf, FindLeafPage fuel t key leftMost = some (some leaf) := by
  have hrt : IsTreePage t t.root_page_id := by
    rcases hw.root_cases with ⟨e, _⟩ | ⟨e, _⟩
    · exact absurd e hroot
    · exact e
  obtain ⟨leaf, hl⟩ := FindLeafPageLoop_returns t hw.core lvl B hr key leftMost fuel _ hrt
    (lt_of_le_of_lt (hr _ hrt).1 hf)
  refine ⟨leaf, ?_⟩
  unfold FindLeafPage
  rw [if_neg hroot, hl]
  rfl

/-- The parent pointers after `Split` and `MoveHalfTo` on an internal page of a
well-formed tree: the page keeps its parent pointer, the fresh page gets the
same, and every other page keeps its own or was a child of the page and now has
the fresh page as its parent. -/
theorem split_internal_parents (t : BPlusTree) (P : page_id_t) (hw : WF t)
    (hP : IsTreePage t P) (hty : (t.page P).page_type = IndexPageType.INTERNAL_PAGE) :
    ((InternalMoveHalfTo (Split false t P).2 P t.next_page_id).page P).parent_page_id
        = (t.page P).parent_page_id
    ∧ ((InternalMoveHalfTo (Split false t P).2 P t.next_page_id).page
        t.next_page_id).parent_page_id = (t.page P).parent_page_id
    ∧ (∀ q, IsTreePage t q →
        ((InternalMoveHalfTo (Split false t P).2 P t.next_page_id).page q).parent_page_id
          = (t.page q).parent_page_id
        ∨ (((InternalMoveHalfTo (Split false t P).2 P t.next_page_id).page q).parent_page_id
            = t.next_page_id
          ∧ (t.page q).parent_page_id = P)) := by
  have hc := hw.core
  have hPR : P ≠ t.next_page_id := fun e => by
    have := hP.2
    rw [e] at this
    exact lt_irrefl _ this
  obtain ⟨s1, s2, s3, s4, s5, s6, s7, s8, s9, s10⟩ := Split_pages false t P hPR
  have hch : ∀ j, 0 ≤ j → j < (t.page P).size →
      IsTreePage t ((t.page P).slot j).2
      ∧ (t.page ((t.page P).slot j).2).parent_page_id = P := by
    intro j h1 h2
    obtain ⟨a, b, _⟩ := hc.child_of P hP hty j h1 h2
    exact ⟨a, b⟩
  have hnotR : ∀ q, IsTreePage t q → q ≠ t.next_page_id := fun q hq e => by
    have := hq.2
    rw [e] at this
    exact lt_irrefl _ this
  have hPpage : (Split false t P).2.page P = t.page P := s6 P hPR
  have hsz := hc.internal_size P hP hty
  obtain ⟨m1, m2, m3, m4, m5, m6, m7, m8, m9⟩ :=
    InternalMoveHalfTo_pages (Split false t P).2 P t.next_page_id hPR
      (by rw [hPpage]; omega) s3
      (by
        intro j h1 h2
        rw [hPpage] at h2 ⊢
        obtain ⟨a, b⟩ := hch j h1 h2
        refine ⟨hnotR _ a, fun e => ?_⟩
        have := hc.no_self _ a
        rw [b] at this
        exact this e.symm)
  rw [hPpage] at m1 m2 m3 m4 m6 m7 m8
  rw [s5] at m7
  refine ⟨m2.2.2.1, by rw [m5.2.2.1, s4], ?_⟩
  intro q hq
  by_cases hqP : q = P
  · left; rw [hqP]; exact m2.2.2.1
  · by_cases hm : IsChildFrom t P ((t.page P).size - (t.page P).size / 2) q
    · right
      obtain ⟨j, h1, h2, h3⟩ := hm
      have e := m7 j h1 h2
      rw [h3] at e
      rw [e]
      have := (hch j (by omega) h2).2
      rw [h3] at this
      exact ⟨rfl, this⟩
    · left
      rw [m8 q (hnotR q hq) hqP (fun j h1 h2 e => hm ⟨j, h1, h2, e⟩), s6 q (hnotR q hq)]

end BPlusTree
namespace BPlusTree

/-- A ranking extended to a fresh page. -/
theorem Ranked_fresh (t t1 : BPlusTree) (lvl : page_id_t → Nat) (B C v : Nat)
    (h : Ranked t lvl B) (hBC : B ≤ C) (hv : v ≤ C)
    (hnext : t1.next_page_id = t.next_page_id + 1)
    (hfresh : (t1.page t.next_page_id).parent_page_id ≠ INVALID_PAGE_ID →
      IsTreePage t (t1.page t.next_page_id).parent_page_id
      ∧ v < lvl (t1.page t.next_page_id).parent_page_id)
    (hold : ∀ q, IsTreePage t q →
      ((t1.page q).parent_page_id = (t.page q).parent_page_id
        ∧ ((t.page q).parent_page_id ≠ INVALID_PAGE_ID →
            IsTreePage t (t.page q).parent_page_id))
      ∨ ((t1.page q).parent_page_id = t.next_page_id ∧ lvl q < v)) :
    Ranked t1 (Function.update lvl t.next_page_id v) C := by
  obtain ⟨hcases, _, hlt, _⟩ := IsTreePage_succ t t1 hnext
  have hup : ∀ q, IsTreePage t q → Function.update lvl t.next_page_id v q = lvl q :=
    fun q hq => Function.update_noteq (hlt q hq) _ _
  intro q hq
  rcases hcases q hq with hq1 | e
  · rw [hup q hq1]
    refine ⟨le_trans (h q hq1).1 hBC, fun hne => ?_⟩
    rcases hold q hq1 with ⟨e1, e2⟩ | ⟨e1, e2⟩
    · rw [e1] at hne ⊢
      rw [hup _ (e2 hne)]
      exact (h q hq1).2 hne
    · rw [e1, Function.update_same]
      exact e2
  · rw [e, Function.update_same]
    refine ⟨hv, fun hne => ?_⟩
    obtain ⟨a1, a2⟩ := hfresh hne
    rw [hup _ a1]
    exact a2

/-- With enough fuel for the levels above `old_node`, `InsertIntoParent` returns, and the
tree it returns has a ranking. -/
theorem InsertIntoParent_returns : ∀ (fuel : Nat) (t : BPlusTree) (old_node : page_id_t)
    (key : KeyType) (new_node : page_id_t) (lvl : page_id_t → Nat) (B : Nat),
    Pending t old_node new_node → Ranked t lvl B → B < fuel + lvl old_node →
    ∃ t1, InsertIntoParent fuel t old_node key new_node = some t1
      ∧ ∃ lvl1, Ranked t1 lvl1 (B + 1) := by
  intro fuel
  induction fuel with
  | zero =>
    intro t old_node key new_node lvl B hp hr hf
    have := (hr old_node hp.old_tree).1
    omega
  | succ fuel ih =>
    intro t old_node key new_node lvl B hp hr hf
    have hc := hp.core
    have hpendold : (some new_node : Option page_id_t) ≠ some old_node :=
      fun e => hp.ne (Option.some.inj e).symm
    have hnotR : ∀ q, IsTreePage t q → q ≠ t.next_page_id := fun q hq e => by
      have := hq.2
      rw [e] at this
      exact lt_irrefl _ this
    by_cases hroot : (t.page old_node).parent_page_id = INVALID_PAGE_ID
    · obtain ⟨t2, r0, r1, r2, r3, r4, r5, r6, r7, r8, r9, r10, r11, r12, r13⟩ :=
        InsertIntoParent_root fuel t old_node new_node key hroot (hnotR _ hp.old_tree)
          (hnotR _ hp.new_tree) hp.ne (hc.page_id_eq _ hp.old_tree)
          (hc.page_id_eq _ hp.new_tree)
      refine ⟨t2, r0, Function.update lvl t.next_page_id (B + 1), ?_⟩
      refine Ranked_fresh t t2 lvl B (B + 1) (B + 1) hr (Nat.le_succ B) (le_refl _) r1
        (fun hne => absurd r6 hne) ?_
      intro q hq
      by_cases h1 : q = old_node
      · right
        rw [h1, r11]
        exact ⟨rfl, Nat.lt_succ_of_le (hr _ hp.old_tree).1⟩
      · by_cases h2 : q = new_node
        · right
          rw [h2, r12]
          exact ⟨rfl, Nat.lt_succ_of_le (hr _ hp.new_tree).1⟩
        · left
          rw [r13 q (hnotR q hq) h1 h2]
          have hne : (some new_node : Option page_id_t) ≠ some q :=
            fun e => h2 (Option.some.inj e).symm
          exact ⟨rfl, fun hpar => (hc.parent_of q hq hne hpar).1⟩
    · rw [InsertIntoParent, if_neg (fun x => hroot ((IsRootPage_iff _).mp x))]
      dsimp only
      obtain ⟨d1, d2, d3, d4, d5, d6, d7, d8⟩ :=
        insert_child_state t old_node new_node key hp hroot
      rw [d2]
      have hlvP := (hr old_node hp.old_tree).2 hroot
      generalize hT : setTreePage t (t.page old_node).parent_page_id
        (BPlusTreeInternalPage.InsertNodeAfter (t.page (t.page old_node).parent_page_id)
          (t.page old_node).page_id key (t.page new_node).page_id).2 = T at d1 d3 d4 d5 ⊢
      have hTn : T.next_page_id = t.next_page_id := by rw [← hT]; rfl
      generalize hPdef : (t.page old_node).parent_page_id = P at d1 d3 d4 d5 d6 d7 d8 hT hlvP ⊢
      have htree : ∀ q, IsTreePage T q ↔ IsTreePage t q := by
        intro q; unfold IsTreePage; rw [hTn]
      have hTty : (T.page P).page_type = IndexPageType.INTERNAL_PAGE := by
        rw [d4.1]; exact d7
      have hrT : Ranked T lvl B := by
        refine Ranked_frame t T lvl B hr hTn ?_
        intro q _
        by_cases hqP : q = P
        · rw [hqP]; exact d4.2.2.1
        · rw [d5 q hqP]
      by_cases hsplit : (t.page P).size + 1 = T.internal_max_size
      · rw [if_pos hsplit]
        obtain ⟨e1, e2, e3, e4, e5, e6, e7, e8, e9, e10⟩ :=
          split_internal_state T P d1 ((htree P).mpr d6) hTty (by rw [d3]; omega)
        obtain ⟨f1, f2, f3⟩ := split_internal_parents T P d1 ((htree P).mpr d6) hTty
        rw [e1]
        have hnone : ∀ q : page_id_t, (none : Option page_id_t) ≠ some q := by intro q; simp
        have hr3 : Ranked (InternalMoveHalfTo (Split false T P).2 P T.next_page_id)
            (Function.update lvl T.next_page_id (lvl P)) B := by
          refine Ranked_fresh T _ lvl B B (lvl P) hrT (le_refl _)
            (hrT P ((htree P).mpr d6)).1 e6 ?_ ?_
          · intro hne
            rw [f2] at hne ⊢
            exact ⟨(d1.core.parent_of P ((htree P).mpr d6) (hnone P) hne).1,
              (hrT P ((htree P).mpr d6)).2 hne⟩
          · intro q hq
            rcases f3 q hq with e | ⟨e, e0⟩
            · left
              exact ⟨e, fun hpar => (d1.core.parent_of q hq (hnone q) hpar).1⟩
            · right
              refine ⟨e, ?_⟩
              have hPinv : P ≠ INVALID_PAGE_ID := by
                intro x
                rw [x] at d6
                exact absurd d6.1 (by decide)
              have := (hrT q hq).2 (by rw [e0]; exact hPinv)
              rw [e0] at this
              exact this
        have hPR : P ≠ T.next_page_id := by
          rw [hTn]; exact hnotR P d6
        have hlv : Function.update lvl T.next_page_id (lvl P) P = lvl P :=
          Function.update_noteq hPR _ _
        obtain ⟨t1, g1, lvl1, g2⟩ := ih _ P
          (BPlusTreeInternalPage.KeyAt
            ((InternalMoveHalfTo (Split false T P).2 P T.next_page_id).page T.next_page_id) 0)
          T.next_page_id _ B e2 hr3 (by rw [hlv]; omega)
        exact ⟨t1, g1, lvl1, g2⟩
      · rw [if_neg hsplit]
        exact ⟨T, rfl, lvl, Ranked_mono T lvl B (B + 1) hrT (Nat.le_succ B)⟩

end BPlusTree
namespace BPlusTree

/-- The state in which `InsertIntoLeaf` calls `InsertIntoParent` has the new leaf pending, and
the pages of the tree have the parent pointers they had. -/
theorem leafSplitState_pending (t : BPlusTree) (leaf : page_id_t) (key : KeyType)
    (value : ValueType) (hw : WF t) (hlt : IsTreePage t leaf)
    (hlty : (t.page leaf).page_type = IndexPageType.LEAF_PAGE)
    (hrne : t.root_page_id ≠ INVALID_PAGE_ID)
    (hins : (BPlusTreeLeafPage.Insert (t.page leaf) key value).1 = (t.page leaf).size + 1) :
    Pending (leafSplitState t leaf key value) leaf t.next_page_id
    ∧ (leafSplitState t leaf key value).next_page_id = t.next_page_id + 1
    ∧ ((leafSplitState t leaf key value).page t.next_page_id).parent_page_id
        = (t.page leaf).parent_page_id
    ∧ (∀ q, IsTreePage t q →
        ((leafSplitState t leaf key value).page q).parent_page_id
          = (t.page q).parent_page_id) := by
  have hc := hw.core
  have hrt : IsTreePage t t.root_page_id
      ∧ (t.page t.root_page_id).parent_page_id = INVALID_PAGE_ID := by
    rcases hw.root_cases with ⟨e, _⟩ | e
    · exact absurd e hrne
    · exact e
  have hnotR : ∀ q, IsTreePage t q → q ≠ t.next_page_id := fun q hq e => by
    have := hq.2
    rw [e] at this
    exact lt_irrefl _ this
  have hs0 := hc.leaf_size leaf hlt hlty
  obtain ⟨p1, p2, p3, p4, p5, p6, p7, p8, p9, p10, p11, p12, p13, p14⟩ :=
    leafSplitState_pages t leaf key value (hnotR leaf hlt) hs0 hins
  generalize hS : leafSplitState t leaf key value = S
    at p2 p3 p4 p5 p6 p7 p8 p9 p10 p11 p12 p13 p14
  obtain ⟨_, hup, _, hRtree⟩ := IsTreePage_succ t S p2
  have hdr : ∀ q, IsTreePage t q →
      (S.page q).page_type = (t.page q).page_type
      ∧ (S.page q).parent_page_id = (t.page q).parent_page_id
      ∧ (S.page q).page_id = (t.page q).page_id := by
    intro q hq
    by_cases hql : q = leaf
    · rw [hql]; exact ⟨p6, p7, p8⟩
    · rw [p14 q hql (hnotR q hq)]; exact ⟨rfl, rfl, rfl⟩
  have hcore : Core S (some t.next_page_id) := by
    refine Core_new_leaf t S leaf hc hlt p2 p3 hdr ?_ ?_ p10 p12 p11
      (by rw [p13]; omega)
    · intro q hq hty
      have hql : q ≠ leaf := by
        intro e; rw [e, hlty] at hty; exact absurd hty (by decide)
      exact p14 q hql (hnotR q hq)
    · intro q hq hty
      by_cases hql : q = leaf
      · rw [hql, p9]; omega
      · rw [p14 q hql (hnotR q hq)]; exact hc.leaf_size q hq hty
  refine ⟨⟨by rw [p3]; exact hup _ hrt.1, ?_, hup _ hlt, hRtree _ hlt,
    hnotR leaf hlt, p11.trans p7.symm, hcore⟩, p2, p11, fun q hq => (hdr q hq).2.1⟩
  rw [p3, (hdr _ hrt.1).2.1]
  exact hrt.2

/-- On a well-formed tree with a root, `InsertIntoLeaf` returns when the fuel is above the
levels of the pages, and the tree it returns has a ranking. -/
theorem InsertIntoLeaf_returns (fuel : Nat) (t : BPlusTree) (key : KeyType)
    (value : ValueType) (lvl : page_id_t → Nat) (B : Nat) (hw : WF t)
    (hrne : t.root_page_id ≠ INVALID_PAGE_ID) (hr : Ranked t lvl B) (hf : B < fuel) :
    ∃ r, InsertIntoLeaf fuel t key value = some r ∧ ∃ lvl1, Ranked r.2 lvl1 (B + 1) := by
  obtain ⟨leaf, hfl⟩ := FindLeafPage_returns t hw lvl B hr hrne fuel hf key false
  rw [InsertIntoLeaf_eq fuel t key value leaf hfl]
  obtain ⟨hlt, hlty, _⟩ := FindLeafPage_tree t hw fuel key false leaf hfl
  have hc := hw.core
  have hnone : ∀ q : page_id_t, (none : Option page_id_t) ≠ some q := by intro q; simp
  by_cases hdup : comparator key (BPlusTreeLeafPage.GetItem (t.page leaf)
      (BPlusTreeLeafPage.KeyIndex (t.page leaf) key)).1 = 0
  · rw [if_pos hdup]
    exact ⟨(false, t), rfl, lvl, Ranked_mono t lvl B (B + 1) hr (Nat.le_succ B)⟩
  · rw [if_neg hdup]
    have hs0 := hc.leaf_size leaf hlt hlty
    have hins := BPlusTreeLeafPage.Insert_size (t.page leaf) key value hs0 hdup
    obtain ⟨i1, _⟩ := BPlusTreeLeafPage.Insert_header (t.page leaf) key value
    by_cases hsplit : (BPlusTreeLeafPage.Insert (t.page leaf) key value).1 = t.leaf_max_size
    · rw [if_pos hsplit]
      have hnotR : leaf ≠ t.next_page_id := fun e => by
        have := hlt.2
        rw [e] at this
        exact lt_irrefl _ this
      have p1 := (leafSplitState_pages t leaf key value hnotR hs0 hins).1
      obtain ⟨q1, q2, q3, q4⟩ := leafSplitState_pending t leaf key value hw hlt hlty hrne hins
      rw [p1]
      have hr3 : Ranked (leafSplitState t leaf key value)
          (Function.update lvl t.next_page_id (lvl leaf)) B := by
        refine Ranked_fresh t _ lvl B B (lvl leaf) hr (le_refl _) (hr leaf hlt).1 q2 ?_ ?_
        · intro hne
          rw [q3] at hne ⊢
          exact ⟨(hc.parent_of leaf hlt (hnone leaf) hne).1, (hr leaf hlt).2 hne⟩
        · intro q hq
          left
          exact ⟨q4 q hq, fun hpar => (hc.parent_of q hq (hnone q) hpar).1⟩
      have hlv : Function.update lvl t.next_page_id (lvl leaf) leaf = lvl leaf :=
        Function.update_noteq hnotR _ _
      obtain ⟨t1, g1, lvl1, g2⟩ := InsertIntoParent_returns fuel
        (leafSplitState t leaf key value) leaf
        (BPlusTreeLeafPage.KeyAt ((leafSplitState t leaf key value).page t.next_page_id) 0)
        t.next_page_id _ B q1 hr3 (by rw [hlv]; omega)
      rw [g1]
      exact ⟨(true, t1), rfl, lvl1, g2⟩
    · rw [if_neg hsplit]
      refine ⟨_, rfl, lvl, ?_⟩
      refine Ranked_mono _ lvl B (B + 1) ?_ (Nat.le_succ B)
      refine Ranked_frame t _ lvl B hr rfl ?_
      intro q _
      rw [page_setTreePage]
      by_cases hql : q = leaf
      · rw [if_pos hql, hql]; exact i1.2.2.1
      · rw [if_neg hql]

/-- On a well-formed tree, `Insert` returns when the fuel is above the levels of the
pages, and the tree it returns has a ranking. -/
theorem Insert_returns (fuel : Nat) (t : BPlusTree) (key : KeyType) (value : ValueType)
    (lvl : page_id_t → Nat) (B : Nat) (hw : WF t) (hr : Ranked t lvl B) (hf : B < fuel) :
    ∃ r, Insert fuel t key value = some r ∧ ∃ lvl1, Ranked r.2 lvl1 (B + 1) := by
  unfold Insert
  by_cases hroot : t.root_page_id = INVALID_PAGE_ID
  · rw [if_pos hroot]
    refine ⟨_, rfl, fun _ => 0, ?_⟩
    obtain ⟨a1, _, _, _⟩ := StartNewTree_WF t key value hw hroot
    have hnext : t.next_page_id = 1 := by
      rcases hw.root_cases with ⟨_, h⟩ | ⟨h, _⟩
      · exact h
      · rw [hroot] at h; exact absurd h.1 (by decide)
    have hN : (StartNewTree t key value).next_page_id = 2 := by
      show t.next_page_id + 1 = 2
      rw [hnext]; rfl
    have hR : (StartNewTree t key value).root_page_id = 1 := by
      show t.next_page_id = 1
      exact hnext
    intro q hq
    have hq1 : q = 1 := by
      have h1 := hq.1
      have h2 := hq.2
      rw [hN] at h2
      unfold page_id_t at *
      omega
    refine ⟨Nat.zero_le _, fun hne => ?_⟩
    rcases a1.root_cases with ⟨e, _⟩ | ⟨_, e⟩
    · rw [hR] at e; exact absurd e (by decide)
    · rw [hR] at e
      rw [hq1] at hne
      exact absurd e hne
  · rw [if_neg hroot]
    exact InsertIntoLeaf_returns fuel t key value lvl B hw hroot hr hf

/-- A sequence of `Insert` calls on a well-formed tree returns when the fuel is above the
levels of the pages by the length of the sequence. -/
theorem InsertAll_returns (fuel : Nat) : ∀ (pairs : List (KeyType × ValueType))
    (t : BPlusTree) (lvl : page_id_t → Nat) (B : Nat), WF t → Ranked t lvl B →
    B + pairs.length ≤ fuel → ∃ r, InsertAll fuel t pairs = some r := by
  intro pairs
  induction pairs with
  | nil =>
    intro t lvl B _ _ _
    exact ⟨([], t), rfl⟩
  | cons p rest ih =>
    intro t lvl B hw hr hf
    obtain ⟨key, value⟩ := p
    rw [List.length_cons] at hf
    obtain ⟨r1, h1, lvl1, h2⟩ := Insert_returns fuel t key value lvl B hw hr (by omega)
    obtain ⟨b, t1⟩ := r1
    obtain ⟨w1, _, _, _⟩ := Insert_WF fuel t key value b t1 hw h1
    obtain ⟨r2, h3⟩ := ih t1 lvl1 (B + 1) w1 h2 (by omega)
    obtain ⟨bs, t2⟩ := r2
    refine ⟨(b :: bs, t2), ?_⟩
    rw [InsertAll, h1]
    dsimp only
    rw [h3]

/-- A sequence of `Insert` calls on the empty tree returns when the fuel is at least the
length of the sequence. -/
theorem InsertAll_total (leaf_max_size internal_max_size : Int) (oob : KeyType)
    (fuel : Nat) (pairs : List (KeyType × ValueType)) (hf : pairs.length ≤ fuel) :
    ∃ r, InsertAll fuel (construct leaf_max_size internal_max_size oob) pairs = some r :=
  InsertAll_returns fuel pairs _ (fun _ => 0) 0
    (WF_construct leaf_max_size internal_max_size oob).1
    (Ranked_construct leaf_max_size internal_max_size oob) (by omega)

end BPlusTree

namespace BPlusTree

theorem eq_some_of_isSome {α : Type} (o : Option α) (d : α) (h : o.isSome = true) :
    o = some (match o with
      | some x => x
      | none => d) := by
  cases o with
  | none => cases h
  | some x => rfl

set_option maxRecDepth 100000 in
theorem shapeScenario_isSome :
    (InsertAll 2 (construct 3 3 (-5)) shapePairs).isSome = true := by decide

theorem shapeScenario_run :
    InsertAll 2 (construct 3 3 (-5)) shapePairs = some shapeScenario :=
  eq_some_of_isSome _ ([], construct 3 3 (-5)) shapeScenario_isSome

set_option maxRecDepth 100000 in
theorem shapeScenario_facts :
    shapeScenario.1 = [true, true, true, true, true]
    ∧ shapeScenario.2.root_page_id = 6 ∧ shapeScenario.2.next_page_id = 7
    ∧ (shapeScenario.2.page 4).page_type = IndexPageType.LEAF_PAGE
    ∧ (shapeScenario.2.page 4).size = 1
    ∧ shapeScenario.2.leaf_max_size = 3
    ∧ (shapeScenario.2.page 5).page_type = IndexPageType.INTERNAL_PAGE
    ∧ (shapeScenario.2.page 5).size = 1
    ∧ shapeScenario.2.internal_max_size = 3 := by decide

/-- Claim C35 as stated fails: with `leaf_max_size = 3` and `internal_max_size = 3`, after
the five successful insertions of the keys 1 to 5 the leaf page 4 and the internal
page 5, neither of them the root, have size 1, which is below `⌈3/2⌉ = 2`. -/
theorem size_below_ceil :
    ∃ r, InsertAll 2 (construct 3 3 (-5)) shapePairs = some r
      ∧ r.1 = [true, true, true, true, true]
      ∧ IsTreePage r.2 4 ∧ 4 ≠ r.2.root_page_id
      ∧ (r.2.page 4).page_type = IndexPageType.LEAF_PAGE
      ∧ ¬ ((r.2.leaf_max_size + 1) / 2 ≤ (r.2.page 4).size)
      ∧ IsTreePage r.2 5 ∧ 5 ≠ r.2.root_page_id
      ∧ (r.2.page 5).page_type = IndexPageType.INTERNAL_PAGE
      ∧ ¬ ((r.2.internal_max_size + 1) / 2 ≤ (r.2.page 5).size) := by
  obtain ⟨h1, h2, h3, h4, h5, h6, h7, h8, h9⟩ := shapeScenario_facts
  refine ⟨shapeScenario, shapeScenario_run, h1, ?_, ?_, h4, ?_, ?_, ?_, h7, ?_⟩
  · unfold IsTreePage; rw [h3]; decide
  · rw [h2]; decide
  · rw [h6, h5]; decide
  · unfold IsTreePage; rw [h3]; decide
  · rw [h2]; decide
  · rw [h9, h8]; decide

/-- Claim C35, amended: for every `leaf_max_size ≥ 2` and `internal_max_size ≥ 3`, after any
sequence of `Insert` calls on the empty tree every leaf page other than the root has
a size in `[⌊leaf_max_size/2⌋, leaf_max_size - 1]` and every internal page other than
the root a size in `[⌊internal_max_size/2⌋, internal_max_size - 1]`; and the sequence of
calls returns whenever the fuel is at least its length. -/
theorem size_bounds_floor (leaf_max_size internal_max_size : Int) (oob : KeyType)
    (fuel : Nat) (pairs : List (KeyType × ValueType)) (r : List Bool × BPlusTree)
    (hl : 2 ≤ leaf_max_size) (hi : 3 ≤ internal_max_size)
    (h : InsertAll fuel (construct leaf_max_size internal_max_size oob) pairs = some r) :
    (∀ P, IsTreePage r.2 P → P ≠ r.2.root_page_id →
      ((r.2.page P).page_type = IndexPageType.LEAF_PAGE →
        leaf_max_size / 2 ≤ (r.2.page P).size ∧ (r.2.page P).size ≤ leaf_max_size - 1)
      ∧ ((r.2.page P).page_type = IndexPageType.INTERNAL_PAGE →
        internal_max_size / 2 ≤ (r.2.page P).size
        ∧ (r.2.page P).size ≤ internal_max_size - 1))
    ∧ (∀ n, pairs.length ≤ n →
        ∃ r0, InsertAll n (construct leaf_max_size internal_max_size oob) pairs = some r0) := by
  obtain ⟨bs, t⟩ := r
  obtain ⟨w, sb⟩ := WF_construct leaf_max_size internal_max_size oob
  obtain ⟨_, a2, a3, a4⟩ := InsertAll_WF fuel pairs _ bs t w h
  have hb := a4 hl hi sb
  have a2 : t.leaf_max_size = leaf_max_size := a2
  have a3 : t.internal_max_size = internal_max_size := a3
  refine ⟨?_, fun n hn => InsertAll_total leaf_max_size internal_max_size oob n pairs hn⟩
  intro P hP hroot
  obtain ⟨b1, b2⟩ := hb P hP
  have b3 := b2 (Or.inl hroot)
  refine ⟨fun hty => ?_, fun hty => ?_⟩
  · rw [pageMax_leaf t P hty, a2] at b1 b3
    exact ⟨b3, b1⟩
  · rw [pageMax_internal t P hty, a3] at b1 b3
    exact ⟨b3, b1⟩

/-- Witness for `size_bounds_floor`: the keys 1 to 5 inserted with `leaf_max_size = 3` and
`internal_max_size = 3`. -/
theorem size_bounds_floor_witness :
    InsertAll 2 (construct 3 3 (-5)) shapePairs = some shapeScenario
    ∧ ∀ P, IsTreePage shapeScenario.2 P → P ≠ shapeScenario.2.root_page_id →
      ((shapeScenario.2.page P).page_type = IndexPageType.LEAF_PAGE →
        (3 : Int) / 2 ≤ (shapeScenario.2.page P).size
        ∧ (shapeScenario.2.page P).size ≤ 3 - 1)
      ∧ ((shapeScenario.2.page P).page_type = IndexPageType.INTERNAL_PAGE →
        (3 : Int) / 2 ≤ (shapeScenario.2.page P).size
        ∧ (shapeScenario.2.page P).size ≤ 3 - 1) :=
  ⟨shapeScenario_run,
    (size_bounds_floor 3 3 (-5) 2 shapePairs shapeScenario (by decide) (by decide)
      shapeScenario_run).1⟩

/-- Claim C37: after any sequence of `Insert` calls on the empty tree, for every internal
page `P` of the tree and every index `i < size(P)` the child page `ValueAt(i)` has the
page id of `P` as its parent page id, and the root page, when there is one, has the
parent page id INVALID; `MoveHalfTo` of an internal page to an empty page sets the
parent page id of every child it moves to the page id of the recipient; and the
sequence of calls returns whenever the fuel is at least its length. -/
theorem parent_pointers_consistent (leaf_max_size internal_max_size : Int) (oob : KeyType)
    (fuel : Nat) (pairs : List (KeyType × ValueType)) (r : List Bool × BPlusTree)
    (h : InsertAll fuel (construct leaf_max_size internal_max_size oob) pairs = some r) :
    (∀ P, IsTreePage r.2 P → (r.2.page P).page_type = IndexPageType.INTERNAL_PAGE →
      ∀ i, 0 ≤ i → i < (r.2.page P).size →
        (r.2.page (BPlusTreeInternalPage.ValueAt (r.2.page P) i)).parent_page_id
          = (r.2.page P).page_id)
    ∧ (r.2.root_page_id ≠ INVALID_PAGE_ID →
        (r.2.page r.2.root_page_id).parent_page_id = INVALID_PAGE_ID)
    ∧ (∀ (t : BPlusTree) (node recipient : page_id_t), node ≠ recipient →
        0 ≤ (t.page node).size → (t.page recipient).size = 0 →
        (∀ j, 0 ≤ j → j < (t.page node).size →
          BPlusTreeInternalPage.ValueAt (t.page node) j ≠ recipient
          ∧ BPlusTreeInternalPage.ValueAt (t.page node) j ≠ node) →
        ∀ j, (t.page node).size - (t.page node).size / 2 ≤ j → j < (t.page node).size →
          ((InternalMoveHalfTo t node recipient).page
            (BPlusTreeInternalPage.ValueAt (t.page node) j)).parent_page_id
            = (t.page recipient).page_id)
    ∧ (∀ n, pairs.length ≤ n →
        ∃ r0, InsertAll n (construct leaf_max_size internal_max_size oob) pairs = some r0) := by
  obtain ⟨bs, t⟩ := r
  obtain ⟨w, _⟩ := WF_construct leaf_max_size internal_max_size oob
  obtain ⟨a1, _, _, _⟩ := InsertAll_WF fuel pairs _ bs t w h
  refine ⟨?_, ?_, ?_,
    fun n hn => InsertAll_total leaf_max_size internal_max_size oob n pairs hn⟩
  · intro P hP hty i hi1 hi2
    rw [a1.core.page_id_eq P hP]
    exact (a1.core.child_of P hP hty i hi1 hi2).2.1
  · intro hr
    rcases a1.root_cases with ⟨e, _⟩ | ⟨_, e⟩
    · exact absurd e hr
    · exact e
  · intro t0 node recipient hnr hsz hr0 hch j hj1 hj2
    have := (InternalMoveHalfTo_pages t0 node recipient hnr hsz hr0 hch).2.2.2.2.2.2.1 j hj1 hj2
    unfold BPlusTreeInternalPage.ValueAt
    rw [this]

/-- Witness for `parent_pointers_consistent`: the keys 1 to 5 inserted with
`leaf_max_size = 3` and `internal_max_size = 3`, a run with an internal-page split and
two root replacements. -/
theorem parent_pointers_consistent_witness :
    InsertAll 2 (construct 3 3 (-5)) shapePairs = some shapeScenario
    ∧ (∀ P, IsTreePage shapeScenario.2 P →
      (shapeScenario.2.page P).page_type = IndexPageType.INTERNAL_PAGE →
      ∀ i, 0 ≤ i → i < (shapeScenario.2.page P).size →
        (shapeScenario.2.page
          (BPlusTreeInternalPage.ValueAt (shapeScenario.2.page P) i)).parent_page_id
          = (shapeScenario.2.page P).page_id)
    ∧ (shapeScenario.2.root_page_id ≠ INVALID_PAGE_ID →
        (shapeScenario.2.page shapeScenario.2.root_page_id).parent_page_id
          = INVALID_PAGE_ID) :=
  ⟨shapeScenario_run,
    (parent_pointers_consistent 3 3 (-5) 2 shapePairs shapeScenario shapeScenario_run).1,
    (parent_pointers_consistent 3 3 (-5) 2 shapePairs shapeScenario shapeScenario_run).2.1⟩

end BPlusTree

namespace BufferPoolManagerInstance

/-- The scenario `flushAllScenario` is reached by calls in which `UnpinPgImp` is applied to
pinned pages only. -/
theorem flushAllScenario_reachable : Reachable flushAllScenario := by
  have h0 := Reachable.construct 2 1 0 (fun _ => zeroData)
  have h1 := h0.NewPg
  have h2 := h1.NewPg
  have h3 := h2.UnpinPg 0 false (by
    intro f hf
    have e : (NewPgImp (NewPgImp (construct 2 1 0 (fun _ => zeroData))).2).2.page_table 0
        = some 0 := by decide
    rw [e] at hf
    cases hf
    decide)
  have h4 := h3.NewPg
  have h5 := h4.WriteData 0 (fun _ => 7)
  exact h5.UnpinPg 2 true (by
    intro f hf
    have e : (WriteData (NewPgImp (UnpinPgImp
        (NewPgImp (NewPgImp (construct 2 1 0 (fun _ => zeroData))).2).2 0 false).2).2
        0 (fun _ => 7)).page_table 2 = some 0 := by decide
    rw [e] at hf
    cases hf
    decide)

theorem flushedScenario_reachable : Reachable flushedScenario :=
  flushAllScenario_reachable.FlushAllPgs

theorem refetchedScenario_reachable : Reachable refetchedScenario :=
  (flushedScenario_reachable.DeletePg 0).FetchPg 0

/-- C7, the code evaluated on `flushedScenario`, a state reached through the public
operations: page id 0 is in the page table (it leads to frame 0) and the frame
has pin count 0, so `DeletePgImp` for page id 0 takes its third case and returns
true. Afterwards page id 0 is still in the page table: the entry erased is the
one of page 2, the page id recorded in the frame. Frame 0 has been reset and
appended to the free list. -/
theorem DeletePgImp_leaves_page_mapped :
    Reachable flushedScenario
    ∧ flushedScenario.page_table 0 = some 0
    ∧ (flushedScenario.pages 0).pin_count = 0
    ∧ (flushedScenario.pages 0).page_id = 2
    ∧ flushedScenario.page_table 2 = some 0
    ∧ (DeletePgImp flushedScenario 0).1 = true
    ∧ (DeletePgImp flushedScenario 0).2.page_table 0 = some 0
    ∧ (DeletePgImp flushedScenario 0).2.page_table 2 = none
    ∧ ((DeletePgImp flushedScenario 0).2.pages 0).page_id = INVALID_PAGE_ID
    ∧ (DeletePgImp flushedScenario 0).2.free_list = [0] := by
  refine ⟨flushedScenario_reachable, ?_, ?_, ?_, ?_, ?_, ?_, ?_, ?_, ?_⟩ <;> decide

/-- C3, the code evaluated on `refetchedScenario`, a state reached through the public
operations with `UnpinPgImp` applied to pinned pages only: each of the two frames
of the pool holds a resident page (the page table leads from page id 0 to frame
0 and from page id 1 to frame 1) and has pin count 1, and `NewPgImp` does not
return `nullptr`: it returns frame 0, which is on the free list, with the new
page id 3, and the pin count of frame 0 is 1 again although the frame was pinned
by the fetch of page 0. -/
theorem NewPgImp_returns_pinned_frame :
    Reachable refetchedScenario
    ∧ refetchedScenario.pool_size = 2
    ∧ refetchedScenario.page_table 0 = some 0
    ∧ refetchedScenario.page_table 1 = some 1
    ∧ (refetchedScenario.pages 0).pin_count = 1
    ∧ (refetchedScenario.pages 1).pin_count = 1
    ∧ (∀ f, f < refetchedScenario.pool_size →
        (∃ pid, refetchedScenario.page_table pid = some f)
        ∧ 0 < (refetchedScenario.pages f).pin_count)
    ∧ refetchedScenario.free_list = [0]
    ∧ (NewPgImp refetchedScenario).1 = some (0, 3)
    ∧ (NewPgImp refetchedScenario).1 ≠ none
    ∧ (NewPgImp refetchedScenario).2.page_table 0 = some 0
    ∧ ((NewPgImp refetchedScenario).2.pages 0).page_id = 3 := by
  have h1 : refetchedScenario.pool_size = 2 := by decide
  have h2 : refetchedScenario.page_table 0 = some 0 := by decide
  have h3 : refetchedScenario.page_table 1 = some 1 := by decide
  have h4 : (refetchedScenario.pages 0).pin_count = 1 := by decide
  have h5 : (refetchedScenario.pages 1).pin_count = 1 := by decide
  refine ⟨refetchedScenario_reachable, h1, h2, h3, h4, h5, ?_, by decide, by decide,
    by decide, by decide, by decide⟩
  intro f hf
  rw [h1] at hf
  have hc : f = 0 ∨ f = 1 := by omega
  rcases hc with e | e
  · subst e; exact ⟨⟨0, h2⟩, by rw [h4]; decide⟩
  · subst e; exact ⟨⟨1, h3⟩, by rw [h5]; decide⟩

end BufferPoolManagerInstance
namespace BufferPoolManagerInstance

end BufferPoolManagerInstance
namespace ExtendibleHashTable

open HashTableDirectoryPage

theorem splitDirLoop_depth (bp np : page_id_t) (b nb : Nat) :
    ∀ (n i : Nat) (d : HashTableDirectoryPage),
      (splitDirLoop bp np b nb n i d).global_depth = d.global_depth := by
  intro n
  induction n with
  | zero => intro i d; rfl
  | succ n ih =>
    intro i d
    rw [splitDirLoop, ih]
    split_ifs <;> rfl

theorem mergeDirLoop_depth (bp : page_id_t) (nb : Nat) :
    ∀ (n i : Nat) (d : HashTableDirectoryPage),
      (mergeDirLoop bp nb n i d).global_depth = d.global_depth := by
  intro n
  induction n with
  | zero => intro i d; rfl
  | succ n ih =>
    intro i d
    rw [mergeDirLoop, ih]
    split_ifs <;> rfl

/-- The body of `SplitInsert` does not lower the global depth. -/
theorem SplitInsertBody_depth_le (hash : KeyType → Nat) (cap : Nat) (t : ExtendibleHashTable)
    (key : KeyType) (value : ValueType) :
    t.directory.global_depth
      ≤ (SplitInsertBody hash cap t key value).2.directory.global_depth := by
  simp only [SplitInsertBody]
  cases hfull : HashTableBucketPage.IsFull cap (t.bucket (KeyToPageId hash key t.directory))
  · simp only [Bool.not_false, if_true]
    exact le_refl _
  · simp only [Bool.not_true]
    rw [if_neg (by simp)]
    show _ ≤ (splitDirLoop _ _ _ _ _ _ _).global_depth
    rw [splitDirLoop_depth]
    show _ ≤ (if t.directory.global_depth
        = t.directory.GetLocalDepth (KeyToDirectoryIndex hash key t.directory)
      then t.directory.IncrGlobalDepth else t.directory).global_depth
    split_ifs
    · rw [(IncrGlobalDepth_get t.directory).1]; exact Nat.le_succ _
    · exact le_refl _

/-- A call of `Insert` that returns does not lower the global depth: the directories of
the calls it makes lie between the one at its start and the one at its end. -/
theorem Insert_depth_le (hash : KeyType → Nat) (cap : Nat) :
    ∀ (fuel : Nat) (t : ExtendibleHashTable) (key : KeyType) (value : ValueType)
      (r : Bool × ExtendibleHashTable),
      ExtendibleHashTable.Insert hash cap fuel t key value = some r →
      t.directory.global_depth ≤ r.2.directory.global_depth := by
  intro fuel
  induction fuel with
  | zero =>
    intro t key value r he
    simp [ExtendibleHashTable.Insert] at he
  | succ fuel ih =>
    intro t key value r he
    simp only [ExtendibleHashTable.Insert] at he
    have hs := SplitInsertBody_depth_le hash cap t key value
    split at he
    · rcases hb : SplitInsertBody hash cap t key value with ⟨o, t1⟩
      rw [hb] at he hs
      cases o with
      | some b =>
        injection he with he
        rw [← he]
        exact hs
      | none => exact le_trans hs (ih t1 key value r he)
    · injection he with he
      rw [← he]
      exact le_refl _

/-- A call of `SplitInsert` that returns does not lower the global depth. -/
theorem SplitInsert_depth_le (hash : KeyType → Nat) (cap : Nat) (fuel : Nat)
    (t : ExtendibleHashTable) (key : KeyType) (value : ValueType)
    (r : Bool × ExtendibleHashTable)
    (he : SplitInsert hash cap fuel t key value = some r) :
    t.directory.global_depth ≤ r.2.directory.global_depth := by
  unfold SplitInsert at he
  have hs := SplitInsertBody_depth_le hash cap t key value
  rcases hb : SplitInsertBody hash cap t key value with ⟨o, t1⟩
  rw [hb] at he hs
  cases o with
  | some b =>
    injection he with he
    rw [← he]
    exact hs
  | none => exact le_trans hs (Insert_depth_le hash cap fuel t1 key value r he)

/-- The directory with which `Merge` calls itself has at most the global depth of the
directory it started on. -/
theorem mergeStepDirectory_depth_le (hash : KeyType → Nat) (t : ExtendibleHashTable)
    (key : KeyType) :
    (mergeStepDirectory hash t key).global_depth ≤ t.directory.global_depth := by
  unfold mergeStepDirectory
  dsimp only
  split_ifs
  · show (mergeDirLoop _ _ _ _ _).global_depth - 1 ≤ _
    rw [mergeDirLoop_depth]
    exact Nat.sub_le _ _
  · rw [mergeDirLoop_depth]
    exact le_refl _

/-- A call of `Merge` that returns does not raise the global depth. -/
theorem Merge_depth_le (hash : KeyType → Nat) (cap : Nat) :
    ∀ (fuel : Nat) (t : ExtendibleHashTable) (key : KeyType) (r : ExtendibleHashTable),
      Merge hash cap fuel t key = some r →
      r.directory.global_depth ≤ t.directory.global_depth := by
  intro fuel
  induction fuel with
  | zero =>
    intro t key r he
    simp [Merge] at he
  | succ fuel ih =>
    intro t key r he
    simp only [Merge] at he
    split at he
    · injection he with he
      rw [← he]
    · split at he
      · split at he
        · exact le_trans (ih _ key r he) (mergeStepDirectory_depth_le hash t key)
        · injection he with he
          rw [← he]
      · injection he with he
        rw [← he]

/-- A call of `Remove` that returns does not raise the global depth. -/
theorem Remove_depth_le (hash : KeyType → Nat) (cap : Nat) (fuel : Nat)
    (t : ExtendibleHashTable) (key : KeyType) (value : ValueType)
    (r : Bool × ExtendibleHashTable)
    (he : Remove hash cap fuel t key value = some r) :
    r.2.directory.global_depth ≤ t.directory.global_depth := by
  simp only [Remove] at he
  split at he
  · cases hm : Merge hash cap fuel
        (t.setBucket (KeyToPageId hash key t.directory)
          (HashTableBucketPage.Remove cap (t.bucket (KeyToPageId hash key t.directory))
            key value).2) key with
    | none => rw [hm] at he; cases he
    | some t1 =>
      rw [hm] at he
      injection he with he
      rw [← he]
      exact Merge_depth_le hash cap fuel (t.setBucket _ _) key t1 hm
  · injection he with he
    rw [← he]
    exact le_refl _

/-- A run within the directory page is a run. -/
theorem ReachedInPage.reached {hash : KeyType → Nat} {cap : Nat} {t : ExtendibleHashTable}
    (h : ReachedInPage hash cap t) : Reached hash cap t := by
  induction h with
  | construct => exact Reached.construct
  | Insert _ fuel key value r he _ ih => exact Reached.Insert ih fuel key value r he
  | Remove _ fuel key value r he _ ih => exact Reached.Remove ih fuel key value r he
  | SplitInsert _ fuel key value r he _ ih => exact Reached.SplitInsert ih fuel key value r he
  | Merge _ fuel key r he _ ih => exact Reached.Merge ih fuel key r he

/-- The directory of a run within the directory page fits the page. -/
theorem ReachedInPage.depth_le {hash : KeyType → Nat} {cap : Nat} {t : ExtendibleHashTable}
    (h : ReachedInPage hash cap t) : t.directory.global_depth ≤ MAX_DEPTH := by
  cases h with
  | construct => decide
  | Insert _ _ _ _ _ _ hd => exact hd
  | Remove _ _ _ _ _ _ hd => exact hd
  | SplitInsert _ _ _ _ _ _ hd => exact hd
  | Merge _ _ _ _ _ hd => exact hd

/-- A sequence of `Insert` calls that returns does not lower the global depth. -/
theorem InsertAll_depth_le (hash : KeyType → Nat) (cap : Nat) (fuel : Nat) :
    ∀ (pairs : List (KeyType × ValueType)) (t : ExtendibleHashTable)
      (r : List Bool × ExtendibleHashTable),
      ExtendibleHashTable.InsertAll hash cap fuel t pairs = some r →
      t.directory.global_depth ≤ r.2.directory.global_depth := by
  intro pairs
  induction pairs with
  | nil =>
    intro t r he
    simp only [ExtendibleHashTable.InsertAll] at he
    injection he with he
    rw [← he]
  | cons p rest ih =>
    intro t r he
    obtain ⟨key, value⟩ := p
    simp only [ExtendibleHashTable.InsertAll] at he
    cases h1 : ExtendibleHashTable.Insert hash cap fuel t key value with
    | none => simp only [h1] at he; cases he
    | some r1 =>
      obtain ⟨b, t1⟩ := r1
      simp only [h1] at he
      cases h2 : ExtendibleHashTable.InsertAll hash cap fuel t1 rest with
      | none => simp only [h2] at he; cases he
      | some r2 =>
        obtain ⟨bs, t2⟩ := r2
        simp only [h2] at he
        injection he with he
        rw [← he]
        exact le_trans (Insert_depth_le hash cap fuel t key value (b, t1) h1)
          (ih t1 (bs, t2) h2)

/-- A sequence of `Insert` calls that ends within the directory page stays within it. -/
theorem ReachedInPage_InsertAll {hash : KeyType → Nat} {cap : Nat} (fuel : Nat) :
    ∀ (pairs : List (KeyType × ValueType)) (t : ExtendibleHashTable)
      (r : List Bool × ExtendibleHashTable),
      ReachedInPage hash cap t →
      ExtendibleHashTable.InsertAll hash cap fuel t pairs = some r →
      r.2.directory.global_depth ≤ MAX_DEPTH → ReachedInPage hash cap r.2 := by
  intro pairs
  induction pairs with
  | nil =>
    intro t r h he _
    simp only [ExtendibleHashTable.InsertAll] at he
    injection he with he
    rw [← he]
    exact h
  | cons p rest ih =>
    intro t r h he hd
    obtain ⟨key, value⟩ := p
    simp only [ExtendibleHashTable.InsertAll] at he
    cases h1 : ExtendibleHashTable.Insert hash cap fuel t key value with
    | none => simp only [h1] at he; cases he
    | some r1 =>
      obtain ⟨b, t1⟩ := r1
      simp only [h1] at he
      cases h2 : ExtendibleHashTable.InsertAll hash cap fuel t1 rest with
      | none => simp only [h2] at he; cases he
      | some r2 =>
        obtain ⟨bs, t2⟩ := r2
        simp only [h2] at he
        injection he with he
        rw [← he]
        rw [← he] at hd
        have hmono := InsertAll_depth_le hash cap fuel rest t1 (bs, t2) h2
        exact ih t1 (bs, t2)
          (ReachedInPage.Insert h fuel key value (b, t1) h1 (le_trans hmono hd)) h2 hd

/-- A sequence of `Remove` calls from a state within the directory page stays within it. -/
theorem ReachedInPage_RemoveAll {hash : KeyType → Nat} {cap : Nat} (fuel : Nat) :
    ∀ (pairs : List (KeyType × ValueType)) (t : ExtendibleHashTable)
      (r : List Bool × ExtendibleHashTable),
      ReachedInPage hash cap t →
      ExtendibleHashTable.RemoveAll hash cap fuel t pairs = some r →
      ReachedInPage hash cap r.2 := by
  intro pairs
  induction pairs with
  | nil =>
    intro t r h he
    simp only [ExtendibleHashTable.RemoveAll] at he
    injection he with he
    rw [← he]
    exact h
  | cons p rest ih =>
    intro t r h he
    obtain ⟨key, value⟩ := p
    simp only [ExtendibleHashTable.RemoveAll] at he
    cases h1 : ExtendibleHashTable.Remove hash cap fuel t key value with
    | none => simp only [h1] at he; cases he
    | some r1 =>
      obtain ⟨b, t1⟩ := r1
      simp only [h1] at he
      cases h2 : ExtendibleHashTable.RemoveAll hash cap fuel t1 rest with
      | none => simp only [h2] at he; cases he
      | some r2 =>
        obtain ⟨bs, t2⟩ := r2
        simp only [h2] at he
        injection he with he
        rw [← he]
        exact ih t1 (bs, t2)
          (ReachedInPage.Remove h fuel key value (b, t1) h1
            (le_trans (Remove_depth_le hash cap fuel t key value (b, t1) h1) h.depth_le)) h2

set_option maxRecDepth 100000 in
theorem sharingScenario_depth : sharingScenario.directory.global_depth = 3 := by decide

/-- The scenario `depthScenario` is a run within the directory page. -/
theorem depthScenario_inPage : ReachedInPage idHash 4 depthScenario := by
  unfold depthScenario
  cases h1 : ExtendibleHashTable.InsertAll idHash 4 3 construct mergeScenarioPairs with
  | none => exact ReachedInPage.construct
  | some r =>
    have e : sharingScenario = r.2 := by
      unfold sharingScenario
      rw [h1]
    have hd : r.2.directory.global_depth ≤ MAX_DEPTH := by
      rw [← e, sharingScenario_depth]
      decide
    have hr := ReachedInPage_InsertAll 3 mergeScenarioPairs construct r
      ReachedInPage.construct h1 hd
    dsimp only
    cases h2 : ExtendibleHashTable.RemoveAll idHash 4 4 r.2
        [(0, 100), (8, 108), (16, 116), (24, 124)] with
    | none => exact hr
    | some r2 => exact ReachedInPage_RemoveAll 4 _ r.2 r2 hr h2

/-- C30. Hash directory depth invariant. In every state reached from a freshly
constructed table by calls of `Insert`, `Remove`, `SplitInsert` and `Merge` that stay
within the directory page (global depth at most `MAX_DEPTH = 9`, the 512 slots of
the page), for every hash function and bucket capacity, every directory slot `s`
below `2 ^ global_depth` has `local_depth[s] <= global_depth`; the slots are slots of
the page, and the local depths are at most `MAX_DEPTH`. -/
theorem directory_depth_invariant (hash : KeyType → Nat) (cap : Nat) (t : ExtendibleHashTable)
    (h : ReachedInPage hash cap t) :
    (∀ s, s < 2 ^ t.directory.global_depth →
      t.directory.GetLocalDepth s ≤ t.directory.global_depth)
    ∧ t.directory.global_depth ≤ MAX_DEPTH
    ∧ 2 ^ t.directory.global_depth ≤ 512
    ∧ (∀ s, s < 2 ^ t.directory.global_depth → t.directory.GetLocalDepth s ≤ MAX_DEPTH) := by
  have h1 := (Reached.dirInv h.reached).depth_le
  have h2 := h.depth_le
  have h3 : 2 ^ t.directory.global_depth ≤ 512 :=
    le_trans (Nat.pow_le_pow_right (by decide) h2) (by decide)
  refine ⟨fun s hs => h1 s (by rw [Size_eq]; exact hs), h2, h3, fun s hs => ?_⟩
  exact le_trans (h1 s (by rw [Size_eq]; exact hs)) h2

/-- Witness for C30: bucket capacity 4, eleven pairs inserted (the directory grows
to global depth 3) and four pairs removed (the last removal merges two buckets
and the directory shrinks to global depth 2). -/
theorem directory_depth_invariant_witness :
    ReachedInPage idHash 4 depthScenario
    ∧ depthScenario.directory.global_depth = 2
    ∧ (List.range 4).map depthScenario.directory.GetLocalDepth = [2, 2, 2, 2]
    ∧ ∀ s, s < 2 ^ depthScenario.directory.global_depth →
      depthScenario.directory.GetLocalDepth s ≤ depthScenario.directory.global_depth :=
  ⟨depthScenario_inPage, by decide, by decide,
    (directory_depth_invariant idHash 4 depthScenario depthScenario_inPage).1⟩

end ExtendibleHashTable

end bustub
